import Mathlib

set_option linter.all false

/-!
# A shallow embedding of the OpenBSD `malloc.c` allocator (rev 1.285)

The definitions follow `src/lib/libc/stdlib/malloc.c`.  Machine integers are
natural numbers with explicit reduction modulo `2 ^ w` wherever the C code can
wrap or truncate.  The page shift `_MAX_PAGE_SHIFT` comes from a machine header
and is a parameter `ps` of every definition that depends on it.  The embedding
is the LP64 build with `MALLOC_STATS` defined (the default, since `MALLOC_SMALL`
is not defined).
-/

namespace OMalloc

/-! ## Constants and macros -/

/-- `MALLOC_MINSHIFT`. -/
def MALLOC_MINSHIFT : Nat := 4

/-- `MALLOC_MAXSHIFT`, one less than the page shift. -/
def MALLOC_MAXSHIFT (ps : Nat) : Nat := ps - 1

/-- `MALLOC_PAGESIZE`, the value `1UL << MALLOC_PAGESHIFT`. -/
def MALLOC_PAGESIZE (ps : Nat) : Nat := 1 <<< ps

/-- `MALLOC_MINSIZE`, the value `1UL << MALLOC_MINSHIFT`. -/
def MALLOC_MINSIZE : Nat := 1 <<< MALLOC_MINSHIFT

/-- `MALLOC_PAGEMASK`. -/
def MALLOC_PAGEMASK (ps : Nat) : Nat := MALLOC_PAGESIZE ps - 1

/-- `MALLOC_MAXCHUNK`, the value `1 << MALLOC_MAXSHIFT`. -/
def MALLOC_MAXCHUNK (ps : Nat) : Nat := 1 <<< MALLOC_MAXSHIFT ps

/-- `B2SIZE(b)`. -/
def B2SIZE (b : Nat) : Nat := b * MALLOC_MINSIZE

/-- `B2ALLOC(b)`. -/
def B2ALLOC (b : Nat) : Nat := if b = 0 then MALLOC_MINSIZE else b * MALLOC_MINSIZE

/-- `BUCKETS`. -/
def BUCKETS (ps : Nat) : Nat := MALLOC_MAXCHUNK ps / MALLOC_MINSIZE

/-- `SIZE_MAX` of the LP64 build. -/
def SIZE_MAX : Nat := 2 ^ 64 - 1

/-- Bitwise complement of a `size_t` / `uintptr_t` value. -/
def not64 (x : Nat) : Nat := 2 ^ 64 - 1 - x % 2 ^ 64

/-- Bitwise complement of an `unsigned int` value. -/
def not32 (x : Nat) : Nat := 2 ^ 32 - 1 - x % 2 ^ 32

/-- `MASK_POINTER(p)`: clear the in-page bits of a pointer. -/
def MASK_POINTER (ps : Nat) (p : Nat) : Nat := p &&& not64 (MALLOC_PAGEMASK ps)

/-- `PAGEROUND(x)` on `size_t`. -/
def PAGEROUND (ps : Nat) (x : Nat) : Nat :=
  ((x + MALLOC_PAGEMASK ps) % 2 ^ 64) &&& not64 (MALLOC_PAGEMASK ps)

/-- `howmany(x, y)` from `sys/param.h`: `((x) + ((y) - 1)) / (y)`. -/
def howmany (x y : Nat) : Nat := (x + (y - 1)) / y

/-- The fields of `struct malloc_readonly` that the allocator reads. -/
structure malloc_readonly where
  malloc_mutexes : Nat
  malloc_freecheck : Nat
  malloc_freeunmap : Nat
  def_malloc_junk : Nat
  malloc_realloc : Nat
  malloc_xmalloc : Nat
  chunk_canaries : Nat
  internal_funcs : Nat
  def_maxcache : Nat
  junk_loc : Nat
  malloc_guard : Nat
  malloc_stats : Nat
  malloc_verbose : Nat
  malloc_canary : Nat
deriving DecidableEq

/-! ## Size classes -/

/-- Number of significant bits of `x`, looking at no more than `fuel` bits. -/
def bitLength : Nat → Nat → Nat
  | 0, _ => 0
  | fuel + 1, x => if x = 0 then 0 else bitLength fuel (x / 2) + 1

/-- `__builtin_clz` on a 32-bit `unsigned int` (undefined in C for `0`). -/
def builtin_clz (x : Nat) : Nat := 32 - bitLength 32 (x % 2 ^ 32)

/-- `lb(x)`: `(sizeof(int) * CHAR_BIT - 1) - __builtin_clz(x)`. -/
def lb (x : Nat) : Nat := (4 * 8 - 1) - builtin_clz x

/-- `bin_of(size)` on `unsigned int`; `mask` is the truncation of
`(1ULL << shift) - 1`. -/
def bin_of (size : Nat) : Nat :=
  let linear := 6
  let subbin := 2
  let n_bits := lb (size ||| (1 <<< linear))
  let shift := n_bits - subbin
  let mask := ((1 <<< shift) - 1) % 2 ^ 32
  let rounded := (size + mask) % 2 ^ 32
  let rounded_size := rounded &&& not32 mask
  rounded_size

/-- `find_bucket(size)`; the parameter and the result are `u_short`. -/
def find_bucket (mopts : malloc_readonly) (size0 : Nat) : Nat :=
  let size := size0 % 2 ^ 16
  if size = 0 then 0
  else
    let size := if size < MALLOC_MINSIZE then MALLOC_MINSIZE else size
    let size := if mopts.def_maxcache ≠ 0 then bin_of size % 2 ^ 16 else size
    howmany size MALLOC_MINSIZE % 2 ^ 16

/-- The default options set at the head of `omalloc_init`, with all other fields
zero and the given process canary. -/
def default_mopts (canary : Nat) : malloc_readonly :=
  { malloc_mutexes := 8, malloc_freecheck := 0, malloc_freeunmap := 0,
    def_malloc_junk := 1, malloc_realloc := 0, malloc_xmalloc := 0,
    chunk_canaries := 0, internal_funcs := 0, def_maxcache := 64,
    junk_loc := 0, malloc_guard := 0, malloc_stats := 0, malloc_verbose := 0,
    malloc_canary := canary }

/-! ## Outcomes -/

/-- The messages with which the allocator calls `wrterror`, which aborts. -/
inductive wrterror_msg where
  | internal_struct_corrupt
  | regions_total_not_2x
  | chunk_info_corrupted
  | modified_chunk_pointer
  | double_free
  | bogus_pointer
  | bogus_moved_pointer
  | mapalign_bad_alignment
  | mapalign_round
  | map_round
  | munmap_round
  | guard_size
  | mprotect
  | munmap
  | write_after_free
  | canary_corrupted
  | recorded_size
  | chunk_size
  | realloc_internal_inconsistency
  | out_of_memory
deriving DecidableEq

/-- What a call does: it returns a value, it aborts through `wrterror`, one of
its loops does not exit within the number of rounds the embedding allows, or it
runs into behaviour that C leaves undefined (the use of an uninitialised variable,
a null `LIST_FIRST` that is dereferenced).  For the probe loops of `insert`, `find`
and `omalloc_grow` the bound is the number of indices, so there `diverge` means that
the C loop never exits; for `delete` the bound is the number of slots, which is
enough whenever some other slot is empty. -/
inductive Outcome (α : Type) where
  | ok : α → Outcome α
  | abort : wrterror_msg → Outcome α
  | diverge : Outcome α
  | undefined : Outcome α
deriving DecidableEq

/-! ## Region directory -/

/-- `sizeof(struct region_info)` with `MALLOC_STATS` on LP64. -/
def sizeof_region_info : Nat := 24

/-- `MALLOC_INITIAL_REGIONS` with `MALLOC_STATS`. -/
def MALLOC_INITIAL_REGIONS : Nat := 512

/-- `struct region_info`; a null `p` marks an empty slot. -/
structure region_info where
  p : Nat
  size : Nat
  f : Nat
deriving DecidableEq

/-- The directory part of `struct dir_info`.  `r` is the slot array (the empty list
stands for `d->r == NULL`), `self` is the address of the `dir_info` itself, which
enters the canary check.  The statistics counters are not modelled. -/
structure dir_info where
  canary1 : Nat
  r : List region_info
  regions_total : Nat
  regions_free : Nat
  mmap_flag : Nat
  malloc_junk : Nat
  canary2 : Nat
  self : Nat
deriving DecidableEq

/-- The slot `r[i]`. -/
def slot (r : List region_info) (i : Nat) : region_info := r.getD i ⟨0, 0, 0⟩

/-- `x + y` on `size_t`. -/
def add64 (x y : Nat) : Nat := (x + y) % 2 ^ 64

/-- `x - y` on `size_t`. -/
def sub64 (x y : Nat) : Nat := (x % 2 ^ 64 + 2 ^ 64 - y % 2 ^ 64) % 2 ^ 64

/-- `x << k` on `size_t`. -/
def shl64 (x k : Nat) : Nat := (x <<< k) % 2 ^ 64

/-- `hash(p)`, LP64 variant. -/
def hash (ps : Nat) (p : Nat) : Nat :=
  let u := (p % 2 ^ 64) >>> ps
  let sum := u
  let sum := add64 (sub64 (shl64 sum 7) sum) (u >>> 16)
  let sum := add64 (sub64 (shl64 sum 7) sum) (u >>> 32)
  let sum := add64 (sub64 (shl64 sum 7) sum) (u >>> 48)
  sum

/-- The canary test at the head of `find`, `map` and `malloc_bytes`; true when the
pool is judged corrupt. -/
def canary_corrupt (mopts : malloc_readonly) (d : dir_info) : Bool :=
  mopts.malloc_canary ≠ (d.canary1 ^^^ (d.self % 2 ^ 32)) ∨ d.canary1 ≠ not32 d.canary2

/-- `mask = d->regions_total - 1` on `size_t`. -/
def dir_mask (regions_total : Nat) : Nat := sub64 regions_total 1

/-- `(index - 1) & mask` on `size_t`. -/
def probe_next (index mask : Nat) : Nat := sub64 index 1 &&& mask

/-- The probe loop of `insert` and of the rehash in `omalloc_grow`:
`while (r[index].p != NULL) index = (index - 1) & mask;`.  The index only takes
values in `0 .. mask`, so a loop that has not left after `fuel > mask` rounds never
does; `none` stands for that. -/
def insert_probe (r : List region_info) (mask : Nat) : Nat → Nat → Option Nat
  | 0, _ => none
  | fuel + 1, index =>
    if (slot r index).p ≠ 0 then insert_probe r mask fuel (probe_next index mask)
    else some index

/-- The copy loop of `omalloc_grow`: every occupied old slot is stored in the new
table `p` at the first empty slot at or below its hash home. -/
def grow_rehash (ps : Nat) (mask : Nat) : List region_info → List region_info →
    Option (List region_info)
  | [], p => some p
  | e :: old, p =>
    if e.p ≠ 0 then
      match insert_probe p mask (mask + 1) (hash ps e.p &&& mask) with
      | none => none
      | some index => grow_rehash ps mask old (p.set index e)
    else grow_rehash ps mask old p

/-- `omalloc_grow(d)`.  `mmap_ok` tells whether the `MMAP` of the new table
succeeds.  The result is the return value and the directory afterwards. -/
def omalloc_grow (ps : Nat) (d : dir_info) (mmap_ok : Bool) : Outcome (Nat × dir_info) :=
  if d.regions_total > SIZE_MAX / sizeof_region_info / 2 then .ok (1, d)
  else
    let newtotal := if d.regions_total = 0 then MALLOC_INITIAL_REGIONS
      else d.regions_total * 2
    let mask := sub64 newtotal 1
    if ¬ mmap_ok then .ok (1, d)
    else
      match grow_rehash ps mask d.r (List.replicate newtotal ⟨0, 0, 0⟩) with
      | none => .diverge
      | some p =>
        .ok (0, { d with
          regions_free := add64 d.regions_free (sub64 newtotal d.regions_total)
          regions_total := newtotal
          r := p })

/-- `insert(d, p, sz, f)`.  The result is the return value and the directory
afterwards. -/
def insert (ps : Nat) (d : dir_info) (p sz f : Nat) (mmap_ok : Bool) :
    Outcome (Nat × dir_info) :=
  let grown : Outcome (Nat × dir_info) :=
    if d.regions_free * 4 % 2 ^ 64 < d.regions_total ∨ d.regions_total = 0 then
      omalloc_grow ps d mmap_ok
    else .ok (0, d)
  match grown with
  | .ok (0, d) =>
    let mask := dir_mask d.regions_total
    match insert_probe d.r mask (mask + 1) (hash ps p &&& mask) with
    | none => .diverge
    | some index =>
      .ok (0, { d with
        r := d.r.set index ⟨p, sz, f⟩
        regions_free := sub64 d.regions_free 1 })
  | .ok (_, d) => .ok (1, d)
  | .abort m => .abort m
  | .diverge => .diverge
  | .undefined => .undefined

/-- The probe loop of `find`:
`while (q != p && r != NULL) { index = (index - 1) & mask; ... }`; the result is the
index at which the loop stops. -/
def find_probe (ps : Nat) (r : List region_info) (mask p : Nat) : Nat → Nat → Option Nat
  | 0, _ => none
  | fuel + 1, index =>
    if MASK_POINTER ps (slot r index).p ≠ p ∧ (slot r index).p ≠ 0 then
      find_probe ps r mask p fuel (probe_next index mask)
    else some index

/-- `find(d, p)`: the index of the slot found, or `none` for `NULL`. -/
def find (ps : Nat) (mopts : malloc_readonly) (d : dir_info) (p : Nat) :
    Outcome (Option Nat) :=
  let mask := dir_mask d.regions_total
  if canary_corrupt mopts d then .abort .internal_struct_corrupt
  else if d.r = [] then .ok none
  else
    let p := MASK_POINTER ps p
    match find_probe ps d.r mask p (mask + 1) (hash ps p &&& mask) with
    | none => .diverge
    | some index =>
      if MASK_POINTER ps (slot d.r index).p = p ∧ (slot d.r index).p ≠ 0 then
        .ok (some index)
      else .ok none

/-- The stores `d->r[i].p = NULL; d->r[i].size = 0;` of `delete` on one slot; the
field `f` keeps its value. -/
def clear_slot (e : region_info) : region_info := { e with p := 0, size := 0 }

/-- The two nested loops of `delete` after the first slot has been cleared: `j` is
the hole and `i` the index last examined.  Each round steps `i` down; at an empty
slot the function returns; an entry whose home lies cyclically in `[i, j)` is
skipped; any other entry is copied into the hole, its slot is cleared (`p` and
`size` only) and becomes the new hole. -/
def delete_walk (ps : Nat) (mask : Nat) :
    Nat → List region_info → Nat → Nat → Option (List region_info)
  | 0, _, _, _ => none
  | fuel + 1, r, j, i0 =>
    let i := probe_next i0 mask
    if (slot r i).p = 0 then some r
    else
      let h := hash ps (slot r i).p &&& mask
      if (i ≤ h ∧ h < j) ∨ (h < j ∧ j < i) ∨ (j < i ∧ i ≤ h) then
        delete_walk ps mask fuel r j i
      else
        let r1 := r.set j (slot r i)
        let r2 := r1.set i (clear_slot (slot r1 i))
        delete_walk ps mask fuel r2 i i

/-- `delete(d, ri)` with `i = ri - d->r`. -/
def delete (ps : Nat) (d : dir_info) (i : Nat) : Outcome dir_info :=
  let mask := dir_mask d.regions_total
  if d.regions_total &&& sub64 d.regions_total 1 ≠ 0 then .abort .regions_total_not_2x
  else
    let r0 := d.r.set i (clear_slot (slot d.r i))
    match delete_walk ps mask (d.regions_total) r0 i i with
    | none => .diverge
    | some r => .ok { d with regions_free := add64 d.regions_free 1, r := r }

/-- `omalloc_poolinit(d, mmap_flag)` for the `dir_info` at address `self`. -/
def omalloc_poolinit (mopts : malloc_readonly) (self mmap_flag : Nat) : dir_info :=
  { r := []
    regions_free := 0
    regions_total := 0
    mmap_flag := mmap_flag
    malloc_junk := mopts.def_malloc_junk
    canary1 := mopts.malloc_canary ^^^ (self % 2 ^ 32)
    canary2 := not32 (mopts.malloc_canary ^^^ (self % 2 ^ 32))
    self := self }

/-- A small directory used to run the directory functions: eight slots on 4096-byte
pages, with the chunk page `0x1000` (tag 3) in its home slot 7 and the large regions
`0x9000` and `0x2000` displaced below it. -/
def example_dir : dir_info :=
  { omalloc_poolinit (default_mopts 7) 4096 0 with
    r := [⟨0, 0, 0⟩, ⟨0, 0, 0⟩, ⟨0, 0, 0⟩, ⟨0, 0, 0⟩, ⟨0, 0, 0⟩,
      ⟨0x2000, 8192, 0⟩, ⟨0x9000, 4096, 0⟩, ⟨0x1003, 77, 0⟩]
    regions_total := 8
    regions_free := 5 }

/-- The common shape of the probe loops: step the index down until `stop` holds. -/
def probe_until (stop : Nat → Bool) (mask : Nat) : Nat → Nat → Option Nat
  | 0, _ => none
  | fuel + 1, index =>
    if stop index then some index else probe_until stop mask fuel (probe_next index mask)

/-- Number of steps from `h` down to `i` on the ring of `n` slots. -/
def bdist (n h i : Nat) : Nat := (h + n - i) % n

/-- Every occupied slot `x` is reached from its hash home by backward probing without
crossing an empty slot: all slots strictly before `x` on that path are occupied. -/
def chain_ok (ps : Nat) (r : List region_info) : Prop :=
  ∀ x < r.length, (slot r x).p ≠ 0 →
    ∀ y < r.length,
      bdist r.length (hash ps (slot r x).p &&& dir_mask r.length) y <
        bdist r.length (hash ps (slot r x).p &&& dir_mask r.length) x →
      (slot r y).p ≠ 0

/-- At most one occupied slot per page. -/
def pages_unique (ps : Nat) (r : List region_info) : Prop :=
  ∀ x < r.length, ∀ y < r.length, (slot r x).p ≠ 0 → (slot r y).p ≠ 0 →
    MASK_POINTER ps (slot r x).p = MASK_POINTER ps (slot r y).p → x = y

/-- A well-formed region directory: the pool canaries are intact, the slot array
has `regions_total` slots, that number is zero (no table yet) or a power of two,
`regions_free` counts the empty slots and a table has at least one, every entry is
reachable from its hash home, and no page has two entries. -/
def dir_wf (ps : Nat) (mopts : malloc_readonly) (d : dir_info) : Prop :=
  canary_corrupt mopts d = false ∧
  d.r.length = d.regions_total ∧
  (d.regions_total = 0 ∨ ∃ k, k < 64 ∧ d.regions_total = 2 ^ k) ∧
  d.regions_free = d.r.countP (fun e => e.p = 0) ∧
  (d.regions_total ≠ 0 → 0 < d.regions_free) ∧
  chain_ok ps d.r ∧ pages_unique ps d.r

/-! ## Chunk pages -/

/-- `MALLOC_BITS`: bits per `u_short` of the bitmap. -/
def MALLOC_BITS : Nat := 8 * 2

/-- `MALLOC_CHUNK_LISTS`. -/
def MALLOC_CHUNK_LISTS : Nat := 4

/-- `struct chunk_info` without its list links.  `bits` is the inline array of
`u_short`: the bitmap words, followed by the table of requested sizes when chunk
canaries are in use. -/
structure chunk_info where
  page : Nat
  canary : Nat
  bucket : Nat
  free : Nat
  total : Nat
  offset : Nat
  bits : List Nat
deriving DecidableEq

/-- The word `bits[w]`. -/
def bits_word (bits : List Nat) (w : Nat) : Nat := bits.getD w 0

/-- Whether chunk `k` is marked free in the bitmap. -/
def chunk_bit (bits : List Nat) (k : Nat) : Bool :=
  (bits_word bits (k / MALLOC_BITS)).testBit (k % MALLOC_BITS)

/-- `init_chunk_info(d, p, bucket)`; `canary1` is `d->canary1`. -/
def init_chunk_info (ps : Nat) (canary1 : Nat) (p : chunk_info) (bucket : Nat) :
    chunk_info :=
  let total := (MALLOC_PAGESIZE ps / B2ALLOC bucket) % 2 ^ 16
  let offset := if bucket = 0 then 0xdead else howmany total MALLOC_BITS % 2 ^ 16
  let i := (total + 2 ^ 32 - 1) % 2 ^ 32
  let bits1 := List.replicate (i / MALLOC_BITS) 0xffff ++ p.bits.drop (i / MALLOC_BITS)
  let bits2 := bits1.set (i / MALLOC_BITS)
    ((((2 <<< (i % MALLOC_BITS)) % 2 ^ 32 + 2 ^ 32 - 1) % 2 ^ 32) % 2 ^ 16)
  { p with
    bucket := bucket % 2 ^ 16
    total := total
    free := total
    offset := offset
    canary := canary1 % 2 ^ 16
    bits := bits2 }

/-- `ffs(x)` on a non-negative `int`: one plus the index of the least significant set
bit, or 0 when `x` is 0. -/
def ffs_from : Nat → Nat → Nat
  | 0, _ => 0
  | fuel + 1, x => if x % 2 = 1 then 1 else ffs_from fuel (x / 2) + 1

/-- `ffs(x)`. -/
def ffs (x : Nat) : Nat := if x % 2 ^ 32 = 0 then 0 else ffs_from 32 (x % 2 ^ 32)

/-- The word loop of `malloc_bytes`:
`for (;;) { if (++i >= howmany(total, MALLOC_BITS)) i = 0; lp = &bits[i]; if (*lp) ... }`;
the result is the word index at which the loop leaves. -/
def malloc_bytes_scan (bits : List Nat) (nwords : Nat) : Nat → Nat → Option Nat
  | 0, _ => none
  | fuel + 1, i =>
    let i1 := if (i + 1) % 2 ^ 32 ≥ nwords then 0 else (i + 1) % 2 ^ 32
    if bits_word bits i1 ≠ 0 then some i1 else malloc_bytes_scan bits nwords fuel i1

/-- The search for a free chunk in `malloc_bytes`, from the choice of the start index
to the label `found`: the word index `lp - bp->bits` and the bit `k` in that word.
`r` is the 16-bit random value. -/
def malloc_bytes_search (bp : chunk_info) (r : Nat) : Option (Nat × Nat) :=
  let i := (r / MALLOC_CHUNK_LISTS) % bp.total
  let lp := i / MALLOC_BITS
  let j := i % MALLOC_BITS
  let k := ffs (bits_word bp.bits lp >>> j)
  if bits_word bp.bits lp ≠ 0 ∧ k ≠ 0 then some (lp, k + j - 1)
  else
    let nwords := howmany bp.total MALLOC_BITS
    match malloc_bytes_scan bp.bits nwords (nwords + 1) (i / MALLOC_BITS) with
    | none => none
    | some w => some (w, ffs (bits_word bp.bits w) - 1)

/-- The bookkeeping of `malloc_bytes` on the chunk page `bp` once it has been chosen:
find a free chunk, clear its bit, decrement `free`, record the requested size when
chunk canaries are on.  The result is the new `chunk_info` and the chunk number `k`
(the pointer returned is `bp->page + k * B2ALLOC(bp->bucket)`). -/
def malloc_bytes_take (mopts : malloc_readonly) (bp : chunk_info) (r size : Nat) :
    Option (chunk_info × Nat) :=
  match malloc_bytes_search bp r with
  | none => none
  | some (lp, k) =>
    let bits1 := bp.bits.set lp ((bits_word bp.bits lp ^^^ (1 <<< k)) % 2 ^ 16)
    let free := (bp.free + 2 ^ 16 - 1) % 2 ^ 16
    let k := k + lp * MALLOC_BITS
    let bits2 := if mopts.chunk_canaries ≠ 0 ∧ size > 0 then
      bits1.set (bp.offset + k) (size % 2 ^ 16) else bits1
    some ({ bp with bits := bits2, free := free }, k)

/-- `find_chunknum(d, info, ptr, check)` without the canary validation of
`check`; `canary1` is `d->canary1`. -/
def find_chunknum (ps : Nat) (canary1 : Nat) (info : chunk_info) (ptr : Nat) :
    Outcome Nat :=
  if info.canary ≠ canary1 % 2 ^ 16 then .abort .chunk_info_corrupted
  else
    let chunknum := ((ptr &&& MALLOC_PAGEMASK ps) / B2ALLOC info.bucket) % 2 ^ 32
    if ptr &&& (MALLOC_MINSIZE - 1) ≠ 0 then .abort .modified_chunk_pointer
    else if bits_word info.bits (chunknum / MALLOC_BITS) &&&
        (1 <<< (chunknum % MALLOC_BITS)) ≠ 0 then .abort .double_free
    else .ok chunknum

/-- The bookkeeping of `free_bytes` on the `chunk_info`: set the bit of the chunk and
increment `free`. -/
def free_bytes_mark (info : chunk_info) (chunknum : Nat) : chunk_info :=
  { info with
    bits := info.bits.set (chunknum / MALLOC_BITS)
      ((bits_word info.bits (chunknum / MALLOC_BITS) |||
        (1 <<< (chunknum % MALLOC_BITS))) % 2 ^ 16)
    free := (info.free + 1) % 2 ^ 16 }

/-- The bitmap of a chunk page agrees with its counters: `free` is the number of set
bits among the first `total`, and no bit from `total` up to the end of the bitmap
words is set. -/
def bitmap_ok (ci : chunk_info) : Prop :=
  ci.free = (List.range ci.total).countP (fun k => chunk_bit ci.bits k) ∧
  ∀ k, ci.total ≤ k → k < MALLOC_BITS * howmany ci.total MALLOC_BITS →
    chunk_bit ci.bits k = false

/-- A well-formed `chunk_info` of a chunk page: the bitmap agrees with the counters,
`total` is the number of chunks of the bucket on a page, the table of requested sizes
starts behind the bitmap words, the bitmap words exist and hold 16-bit values. -/
def chunk_wf (ps : Nat) (ci : chunk_info) : Prop :=
  bitmap_ok ci ∧ ci.bucket ≤ BUCKETS ps ∧
  ci.total = MALLOC_PAGESIZE ps / B2ALLOC ci.bucket ∧
  howmany ci.total MALLOC_BITS ≤ ci.offset ∧
  howmany ci.total MALLOC_BITS ≤ ci.bits.length ∧
  ∀ w < howmany ci.total MALLOC_BITS, bits_word ci.bits w < 2 ^ 16

/-- A `chunk_info` as `alloc_chunk_info` carves it from freshly mapped pages: all
fields zero, with room for the bitmap of `bucket` and, with chunk canaries, for the
requested sizes. -/
def fresh_chunk_info (ps : Nat) (mopts : malloc_readonly) (bucket : Nat) : chunk_info :=
  let count := MALLOC_PAGESIZE ps / B2ALLOC bucket
  { page := 0, canary := 0, bucket := 0, free := 0, total := 0, offset := 0,
    bits := List.replicate
      (howmany count MALLOC_BITS + (if mopts.chunk_canaries ≠ 0 then count else 0)) 0 }

/-! ## The pool and the memory it manages -/

/-- `MAX_SMALLCACHEABLE_SIZE`. -/
def MAX_SMALLCACHEABLE_SIZE : Nat := 32

/-- `MAX_BIGCACHEABLE_SIZE`. -/
def MAX_BIGCACHEABLE_SIZE : Nat := 512

/-- `BIGCACHE_FILL(sz)` on `size_t`. -/
def BIGCACHE_FILL (sz : Nat) : Nat := (MAX_BIGCACHEABLE_SIZE * sz) % 2 ^ 64 / 4

/-- `MALLOC_DELAYED_CHUNK_MASK`. -/
def MALLOC_DELAYED_CHUNK_MASK : Nat := 15

/-- `MALLOC_LEEWAY`. -/
def MALLOC_LEEWAY : Nat := 0

/-- `MAP_FAILED`, the pointer `(void *)-1`. -/
def MAP_FAILED : Nat := 2 ^ 64 - 1

/-- `ENOMEM`. -/
def ENOMEM : Nat := 12

/-- `MALLOC_MOVE_COND(sz)` on `size_t`. -/
def MALLOC_MOVE_COND (ps : Nat) (mopts : malloc_readonly) (sz : Nat) : Bool :=
  sub64 sz mopts.malloc_guard < MALLOC_PAGESIZE ps - MALLOC_LEEWAY

/-- `MALLOC_MOVE(p, sz)`. -/
def MALLOC_MOVE (ps : Nat) (mopts : malloc_readonly) (p sz : Nat) : Nat :=
  add64 p (sub64 (MALLOC_PAGESIZE ps - MALLOC_LEEWAY) (sub64 sz mopts.malloc_guard) &&&
    not64 (MALLOC_MINSIZE - 1))

/-- `struct smallcache`: `pages` is the array of `max` slots, of which the first
`length` are in use; the lowest bit of an entry marks a page that was never junked. -/
structure smallcache where
  pages : List Nat
  length : Nat
  max : Nat
deriving DecidableEq

/-- `struct bigcache`; `psize` is in pages and 0 marks an empty slot. -/
structure bigcache where
  page : Nat
  psize : Nat
deriving DecidableEq

/-- A pool with the part of the process state its functions act on.

* `d` holds the directory fields of `struct dir_info` and `r_addr` the address `d->r`
  of the slot array;
* `heap` holds every `struct chunk_info` carved so far, and a pointer to a
  `chunk_info` is its index in `heap`: `chunk_info_list`, `chunk_dir` and the `size`
  field of the directory slot of a chunk page hold such indices;
* `mapped` lists the pages of the address space that are mapped at the moment, which
  is what `mmap` consults and `munmap` changes;
* `env` is the sequence of answers of the environment still to come: random bytes,
  the addresses proposed to `mmap`, the results of `mprotect` and `munmap`, and the
  verdicts of the junk and canary validations, which read memory that is not part of
  this state.

The contents of user memory, page protections, the random byte buffer, the statistics
counters, `func`, `active` and the mutex are not part of the state. -/
structure pool_state where
  d : dir_info
  r_addr : Nat
  heap : List chunk_info
  chunk_info_list : List (List Nat)
  chunk_dir : List (List (List Nat))
  delayed_chunks : List Nat
  smallcache : List smallcache
  bigcache_used : Nat
  bigcache_size : Nat
  bigcache : List bigcache
  chunk_pages : Nat
  chunk_pages_used : Nat
  errno : Nat
  mapped : List Nat
  env : List Nat
deriving DecidableEq

/-- Sequencing of outcomes: the first one that is not a return ends the run. -/
def Outcome.bind {α β : Type} (x : Outcome α) (f : α → Outcome β) : Outcome β :=
  match x with
  | .ok a => f a
  | .abort m => .abort m
  | .diverge => .diverge
  | .undefined => .undefined

instance : Monad Outcome where
  pure := Outcome.ok
  bind := Outcome.bind

/-- A function of the allocator acting on the pool. -/
abbrev Run (α : Type) : Type := StateT pool_state Outcome α

/-- `wrterror(d, msg)`: the process aborts. -/
def wrterror {α : Type} (m : wrterror_msg) : Run α := fun _ => .abort m

/-- A loop that does not exit. -/
def diverges {α : Type} : Run α := fun _ => .diverge

/-- Behaviour that C leaves undefined. -/
def undefined_behaviour {α : Type} : Run α := fun _ => .undefined

/-- An outcome of a directory function as a step of a run. -/
def lift_outcome {α : Type} (x : Outcome α) : Run α := fun s => x.bind (fun a => .ok (a, s))

/-- The next answer of the environment (0 once the sequence is used up). -/
def env_next : Run Nat := fun s => .ok (s.env.headD 0, { s with env := s.env.tail })

/-- `getrbyte(d)`: a random byte.  The buffer `rbytes` that `arc4random_buf` refills is
not modelled, each byte comes from the environment. -/
def getrbyte : Run Nat := do
  let x ← env_next
  pure (x % 256)

/-- The page addresses of the range of `sz` bytes at `a`. -/
def page_list (ps a sz : Nat) : List Nat :=
  (List.range (howmany sz (MALLOC_PAGESIZE ps))).map (fun i => a + i * MALLOC_PAGESIZE ps)

/-- Whether the kernel can map `sz` bytes at `a`: a non-null page-aligned address, a
non-empty range inside the address space, none of whose pages is mapped. -/
def mmap_free (ps : Nat) (mapped : List Nat) (a sz : Nat) : Bool :=
  decide (a ≠ 0 ∧ a % MALLOC_PAGESIZE ps = 0 ∧ sz ≠ 0 ∧
    a + howmany sz (MALLOC_PAGESIZE ps) * MALLOC_PAGESIZE ps ≤ 2 ^ 64) &&
  (page_list ps a sz).all (fun x => decide (x ∉ mapped))

/-- `MMAP(sz, f)` and `MMAPNONE`: the environment proposes an address; the call maps the
range there when that is possible and fails otherwise, so the pages it returns were
not mapped before.  A failed call leaves `ENOMEM` in `errno`, the one error of an
anonymous private mapping with valid arguments. -/
def os_mmap (ps sz : Nat) : Run Nat := do
  let a ← env_next
  let s ← get
  if mmap_free ps s.mapped a sz then do
    set { s with mapped := page_list ps a sz ++ s.mapped }
    pure a
  else do
    set { s with errno := ENOMEM }
    pure MAP_FAILED

/-- `MMAPA(a, sz, MAP_FIXED | __MAP_NOREPLACE | f)`: the environment says whether the
kernel is willing; the range is mapped at `a` when it is free, and the call fails
otherwise, leaving an error code in `errno`. -/
def os_mmap_fixed (ps a sz : Nat) : Run Nat := do
  let willing ← env_next
  let s ← get
  if willing ≠ 0 ∧ mmap_free ps s.mapped a sz then do
    set { s with mapped := page_list ps a sz ++ s.mapped }
    pure a
  else do
    set { s with errno := ENOMEM }
    pure MAP_FAILED

/-- `munmap(a, sz)`; the result is 0, or -1 as an `int` when the environment makes
the call fail. -/
def os_munmap (a sz : Nat) : Run Nat := do
  let failed ← env_next
  if failed ≠ 0 then pure (2 ^ 32 - 1)
  else do
    modify (fun s => { s with mapped := s.mapped.filter (fun x => decide (¬ (a ≤ x ∧ x < a + sz))) })
    pure 0

/-- `mprotect(a, sz, prot)` where the result is looked at: 0, or -1 as an `int` with
the error code the environment gives in `errno`.  Page protections are not part of
the state. -/
def os_mprotect : Run Nat := do
  let failed ← env_next
  if failed ≠ 0 then do
    modify (fun s => { s with errno := failed })
    pure (2 ^ 32 - 1)
  else pure 0

/-- `validate_junk(pool, p, sz)`: nothing is checked when junking is off or the size
is 0; otherwise the environment tells whether a junk word was overwritten. -/
def validate_junk (_p sz : Nat) : Run Unit := do
  let s ← get
  if s.d.malloc_junk = 0 ∨ sz = 0 then pure ()
  else do
    let bad ← env_next
    if bad ≠ 0 then wrterror .write_after_free else pure ()

/-- `validate_canary(d, ptr, sz, allocated)`: nothing is checked when
`allocated - sz` is 0; otherwise the environment tells whether a canary byte was
overwritten. -/
def validate_canary (_ptr sz allocated : Nat) : Run Unit := do
  if sub64 allocated sz = 0 then pure ()
  else do
    let bad ← env_next
    if bad ≠ 0 then wrterror .canary_corrupted else pure ()

/-- The slot search of `unmap` in the big cache:
`for (j = 0; j < d->bigcache_size / 4; j++) { i = (base + j) & (d->bigcache_size - 1); ... break; }`.
While the cache is below its fill mark the loop leaves at an empty slot, otherwise at
a used one.  The result is the value of `i` after the loop; `none` stands for the
uninitialised `i` when the loop body never runs. -/
def unmap_scan (bc : List bigcache) (size : Nat) (below : Bool) (base : Nat) :
    Nat → Nat → Option Nat → Option Nat
  | 0, _, i => i
  | n + 1, j, _ =>
    let i := ((base + j) &&& sub64 size 1) % 2 ^ 16
    if below then
      if (bc.getD i ⟨0, 0⟩).psize = 0 then some i
      else unmap_scan bc size below base n (j + 1) (some i)
    else
      if (bc.getD i ⟨0, 0⟩).psize ≠ 0 then some i
      else unmap_scan bc size below base n (j + 1) (some i)

/-- The big cache branch of `unmap`. -/
def unmap_big (ps : Nat) (mopts : malloc_readonly) (p _sz psz : Nat) : Run Unit := do
  let base ← getrbyte
  let s ← get
  match unmap_scan s.bigcache s.bigcache_size
      (decide (s.bigcache_used < BIGCACHE_FILL s.bigcache_size)) base
      (s.bigcache_size / 4) 0 none with
  | none => undefined_behaviour
  | some i => do
    let e := s.bigcache.getD i ⟨0, 0⟩
    if e.psize ≠ 0 then do
      set { s with bigcache_used := sub64 s.bigcache_used e.psize }
      if mopts.malloc_freeunmap = 0 then validate_junk e.page (shl64 e.psize ps)
      let rc ← os_munmap e.page (shl64 e.psize ps)
      if rc ≠ 0 then wrterror .munmap
    if mopts.malloc_freeunmap ≠ 0 then do
      let rc ← os_mprotect
      if rc ≠ 0 then wrterror .mprotect
    modify (fun s => { s with
      bigcache := s.bigcache.set i ⟨p, psz⟩
      bigcache_used := add64 s.bigcache_used psz })

/-- The small cache branch of `unmap`, for the cache `smallcache[psz - 1]`. -/
def unmap_small (mopts : malloc_readonly) (p sz psz : Nat) : Run Unit := do
  let s ← get
  let cache := s.smallcache.getD (psz - 1) ⟨[], 0, 0⟩
  if cache.length = cache.max then do
    let x ← getrbyte
    let i := (x &&& (cache.max - 1)) % 2 ^ 16
    let r := cache.pages.getD i 0
    if r &&& 1 = 0 ∧ mopts.malloc_freeunmap = 0 then validate_junk (r &&& not64 1) sz
    let rc ← os_munmap (r &&& not64 1) sz
    if rc ≠ 0 then wrterror .munmap
    let cache1 : smallcache := { cache with
      pages := cache.pages.set i p
      length := ((cache.length + 2 ^ 16 - 1) % 2 ^ 16 + 1) % 2 ^ 16 }
    modify (fun s => { s with smallcache := s.smallcache.set (psz - 1) cache1 })
  else do
    let cache1 : smallcache := { cache with
      pages := cache.pages.set (cache.length % 2 ^ 16) p
      length := (cache.length + 1) % 2 ^ 16 }
    modify (fun s => { s with smallcache := s.smallcache.set (psz - 1) cache1 })

/-- `unmap(d, p, sz, clear)`: hand the `sz` bytes at `p` to a cache or back to the
kernel.  The stores into the memory given up (`explicit_bzero`, `junk_free`) and the
`mprotect` of the small cache branch, whose result is ignored, leave no trace in the
state. -/
def unmap (ps : Nat) (mopts : malloc_readonly) (p sz _clear : Nat) : Run Unit := do
  let psz := sz >>> ps
  if sz ≠ PAGEROUND ps sz ∨ psz = 0 then wrterror .munmap_round
  else do
    let s ← get
    if s.bigcache_size > 0 ∧ psz > MAX_SMALLCACHEABLE_SIZE ∧
        psz ≤ MAX_BIGCACHEABLE_SIZE then unmap_big ps mopts p sz psz
    else if psz > MAX_SMALLCACHEABLE_SIZE ∨
        (s.smallcache.getD (psz - 1) ⟨[], 0, 0⟩).max = 0 then do
      let rc ← os_munmap p sz
      if rc ≠ 0 then wrterror .munmap
    else unmap_small mopts p sz psz

/-- The lookup loop of `map` in the big cache:
`for (j = 0; j < d->bigcache_size && cached >= psz; j++)`; the result is the index of
the slot that holds exactly `psz` pages, if the loop finds one. -/
def map_scan (bc : List bigcache) (size psz base : Nat) : Nat → Nat → Nat → Option Nat
  | 0, _, _ => none
  | n + 1, j, cached =>
    if cached ≥ psz then
      let i := ((j + base) &&& sub64 size 1) % 2 ^ 16
      if (bc.getD i ⟨0, 0⟩).psize = psz then some i
      else map_scan bc size psz base n (j + 1) (sub64 cached (bc.getD i ⟨0, 0⟩).psize)
    else none

/-- The big cache branch of `map`: the page found, if any. -/
def map_big (mopts : malloc_readonly) (sz psz : Nat) : Run (Option Nat) := do
  let base ← getrbyte
  let s ← get
  match map_scan s.bigcache s.bigcache_size psz base s.bigcache_size 0 s.bigcache_used with
  | none => pure none
  | some i => do
    let p := (s.bigcache.getD i ⟨0, 0⟩).page
    set { s with
      bigcache_used := sub64 s.bigcache_used psz
      bigcache := s.bigcache.set i ⟨0, 0⟩ }
    if mopts.malloc_freeunmap = 0 then validate_junk p sz
    pure (some p)

/-- The small cache branch of `map` for the cache `smallcache[psz - 1]`: a cached run,
or for single pages the last page of a fresh batch of `max` pages, if there is one. -/
def map_small (ps : Nat) (mopts : malloc_readonly) (sz psz : Nat) : Run (Option Nat) := do
  let s ← get
  let cache := s.smallcache.getD (psz - 1) ⟨[], 0, 0⟩
  if cache.length > 0 then do
    let length1 := (cache.length + 2 ^ 16 - 1) % 2 ^ 16
    let i ← (if cache.length = 1 then pure length1
      else do
        let x ← getrbyte
        pure ((x % cache.length) % 2 ^ 16))
    let p := cache.pages.getD i 0
    let cache1 : smallcache := { cache with
      pages := if cache.length = 1 then cache.pages
        else cache.pages.set i (cache.pages.getD length1 0)
      length := length1 }
    modify (fun s => { s with smallcache := s.smallcache.set (psz - 1) cache1 })
    if p &&& 1 = 0 ∧ mopts.malloc_freeunmap = 0 then validate_junk (p &&& not64 1) sz
    pure (some (p &&& not64 1))
  else if psz ≤ 1 then do
    let p ← os_mmap ps ((cache.max * sz) % 2 ^ 64)
    if p ≠ MAP_FAILED then do
      let cache1 : smallcache := { cache with
        length := (cache.max + 2 ^ 16 - 1) % 2 ^ 16
        pages := (List.range (cache.max - 1)).map (fun i => add64 p (i * sz) ||| 1) ++
          cache.pages.drop (cache.max - 1) }
      modify (fun s => { s with smallcache := s.smallcache.set (psz - 1) cache1 })
      pure (some (add64 p ((cache.max - 1) * sz)))
    else pure none
  else pure none

/-- `map(d, sz, zero_fill)`: a run of `sz` bytes from a cache or from the kernel, or
`MAP_FAILED`.  The `mprotect` calls, whose results are ignored, and the stores into
the run leave no trace in the state. -/
def map (ps : Nat) (mopts : malloc_readonly) (sz _zero_fill : Nat) : Run Nat := do
  let psz := sz >>> ps
  let s ← get
  if canary_corrupt mopts s.d then wrterror .internal_struct_corrupt
  else if sz ≠ PAGEROUND ps sz ∨ psz = 0 then wrterror .map_round
  else do
    let big ← (if s.bigcache_size > 0 ∧ psz > MAX_SMALLCACHEABLE_SIZE ∧
        psz ≤ MAX_BIGCACHEABLE_SIZE then map_big mopts sz psz else pure none)
    match big with
    | some p => pure p
    | none => do
      let s ← get
      let small ← (if psz ≤ MAX_SMALLCACHEABLE_SIZE ∧
          (s.smallcache.getD (psz - 1) ⟨[], 0, 0⟩).max > 0 then map_small ps mopts sz psz
        else pure none)
      match small with
      | some p => pure p
      | none => os_mmap ps sz

/-! ## The directory and the chunk pages inside the pool -/

/-- `omalloc_grow(d)` with its memory traffic: the new table comes from `MMAP`, the
slots are copied as in `omalloc_grow` above, and the old table goes through `unmap`. -/
def omalloc_grow_pool (ps : Nat) (mopts : malloc_readonly) : Run Nat := do
  let s ← get
  if s.d.regions_total > SIZE_MAX / sizeof_region_info / 2 then pure 1
  else do
    let newtotal := if s.d.regions_total = 0 then MALLOC_INITIAL_REGIONS
      else s.d.regions_total * 2
    let newsize := PAGEROUND ps ((newtotal * sizeof_region_info) % 2 ^ 64)
    let p ← os_mmap ps newsize
    if p = MAP_FAILED then pure 1
    else do
      let g ← lift_outcome (omalloc_grow ps s.d true)
      if s.d.regions_total > 0 then
        unmap ps mopts s.r_addr
          (PAGEROUND ps ((s.d.regions_total * sizeof_region_info) % 2 ^ 64))
          (PAGEROUND ps ((s.d.regions_total * sizeof_region_info) % 2 ^ 64))
      modify (fun s => { s with d := g.2, r_addr := p })
      pure 0

/-- `insert(d, p, sz, f)` with the memory traffic of `omalloc_grow`. -/
def insert_pool (ps : Nat) (mopts : malloc_readonly) (p sz f : Nat) : Run Nat := do
  let s ← get
  let rc ← (if s.d.regions_free * 4 % 2 ^ 64 < s.d.regions_total ∨ s.d.regions_total = 0
    then omalloc_grow_pool ps mopts else pure 0)
  if rc ≠ 0 then pure 1
  else do
    let s ← get
    let mask := dir_mask s.d.regions_total
    match insert_probe s.d.r mask (mask + 1) (hash ps p &&& mask) with
    | none => diverges
    | some index => do
      set { s with d := { s.d with
        r := s.d.r.set index ⟨p, sz, f⟩
        regions_free := sub64 s.d.regions_free 1 } }
      pure 0

/-- `delete(d, ri)` on the directory of the pool. -/
def delete_pool (ps : Nat) (ri : Nat) : Run Unit := do
  let s ← get
  let d ← lift_outcome (delete ps s.d ri)
  set { s with d := d }

/-- `STATS_SETF(r, f)` on the slot `ri`. -/
def STATS_SETF (ri f : Nat) : Run Unit :=
  modify (fun s => { s with d := { s.d with
    r := s.d.r.set ri { slot s.d.r ri with f := f } } })

/-- `REALSIZE(sz, r)`. -/
def REALSIZE (ps : Nat) (r : region_info) : Nat :=
  let sz := r.p &&& MALLOC_PAGEMASK ps
  if sz = 0 then r.size else B2SIZE (sz - 1)

/-- `sizeof(struct chunk_info)` on LP64: the list links, the page pointer, five
`u_short` fields and `bits[1]`, padded to a multiple of 8. -/
def sizeof_chunk_info : Nat := 40

/-- `_ALIGN(x)` on LP64. -/
def ALIGN (x : Nat) : Nat := ((x + 7) % 2 ^ 64) &&& not64 7

/-- The `chunk_info` a pointer stands for. -/
def heap_get (s : pool_state) (bp : Nat) : chunk_info :=
  s.heap.getD bp ⟨0, 0, 0, 0, 0, 0, []⟩

/-- `LIST_FIRST(head)`; `none` is `NULL`. -/
def LIST_FIRST (l : List Nat) : Option Nat := l.head?

/-- `LIST_REMOVE(bp, entries)`: unlink `bp` from the list it is on.  The one pair of
links `entries` serves `chunk_info_list` and `chunk_dir`, so a `chunk_info` is on at
most one of these lists, and unlinking takes it off whichever that is. -/
def LIST_REMOVE (bp : Nat) : Run Unit :=
  modify (fun s => { s with
    chunk_info_list := s.chunk_info_list.map (fun l => l.filter (fun x => decide (x ≠ bp)))
    chunk_dir := s.chunk_dir.map (fun ls =>
      ls.map (fun l => l.filter (fun x => decide (x ≠ bp)))) })

/-- `LIST_INSERT_HEAD(&d->chunk_dir[bucket][listnum], bp, entries)`. -/
def LIST_INSERT_HEAD_dir (bucket listnum bp : Nat) : Run Unit :=
  modify (fun s => { s with
    chunk_dir := s.chunk_dir.set bucket ((s.chunk_dir.getD bucket []).set listnum
      (bp :: (s.chunk_dir.getD bucket []).getD listnum [])) })

/-- `LIST_INSERT_HEAD(&d->chunk_info_list[bucket], bp, entries)`. -/
def LIST_INSERT_HEAD_info (bucket bp : Nat) : Run Unit :=
  modify (fun s => { s with
    chunk_info_list := s.chunk_info_list.set bucket (bp :: s.chunk_info_list.getD bucket []) })

/-- The refill of `alloc_chunk_info` when `chunk_info_list[bucket]` is empty: one page
of the current block of 64 metadata pages (a new block when the current one is used
up) is cut into `chunk_info`s, each pushed to the head of the list.  The result tells
whether the block could be had. -/
def alloc_chunk_info_carve (ps : Nat) (mopts : malloc_readonly) (bucket : Nat) :
    Run Bool := do
  let chunk_pages := 64
  let count := MALLOC_PAGESIZE ps / B2ALLOC bucket
  let size := howmany count MALLOC_BITS
  let size := add64 sizeof_chunk_info ((sub64 size 1 * 2) % 2 ^ 64)
  let size := if mopts.chunk_canaries ≠ 0 then add64 size ((count * 2) % 2 ^ 64) else size
  let size := ALIGN size
  let count := MALLOC_PAGESIZE ps / size
  let s ← get
  let have_block ← (if s.chunk_pages_used = chunk_pages ∨ s.chunk_pages = 0 then do
      let q ← os_mmap ps ((MALLOC_PAGESIZE ps * chunk_pages) % 2 ^ 64)
      if q = MAP_FAILED then pure false
      else do
        modify (fun s => { s with chunk_pages := q, chunk_pages_used := 0 })
        pure true
    else pure true)
  if have_block then do
    modify (fun s => { s with
      chunk_pages_used := add64 s.chunk_pages_used 1
      chunk_info_list := s.chunk_info_list.set bucket
        (((List.range count).map (fun i => s.heap.length + i)).reverse ++
          s.chunk_info_list.getD bucket [])
      heap := s.heap ++ List.replicate count (fresh_chunk_info ps mopts bucket) })
    pure true
  else pure false

/-- `alloc_chunk_info(d, bucket)`; `none` is `NULL`. -/
def alloc_chunk_info (ps : Nat) (mopts : malloc_readonly) (bucket : Nat) :
    Run (Option Nat) := do
  let s ← get
  let have_info ← (if s.chunk_info_list.getD bucket [] = [] then
      alloc_chunk_info_carve ps mopts bucket else pure true)
  if have_info then do
    let s ← get
    match LIST_FIRST (s.chunk_info_list.getD bucket []) with
    | none => undefined_behaviour
    | some p => do
      LIST_REMOVE p
      if (heap_get s p).total = 0 then
        modify (fun s => { s with
          heap := s.heap.set p (init_chunk_info ps s.d.canary1 (heap_get s p) bucket) })
      pure (some p)
  else pure none

/-- `omalloc_make_chunks(d, bucket, listnum)`; `none` is `NULL`.  The junk fill of the
new page leaves no trace in the state. -/
def omalloc_make_chunks (ps : Nat) (mopts : malloc_readonly) (bucket listnum : Nat) :
    Run (Option Nat) := do
  let pp ← map ps mopts (MALLOC_PAGESIZE ps) 0
  if pp = MAP_FAILED then pure none
  else do
    let prot ← (if bucket = 0 then os_mprotect else pure 0)
    if bucket = 0 ∧ prot = 2 ^ 32 - 1 then do
      unmap ps mopts pp (MALLOC_PAGESIZE ps) 0
      pure none
    else do
      let bp ← alloc_chunk_info ps mopts bucket
      match bp with
      | none => do
        unmap ps mopts pp (MALLOC_PAGESIZE ps) 0
        pure none
      | some bp => do
        modify (fun s => { s with heap := s.heap.set bp { heap_get s bp with page := pp } })
        let rc ← insert_pool ps mopts (pp ||| ((bucket + 1) % 2 ^ 32)) bp 0
        if rc ≠ 0 then do
          unmap ps mopts pp (MALLOC_PAGESIZE ps) 0
          pure none
        else do
          LIST_INSERT_HEAD_dir bucket listnum bp
          pure (some bp)

/-- `malloc_bytes(d, size, f)`: a chunk, or 0 for `NULL`.  The search of the bitmap is
`malloc_bytes_take`.  The canary fill leaves no trace in the state. -/
def malloc_bytes (ps : Nat) (mopts : malloc_readonly) (size f : Nat) : Run Nat := do
  let s ← get
  if canary_corrupt mopts s.d then wrterror .internal_struct_corrupt
  else do
    let bucket := find_bucket mopts size
    let r1 ← getrbyte
    let r2 ← getrbyte
    let r := ((r1 <<< 8) % 2 ^ 32) ||| r2
    let listnum := r % MALLOC_CHUNK_LISTS
    let s ← get
    let made ← (match LIST_FIRST ((s.chunk_dir.getD bucket []).getD listnum []) with
      | some bp => pure (some bp)
      | none => omalloc_make_chunks ps mopts bucket listnum)
    match made with
    | none => pure 0
    | some bp => do
      let s ← get
      let info := heap_get s bp
      if info.canary ≠ s.d.canary1 % 2 ^ 16 then wrterror .chunk_info_corrupted
      else
        match malloc_bytes_take mopts info r size with
        | none => diverges
        | some (ci, k) => do
          if k = 0 ∧ mopts.malloc_stats ≠ 0 then do
            let ri ← lift_outcome (find ps mopts s.d info.page)
            match ri with
            | none => undefined_behaviour
            | some ri => STATS_SETF ri f
          modify (fun s => { s with heap := s.heap.set bp ci })
          if ci.free = 0 then LIST_REMOVE bp
          let p := add64 info.page ((k * B2ALLOC info.bucket) % 2 ^ 64)
          if info.bucket > 0 then validate_junk p (B2SIZE info.bucket)
          pure p

/-- `omalloc(pool, sz, zero_fill, f)`: the pointer, or 0 for `NULL`.  The stores into
the new memory leave no trace in the state. -/
def omalloc (ps : Nat) (mopts : malloc_readonly) (sz zero_fill f : Nat) : Run Nat := do
  if sz > MALLOC_MAXCHUNK ps then
    if sz ≥ sub64 (sub64 SIZE_MAX mopts.malloc_guard) (MALLOC_PAGESIZE ps) then do
      modify (fun s => { s with errno := ENOMEM })
      pure 0
    else do
      let sz := add64 sz mopts.malloc_guard
      let psz := PAGEROUND ps sz
      let p ← map ps mopts psz zero_fill
      if p = MAP_FAILED then do
        modify (fun s => { s with errno := ENOMEM })
        pure 0
      else do
        let rc ← insert_pool ps mopts p sz f
        if rc ≠ 0 then do
          unmap ps mopts p psz 0
          modify (fun s => { s with errno := ENOMEM })
          pure 0
        else do
          if mopts.malloc_guard ≠ 0 then do
            let prot ← os_mprotect
            if prot ≠ 0 then wrterror .mprotect
          if MALLOC_MOVE_COND ps mopts sz then pure (MALLOC_MOVE ps mopts p sz)
          else pure p
  else malloc_bytes ps mopts sz f

/-! ## Freeing and resizing -/

/-- `find_chunknum(d, info, ptr, check)` with the canary validation of `check`. -/
def find_chunknum_check (ps : Nat) (info : chunk_info) (ptr check : Nat) : Run Nat := do
  let s ← get
  let chunknum ← lift_outcome (find_chunknum ps s.d.canary1 info ptr)
  if check ≠ 0 ∧ info.bucket > 0 then
    validate_canary ptr (bits_word info.bits (info.offset + chunknum)) (B2SIZE info.bucket)
  pure chunknum

/-- `free_bytes(d, r, ptr)` for the slot `ri`. -/
def free_bytes (ps : Nat) (mopts : malloc_readonly) (ri ptr : Nat) : Run Unit := do
  let s ← get
  let bp := (slot s.d.r ri).size
  let info := heap_get s bp
  let chunknum ← find_chunknum_check ps info ptr 0
  if chunknum = 0 then STATS_SETF ri 0
  let info1 := free_bytes_mark info chunknum
  modify (fun s => { s with heap := s.heap.set bp info1 })
  if info1.free = 1 then do
    let x ← getrbyte
    LIST_INSERT_HEAD_dir info1.bucket (x % MALLOC_CHUNK_LISTS) bp
  else if info1.free ≠ info1.total then pure ()
  else do
    LIST_REMOVE bp
    unmap ps mopts info1.page (MALLOC_PAGESIZE ps) 0
    delete_pool ps ri
    LIST_INSERT_HEAD_info info1.bucket bp

/-- `findpool(p, argpool, &pool, &saved_function)` for a process with this one pool:
the slot of `p`, or the abort when no pool has it. -/
def findpool (ps : Nat) (mopts : malloc_readonly) (p : Nat) : Run Nat := do
  let s ← get
  let r ← lift_outcome (find ps mopts s.d p)
  match r with
  | none => wrterror .bogus_pointer
  | some ri => pure ri

/-- The loop of `ofree` over `delayed_chunks` under `malloc_freecheck`. -/
def ofree_freecheck (ps : Nat) (mopts : malloc_readonly) (p : Nat) : List Nat → Run Unit
  | [] => pure ()
  | tmp :: rest => do
    if tmp = p then wrterror .double_free
    else do
      if tmp ≠ 0 then do
        let s ← get
        let r ← lift_outcome (find ps mopts s.d tmp)
        match r with
        | none => wrterror .bogus_pointer
        | some ri => validate_junk tmp (REALSIZE ps (slot s.d.r ri))
      ofree_freecheck ps mopts p rest

/-- The branch of `ofree` for a region of more than `MALLOC_MAXCHUNK` bytes. -/
def ofree_large (ps : Nat) (mopts : malloc_readonly) (ri p sz clear argsz : Nat) :
    Run Unit := do
  let s ← get
  let r := slot s.d.r ri
  let p ← (if ¬ MALLOC_MOVE_COND ps mopts sz then do
      if r.p ≠ p then wrterror .bogus_pointer
      else do
        if mopts.chunk_canaries ≠ 0 then
          validate_canary p (sub64 sz mopts.malloc_guard)
            (PAGEROUND ps (sub64 sz mopts.malloc_guard))
        pure p
    else do
      if p ≠ MALLOC_MOVE ps mopts r.p sz then wrterror .bogus_moved_pointer
      else pure r.p)
  if mopts.malloc_guard ≠ 0 then do
    if sz < mopts.malloc_guard then wrterror .guard_size
    if mopts.malloc_freeunmap = 0 then do
      let rc ← os_mprotect
      if rc ≠ 0 then wrterror .mprotect
  unmap ps mopts p (PAGEROUND ps sz) (if clear ≠ 0 then argsz else 0)
  delete_pool ps ri

/-- The branch of `ofree` for a chunk: the pointer goes into a random slot of
`delayed_chunks`, and the pointer that was there is freed with `free_bytes`. -/
def ofree_chunk (ps : Nat) (mopts : malloc_readonly) (ri p sz : Nat) : Run Unit := do
  let s ← get
  let info := heap_get s (slot s.d.r ri).size
  if B2SIZE info.bucket ≠ sz then wrterror .internal_struct_corrupt
  else do
    let _ ← find_chunknum_check ps info p mopts.chunk_canaries
    if mopts.malloc_freecheck ≠ 0 then
      ofree_freecheck ps mopts p
        ((List.range (MALLOC_DELAYED_CHUNK_MASK + 1)).map (fun i => s.delayed_chunks.getD i 0))
    let x ← getrbyte
    let i := x &&& MALLOC_DELAYED_CHUNK_MASK
    let tmp := p
    let p := s.delayed_chunks.getD i 0
    if tmp = p then wrterror .double_free
    else do
      modify (fun s => { s with delayed_chunks := s.delayed_chunks.set i tmp })
      if p ≠ 0 then do
        let s ← get
        let r ← lift_outcome (find ps mopts s.d p)
        match r with
        | none => wrterror .bogus_pointer
        | some ri => do
          if mopts.malloc_freecheck = 0 then validate_junk p (REALSIZE ps (slot s.d.r ri))
          free_bytes ps mopts ri p

/-- `ofree(argpool, p, clear, check, argsz)`. -/
def ofree (ps : Nat) (mopts : malloc_readonly) (p clear check argsz : Nat) : Run Unit := do
  let ri ← findpool ps mopts p
  let s ← get
  let r := slot s.d.r ri
  let sz := REALSIZE ps r
  let clear := if s.d.mmap_flag ≠ 0 then 1 else clear
  let argsz := if s.d.mmap_flag ≠ 0 ∧ check = 0 then
      (if sz > MALLOC_MAXCHUNK ps then sub64 sz mopts.malloc_guard else sz)
    else argsz
  if check ≠ 0 then do
    if sz ≤ MALLOC_MAXCHUNK ps then do
      if mopts.chunk_canaries ≠ 0 ∧ sz > 0 then do
        let info := heap_get s r.size
        let chunknum ← find_chunknum_check ps info p 0
        if bits_word info.bits (info.offset + chunknum) < argsz then wrterror .recorded_size
      else if sz < argsz then wrterror .chunk_size
    else if sub64 sz mopts.malloc_guard < argsz then wrterror .recorded_size
  if sz > MALLOC_MAXCHUNK ps then ofree_large ps mopts ri p sz clear argsz
  else ofree_chunk ps mopts ri p sz

/-- The store `r->size = sz` on the slot `ri`. -/
def set_region_size (ri sz : Nat) : Run Unit :=
  modify (fun s => { s with d := { s.d with
    r := s.d.r.set ri { slot s.d.r ri with size := sz } } })

/-- The first case of `orealloc`, from a region of pages to a region of pages, up to
its `goto done`: the pointer to return, or `none` when control falls through to the
general case.  `p` is the old pointer, `goldsz` and `gnewsz` are the old and the new
size with the guard. -/
def orealloc_pages (ps : Nat) (mopts : malloc_readonly)
    (ri p goldsz gnewsz f : Nat) : Run (Option Nat) := do
  let s ← get
  let r := slot s.d.r ri
  let roldsz := PAGEROUND ps goldsz
  let rnewsz := PAGEROUND ps gnewsz
  if rnewsz < roldsz ∧ rnewsz > roldsz / 2 ∧
      sub64 roldsz rnewsz < (mopts.def_maxcache * MALLOC_PAGESIZE ps) % 2 ^ 64 ∧
      mopts.malloc_guard = 0 then pure (some p)
  else if rnewsz > roldsz then
    if mopts.malloc_guard = 0 then do
      let hint := add64 r.p roldsz
      let needed := sub64 rnewsz roldsz
      let q ← os_mmap_fixed ps hint needed
      if q = hint then do
        set_region_size ri gnewsz
        STATS_SETF ri f
        pure (some (if r.p ≠ p then r.p else p))
      else pure none
    else pure none
  else if rnewsz < roldsz then do
    if mopts.malloc_guard ≠ 0 then do
      let rc ← os_mprotect
      if rc ≠ 0 then wrterror .mprotect
    let rc ← os_munmap (add64 r.p rnewsz) (sub64 roldsz rnewsz)
    if rc ≠ 0 then wrterror .munmap
    set_region_size ri gnewsz
    STATS_SETF ri f
    pure (some (if MALLOC_MOVE_COND ps mopts gnewsz then MALLOC_MOVE ps mopts r.p gnewsz
      else p))
  else do
    set_region_size ri gnewsz
    STATS_SETF ri f
    pure (some (if MALLOC_MOVE_COND ps mopts gnewsz then MALLOC_MOVE ps mopts r.p gnewsz
      else r.p))

/-- `orealloc(argpool, p, newsz, f)`: the pointer, or 0 for `NULL`.  The copies and
fills of user memory leave no trace in the state. -/
def orealloc (ps : Nat) (mopts : malloc_readonly) (p newsz f : Nat) : Run Nat := do
  if p = 0 then omalloc ps mopts newsz 0 f
  else if newsz ≥ sub64 (sub64 SIZE_MAX mopts.malloc_guard) (MALLOC_PAGESIZE ps) then do
    modify (fun s => { s with errno := ENOMEM })
    pure 0
  else do
    let ri ← findpool ps mopts p
    let s ← get
    let r := slot s.d.r ri
    let oldsz := REALSIZE ps r
    let info := heap_get s r.size
    let chunknum ← (if oldsz ≤ MALLOC_MAXCHUNK ps ∧
        (mopts.malloc_stats ≠ 0 ∨ mopts.chunk_canaries ≠ 0) then
        find_chunknum_check ps info p 0
      else pure 0)
    let goldsz := oldsz
    if oldsz > MALLOC_MAXCHUNK ps ∧ oldsz < mopts.malloc_guard then wrterror .guard_size
    else do
      let oldsz := if oldsz > MALLOC_MAXCHUNK ps then sub64 oldsz mopts.malloc_guard else oldsz
      let gnewsz := if newsz > MALLOC_MAXCHUNK ps then add64 newsz mopts.malloc_guard else newsz
      let forced : Bool := decide (mopts.malloc_realloc ≠ 0 ∨ s.d.mmap_flag ≠ 0)
      let done ← (if newsz > MALLOC_MAXCHUNK ps ∧ oldsz > MALLOC_MAXCHUNK ps ∧ ¬ forced then
          orealloc_pages ps mopts ri p goldsz gnewsz f
        else pure none)
      match done with
      | some ret => pure ret
      | none =>
        if oldsz ≤ MALLOC_MAXCHUNK ps ∧ oldsz > 0 ∧ newsz ≤ MALLOC_MAXCHUNK ps ∧ newsz > 0 ∧
            ¬ forced ∧ find_bucket mopts newsz = find_bucket mopts oldsz then do
          if mopts.chunk_canaries ≠ 0 then
            modify (fun s => { s with heap := s.heap.set r.size { info with
              bits := info.bits.set (info.offset + chunknum) (newsz % 2 ^ 16) } })
          if mopts.malloc_stats ≠ 0 ∧ chunknum = 0 then STATS_SETF ri f
          pure p
        else if newsz ≠ oldsz ∨ forced then do
          let q ← omalloc ps mopts newsz 0 f
          if q = 0 then pure 0
          else do
            ofree ps mopts p 0 0 0
            pure q
        else do
          if newsz ≠ 0 then wrterror .realloc_internal_inconsistency
          if mopts.malloc_stats ≠ 0 ∧ chunknum = 0 then STATS_SETF ri f
          pure p

/-- `orecallocarray(argpool, p, oldsize, newsize, f)`: the pointer, or 0 for `NULL`. -/
def orecallocarray (ps : Nat) (mopts : malloc_readonly) (p oldsize newsize f : Nat) :
    Run Nat := do
  if p = 0 then omalloc ps mopts newsize 1 f
  else if oldsize = newsize then pure p
  else do
    let ri ← findpool ps mopts p
    let s ← get
    let r := slot s.d.r ri
    let sz := REALSIZE ps r
    if sz ≤ MALLOC_MAXCHUNK ps then do
      if mopts.chunk_canaries ≠ 0 ∧ sz > 0 then do
        let info := heap_get s r.size
        let chunknum ← find_chunknum_check ps info p 0
        if bits_word info.bits (info.offset + chunknum) ≠ oldsize then wrterror .recorded_size
      else if sz < oldsize then wrterror .chunk_size
    else do
      if sub64 sz mopts.malloc_guard < oldsize then wrterror .recorded_size
      if oldsize < sub64 sz mopts.malloc_guard / 2 then wrterror .recorded_size
    let newptr ← omalloc ps mopts newsize 0 f
    if newptr = 0 then pure 0
    else do
      ofree ps mopts p 1 0 oldsize
      pure newptr

/-! ## Aligned allocation -/

/-- The second half of `mapalign`, once `map` has returned the run at `p`: the aligned
address `q` in it, with the head before `q` and the tail behind `q + sz` given back to
the kernel. -/
def mapalign_trim (p alignment sz : Nat) : Run Nat := do
  let q := sub64 (add64 p alignment) 1 &&& not64 (sub64 alignment 1)
  if q ≠ p then do
    let rc ← os_munmap p (sub64 q p)
    if rc ≠ 0 then wrterror .munmap
  let rc ← os_munmap (add64 q sz) (sub64 alignment (sub64 q p))
  if rc ≠ 0 then wrterror .munmap
  pure q

/-- `mapalign(d, alignment, sz, zero_fill)`: the aligned run, or `MAP_FAILED`. -/
def mapalign (ps : Nat) (mopts : malloc_readonly) (alignment sz zero_fill : Nat) :
    Run Nat := do
  if alignment < MALLOC_PAGESIZE ps ∨ sub64 alignment 1 &&& alignment ≠ 0 then
    wrterror .mapalign_bad_alignment
  else if sz ≠ PAGEROUND ps sz then wrterror .mapalign_round
  else if alignment > sub64 SIZE_MAX sz then pure MAP_FAILED
  else do
    let p ← map ps mopts (add64 sz alignment) zero_fill
    if p = MAP_FAILED then pure MAP_FAILED
    else mapalign_trim p alignment sz

/-- The loop `while (pof2 < sz) pof2 <<= 1;` of `omemalign`; `none` when it has not
left after `fuel` rounds. -/
def omemalign_pof2 (sz : Nat) : Nat → Nat → Option Nat
  | 0, _ => none
  | fuel + 1, pof2 => if pof2 < sz then omemalign_pof2 sz fuel (shl64 pof2 1) else some pof2

/-- `omemalign(pool, alignment, sz, zero_fill, f)`: the pointer, or 0 for `NULL`. -/
def omemalign (ps : Nat) (mopts : malloc_readonly) (alignment sz zero_fill f : Nat) :
    Run Nat := do
  let sz := if sz > MALLOC_MAXCHUNK ps ∧ sz < MALLOC_PAGESIZE ps then MALLOC_PAGESIZE ps else sz
  if alignment ≤ MALLOC_PAGESIZE ps then do
    let sz := if sz < alignment then alignment else sz
    if sz < MALLOC_PAGESIZE ps then
      match omemalign_pof2 sz 64 MALLOC_MINSIZE with
      | none => diverges
      | some pof2 => omalloc ps mopts pof2 zero_fill f
    else omalloc ps mopts sz zero_fill f
  else if sz ≥ sub64 (sub64 SIZE_MAX mopts.malloc_guard) (MALLOC_PAGESIZE ps) then do
    modify (fun s => { s with errno := ENOMEM })
    pure 0
  else do
    let sz := if sz < MALLOC_PAGESIZE ps then MALLOC_PAGESIZE ps else sz
    let sz := add64 sz mopts.malloc_guard
    let psz := PAGEROUND ps sz
    let p ← mapalign ps mopts alignment psz zero_fill
    if p = MAP_FAILED then do
      modify (fun s => { s with errno := ENOMEM })
      pure 0
    else do
      let rc ← insert_pool ps mopts p sz f
      if rc ≠ 0 then do
        unmap ps mopts p psz 0
        modify (fun s => { s with errno := ENOMEM })
        pure 0
      else do
        if mopts.malloc_guard ≠ 0 then do
          let prot ← os_mprotect
          if prot ≠ 0 then wrterror .mprotect
        pure p

/-! ## The public functions

The bodies between `PROLOGUE` and `EPILOGUE`, for a process with one thread and one
pool: the lock, the `active` counter and the lazy `_malloc_init` are left out.
`caller` is the return address that `CALLER` records when statistics are on. -/

/-- `CALLER`. -/
def CALLER (mopts : malloc_readonly) (caller : Nat) : Nat :=
  if mopts.malloc_stats ≠ 0 then caller else 0

/-- `EPILOGUE()` for the result `r`. -/
def EPILOGUE (mopts : malloc_readonly) (saved_errno r : Nat) : Run Nat := do
  if r = 0 ∧ mopts.malloc_xmalloc ≠ 0 then wrterror .out_of_memory
  else do
    if r ≠ 0 then modify (fun s => { s with errno := saved_errno })
    pure r

/-- `MUL_NO_OVERFLOW`. -/
def MUL_NO_OVERFLOW : Nat := 1 <<< (8 * 4)

/-- `EINVAL`. -/
def EINVAL : Nat := 22

/-- The test `(nmemb >= MUL_NO_OVERFLOW || size >= MUL_NO_OVERFLOW) && nmemb > 0 &&
SIZE_MAX / nmemb < size`. -/
def mul_overflows (nmemb size : Nat) : Bool :=
  decide ((nmemb ≥ MUL_NO_OVERFLOW ∨ size ≥ MUL_NO_OVERFLOW) ∧ nmemb > 0 ∧
    SIZE_MAX / nmemb < size)

/-- `malloc(size)`. -/
def malloc (ps : Nat) (mopts : malloc_readonly) (size caller : Nat) : Run Nat := do
  let s ← get
  let r ← omalloc ps mopts size 0 (CALLER mopts caller)
  EPILOGUE mopts s.errno r

/-- `free(ptr)`. -/
def free (ps : Nat) (mopts : malloc_readonly) (ptr : Nat) : Run Unit := do
  let s ← get
  if ptr = 0 then pure ()
  else do
    ofree ps mopts ptr 0 0 0
    modify (fun s1 => { s1 with errno := s.errno })

/-- `freezero(ptr, sz)`. -/
def freezero (ps : Nat) (mopts : malloc_readonly) (ptr sz : Nat) : Run Unit := do
  let s ← get
  if ptr = 0 then pure ()
  else if mopts.internal_funcs = 0 then free ps mopts ptr
  else do
    ofree ps mopts ptr 1 1 sz
    modify (fun s1 => { s1 with errno := s.errno })

/-- `realloc(ptr, size)`. -/
def realloc (ps : Nat) (mopts : malloc_readonly) (ptr size caller : Nat) : Run Nat := do
  let s ← get
  let r ← orealloc ps mopts ptr size (CALLER mopts caller)
  EPILOGUE mopts s.errno r

/-- `calloc(nmemb, size)`. -/
def calloc (ps : Nat) (mopts : malloc_readonly) (nmemb size caller : Nat) : Run Nat := do
  let s ← get
  if mul_overflows nmemb size then
    if mopts.malloc_xmalloc ≠ 0 then wrterror .out_of_memory
    else do
      modify (fun s => { s with errno := ENOMEM })
      pure 0
  else do
    let r ← omalloc ps mopts ((size * nmemb) % 2 ^ 64) 1 (CALLER mopts caller)
    EPILOGUE mopts s.errno r

/-- `recallocarray_p(ptr, oldnmemb, newnmemb, size)`, the variant built on the public
`malloc` and `free`. -/
def recallocarray_p (ps : Nat) (mopts : malloc_readonly)
    (ptr oldnmemb newnmemb size caller : Nat) : Run Nat := do
  if ptr = 0 then calloc ps mopts newnmemb size caller
  else if mul_overflows newnmemb size then do
    modify (fun s => { s with errno := ENOMEM })
    pure 0
  else if mul_overflows oldnmemb size then do
    modify (fun s => { s with errno := EINVAL })
    pure 0
  else do
    let newsize := (newnmemb * size) % 2 ^ 64
    let oldsize := (oldnmemb * size) % 2 ^ 64
    if newsize ≤ oldsize ∧ oldsize - newsize < oldsize / 2 ∧
        oldsize - newsize < MALLOC_PAGESIZE ps then pure ptr
    else do
      let newptr ← malloc ps mopts newsize caller
      if newptr = 0 then pure 0
      else do
        free ps mopts ptr
        pure newptr

/-- `recallocarray(ptr, oldnmemb, newnmemb, size)`. -/
def recallocarray (ps : Nat) (mopts : malloc_readonly)
    (ptr oldnmemb newnmemb size caller : Nat) : Run Nat := do
  if mopts.internal_funcs = 0 then recallocarray_p ps mopts ptr oldnmemb newnmemb size caller
  else do
    let s ← get
    if mul_overflows newnmemb size then
      if mopts.malloc_xmalloc ≠ 0 then wrterror .out_of_memory
      else do
        modify (fun s => { s with errno := ENOMEM })
        pure 0
    else if ptr ≠ 0 ∧ mul_overflows oldnmemb size then do
      modify (fun s => { s with errno := EINVAL })
      pure 0
    else do
      let newsize := (newnmemb * size) % 2 ^ 64
      let oldsize := if ptr ≠ 0 then (oldnmemb * size) % 2 ^ 64 else 0
      let r ← orecallocarray ps mopts ptr oldsize newsize (CALLER mopts caller)
      EPILOGUE mopts s.errno r

/-- `posix_memalign(memptr, alignment, size)`: the result code and the pointer stored
through `memptr` (0 when nothing is stored). -/
def posix_memalign (ps : Nat) (mopts : malloc_readonly) (alignment size caller : Nat) :
    Run (Nat × Nat) := do
  if sub64 alignment 1 &&& alignment ≠ 0 ∨ alignment < 8 then pure (EINVAL, 0)
  else do
    let s ← get
    let r ← omemalign ps mopts alignment size 0 (CALLER mopts caller)
    if r = 0 then
      if mopts.malloc_xmalloc ≠ 0 then wrterror .out_of_memory
      else do
        let s1 ← get
        set { s1 with errno := s.errno }
        pure (s1.errno, 0)
    else do
      modify (fun s1 => { s1 with errno := s.errno })
      pure (0, r)

/-- `aligned_alloc(alignment, size)`. -/
def aligned_alloc (ps : Nat) (mopts : malloc_readonly) (alignment size caller : Nat) :
    Run Nat := do
  if sub64 alignment 1 &&& alignment ≠ 0 ∨ alignment = 0 then do
    modify (fun s => { s with errno := EINVAL })
    pure 0
  else if size &&& sub64 alignment 1 ≠ 0 then do
    modify (fun s => { s with errno := EINVAL })
    pure 0
  else do
    let s ← get
    let r ← omemalign ps mopts alignment size 0 (CALLER mopts caller)
    EPILOGUE mopts s.errno r

/-- `MAP_CONCEAL` from `sys/mman.h`. -/
def MAP_CONCEAL : Nat := 0x8000

/-- The pool `mopts.malloc_pool[i]` as `_malloc_init` leaves it, in the zero-filled
memory of the `dir_info` at address `self`, with the caches in zero-filled memory:
`omalloc_poolinit` and the cache sizes (none for pool 0, the pool of the `_conceal`
functions).  `mapped` is what the process has mapped at that moment. -/
def malloc_init_pool (ps : Nat) (mopts : malloc_readonly) (self i : Nat)
    (mapped : List Nat) : pool_state :=
  let d := omalloc_poolinit mopts self (if i = 0 then MAP_CONCEAL else 0)
  let maxcache := fun (j : Nat) => if i = 0 then 0 else (mopts.def_maxcache >>> (j / 8)) % 2 ^ 16
  { d := { d with malloc_junk := if i = 0 then 2 else mopts.def_malloc_junk }
    r_addr := 0
    heap := []
    chunk_info_list := List.replicate (BUCKETS ps + 1) []
    chunk_dir := List.replicate (BUCKETS ps + 1) (List.replicate MALLOC_CHUNK_LISTS [])
    delayed_chunks := List.replicate (MALLOC_DELAYED_CHUNK_MASK + 1) 0
    smallcache := (List.range MAX_SMALLCACHEABLE_SIZE).map
      (fun j => ⟨List.replicate (maxcache j) 0, 0, maxcache j⟩)
    bigcache_used := 0
    bigcache_size := if i = 0 then 0 else mopts.def_maxcache
    bigcache := List.replicate (if i = 0 then 0 else mopts.def_maxcache) ⟨0, 0⟩
    chunk_pages := 0
    chunk_pages_used := 0
    errno := 0
    mapped := mapped
    env := [] }

/-! ## Chunk canaries in memory -/

/-- `CHUNK_CHECK_LENGTH`. -/
def CHUNK_CHECK_LENGTH : Nat := 32

/-- `SOME_JUNK`. -/
def SOME_JUNK : Nat := 0xdb

/-- `SOME_FREEJUNK`. -/
def SOME_FREEJUNK : Nat := 0xdf

/-- `memset(p, c, n)` on a memory given as a function from addresses to bytes. -/
def memset (mem : Nat → Nat) (p c : Nat) : Nat → Nat → Nat
  | 0 => mem
  | n + 1 => fun a => if a = add64 p n then c % 256 else memset mem p c n a

/-- `fill_canary(ptr, sz, allocated)`: the memory afterwards. -/
def fill_canary (mopts : malloc_readonly) (mem : Nat → Nat) (ptr sz allocated : Nat) :
    Nat → Nat :=
  let check_sz := sub64 allocated sz
  let check_sz := if check_sz > CHUNK_CHECK_LENGTH then CHUNK_CHECK_LENGTH else check_sz
  memset mem (add64 ptr sz) mopts.chunk_canaries check_sz

/-- The loop `while (p < q) { if (*p != canary && *p != SOME_JUNK) wrterror(...); p++; }`
of `validate_canary` over `n = q - p` bytes: whether it aborts. -/
def validate_canary_scan (mopts : malloc_readonly) (mem : Nat → Nat) : Nat → Nat → Bool
  | 0, _ => false
  | n + 1, p =>
    if mem p ≠ mopts.chunk_canaries % 256 ∧ mem p ≠ SOME_JUNK then true
    else validate_canary_scan mopts mem n (add64 p 1)

/-- `validate_canary(d, ptr, sz, allocated)` on the memory `mem`. -/
def validate_canary_mem (mopts : malloc_readonly) (mem : Nat → Nat)
    (ptr sz allocated : Nat) : Outcome Unit :=
  let check_sz := sub64 allocated sz
  let check_sz := if check_sz > CHUNK_CHECK_LENGTH then CHUNK_CHECK_LENGTH else check_sz
  if validate_canary_scan mopts mem check_sz (add64 ptr sz) then .abort .canary_corrupted
  else .ok ()

/-- The store `ptr[i] = v` of a user of the memory. -/
def store_byte (mem : Nat → Nat) (a v : Nat) : Nat → Nat :=
  fun x => if x = a then v % 256 else mem x

/-! ## Predicates on the pool -/

/-- What holds of every return of `m` from `s`. -/
@[irreducible] def wp {α : Type} (m : Run α) (Q : α → pool_state → Prop) (s : pool_state) : Prop :=
  ∀ a s', m s = .ok (a, s') → Q a s'

/-- The run `m` keeps the relation `R` to a reference state `z`: started in a state
related to `z`, it can only return in a state related to `z`. -/
@[irreducible] def keeps (R : pool_state → pool_state → Prop) {α : Type} (m : Run α) : Prop :=
  ∀ (z s : pool_state) (Q : α → pool_state → Prop),
    R z s → (∀ a s', R z s' → Q a s') → wp m Q s

/-- The state `s'` has the pool canaries and the pool address of `s`. -/
@[reducible] def canary_frame (s s' : pool_state) : Prop :=
  s'.d.canary1 = s.d.canary1 ∧ s'.d.canary2 = s.d.canary2 ∧ s'.d.self = s.d.self

/-- One round of the loop of `_malloc_init` on the `dir_info` of pool `i`: a pool that
passes `d->canary1 == ~d->canary2` is skipped, any other is set up by
`omalloc_poolinit`. -/
def malloc_init_visit (mopts : malloc_readonly) (i : Nat) (d : dir_info) : dir_info :=
  if d.canary1 = not32 d.canary2 then d
  else if i = 0 then { omalloc_poolinit mopts d.self MAP_CONCEAL with malloc_junk := 2 }
  else { omalloc_poolinit mopts d.self 0 with malloc_junk := mopts.def_malloc_junk }

/-! ## Options -/

/-- `_MALLOC_MUTEXES` from `thread_private.h`. -/
def MALLOC_MUTEXES_MAX : Nat := 32

/-- `MALLOC_MAXCACHE`. -/
def MALLOC_MAXCACHE : Nat := 256

/-- `MALLOC_DEFAULT_CACHE`. -/
def MALLOC_DEFAULT_CACHE : Nat := 64

/-- `omalloc_parseopt(opt)` on `mopts`; an unknown character only draws a warning. -/
def omalloc_parseopt (ps : Nat) (mopts : malloc_readonly) (opt : Char) : malloc_readonly :=
  match opt with
  | '+' =>
    let m := (mopts.malloc_mutexes <<< 1) % 2 ^ 32
    { mopts with malloc_mutexes := if m > MALLOC_MUTEXES_MAX then MALLOC_MUTEXES_MAX else m }
  | '-' =>
    let m := mopts.malloc_mutexes >>> 1
    { mopts with malloc_mutexes := if m < 2 then 2 else m }
  | '>' =>
    let c := (mopts.def_maxcache <<< 1) % 2 ^ 32
    { mopts with def_maxcache := if c > MALLOC_MAXCACHE then MALLOC_MAXCACHE else c }
  | '<' => { mopts with def_maxcache := mopts.def_maxcache >>> 1 }
  | 'c' => { mopts with chunk_canaries := 0 }
  | 'C' => { mopts with chunk_canaries := 1 }
  | 'd' => { mopts with malloc_stats := 0 }
  | 'D' => { mopts with malloc_stats := 1 }
  | 'f' => { mopts with malloc_freecheck := 0, malloc_freeunmap := 0 }
  | 'F' => { mopts with malloc_freecheck := 1, malloc_freeunmap := 1 }
  | 'g' => { mopts with malloc_guard := 0 }
  | 'G' => { mopts with malloc_guard := MALLOC_PAGESIZE ps }
  | 'j' =>
    if mopts.def_malloc_junk > 0 then { mopts with def_malloc_junk := mopts.def_malloc_junk - 1 }
    else mopts
  | 'J' =>
    if mopts.def_malloc_junk < 2 then { mopts with def_malloc_junk := mopts.def_malloc_junk + 1 }
    else mopts
  | 'r' => { mopts with malloc_realloc := 0 }
  | 'R' => { mopts with malloc_realloc := 1 }
  | 'u' => { mopts with malloc_freeunmap := 0 }
  | 'U' => { mopts with malloc_freeunmap := 1 }
  | 'v' => { mopts with malloc_verbose := 0 }
  | 'V' => { mopts with malloc_verbose := 1 }
  | 'x' => { mopts with malloc_xmalloc := 0 }
  | 'X' => { mopts with malloc_xmalloc := 1 }
  | _ => mopts

/-- The loop of `omalloc_init` over one option string:
`for (; p != NULL && *p != '\0'; p++)` with the cases `S` and `s`. -/
def omalloc_init_string (ps : Nat) (mopts : malloc_readonly) : List Char → malloc_readonly
  | [] => mopts
  | 'S' :: rest =>
    omalloc_init_string ps
      { "CFGJ".toList.foldl (omalloc_parseopt ps) mopts with def_maxcache := 0 } rest
  | 's' :: rest =>
    omalloc_init_string ps
      { "cfgj".toList.foldl (omalloc_parseopt ps) mopts with
        def_maxcache := MALLOC_DEFAULT_CACHE } rest
  | c :: rest => omalloc_init_string ps (omalloc_parseopt ps mopts c) rest

/-- `omalloc_init()` followed by the store `mopts.internal_funcs = 1` of `_malloc_init`,
on the zero-filled `malloc_readonly`.  `opts` is what the three sources of options
(`sysctl`, `MALLOC_OPTIONS`, `malloc_options`) hold, in this order; `canary`, `junk_loc`
and `chunk_canary` are the values `arc4random()` gives, after the draws the loops of
`omalloc_init` reject. -/
def malloc_init_mopts (ps : Nat) (opts : List Char) (canary junk_loc chunk_canary : Nat) :
    malloc_readonly :=
  let m0 : malloc_readonly :=
    { malloc_mutexes := 8, malloc_freecheck := 0, malloc_freeunmap := 0,
      def_malloc_junk := 1, malloc_realloc := 0, malloc_xmalloc := 0,
      chunk_canaries := 0, internal_funcs := 0, def_maxcache := MALLOC_DEFAULT_CACHE,
      junk_loc := 0, malloc_guard := 0, malloc_stats := 0, malloc_verbose := 0,
      malloc_canary := 0 }
  let m1 := omalloc_init_string ps m0 opts
  { m1 with
    malloc_canary := canary
    junk_loc := junk_loc
    chunk_canaries := if m1.chunk_canaries ≠ 0 then chunk_canary else m1.chunk_canaries
    internal_funcs := 1 }

/-- What a run returned, if it returned. -/
def returned {α : Type} (x : Outcome (α × pool_state)) : Option α :=
  match x with
  | .ok (a, _) => some a
  | _ => none

/-- The state a run returned in, if it returned. -/
def state_after {α : Type} (x : Outcome (α × pool_state)) : Option pool_state :=
  match x with
  | .ok (_, s) => some s
  | _ => none

/-- The run `m` returns from `s`, with a result and in a state of which `Q` holds. -/
@[irreducible] def tot {α : Type} (m : Run α) (Q : α → pool_state → Prop) (s : pool_state) :
    Prop :=
  ∃ a s', m s = .ok (a, s') ∧ Q a s'

/-! ## Alignment in the pool -/

/-- What the pool holds is aligned: the pages in the small and the big cache, the page
of every `chunk_info` and the slot array of the directory are page-aligned; every
directory key carries a tag of at most `BUCKETS + 1`; a `chunk_info` on the list
`chunk_dir[b][l]` is of bucket `b`, as is an initialised one on `chunk_info_list[b]`,
and the `chunk_info`s listed under a bucket other than 0 exist. -/
def aligned_core (ps : Nat) (r : List region_info) (r_addr : Nat) (heap : List chunk_info)
    (cil : List (List Nat)) (cd : List (List (List Nat)))
    (sc : List smallcache) (bc : List bigcache) : Prop :=
  (∀ c ∈ sc, ∀ x ∈ c.pages, (x &&& not64 1) % 2 ^ ps = 0) ∧
  (∀ e ∈ bc, e.page % 2 ^ ps = 0) ∧
  (∀ ci ∈ heap, ci.page % 2 ^ ps = 0) ∧
  (∀ e ∈ r, e.p &&& MALLOC_PAGEMASK ps ≤ BUCKETS ps + 1) ∧
  r_addr % 2 ^ ps = 0 ∧
  (∀ b l bp, bp ∈ (cd.getD b []).getD l [] →
    (heap.getD bp ⟨0, 0, 0, 0, 0, 0, []⟩).bucket = b) ∧
  (∀ b bp, bp ∈ cil.getD b [] → (heap.getD bp ⟨0, 0, 0, 0, 0, 0, []⟩).total ≠ 0 →
    (heap.getD bp ⟨0, 0, 0, 0, 0, 0, []⟩).bucket = b) ∧
  (∀ b bp, b ≠ 0 → bp ∈ cil.getD b [] → bp < heap.length)

/-- The alignment invariant of a pool. -/
@[reducible] def pool_aligned (ps : Nat) (s : pool_state) : Prop :=
  aligned_core ps s.d.r s.r_addr s.heap s.chunk_info_list s.chunk_dir s.smallcache s.bigcache

/-- The relation of a state to any reference state under which `keeps` states that a
run preserves the alignment invariant. -/
@[reducible] def aligned_rel (ps : Nat) (_z s : pool_state) : Prop := pool_aligned ps s

/-- The pool is aligned and its `chunk_info`s are those of `z`. -/
@[reducible] def aligned_heap (ps : Nat) (z s : pool_state) : Prop :=
  pool_aligned ps s ∧ s.heap = z.heap

/-- The pool is aligned, and it has as many `chunk_info`s as `y`, each of the bucket and
with the `total` it has in `y`. -/
@[reducible] def aligned_shape (ps : Nat) (y _z s : pool_state) : Prop :=
  pool_aligned ps s ∧ s.heap.length = y.heap.length ∧
  ∀ i, (heap_get s i).bucket = (heap_get y i).bucket ∧
    (heap_get s i).total = (heap_get y i).total

/-- The state `s` has the directory, the table address, the chunk headers, the chunk
lists, the delayed-free ring and the chunk-header pages of `z`: everything but the page
caches, `errno`, the mapped pages and the answers of the environment still to come. -/
@[reducible] def core_frame (z s : pool_state) : Prop :=
  s.d = z.d ∧ s.r_addr = z.r_addr ∧ s.heap = z.heap ∧
  s.chunk_info_list = z.chunk_info_list ∧ s.chunk_dir = z.chunk_dir ∧
  s.delayed_chunks = z.delayed_chunks ∧ s.chunk_pages = z.chunk_pages ∧
  s.chunk_pages_used = z.chunk_pages_used

/-- A pool used to run `malloc` and `free` on a region of pages: the pool 1 that
`_malloc_init` leaves, with the directory `example_dir` and `0x100000` as the address
the next `mmap` proposes. -/
def example_pool : pool_state :=
  { malloc_init_pool 12 (default_mopts 7) 4096 1 [] with
    d := example_dir
    env := [0x100000] }

/-! ## The pools of a process -/

/-- The fields of a `struct dir_info` that `findpool` uses besides the directory:
`active`, `func` (the address of the name), `mutex` and `malloc_mt`. -/
@[ext] structure pool_entry where
  d : dir_info
  active : Int
  func : Nat
  mutex : Nat
  malloc_mt : Nat

/-- The array `mopts.malloc_pool[]` (`none` for a null entry) with what the calling
thread does on the pool mutexes: `held` lists the mutexes it holds, `max_held` is the
largest number it has held at one time, and `examined` lists the pools on which it has
called `find`, in order. -/
@[ext] structure pools_state where
  malloc_pool : Nat → Option pool_entry
  held : List Nat
  max_held : Nat
  examined : List Nat

/-- The store of a pool entry through its pointer `mopts.malloc_pool[j]`. -/
def set_pool (st : pools_state) (j : Nat) (e : pool_entry) : pools_state :=
  { st with malloc_pool := fun x => if x = j then some e else st.malloc_pool x }

/-- `_MALLOC_LOCK(m)`: a thread that locks a mutex it holds never gets it. -/
def MALLOC_LOCK (m : Nat) (st : pools_state) : Outcome pools_state :=
  if m ∈ st.held then .diverge
  else .ok { st with held := m :: st.held
                     max_held := max st.max_held (st.held.length + 1) }

/-- `_MALLOC_UNLOCK(m)`; the unlock of a mutex the thread does not hold is undefined. -/
def MALLOC_UNLOCK (m : Nat) (st : pools_state) : Outcome pools_state :=
  if m ∈ st.held then .ok { st with held := st.held.erase m }
  else .undefined

/-- The call `find(mopts.malloc_pool[j], p)`. -/
def find_in (ps : Nat) (mopts : malloc_readonly) (j p : Nat) (st : pools_state) :
    Outcome (Option Nat × pools_state) :=
  match st.malloc_pool j with
  | none => .undefined
  | some e =>
    (find ps mopts e.d p).bind
      (fun r => .ok (r, { st with examined := st.examined ++ [j] }))

/-- The loop `for (i = 1; i < nmutexes; i++)` of `findpool` with `rem` rounds to go,
`pool` being the index of the pool held.  The result is the slot found with the
`saved_function`, if the loop left through `break`, and the pool held at the end. -/
def findpool_loop (ps : Nat) (mopts : malloc_readonly) (p argpool nmutexes : Nat) :
    Nat → Nat → Nat → pools_state → Outcome (Option (Nat × Nat) × Nat × pools_state)
  | 0, _, pool, st => .ok (none, pool, st)
  | rem + 1, i, pool, st =>
    match st.malloc_pool argpool, st.malloc_pool pool with
    | some arg, some cur =>
      let j := ((arg.mutex + i) % 2 ^ 32) &&& ((nmutexes + 2 ^ 32 - 1) % 2 ^ 32)
      let st := set_pool st pool { cur with active := cur.active - 1 }
      (MALLOC_UNLOCK cur.mutex st).bind fun st =>
      match st.malloc_pool j with
      | none => .undefined
      | some nxt =>
        (MALLOC_LOCK nxt.mutex st).bind fun st =>
        let st := set_pool st j { nxt with active := nxt.active + 1 }
        (find_in ps mopts j p st).bind fun (r, st) =>
        match r with
        | some ri =>
          match st.malloc_pool argpool, st.malloc_pool j with
          | some arg2, some fnd =>
            .ok (some (ri, fnd.func), j, set_pool st j { fnd with func := arg2.func })
          | _, _ => .undefined
        | none => findpool_loop ps mopts p argpool nmutexes rem ((i + 1) % 2 ^ 32) j st
    | _, _ => .undefined

/-- `findpool(p, argpool, &pool, &saved_function)` on the pools of the process: the
slot found, the index of the pool it is in, and the `saved_function` if it was stored. -/
def findpool_mt (ps : Nat) (mopts : malloc_readonly) (p argpool : Nat) (st : pools_state) :
    Outcome ((Nat × Nat × Option Nat) × pools_state) :=
  (find_in ps mopts argpool p st).bind fun (r, st) =>
  match r with
  | some ri => .ok ((ri, argpool, none), st)
  | none =>
    match st.malloc_pool 1 with
    | none => .undefined
    | some p1 =>
      let nmutexes := if p1.malloc_mt ≠ 0 then mopts.malloc_mutexes else 2
      (findpool_loop ps mopts p argpool nmutexes (nmutexes - 1) 1 argpool st).bind
        fun (r, pool, st) =>
        match r with
        | none => .abort .bogus_pointer
        | some (ri, saved) => .ok ((ri, pool, some saved), st)

/-- The pool the specification names for round `i`: `(start + i) mod N`. -/
def pool_at (argpool nmutexes i : Nat) : Nat := (argpool + i) % nmutexes

/-- The call `find(mopts.malloc_pool[x], p)` on the pools `P`. -/
def find_at (ps : Nat) (mopts : malloc_readonly) (P : Nat → Option pool_entry) (p x : Nat) :
    Outcome (Option Nat) :=
  match P x with
  | none => .undefined
  | some e => find ps mopts e.d p

/-- The entry `e` with `active` changed by `δ`. -/
def adj_active (e : pool_entry) (δ : Int) : pool_entry := { e with active := e.active + δ }

/-- The pools `P` after the thread has handed itself over from the pool `a` to the
pool `j`: `a` has one activation less and `j` one more. -/
def handed_over (P : Nat → Option pool_entry) (a j : Nat) : Nat → Option pool_entry :=
  fun x =>
    if j = a then P x
    else if x = j then (P x).map (fun e => adj_active e 1)
    else if x = a then (P x).map (fun e => adj_active e (-1))
    else P x

/-- Two pools used to run `findpool`: pool 0 has the directory `example_dir`, pool 1 an
empty one; the process is single-threaded and the thread is in pool 1, whose mutex it
holds. -/
def example_pools : pools_state :=
  { malloc_pool := fun x =>
      if x = 0 then some ⟨example_dir, 0, 0x500, 0, 0⟩
      else if x = 1 then some ⟨omalloc_poolinit (default_mopts 7) 8192 0, 1, 0x600, 1, 0⟩
      else none
    held := [1]
    max_held := 1
    examined := [] }

/-- The state `s` has the chunk headers, the chunk lists and the delayed-free ring of
`z`. -/
@[reducible] def chunk_frame (z s : pool_state) : Prop :=
  s.heap = z.heap ∧ s.chunk_info_list = z.chunk_info_list ∧ s.chunk_dir = z.chunk_dir ∧
  s.delayed_chunks = z.delayed_chunks

/-- The chunk list that `malloc_bytes` picks with the next two random bytes:
`r = getrbyte(d) << 8 | getrbyte(d)` and `listnum = r % MALLOC_CHUNK_LISTS`. -/
def drawn_list (env : List Nat) : Nat :=
  ((((env.headD 0 % 256) <<< 8) % 2 ^ 32) ||| (env.tail.headD 0 % 256)) % MALLOC_CHUNK_LISTS

/-- A `chunk_info` that `alloc_chunk_info` may hand out for the bucket `b`: a blank one
with room for the bitmap, or one that `free_bytes` returned with all its chunks
free. -/
def info_ready (ps b : Nat) (ci : chunk_info) : Prop :=
  (ci.total = 0 ∧ howmany (MALLOC_PAGESIZE ps / B2ALLOC b) MALLOC_BITS ≤ ci.bits.length) ∨
  (chunk_wf ps ci ∧ ci.free = ci.total ∧ ci.bucket = b)

/-- The options that the string "cfgjs" leaves, with 12-bit pages and the canary 7. -/
def cfgjs_mopts : malloc_readonly := malloc_init_mopts 12 "cfgjs".toList 7 0 0

/-- A fresh pool 1 under `cfgjs_mopts` with an environment whose random bytes pick
chunk list 0 in two calls of `malloc`. -/
def cfgjs_pool : pool_state :=
  { malloc_init_pool 12 cfgjs_mopts 0x7000 1 [] with
    env := [0, 0, 0x100000, 0x200000, 0x300000, 5, 0, 0, 9] }

/-- The pool `cfgjs_pool` after `malloc(17)`. -/
def cfgjs_pool1 : pool_state :=
  (state_after (malloc 12 cfgjs_mopts 17 0 cfgjs_pool)).getD example_pool

/-- The pool `cfgjs_pool1` after `free(0x13f000)`. -/
def cfgjs_pool2 : pool_state :=
  (state_after (free 12 cfgjs_mopts 0x13f000 cfgjs_pool1)).getD example_pool

/-- The pool `cfgjs_pool2` after `malloc(17)`. -/
def cfgjs_pool3 : pool_state :=
  (state_after (malloc 12 cfgjs_mopts 17 0 cfgjs_pool2)).getD example_pool

/-- `SOME_FREEJUNK_ULL`. -/
def SOME_FREEJUNK_ULL : Nat := 0xdfdfdfdfdfdfdfdf

/-- The loop `for (i = ...; i < sz; i += step) lp[i] = SOME_FREEJUNK_ULL;` of
`junk_free` from the index `i` on.  The memory of the region is a function from the
index of a 64-bit word, counted from `p`, to its value; next to it the loop returns
the indices it has written, in order.  `none` stands for a loop that has not ended
after `fuel` rounds. -/
def junk_free_loop (step sz : Nat) :
    Nat → Nat → (Nat → Nat) → List Nat → Option ((Nat → Nat) × List Nat)
  | 0, _, _, _ => none
  | fuel + 1, i, mem, written =>
    if i < sz then
      junk_free_loop step sz fuel (add64 i step)
        (fun a => if a = i then SOME_FREEJUNK_ULL else mem a) (written ++ [i])
    else some (mem, written)

/-- `junk_free(junk, p, sz)` on the words of the region at `p`: the memory afterwards
and the indices of the words written. -/
def junk_free_mem (ps : Nat) (mopts : malloc_readonly) (junk : Nat) (mem : Nat → Nat)
    (sz : Nat) : Option ((Nat → Nat) × List Nat) :=
  if junk = 0 ∨ sz = 0 then some (mem, [])
  else
    let sz := sz / 8
    let sz1 := if junk = 1 ∧ sz > MALLOC_PAGESIZE ps / 8 then MALLOC_PAGESIZE ps / 8 else sz
    let step := if junk = 1 then (if sz1 / 4 = 0 then 1 else sz1 / 4) else 1
    junk_free_loop step sz1 (sz1 + 1) (mopts.junk_loc % step) mem []

/-- The loop `for (i = ...; i < sz; i += step) if (lp[i] != SOME_FREEJUNK_ULL)
wrterror(...)` of `validate_junk` from the index `i` on: whether it aborts, and the
indices of the words it has read, in order. -/
def validate_junk_loop (mem : Nat → Nat) (step sz : Nat) :
    Nat → Nat → List Nat → Option (Bool × List Nat)
  | 0, _, _ => none
  | fuel + 1, i, read =>
    if i < sz then
      if mem i ≠ SOME_FREEJUNK_ULL then some (true, read ++ [i])
      else validate_junk_loop mem step sz fuel (add64 i step) (read ++ [i])
    else some (false, read)

/-- `validate_junk(pool, p, sz)` on the words of the region at `p`, for a pool with
the junk level `malloc_junk`: the outcome and the indices of the words read. -/
def validate_junk_mem (ps : Nat) (mopts : malloc_readonly) (malloc_junk : Nat)
    (mem : Nat → Nat) (sz : Nat) : Option (Outcome Unit × List Nat) :=
  if malloc_junk = 0 ∨ sz = 0 then some (.ok (), [])
  else
    let sz := sz / 8
    let sz1 := if malloc_junk = 1 ∧ sz > MALLOC_PAGESIZE ps / 8 then MALLOC_PAGESIZE ps / 8
      else sz
    let step := if malloc_junk = 1 then (if sz1 / 4 = 0 then 1 else sz1 / 4) else 1
    match validate_junk_loop mem step sz1 (sz1 + 1) (mopts.junk_loc % step) [] with
    | none => none
    | some (true, read) => some (.abort .write_after_free, read)
    | some (false, read) => some (.ok (), read)

/-- The state `s` has the chunk headers and the delayed-free ring of `z`. -/
@[reducible] def heap_ring_frame (z s : pool_state) : Prop :=
  s.heap = z.heap ∧ s.delayed_chunks = z.delayed_chunks

/-- A fresh pool 1 under `cfgjs_mopts` with an environment whose random bytes pick
slot 3 of the delayed-free ring in two calls of `free`. -/
def ring_pool : pool_state :=
  { malloc_init_pool 12 cfgjs_mopts 0x7000 1 [] with
    env := [0, 0, 0x100000, 0x200000, 0x300000, 3, 3] }

/-- The pool `ring_pool` after `p = malloc(17)` and `free(p + 16)`. -/
def ring_pool1 : pool_state :=
  (state_after ((do
    let p ← malloc 12 cfgjs_mopts 17 0
    free 12 cfgjs_mopts (p + 16) : Run Unit) ring_pool)).getD example_pool

/-- The pool `ring_pool1` after the chunk path of `free(p)`. -/
def ring_pool2 : pool_state :=
  (state_after (ofree_chunk 12 cfgjs_mopts 321 0x13f000 32 ring_pool1)).getD example_pool

/-- What holds of the run of `m` from `s` whatever its outcome: `Q` of the result and
the state when it returns, `P` of the message when it aborts, and `D` when a loop
does not exit or the behaviour is undefined. -/
@[irreducible] def wpx {α : Type} (m : Run α) (P : wrterror_msg → Prop) (D : Prop)
    (Q : α → pool_state → Prop) (s : pool_state) : Prop :=
  match m s with
  | .ok (a, s') => Q a s'
  | .abort e => P e
  | .diverge => D
  | .undefined => D

/-- The pool `example_pool` after `omalloc` of 3000 bytes. -/
def example_pool_3000 : pool_state :=
  (state_after (omalloc 12 (default_mopts 7) 3000 0 0 example_pool)).getD example_pool

/-- The big cache is consistent: the array has `bigcache_size` slots, that number is
zero or a power of two of at most `2 ^ 16`, no slot holds more than
`MAX_BIGCACHEABLE_SIZE` pages, and `bigcache_used` is the sum of `psize` over the
slots. -/
def bigcache_ok (s : pool_state) : Prop :=
  s.bigcache.length = s.bigcache_size ∧
  (s.bigcache_size = 0 ∨ ∃ k, k ≤ 16 ∧ s.bigcache_size = 2 ^ k) ∧
  (∀ e ∈ s.bigcache, e.psize ≤ MAX_BIGCACHEABLE_SIZE) ∧
  s.bigcache_used = (s.bigcache.map (fun e => e.psize)).sum

/-- The relation of a state to any reference state under which `keeps` states that a
run preserves the consistency of the big cache. -/
@[reducible] def bigcache_rel (_z s : pool_state) : Prop := bigcache_ok s

/-- The state `s` has the big cache of `z`: its slots, its size and its page
count. -/
@[reducible] def cache3_frame (z s : pool_state) : Prop :=
  s.bigcache = z.bigcache ∧ s.bigcache_size = z.bigcache_size ∧
  s.bigcache_used = z.bigcache_used

/-- A pool whose big cache holds a run of 40 pages in slot 5. -/
def example_bigcache_pool : pool_state :=
  { malloc_init_pool 12 (default_mopts 7) 0x7000 1 [] with
    bigcache := (List.replicate 64 ⟨0, 0⟩).set 5 ⟨0x500000, 40⟩
    bigcache_used := 40 }

/-- The chunk a pointer stands for in the pool: the header of its chunk page, from the
slot that `find` gives, and the chunk number that `find_chunknum` computes from the
pointer; `none` when `find` has no entry for the page or one of the two aborts. -/
def chunk_of (ps : Nat) (mopts : malloc_readonly) (s : pool_state) (t : Nat) :
    Option (Nat × Nat) :=
  match find ps mopts s.d t with
  | .ok (some rt) =>
    match find_chunknum ps s.d.canary1 (heap_get s (slot s.d.r rt).size) t with
    | .ok k => some ((slot s.d.r rt).size, k)
    | _ => none
  | _ => none

/-- The pointer `p` and the pointers waiting in the delayed-free ring are chunks in
use: the ring has its 16 slots, each of these pointers that is not null stands for a
chunk `k < total` of a well-formed header of the pool whose bit says in use, and no
two of them stand for the same chunk. -/
def delayed_ok (ps : Nat) (mopts : malloc_readonly) (s : pool_state) (p : Nat) : Prop :=
  s.delayed_chunks.length = MALLOC_DELAYED_CHUNK_MASK + 1 ∧
  (∀ t ∈ p :: s.delayed_chunks, t ≠ 0 → ∃ bp k, chunk_of ps mopts s t = some (bp, k) ∧
    bp < s.heap.length ∧ chunk_wf ps (heap_get s bp) ∧ k < (heap_get s bp).total) ∧
  (p :: s.delayed_chunks).Pairwise (fun t u => t ≠ 0 → u ≠ 0 →
    chunk_of ps mopts s t ≠ chunk_of ps mopts s u)

/-- The options that the string "F" leaves, with 12-bit pages and the canary 7. -/
def freecheck_mopts : malloc_readonly := malloc_init_mopts 12 "F".toList 7 0 0

/-- A pool under `freecheck_mopts` with a directory of eight slots whose only entry is
the chunk page `0x1000` of 32-byte chunks, with its header at index 0: the chunks 0, 1
and 2 are in use, the chunks 1 and 2 (`0x1020`, `0x1040`) wait in the slots 3 and 1 of
the delayed-free ring.  The environment answers the two junk checks of the scan with
"not overwritten" and draws the ring index 3. -/
def double_free_pool : pool_state :=
  { malloc_init_pool 12 freecheck_mopts 4096 1 [] with
    d := { omalloc_poolinit freecheck_mopts 4096 0 with
      r := [⟨0, 0, 0⟩, ⟨0, 0, 0⟩, ⟨0, 0, 0⟩, ⟨0, 0, 0⟩, ⟨0, 0, 0⟩, ⟨0, 0, 0⟩, ⟨0, 0, 0⟩,
        ⟨0x1003, 0, 0⟩]
      regions_total := 8
      regions_free := 7 }
    heap := [⟨0x1000, 4103, 2, 125, 128, 8,
      [0xfff8, 0xffff, 0xffff, 0xffff, 0xffff, 0xffff, 0xffff, 0xffff]⟩]
    delayed_chunks := [0, 0x1040, 0, 0x1020, 0, 0, 0, 0, 0, 0, 0, 0, 0, 0, 0, 0]
    env := [0, 0, 3] }

/-- The pool `double_free_pool` after `free(0x1000)`. -/
def double_free_pool1 : pool_state :=
  (state_after (free 12 freecheck_mopts 0x1000 double_free_pool)).getD example_pool

/-- The options that the string "CF" leaves, with 12-bit pages, the canary 7 and the
chunk canary byte `0x5a`. -/
def cf_mopts : malloc_readonly := malloc_init_mopts 12 "CF".toList 7 0 0x5a

/-- A pool under `cf_mopts` with a directory of eight slots whose only entry is the
chunk page `0x1000` of 48-byte chunks, with its header at index 0: chunk 0 is in use
with the requested size 40, as `malloc(40)` leaves it, and the delayed-free ring is
empty.  The environment tells the first `free` that the canary bytes are intact and
draws the ring index 3, then tells the second `free` that a canary byte is
overwritten. -/
def cf_pool : pool_state :=
  { malloc_init_pool 12 cf_mopts 4096 1 [] with
    d := { omalloc_poolinit cf_mopts 4096 0 with
      r := [⟨0, 0, 0⟩, ⟨0, 0, 0⟩, ⟨0, 0, 0⟩, ⟨0, 0, 0⟩, ⟨0, 0, 0⟩, ⟨0, 0, 0⟩, ⟨0, 0, 0⟩,
        ⟨0x1004, 0, 0⟩]
      regions_total := 8
      regions_free := 7 }
    heap := [⟨0x1000, 4103, 3, 84, 85, 6,
      [0xfffe, 0xffff, 0xffff, 0xffff, 0xffff, 0x1f, 40] ++ List.replicate 84 0⟩]
    env := [0, 3, 1] }

/-- The 64-bit words of the region at `p` in a memory of bytes, as `junk_free` sees
them through `uint64_t *lp = p` on a little-endian machine. -/
def region_words (mem : Nat → Nat) (p : Nat) : Nat → Nat :=
  fun i => (List.range 8).foldl (fun acc j => acc + (mem (p + 8 * i + j) % 256) <<< (8 * j)) 0

/-- The bytes at the addresses from `p` on when the region at `p` holds the 64-bit
words `words`. -/
def region_bytes (words : Nat → Nat) (p : Nat) : Nat → Nat :=
  fun a => (words ((a - p) / 8) >>> (8 * ((a - p) % 8))) % 256

/-! ## The pool with the memory it hands out

The functions of the pool above leave the stores into user memory out and take the
verdicts of the junk and canary validations from the environment.  Here the same
functions are given with their memory traffic: the state has the bytes of the address
space and the pages that are `PROT_NONE`, every `memset`, `memcpy`, `junk_free` and
`fill_canary` of the source is a store into these bytes, and `validate_junk` and
`validate_canary` read them. -/

/-- The pool with the memory of the process.

* `pool` is the state of the pool as above;
* `mem` gives the byte at each address;
* `prot` lists the pages that are `PROT_NONE` at the moment;
* `faults` collects the pages of `prot` that a load or store of the allocator has
  touched so far: each of these accesses raises `SIGSEGV`, and what the run does after
  the first of them is only what it would have done. -/
structure mem_state where
  pool : pool_state
  mem : Nat → Nat
  prot : List Nat
  faults : List Nat

/-- A function of the allocator acting on the pool and the memory. -/
abbrev RunM (α : Type) : Type := StateT mem_state Outcome α

namespace Mem

/-- A step on the pool alone. -/
def lift_pool {α : Type} (m : Run α) : RunM α := fun ms =>
  (m ms.pool).bind (fun r => .ok (r.1, { ms with pool := r.2 }))

/-- The pool at the moment. -/
@[reducible] def pool_get : RunM pool_state := lift_pool get

/-- The pages of `prot` on which one of the `n` bytes at `a` lies. -/
def touched (ps : Nat) (prot : List Nat) (a n : Nat) : List Nat :=
  prot.filter (fun P => decide (n ≠ 0 ∧ a < P + MALLOC_PAGESIZE ps ∧ P < a + n))

/-- A load or store of the `n` bytes at `a`. -/
def access (ps a n : Nat) : RunM Unit :=
  modify (fun ms => { ms with faults := ms.faults ++ touched ps ms.prot a n })

/-- `memset(p, c, n)`, for a range that does not wrap around the address space. -/
def memset (ps p c n : Nat) : RunM Unit := do
  access ps p n
  modify (fun ms => { ms with
    mem := fun a => if p ≤ a ∧ a < p + n then c % 256 else ms.mem a })

/-- `explicit_bzero(p, n)`. -/
def explicit_bzero (ps p n : Nat) : RunM Unit := memset ps p 0 n

/-- `memcpy(dst, src, n)` and `memmove(dst, src, n)`: the bytes stored are the ones
that were at `src` before the call. -/
def memcpy (ps dst src n : Nat) : RunM Unit := do
  access ps src n
  access ps dst n
  modify (fun ms => { ms with
    mem := fun a => if dst ≤ a ∧ a < dst + n then ms.mem (src + (a - dst)) else ms.mem a })

/-- `junk_free(junk, p, sz)`: the words that the loop of `junk_free_mem` writes are
set to `SOME_FREEJUNK_ULL`, every byte of which is `SOME_FREEJUNK`. -/
def junk_free (ps : Nat) (mopts : malloc_readonly) (junk p sz : Nat) : RunM Unit := do
  let ms ← get
  match junk_free_mem ps mopts junk (region_words ms.mem p) sz with
  | none => lift_pool diverges
  | some (_, written) =>
    modify (fun ms => { ms with
      mem := fun a => if p ≤ a ∧ (a - p) / 8 ∈ written then SOME_FREEJUNK else ms.mem a
      faults := ms.faults ++ (written.map (fun i => touched ps ms.prot (p + 8 * i) 8)).join })

/-- `validate_junk(pool, p, sz)`: the loop of `validate_junk_mem` on the words at
`p`. -/
def validate_junk (ps : Nat) (mopts : malloc_readonly) (p sz : Nat) : RunM Unit := do
  let ms ← get
  match validate_junk_mem ps mopts ms.pool.d.malloc_junk (region_words ms.mem p) sz with
  | none => lift_pool diverges
  | some (o, read) => do
    modify (fun ms => { ms with
      faults := ms.faults ++ (read.map (fun i => touched ps ms.prot (p + 8 * i) 8)).join })
    lift_pool (lift_outcome o)

/-- `fill_canary(ptr, sz, allocated)`. -/
def fill_canary (ps : Nat) (mopts : malloc_readonly) (ptr sz allocated : Nat) :
    RunM Unit := do
  let check_sz := sub64 allocated sz
  let check_sz := if check_sz > CHUNK_CHECK_LENGTH then CHUNK_CHECK_LENGTH else check_sz
  access ps (add64 ptr sz) check_sz
  modify (fun ms => { ms with mem := OMalloc.fill_canary mopts ms.mem ptr sz allocated })

/-- `validate_canary(d, ptr, sz, allocated)`: the loop of `validate_canary_mem` on the
bytes behind the object. -/
def validate_canary (ps : Nat) (mopts : malloc_readonly) (ptr sz allocated : Nat) :
    RunM Unit := do
  let check_sz := sub64 allocated sz
  let check_sz := if check_sz > CHUNK_CHECK_LENGTH then CHUNK_CHECK_LENGTH else check_sz
  access ps (add64 ptr sz) check_sz
  let ms ← get
  lift_pool (lift_outcome (validate_canary_mem mopts ms.mem ptr sz allocated))

/-- `mprotect(a, sz, prot)` where the result is not looked at; the call is taken to
succeed.  `none` tells `PROT_NONE` from `PROT_READ | PROT_WRITE`. -/
def mprotect (ps a sz : Nat) (none : Bool) : RunM Unit :=
  modify (fun ms => { ms with
    prot := if none then page_list ps a sz ++ ms.prot
      else ms.prot.filter (fun P => decide (P ∉ page_list ps a sz)) })

/-- `mprotect(a, sz, prot)` where the result is looked at. -/
def os_mprotect (ps a sz : Nat) (none : Bool) : RunM Nat := do
  let rc ← lift_pool OMalloc.os_mprotect
  if rc = 0 then mprotect ps a sz none
  pure rc

/-- `MMAP(sz, f)`: the pages of a new mapping read as zero and can be read and
written. -/
def os_mmap (ps sz : Nat) : RunM Nat := do
  let a ← lift_pool (OMalloc.os_mmap ps sz)
  if a ≠ MAP_FAILED then
    modify (fun ms => { ms with
      mem := fun x =>
        if a ≤ x ∧ x < a + howmany sz (MALLOC_PAGESIZE ps) * MALLOC_PAGESIZE ps then 0
        else ms.mem x
      prot := ms.prot.filter (fun P => decide (P ∉ page_list ps a sz)) })
  pure a

/-- `MMAPA(a, sz, MAP_FIXED | __MAP_NOREPLACE | f)`. -/
def os_mmap_fixed (ps a sz : Nat) : RunM Nat := do
  let q ← lift_pool (OMalloc.os_mmap_fixed ps a sz)
  if q ≠ MAP_FAILED then
    modify (fun ms => { ms with
      mem := fun x =>
        if q ≤ x ∧ x < q + howmany sz (MALLOC_PAGESIZE ps) * MALLOC_PAGESIZE ps then 0
        else ms.mem x
      prot := ms.prot.filter (fun P => decide (P ∉ page_list ps q sz)) })
  pure q

/-- `munmap(a, sz)`: the pages are gone, and with them their protection. -/
def os_munmap (ps a sz : Nat) : RunM Nat := do
  let rc ← lift_pool (OMalloc.os_munmap a sz)
  if rc = 0 then
    modify (fun ms => { ms with
      prot := ms.prot.filter (fun P => decide (P ∉ page_list ps a sz)) })
  pure rc

/-- The big cache branch of `unmap`. -/
def unmap_big (ps : Nat) (mopts : malloc_readonly) (p sz psz clear : Nat) : RunM Unit := do
  let base ← lift_pool getrbyte
  let s ← pool_get
  match unmap_scan s.bigcache s.bigcache_size
      (decide (s.bigcache_used < BIGCACHE_FILL s.bigcache_size)) base
      (s.bigcache_size / 4) 0 none with
  | none => lift_pool undefined_behaviour
  | some i => do
    let e := s.bigcache.getD i ⟨0, 0⟩
    if e.psize ≠ 0 then do
      lift_pool (modify (fun t => { t with bigcache_used := sub64 s.bigcache_used e.psize }))
      if mopts.malloc_freeunmap = 0 then validate_junk ps mopts e.page (shl64 e.psize ps)
      let rc ← os_munmap ps e.page (shl64 e.psize ps)
      if rc ≠ 0 then lift_pool (wrterror .munmap)
    if clear > 0 then explicit_bzero ps p clear
    if mopts.malloc_freeunmap ≠ 0 then do
      let rc ← os_mprotect ps p sz true
      if rc ≠ 0 then lift_pool (wrterror .mprotect)
    else junk_free ps mopts s.d.malloc_junk p sz
    lift_pool (modify (fun s => { s with
      bigcache := s.bigcache.set i ⟨p, psz⟩
      bigcache_used := add64 s.bigcache_used psz }))

/-- The small cache branch of `unmap`, for the cache `smallcache[psz - 1]`. -/
def unmap_small (ps : Nat) (mopts : malloc_readonly) (p sz psz clear : Nat) :
    RunM Unit := do
  let s ← pool_get
  let cache := s.smallcache.getD (psz - 1) ⟨[], 0, 0⟩
  if cache.length = cache.max then do
    let x ← lift_pool getrbyte
    let i := (x &&& (cache.max - 1)) % 2 ^ 16
    let r := cache.pages.getD i 0
    if r &&& 1 = 0 ∧ mopts.malloc_freeunmap = 0 then validate_junk ps mopts (r &&& not64 1) sz
    let rc ← os_munmap ps (r &&& not64 1) sz
    if rc ≠ 0 then lift_pool (wrterror .munmap)
    if clear > 0 then explicit_bzero ps p clear
    if mopts.malloc_freeunmap ≠ 0 then mprotect ps p sz true
    else junk_free ps mopts s.d.malloc_junk p sz
    let cache1 : smallcache := { cache with
      pages := cache.pages.set i p
      length := ((cache.length + 2 ^ 16 - 1) % 2 ^ 16 + 1) % 2 ^ 16 }
    lift_pool (modify (fun s => { s with smallcache := s.smallcache.set (psz - 1) cache1 }))
  else do
    if clear > 0 then explicit_bzero ps p clear
    if mopts.malloc_freeunmap ≠ 0 then mprotect ps p sz true
    else junk_free ps mopts s.d.malloc_junk p sz
    let cache1 : smallcache := { cache with
      pages := cache.pages.set (cache.length % 2 ^ 16) p
      length := (cache.length + 1) % 2 ^ 16 }
    lift_pool (modify (fun s => { s with smallcache := s.smallcache.set (psz - 1) cache1 }))

/-- `unmap(d, p, sz, clear)`. -/
def unmap (ps : Nat) (mopts : malloc_readonly) (p sz clear : Nat) : RunM Unit := do
  let psz := sz >>> ps
  if sz ≠ PAGEROUND ps sz ∨ psz = 0 then lift_pool (wrterror .munmap_round)
  else do
    let s ← pool_get
    if s.bigcache_size > 0 ∧ psz > MAX_SMALLCACHEABLE_SIZE ∧
        psz ≤ MAX_BIGCACHEABLE_SIZE then unmap_big ps mopts p sz psz clear
    else if psz > MAX_SMALLCACHEABLE_SIZE ∨
        (s.smallcache.getD (psz - 1) ⟨[], 0, 0⟩).max = 0 then do
      let rc ← os_munmap ps p sz
      if rc ≠ 0 then lift_pool (wrterror .munmap)
    else unmap_small ps mopts p sz psz clear

/-- The big cache branch of `map`: the page found, if any. -/
def map_big (ps : Nat) (mopts : malloc_readonly) (sz psz zero_fill : Nat) :
    RunM (Option Nat) := do
  let base ← lift_pool getrbyte
  let s ← pool_get
  match map_scan s.bigcache s.bigcache_size psz base s.bigcache_size 0 s.bigcache_used with
  | none => pure none
  | some i => do
    let p := (s.bigcache.getD i ⟨0, 0⟩).page
    lift_pool (modify (fun t => { t with
      bigcache_used := sub64 s.bigcache_used psz
      bigcache := s.bigcache.set i ⟨0, 0⟩ }))
    if mopts.malloc_freeunmap = 0 then validate_junk ps mopts p sz
    if mopts.malloc_freeunmap ≠ 0 then mprotect ps p sz false
    if zero_fill ≠ 0 then memset ps p 0 sz
    else if mopts.malloc_freeunmap ≠ 0 then junk_free ps mopts s.d.malloc_junk p sz
    pure (some p)

/-- The small cache branch of `map` for the cache `smallcache[psz - 1]`. -/
def map_small (ps : Nat) (mopts : malloc_readonly) (sz psz zero_fill : Nat) :
    RunM (Option Nat) := do
  let s ← pool_get
  let cache := s.smallcache.getD (psz - 1) ⟨[], 0, 0⟩
  if cache.length > 0 then do
    let length1 := (cache.length + 2 ^ 16 - 1) % 2 ^ 16
    let i ← (if cache.length = 1 then pure length1
      else do
        let x ← lift_pool getrbyte
        pure ((x % cache.length) % 2 ^ 16))
    let p := cache.pages.getD i 0
    let cache1 : smallcache := { cache with
      pages := if cache.length = 1 then cache.pages
        else cache.pages.set i (cache.pages.getD length1 0)
      length := length1 }
    lift_pool (modify (fun s => { s with smallcache := s.smallcache.set (psz - 1) cache1 }))
    if p &&& 1 = 0 ∧ mopts.malloc_freeunmap = 0 then validate_junk ps mopts (p &&& not64 1) sz
    if mopts.malloc_freeunmap ≠ 0 then mprotect ps (p &&& not64 1) sz false
    if zero_fill ≠ 0 then memset ps (p &&& not64 1) 0 sz
    else if mopts.malloc_freeunmap ≠ 0 then
      junk_free ps mopts s.d.malloc_junk (p &&& not64 1) sz
    pure (some (p &&& not64 1))
  else if psz ≤ 1 then do
    let p ← os_mmap ps ((cache.max * sz) % 2 ^ 64)
    if p ≠ MAP_FAILED then do
      let cache1 : smallcache := { cache with
        length := (cache.max + 2 ^ 16 - 1) % 2 ^ 16
        pages := (List.range (cache.max - 1)).map (fun i => add64 p (i * sz) ||| 1) ++
          cache.pages.drop (cache.max - 1) }
      lift_pool (modify (fun s => { s with smallcache := s.smallcache.set (psz - 1) cache1 }))
      if mopts.malloc_freeunmap ≠ 0 then mprotect ps p (((cache.max - 1) * sz) % 2 ^ 64) true
      pure (some (add64 p ((cache.max - 1) * sz)))
    else pure none
  else pure none

/-- `map(d, sz, zero_fill)`. -/
def map (ps : Nat) (mopts : malloc_readonly) (sz zero_fill : Nat) : RunM Nat := do
  let psz := sz >>> ps
  let s ← pool_get
  if canary_corrupt mopts s.d then lift_pool (wrterror .internal_struct_corrupt)
  else if sz ≠ PAGEROUND ps sz ∨ psz = 0 then lift_pool (wrterror .map_round)
  else do
    let big ← (if s.bigcache_size > 0 ∧ psz > MAX_SMALLCACHEABLE_SIZE ∧
        psz ≤ MAX_BIGCACHEABLE_SIZE then map_big ps mopts sz psz zero_fill else pure none)
    match big with
    | some p => pure p
    | none => do
      let s ← pool_get
      let small ← (if psz ≤ MAX_SMALLCACHEABLE_SIZE ∧
          (s.smallcache.getD (psz - 1) ⟨[], 0, 0⟩).max > 0 then
            map_small ps mopts sz psz zero_fill
        else pure none)
      match small with
      | some p => pure p
      | none => os_mmap ps sz

/-- `omalloc_grow(d)`. -/
def omalloc_grow_pool (ps : Nat) (mopts : malloc_readonly) : RunM Nat := do
  let s ← pool_get
  if s.d.regions_total > SIZE_MAX / sizeof_region_info / 2 then pure 1
  else do
    let newtotal := if s.d.regions_total = 0 then MALLOC_INITIAL_REGIONS
      else s.d.regions_total * 2
    let newsize := PAGEROUND ps ((newtotal * sizeof_region_info) % 2 ^ 64)
    let p ← os_mmap ps newsize
    if p = MAP_FAILED then pure 1
    else do
      let g ← lift_pool (lift_outcome (omalloc_grow ps s.d true))
      if s.d.regions_total > 0 then
        unmap ps mopts s.r_addr
          (PAGEROUND ps ((s.d.regions_total * sizeof_region_info) % 2 ^ 64))
          (PAGEROUND ps ((s.d.regions_total * sizeof_region_info) % 2 ^ 64))
      lift_pool (modify (fun s => { s with d := g.2, r_addr := p }))
      pure 0

/-- `insert(d, p, sz, f)`. -/
def insert_pool (ps : Nat) (mopts : malloc_readonly) (p sz f : Nat) : RunM Nat := do
  let s ← pool_get
  let rc ← (if s.d.regions_free * 4 % 2 ^ 64 < s.d.regions_total ∨ s.d.regions_total = 0
    then omalloc_grow_pool ps mopts else pure 0)
  if rc ≠ 0 then pure 1
  else do
    let s ← pool_get
    let mask := dir_mask s.d.regions_total
    match insert_probe s.d.r mask (mask + 1) (hash ps p &&& mask) with
    | none => lift_pool diverges
    | some index => do
      lift_pool (modify (fun t => { t with d := { s.d with
        r := s.d.r.set index ⟨p, sz, f⟩
        regions_free := sub64 s.d.regions_free 1 } }))
      pure 0

/-- The refill of `alloc_chunk_info` when `chunk_info_list[bucket]` is empty. -/
def alloc_chunk_info_carve (ps : Nat) (mopts : malloc_readonly) (bucket : Nat) :
    RunM Bool := do
  let chunk_pages := 64
  let count := MALLOC_PAGESIZE ps / B2ALLOC bucket
  let size := howmany count MALLOC_BITS
  let size := add64 sizeof_chunk_info ((sub64 size 1 * 2) % 2 ^ 64)
  let size := if mopts.chunk_canaries ≠ 0 then add64 size ((count * 2) % 2 ^ 64) else size
  let size := ALIGN size
  let count := MALLOC_PAGESIZE ps / size
  let s ← pool_get
  let have_block ← (if s.chunk_pages_used = chunk_pages ∨ s.chunk_pages = 0 then do
      let q ← os_mmap ps ((MALLOC_PAGESIZE ps * chunk_pages) % 2 ^ 64)
      if q = MAP_FAILED then pure false
      else do
        lift_pool (modify (fun s => { s with chunk_pages := q, chunk_pages_used := 0 }))
        pure true
    else pure true)
  if have_block then do
    lift_pool (modify (fun s => { s with
      chunk_pages_used := add64 s.chunk_pages_used 1
      chunk_info_list := s.chunk_info_list.set bucket
        (((List.range count).map (fun i => s.heap.length + i)).reverse ++
          s.chunk_info_list.getD bucket [])
      heap := s.heap ++ List.replicate count (fresh_chunk_info ps mopts bucket) }))
    pure true
  else pure false

/-- `alloc_chunk_info(d, bucket)`; `none` is `NULL`. -/
def alloc_chunk_info (ps : Nat) (mopts : malloc_readonly) (bucket : Nat) :
    RunM (Option Nat) := do
  let s ← pool_get
  let have_info ← (if s.chunk_info_list.getD bucket [] = [] then
      alloc_chunk_info_carve ps mopts bucket else pure true)
  if have_info then do
    let s ← pool_get
    match LIST_FIRST (s.chunk_info_list.getD bucket []) with
    | none => lift_pool undefined_behaviour
    | some p => do
      lift_pool (LIST_REMOVE p)
      if (heap_get s p).total = 0 then
        lift_pool (modify (fun s => { s with
          heap := s.heap.set p (init_chunk_info ps s.d.canary1 (heap_get s p) bucket) }))
      pure (some p)
  else pure none

/-- `omalloc_make_chunks(d, bucket, listnum)`; `none` is `NULL`. -/
def omalloc_make_chunks (ps : Nat) (mopts : malloc_readonly) (bucket listnum : Nat) :
    RunM (Option Nat) := do
  let pp ← map ps mopts (MALLOC_PAGESIZE ps) 0
  if pp = MAP_FAILED then pure none
  else do
    let prot ← (if bucket = 0 then os_mprotect ps pp (MALLOC_PAGESIZE ps) true else pure 0)
    if bucket = 0 ∧ prot = 2 ^ 32 - 1 then do
      unmap ps mopts pp (MALLOC_PAGESIZE ps) 0
      pure none
    else do
      let bp ← alloc_chunk_info ps mopts bucket
      match bp with
      | none => do
        unmap ps mopts pp (MALLOC_PAGESIZE ps) 0
        pure none
      | some bp => do
        lift_pool (modify (fun s =>
          { s with heap := s.heap.set bp { heap_get s bp with page := pp } }))
        let rc ← insert_pool ps mopts (pp ||| ((bucket + 1) % 2 ^ 32)) bp 0
        if rc ≠ 0 then do
          unmap ps mopts pp (MALLOC_PAGESIZE ps) 0
          pure none
        else do
          lift_pool (LIST_INSERT_HEAD_dir bucket listnum bp)
          let s ← pool_get
          if bucket > 0 ∧ s.d.malloc_junk ≠ 0 then
            memset ps pp SOME_FREEJUNK (MALLOC_PAGESIZE ps)
          pure (some bp)

/-- `malloc_bytes(d, size, f)`: a chunk, or 0 for `NULL`. -/
def malloc_bytes (ps : Nat) (mopts : malloc_readonly) (size f : Nat) : RunM Nat := do
  let s ← pool_get
  if canary_corrupt mopts s.d then lift_pool (wrterror .internal_struct_corrupt)
  else do
    let bucket := find_bucket mopts size
    let r1 ← lift_pool getrbyte
    let r2 ← lift_pool getrbyte
    let r := ((r1 <<< 8) % 2 ^ 32) ||| r2
    let listnum := r % MALLOC_CHUNK_LISTS
    let s ← pool_get
    let made ← (match LIST_FIRST ((s.chunk_dir.getD bucket []).getD listnum []) with
      | some bp => pure (some bp)
      | none => omalloc_make_chunks ps mopts bucket listnum)
    match made with
    | none => pure 0
    | some bp => do
      let s ← pool_get
      let info := heap_get s bp
      if info.canary ≠ s.d.canary1 % 2 ^ 16 then lift_pool (wrterror .chunk_info_corrupted)
      else
        match malloc_bytes_take mopts info r size with
        | none => lift_pool diverges
        | some (ci, k) => do
          if k = 0 ∧ mopts.malloc_stats ≠ 0 then do
            let ri ← lift_pool (lift_outcome (find ps mopts s.d info.page))
            match ri with
            | none => lift_pool undefined_behaviour
            | some ri => lift_pool (STATS_SETF ri f)
          lift_pool (modify (fun s => { s with heap := s.heap.set bp ci }))
          if ci.free = 0 then lift_pool (LIST_REMOVE bp)
          let p := add64 info.page ((k * B2ALLOC info.bucket) % 2 ^ 64)
          if info.bucket > 0 then do
            validate_junk ps mopts p (B2SIZE info.bucket)
            if mopts.chunk_canaries ≠ 0 then fill_canary ps mopts p size (B2SIZE info.bucket)
          pure p

/-- `omalloc(pool, sz, zero_fill, f)`: the pointer, or 0 for `NULL`. -/
def omalloc (ps : Nat) (mopts : malloc_readonly) (sz zero_fill f : Nat) : RunM Nat := do
  if sz > MALLOC_MAXCHUNK ps then
    if sz ≥ sub64 (sub64 SIZE_MAX mopts.malloc_guard) (MALLOC_PAGESIZE ps) then do
      lift_pool (modify (fun s => { s with errno := ENOMEM }))
      pure 0
    else do
      let sz := add64 sz mopts.malloc_guard
      let psz := PAGEROUND ps sz
      let p ← map ps mopts psz zero_fill
      if p = MAP_FAILED then do
        lift_pool (modify (fun s => { s with errno := ENOMEM }))
        pure 0
      else do
        let rc ← insert_pool ps mopts p sz f
        if rc ≠ 0 then do
          unmap ps mopts p psz 0
          lift_pool (modify (fun s => { s with errno := ENOMEM }))
          pure 0
        else do
          if mopts.malloc_guard ≠ 0 then do
            let prot ← os_mprotect ps (sub64 (add64 p psz) mopts.malloc_guard)
              mopts.malloc_guard true
            if prot ≠ 0 then lift_pool (wrterror .mprotect)
          let s ← pool_get
          if MALLOC_MOVE_COND ps mopts sz then do
            if s.d.malloc_junk = 2 then memset ps p SOME_JUNK (sub64 psz mopts.malloc_guard)
            if zero_fill ≠ 0 ∧ s.d.malloc_junk = 2 then
              memset ps (MALLOC_MOVE ps mopts p sz) 0 (sub64 sz mopts.malloc_guard)
            pure (MALLOC_MOVE ps mopts p sz)
          else do
            if s.d.malloc_junk = 2 then
              if zero_fill ≠ 0 then
                memset ps (sub64 (add64 p sz) mopts.malloc_guard) SOME_JUNK (sub64 psz sz)
              else memset ps p SOME_JUNK (sub64 psz mopts.malloc_guard)
            else if mopts.chunk_canaries ≠ 0 then
              fill_canary ps mopts p (sub64 sz mopts.malloc_guard)
                (sub64 psz mopts.malloc_guard)
            pure p
  else do
    let p ← malloc_bytes ps mopts sz f
    if zero_fill ≠ 0 ∧ p ≠ 0 ∧ sz > 0 then memset ps p 0 sz
    pure p

/-- `find_chunknum(d, info, ptr, check)` with the canary validation of `check`. -/
def find_chunknum_check (ps : Nat) (mopts : malloc_readonly) (info : chunk_info)
    (ptr check : Nat) : RunM Nat := do
  let s ← pool_get
  let chunknum ← lift_pool (lift_outcome (find_chunknum ps s.d.canary1 info ptr))
  if check ≠ 0 ∧ info.bucket > 0 then
    validate_canary ps mopts ptr (bits_word info.bits (info.offset + chunknum))
      (B2SIZE info.bucket)
  pure chunknum

/-- `free_bytes(d, r, ptr)` for the slot `ri`. -/
def free_bytes (ps : Nat) (mopts : malloc_readonly) (ri ptr : Nat) : RunM Unit := do
  let s ← pool_get
  let bp := (slot s.d.r ri).size
  let info := heap_get s bp
  let chunknum ← find_chunknum_check ps mopts info ptr 0
  if chunknum = 0 then lift_pool (STATS_SETF ri 0)
  let info1 := free_bytes_mark info chunknum
  lift_pool (modify (fun s => { s with heap := s.heap.set bp info1 }))
  if info1.free = 1 then do
    let x ← lift_pool getrbyte
    lift_pool (LIST_INSERT_HEAD_dir info1.bucket (x % MALLOC_CHUNK_LISTS) bp)
  else if info1.free ≠ info1.total then pure ()
  else do
    lift_pool (LIST_REMOVE bp)
    if info1.bucket = 0 ∧ mopts.malloc_freeunmap = 0 then
      mprotect ps info1.page (MALLOC_PAGESIZE ps) false
    unmap ps mopts info1.page (MALLOC_PAGESIZE ps) 0
    lift_pool (delete_pool ps ri)
    lift_pool (LIST_INSERT_HEAD_info info1.bucket bp)

/-- The loop of `ofree` over `delayed_chunks` under `malloc_freecheck`. -/
def ofree_freecheck (ps : Nat) (mopts : malloc_readonly) (p : Nat) : List Nat → RunM Unit
  | [] => pure ()
  | tmp :: rest => do
    if tmp = p then lift_pool (wrterror .double_free)
    else do
      if tmp ≠ 0 then do
        let s ← pool_get
        let r ← lift_pool (lift_outcome (find ps mopts s.d tmp))
        match r with
        | none => lift_pool (wrterror .bogus_pointer)
        | some ri => validate_junk ps mopts tmp (REALSIZE ps (slot s.d.r ri))
      ofree_freecheck ps mopts p rest

/-- The branch of `ofree` for a region of more than `MALLOC_MAXCHUNK` bytes. -/
def ofree_large (ps : Nat) (mopts : malloc_readonly) (ri p sz clear argsz : Nat) :
    RunM Unit := do
  let s ← pool_get
  let r := slot s.d.r ri
  let p ← (if ¬ MALLOC_MOVE_COND ps mopts sz then do
      if r.p ≠ p then lift_pool (wrterror .bogus_pointer)
      else do
        if mopts.chunk_canaries ≠ 0 then
          validate_canary ps mopts p (sub64 sz mopts.malloc_guard)
            (PAGEROUND ps (sub64 sz mopts.malloc_guard))
        pure p
    else do
      if p ≠ MALLOC_MOVE ps mopts r.p sz then lift_pool (wrterror .bogus_moved_pointer)
      else pure r.p)
  if mopts.malloc_guard ≠ 0 then do
    if sz < mopts.malloc_guard then lift_pool (wrterror .guard_size)
    if mopts.malloc_freeunmap = 0 then do
      let rc ← os_mprotect ps (sub64 (add64 p (PAGEROUND ps sz)) mopts.malloc_guard)
        mopts.malloc_guard false
      if rc ≠ 0 then lift_pool (wrterror .mprotect)
  unmap ps mopts p (PAGEROUND ps sz) (if clear ≠ 0 then argsz else 0)
  lift_pool (delete_pool ps ri)

/-- The branch of `ofree` for a chunk. -/
def ofree_chunk (ps : Nat) (mopts : malloc_readonly) (ri p sz clear argsz : Nat) :
    RunM Unit := do
  let s ← pool_get
  let info := heap_get s (slot s.d.r ri).size
  if B2SIZE info.bucket ≠ sz then lift_pool (wrterror .internal_struct_corrupt)
  else do
    let _ ← find_chunknum_check ps mopts info p mopts.chunk_canaries
    if mopts.malloc_freecheck ≠ 0 then
      ofree_freecheck ps mopts p
        ((List.range (MALLOC_DELAYED_CHUNK_MASK + 1)).map (fun i => s.delayed_chunks.getD i 0))
    if clear ≠ 0 ∧ argsz > 0 then explicit_bzero ps p argsz
    junk_free ps mopts s.d.malloc_junk p sz
    let x ← lift_pool getrbyte
    let i := x &&& MALLOC_DELAYED_CHUNK_MASK
    let tmp := p
    let p := s.delayed_chunks.getD i 0
    if tmp = p then lift_pool (wrterror .double_free)
    else do
      lift_pool (modify (fun s => { s with delayed_chunks := s.delayed_chunks.set i tmp }))
      if p ≠ 0 then do
        let s ← pool_get
        let r ← lift_pool (lift_outcome (find ps mopts s.d p))
        match r with
        | none => lift_pool (wrterror .bogus_pointer)
        | some ri => do
          if mopts.malloc_freecheck = 0 then
            validate_junk ps mopts p (REALSIZE ps (slot s.d.r ri))
          free_bytes ps mopts ri p

/-- `ofree(argpool, p, clear, check, argsz)`. -/
def ofree (ps : Nat) (mopts : malloc_readonly) (p clear check argsz : Nat) : RunM Unit := do
  let ri ← lift_pool (findpool ps mopts p)
  let s ← pool_get
  let r := slot s.d.r ri
  let sz := REALSIZE ps r
  let clear := if s.d.mmap_flag ≠ 0 then 1 else clear
  let argsz := if s.d.mmap_flag ≠ 0 ∧ check = 0 then
      (if sz > MALLOC_MAXCHUNK ps then sub64 sz mopts.malloc_guard else sz)
    else argsz
  if check ≠ 0 then do
    if sz ≤ MALLOC_MAXCHUNK ps then do
      if mopts.chunk_canaries ≠ 0 ∧ sz > 0 then do
        let info := heap_get s r.size
        let chunknum ← find_chunknum_check ps mopts info p 0
        if bits_word info.bits (info.offset + chunknum) < argsz then
          lift_pool (wrterror .recorded_size)
      else if sz < argsz then lift_pool (wrterror .chunk_size)
    else if sub64 sz mopts.malloc_guard < argsz then lift_pool (wrterror .recorded_size)
  if sz > MALLOC_MAXCHUNK ps then ofree_large ps mopts ri p sz clear argsz
  else ofree_chunk ps mopts ri p sz clear argsz

/-- The first case of `orealloc`, from a region of pages to a region of pages, up to
its `goto done`: the pointer to return, or `none` when control falls through to the
general case.  `oldsz` and `newsz` are the sizes without the guard. -/
def orealloc_pages (ps : Nat) (mopts : malloc_readonly)
    (ri p goldsz gnewsz oldsz newsz f : Nat) : RunM (Option Nat) := do
  let s ← pool_get
  let r := slot s.d.r ri
  let roldsz := PAGEROUND ps goldsz
  let rnewsz := PAGEROUND ps gnewsz
  if rnewsz < roldsz ∧ rnewsz > roldsz / 2 ∧
      sub64 roldsz rnewsz < (mopts.def_maxcache * MALLOC_PAGESIZE ps) % 2 ^ 64 ∧
      mopts.malloc_guard = 0 then pure (some p)
  else if rnewsz > roldsz then
    if mopts.malloc_guard = 0 then do
      let hint := add64 r.p roldsz
      let needed := sub64 rnewsz roldsz
      let q ← os_mmap_fixed ps hint needed
      if q = hint then do
        if s.d.malloc_junk = 2 then memset ps q SOME_JUNK needed
        lift_pool (set_region_size ri gnewsz)
        if r.p ≠ p then memcpy ps r.p p oldsz
        if mopts.chunk_canaries ≠ 0 then
          fill_canary ps mopts (if r.p ≠ p then r.p else p) newsz (PAGEROUND ps newsz)
        lift_pool (STATS_SETF ri f)
        pure (some (if r.p ≠ p then r.p else p))
      else pure none
    else pure none
  else if rnewsz < roldsz then do
    if mopts.malloc_guard ≠ 0 then do
      let rc ← os_mprotect ps (sub64 (add64 r.p rnewsz) mopts.malloc_guard)
        mopts.malloc_guard true
      if rc ≠ 0 then lift_pool (wrterror .mprotect)
    let rc ← os_munmap ps (add64 r.p rnewsz) (sub64 roldsz rnewsz)
    if rc ≠ 0 then lift_pool (wrterror .munmap)
    lift_pool (set_region_size ri gnewsz)
    if MALLOC_MOVE_COND ps mopts gnewsz then
      memcpy ps (MALLOC_MOVE ps mopts r.p gnewsz) p newsz
    else if mopts.chunk_canaries ≠ 0 then fill_canary ps mopts p newsz (PAGEROUND ps newsz)
    lift_pool (STATS_SETF ri f)
    pure (some (if MALLOC_MOVE_COND ps mopts gnewsz then MALLOC_MOVE ps mopts r.p gnewsz
      else p))
  else do
    lift_pool (set_region_size ri gnewsz)
    let pp := if MALLOC_MOVE_COND ps mopts gnewsz then MALLOC_MOVE ps mopts r.p gnewsz
      else r.p
    if p ≠ pp then memcpy ps pp p (if oldsz < newsz then oldsz else newsz)
    if pp = r.p then do
      if newsz > oldsz ∧ s.d.malloc_junk = 2 then
        memset ps (add64 pp newsz) SOME_JUNK
          (sub64 (sub64 rnewsz mopts.malloc_guard) newsz)
      if mopts.chunk_canaries ≠ 0 then fill_canary ps mopts pp newsz (PAGEROUND ps newsz)
    lift_pool (STATS_SETF ri f)
    pure (some pp)

/-- `orealloc(argpool, p, newsz, f)`: the pointer, or 0 for `NULL`. -/
def orealloc (ps : Nat) (mopts : malloc_readonly) (p newsz f : Nat) : RunM Nat := do
  if p = 0 then omalloc ps mopts newsz 0 f
  else if newsz ≥ sub64 (sub64 SIZE_MAX mopts.malloc_guard) (MALLOC_PAGESIZE ps) then do
    lift_pool (modify (fun s => { s with errno := ENOMEM }))
    pure 0
  else do
    let ri ← lift_pool (findpool ps mopts p)
    let s ← pool_get
    let r := slot s.d.r ri
    let oldsz := REALSIZE ps r
    let info := heap_get s r.size
    let chunknum ← (if oldsz ≤ MALLOC_MAXCHUNK ps ∧
        (mopts.malloc_stats ≠ 0 ∨ mopts.chunk_canaries ≠ 0) then
        find_chunknum_check ps mopts info p 0
      else pure 0)
    let goldsz := oldsz
    if oldsz > MALLOC_MAXCHUNK ps ∧ oldsz < mopts.malloc_guard then
      lift_pool (wrterror .guard_size)
    else do
      let oldsz := if oldsz > MALLOC_MAXCHUNK ps then sub64 oldsz mopts.malloc_guard else oldsz
      let gnewsz := if newsz > MALLOC_MAXCHUNK ps then add64 newsz mopts.malloc_guard else newsz
      let forced : Bool := decide (mopts.malloc_realloc ≠ 0 ∨ s.d.mmap_flag ≠ 0)
      let done ← (if newsz > MALLOC_MAXCHUNK ps ∧ oldsz > MALLOC_MAXCHUNK ps ∧ ¬ forced then
          orealloc_pages ps mopts ri p goldsz gnewsz oldsz newsz f
        else pure none)
      match done with
      | some ret => pure ret
      | none =>
        if oldsz ≤ MALLOC_MAXCHUNK ps ∧ oldsz > 0 ∧ newsz ≤ MALLOC_MAXCHUNK ps ∧ newsz > 0 ∧
            ¬ forced ∧ find_bucket mopts newsz = find_bucket mopts oldsz then do
          if s.d.malloc_junk = 2 then memset ps (add64 p newsz) SOME_JUNK (sub64 oldsz newsz)
          if mopts.chunk_canaries ≠ 0 then do
            lift_pool (modify (fun s => { s with heap := s.heap.set r.size { info with
              bits := info.bits.set (info.offset + chunknum) (newsz % 2 ^ 16) } }))
            fill_canary ps mopts p newsz (B2SIZE info.bucket)
          if mopts.malloc_stats ≠ 0 ∧ chunknum = 0 then lift_pool (STATS_SETF ri f)
          pure p
        else if newsz ≠ oldsz ∨ forced then do
          let q ← omalloc ps mopts newsz 0 f
          if q = 0 then pure 0
          else do
            if newsz ≠ 0 ∧ oldsz ≠ 0 then
              memcpy ps q p (if oldsz < newsz then oldsz else newsz)
            ofree ps mopts p 0 0 0
            pure q
        else do
          if newsz ≠ 0 then lift_pool (wrterror .realloc_internal_inconsistency)
          if mopts.malloc_stats ≠ 0 ∧ chunknum = 0 then lift_pool (STATS_SETF ri f)
          pure p

/-- `malloc(size)`. -/
def malloc (ps : Nat) (mopts : malloc_readonly) (size caller : Nat) : RunM Nat := do
  let s ← pool_get
  let r ← omalloc ps mopts size 0 (CALLER mopts caller)
  lift_pool (EPILOGUE mopts s.errno r)

/-- `free(ptr)`. -/
def free (ps : Nat) (mopts : malloc_readonly) (ptr : Nat) : RunM Unit := do
  let s ← pool_get
  if ptr = 0 then pure ()
  else do
    ofree ps mopts ptr 0 0 0
    lift_pool (modify (fun s1 => { s1 with errno := s.errno }))

/-- `realloc(ptr, size)`. -/
def realloc (ps : Nat) (mopts : malloc_readonly) (ptr size caller : Nat) : RunM Nat := do
  let s ← pool_get
  let r ← orealloc ps mopts ptr size (CALLER mopts caller)
  lift_pool (EPILOGUE mopts s.errno r)

end Mem

/-! ## Predicates on runs with memory -/

/-- What holds of every return of `m` from `ms`. -/
@[irreducible] def wpm {α : Type} (m : RunM α) (Q : α → mem_state → Prop) (ms : mem_state) :
    Prop :=
  ∀ a ms', m ms = .ok (a, ms') → Q a ms'

/-- What holds of the outcome of `m` from `ms`: `P` of the message of an abort, `D` of
a run that does not end, `U` of undefined behaviour, `Q` of a return. -/
@[irreducible] def wpxm {α : Type} (m : RunM α) (P : wrterror_msg → Prop) (D U : Prop)
    (Q : α → mem_state → Prop) (ms : mem_state) : Prop :=
  match m ms with
  | .ok (a, ms') => Q a ms'
  | .abort e => P e
  | .diverge => D
  | .undefined => U

/-- A return of `m` on the pool takes the answers it needs from the front of the
environment: with these answers in front of any others it returns the same, and
leaves the others. -/
@[irreducible] def uniform {α : Type} (m : Run α) : Prop :=
  ∀ s a s', m s = .ok (a, s') → ∃ used : List Nat, ∀ rest : List Nat,
    m { s with env := used ++ rest } = .ok (a, { s' with env := rest })

/-- Every return of `m'`, which reads the memory, is a return of `m`, which asks the
environment, on the same pool and for an environment that gives the verdicts the
memory gave: same result, same pool afterwards. -/
@[irreducible] def sim {α : Type} (m' : RunM α) (m : Run α) : Prop :=
  ∀ ms a ms', m' ms = .ok (a, ms') → ∃ used : List Nat, ∀ rest : List Nat,
    m { ms.pool with env := used ++ rest } = .ok (a, { ms'.pool with env := rest })

/-- The run `m'` leaves the pool as it is. -/
@[irreducible] def neutral {α : Type} (m' : RunM α) : Prop :=
  ∀ ms a ms', m' ms = .ok (a, ms') → ms'.pool = ms.pool

/-- The run `m'` leaves the pool as it is and can only return `a`. -/
@[irreducible] def neutral_ret {α : Type} (m' : RunM α) (a : α) : Prop :=
  ∀ ms b ms', m' ms = .ok (b, ms') → b = a ∧ ms'.pool = ms.pool

/-- What is looked at of a run with memory that returns: the result, the pages that
are `PROT_NONE` afterwards, the pages on which an access has faulted, and `errno`. -/
def observed {α : Type} (o : Outcome (α × mem_state)) : Option (α × List Nat × List Nat × Nat) :=
  match o with
  | .ok (a, ms) => some (a, ms.prot, ms.faults, ms.pool.errno)
  | _ => none

/-- A fresh pool 1 under the default options with 12-bit pages, with a memory of zero
bytes, no page protected and the answers `env` of the environment to come. -/
def fresh_mem (env : List Nat) : mem_state :=
  { pool := { malloc_init_pool 12 (malloc_init_mopts 12 [] 7 0 0) 0x7000 1 [] with env := env }
    mem := fun _ => 0
    prot := []
    faults := [] }

/-- The run `m` does not abort with the message `e`, whatever the state. -/
@[irreducible] def never {σ α : Type} (m : StateT σ Outcome α) (e : wrterror_msg) : Prop :=
  ∀ s, m s ≠ .abort e

/-- The run `m` returns, whatever the state. -/
@[irreducible] def returns {σ α : Type} (m : StateT σ Outcome α) : Prop :=
  ∀ s, ∃ a s', m s = .ok (a, s')

/-! ## The pages of the regions and of the caches -/

/-- The pages of the region that a directory entry stands for: the page of its key,
and with it every page of a region of pages (the one page of a chunk page). -/
def region_pages (ps : Nat) (e : region_info) : List Nat :=
  MASK_POINTER ps e.p ::
    page_list ps (MASK_POINTER ps e.p)
      (if e.p &&& MALLOC_PAGEMASK ps = 0 then e.size else MALLOC_PAGESIZE ps)

/-- The pool owns its pages one way at a time: every page of a region of the directory
is mapped, and no page of a run in the small caches (the cache `i` holds runs of
`i + 1` pages, its first `length` entries are in use), of a run in the big cache or of
the slot array of the directory is a page of a region of the directory. -/
def pages_owned (ps : Nat) (s : pool_state) : Prop :=
  (∀ y < s.d.r.length, (slot s.d.r y).p ≠ 0 →
    ∀ x ∈ region_pages ps (slot s.d.r y), x ∈ s.mapped) ∧
  (∀ i < s.smallcache.length, ∀ j < (s.smallcache.getD i ⟨[], 0, 0⟩).length,
    ∀ x ∈ page_list ps ((s.smallcache.getD i ⟨[], 0, 0⟩).pages.getD j 0 &&& not64 1)
      ((i + 1) * MALLOC_PAGESIZE ps),
    ∀ y < s.d.r.length, (slot s.d.r y).p ≠ 0 → x ∉ region_pages ps (slot s.d.r y)) ∧
  (∀ e ∈ s.bigcache, e.psize ≠ 0 →
    ∀ x ∈ page_list ps e.page (e.psize * MALLOC_PAGESIZE ps),
    ∀ y < s.d.r.length, (slot s.d.r y).p ≠ 0 → x ∉ region_pages ps (slot s.d.r y)) ∧
  (∀ x ∈ page_list ps s.r_addr (s.d.regions_total * sizeof_region_info),
    ∀ y < s.d.r.length, (slot s.d.r y).p ≠ 0 → x ∉ region_pages ps (slot s.d.r y))

/-- The header `ci` has room for the requested sizes of the chunks of a page of the
bucket `b` behind its bitmap: a blank header by the length of its array, a header in
use by its `offset`. -/
def sizes_room (ps b : Nat) (ci : chunk_info) : Prop :=
  if ci.total = 0 then
    howmany (MALLOC_PAGESIZE ps / B2ALLOC b) MALLOC_BITS + MALLOC_PAGESIZE ps / B2ALLOC b ≤
      ci.bits.length
  else ci.offset + ci.total ≤ ci.bits.length

/-- The header `bp` stands for a chunk page of the bucket `b` that the directory
holds: the header exists and is well-formed, it is of the bucket `b`, its page is
page-aligned and lies in the address space, the table of requested sizes has room, and
`find` gives for the page the entry with the key `page | (b + 1)` that points to the
header. -/
def chunk_page_ok (ps : Nat) (mopts : malloc_readonly) (s : pool_state) (b bp : Nat) : Prop :=
  bp < s.heap.length ∧ chunk_wf ps (heap_get s bp) ∧ (heap_get s bp).bucket = b ∧
  (heap_get s bp).page % 2 ^ ps = 0 ∧ (heap_get s bp).page < 2 ^ 64 ∧
  (heap_get s bp).offset + (heap_get s bp).total ≤ (heap_get s bp).bits.length ∧
  ∃ ri, find ps mopts s.d (heap_get s bp).page = .ok (some ri) ∧
    (slot s.d.r ri).p = (heap_get s bp).page ||| (b + 1) ∧ (slot s.d.r ri).size = bp

/-- The pool is consistent for an allocation from the bucket `b` under chunk canaries:
the directory is well-formed, of at least `MALLOC_INITIAL_REGIONS` slots if it has any
and of at most `2 ^ 59`; what the pool holds is aligned; the pool owns its pages one way
at a time; the cache limits are `u_short` values and the pages of the big cache
addresses; `chunk_dir[b]` has its `MALLOC_CHUNK_LISTS` lists, the first header of each
stands for a chunk page of the directory with a free chunk; and the headers on
`chunk_info_list[b]` exist, are blank or released with all chunks free, and have room
for the requested sizes. -/
def chunk_pool_ok (ps : Nat) (mopts : malloc_readonly) (s : pool_state) (b : Nat) : Prop :=
  dir_wf ps mopts s.d ∧
  (s.d.regions_total ≠ 0 → MALLOC_INITIAL_REGIONS ≤ s.d.regions_total) ∧
  s.d.regions_total ≤ 2 ^ 59 ∧
  pool_aligned ps s ∧ pages_owned ps s ∧
  (∀ c ∈ s.smallcache, c.max < 2 ^ 16) ∧ (∀ e ∈ s.bigcache, e.page < 2 ^ 64) ∧
  b < s.chunk_dir.length ∧ (s.chunk_dir.getD b []).length = MALLOC_CHUNK_LISTS ∧
  (∀ l bp, LIST_FIRST ((s.chunk_dir.getD b []).getD l []) = some bp →
    chunk_page_ok ps mopts s b bp ∧ 0 < (heap_get s bp).free) ∧
  (∀ bp ∈ s.chunk_info_list.getD b [],
    bp < s.heap.length ∧ info_ready ps b (heap_get s bp) ∧ sizes_room ps b (heap_get s bp))

/-- The pointer `p` is a chunk in use of the pool, with the requested size `sz`
recorded in a header of the bucket `b`: `find` gives the entry of its chunk page, which
is of the size class of `b`; the header the entry points to is of the bucket `b`;
`find_chunknum` accepts the pointer as the chunk `k` of the page; the slot `k` of the
table of requested sizes holds `sz`; and the chunk lies in the address space. -/
def chunk_recorded (ps : Nat) (mopts : malloc_readonly) (s : pool_state) (p sz b : Nat) :
    Prop :=
  ∃ ri k, find ps mopts s.d p = .ok (some ri) ∧
    REALSIZE ps (slot s.d.r ri) = B2SIZE b ∧
    (heap_get s (slot s.d.r ri).size).bucket = b ∧
    find_chunknum ps s.d.canary1 (heap_get s (slot s.d.r ri).size) p = .ok k ∧
    bits_word (heap_get s (slot s.d.r ri).size).bits
      ((heap_get s (slot s.d.r ri).size).offset + k) = sz ∧
    p + B2SIZE b ≤ 2 ^ 64

/-- The state `s'` is `s` but for the answers of the environment still to come. -/
@[reducible] def env_only (s s' : pool_state) : Prop := ∃ e, s' = { s with env := e }

/-- What a run on the memory returned, `dflt` if it did not return. -/
def result_of {α : Type} (o : Outcome (α × mem_state)) (dflt : α) : α :=
  match o with
  | .ok (a, _) => a
  | _ => dflt

/-- The pool and the memory a run returned in, `dflt` if it did not return. -/
def memory_after {α : Type} (o : Outcome (α × mem_state)) (dflt : mem_state) : mem_state :=
  match o with
  | .ok (_, ms) => ms
  | _ => dflt

/-- The options after `omalloc_init` with `MALLOC_OPTIONS=C` on 4096-byte pages, with
`arc4random` giving the canary byte 0xa5. -/
def canary_mopts : malloc_readonly := malloc_init_mopts 12 ['C'] 7 0 0xa5

/-- A pool just initialised with `canary_mopts`, all memory zero, before its first
allocation; the environment holds two random bytes and the answers of the kernel to the
three mappings (chunk page, chunk headers, region table). -/
def canary_start : mem_state :=
  { pool := { malloc_init_pool 12 canary_mopts 0x7000 1 [] with
              env := [0, 0, 0x100000, 0x200000, 0x300000] }
    mem := fun _ => 0, prot := [], faults := [] }

/-- The chunk `malloc_bytes(d, 20, 0)` returns from `canary_start`. -/
def canary_ptr : Nat := result_of (Mem.malloc_bytes 12 canary_mopts 20 0 canary_start) 0

/-- The pool and the memory after `malloc_bytes(d, 20, 0)` from `canary_start`. -/
def canary_after : mem_state :=
  memory_after (Mem.malloc_bytes 12 canary_mopts 20 0 canary_start) canary_start

/-- The memory `mem` after the byte `v` is stored at `a`, at the time of `free`: the
pool, the protections and the faults of `ms`. -/
def poke (ms : mem_state) (a v : Nat) : mem_state :=
  { ms with mem := fun x => if x = a then v else ms.mem x }

/-- The messages with which `realloc` can end when it moves a region of pages: a cached
page that was written after it was freed, a `munmap` or an `mprotect` that the kernel
refuses, an overwritten canary behind the old region, and option `X` when memory runs
out. -/
def move_abort (e : wrterror_msg) : Prop :=
  e = .write_after_free ∨ e = .munmap ∨ e = .mprotect ∨ e = .canary_corrupted ∨
    e = .out_of_memory

/-- Every run of `m` returns or aborts with a message of `P`: none diverges, none has
undefined behaviour. -/
@[irreducible] def clean {σ α : Type} (P : wrterror_msg → Prop) (m : StateT σ Outcome α) :
    Prop :=
  ∀ s, match m s with
    | .ok _ => True
    | .abort e => P e
    | .diverge => False
    | .undefined => False

/-- The runs of `m` store only into bytes of `W`. -/
@[irreducible] def confined {α : Type} (W : Nat → Prop) (m : RunM α) : Prop :=
  ∀ ms a ms', m ms = .ok (a, ms') → ∀ x, ¬ W x → ms'.mem x = ms.mem x

/-- The page on which the byte at `x` lies. -/
def page_of (ps x : Nat) : Nat := x / MALLOC_PAGESIZE ps * MALLOC_PAGESIZE ps

/-- The big cache of `s` has the size of the big cache of `z`. -/
@[reducible] def size_frame (z s : pool_state) : Prop := s.bigcache_size = z.bigcache_size

/-- The byte at `x` lies in a run of pages that is in use in the big cache `bc`. -/
def big_cached_byte (ps : Nat) (bc : List bigcache) (x : Nat) : Prop :=
  ∃ e ∈ bc, e.psize ≠ 0 ∧ e.page ≤ x ∧ x < e.page + e.psize * MALLOC_PAGESIZE ps

/-- The byte at `x` lies in a run of pages that is in use in one of the small caches
`sc`. -/
def small_cached_byte (ps : Nat) (sc : List smallcache) (x : Nat) : Prop :=
  ∃ i j, i < sc.length ∧ j < (sc.getD i ⟨[], 0, 0⟩).length ∧
    ((sc.getD i ⟨[], 0, 0⟩).pages.getD j 0 &&& not64 1) ≤ x ∧
    x < ((sc.getD i ⟨[], 0, 0⟩).pages.getD j 0 &&& not64 1) + (i + 1) * MALLOC_PAGESIZE ps

/-- The byte at `x` lies in a run of pages that is in use in one of the caches. -/
def cached_byte (ps : Nat) (s : pool_state) (x : Nat) : Prop :=
  big_cached_byte ps s.bigcache x ∨ small_cached_byte ps s.smallcache x

/-- The byte at `x` lies on a page of an entry of the directory. -/
def owned_byte (ps : Nat) (s : pool_state) (x : Nat) : Prop :=
  ∃ y, y < s.d.r.length ∧ (slot s.d.r y).p ≠ 0 ∧ page_of ps x ∈ region_pages ps (slot s.d.r y)

/-- No run of pages in use in a cache starts at the null page, and each of them ends
inside the address space. -/
def cache_nonnull (ps : Nat) (s : pool_state) : Prop :=
  (∀ i j, j < (s.smallcache.getD i ⟨[], 0, 0⟩).length →
    (s.smallcache.getD i ⟨[], 0, 0⟩).pages.getD j 0 &&& not64 1 ≠ 0 ∧
    ((s.smallcache.getD i ⟨[], 0, 0⟩).pages.getD j 0 &&& not64 1) +
      (i + 1) * MALLOC_PAGESIZE ps ≤ 2 ^ 64) ∧
  (∀ e ∈ s.bigcache, e.psize ≠ 0 →
    e.page ≠ 0 ∧ e.page + e.psize * MALLOC_PAGESIZE ps ≤ 2 ^ 64)

/-- The consistency of a pool that `realloc` of a region of pages relies on: the
directory is well-formed, with no fewer than `MALLOC_INITIAL_REGIONS` and no more than
`2 ^ 59` slots once it exists; the pool is aligned; the pages of directory entries are
mapped and apart from the cached pages and from the region table; the caches have their
bounds, the big cache its bookkeeping and not just one or two slots, and no cached
page is null. -/
def region_pool_ok (ps : Nat) (mopts : malloc_readonly) (s : pool_state) : Prop :=
  dir_wf ps mopts s.d ∧ (s.d.regions_total ≠ 0 → MALLOC_INITIAL_REGIONS ≤ s.d.regions_total) ∧
  s.d.regions_total ≤ 2 ^ 59 ∧ pool_aligned ps s ∧ pages_owned ps s ∧
  (∀ c ∈ s.smallcache, c.max < 2 ^ 16) ∧ (∀ e ∈ s.bigcache, e.page < 2 ^ 64) ∧
  bigcache_ok s ∧ s.bigcache_size ≠ 1 ∧ s.bigcache_size ≠ 2 ∧ cache_nonnull ps s

/-- The options after `omalloc_init` without `MALLOC_OPTIONS` on 4096-byte pages, with
the canary 7. -/
def grow_mopts : malloc_readonly := malloc_init_mopts 12 [] 7 0 0

/-- The directory of a pool just initialised with `grow_mopts` after
`malloc(3 * 4096)` has returned `0x100000`: the table has 512 slots and the entry of
the region is in slot 256. -/
def grow_dir : dir_info :=
  { (malloc_init_pool 12 grow_mopts 0x7000 1 []).d with
    r := (List.replicate 512 ⟨0, 0, 0⟩).set 256 ⟨0x100000, 3 * 4096, 0⟩
    regions_total := 512
    regions_free := 511 }

/-- The pool 1 that `_malloc_init` leaves with `grow_mopts` after `malloc(3 * 4096)` has
returned `0x100000`: the directory is `grow_dir`, its table is at `0x200000`, the three
pages of the table and of the region are mapped; `env` holds the answers of the
environment still to come. -/
def grow_pool (env : List Nat) : pool_state :=
  { malloc_init_pool 12 grow_mopts 0x7000 1
      [0x200000, 0x201000, 0x202000, 0x100000, 0x101000, 0x102000] with
    d := grow_dir
    r_addr := 0x200000
    env := env }

/-- The pool `grow_pool env` with a memory in which the byte at `a` is `a % 251`, and
no page protected. -/
def grow_start (env : List Nat) : mem_state :=
  { pool := grow_pool env, mem := fun a => a % 251, prot := [], faults := [] }

/-! ## Definitions that follow the specification -/

/-- The bucket as the specification words it: `n_bits = floor(log2(s | 1<<6))`,
`shift = n_bits - 2`, `rounded = (s + (1<<shift) - 1) & ~((1<<shift)-1)`, and the
bucket is `rounded / MIN_SIZE`.  On unbounded naturals `x & ~m` is `x - (x & m)`. -/
def spec_bucket (s : Nat) : Nat :=
  let n_bits := Nat.log2 (s ||| (1 <<< 6))
  let shift := n_bits - 2
  let x := s + (1 <<< shift) - 1
  let rounded := x - (x &&& ((1 <<< shift) - 1))
  rounded / MALLOC_MINSIZE

/-- The ranges the specification gives for the options that are numbers: the number of
pools is a power of two from 2 to `_MALLOC_MUTEXES`, `def_maxcache` is zero or a power of
two and at most `MALLOC_MAXCACHE`, and the junk level is 0, 1 or 2. -/
def options_in_range (m : malloc_readonly) : Prop :=
  (2 ≤ m.malloc_mutexes ∧ m.malloc_mutexes ≤ MALLOC_MUTEXES_MAX ∧
    ∃ k, m.malloc_mutexes = 2 ^ k) ∧
  ((m.def_maxcache = 0 ∨ ∃ k, m.def_maxcache = 2 ^ k) ∧ m.def_maxcache ≤ MALLOC_MAXCACHE) ∧
  m.def_malloc_junk ≤ 2

/-- The characters `omalloc_init` and `omalloc_parseopt` have a case for. -/
def option_chars : List Char :=
  ['S', 's', '+', '-', '>', '<', 'c', 'C', 'd', 'D', 'f', 'F', 'g', 'G', 'j', 'J', 'r', 'R',
    'u', 'U', 'v', 'V', 'x', 'X']

/-- The calls `insert(d, p, 0, NULL)` for the keys of a list in turn, the `MMAP` of a
new table succeeding whenever the table grows; `none` when a call does not return 0. -/
def insert_pages (ps : Nat) : List Nat → dir_info → Option dir_info
  | [], d => some d
  | p :: rest, d =>
    match insert ps d p 0 0 true with
    | .ok (0, d2) => insert_pages ps rest d2
    | _ => none

/-- The directory states the specification calls reachable: the directory of
`omalloc_poolinit`, and what a successful `insert` of a non-null key whose page has no
entry, or a `delete` of an occupied slot, makes of a reachable directory. -/
inductive dir_reachable (ps : Nat) (mopts : malloc_readonly) : dir_info → Prop
  | initial (self flag : Nat) : dir_reachable ps mopts (omalloc_poolinit mopts self flag)
  | by_insert (d d2 : dir_info) (key sz f : Nat) (mmap_ok : Bool) :
      dir_reachable ps mopts d → key ≠ 0 →
      (∀ y < d.regions_total, (slot d.r y).p ≠ 0 →
        MASK_POINTER ps (slot d.r y).p ≠ MASK_POINTER ps key) →
      insert ps d key sz f mmap_ok = .ok (0, d2) → dir_reachable ps mopts d2
  | by_delete (d d2 : dir_info) (i : Nat) :
      dir_reachable ps mopts d → i < d.regions_total → (slot d.r i).p ≠ 0 →
      delete ps d i = .ok d2 → dir_reachable ps mopts d2

/-- The user pointer of the large region with the directory entry `e` as the
specification has it: `MALLOC_MOVE(base, size)` when `size - guard < PAGESIZE`, and the
base otherwise. -/
def user_pointer (ps : Nat) (mopts : malloc_readonly) (e : region_info) : Nat :=
  if sub64 e.size mopts.malloc_guard < MALLOC_PAGESIZE ps then
    MALLOC_MOVE ps mopts e.p e.size
  else e.p

/-! # Theorems -/

/-! ## Lemmas on the size classes -/

theorem bitLength_spec (f : Nat) : ∀ x, x < 2 ^ f →
    x < 2 ^ bitLength f x ∧ (x ≠ 0 → 2 ^ (bitLength f x - 1) ≤ x) := by
  induction f with
  | zero =>
    intro x hx
    have : x = 0 := by simpa using hx
    subst this
    simp [bitLength]
  | succ f ih =>
    intro x hx
    unfold bitLength
    by_cases h0 : x = 0
    · simp [h0]
    · simp only [h0, if_false]
      have hx2 : x / 2 < 2 ^ f := by
        rw [Nat.div_lt_iff_lt_mul (by norm_num)]
        rw [pow_succ] at hx; omega
      obtain ⟨h1, h2⟩ := ih (x / 2) hx2
      constructor
      · rw [pow_succ]; omega
      · intro _
        simp only [Nat.add_sub_cancel]
        by_cases hz : x / 2 = 0
        · have : bitLength f (x / 2) = 0 := by
            rw [hz]; cases f <;> simp [bitLength]
          rw [this]; simp; omega
        · have h3 := h2 hz
          have : bitLength f (x / 2) ≠ 0 := by
            intro hb
            rw [hb] at h1; simp at h1; exact hz h1
          obtain ⟨m, hm⟩ := Nat.exists_eq_succ_of_ne_zero this
          rw [hm] at h3 ⊢
          simp only [Nat.succ_sub_one] at h3
          rw [Nat.succ_eq_add_one, pow_succ]; omega

theorem bitLength_le (f : Nat) : ∀ x, bitLength f x ≤ f := by
  induction f with
  | zero => intro x; simp [bitLength]
  | succ f ih =>
    intro x; unfold bitLength
    split
    · omega
    · have := ih (x / 2); omega

theorem lb_spec (x : Nat) (h0 : 0 < x) (h1 : x < 2 ^ 32) :
    2 ^ lb x ≤ x ∧ x < 2 ^ (lb x + 1) := by
  unfold lb builtin_clz
  rw [Nat.mod_eq_of_lt h1]
  obtain ⟨h2, h3⟩ := bitLength_spec 32 x h1
  have h4 := bitLength_le 32 x
  have h5 : bitLength 32 x ≠ 0 := by
    intro hb; rw [hb] at h2; simp at h2; omega
  have e1 : 4 * 8 - 1 - (32 - bitLength 32 x) = bitLength 32 x - 1 := by omega
  rw [e1]
  have e2 : bitLength 32 x - 1 + 1 = bitLength 32 x := by omega
  rw [e2]
  exact ⟨h3 (by omega), h2⟩

theorem and_not32_mask (x k : Nat) (hx : x < 2 ^ 32) (hk : k ≤ 32) :
    x &&& not32 ((1 <<< k - 1) % 2 ^ 32) = x / 2 ^ k * 2 ^ k := by
  have hp : 2 ^ k ≤ 2 ^ 32 := Nat.pow_le_pow_right (by norm_num) hk
  have hpos : 0 < 2 ^ k := Nat.pow_pos (by norm_num)
  have hm : (1 <<< k - 1) % 2 ^ 32 = 2 ^ k - 1 := by
    rw [Nat.one_shiftLeft]; apply Nat.mod_eq_of_lt; omega
  rw [hm]
  unfold not32
  rw [Nat.mod_eq_of_lt (by omega)]
  have e : 2 ^ 32 - 1 - (2 ^ k - 1) = 2 ^ k * (2 ^ (32 - k) - 1) := by
    rw [Nat.mul_sub, ← pow_add]
    have : k + (32 - k) = 32 := by omega
    rw [this]; omega
  rw [e]
  apply Nat.eq_of_testBit_eq
  intro i
  rw [Nat.testBit_and, Nat.testBit_mul_pow_two, Nat.mul_comm (x / 2 ^ k),
    Nat.testBit_mul_pow_two, Nat.testBit_two_pow_sub_one, ← Nat.shiftRight_eq_div_pow, Nat.testBit_shiftRight]
  by_cases hik : k ≤ i
  · have e2 : k + (i - k) = i := by omega
    rw [e2]
    by_cases hi : i < 32
    · have : i - k < 32 - k := by omega
      simp [hik, this]
    · have hxi : x.testBit i = false := by
        apply Nat.testBit_lt_two_pow
        exact lt_of_lt_of_le hx (Nat.pow_le_pow_right (by norm_num) (by omega))
      simp [hxi]
  · simp [hik]

theorem or_low7 : ∀ t, t < 128 → t ||| 64 = if t < 64 then t + 64 else t := by
  decide

theorem or_64_eq (s : Nat) :
    s ||| 64 = 128 * (s / 128) + (if s % 128 < 64 then s % 128 + 64 else s % 128) := by
  have hlt : s % 128 < 128 := Nat.mod_lt _ (by norm_num)
  rw [← or_low7 (s % 128) hlt]
  have hlt1 : s % 128 < 2 ^ 7 := by simpa using hlt
  have hlt2 : s % 128 ||| 64 < 2 ^ 7 := Nat.or_lt_two_pow hlt1 (by norm_num)
  have hs : s = 2 ^ 7 * (s / 128) + s % 128 := by
    have := Nat.div_add_mod s 128; omega
  have key : s ||| 64 = 2 ^ 7 * (s / 128) + (s % 128 ||| 64) := by
    apply Nat.eq_of_testBit_eq
    intro i
    rw [Nat.testBit_mul_pow_two_add _ hlt2, Nat.testBit_or, Nat.testBit_or]
    conv_lhs => rw [hs]
    rw [Nat.testBit_mul_pow_two_add _ hlt1]
    by_cases hi : i < 7
    · simp [hi]
    · simp only [hi, if_false]
      have : Nat.testBit 64 i = false := by
        apply Nat.testBit_lt_two_pow
        exact lt_of_lt_of_le (by norm_num : 64 < 2 ^ 7)
          (Nat.pow_le_pow_right (by norm_num) (by omega))
      simp [this]
  rw [key]; norm_num

/-- The facts about `n_bits = lb (size | 64)` used below. -/
theorem n_bits_spec (s : Nat) (hs : s < 2 ^ 31) :
    6 ≤ lb (s ||| 64) ∧ s < 2 ^ (lb (s ||| 64) + 1) ∧ 2 ^ lb (s ||| 64) ≤ s ||| 64 ∧
      (7 ≤ lb (s ||| 64) → 2 ^ lb (s ||| 64) ≤ s) := by
  have hor := or_64_eq s
  have hlt : s ||| 64 < 2 ^ 32 := Nat.or_lt_two_pow (by omega) (by norm_num)
  have hpos : 0 < s ||| 64 := by rw [hor]; split <;> omega
  obtain ⟨h1, h2⟩ := lb_spec (s ||| 64) hpos hlt
  generalize lb (s ||| 64) = n at h1 h2 ⊢
  generalize s ||| 64 = v at hor h1 h2 hlt hpos ⊢
  have h6 : 6 ≤ n := by
    by_contra hc
    have : 2 ^ (n + 1) ≤ 2 ^ 6 := Nat.pow_le_pow_right (by norm_num) (by omega)
    split at hor <;> omega
  refine ⟨h6, ?_, h1, ?_⟩
  · split at hor <;> omega
  · intro h7
    obtain ⟨c, hc⟩ : ∃ c, 2 ^ n = 128 * c := by
      refine ⟨2 ^ (n - 7), ?_⟩
      have : (128 : Nat) = 2 ^ 7 := by norm_num
      rw [this, ← pow_add]; congr 1; omega
    rw [hc] at h1 ⊢
    split at hor <;> omega

theorem bin_of_eq (s : Nat) (hs : s < 2 ^ 31) :
    bin_of s = (s + (2 ^ (lb (s ||| 64) - 2) - 1)) / 2 ^ (lb (s ||| 64) - 2)
      * 2 ^ (lb (s ||| 64) - 2) := by
  have hlt : s ||| 64 < 2 ^ 32 := Nat.or_lt_two_pow (by omega) (by norm_num)
  have hn : lb (s ||| 64) ≤ 31 := by unfold lb; omega
  have hk : 2 ^ (lb (s ||| 64) - 2) ≤ 2 ^ 29 := Nat.pow_le_pow_right (by norm_num) (by omega)
  have hpos : 0 < 2 ^ (lb (s ||| 64) - 2) := Nat.pow_pos (by norm_num)
  have hm : (1 <<< (lb (s ||| 64) - 2) - 1) % 2 ^ 32 = 2 ^ (lb (s ||| 64) - 2) - 1 := by
    rw [Nat.one_shiftLeft]; apply Nat.mod_eq_of_lt; omega
  have h64 : (1 : Nat) <<< 6 = 64 := by decide
  show (s + (1 <<< (lb (s ||| 1 <<< 6) - 2) - 1) % 2 ^ 32) % 2 ^ 32 &&&
    not32 ((1 <<< (lb (s ||| 1 <<< 6) - 2) - 1) % 2 ^ 32) = _
  rw [h64]
  have hsum : (s + (1 <<< (lb (s ||| 64) - 2) - 1) % 2 ^ 32) % 2 ^ 32
      = s + (2 ^ (lb (s ||| 64) - 2) - 1) := by
    rw [hm]; apply Nat.mod_eq_of_lt; omega
  rw [hsum]
  exact and_not32_mask _ _ (by omega) (by omega)

theorem MALLOC_MINSIZE_eq : MALLOC_MINSIZE = 16 := by decide

theorem MALLOC_MAXCHUNK_eq (ps : Nat) : MALLOC_MAXCHUNK ps = 2 ^ (ps - 1) := by
  unfold MALLOC_MAXCHUNK MALLOC_MAXSHIFT; exact Nat.one_shiftLeft _

theorem MALLOC_PAGESIZE_eq (ps : Nat) : MALLOC_PAGESIZE ps = 2 ^ ps := by
  unfold MALLOC_PAGESIZE; exact Nat.one_shiftLeft _

/-- Rounding `s` up to a multiple of `m` stays below any multiple of `m` above `s`. -/
theorem roundup_le (s m c : Nat) (hm : 0 < m) (h : s ≤ m * c) :
    (s + (m - 1)) / m * m ≤ m * c := by
  have h1 : (s + (m - 1)) / m ≤ c := by
    rw [Nat.div_le_iff_le_mul_add_pred hm]
    have : m * c = c * m := Nat.mul_comm _ _
    omega
  calc (s + (m - 1)) / m * m ≤ c * m := Nat.mul_le_mul_right m h1
    _ = m * c := Nat.mul_comm _ _

theorem le_roundup (s m : Nat) (hm : 0 < m) : s ≤ (s + (m - 1)) / m * m := by
  have h1 := Nat.div_add_mod (s + (m - 1)) m
  have h2 := Nat.mod_lt (s + (m - 1)) hm
  have h3 : m * ((s + (m - 1)) / m) = (s + (m - 1)) / m * m := Nat.mul_comm _ _
  omega

theorem roundup_mono (s t m : Nat) (h : s ≤ t) :
    (s + (m - 1)) / m * m ≤ (t + (m - 1)) / m * m :=
  Nat.mul_le_mul_right m (Nat.div_le_div_right (by omega))

theorem two_pow_dvd_form (a b : Nat) (h : a ≤ b) : 2 ^ b = 2 ^ a * 2 ^ (b - a) := by
  rw [← pow_add]; congr 1; omega

theorem lb_or_mono (s t : Nat) (hst : s ≤ t) (ht : t < 2 ^ 31) :
    lb (s ||| 64) ≤ lb (t ||| 64) := by
  obtain ⟨_, _, _, s7⟩ := n_bits_spec s (by omega)
  obtain ⟨t6, t1, _, _⟩ := n_bits_spec t ht
  by_cases h7 : 7 ≤ lb (s ||| 64)
  · have := s7 h7
    have : 2 ^ lb (s ||| 64) < 2 ^ (lb (t ||| 64) + 1) := by omega
    have := (Nat.pow_lt_pow_iff_right (by norm_num : 1 < 2)).1 this
    omega
  · omega

theorem bin_of_ge (s : Nat) (hs : s < 2 ^ 31) : s ≤ bin_of s := by
  rw [bin_of_eq s hs]; exact le_roundup _ _ (Nat.pow_pos (by norm_num))

theorem bin_of_mono (s t : Nat) (hst : s ≤ t) (ht : t < 2 ^ 31) : bin_of s ≤ bin_of t := by
  have hs : s < 2 ^ 31 := by omega
  have hn := lb_or_mono s t hst ht
  obtain ⟨s6, s1, _, _⟩ := n_bits_spec s hs
  obtain ⟨_, _, _, t7⟩ := n_bits_spec t ht
  rcases Nat.eq_or_lt_of_le hn with he | hlt
  · rw [bin_of_eq s hs, bin_of_eq t ht, he]; exact roundup_mono _ _ _ hst
  · have h1 : bin_of s ≤ 2 ^ (lb (s ||| 64) + 1) := by
      rw [bin_of_eq s hs, two_pow_dvd_form (lb (s ||| 64) - 2) (lb (s ||| 64) + 1) (by omega)]
      apply roundup_le _ _ _ (Nat.pow_pos (by norm_num))
      rw [← two_pow_dvd_form _ _ (by omega)]; omega
    have h2 : 2 ^ (lb (s ||| 64) + 1) ≤ 2 ^ lb (t ||| 64) :=
      Nat.pow_le_pow_right (by norm_num) hlt
    have h3 := t7 (by omega)
    have h4 := bin_of_ge t ht
    omega

theorem bin_of_le_pow (s k : Nat) (hs : s ≤ 2 ^ k) (hk4 : 4 ≤ k) (hk : k ≤ 30) :
    bin_of s ≤ 2 ^ k := by
  have hk30 : 2 ^ k ≤ 2 ^ 30 := Nat.pow_le_pow_right (by norm_num) hk
  have hs31 : s < 2 ^ 31 := by omega
  obtain ⟨s6, _, _, s7⟩ := n_bits_spec s hs31
  have hsh : lb (s ||| 64) - 2 ≤ k := by
    by_cases h7 : 7 ≤ lb (s ||| 64)
    · have := s7 h7
      have : 2 ^ lb (s ||| 64) ≤ 2 ^ k := by omega
      have := (Nat.pow_le_pow_iff_right (by norm_num : 1 < 2)).1 this
      omega
    · omega
  rw [bin_of_eq s hs31, two_pow_dvd_form _ _ hsh]
  apply roundup_le _ _ _ (Nat.pow_pos (by norm_num))
  rw [← two_pow_dvd_form _ _ hsh]; exact hs

theorem bin_of_mod16 (s : Nat) (hs : s < 2 ^ 31) : bin_of s % 16 = 0 := by
  obtain ⟨s6, _, _, _⟩ := n_bits_spec s hs
  rw [bin_of_eq s hs, two_pow_dvd_form 4 (lb (s ||| 64) - 2) (by omega)]
  have : (16 : Nat) = 2 ^ 4 := by norm_num
  rw [this, ← Nat.mul_assoc, Nat.mul_comm _ (2 ^ 4), Nat.mul_assoc]
  exact Nat.mul_mod_right _ _

/-- `find_bucket` when `def_maxcache` is non-zero. -/
theorem find_bucket_bin (mopts : malloc_readonly) (ps s : Nat) (hps : 5 ≤ ps)
    (hps16 : ps ≤ 16) (hc : mopts.def_maxcache ≠ 0) (h0 : 0 < s)
    (hs : s ≤ MALLOC_MAXCHUNK ps) :
    find_bucket mopts s = bin_of (max s 16) / 16 ∧ bin_of (max s 16) ≤ 2 ^ (ps - 1) := by
  rw [MALLOC_MAXCHUNK_eq] at hs
  have hp15 : 2 ^ (ps - 1) ≤ 2 ^ 15 := Nat.pow_le_pow_right (by norm_num) (by omega)
  have hp4 : 2 ^ 4 ≤ 2 ^ (ps - 1) := Nat.pow_le_pow_right (by norm_num) (by omega)
  have hmax : max s 16 ≤ 2 ^ (ps - 1) := by
    simp only [max_le_iff]; constructor <;> omega
  have hb := bin_of_le_pow (max s 16) (ps - 1) hmax (by omega) (by omega)
  have hmod := bin_of_mod16 (max s 16) (by omega)
  refine ⟨?_, hb⟩
  unfold find_bucket
  simp only [MALLOC_MINSIZE_eq, howmany]
  have e1 : s % 2 ^ 16 = s := Nat.mod_eq_of_lt (by omega)
  rw [e1]
  have e2 : (if s < 16 then 16 else s) = max s 16 := by
    split <;> omega
  rw [e2]
  simp only [hc, ne_eq, not_false_eq_true, if_true]
  rw [if_neg (by omega), Nat.mod_eq_of_lt (by omega : bin_of (max s 16) < 2 ^ 16)]
  rw [Nat.mod_eq_of_lt (by omega)]
  omega

/-- `find_bucket` when `def_maxcache` is zero. -/
theorem find_bucket_lin (mopts : malloc_readonly) (s : Nat)
    (hc : mopts.def_maxcache = 0) (h0 : 0 < s) (hs : s < 2 ^ 16) :
    find_bucket mopts s = (max s 16 + 15) / 16 := by
  unfold find_bucket
  simp only [MALLOC_MINSIZE_eq, howmany]
  have e1 : s % 2 ^ 16 = s := Nat.mod_eq_of_lt (by omega)
  rw [e1]
  have e2 : (if s < 16 then 16 else s) = max s 16 := by
    split <;> omega
  rw [e2]
  simp only [hc, ne_eq, not_true_eq_false, if_false]
  rw [if_neg (by omega), Nat.mod_eq_of_lt (by omega)]

theorem find_bucket_zero (mopts : malloc_readonly) : find_bucket mopts 0 = 0 := by
  simp [find_bucket]

/-- C1: for sizes s1 <= s2 <= MALLOC_MAXCHUNK and either bucketing mode, find_bucket is
monotone, B2SIZE (find_bucket s) >= s, and find_bucket s <= BUCKETS. -/
theorem find_bucket_monotone_bounded (mopts : malloc_readonly) (ps s1 s2 : Nat)
    (hps : 5 ≤ ps) (hps16 : ps ≤ 16) (h12 : s1 ≤ s2) (h2 : s2 ≤ MALLOC_MAXCHUNK ps) :
    find_bucket mopts s1 ≤ find_bucket mopts s2 ∧
      s2 ≤ B2SIZE (find_bucket mopts s2) ∧ find_bucket mopts s2 ≤ BUCKETS ps := by
  have hp15 : 2 ^ (ps - 1) ≤ 2 ^ 15 := Nat.pow_le_pow_right (by norm_num) (by omega)
  have hp16 : 2 ^ (ps - 1) = 16 * 2 ^ (ps - 1 - 4) := by
    rw [two_pow_dvd_form 4 (ps - 1) (by omega)]; norm_num
  have hB : BUCKETS ps = 2 ^ (ps - 1) / 16 := by
    unfold BUCKETS; rw [MALLOC_MAXCHUNK_eq, MALLOC_MINSIZE_eq]
  have h2p := h2
  rw [MALLOC_MAXCHUNK_eq] at h2p
  simp only [B2SIZE, MALLOC_MINSIZE_eq, hB]
  by_cases hz2 : s2 = 0
  · have hz1 : s1 = 0 := by omega
    subst hz1; subst hz2
    simp [find_bucket_zero]
  have h20 : 0 < s2 := Nat.pos_of_ne_zero hz2
  by_cases hc : mopts.def_maxcache = 0
  · rw [find_bucket_lin mopts s2 hc h20 (by omega)]
    refine ⟨?_, by omega, by omega⟩
    by_cases hz1 : s1 = 0
    · subst hz1; simp [find_bucket_zero]
    · rw [find_bucket_lin mopts s1 hc (Nat.pos_of_ne_zero hz1) (by omega)]
      omega
  · obtain ⟨e2, b2⟩ := find_bucket_bin mopts ps s2 hps hps16 hc h20 h2
    have hm2 := bin_of_mod16 (max s2 16) (by omega)
    have hg2 := bin_of_ge (max s2 16) (by omega)
    rw [e2]
    refine ⟨?_, by omega, by omega⟩
    by_cases hz1 : s1 = 0
    · subst hz1; simp [find_bucket_zero]
    · obtain ⟨e1, _⟩ := find_bucket_bin mopts ps s1 hps hps16 hc
        (Nat.pos_of_ne_zero hz1) (le_trans h12 h2)
      rw [e1]
      apply Nat.div_le_div_right
      apply bin_of_mono _ _ (by omega) (by omega)

theorem find_bucket_monotone_bounded_witness :
    find_bucket (default_mopts 1) 100 ≤ find_bucket (default_mopts 1) 2048 ∧
      2048 ≤ B2SIZE (find_bucket (default_mopts 1) 2048) ∧
      find_bucket (default_mopts 1) 2048 ≤ BUCKETS 12 :=
  find_bucket_monotone_bounded (default_mopts 1) 12 100 2048 (by decide) (by decide)
    (by decide) (by decide)

theorem lb_eq_log2 (x : Nat) (h0 : 0 < x) (h1 : x < 2 ^ 32) : lb x = Nat.log2 x := by
  obtain ⟨h2, h3⟩ := lb_spec x h0 h1
  have hx : x ≠ 0 := by omega
  apply le_antisymm
  · exact (Nat.le_log2 hx).2 h2
  · have := (Nat.log2_lt hx).2 h3
    omega

theorem spec_bucket_eq (s : Nat) (hs : s < 2 ^ 31) : spec_bucket s = bin_of s / 16 := by
  have hlt : s ||| 64 < 2 ^ 32 := Nat.or_lt_two_pow (by omega) (by norm_num)
  have hpos : 0 < s ||| 64 := by rw [or_64_eq]; split <;> omega
  have h64 : (1 : Nat) <<< 6 = 64 := by decide
  rw [bin_of_eq s hs]
  unfold spec_bucket
  simp only [h64, MALLOC_MINSIZE_eq, ← lb_eq_log2 _ hpos hlt, Nat.one_shiftLeft,
    Nat.and_pow_two_sub_one_eq_mod]
  have hp : 0 < 2 ^ (lb (s ||| 64) - 2) := Nat.pow_pos (by norm_num)
  generalize 2 ^ (lb (s ||| 64) - 2) = m at hp
  have e : s + m - 1 = s + (m - 1) := by omega
  rw [e]
  have h1 := Nat.div_add_mod (s + (m - 1)) m
  have h3 : m * ((s + (m - 1)) / m) = (s + (m - 1)) / m * m := Nat.mul_comm _ _
  congr 1
  omega

/-- C2 (counterexample): with `def_maxcache = 0` (option `S`, or `<` repeated) the size
129 lies in `[MIN_SIZE, MAX_CHUNK]` but `find_bucket` returns 9 while the linear-log
curve of the specification gives 10. -/
theorem find_bucket_spec_counterexample :
    MALLOC_MINSIZE ≤ 129 ∧ 129 ≤ MALLOC_MAXCHUNK 12 ∧
      find_bucket { default_mopts 1 with def_maxcache := 0 } 129 = 9 ∧
      spec_bucket 129 = 10 := by
  refine ⟨by decide, by decide, by decide, ?_⟩
  rw [spec_bucket_eq 129 (by norm_num)]
  decide

/-- C2 (amended): for `MIN_SIZE <= s <= MAX_CHUNK`, `find_bucket s` is the bucket of the
linear-log curve when `def_maxcache` is non-zero and `howmany(s, MIN_SIZE)` when it is
zero; in both modes `find_bucket 0 = 0` and `find_bucket s = 1` for `1 <= s < MIN_SIZE`. -/
theorem find_bucket_spec (mopts : malloc_readonly) (ps s : Nat)
    (hps : 5 ≤ ps) (hps16 : ps ≤ 16) :
    (MALLOC_MINSIZE ≤ s → s ≤ MALLOC_MAXCHUNK ps →
      (mopts.def_maxcache ≠ 0 → find_bucket mopts s = spec_bucket s) ∧
      (mopts.def_maxcache = 0 → find_bucket mopts s = howmany s MALLOC_MINSIZE)) ∧
    find_bucket mopts 0 = 0 ∧
    (1 ≤ s → s < MALLOC_MINSIZE → find_bucket mopts s = 1) := by
  have hp15 : 2 ^ (ps - 1) ≤ 2 ^ 15 := Nat.pow_le_pow_right (by norm_num) (by omega)
  have hp4 : 2 ^ 4 ≤ 2 ^ (ps - 1) := Nat.pow_le_pow_right (by norm_num) (by omega)
  simp only [MALLOC_MINSIZE_eq]
  refine ⟨?_, find_bucket_zero mopts, ?_⟩
  · intro h16 hmax
    have hm := hmax
    rw [MALLOC_MAXCHUNK_eq] at hm
    have e : max s 16 = s := by omega
    constructor
    · intro hc
      obtain ⟨e1, _⟩ := find_bucket_bin mopts ps s hps hps16 hc (by omega) hmax
      rw [e1, e, spec_bucket_eq s (by omega)]
    · intro hc
      rw [find_bucket_lin mopts s hc (by omega) (by omega), e]
      rfl
  · intro h1 h16
    have hmax : s ≤ MALLOC_MAXCHUNK ps := by rw [MALLOC_MAXCHUNK_eq]; omega
    have e : max s 16 = 16 := by omega
    by_cases hc : mopts.def_maxcache = 0
    · rw [find_bucket_lin mopts s hc (by omega) (by omega), e]
    · obtain ⟨e1, _⟩ := find_bucket_bin mopts ps s hps hps16 hc (by omega) hmax
      rw [e1, e]; decide

theorem find_bucket_spec_witness :
    (MALLOC_MINSIZE ≤ 129 → 129 ≤ MALLOC_MAXCHUNK 12 →
      ((default_mopts 1).def_maxcache ≠ 0 →
        find_bucket (default_mopts 1) 129 = spec_bucket 129) ∧
      ((default_mopts 1).def_maxcache = 0 →
        find_bucket (default_mopts 1) 129 = howmany 129 MALLOC_MINSIZE)) ∧
    find_bucket (default_mopts 1) 0 = 0 ∧
    (1 ≤ 129 → 129 < MALLOC_MINSIZE → find_bucket (default_mopts 1) 129 = 1) :=
  find_bucket_spec (default_mopts 1) 12 129 (by decide) (by decide)

/-! ## Lemmas on the region directory -/

theorem slot_set (r : List region_info) (i k : Nat) (v : region_info) :
    slot (r.set i v) k = if k = i ∧ i < r.length then v else slot r k := by
  unfold slot
  rw [List.getD_eq_getElem?_getD, List.getD_eq_getElem?_getD, List.getElem?_set]
  by_cases h : i = k
  · subst h
    by_cases hl : i < r.length
    · simp [hl]
    · have : r[i]? = none := List.getElem?_eq_none (by omega)
      simp [hl, this]
  · have : ¬ (k = i ∧ i < r.length) := fun hh => h hh.1.symm
    simp [h, this]

theorem slot_of_length_le (r : List region_info) (i : Nat) (h : r.length ≤ i) :
    slot r i = ⟨0, 0, 0⟩ := by
  unfold slot
  rw [List.getD_eq_getElem?_getD, List.getElem?_eq_none h]; rfl

theorem slot_eq_getElem (r : List region_info) (i : Nat) (h : i < r.length) :
    slot r i = r[i] := by
  unfold slot
  rw [List.getD_eq_getElem?_getD, List.getElem?_eq_getElem h]; rfl

theorem dir_mask_eq (n : Nat) (h0 : 0 < n) (h : n < 2 ^ 64) : dir_mask n = n - 1 := by
  unfold dir_mask sub64
  rw [Nat.mod_eq_of_lt h]
  have e1 : (1 : Nat) % 2 ^ 64 = 1 := by norm_num
  have : n + 2 ^ 64 - 1 = (n - 1) + 2 ^ 64 := by omega
  rw [e1, this, Nat.add_mod_right]
  exact Nat.mod_eq_of_lt (by omega)

theorem two_pow_lt_64 (k : Nat) (hk : k < 64) : 2 ^ k < 2 ^ 64 :=
  Nat.pow_lt_pow_right (by norm_num) hk

theorem probe_next_eq (k i : Nat) (hk : k < 64) (hi : i < 2 ^ k) :
    probe_next i (2 ^ k - 1) = if i = 0 then 2 ^ k - 1 else i - 1 := by
  have hn := two_pow_lt_64 k hk
  have hpos : 0 < 2 ^ k := Nat.pow_pos (by norm_num)
  unfold probe_next sub64
  rw [Nat.and_pow_two_sub_one_eq_mod, Nat.mod_eq_of_lt (by omega : i < 2 ^ 64)]
  by_cases h0 : i = 0
  · subst h0
    simp only [if_true]
    have e : (0 + 2 ^ 64 - 1 % 2 ^ 64) % 2 ^ 64 = 2 ^ 64 - 1 := by norm_num
    rw [e]
    have e2 : 2 ^ 64 = 2 ^ k * 2 ^ (64 - k) := two_pow_dvd_form k 64 (by omega)
    have hq : 0 < 2 ^ (64 - k) := Nat.pow_pos (by norm_num)
    obtain ⟨q, hq2⟩ : ∃ q, 2 ^ (64 - k) = q + 1 := ⟨2 ^ (64 - k) - 1, by omega⟩
    rw [e2, hq2, Nat.mul_add, Nat.mul_one]
    have : 2 ^ k * q + 2 ^ k - 1 = (2 ^ k - 1) + 2 ^ k * q := by omega
    rw [this, Nat.add_mul_mod_self_left]
    exact Nat.mod_eq_of_lt (by omega)
  · simp only [h0, if_false]
    have e : (i + 2 ^ 64 - 1 % 2 ^ 64) % 2 ^ 64 = i - 1 := by
      have : i + 2 ^ 64 - 1 % 2 ^ 64 = (i - 1) + 2 ^ 64 := by
        have : 1 % 2 ^ 64 = 1 := by norm_num
        rw [this]; omega
      rw [this, Nat.add_mod_right]; exact Nat.mod_eq_of_lt (by omega)
    rw [e]; exact Nat.mod_eq_of_lt (by omega)

theorem bdist_eq (n h i : Nat) (hh : h < n) (hi : i < n) :
    bdist n h i = if i ≤ h then h - i else h + n - i := by
  unfold bdist
  split
  · have : h + n - i = (h - i) + n := by omega
    rw [this, Nat.add_mod_right]; exact Nat.mod_eq_of_lt (by omega)
  · exact Nat.mod_eq_of_lt (by omega)

theorem countP_set_of_length (r : List region_info) (P : region_info → Bool) (i : Nat)
    (v : region_info) (hi : i < r.length) :
    (r.set i v).countP P + (if P (slot r i) then 1 else 0) =
      r.countP P + (if P v then 1 else 0) := by
  induction r generalizing i with
  | nil => simp at hi
  | cons a t ih =>
    cases i with
    | zero =>
      simp only [List.set_cons_zero, List.countP_cons, slot, List.getD_cons_zero]
      omega
    | succ i =>
      have hi2 : i < t.length := by simpa using hi
      have := ih i hi2
      simp only [List.set_cons_succ, List.countP_cons, slot, List.getD_cons_succ] at this ⊢
      omega

theorem and_mask_lt (x k : Nat) : x &&& (2 ^ k - 1) < 2 ^ k := by
  rw [Nat.and_pow_two_sub_one_eq_mod]; exact Nat.mod_lt _ (Nat.pow_pos (by norm_num))

theorem bdist_cases (n h i : Nat) (hh : h < n) (hi : i < n) :
    (i ≤ h ∧ bdist n h i = h - i) ∨ (h < i ∧ bdist n h i = h + n - i) := by
  unfold bdist
  by_cases c : i ≤ h
  · left
    refine ⟨c, ?_⟩
    have : h + n - i = (h - i) + n := by omega
    rw [this, Nat.add_mod_right]; exact Nat.mod_eq_of_lt (by omega)
  · right
    exact ⟨by omega, Nat.mod_eq_of_lt (by omega)⟩

/-! ### Arithmetic on the ring of slots -/

theorem ring_zero_lt (n j i e : Nat) (hj : j < n) (hi : i < n) (he : e < n)
    (h : bdist n j i < bdist n j e) : 0 < bdist n i e := by
  have b1 := bdist_cases _ _ _ hj hi
  have b2 := bdist_cases _ _ _ hj he
  have b3 := bdist_cases _ _ _ hi he
  omega

theorem ring_self (n i : Nat) (hi : i < n) : bdist n i i = 0 := by
  have b1 := bdist_cases _ _ _ hi hi
  omega

theorem ring_pos (n i x : Nat) (hi : i < n) (hx : x < n) (h : x ≠ i) : 0 < bdist n i x := by
  have b1 := bdist_cases _ _ _ hi hx
  omega

theorem ring_wrap (n j i i2 x : Nat) (hj : j < n) (hi : i < n) (hx : x < n)
    (hp : (i = 0 ∧ i2 = n - 1) ∨ (i ≠ 0 ∧ i2 = i - 1))
    (h : bdist n j i < bdist n j x) (h2 : i2 = j) : False := by
  have b1 := bdist_cases _ _ _ hj hi
  have b2 := bdist_cases _ _ _ hj hx
  omega

theorem ring_step (n j i i2 x : Nat) (hj : j < n) (hi : i < n) (hx : x < n) (hi2 : i2 < n)
    (hp : (i = 0 ∧ i2 = n - 1) ∨ (i ≠ 0 ∧ i2 = i - 1))
    (h : bdist n j i < bdist n j x) (hxi : x ≠ i2) (hij : i2 ≠ j) :
    bdist n j i2 < bdist n j x := by
  have b1 := bdist_cases _ _ _ hj hi
  have b2 := bdist_cases _ _ _ hj hx
  have b3 := bdist_cases _ _ _ hj hi2
  omega

theorem ring_fuel (n j i i2 e fuel : Nat) (hj : j < n) (hi : i < n) (he : e < n)
    (hi2 : i2 < n) (hp : (i = 0 ∧ i2 = n - 1) ∨ (i ≠ 0 ∧ i2 = i - 1))
    (h : bdist n j i < bdist n j e) (hf : bdist n i e ≤ fuel + 1) (hie : i2 ≠ e) :
    bdist n i2 e ≤ fuel := by
  have b1 := bdist_cases _ _ _ hj hi
  have b2 := bdist_cases _ _ _ hj he
  have b3 := bdist_cases _ _ _ hi he
  have b4 := bdist_cases _ _ _ hi2 he
  omega

theorem ring_through (n h j i2 x : Nat) (hh : h < n) (hj : j < n) (hi2 : i2 < n)
    (hx : x < n) (h1 : bdist n h j < bdist n h x) (h2 : bdist n j i2 < bdist n j x) :
    bdist n h i2 < bdist n h x := by
  have b1 := bdist_cases _ _ _ hh hj
  have b2 := bdist_cases _ _ _ hh hx
  have b3 := bdist_cases _ _ _ hj hi2
  have b4 := bdist_cases _ _ _ hj hx
  have b5 := bdist_cases _ _ _ hh hi2
  omega

theorem ring_skip (n h j i2 : Nat) (hh : h < n) (hj : j < n) (hi2 : i2 < n)
    (hc : (i2 ≤ h ∧ h < j) ∨ (h < j ∧ j < i2) ∨ (j < i2 ∧ i2 ≤ h))
    (h1 : bdist n h j < bdist n h i2) : False := by
  have b1 := bdist_cases _ _ _ hh hj
  have b2 := bdist_cases _ _ _ hh hi2
  omega

theorem ring_move (n h j i2 y : Nat) (hh : h < n) (hj : j < n) (hi2 : i2 < n) (hy : y < n)
    (hc : ¬ ((i2 ≤ h ∧ h < j) ∨ (h < j ∧ j < i2) ∨ (j < i2 ∧ i2 ≤ h))) (hij : i2 ≠ j)
    (h1 : bdist n h y < bdist n h j) :
    bdist n h y < bdist n h i2 ∧ y ≠ j ∧ y ≠ i2 := by
  have b1 := bdist_cases _ _ _ hh hj
  have b2 := bdist_cases _ _ _ hh hi2
  have b3 := bdist_cases _ _ _ hh hy
  omega

/-- The state of the directory after one move of `delete`: the entry at `i` goes to
the hole `j` and slot `i` is cleared. -/
theorem slot_move (r : List region_info) (i j x : Nat) (hi : i < r.length)
    (hj : j < r.length) (hij : i ≠ j) :
    slot ((r.set j (slot r i)).set i
        (clear_slot (slot (r.set j (slot r i)) i))) x =
      if x = i then clear_slot (slot r i)
      else if x = j then slot r i else slot r x := by
  rw [slot_set, slot_set, slot_set]
  simp only [List.length_set]
  by_cases h1 : x = i
  · subst h1
    have : ¬ (x = j ∧ j < r.length) := fun h => hij h.1
    simp [hi, this]
  · by_cases h2 : x = j
    · subst h2; simp [h1, hj]
    · simp [h1, h2]

theorem move_content (r : List region_info) (i j n : Nat) (hl : r.length = n) (hi : i < n)
    (hj : j < n) (hij : i ≠ j) (hje : (slot r j).p = 0) (v : region_info) (hv : v.p ≠ 0) :
    (∃ x < n, slot ((r.set j (slot r i)).set i
        (clear_slot (slot (r.set j (slot r i)) i))) x = v) ↔
      (∃ x < n, slot r x = v) := by
  constructor
  · rintro ⟨x, hx, hs⟩
    rw [slot_move r i j x (hl ▸ hi) (hl ▸ hj) hij] at hs
    by_cases h1 : x = i
    · rw [if_pos h1] at hs; subst hs; exact absurd rfl hv
    · rw [if_neg h1] at hs
      by_cases h2 : x = j
      · rw [if_pos h2] at hs; exact ⟨i, hi, hs⟩
      · rw [if_neg h2] at hs; exact ⟨x, hx, hs⟩
  · rintro ⟨x, hx, hs⟩
    have hxj : x ≠ j := by
      intro h; subst h; rw [hs] at hje; exact hv hje
    by_cases h1 : x = i
    · refine ⟨j, hj, ?_⟩
      rw [slot_move r i j j (hl ▸ hi) (hl ▸ hj) hij, if_neg (Ne.symm hij), if_pos rfl,
        ← h1, hs]
    · refine ⟨x, hx, ?_⟩
      rw [slot_move r i j x (hl ▸ hi) (hl ▸ hj) hij, if_neg h1, if_neg hxj, hs]

theorem move_unique (ps : Nat) (r : List region_info) (i j : Nat) (hi : i < r.length)
    (hj : j < r.length) (hij : i ≠ j) (hu : pages_unique ps r) :
    pages_unique ps ((r.set j (slot r i)).set i
        (clear_slot (slot (r.set j (slot r i)) i))) := by
  intro x hx y hy hox hoy hxy
  simp only [List.length_set] at hx hy
  rw [slot_move r i j x hi hj hij] at hox hxy
  rw [slot_move r i j y hi hj hij] at hoy hxy
  by_cases hxi : x = i
  · rw [if_pos hxi] at hox; exact absurd rfl hox
  by_cases hyi : y = i
  · rw [if_pos hyi] at hoy; exact absurd rfl hoy
  rw [if_neg hxi] at hox hxy
  rw [if_neg hyi] at hoy hxy
  by_cases hxj : x = j
  · by_cases hyj : y = j
    · rw [hxj, hyj]
    · rw [if_pos hxj] at hox hxy
      rw [if_neg hyj] at hoy hxy
      exact absurd (hu i hi y hy hox hoy hxy).symm hyi
  · rw [if_neg hxj] at hox hxy
    by_cases hyj : y = j
    · rw [if_pos hyj] at hoy hxy
      exact absurd (hu x hx i hi hox hoy hxy) hxi
    · rw [if_neg hyj] at hoy hxy
      exact hu x hx y hy hox hoy hxy

theorem move_count (r : List region_info) (i j : Nat) (hi : i < r.length)
    (hj : j < r.length) (hje : (slot r j).p = 0) (hio : (slot r i).p ≠ 0) :
    ((r.set j (slot r i)).set i
        (clear_slot (slot (r.set j (slot r i)) i))).countP (fun v => v.p = 0) =
      r.countP (fun v => v.p = 0) := by
  have hij : i ≠ j := by intro h; subst h; exact hio hje
  have h1 := countP_set_of_length r (fun v => v.p = 0) j (slot r i) hj
  have h2 := countP_set_of_length (r.set j (slot r i)) (fun v => v.p = 0) i
    (clear_slot (slot (r.set j (slot r i)) i)) (by simpa using hi)
  have e : slot (r.set j (slot r i)) i = slot r i := by
    rw [slot_set]; simp [hij]
  rw [e] at h2 ⊢
  have c : (clear_slot (slot r i)).p = 0 := rfl
  generalize clear_slot (slot r i) = cl at h2 c ⊢
  simp only [hje, hio, c, decide_True, decide_False, if_true] at h1 h2
  simp at h1 h2
  omega

theorem delete_walk_spec (ps k : Nat) (hk : k < 64) :
    ∀ (fuel : Nat) (r : List region_info) (j i e : Nat),
      r.length = 2 ^ k → j < 2 ^ k → i < 2 ^ k → e < 2 ^ k →
      (slot r j).p = 0 → (slot r e).p = 0 →
      bdist (2 ^ k) j i < bdist (2 ^ k) j e →
      bdist (2 ^ k) i e ≤ fuel →
      (∀ x < 2 ^ k, (slot r x).p ≠ 0 → ∀ y < 2 ^ k,
        bdist (2 ^ k) (hash ps (slot r x).p &&& (2 ^ k - 1)) y <
          bdist (2 ^ k) (hash ps (slot r x).p &&& (2 ^ k - 1)) x →
        (slot r y).p ≠ 0 ∨ (y = j ∧ bdist (2 ^ k) j i < bdist (2 ^ k) j x)) →
      ∃ r2, delete_walk ps (2 ^ k - 1) fuel r j i = some r2 ∧
        r2.length = 2 ^ k ∧
        (∀ x < 2 ^ k, (slot r2 x).p ≠ 0 → ∀ y < 2 ^ k,
          bdist (2 ^ k) (hash ps (slot r2 x).p &&& (2 ^ k - 1)) y <
            bdist (2 ^ k) (hash ps (slot r2 x).p &&& (2 ^ k - 1)) x →
          (slot r2 y).p ≠ 0) ∧
        (∀ v : region_info, v.p ≠ 0 →
          ((∃ x < 2 ^ k, slot r2 x = v) ↔ (∃ x < 2 ^ k, slot r x = v))) ∧
        (pages_unique ps r → pages_unique ps r2) ∧
        r2.countP (fun v => v.p = 0) = r.countP (fun v => v.p = 0) := by
  intro fuel
  induction fuel with
  | zero =>
    intro r j i e hl hj hi he hje hee hord hfuel hinv
    have := ring_zero_lt _ _ _ _ hj hi he hord
    omega
  | succ fuel ih =>
    intro r j i e hl hj hi he hje hee hord hfuel hinv
    have hn : 0 < 2 ^ k := Nat.pow_pos (by norm_num)
    have hpn : (i = 0 ∧ probe_next i (2 ^ k - 1) = 2 ^ k - 1) ∨
        (i ≠ 0 ∧ probe_next i (2 ^ k - 1) = i - 1) := by
      rw [probe_next_eq k i hk hi]; split <;> omega
    have hi2 : probe_next i (2 ^ k - 1) < 2 ^ k := by omega
    rw [delete_walk]
    simp only []
    generalize probe_next i (2 ^ k - 1) = i2 at hpn hi2 ⊢
    by_cases hemp : (slot r i2).p = 0
    · -- the walk stops at an empty slot
      rw [if_pos hemp]
      refine ⟨r, rfl, hl, ?_, fun v _ => Iff.rfl, fun h => h, rfl⟩
      intro x hx hox y hy hlt
      rcases hinv x hx hox y hy hlt with h | ⟨hyj, hjx⟩
      · exact h
      · exfalso
        subst hyj
        have hxi : x ≠ i2 := fun h => hox (h ▸ hemp)
        have hh : hash ps (slot r x).p &&& (2 ^ k - 1) < 2 ^ k := and_mask_lt _ _
        have hinv2 := hinv x hx hox
        generalize hash ps (slot r x).p &&& (2 ^ k - 1) = hx0 at hlt hh hinv2
        by_cases hij : i2 = y
        · exact ring_wrap _ _ _ _ _ hy hi hx hpn hjx hij
        · have hs := ring_step _ _ _ _ _ hy hi hx hi2 hpn hjx hxi hij
          have hlt2 := ring_through _ _ _ _ _ hh hy hi2 hx hlt hs
          rcases hinv2 i2 hi2 hlt2 with h1 | ⟨h1, _⟩
          · exact h1 hemp
          · exact hij h1
    · rw [if_neg hemp]
      have hi2e : i2 ≠ e := fun h => hemp (h ▸ hee)
      have hi2j : i2 ≠ j := fun h => hemp (h ▸ hje)
      have hej : e ≠ j := by
        intro h; subst h
        have := ring_self _ _ hj
        omega
      have hh : hash ps (slot r i2).p &&& (2 ^ k - 1) < 2 ^ k := and_mask_lt _ _
      have hinv2 := hinv i2 hi2 hemp
      have hfuel2 := ring_fuel _ _ _ _ _ _ hj hi he hi2 hpn hord hfuel hi2e
      by_cases hc : (i2 ≤ hash ps (slot r i2).p &&& (2 ^ k - 1) ∧
            hash ps (slot r i2).p &&& (2 ^ k - 1) < j) ∨
          (hash ps (slot r i2).p &&& (2 ^ k - 1) < j ∧ j < i2) ∨
          (j < i2 ∧ i2 ≤ hash ps (slot r i2).p &&& (2 ^ k - 1))
      · -- the entry stays where it is
        rw [if_pos hc]
        apply ih r j i2 e hl hj hi2 he hje hee
          (ring_step _ _ _ _ _ hj hi he hi2 hpn hord (Ne.symm hi2e) hi2j) hfuel2
        intro x hx hox y hy hlt
        rcases hinv x hx hox y hy hlt with h | ⟨hyj, hjx⟩
        · exact Or.inl h
        · right
          refine ⟨hyj, ?_⟩
          by_cases hxi : x = i2
          · exfalso
            rw [hxi, hyj] at hlt
            exact ring_skip _ _ _ _ hh hj hi2 hc hlt
          · exact ring_step _ _ _ _ _ hj hi hx hi2 hpn hjx hxi hi2j
      · -- the entry moves into the hole
        rw [if_neg hc]
        have hlr : i2 < r.length := by omega
        have hjr : j < r.length := by omega
        have hsm := fun x => slot_move r i2 j x hlr hjr hi2j
        have hcont := fun v hv => move_content r i2 j (2 ^ k) hl hi2 hj hi2j hje v hv
        have huniq := move_unique ps r i2 j hlr hjr hi2j
        have hcnt := move_count r i2 j hlr hjr hje hemp
        generalize hr2 : (r.set j (slot r i2)).set i2
          (clear_slot (slot (r.set j (slot r i2)) i2)) = r2 at hsm hcont huniq hcnt ⊢
        have hl2 : r2.length = 2 ^ k := by rw [← hr2]; simpa using hl
        obtain ⟨r3, e3, l3, ch3, co3, un3, cn3⟩ := ih r2 i2 i2 e hl2 hi2 hi2 he
          (by rw [hsm, if_pos rfl]; rfl)
          (by rw [hsm, if_neg (Ne.symm hi2e), if_neg hej]; exact hee)
          (by rw [ring_self _ _ hi2]; exact ring_pos _ _ _ hi2 he (Ne.symm hi2e))
          hfuel2
          (by
            intro x hx hox y hy hlt
            have hxi : x ≠ i2 := by
              intro h; rw [hsm, if_pos h] at hox; exact hox rfl
            by_cases hxj : x = j
            · left
              rw [hsm x, if_neg hxi, if_pos hxj, hxj] at hlt
              obtain ⟨m1, m2, m3⟩ := ring_move _ _ _ _ _ hh hj hi2 hy hc hi2j hlt
              rw [hsm, if_neg m3, if_neg m2]
              rcases hinv2 y hy m1 with h | ⟨h, _⟩
              · exact h
              · exact absurd h m2
            · rw [hsm, if_neg hxi, if_neg hxj] at hox hlt
              by_cases hyi : y = i2
              · right
                refine ⟨hyi, ?_⟩
                rw [ring_self _ _ hi2]; exact ring_pos _ _ _ hi2 hx hxi
              · left
                by_cases hyj : y = j
                · rw [hsm, if_neg hyi, if_pos hyj]; exact hemp
                · rw [hsm, if_neg hyi, if_neg hyj]
                  rcases hinv x hx hox y hy hlt with h | ⟨h, _⟩
                  · exact h
                  · exact absurd h hyj)
        refine ⟨r3, e3, l3, ch3, ?_, fun hu => un3 (huniq hu), by rw [cn3, hcnt]⟩
        intro v hv
        rw [co3 v hv, hcont v hv]

theorem insert_probe_eq (r : List region_info) (mask : Nat) :
    ∀ fuel index, insert_probe r mask fuel index =
      probe_until (fun y => decide ((slot r y).p = 0)) mask fuel index := by
  intro fuel
  induction fuel with
  | zero => intro index; rfl
  | succ fuel ih =>
    intro index
    rw [insert_probe, probe_until]
    by_cases h : (slot r index).p = 0
    · simp [h]
    · simp [h, ih]

theorem find_probe_eq (ps : Nat) (r : List region_info) (mask p : Nat) :
    ∀ fuel index, find_probe ps r mask p fuel index =
      probe_until (fun y => decide (¬ (MASK_POINTER ps (slot r y).p ≠ p ∧ (slot r y).p ≠ 0)))
        mask fuel index := by
  intro fuel
  induction fuel with
  | zero => intro index; rfl
  | succ fuel ih =>
    intro index
    rw [find_probe, probe_until]
    by_cases h : MASK_POINTER ps (slot r index).p ≠ p ∧ (slot r index).p ≠ 0
    · rw [if_pos h, ih]; simp [h]
    · rw [if_neg h]; simp [h]

theorem ring_inj (n s a b : Nat) (hs : s < n) (ha : a < n) (hb : b < n)
    (h : bdist n s a = bdist n s b) : a = b := by
  have b1 := bdist_cases _ _ _ hs ha
  have b2 := bdist_cases _ _ _ hs hb
  omega

theorem ring_lt_n (n s a : Nat) (hs : s < n) (ha : a < n) : bdist n s a < n := by
  have b1 := bdist_cases _ _ _ hs ha
  omega

theorem ring_pred (n s s2 e : Nat) (hs : s < n) (hs2 : s2 < n) (he : e < n)
    (hp : (s = 0 ∧ s2 = n - 1) ∨ (s ≠ 0 ∧ s2 = s - 1)) (hne : e ≠ s) :
    bdist n s e = bdist n s2 e + 1 := by
  have b1 := bdist_cases _ _ _ hs he
  have b2 := bdist_cases _ _ _ hs2 he
  omega

theorem ring_pred_self (n s s2 : Nat) (hs : s < n) (hs2 : s2 < n)
    (hp : (s = 0 ∧ s2 = n - 1) ∨ (s ≠ 0 ∧ s2 = s - 1)) :
    bdist n s2 s = n - 1 := by
  have b2 := bdist_cases _ _ _ hs2 hs
  omega

/-- The probe stops at the first index, counted downward from the start, at which
`stop` holds, provided there is one within `fuel` steps. -/
theorem probe_until_first (stop : Nat → Bool) (k : Nat) (hk : k < 64) :
    ∀ (fuel s e : Nat), s < 2 ^ k → e < 2 ^ k → stop e = true →
      bdist (2 ^ k) s e < fuel →
      ∃ idx, probe_until stop (2 ^ k - 1) fuel s = some idx ∧ idx < 2 ^ k ∧
        stop idx = true ∧
        ∀ y < 2 ^ k, bdist (2 ^ k) s y < bdist (2 ^ k) s idx → stop y = false := by
  intro fuel
  induction fuel with
  | zero => intro s e _ _ _ h; omega
  | succ fuel ih =>
    intro s e hs he hse hf
    rw [probe_until]
    by_cases h : stop s = true
    · rw [if_pos h]
      refine ⟨s, rfl, hs, h, ?_⟩
      intro y _ hy
      rw [ring_self _ _ hs] at hy; omega
    · rw [if_neg h]
      have hpn : (s = 0 ∧ probe_next s (2 ^ k - 1) = 2 ^ k - 1) ∨
          (s ≠ 0 ∧ probe_next s (2 ^ k - 1) = s - 1) := by
        rw [probe_next_eq k s hk hs]; split <;> omega
      have hn : 0 < 2 ^ k := Nat.pow_pos (by norm_num)
      have hs2 : probe_next s (2 ^ k - 1) < 2 ^ k := by omega
      generalize probe_next s (2 ^ k - 1) = s2 at hpn hs2 ⊢
      have hes : e ≠ s := by intro hh; subst hh; exact h hse
      have e1 := ring_pred _ _ _ _ hs hs2 he hpn hes
      obtain ⟨idx, h1, h2, h3, h4⟩ := ih s2 e hs2 he hse (by omega)
      refine ⟨idx, h1, h2, h3, ?_⟩
      intro y hy hlt
      have his : idx ≠ s := by intro hh; subst hh; exact h h3
      have e2 := ring_pred _ _ _ _ hs hs2 h2 hpn his
      by_cases hys : y = s
      · subst hys; simpa using h
      · have e3 := ring_pred _ _ _ _ hs hs2 hy hpn hys
        exact h4 y hy (by omega)

theorem MALLOC_PAGEMASK_eq (ps : Nat) : MALLOC_PAGEMASK ps = 2 ^ ps - 1 := by
  unfold MALLOC_PAGEMASK; rw [MALLOC_PAGESIZE_eq]

theorem and_not64_mask (x k : Nat) (hk : k ≤ 64) :
    x &&& not64 (2 ^ k - 1) = (x % 2 ^ 64) / 2 ^ k * 2 ^ k := by
  have hp : 2 ^ k ≤ 2 ^ 64 := Nat.pow_le_pow_right (by norm_num) hk
  have hpos : 0 < 2 ^ k := Nat.pow_pos (by norm_num)
  unfold not64
  rw [Nat.mod_eq_of_lt (by omega)]
  have e : 2 ^ 64 - 1 - (2 ^ k - 1) = 2 ^ k * (2 ^ (64 - k) - 1) := by
    rw [Nat.mul_sub, ← pow_add]
    have : k + (64 - k) = 64 := by omega
    rw [this]; omega
  rw [e]
  apply Nat.eq_of_testBit_eq
  intro i
  rw [Nat.testBit_and, Nat.testBit_mul_pow_two, Nat.mul_comm (x % 2 ^ 64 / 2 ^ k),
    Nat.testBit_mul_pow_two, Nat.testBit_two_pow_sub_one, ← Nat.shiftRight_eq_div_pow,
    Nat.testBit_shiftRight, Nat.testBit_mod_two_pow]
  by_cases hik : k ≤ i
  · have e2 : k + (i - k) = i := by omega
    rw [e2]
    by_cases hi : i < 64
    · have : i - k < 64 - k := by omega
      simp [hik, this, hi]
    · have : ¬ (i - k < 64 - k) := by omega
      simp [hik, this, hi]
  · simp [hik]

theorem MASK_POINTER_eq (ps p : Nat) (hps : ps ≤ 64) :
    MASK_POINTER ps p = (p % 2 ^ 64) / 2 ^ ps * 2 ^ ps := by
  unfold MASK_POINTER; rw [MALLOC_PAGEMASK_eq, and_not64_mask _ _ hps]

theorem hash_eq_of_page (ps p q : Nat) (hps : ps ≤ 64)
    (h : MASK_POINTER ps p = MASK_POINTER ps q) : hash ps p = hash ps q := by
  rw [MASK_POINTER_eq _ _ hps, MASK_POINTER_eq _ _ hps] at h
  have hpos : 0 < 2 ^ ps := Nat.pow_pos (by norm_num)
  have h2 : p % 2 ^ 64 / 2 ^ ps = q % 2 ^ 64 / 2 ^ ps := Nat.eq_of_mul_eq_mul_right hpos h
  unfold hash
  simp only [Nat.shiftRight_eq_div_pow, h2]

theorem MASK_POINTER_idem (ps p : Nat) (hps : ps ≤ 64) :
    MASK_POINTER ps (MASK_POINTER ps p) = MASK_POINTER ps p := by
  rw [MASK_POINTER_eq _ (MASK_POINTER ps p) hps, MASK_POINTER_eq _ p hps]
  have hpos : 0 < 2 ^ ps := Nat.pow_pos (by norm_num)
  have h1 : p % 2 ^ 64 / 2 ^ ps * 2 ^ ps ≤ p % 2 ^ 64 := Nat.div_mul_le_self _ _
  have h2 : p % 2 ^ 64 < 2 ^ 64 := Nat.mod_lt _ (by norm_num)
  rw [Nat.mod_eq_of_lt (by omega), Nat.mul_div_cancel _ hpos]

/-- A key `page | tag` with a page-aligned `page` and a tag below the page size lies
in `page`. -/
theorem MASK_POINTER_key (ps page tag : Nat) (hps : ps ≤ 64) (hp : page % 2 ^ ps = 0)
    (hp64 : page < 2 ^ 64) (ht : tag < 2 ^ ps) :
    MASK_POINTER ps (page ||| tag) = page := by
  have hpos : 0 < 2 ^ ps := Nat.pow_pos (by norm_num)
  have hp2 : 2 ^ ps ≤ 2 ^ 64 := Nat.pow_le_pow_right (by norm_num) hps
  obtain ⟨c, hc⟩ : ∃ c, page = 2 ^ ps * c := ⟨page / 2 ^ ps, by
    have := Nat.div_add_mod page (2 ^ ps); omega⟩
  have hor : page ||| tag = 2 ^ ps * c + tag := by
    rw [hc]; exact (Nat.mul_add_lt_is_or ht c).symm
  have hlt : page ||| tag < 2 ^ 64 := Nat.or_lt_two_pow hp64 (by omega)
  rw [MASK_POINTER_eq _ _ hps, Nat.mod_eq_of_lt hlt, hor, hc]
  have : (2 ^ ps * c + tag) / 2 ^ ps = c := by
    rw [Nat.mul_add_div hpos, Nat.div_eq_of_lt ht]; rfl
  rw [this, Nat.mul_comm]

theorem tag_lt_pagesize (ps tag : Nat) (hps : 5 ≤ ps) (ht : tag ≤ BUCKETS ps + 1) :
    tag < 2 ^ ps := by
  unfold BUCKETS at ht
  rw [MALLOC_MAXCHUNK_eq, MALLOC_MINSIZE_eq] at ht
  have h1 : 2 ^ ps = 2 ^ (ps - 1) * 2 := by
    rw [← pow_succ]; congr 1; omega
  have h2 : 2 ^ 4 ≤ 2 ^ (ps - 1) := Nat.pow_le_pow_right (by norm_num) (by omega)
  have h3 := Nat.div_le_self (2 ^ (ps - 1)) 16
  omega

theorem list_ne_nil_of_length (r : List region_info) (n : Nat) (h : r.length = n) (hn : 0 < n) :
    r ≠ [] := by
  intro h0; subst h0; simp at h; omega

/-- `find` returns the slot `x` when every slot before `x` on the probe path of the
page is occupied by another page. -/
theorem find_present (ps k : Nat) (mopts : malloc_readonly) (d : dir_info) (x q : Nat)
    (hps : ps ≤ 64) (hk : k < 64) (hcan : canary_corrupt mopts d = false)
    (hlen : d.r.length = 2 ^ k) (htot : d.regions_total = 2 ^ k) (hx : x < 2 ^ k)
    (hox : (slot d.r x).p ≠ 0) (hq : MASK_POINTER ps q = MASK_POINTER ps (slot d.r x).p)
    (hpath : ∀ y < 2 ^ k,
      bdist (2 ^ k) (hash ps (slot d.r x).p &&& (2 ^ k - 1)) y <
        bdist (2 ^ k) (hash ps (slot d.r x).p &&& (2 ^ k - 1)) x →
      (slot d.r y).p ≠ 0 ∧ MASK_POINTER ps (slot d.r y).p ≠ MASK_POINTER ps q) :
    find ps mopts d q = .ok (some x) := by
  have hn : 0 < 2 ^ k := Nat.pow_pos (by norm_num)
  have hn64 := two_pow_lt_64 k hk
  unfold find
  simp only [hcan, Bool.false_eq_true, if_false, htot, dir_mask_eq _ hn hn64]
  rw [if_neg (list_ne_nil_of_length _ _ hlen hn)]
  have hh : hash ps (MASK_POINTER ps q) = hash ps (slot d.r x).p :=
    hash_eq_of_page _ _ _ hps (by rw [MASK_POINTER_idem _ _ hps, hq])
  rw [hh, find_probe_eq]
  have hs : hash ps (slot d.r x).p &&& (2 ^ k - 1) < 2 ^ k := and_mask_lt _ _
  have hstop : (fun y => decide (¬ (MASK_POINTER ps (slot d.r y).p ≠ MASK_POINTER ps q ∧
      (slot d.r y).p ≠ 0))) x = true := by
    simp [hq]
  have e1 : 2 ^ k - 1 + 1 = 2 ^ k := by omega
  obtain ⟨idx, h1, h2, h3, h4⟩ := probe_until_first
    (fun y => decide (¬ (MASK_POINTER ps (slot d.r y).p ≠ MASK_POINTER ps q ∧
      (slot d.r y).p ≠ 0))) k hk (2 ^ k - 1 + 1) _ x hs hx hstop
    (by rw [e1]; exact ring_lt_n _ _ _ hs hx)
  have hidx : idx = x := by
    rcases Nat.lt_trichotomy (bdist (2 ^ k) (hash ps (slot d.r x).p &&& (2 ^ k - 1)) idx)
      (bdist (2 ^ k) (hash ps (slot d.r x).p &&& (2 ^ k - 1)) x) with h | h | h
    · exfalso
      obtain ⟨p1, p2⟩ := hpath idx h2 h
      simp [p1, p2] at h3
    · exact ring_inj _ _ _ _ hs h2 hx h
    · exfalso
      have := h4 x hx h
      have hst : (decide ¬(MASK_POINTER ps (slot d.r x).p ≠ MASK_POINTER ps q ∧
          (slot d.r x).p ≠ 0)) = true := hstop
      rw [hst] at this; exact Bool.noConfusion this
  rw [h1, hidx]
  simp only []
  rw [if_pos ⟨hq.symm, hox⟩]

/-- `find` returns `NULL` for a page that no occupied slot holds when the table has
an empty slot. -/
theorem find_absent (ps k : Nat) (mopts : malloc_readonly) (d : dir_info) (e q : Nat)
    (hk : k < 64) (hcan : canary_corrupt mopts d = false)
    (hlen : d.r.length = 2 ^ k) (htot : d.regions_total = 2 ^ k) (he : e < 2 ^ k)
    (hee : (slot d.r e).p = 0)
    (habs : ∀ y < 2 ^ k, (slot d.r y).p ≠ 0 →
      MASK_POINTER ps (slot d.r y).p ≠ MASK_POINTER ps q) :
    find ps mopts d q = .ok none := by
  have hn : 0 < 2 ^ k := Nat.pow_pos (by norm_num)
  have hn64 := two_pow_lt_64 k hk
  unfold find
  simp only [hcan, Bool.false_eq_true, if_false, htot, dir_mask_eq _ hn hn64]
  rw [if_neg (list_ne_nil_of_length _ _ hlen hn), find_probe_eq]
  have hs : hash ps (MASK_POINTER ps q) &&& (2 ^ k - 1) < 2 ^ k := and_mask_lt _ _
  have hstop : (fun y => decide (¬ (MASK_POINTER ps (slot d.r y).p ≠ MASK_POINTER ps q ∧
      (slot d.r y).p ≠ 0))) e = true := by
    simp [hee]
  have e1 : 2 ^ k - 1 + 1 = 2 ^ k := by omega
  obtain ⟨idx, h1, h2, _, _⟩ := probe_until_first
    (fun y => decide (¬ (MASK_POINTER ps (slot d.r y).p ≠ MASK_POINTER ps q ∧
      (slot d.r y).p ≠ 0))) k hk (2 ^ k - 1 + 1) _ e hs he hstop
    (by rw [e1]; exact ring_lt_n _ _ _ hs he)
  rw [h1]
  simp only []
  rw [if_neg]
  rintro ⟨m1, m2⟩
  exact habs idx h2 m2 m1

theorem find_no_table (ps : Nat) (mopts : malloc_readonly) (d : dir_info) (q : Nat)
    (hcan : canary_corrupt mopts d = false) (hr : d.r = []) :
    find ps mopts d q = .ok none := by
  unfold find
  simp [hcan, hr]

theorem exists_of_countP_pos (r : List region_info) (P : region_info → Bool)
    (h : 0 < r.countP P) : ∃ e < r.length, P (slot r e) = true := by
  obtain ⟨a, ha, hp⟩ := List.countP_pos_iff.1 h
  obtain ⟨i, hi, hia⟩ := List.getElem_of_mem ha
  exact ⟨i, hi, by rw [slot_eq_getElem r i hi, hia]; exact hp⟩

/-- The probe of `insert` finds the first empty slot at or below the start. -/
theorem insert_probe_spec (r : List region_info) (k s : Nat) (hk : k < 64)
    (hlen : r.length = 2 ^ k) (hs : s < 2 ^ k) (hfree : 0 < r.countP (fun v => v.p = 0)) :
    ∃ idx, insert_probe r (2 ^ k - 1) (2 ^ k - 1 + 1) s = some idx ∧ idx < 2 ^ k ∧
      (slot r idx).p = 0 ∧
      ∀ y < 2 ^ k, bdist (2 ^ k) s y < bdist (2 ^ k) s idx → (slot r y).p ≠ 0 := by
  have hn : 0 < 2 ^ k := Nat.pow_pos (by norm_num)
  obtain ⟨e, he, hee⟩ := exists_of_countP_pos r _ hfree
  rw [hlen] at he
  have e1 : 2 ^ k - 1 + 1 = 2 ^ k := by omega
  rw [insert_probe_eq]
  obtain ⟨idx, h1, h2, h3, h4⟩ := probe_until_first
    (fun y => decide ((slot r y).p = 0)) k hk (2 ^ k - 1 + 1) s e hs he hee
    (by rw [e1]; exact ring_lt_n _ _ _ hs he)
  refine ⟨idx, h1, h2, by simpa using h3, ?_⟩
  intro y hy hlt
  simpa using h4 y hy hlt

theorem chain_ok_pow (ps k : Nat) (r : List region_info) (hk : k < 64)
    (hlen : r.length = 2 ^ k) :
    chain_ok ps r ↔ ∀ x < 2 ^ k, (slot r x).p ≠ 0 → ∀ y < 2 ^ k,
      bdist (2 ^ k) (hash ps (slot r x).p &&& (2 ^ k - 1)) y <
        bdist (2 ^ k) (hash ps (slot r x).p &&& (2 ^ k - 1)) x → (slot r y).p ≠ 0 := by
  unfold chain_ok
  rw [hlen, dir_mask_eq _ (Nat.pow_pos (by norm_num)) (two_pow_lt_64 k hk)]

/-- Storing a non-null key in a slot whose probe path is fully occupied keeps every
entry reachable. -/
theorem set_chain (ps k : Nat) (r : List region_info) (idx : Nat) (v : region_info)
    (hlen : r.length = 2 ^ k) (hidx : idx < 2 ^ k) (hv : v.p ≠ 0)
    (hch : ∀ x < 2 ^ k, (slot r x).p ≠ 0 → ∀ y < 2 ^ k,
      bdist (2 ^ k) (hash ps (slot r x).p &&& (2 ^ k - 1)) y <
        bdist (2 ^ k) (hash ps (slot r x).p &&& (2 ^ k - 1)) x → (slot r y).p ≠ 0)
    (hpath : ∀ y < 2 ^ k, bdist (2 ^ k) (hash ps v.p &&& (2 ^ k - 1)) y <
        bdist (2 ^ k) (hash ps v.p &&& (2 ^ k - 1)) idx → (slot r y).p ≠ 0) :
    ∀ x < 2 ^ k, (slot (r.set idx v) x).p ≠ 0 → ∀ y < 2 ^ k,
      bdist (2 ^ k) (hash ps (slot (r.set idx v) x).p &&& (2 ^ k - 1)) y <
        bdist (2 ^ k) (hash ps (slot (r.set idx v) x).p &&& (2 ^ k - 1)) x →
      (slot (r.set idx v) y).p ≠ 0 := by
  intro x hx hox y hy hlt
  have hi : idx < r.length := by omega
  rw [slot_set] at hox hlt ⊢
  by_cases hyi : y = idx
  · rw [if_pos ⟨hyi, hi⟩]; exact hv
  · rw [if_neg (fun h => hyi h.1)]
    by_cases hxi : x = idx
    · rw [if_pos ⟨hxi, hi⟩, hxi] at hlt
      exact hpath y hy hlt
    · rw [if_neg (fun h => hxi h.1)] at hox hlt
      exact hch x hx hox y hy hlt

theorem filter_set_empty (r : List region_info) (idx : Nat) (v : region_info)
    (hi : idx < r.length) (he : (slot r idx).p = 0) (hv : v.p ≠ 0) :
    List.Perm ((r.set idx v).filter (fun e => decide (e.p ≠ 0)))
      (v :: r.filter (fun e => decide (e.p ≠ 0))) := by
  induction r generalizing idx with
  | nil => simp at hi
  | cons a t ih =>
    cases idx with
    | zero =>
      have ha : a.p = 0 := by simpa [slot] using he
      simp [List.filter_cons, ha, hv]
    | succ i =>
      have hi2 : i < t.length := by simpa using hi
      have he2 : (slot t i).p = 0 := by simpa [slot] using he
      have h := ih i hi2 he2
      simp only [List.set_cons_succ, List.filter_cons]
      by_cases ha : a.p = 0
      · simp only [ha, ne_eq, not_true_eq_false, decide_False, Bool.false_eq_true, if_false]
        exact h
      · simp only [ha, ne_eq, not_false_eq_true, decide_True, if_true]
        exact (List.Perm.cons a h).trans (List.Perm.swap v a _)

theorem countP_occ_add_empty (r : List region_info) :
    r.countP (fun e => decide (e.p ≠ 0)) + r.countP (fun e => decide (e.p = 0)) = r.length := by
  induction r with
  | nil => rfl
  | cons a t ih =>
    simp only [List.countP_cons, List.length_cons]
    by_cases h : a.p = 0 <;> simp [h] at ih ⊢ <;> omega

/-- The copy loop of `omalloc_grow` terminates when the new table has more empty
slots than there are entries to copy; it keeps all entries reachable. -/
theorem grow_rehash_spec (ps k : Nat) (hk : k < 64) :
    ∀ (old p : List region_info), p.length = 2 ^ k →
      old.countP (fun e => decide (e.p ≠ 0)) < p.countP (fun e => decide (e.p = 0)) →
      (∀ x < 2 ^ k, (slot p x).p ≠ 0 → ∀ y < 2 ^ k,
        bdist (2 ^ k) (hash ps (slot p x).p &&& (2 ^ k - 1)) y <
          bdist (2 ^ k) (hash ps (slot p x).p &&& (2 ^ k - 1)) x → (slot p y).p ≠ 0) →
      ∃ p2, grow_rehash ps (2 ^ k - 1) old p = some p2 ∧ p2.length = 2 ^ k ∧
        (∀ x < 2 ^ k, (slot p2 x).p ≠ 0 → ∀ y < 2 ^ k,
          bdist (2 ^ k) (hash ps (slot p2 x).p &&& (2 ^ k - 1)) y <
            bdist (2 ^ k) (hash ps (slot p2 x).p &&& (2 ^ k - 1)) x → (slot p2 y).p ≠ 0) ∧
        p2.countP (fun e => decide (e.p = 0)) + old.countP (fun e => decide (e.p ≠ 0)) =
          p.countP (fun e => decide (e.p = 0)) ∧
        List.Perm (p2.filter (fun e => decide (e.p ≠ 0)))
          (old.filter (fun e => decide (e.p ≠ 0)) ++ p.filter (fun e => decide (e.p ≠ 0))) := by
  intro old
  induction old with
  | nil =>
    intro p hlen _ hch
    exact ⟨p, rfl, hlen, hch, by simp, by simp⟩
  | cons e old ih =>
    intro p hlen hcnt hch
    rw [grow_rehash]
    by_cases he : e.p = 0
    · rw [if_neg (by simpa using he)]
      have hc : (e :: old).countP (fun e => decide (e.p ≠ 0)) =
          old.countP (fun e => decide (e.p ≠ 0)) := by
        simp [List.countP_cons, he]
      rw [hc] at hcnt
      obtain ⟨p2, h1, h2, h3, h4, h5⟩ := ih p hlen hcnt hch
      refine ⟨p2, h1, h2, h3, by rw [hc]; exact h4, ?_⟩
      simpa [List.filter_cons, he] using h5
    · rw [if_pos he]
      have hc : (e :: old).countP (fun e => decide (e.p ≠ 0)) =
          old.countP (fun e => decide (e.p ≠ 0)) + 1 := by
        simp [List.countP_cons, he]
      rw [hc] at hcnt
      have hs : hash ps e.p &&& (2 ^ k - 1) < 2 ^ k := and_mask_lt _ _
      obtain ⟨idx, i1, i2, i3, i4⟩ := insert_probe_spec p k _ hk hlen hs (by omega)
      rw [i1]
      simp only []
      have hil : idx < p.length := by omega
      have hcs := countP_set_of_length p (fun v => decide (v.p = 0)) idx e hil
      simp only [i3, he, decide_True, decide_False, if_true, Bool.false_eq_true, if_false]
        at hcs
      obtain ⟨p2, h1, h2, h3, h4, h5⟩ := ih (p.set idx e) (by simpa using hlen) (by omega)
        (set_chain ps k p idx e hlen i2 he hch i4)
      refine ⟨p2, h1, h2, h3, by omega, ?_⟩
      have hf := filter_set_empty p idx e hil i3 he
      have : (e :: old).filter (fun e => decide (e.p ≠ 0)) =
          e :: old.filter (fun e => decide (e.p ≠ 0)) := by
        simp [List.filter_cons, he]
      rw [this]
      refine h5.trans ?_
      refine (List.Perm.append_left _ hf).trans ?_
      exact List.perm_middle

theorem mem_iff_slot (r : List region_info) (v : region_info) :
    v ∈ r ↔ ∃ x < r.length, slot r x = v := by
  rw [List.mem_iff_getElem]
  constructor
  · rintro ⟨i, hi, h⟩
    exact ⟨i, hi, by rw [slot_eq_getElem r i hi, h]⟩
  · rintro ⟨i, hi, h⟩
    exact ⟨i, hi, by rw [← slot_eq_getElem r i hi, h]⟩

theorem slot_cons_succ (a : region_info) (t : List region_info) (i : Nat) :
    slot (a :: t) (i + 1) = slot t i := by
  simp [slot]

theorem slot_cons_zero (a : region_info) (t : List region_info) :
    slot (a :: t) 0 = a := by
  simp [slot]

theorem page_mem_iff (ps : Nat) (t : List region_info) (pg : Nat) :
    pg ∈ (t.filter (fun e => decide (e.p ≠ 0))).map (fun v => MASK_POINTER ps v.p) ↔
      ∃ y < t.length, (slot t y).p ≠ 0 ∧ MASK_POINTER ps (slot t y).p = pg := by
  rw [List.mem_map]
  constructor
  · rintro ⟨v, hv, hp⟩
    rw [List.mem_filter] at hv
    obtain ⟨y, hy, hs⟩ := (mem_iff_slot t v).1 hv.1
    exact ⟨y, hy, by rw [hs]; simpa using hv.2, by rw [hs]; exact hp⟩
  · rintro ⟨y, hy, ho, hp⟩
    refine ⟨slot t y, ?_, hp⟩
    rw [List.mem_filter]
    exact ⟨(mem_iff_slot t _).2 ⟨y, hy, rfl⟩, by simpa using ho⟩

/-- At most one entry per page, in terms of the list of pages of the occupied slots. -/
theorem pages_unique_iff (ps : Nat) (r : List region_info) :
    pages_unique ps r ↔
      ((r.filter (fun e => decide (e.p ≠ 0))).map (fun v => MASK_POINTER ps v.p)).Nodup := by
  induction r with
  | nil =>
    simp [pages_unique]
  | cons a t ih =>
    have hfilt : (a :: t).filter (fun e => decide (e.p ≠ 0)) =
        if a.p ≠ 0 then a :: t.filter (fun e => decide (e.p ≠ 0))
        else t.filter (fun e => decide (e.p ≠ 0)) := by
      by_cases h : a.p = 0 <;> simp [List.filter_cons, h]
    constructor
    · intro hu
      have hut : pages_unique ps t := by
        intro x hx y hy hox hoy hxy
        have := hu (x + 1) (by simpa using hx) (y + 1) (by simpa using hy)
          (by rwa [slot_cons_succ]) (by rwa [slot_cons_succ])
          (by rwa [slot_cons_succ, slot_cons_succ])
        omega
      rw [hfilt]
      by_cases ha : a.p = 0
      · rw [if_neg (by simpa using ha)]; exact ih.1 hut
      · rw [if_pos ha, List.map_cons, List.nodup_cons]
        refine ⟨?_, ih.1 hut⟩
        intro hm
        obtain ⟨y, hy, ho, hp⟩ := (page_mem_iff ps t _).1 hm
        have := hu 0 (by simp) (y + 1) (by simpa using hy)
          (by rwa [slot_cons_zero]) (by rwa [slot_cons_succ])
          (by rw [slot_cons_zero, slot_cons_succ, hp])
        omega
    · intro hn
      rw [hfilt] at hn
      have hnt : ((t.filter (fun e => decide (e.p ≠ 0))).map
          (fun v => MASK_POINTER ps v.p)).Nodup := by
        by_cases ha : a.p = 0
        · rwa [if_neg (by simpa using ha)] at hn
        · rw [if_pos ha, List.map_cons, List.nodup_cons] at hn; exact hn.2
      have hut := ih.2 hnt
      have hcross : ∀ y < t.length, a.p ≠ 0 → (slot t y).p ≠ 0 →
          MASK_POINTER ps (slot t y).p = MASK_POINTER ps a.p → False := by
        intro y hy ha ho hp
        rw [if_pos ha, List.map_cons, List.nodup_cons] at hn
        exact hn.1 ((page_mem_iff ps t _).2 ⟨y, hy, ho, hp⟩)
      intro x hx y hy hox hoy hxy
      cases x with
      | zero =>
        cases y with
        | zero => rfl
        | succ y =>
          rw [slot_cons_zero] at hox hxy
          rw [slot_cons_succ] at hoy hxy
          exact absurd (hcross y (by simpa using hy) hox hoy hxy.symm) id
      | succ x =>
        cases y with
        | zero =>
          rw [slot_cons_zero] at hoy hxy
          rw [slot_cons_succ] at hox hxy
          exact absurd (hcross x (by simpa using hx) hoy hox hxy) id
        | succ y =>
          rw [slot_cons_succ] at hox hoy hxy
          rw [slot_cons_succ] at hxy
          have := hut x (by simpa using hx) y (by simpa using hy) hox hoy hxy
          omega

theorem add64_eq (x y : Nat) (h : x + y < 2 ^ 64) : add64 x y = x + y := by
  unfold add64; exact Nat.mod_eq_of_lt h

theorem sub64_eq (x y : Nat) (hx : x < 2 ^ 64) (hy : y ≤ x) : sub64 x y = x - y := by
  unfold sub64
  rw [Nat.mod_eq_of_lt hx, Nat.mod_eq_of_lt (by omega : y < 2 ^ 64)]
  have : x + 2 ^ 64 - y = (x - y) + 2 ^ 64 := by omega
  rw [this, Nat.add_mod_right]; exact Nat.mod_eq_of_lt (by omega)

theorem slot_replicate (n x : Nat) : slot (List.replicate n ⟨0, 0, 0⟩) x = ⟨0, 0, 0⟩ := by
  unfold slot
  rw [List.getD_eq_getElem?_getD, List.getElem?_replicate]
  split <;> rfl

theorem countP_le_length_occ (r : List region_info) :
    r.countP (fun e => decide (e.p ≠ 0)) ≤ r.length := List.countP_le_length _

theorem dir_wf_pow (ps : Nat) (mopts : malloc_readonly) (d : dir_info)
    (hwf : dir_wf ps mopts d) (h0 : d.regions_total ≠ 0) :
    ∃ k, k < 64 ∧ d.regions_total = 2 ^ k ∧ d.r.length = 2 ^ k := by
  obtain ⟨_, hlen, hp, _⟩ := hwf
  rcases hp with h | ⟨k, hk, he⟩
  · exact absurd h h0
  · exact ⟨k, hk, he, by rw [hlen, he]⟩

/-- A successful `omalloc_grow` on a well-formed directory. -/
theorem omalloc_grow_ok (ps : Nat) (mopts : malloc_readonly) (d : dir_info)
    (hwf : dir_wf ps mopts d)
    (hsmall : d.regions_total ≤ SIZE_MAX / sizeof_region_info / 2) :
    ∃ d2, omalloc_grow ps d true = .ok (0, d2) ∧
      d2.regions_total =
        (if d.regions_total = 0 then MALLOC_INITIAL_REGIONS else d.regions_total * 2) ∧
      d2.regions_free = d.regions_free + (d2.regions_total - d.regions_total) ∧
      d.regions_total < d2.regions_total ∧
      dir_wf ps mopts d2 ∧
      List.Perm (d2.r.filter (fun e => decide (e.p ≠ 0)))
        (d.r.filter (fun e => decide (e.p ≠ 0))) := by
  have hwf0 := hwf
  obtain ⟨hcan, hlen, hp, hfree, hpos, hch, huq⟩ := hwf
  have hsm : SIZE_MAX / sizeof_region_info / 2 = 384307168202282325 := by decide
  rw [hsm] at hsmall
  -- the new size is a power of two
  obtain ⟨k2, hk2, hnew, hlt⟩ : ∃ k2, k2 < 64 ∧
      (if d.regions_total = 0 then MALLOC_INITIAL_REGIONS else d.regions_total * 2) = 2 ^ k2 ∧
      d.regions_total < 2 ^ k2 := by
    by_cases h0 : d.regions_total = 0
    · exact ⟨9, by norm_num, by rw [if_pos h0]; rfl, by rw [h0]; norm_num⟩
    · obtain ⟨k, hk, he, _⟩ := dir_wf_pow ps mopts d hwf0 h0
      have hk58 : k ≤ 58 := by
        by_contra hc
        have : 2 ^ 59 ≤ 2 ^ k := Nat.pow_le_pow_right (by norm_num) (by omega)
        omega
      refine ⟨k + 1, by omega, ?_, ?_⟩
      · rw [if_neg h0, he, pow_succ]
      · rw [he, pow_succ]
        have := Nat.pow_pos (n := k) (by norm_num : 0 < 2); omega
  have hn : 0 < 2 ^ k2 := Nat.pow_pos (by norm_num)
  have hn64 := two_pow_lt_64 k2 hk2
  have hocc := countP_occ_add_empty d.r
  have hle : d.r.countP (fun e => decide (e.p = 0)) ≤ d.r.length := List.countP_le_length _
  obtain ⟨p2, h1, h2, h3, h4, h5⟩ := grow_rehash_spec ps k2 hk2 d.r
    (List.replicate (2 ^ k2) ⟨0, 0, 0⟩) (by simp)
    (by
      have : (List.replicate (2 ^ k2) (⟨0, 0, 0⟩ : region_info)).countP
          (fun e => decide (e.p = 0)) = 2 ^ k2 := by
        rw [List.countP_replicate]; simp
      rw [this]; omega)
    (by
      intro x _ hox
      rw [slot_replicate] at hox; exact absurd rfl hox)
  have hrep : (List.replicate (2 ^ k2) (⟨0, 0, 0⟩ : region_info)).countP
      (fun e => decide (e.p = 0)) = 2 ^ k2 := by
    rw [List.countP_replicate]; simp
  have hfilt : (List.replicate (2 ^ k2) (⟨0, 0, 0⟩ : region_info)).filter
      (fun e => decide (e.p ≠ 0)) = [] := by
    rw [List.filter_eq_nil_iff]
    intro a ha
    rw [List.mem_replicate] at ha
    simp [ha.2]
  rw [hrep] at h4
  rw [hfilt, List.append_nil] at h5
  have hfree2 : add64 d.regions_free (sub64 (2 ^ k2) d.regions_total) =
      d.regions_free + (2 ^ k2 - d.regions_total) := by
    rw [sub64_eq _ _ hn64 (by omega), add64_eq _ _ (by omega)]
  unfold omalloc_grow
  rw [if_neg (by rw [hsm]; omega)]
  simp only [hnew, Bool.not_true, Bool.false_eq_true, if_false, not_false_eq_true]
  have hmask : sub64 (2 ^ k2) 1 = 2 ^ k2 - 1 := dir_mask_eq _ hn hn64
  rw [hmask, h1]
  simp only [hfree2]
  refine ⟨_, rfl, rfl, rfl, hlt, ?_, h5⟩
  refine ⟨hcan, h2, Or.inr ⟨k2, hk2, rfl⟩, ?_, fun _ => ?_, ?_, ?_⟩
  · show d.regions_free + (2 ^ k2 - d.regions_total) = p2.countP (fun e => decide (e.p = 0))
    omega
  · show 0 < d.regions_free + (2 ^ k2 - d.regions_total)
    omega
  · exact (chain_ok_pow ps k2 p2 hk2 h2).2 h3
  · rw [pages_unique_iff] at huq ⊢
    exact (List.Perm.nodup_iff (List.Perm.map _ h5)).2 huq

/-- In a well-formed directory `find` returns the slot of every page that is present. -/
theorem find_present_wf (ps : Nat) (mopts : malloc_readonly) (d : dir_info) (x q : Nat)
    (hps : ps ≤ 64) (hwf : dir_wf ps mopts d) (hx : x < d.regions_total)
    (hox : (slot d.r x).p ≠ 0)
    (hq : MASK_POINTER ps q = MASK_POINTER ps (slot d.r x).p) :
    find ps mopts d q = .ok (some x) := by
  obtain ⟨k, hk, htot, hlen⟩ := dir_wf_pow ps mopts d hwf (by omega)
  obtain ⟨hcan, _, _, _, _, hch, huq⟩ := hwf
  rw [htot] at hx
  apply find_present ps k mopts d x q hps hk hcan hlen htot hx hox hq
  intro y hy hlt
  have hoy := (chain_ok_pow ps k d.r hk hlen).1 hch x hx hox y hy hlt
  refine ⟨hoy, ?_⟩
  intro hm
  have := huq y (by omega) x (by omega) hoy hox (by rw [hm, hq])
  subst this
  exact Nat.lt_irrefl _ hlt

/-- In a well-formed directory `find` returns `NULL` for every page that is absent. -/
theorem find_absent_wf (ps : Nat) (mopts : malloc_readonly) (d : dir_info) (q : Nat)
    (hwf : dir_wf ps mopts d)
    (habs : ∀ y < d.regions_total, (slot d.r y).p ≠ 0 →
      MASK_POINTER ps (slot d.r y).p ≠ MASK_POINTER ps q) :
    find ps mopts d q = .ok none := by
  by_cases h0 : d.regions_total = 0
  · obtain ⟨hcan, hlen, _⟩ := hwf
    apply find_no_table ps mopts d q hcan
    rw [h0] at hlen
    exact List.length_eq_zero.1 hlen
  · obtain ⟨k, hk, htot, hlen⟩ := dir_wf_pow ps mopts d hwf h0
    obtain ⟨hcan, _, _, hfree, hpos, _, _⟩ := hwf
    have := hpos h0
    rw [hfree] at this
    obtain ⟨e, he, hee⟩ := exists_of_countP_pos d.r _ this
    rw [htot] at habs
    exact find_absent ps k mopts d e q hk hcan hlen htot (by omega) (by simpa using hee) habs

theorem insert_grow_fail (ps : Nat) (d : dir_info) (p sz f : Nat) (m : Bool)
    (hneed : d.regions_free * 4 % 2 ^ 64 < d.regions_total ∨ d.regions_total = 0)
    (hg : omalloc_grow ps d m = .ok (1, d)) :
    insert ps d p sz f m = .ok (1, d) := by
  unfold insert
  simp only [hneed, if_true, hg]

/-- C5: on a well-formed directory `omalloc_grow` always returns; when it returns 0 the
table has twice the old number of slots (or `MALLOC_INITIAL_REGIONS` if there was none),
holds the same multiset of (key, size) entries, each found by `find` in its slot, and
`regions_free` has grown by the number of added slots; when it returns 1 the directory
is unchanged and an `insert` that needs the growth returns 1 with the directory
unchanged. -/
theorem omalloc_grow_spec (ps : Nat) (mopts : malloc_readonly) (d : dir_info)
    (mmap_ok : Bool) (hps : ps ≤ 64) (hwf : dir_wf ps mopts d) :
    ∃ rc d2, omalloc_grow ps d mmap_ok = .ok (rc, d2) ∧
      (rc = 0 ↔ (mmap_ok = true ∧
        d.regions_total ≤ SIZE_MAX / sizeof_region_info / 2)) ∧
      (rc = 0 →
        d2.regions_total =
          (if d.regions_total = 0 then MALLOC_INITIAL_REGIONS else 2 * d.regions_total) ∧
        d2.r.length = d2.regions_total ∧
        List.Perm ((d2.r.filter (fun e => decide (e.p ≠ 0))).map (fun e => (e.p, e.size)))
          ((d.r.filter (fun e => decide (e.p ≠ 0))).map (fun e => (e.p, e.size))) ∧
        (∀ x < d.regions_total, (slot d.r x).p ≠ 0 → ∀ q,
          MASK_POINTER ps q = MASK_POINTER ps (slot d.r x).p →
          ∃ idx, find ps mopts d2 q = .ok (some idx) ∧ slot d2.r idx = slot d.r x) ∧
        d2.regions_free = d.regions_free + (d2.regions_total - d.regions_total) ∧
        dir_wf ps mopts d2) ∧
      (rc ≠ 0 → rc = 1 ∧ d2 = d ∧
        ∀ p sz f, (d.regions_free * 4 % 2 ^ 64 < d.regions_total ∨ d.regions_total = 0) →
          insert ps d p sz f mmap_ok = .ok (1, d)) := by
  by_cases hbig : d.regions_total > SIZE_MAX / sizeof_region_info / 2
  · have hg : omalloc_grow ps d mmap_ok = .ok (1, d) := by
      unfold omalloc_grow; rw [if_pos hbig]
    refine ⟨1, d, hg, ?_, fun h => absurd h (by norm_num), fun _ => ⟨rfl, rfl, ?_⟩⟩
    · constructor
      · intro h; exact absurd h (by norm_num)
      · rintro ⟨_, h⟩; omega
    · intro p sz f hneed
      exact insert_grow_fail ps d p sz f mmap_ok hneed hg
  · cases mmap_ok with
    | false =>
      have hg : omalloc_grow ps d false = .ok (1, d) := by
        unfold omalloc_grow; rw [if_neg hbig]; simp
      refine ⟨1, d, hg, ?_, fun h => absurd h (by norm_num), fun _ => ⟨rfl, rfl, ?_⟩⟩
      · constructor
        · intro h; exact absurd h (by norm_num)
        · rintro ⟨h, _⟩; exact absurd h (by simp)
      · intro p sz f hneed
        exact insert_grow_fail ps d p sz f false hneed hg
    | true =>
      obtain ⟨d2, h1, h2, h3, h4, h5, h6⟩ := omalloc_grow_ok ps mopts d hwf (by omega)
      refine ⟨0, d2, h1, ?_, fun _ => ⟨?_, h5.2.1, List.Perm.map _ h6, ?_, h3, h5⟩,
        fun h => absurd rfl h⟩
      · constructor
        · intro _; exact ⟨rfl, by omega⟩
        · intro _; rfl
      · rw [h2]; split <;> omega
      · intro x hx hox q hq
        have hmem : slot d.r x ∈ d.r.filter (fun e => decide (e.p ≠ 0)) := by
          rw [List.mem_filter]
          exact ⟨(mem_iff_slot _ _).2 ⟨x, by rw [hwf.2.1]; exact hx, rfl⟩, by simpa using hox⟩
        have hmem2 := (List.Perm.mem_iff h6).2 hmem
        rw [List.mem_filter] at hmem2
        obtain ⟨idx, hidx, hs⟩ := (mem_iff_slot _ _).1 hmem2.1
        rw [h5.2.1] at hidx
        refine ⟨idx, ?_, hs⟩
        exact find_present_wf ps mopts d2 idx q hps h5 hidx (by rw [hs]; exact hox)
          (by rw [hs]; exact hq)

/-- The store of `insert` into a table with an empty slot, followed by `find`. -/
theorem insert_store (ps k : Nat) (mopts : malloc_readonly) (d : dir_info)
    (key sz f : Nat) (hps : ps ≤ 64) (hk : k < 64)
    (hcan : canary_corrupt mopts d = false) (hlen : d.r.length = 2 ^ k)
    (htot : d.regions_total = 2 ^ k) (hfree : 0 < d.r.countP (fun v => v.p = 0))
    (hkey : key ≠ 0)
    (habs : ∀ y < 2 ^ k, (slot d.r y).p ≠ 0 →
      MASK_POINTER ps (slot d.r y).p ≠ MASK_POINTER ps key) :
    ∃ idx, insert_probe d.r (2 ^ k - 1) (2 ^ k - 1 + 1) (hash ps key &&& (2 ^ k - 1)) =
        some idx ∧
      slot (d.r.set idx ⟨key, sz, f⟩) idx = ⟨key, sz, f⟩ ∧
      ∀ q, MASK_POINTER ps q = MASK_POINTER ps key →
        find ps mopts { d with r := d.r.set idx ⟨key, sz, f⟩,
                               regions_free := sub64 d.regions_free 1 } q = .ok (some idx) := by
  have hs : hash ps key &&& (2 ^ k - 1) < 2 ^ k := and_mask_lt _ _
  obtain ⟨idx, i1, i2, i3, i4⟩ := insert_probe_spec d.r k _ hk hlen hs hfree
  have hil : idx < d.r.length := by omega
  have hslot : slot (d.r.set idx ⟨key, sz, f⟩) idx = ⟨key, sz, f⟩ := by
    rw [slot_set, if_pos ⟨rfl, hil⟩]
  refine ⟨idx, i1, hslot, ?_⟩
  intro q hq
  refine find_present ps k mopts
    { d with
      r := d.r.set idx ⟨key, sz, f⟩
      regions_free := sub64 d.regions_free 1 }
    idx q hps hk hcan (by simpa using hlen) htot i2 ?_ ?_ ?_
  · show (slot (d.r.set idx ⟨key, sz, f⟩) idx).p ≠ 0
    rw [hslot]; exact hkey
  · show MASK_POINTER ps q = MASK_POINTER ps (slot (d.r.set idx ⟨key, sz, f⟩) idx).p
    rw [hslot]; exact hq
  · show ∀ y < 2 ^ k,
      bdist (2 ^ k) (hash ps (slot (d.r.set idx ⟨key, sz, f⟩) idx).p &&& (2 ^ k - 1)) y <
        bdist (2 ^ k) (hash ps (slot (d.r.set idx ⟨key, sz, f⟩) idx).p &&& (2 ^ k - 1)) idx →
      (slot (d.r.set idx ⟨key, sz, f⟩) y).p ≠ 0 ∧
        MASK_POINTER ps (slot (d.r.set idx ⟨key, sz, f⟩) y).p ≠ MASK_POINTER ps q
    rw [hslot]
    intro y hy hlt
    have hyi : y ≠ idx := by intro h; subst h; exact Nat.lt_irrefl _ hlt
    rw [slot_set, if_neg (fun h => hyi h.1)]
    have hoy := i4 y hy hlt
    exact ⟨hoy, by rw [hq]; exact habs y hy hoy⟩

/-- C3: on a well-formed directory, for a non-null key `page | tag` whose page is not
present, `insert` returns, and when it returns 0 `find` of every pointer `q` in that
page gives the slot that holds exactly the key, the size and the caller stored; the
hash of `q`, of the key and of the page coincide. -/
theorem insert_then_find (ps : Nat) (mopts : malloc_readonly) (d : dir_info)
    (page tag sz f : Nat) (mmap_ok : Bool) (q : Nat)
    (hps5 : 5 ≤ ps) (hps : ps ≤ 64) (hwf : dir_wf ps mopts d)
    (hpage : page % 2 ^ ps = 0) (hp64 : page < 2 ^ 64) (htag : tag ≤ BUCKETS ps + 1)
    (hkey : page ||| tag ≠ 0)
    (habs : ∀ y < d.regions_total, (slot d.r y).p ≠ 0 →
      MASK_POINTER ps (slot d.r y).p ≠ page)
    (hq : MASK_POINTER ps q = page) :
    ∃ rc d2, insert ps d (page ||| tag) sz f mmap_ok = .ok (rc, d2) ∧
      (rc = 0 → ∃ idx, find ps mopts d2 q = .ok (some idx) ∧
        slot d2.r idx = ⟨page ||| tag, sz, f⟩) ∧
      hash ps q = hash ps (page ||| tag) ∧ hash ps (page ||| tag) = hash ps page := by
  have hmk : MASK_POINTER ps (page ||| tag) = page :=
    MASK_POINTER_key ps page tag hps hpage hp64 (tag_lt_pagesize ps tag hps5 htag)
  have hh1 : hash ps q = hash ps (page ||| tag) :=
    hash_eq_of_page _ _ _ hps (by rw [hq, hmk])
  have hh2 : hash ps (page ||| tag) = hash ps page :=
    hash_eq_of_page _ _ _ hps (by
      rw [hmk, MASK_POINTER_eq _ _ hps, Nat.mod_eq_of_lt hp64]
      exact (Nat.div_mul_cancel (Nat.dvd_of_mod_eq_zero hpage)).symm)
  have hqk : MASK_POINTER ps q = MASK_POINTER ps (page ||| tag) := by rw [hq, hmk]
  by_cases hneed : d.regions_free * 4 % 2 ^ 64 < d.regions_total ∨ d.regions_total = 0
  · -- the table must grow first
    obtain ⟨rc, d1, g1, g2, g3, g4⟩ := omalloc_grow_spec ps mopts d mmap_ok hps hwf
    by_cases hrc : rc = 0
    · subst hrc
      obtain ⟨t1, t2, t3, t4, t5, wf1⟩ := g3 rfl
      have h10 : d1.regions_total ≠ 0 := by
        rw [t1]; split
        · decide
        · omega
      obtain ⟨k, hk, htot, hlen⟩ := dir_wf_pow ps mopts d1 wf1 h10
      have hfree : 0 < d1.r.countP (fun v => v.p = 0) := by
        rw [← wf1.2.2.2.1]; exact wf1.2.2.2.2.1 h10
      have habs1 : ∀ y < 2 ^ k, (slot d1.r y).p ≠ 0 →
          MASK_POINTER ps (slot d1.r y).p ≠ MASK_POINTER ps (page ||| tag) := by
        intro y hy hoy
        rw [hmk]
        have hm : (slot d1.r y).p ∈
            ((d1.r.filter (fun e => decide (e.p ≠ 0))).map (fun e => (e.p, e.size))).map
              Prod.fst := by
          rw [List.map_map, List.mem_map]
          refine ⟨slot d1.r y, ?_, rfl⟩
          rw [List.mem_filter]
          exact ⟨(mem_iff_slot _ _).2 ⟨y, by omega, rfl⟩, by simpa using hoy⟩
        rw [(List.Perm.map _ t3).mem_iff, List.map_map, List.mem_map] at hm
        obtain ⟨v, hv, hvp⟩ := hm
        rw [List.mem_filter] at hv
        obtain ⟨x, hx, hs⟩ := (mem_iff_slot _ _).1 hv.1
        have hvp2 : v.p = (slot d1.r y).p := hvp
        rw [← hvp2, ← hs]
        rw [hwf.2.1] at hx
        exact habs x hx (by rw [hs]; simpa using hv.2)
      obtain ⟨idx, s1, s2, s3⟩ := insert_store ps k mopts d1 (page ||| tag) sz f hps hk
        wf1.1 hlen htot hfree hkey habs1
      refine ⟨0, _, ?_, fun _ => ⟨idx, s3 q hqk, s2⟩, hh1, hh2⟩
      unfold insert
      simp only [hneed, if_true, g1]
      rw [htot, dir_mask_eq _ (Nat.pow_pos (by norm_num)) (two_pow_lt_64 k hk), s1]
    · obtain ⟨r1, r2, r3⟩ := g4 hrc
      exact ⟨1, d, r3 _ _ _ hneed, fun h => absurd h (by norm_num), hh1, hh2⟩
  · -- no growth
    have h0 : d.regions_total ≠ 0 := fun h => hneed (Or.inr h)
    obtain ⟨k, hk, htot, hlen⟩ := dir_wf_pow ps mopts d hwf h0
    have hfree : 0 < d.r.countP (fun v => v.p = 0) := by
      rw [← hwf.2.2.2.1]; exact hwf.2.2.2.2.1 h0
    have habs1 : ∀ y < 2 ^ k, (slot d.r y).p ≠ 0 →
        MASK_POINTER ps (slot d.r y).p ≠ MASK_POINTER ps (page ||| tag) := by
      intro y hy hoy; rw [hmk]; exact habs y (by omega) hoy
    obtain ⟨idx, s1, s2, s3⟩ := insert_store ps k mopts d (page ||| tag) sz f hps hk
      hwf.1 hlen htot hfree hkey habs1
    refine ⟨0, _, ?_, fun _ => ⟨idx, s3 q hqk, s2⟩, hh1, hh2⟩
    unfold insert
    simp only [hneed, if_false]
    rw [htot, dir_mask_eq _ (Nat.pow_pos (by norm_num)) (two_pow_lt_64 k hk), s1]

theorem two_pow_and_pred (k : Nat) (hk : k < 64) : 2 ^ k &&& sub64 (2 ^ k) 1 = 0 := by
  have h := dir_mask_eq (2 ^ k) (Nat.pow_pos (by norm_num)) (two_pow_lt_64 k hk)
  unfold dir_mask at h
  rw [h, Nat.and_pow_two_sub_one_eq_mod, Nat.mod_self]

/-- What `delete` of an occupied slot leaves of a well-formed directory. -/
theorem delete_full (ps : Nat) (mopts : malloc_readonly) (d : dir_info) (i : Nat)
    (hps : ps ≤ 64) (hwf : dir_wf ps mopts d) (hi : i < d.regions_total)
    (hocc : (slot d.r i).p ≠ 0) :
    ∃ d2, delete ps d i = .ok d2 ∧
      (∀ q, MASK_POINTER ps q = MASK_POINTER ps (slot d.r i).p →
        find ps mopts d2 q = .ok none) ∧
      (∀ x < d.regions_total, x ≠ i → (slot d.r x).p ≠ 0 → ∀ q,
        MASK_POINTER ps q = MASK_POINTER ps (slot d.r x).p →
        ∃ idx, find ps mopts d2 q = .ok (some idx) ∧
          (slot d2.r idx).p = (slot d.r x).p ∧ (slot d2.r idx).size = (slot d.r x).size) ∧
      dir_wf ps mopts d2 ∧
      d2.regions_free = d.regions_free + 1 ∧ d2.regions_total = d.regions_total := by
  have h0 : d.regions_total ≠ 0 := by omega
  obtain ⟨k, hk, htot, hlen⟩ := dir_wf_pow ps mopts d hwf h0
  obtain ⟨hcan, _, _, hfree, hpos, hch, huq⟩ := hwf
  have hn : 0 < 2 ^ k := Nat.pow_pos (by norm_num)
  have hn64 := two_pow_lt_64 k hk
  rw [htot] at hi
  have hfp := hpos h0
  rw [hfree] at hfp
  obtain ⟨e, he, hee⟩ := exists_of_countP_pos d.r _ hfp
  have hee : (slot d.r e).p = 0 := by simpa using hee
  rw [hlen] at he
  have hei : e ≠ i := by intro h; subst h; exact hocc hee
  have hil : i < d.r.length := by omega
  have hch2 := (chain_ok_pow ps k d.r hk hlen).1 hch
  -- the table after the first slot has been cleared
  have hs0 : ∀ x, slot (d.r.set i (clear_slot (slot d.r i))) x =
      if x = i then clear_slot (slot d.r i) else slot d.r x := by
    intro x
    rw [slot_set]
    by_cases hx : x = i
    · rw [if_pos ⟨hx, hil⟩, if_pos hx]
    · rw [if_neg (fun h => hx h.1), if_neg hx]
  have hc0 := countP_set_of_length d.r (fun v => decide (v.p = 0)) i
    (clear_slot (slot d.r i)) hil
  have hcl : (clear_slot (slot d.r i)).p = 0 := rfl
  simp only [hocc, hcl, decide_True, decide_False, if_true, Bool.false_eq_true, if_false]
    at hc0
  generalize hr0 : d.r.set i (clear_slot (slot d.r i)) = r0 at hs0 hc0
  have hl0 : r0.length = 2 ^ k := by rw [← hr0]; simpa using hlen
  have huq0 : pages_unique ps r0 := by
    intro x hx y hy hox hoy hxy
    rw [hs0] at hox hoy hxy
    rw [hs0] at hxy
    by_cases hxi : x = i
    · rw [if_pos hxi] at hox; exact absurd hcl hox
    · by_cases hyi : y = i
      · rw [if_pos hyi] at hoy; exact absurd hcl hoy
      · rw [if_neg hxi] at hox hxy
        rw [if_neg hyi] at hoy hxy
        exact huq x (by omega) y (by omega) hox hoy hxy
  obtain ⟨r2, w1, w2, w3, w4, w5, w6⟩ := delete_walk_spec ps k hk (2 ^ k) r0 i i e hl0 hi hi he
    (by rw [hs0, if_pos rfl]; rfl)
    (by rw [hs0, if_neg hei]; exact hee)
    (by rw [ring_self _ _ hi]; exact ring_pos _ _ _ hi he hei)
    (Nat.le_of_lt (ring_lt_n _ _ _ hi he))
    (by
      intro x hx hox y hy hlt
      have hxi : x ≠ i := by
        intro h; rw [hs0, if_pos h] at hox; exact hox hcl
      rw [hs0, if_neg hxi] at hox hlt
      by_cases hyi : y = i
      · right
        refine ⟨hyi, ?_⟩
        rw [ring_self _ _ hi]; exact ring_pos _ _ _ hi hx hxi
      · left
        rw [hs0, if_neg hyi]
        exact hch2 x hx hox y hy hlt)
  have hfl : r0.countP (fun v => decide (v.p = 0)) ≤ r0.length := List.countP_le_length _
  have hadd : add64 d.regions_free 1 = d.regions_free + 1 := add64_eq _ _ (by omega)
  have hwf2 : dir_wf ps mopts { d with regions_free := add64 d.regions_free 1, r := r2 } := by
    refine ⟨hcan, by rw [htot]; exact w2, Or.inr ⟨k, hk, htot⟩, ?_, fun _ => ?_,
      (chain_ok_pow ps k r2 hk w2).2 w3, w5 huq0⟩
    · show add64 d.regions_free 1 = r2.countP (fun e => decide (e.p = 0))
      rw [hadd, w6]; omega
    · show 0 < add64 d.regions_free 1
      rw [hadd]; omega
  -- every entry of the new table is an entry of the old one in a slot other than `i`
  have hfrom : ∀ y < 2 ^ k, (slot r2 y).p ≠ 0 →
      ∃ x < 2 ^ k, x ≠ i ∧ slot d.r x = slot r2 y := by
    intro y hy hoy
    obtain ⟨x, hx, hs⟩ := (w4 (slot r2 y) hoy).1 ⟨y, hy, rfl⟩
    have hxi : x ≠ i := by
      intro h; rw [hs0, if_pos h] at hs; rw [← hs] at hoy; exact hoy hcl
    rw [hs0, if_neg hxi] at hs
    exact ⟨x, hx, hxi, hs⟩
  refine ⟨{ d with regions_free := add64 d.regions_free 1, r := r2 }, ?_, ?_, ?_, hwf2,
    hadd, rfl⟩
  · unfold delete
    rw [htot, if_neg (by rw [two_pow_and_pred k hk]; exact fun h => h rfl),
      dir_mask_eq _ hn hn64]
    simp only [hr0, w1]
  · intro q hq
    apply find_absent_wf ps mopts _ q hwf2
    intro y hy hoy
    have hy2 : y < 2 ^ k := by rw [← htot]; exact hy
    obtain ⟨x, hx, hxi, hs⟩ := hfrom y hy2 hoy
    have hoy2 : (slot r2 y).p ≠ 0 := hoy
    show MASK_POINTER ps (slot r2 y).p ≠ MASK_POINTER ps q
    rw [← hs, hq]
    intro hm
    exact hxi (huq x (by omega) i (by omega) (by rw [hs]; exact hoy2) hocc hm)
  · intro x hx hxi hox q hq
    obtain ⟨idx, hidx, hs⟩ := (w4 (slot d.r x) hox).2
      ⟨x, by omega, by rw [hs0, if_neg hxi]⟩
    refine ⟨idx, ?_, by show (slot r2 idx).p = _; rw [hs],
      by show (slot r2 idx).size = _; rw [hs]⟩
    exact find_present_wf ps mopts _ idx q hps hwf2 (by rw [htot]; exact hidx)
      (by show (slot r2 idx).p ≠ 0; rw [hs]; exact hox)
      (by show _ = MASK_POINTER ps (slot r2 idx).p; rw [hs]; exact hq)

/-- C4: on a well-formed directory `delete` of an occupied slot returns; afterwards
`find` reports the page of the deleted key absent, finds every other key with the
same key and size fields, and the directory is again well-formed, with one more free
slot. -/
theorem delete_spec (ps : Nat) (mopts : malloc_readonly) (d : dir_info) (i : Nat)
    (hps : ps ≤ 64) (hwf : dir_wf ps mopts d) (hi : i < d.regions_total)
    (hocc : (slot d.r i).p ≠ 0) :
    ∃ d2, delete ps d i = .ok d2 ∧
      (∀ q, MASK_POINTER ps q = MASK_POINTER ps (slot d.r i).p →
        find ps mopts d2 q = .ok none) ∧
      (∀ x < d.regions_total, x ≠ i → (slot d.r x).p ≠ 0 → ∀ q,
        MASK_POINTER ps q = MASK_POINTER ps (slot d.r x).p →
        ∃ idx, find ps mopts d2 q = .ok (some idx) ∧
          (slot d2.r idx).p = (slot d.r x).p ∧ (slot d2.r idx).size = (slot d.r x).size) ∧
      dir_wf ps mopts d2 ∧
      d2.regions_free = d.regions_free + 1 ∧ d2.regions_total = d.regions_total :=
  delete_full ps mopts d i hps hwf hi hocc

theorem example_dir_wf : dir_wf 12 (default_mopts 7) example_dir := by
  refine ⟨by decide, by decide, Or.inr ⟨3, by decide, by decide⟩, by decide, by decide, ?_, ?_⟩
  · unfold chain_ok; decide
  · unfold pages_unique; decide

theorem insert_then_find_witness :
    ∃ rc d2, insert 12 example_dir (0x3000 ||| 3) 99 0 true = .ok (rc, d2) ∧
      (rc = 0 → ∃ idx, find 12 (default_mopts 7) d2 0x3123 = .ok (some idx) ∧
        slot d2.r idx = ⟨0x3000 ||| 3, 99, 0⟩) ∧
      hash 12 0x3123 = hash 12 (0x3000 ||| 3) ∧ hash 12 (0x3000 ||| 3) = hash 12 0x3000 :=
  insert_then_find 12 (default_mopts 7) example_dir 0x3000 3 99 0 true 0x3123
    (by decide) (by decide) example_dir_wf (by decide) (by decide) (by decide) (by decide)
    (by decide) (by decide)

theorem delete_spec_witness :
    ∃ d2, delete 12 example_dir 7 = .ok d2 ∧
      (∀ q, MASK_POINTER 12 q = MASK_POINTER 12 (slot example_dir.r 7).p →
        find 12 (default_mopts 7) d2 q = .ok none) ∧
      (∀ x < example_dir.regions_total, x ≠ 7 → (slot example_dir.r x).p ≠ 0 → ∀ q,
        MASK_POINTER 12 q = MASK_POINTER 12 (slot example_dir.r x).p →
        ∃ idx, find 12 (default_mopts 7) d2 q = .ok (some idx) ∧
          (slot d2.r idx).p = (slot example_dir.r x).p ∧
          (slot d2.r idx).size = (slot example_dir.r x).size) ∧
      dir_wf 12 (default_mopts 7) d2 ∧
      d2.regions_free = example_dir.regions_free + 1 ∧
      d2.regions_total = example_dir.regions_total :=
  delete_spec 12 (default_mopts 7) example_dir 7 (by decide) example_dir_wf (by decide)
    (by decide)

theorem omalloc_grow_spec_witness :
    ∃ rc d2, omalloc_grow 12 example_dir true = .ok (rc, d2) ∧
      (rc = 0 ↔ (true = true ∧
        example_dir.regions_total ≤ SIZE_MAX / sizeof_region_info / 2)) ∧
      (rc = 0 →
        d2.regions_total =
          (if example_dir.regions_total = 0 then MALLOC_INITIAL_REGIONS
           else 2 * example_dir.regions_total) ∧
        d2.r.length = d2.regions_total ∧
        List.Perm ((d2.r.filter (fun e => decide (e.p ≠ 0))).map (fun e => (e.p, e.size)))
          ((example_dir.r.filter (fun e => decide (e.p ≠ 0))).map
            (fun e => (e.p, e.size))) ∧
        (∀ x < example_dir.regions_total, (slot example_dir.r x).p ≠ 0 → ∀ q,
          MASK_POINTER 12 q = MASK_POINTER 12 (slot example_dir.r x).p →
          ∃ idx, find 12 (default_mopts 7) d2 q = .ok (some idx) ∧
            slot d2.r idx = slot example_dir.r x) ∧
        d2.regions_free = example_dir.regions_free +
          (d2.regions_total - example_dir.regions_total) ∧
        dir_wf 12 (default_mopts 7) d2) ∧
      (rc ≠ 0 → rc = 1 ∧ d2 = example_dir ∧
        ∀ p sz f, (example_dir.regions_free * 4 % 2 ^ 64 < example_dir.regions_total ∨
            example_dir.regions_total = 0) →
          insert 12 example_dir p sz f true = .ok (1, example_dir)) :=
  omalloc_grow_spec 12 (default_mopts 7) example_dir true (by decide) example_dir_wf

/-! ## Lemmas on chunk bitmaps -/

theorem MALLOC_BITS_eq : MALLOC_BITS = 16 := by decide

theorem bits_word_set (l : List Nat) (w w2 v : Nat) :
    bits_word (l.set w v) w2 = if w2 = w ∧ w < l.length then v else bits_word l w2 := by
  unfold bits_word
  rw [List.getD_eq_getElem?_getD, List.getD_eq_getElem?_getD, List.getElem?_set]
  by_cases h : w = w2
  · subst h
    by_cases hl : w < l.length
    · simp [hl]
    · have : l[w]? = none := List.getElem?_eq_none (by omega)
      simp [hl, this]
  · have : ¬ (w2 = w ∧ w < l.length) := fun hh => h hh.1.symm
    simp [h, this]

theorem countP_range_flip (f g : Nat → Bool) (n k0 : Nat) (hk : k0 < n)
    (hf : f k0 = true) (hg : g k0 = false) (hsame : ∀ k < n, k ≠ k0 → g k = f k) :
    (List.range n).countP g + 1 = (List.range n).countP f := by
  induction n with
  | zero => omega
  | succ n ih =>
    rw [List.range_succ, List.countP_append, List.countP_append]
    by_cases hkn : k0 = n
    · subst hkn
      have hcongr : (List.range k0).countP g = (List.range k0).countP f := by
        apply List.countP_congr
        intro k hk'
        rw [List.mem_range] at hk'
        rw [hsame k (by omega) (by omega)]
      simp [hf, hg, hcongr]
    · have := ih (by omega) (fun k hk' hne => hsame k (by omega) hne)
      have hn : g n = f n := hsame n (by omega) (fun h => hkn h.symm)
      simp only [List.countP_singleton, hn]
      omega

theorem ffs_from_spec (fuel : Nat) : ∀ x, 0 < x → x < 2 ^ fuel →
    1 ≤ ffs_from fuel x ∧ x.testBit (ffs_from fuel x - 1) = true := by
  induction fuel with
  | zero => intro x h0 h1; simp at h1; omega
  | succ fuel ih =>
    intro x h0 h1
    rw [ffs_from]
    by_cases hodd : x % 2 = 1
    · rw [if_pos hodd]
      refine ⟨le_refl _, ?_⟩
      simp [Nat.testBit_zero, hodd]
    · rw [if_neg hodd]
      have hx2 : 0 < x / 2 := by omega
      have hx3 : x / 2 < 2 ^ fuel := by
        rw [pow_succ] at h1; omega
      obtain ⟨i1, i2⟩ := ih (x / 2) hx2 hx3
      refine ⟨by omega, ?_⟩
      have : ffs_from fuel (x / 2) + 1 - 1 = (ffs_from fuel (x / 2) - 1) + 1 := by omega
      rw [this, Nat.testBit_succ]
      exact i2

theorem ffs_spec (x : Nat) (h0 : x ≠ 0) (h1 : x < 2 ^ 32) :
    1 ≤ ffs x ∧ x.testBit (ffs x - 1) = true := by
  unfold ffs
  rw [Nat.mod_eq_of_lt h1, if_neg h0]
  exact ffs_from_spec 32 x (Nat.pos_of_ne_zero h0) h1

theorem ffs_zero : ffs 0 = 0 := by decide

theorem testBit_lt_of_lt_two_pow (x n i : Nat) (hx : x < 2 ^ n) (h : x.testBit i = true) :
    i < n := by
  by_contra hc
  have : x < 2 ^ i := lt_of_lt_of_le hx (Nat.pow_le_pow_right (by norm_num) (by omega))
  rw [Nat.testBit_lt_two_pow this] at h
  exact Bool.noConfusion h

/-- Clearing a set bit of a word with `^=`. -/
theorem testBit_xor_bit (x kk t : Nat) (ht : t < 16) :
    ((x ^^^ (1 <<< kk)) % 2 ^ 16).testBit t =
      if t = kk then !x.testBit t else x.testBit t := by
  rw [Nat.testBit_mod_two_pow, Nat.testBit_xor, Nat.one_shiftLeft, Nat.testBit_two_pow]
  by_cases h : t = kk
  · subst h; simp [ht]
  · have : ¬ kk = t := fun hh => h hh.symm
    simp [ht, h, this]

/-- Setting a bit of a word with `|=`. -/
theorem testBit_or_bit (x kk t : Nat) (ht : t < 16) :
    ((x ||| (1 <<< kk)) % 2 ^ 16).testBit t =
      if t = kk then true else x.testBit t := by
  rw [Nat.testBit_mod_two_pow, Nat.testBit_or, Nat.one_shiftLeft, Nat.testBit_two_pow]
  by_cases h : t = kk
  · subst h; simp [ht]
  · have : ¬ kk = t := fun hh => h hh.symm
    simp [ht, h, this]

/-- The word loop of `malloc_bytes` finds a non-zero word when there is one. -/
theorem malloc_bytes_scan_spec (bits : List Nat) (nwords : Nat) (hn : nwords < 2 ^ 32) :
    ∀ (fuel i ws : Nat), i < nwords → ws < nwords → bits_word bits ws ≠ 0 →
      (if i < ws then ws - i else ws + nwords - i) ≤ fuel →
      ∃ w, malloc_bytes_scan bits nwords fuel i = some w ∧ w < nwords ∧
        bits_word bits w ≠ 0 := by
  intro fuel
  induction fuel with
  | zero =>
    intro i ws hi hws _ hf
    split at hf <;> omega
  | succ fuel ih =>
    intro i ws hi hws hnz hf
    rw [malloc_bytes_scan]
    have hmod : (i + 1) % 2 ^ 32 = i + 1 := Nat.mod_eq_of_lt (by omega)
    rw [hmod]
    by_cases hwrap : i + 1 ≥ nwords
    · rw [if_pos hwrap]
      by_cases hz : bits_word bits 0 ≠ 0
      · rw [if_pos hz]; exact ⟨0, rfl, by omega, hz⟩
      · rw [if_neg hz]
        have hws0 : ws ≠ 0 := by intro h; subst h; exact hz hnz
        apply ih 0 ws (by omega) hws hnz
        split at hf <;> split <;> omega
    · rw [if_neg hwrap]
      by_cases hz : bits_word bits (i + 1) ≠ 0
      · rw [if_pos hz]; exact ⟨i + 1, rfl, by omega, hz⟩
      · rw [if_neg hz]
        have hws0 : ws ≠ i + 1 := by intro h; subst h; exact hz hnz
        apply ih (i + 1) ws (by omega) hws hnz
        split at hf <;> split <;> omega

theorem chunk_bit_xor (bits : List Nat) (lp kk k2 : Nat) (hlp : lp < bits.length)
    (hkk : kk < 16) :
    chunk_bit (bits.set lp ((bits_word bits lp ^^^ (1 <<< kk)) % 2 ^ 16)) k2 =
      if k2 = kk + lp * 16 then !chunk_bit bits k2 else chunk_bit bits k2 := by
  unfold chunk_bit
  rw [MALLOC_BITS_eq, bits_word_set]
  have ht : k2 % 16 < 16 := Nat.mod_lt _ (by norm_num)
  by_cases hw : k2 / 16 = lp
  · rw [if_pos ⟨hw, hlp⟩, testBit_xor_bit _ _ _ ht, hw]
    by_cases hk : k2 % 16 = kk
    · rw [if_pos hk, if_pos (by omega)]
    · rw [if_neg hk, if_neg (by omega)]
  · rw [if_neg (fun h => hw h.1), if_neg (by omega)]

theorem chunk_bit_or (bits : List Nat) (k k2 : Nat) (hlp : k / 16 < bits.length) :
    chunk_bit (bits.set (k / 16) ((bits_word bits (k / 16) ||| (1 <<< (k % 16))) % 2 ^ 16)) k2 =
      if k2 = k then true else chunk_bit bits k2 := by
  unfold chunk_bit
  rw [MALLOC_BITS_eq, bits_word_set]
  have ht : k2 % 16 < 16 := Nat.mod_lt _ (by norm_num)
  by_cases hw : k2 / 16 = k / 16
  · rw [if_pos ⟨hw, hlp⟩, testBit_or_bit _ _ _ ht, hw]
    by_cases hk : k2 % 16 = k % 16
    · rw [if_pos hk, if_pos (by omega)]
    · rw [if_neg hk, if_neg (by omega)]
  · rw [if_neg (fun h => hw h.1), if_neg (fun h => hw (by rw [h]))]

theorem chunk_bit_set_far (bits : List Nat) (w v k2 : Nat) (h : k2 / 16 ≠ w) :
    chunk_bit (bits.set w v) k2 = chunk_bit bits k2 := by
  unfold chunk_bit
  rw [MALLOC_BITS_eq, bits_word_set, if_neg (fun hh => h hh.1)]

theorem word_ne_zero_of_testBit (x t : Nat) (h : x.testBit t = true) : x ≠ 0 := by
  intro h0; subst h0; simp at h

theorem howmany16 (t : Nat) : howmany t MALLOC_BITS = (t + 15) / 16 := by
  unfold howmany; rw [MALLOC_BITS_eq]

/-- The search of `malloc_bytes` returns a set bit of a bitmap word when the page
has a free chunk. -/
theorem malloc_bytes_search_spec (ps : Nat) (bp : chunk_info) (r : Nat)
    (hwf : chunk_wf ps bp) (htot : bp.total < 2 ^ 16) (hfree : 0 < bp.free) :
    ∃ lp kk, malloc_bytes_search bp r = some (lp, kk) ∧
      lp < howmany bp.total MALLOC_BITS ∧ kk < 16 ∧
      (bits_word bp.bits lp).testBit kk = true := by
  obtain ⟨⟨hcnt, hhigh⟩, hb, ht, hoff, hlen, hword⟩ := hwf
  rw [howmany16] at hlen hword ⊢
  -- some bit is set
  rw [hcnt] at hfree
  obtain ⟨k0, hk0, hbit0⟩ := List.countP_pos_iff.1 hfree
  rw [List.mem_range] at hk0
  have hbit0' : (bits_word bp.bits (k0 / 16)).testBit (k0 % 16) = true := by
    have := hbit0; unfold chunk_bit at this; rw [MALLOC_BITS_eq] at this; exact this
  have htp : 0 < bp.total := by omega
  have hi : (r / MALLOC_CHUNK_LISTS) % bp.total < bp.total := Nat.mod_lt _ htp
  unfold malloc_bytes_search
  simp only [MALLOC_BITS_eq, howmany16]
  generalize (r / MALLOC_CHUNK_LISTS) % bp.total = i at hi
  have hwi : i / 16 < (bp.total + 15) / 16 := by omega
  by_cases hfirst : bits_word bp.bits (i / 16) ≠ 0 ∧
      ffs (bits_word bp.bits (i / 16) >>> (i % 16)) ≠ 0
  · rw [if_pos hfirst]
    have hw16 := hword (i / 16) hwi
    have hsh_lt : bits_word bp.bits (i / 16) >>> (i % 16) < 2 ^ 32 := by
      rw [Nat.shiftRight_eq_div_pow]
      exact lt_of_le_of_lt (Nat.div_le_self _ _) (by omega)
    have hsh_ne : bits_word bp.bits (i / 16) >>> (i % 16) ≠ 0 := by
      intro h0; rw [h0, ffs_zero] at hfirst; exact hfirst.2 rfl
    obtain ⟨f1, f2⟩ := ffs_spec _ hsh_ne hsh_lt
    rw [Nat.testBit_shiftRight] at f2
    have hkk : ffs (bits_word bp.bits (i / 16) >>> (i % 16)) + i % 16 - 1 =
        i % 16 + (ffs (bits_word bp.bits (i / 16) >>> (i % 16)) - 1) := by omega
    refine ⟨i / 16, _, rfl, hwi, ?_, ?_⟩
    · rw [hkk]; exact testBit_lt_of_lt_two_pow _ 16 _ hw16 f2
    · rw [hkk]; exact f2
  · rw [if_neg hfirst]
    have hws : k0 / 16 < (bp.total + 15) / 16 := by omega
    obtain ⟨w, s1, s2, s3⟩ := malloc_bytes_scan_spec bp.bits ((bp.total + 15) / 16)
      (by omega) ((bp.total + 15) / 16 + 1) (i / 16) (k0 / 16) hwi hws
      (word_ne_zero_of_testBit _ _ hbit0') (by split <;> omega)
    have e16 : howmany bp.total 16 = (bp.total + 15) / 16 := rfl
    rw [e16, s1]
    have hw16 := hword w s2
    obtain ⟨f1, f2⟩ := ffs_spec _ s3 (by omega)
    exact ⟨w, _, rfl, s2, testBit_lt_of_lt_two_pow _ 16 _ hw16 f2, f2⟩

theorem and_bit_eq_zero (x t : Nat) : x &&& (1 <<< t) = 0 ↔ x.testBit t = false := by
  rw [Nat.one_shiftLeft]
  constructor
  · intro h
    by_contra hc
    have hb : x.testBit t = true := by simpa using hc
    have : (x &&& 2 ^ t).testBit t = true := by
      rw [Nat.testBit_and, hb, Nat.testBit_two_pow_self]; rfl
    rw [h] at this; simp at this
  · intro h
    apply Nat.eq_of_testBit_eq
    intro i
    rw [Nat.testBit_and, Nat.testBit_two_pow, Nat.zero_testBit]
    by_cases hi : t = i
    · subst hi; simp [h]
    · simp [hi]

theorem total_bounds (ps b : Nat) (hps : 5 ≤ ps) (hps16 : ps ≤ 16) (hb : b ≤ BUCKETS ps) :
    2 ≤ MALLOC_PAGESIZE ps / B2ALLOC b ∧ MALLOC_PAGESIZE ps / B2ALLOC b ≤ 4096 ∧
      0 < B2ALLOC b ∧ B2ALLOC b % 16 = 0 := by
  rw [MALLOC_PAGESIZE_eq]
  unfold BUCKETS at hb
  rw [MALLOC_MAXCHUNK_eq, MALLOC_MINSIZE_eq] at hb
  have h1 : 2 ^ ps = 2 ^ (ps - 1) * 2 := by rw [← pow_succ]; congr 1; omega
  have h2 : 2 ^ (ps - 1) = 16 * 2 ^ (ps - 1 - 4) := by
    rw [two_pow_dvd_form 4 (ps - 1) (by omega)]; norm_num
  have h3 : 2 ^ ps ≤ 2 ^ 16 := Nat.pow_le_pow_right (by norm_num) hps16
  have h4 : 0 < 2 ^ (ps - 1 - 4) := Nat.pow_pos (by norm_num)
  have hB : B2ALLOC b = if b = 0 then 16 else b * 16 := by
    unfold B2ALLOC; rw [MALLOC_MINSIZE_eq]
  have hBpos : 0 < B2ALLOC b := by rw [hB]; split <;> omega
  have hB16 : 16 ≤ B2ALLOC b := by rw [hB]; split <;> omega
  have hBle : B2ALLOC b * 2 ≤ 2 ^ ps := by
    rw [hB]; split
    · omega
    · have := Nat.div_mul_le_self (2 ^ (ps - 1)) 16
      have : b * 16 ≤ 2 ^ (ps - 1) / 16 * 16 := Nat.mul_le_mul_right 16 hb
      omega
  refine ⟨?_, ?_, hBpos, ?_⟩
  · rw [Nat.le_div_iff_mul_le hBpos]; omega
  · calc 2 ^ ps / B2ALLOC b ≤ 2 ^ ps / 16 := Nat.div_le_div_left hB16 (by norm_num)
      _ ≤ 2 ^ 16 / 16 := Nat.div_le_div_right h3
      _ = 4096 := by norm_num
  · rw [hB]
    by_cases hb0 : b = 0
    · rw [if_pos hb0]
    · rw [if_neg hb0]; omega

theorem countP_range_le (f : Nat → Bool) (n : Nat) : (List.range n).countP f ≤ n := by
  have := List.countP_le_length f (l := List.range n)
  simpa using this

/-- The allocation step on a well-formed chunk page. -/
theorem malloc_bytes_take_spec (ps : Nat) (mopts : malloc_readonly) (bp : chunk_info)
    (r size : Nat) (hps : 5 ≤ ps) (hps16 : ps ≤ 16) (hwf : chunk_wf ps bp)
    (hfree : 0 < bp.free) :
    ∃ ci k, malloc_bytes_take mopts bp r size = some (ci, k) ∧ k < bp.total ∧
      chunk_bit bp.bits k = true ∧ chunk_bit ci.bits k = false ∧
      (∀ k2 < bp.total, k2 ≠ k → chunk_bit ci.bits k2 = chunk_bit bp.bits k2) ∧
      ci.free + 1 = bp.free ∧ ci.total = bp.total ∧ ci.bucket = bp.bucket ∧
      ci.page = bp.page ∧ chunk_wf ps ci := by
  have hwf0 := hwf
  obtain ⟨⟨hcnt, hhigh⟩, hb, ht, hoff, hlen, hword⟩ := hwf
  obtain ⟨tb1, tb2, _, _⟩ := total_bounds ps bp.bucket hps hps16 hb
  rw [← ht] at tb1 tb2
  obtain ⟨lp, kk, s1, s2, s3, s4⟩ := malloc_bytes_search_spec ps bp r hwf0 (by omega) hfree
  rw [howmany16] at hoff hlen hword s2
  have e16 : howmany bp.total 16 = (bp.total + 15) / 16 := rfl
  rw [MALLOC_BITS_eq, e16] at hhigh
  have hK : chunk_bit bp.bits (kk + lp * 16) = true := by
    unfold chunk_bit; rw [MALLOC_BITS_eq]
    have e1 : (kk + lp * 16) / 16 = lp := by omega
    have e2 : (kk + lp * 16) % 16 = kk := by omega
    rw [e1, e2]; exact s4
  have hKt : kk + lp * 16 < bp.total := by
    by_contra hc
    have := hhigh (kk + lp * 16) (by omega) (by omega)
    rw [hK] at this; exact Bool.noConfusion this
  have hlpl : lp < bp.bits.length := by omega
  -- the bits after the two stores
  have hbits : ∀ k2, k2 < 16 * ((bp.total + 15) / 16) →
      chunk_bit (if mopts.chunk_canaries ≠ 0 ∧ size > 0 then
          (bp.bits.set lp ((bits_word bp.bits lp ^^^ (1 <<< kk)) % 2 ^ 16)).set
            (bp.offset + (kk + lp * 16)) (size % 2 ^ 16)
        else bp.bits.set lp ((bits_word bp.bits lp ^^^ (1 <<< kk)) % 2 ^ 16)) k2 =
      if k2 = kk + lp * 16 then !chunk_bit bp.bits k2 else chunk_bit bp.bits k2 := by
    intro k2 hk2
    split
    · rw [chunk_bit_set_far _ _ _ _ (by omega), chunk_bit_xor _ _ _ _ hlpl s3]
    · rw [chunk_bit_xor _ _ _ _ hlpl s3]
  have hwords : ∀ w < (bp.total + 15) / 16,
      bits_word (if mopts.chunk_canaries ≠ 0 ∧ size > 0 then
          (bp.bits.set lp ((bits_word bp.bits lp ^^^ (1 <<< kk)) % 2 ^ 16)).set
            (bp.offset + (kk + lp * 16)) (size % 2 ^ 16)
        else bp.bits.set lp ((bits_word bp.bits lp ^^^ (1 <<< kk)) % 2 ^ 16)) w < 2 ^ 16 := by
    intro w hw
    have h1 : bits_word (bp.bits.set lp ((bits_word bp.bits lp ^^^ (1 <<< kk)) % 2 ^ 16)) w
        < 2 ^ 16 := by
      rw [bits_word_set]
      split
      · exact Nat.mod_lt _ (by norm_num)
      · exact hword w hw
    split
    · rw [bits_word_set, if_neg (fun h => by omega)]; exact h1
    · exact h1
  have hlens : (bp.total + 15) / 16 ≤
      (if mopts.chunk_canaries ≠ 0 ∧ size > 0 then
          (bp.bits.set lp ((bits_word bp.bits lp ^^^ (1 <<< kk)) % 2 ^ 16)).set
            (bp.offset + (kk + lp * 16)) (size % 2 ^ 16)
        else bp.bits.set lp ((bits_word bp.bits lp ^^^ (1 <<< kk)) % 2 ^ 16)).length := by
    split <;> simpa using hlen
  generalize hb2 : (if mopts.chunk_canaries ≠ 0 ∧ size > 0 then
          (bp.bits.set lp ((bits_word bp.bits lp ^^^ (1 <<< kk)) % 2 ^ 16)).set
            (bp.offset + (kk + lp * 16)) (size % 2 ^ 16)
        else bp.bits.set lp ((bits_word bp.bits lp ^^^ (1 <<< kk)) % 2 ^ 16)) = bits2
    at hbits hwords hlens
  have hflip := countP_range_flip (fun k => chunk_bit bp.bits k) (fun k => chunk_bit bits2 k)
    bp.total (kk + lp * 16) hKt hK (by
      show chunk_bit bits2 (kk + lp * 16) = false
      rw [hbits _ (by omega), if_pos rfl, hK]; rfl)
    (by
      intro k hk hne
      show chunk_bit bits2 k = chunk_bit bp.bits k
      rw [hbits _ (by omega), if_neg hne])
  have hfl := countP_range_le (fun k => chunk_bit bp.bits k) bp.total
  have hfree2 : (bp.free + 2 ^ 16 - 1) % 2 ^ 16 = bp.free - 1 := by
    have : bp.free + 2 ^ 16 - 1 = (bp.free - 1) + 2 ^ 16 := by omega
    rw [this, Nat.add_mod_right]; exact Nat.mod_eq_of_lt (by omega)
  refine ⟨{ bp with bits := bits2, free := (bp.free + 2 ^ 16 - 1) % 2 ^ 16 }, kk + lp * 16,
    ?_, hKt, hK, ?_, ?_, ?_, rfl, rfl, rfl, ?_⟩
  · unfold malloc_bytes_take
    rw [s1]
    simp only [MALLOC_BITS_eq, hb2]
  · show chunk_bit bits2 (kk + lp * 16) = false
    rw [hbits _ (by omega), if_pos rfl, hK]; rfl
  · intro k2 hk2 hne
    show chunk_bit bits2 k2 = chunk_bit bp.bits k2
    rw [hbits _ (by omega), if_neg hne]
  · show (bp.free + 2 ^ 16 - 1) % 2 ^ 16 + 1 = bp.free
    rw [hfree2]; omega
  · refine ⟨⟨?_, ?_⟩, hb, ht, ?_, ?_, ?_⟩
    · show (bp.free + 2 ^ 16 - 1) % 2 ^ 16 = (List.range bp.total).countP
        (fun k => chunk_bit bits2 k)
      rw [hfree2]; omega
    · intro k hk1 hk2
      show chunk_bit bits2 k = false
      rw [MALLOC_BITS_eq, e16] at hk2
      have hk1' : bp.total ≤ k := hk1
      rw [hbits _ hk2, if_neg (by omega)]
      exact hhigh k hk1' hk2
    · show howmany bp.total MALLOC_BITS ≤ bp.offset
      rw [howmany16]; exact hoff
    · show howmany bp.total MALLOC_BITS ≤ bits2.length
      rw [howmany16]; exact hlens
    · intro w hw
      show bits_word bits2 w < 2 ^ 16
      exact hwords w (by rw [howmany16] at hw; exact hw)

theorem countP_range_flip_up (f g : Nat → Bool) (n k0 : Nat) (hk : k0 < n)
    (hf : f k0 = false) (hg : g k0 = true) (hsame : ∀ k < n, k ≠ k0 → g k = f k) :
    (List.range n).countP g = (List.range n).countP f + 1 :=
  (countP_range_flip g f n k0 hk hg hf (fun k hk' hne => (hsame k hk' hne).symm)).symm

/-- The release step on a well-formed chunk page, for a chunk that is in use. -/
theorem free_bytes_mark_spec (ps : Nat) (info : chunk_info) (k : Nat)
    (hps : 5 ≤ ps) (hps16 : ps ≤ 16) (hwf : chunk_wf ps info) (hk : k < info.total)
    (hbit : chunk_bit info.bits k = false) :
    chunk_bit (free_bytes_mark info k).bits k = true ∧
      (∀ k2 < info.total, k2 ≠ k →
        chunk_bit (free_bytes_mark info k).bits k2 = chunk_bit info.bits k2) ∧
      (free_bytes_mark info k).free = info.free + 1 ∧
      (free_bytes_mark info k).total = info.total ∧
      chunk_wf ps (free_bytes_mark info k) := by
  obtain ⟨⟨hcnt, hhigh⟩, hb, ht, hoff, hlen, hword⟩ := hwf
  obtain ⟨tb1, tb2, _, _⟩ := total_bounds ps info.bucket hps hps16 hb
  rw [← ht] at tb1 tb2
  have e16 : howmany info.total 16 = (info.total + 15) / 16 := rfl
  rw [howmany16] at hoff hlen hword
  rw [MALLOC_BITS_eq, e16] at hhigh
  have hkl : k / 16 < info.bits.length := by omega
  have hbits : ∀ k2, chunk_bit (free_bytes_mark info k).bits k2 =
      if k2 = k then true else chunk_bit info.bits k2 := by
    intro k2
    unfold free_bytes_mark
    simp only [MALLOC_BITS_eq]
    exact chunk_bit_or info.bits k k2 hkl
  have hflip := countP_range_flip_up (fun k2 => chunk_bit info.bits k2)
    (fun k2 => chunk_bit (free_bytes_mark info k).bits k2) info.total k hk hbit
    (by show chunk_bit (free_bytes_mark info k).bits k = true; rw [hbits, if_pos rfl])
    (by
      intro k2 _ hne
      show chunk_bit (free_bytes_mark info k).bits k2 = chunk_bit info.bits k2
      rw [hbits, if_neg hne])
  have hle := countP_range_le (fun k2 => chunk_bit (free_bytes_mark info k).bits k2)
    info.total
  have hfree : (free_bytes_mark info k).free = info.free + 1 := by
    show (info.free + 1) % 2 ^ 16 = info.free + 1
    exact Nat.mod_eq_of_lt (by omega)
  refine ⟨by rw [hbits, if_pos rfl], fun k2 _ hne => by rw [hbits, if_neg hne], hfree, rfl,
    ⟨?_, ?_⟩, hb, ht, ?_, ?_, ?_⟩
  · show (free_bytes_mark info k).free = (List.range info.total).countP
      (fun k2 => chunk_bit (free_bytes_mark info k).bits k2)
    rw [hfree, hflip, hcnt]
  · intro k2 hk1 hk2
    have hk1' : info.total ≤ k2 := hk1
    have hk2' : k2 < 16 * ((info.total + 15) / 16) := hk2
    rw [hbits, if_neg (by omega)]
    exact hhigh k2 hk1' hk2'
  · show howmany info.total MALLOC_BITS ≤ info.offset
    rw [howmany16]; exact hoff
  · show howmany info.total MALLOC_BITS ≤ (free_bytes_mark info k).bits.length
    rw [howmany16]
    unfold free_bytes_mark
    simpa using hlen
  · intro w hw
    have hw' : w < (info.total + 15) / 16 := by
      have : w < howmany info.total MALLOC_BITS := hw
      rw [howmany16] at this; exact this
    show bits_word (free_bytes_mark info k).bits w < 2 ^ 16
    unfold free_bytes_mark
    simp only [bits_word_set]
    split
    · exact Nat.mod_lt _ (by norm_num)
    · exact hword w hw'

/-- `find_chunknum` on the pointer of chunk `k` of a well-formed chunk page. -/
theorem find_chunknum_spec (ps canary1 : Nat) (info : chunk_info) (k : Nat)
    (hps : 5 ≤ ps) (hps16 : ps ≤ 16) (hwf : chunk_wf ps info) (hk : k < info.total)
    (hcan : info.canary = canary1 % 2 ^ 16) (hpage : info.page % 2 ^ ps = 0) :
    find_chunknum ps canary1 info (info.page + k * B2ALLOC info.bucket) =
      if chunk_bit info.bits k then .abort .double_free else .ok k := by
  obtain ⟨_, hb, ht, _⟩ := hwf
  obtain ⟨tb1, tb2, tb3, tb4⟩ := total_bounds ps info.bucket hps hps16 hb
  rw [← ht] at tb1 tb2
  rw [MALLOC_PAGESIZE_eq] at ht
  have hpos : 0 < 2 ^ ps := Nat.pow_pos (by norm_num)
  have hkb : k * B2ALLOC info.bucket < 2 ^ ps := by
    have h1 : (k + 1) * B2ALLOC info.bucket ≤ info.total * B2ALLOC info.bucket :=
      Nat.mul_le_mul_right _ (by omega)
    have h2 : info.total * B2ALLOC info.bucket ≤ 2 ^ ps := by
      rw [ht]; exact Nat.div_mul_le_self _ _
    rw [Nat.add_mul] at h1
    omega
  have hlow : (info.page + k * B2ALLOC info.bucket) &&& MALLOC_PAGEMASK ps =
      k * B2ALLOC info.bucket := by
    rw [MALLOC_PAGEMASK_eq, Nat.and_pow_two_sub_one_eq_mod, Nat.add_mod, hpage, Nat.zero_add,
      Nat.mod_mod, Nat.mod_eq_of_lt hkb]
  have hnum : ((info.page + k * B2ALLOC info.bucket) &&& MALLOC_PAGEMASK ps) /
      B2ALLOC info.bucket % 2 ^ 32 = k := by
    rw [hlow, Nat.mul_div_cancel _ tb3]
    exact Nat.mod_eq_of_lt (by omega)
  have h16 : (info.page + k * B2ALLOC info.bucket) &&& (MALLOC_MINSIZE - 1) = 0 := by
    have e : MALLOC_MINSIZE - 1 = 2 ^ 4 - 1 := by decide
    rw [e, Nat.and_pow_two_sub_one_eq_mod]
    have hp16 : info.page % 16 = 0 := by
      have h2 : 2 ^ ps = 16 * 2 ^ (ps - 4) := by
        rw [two_pow_dvd_form 4 ps (by omega)]; norm_num
      have := Nat.div_add_mod info.page (2 ^ ps)
      rw [hpage, h2] at this
      have e2 : 16 * 2 ^ (ps - 4) * (info.page / (16 * 2 ^ (ps - 4))) =
          16 * (2 ^ (ps - 4) * (info.page / (16 * 2 ^ (ps - 4)))) := by ring
      omega
    have hk16 : (k * B2ALLOC info.bucket) % 16 = 0 := by
      rw [Nat.mul_mod, tb4]; simp
    norm_num
    omega
  unfold find_chunknum
  rw [if_neg (by rw [hcan]; exact fun h => h rfl)]
  simp only [hnum, h16, ne_eq, not_true_eq_false, if_false, MALLOC_BITS_eq]
  by_cases hbit : chunk_bit info.bits k = true
  · rw [if_pos hbit, if_pos]
    intro h0
    rw [and_bit_eq_zero] at h0
    unfold chunk_bit at hbit
    rw [MALLOC_BITS_eq, h0] at hbit
    exact Bool.noConfusion hbit
  · have hbf : chunk_bit info.bits k = false := by simpa using hbit
    rw [hbf]
    simp only [Bool.false_eq_true, if_false]
    rw [if_neg]
    rw [not_not, and_bit_eq_zero]
    unfold chunk_bit at hbf
    rw [MALLOC_BITS_eq] at hbf
    exact hbf

theorem bits_word_replicate_append (n a : Nat) (l : List Nat) (w : Nat) (hw : w < n) :
    bits_word (List.replicate n a ++ l) w = a := by
  unfold bits_word
  rw [List.getD_eq_getElem?_getD, List.getElem?_append_left (by simpa using hw),
    List.getElem?_replicate, if_pos hw]
  rfl

/-- `init_chunk_info` marks exactly the first `total` chunks free. -/
theorem init_chunk_info_spec (ps canary1 : Nat) (p : chunk_info) (bucket : Nat)
    (hps : 5 ≤ ps) (hps16 : ps ≤ 16) (hb : bucket ≤ BUCKETS ps)
    (hlen : howmany (MALLOC_PAGESIZE ps / B2ALLOC bucket) MALLOC_BITS ≤ p.bits.length) :
    chunk_wf ps (init_chunk_info ps canary1 p bucket) ∧
      (init_chunk_info ps canary1 p bucket).total = MALLOC_PAGESIZE ps / B2ALLOC bucket ∧
      (init_chunk_info ps canary1 p bucket).free = MALLOC_PAGESIZE ps / B2ALLOC bucket ∧
      (init_chunk_info ps canary1 p bucket).bucket = bucket ∧
      ∀ k < MALLOC_PAGESIZE ps / B2ALLOC bucket,
        chunk_bit (init_chunk_info ps canary1 p bucket).bits k = true := by
  obtain ⟨tb1, tb2, _, _⟩ := total_bounds ps bucket hps hps16 hb
  rw [howmany16] at hlen
  have hbk : bucket % 2 ^ 16 = bucket := by
    apply Nat.mod_eq_of_lt
    unfold BUCKETS at hb
    rw [MALLOC_MAXCHUNK_eq, MALLOC_MINSIZE_eq] at hb
    have h1 : 2 ^ (ps - 1) ≤ 2 ^ 15 := Nat.pow_le_pow_right (by norm_num) (by omega)
    have := Nat.div_le_self (2 ^ (ps - 1)) 16
    omega
  generalize hT : MALLOC_PAGESIZE ps / B2ALLOC bucket = T at *
  have hTm : T % 2 ^ 16 = T := Nat.mod_eq_of_lt (by omega)
  have hi : (T + 2 ^ 32 - 1) % 2 ^ 32 = T - 1 := by
    have : T + 2 ^ 32 - 1 = (T - 1) + 2 ^ 32 := by omega
    rw [this, Nat.add_mod_right]; exact Nat.mod_eq_of_lt (by omega)
  have hm16 : (T - 1) % 16 < 16 := Nat.mod_lt _ (by norm_num)
  have hpw : 2 ^ ((T - 1) % 16 + 1) ≤ 2 ^ 16 := Nat.pow_le_pow_right (by norm_num) (by omega)
  have hpp : 0 < 2 ^ ((T - 1) % 16 + 1) := Nat.pow_pos (by norm_num)
  have hv : ((2 <<< ((T - 1) % 16)) % 2 ^ 32 + 2 ^ 32 - 1) % 2 ^ 32 % 2 ^ 16 =
      2 ^ ((T - 1) % 16 + 1) - 1 := by
    have e : 2 <<< ((T - 1) % 16) = 2 ^ ((T - 1) % 16 + 1) := by
      rw [Nat.shiftLeft_eq, pow_succ, Nat.mul_comm]
    rw [e, Nat.mod_eq_of_lt (by omega : 2 ^ ((T - 1) % 16 + 1) < 2 ^ 32)]
    have : 2 ^ ((T - 1) % 16 + 1) + 2 ^ 32 - 1 = (2 ^ ((T - 1) % 16 + 1) - 1) + 2 ^ 32 := by
      omega
    rw [this, Nat.add_mod_right, Nat.mod_eq_of_lt (by omega), Nat.mod_eq_of_lt (by omega)]
  -- the bitmap words after initialisation
  have hbitsdef : (init_chunk_info ps canary1 p bucket).bits =
      (List.replicate ((T - 1) / 16) 0xffff ++ p.bits.drop ((T - 1) / 16)).set ((T - 1) / 16)
        (2 ^ ((T - 1) % 16 + 1) - 1) := by
    unfold init_chunk_info
    simp only [MALLOC_BITS_eq, hT, hTm, hi, hv]
  have hlen1 : (List.replicate ((T - 1) / 16) 0xffff ++ p.bits.drop ((T - 1) / 16)).length =
      p.bits.length := by
    rw [List.length_append, List.length_replicate, List.length_drop]; omega
  have hword : ∀ w, bits_word (init_chunk_info ps canary1 p bucket).bits w =
      if w = (T - 1) / 16 then 2 ^ ((T - 1) % 16 + 1) - 1
      else if w < (T - 1) / 16 then 0xffff
      else bits_word (init_chunk_info ps canary1 p bucket).bits w := by
    intro w
    by_cases h1 : w = (T - 1) / 16
    · rw [if_pos h1, hbitsdef, bits_word_set, if_pos ⟨h1, by rw [hlen1]; omega⟩]
    · rw [if_neg h1]
      by_cases h2 : w < (T - 1) / 16
      · rw [if_pos h2, hbitsdef, bits_word_set, if_neg (fun h => h1 h.1),
          bits_word_replicate_append _ _ _ _ h2]
      · rw [if_neg h2]
  have hbit : ∀ k, k < 16 * ((T + 15) / 16) →
      chunk_bit (init_chunk_info ps canary1 p bucket).bits k = decide (k < T) := by
    intro k hk
    unfold chunk_bit
    rw [MALLOC_BITS_eq, hword]
    by_cases h1 : k / 16 = (T - 1) / 16
    · rw [if_pos h1, Nat.testBit_two_pow_sub_one]
      rw [decide_eq_decide]
      constructor <;> intro h <;> omega
    · rw [if_neg h1, if_pos (by omega)]
      have e : (65535 : Nat) = 2 ^ 16 - 1 := by norm_num
      rw [e, Nat.testBit_two_pow_sub_one]
      have h3 : k % 16 < 16 := Nat.mod_lt _ (by norm_num)
      have h4 : k < T := by omega
      simp [h3, h4]
  have htot : (init_chunk_info ps canary1 p bucket).total = T := by
    unfold init_chunk_info; simp only [hT, hTm]
  have hfree : (init_chunk_info ps canary1 p bucket).free = T := by
    unfold init_chunk_info; simp only [hT, hTm]
  have hbuck : (init_chunk_info ps canary1 p bucket).bucket = bucket := by
    unfold init_chunk_info; simp only [hbk]
  have hoff : (T + 15) / 16 ≤ (init_chunk_info ps canary1 p bucket).offset := by
    have e16 : howmany T 16 = (T + 15) / 16 := rfl
    unfold init_chunk_info
    simp only [MALLOC_BITS_eq, hT, hTm, e16]
    split
    · omega
    · rw [Nat.mod_eq_of_lt (by omega)]
  have hall : ∀ k < T, chunk_bit (init_chunk_info ps canary1 p bucket).bits k = true := by
    intro k hk
    rw [hbit k (by omega)]; simp [hk]
  refine ⟨⟨⟨?_, ?_⟩, by rw [hbuck]; exact hb, by rw [htot, hbuck, hT], ?_, ?_, ?_⟩, htot, hfree,
    hbuck, hall⟩
  · rw [hfree, htot]
    have : (List.range T).countP
        (fun k => chunk_bit (init_chunk_info ps canary1 p bucket).bits k) =
        (List.range T).length := by
      rw [List.countP_eq_length]
      intro k hk
      rw [List.mem_range] at hk
      exact hall k hk
    rw [this, List.length_range]
  · intro k hk1 hk2
    rw [htot] at hk1 hk2
    have e16 : howmany T 16 = (T + 15) / 16 := rfl
    rw [MALLOC_BITS_eq, e16] at hk2
    rw [hbit k hk2]; simp; omega
  · rw [htot, howmany16]; exact hoff
  · rw [htot, howmany16, hbitsdef, List.length_set, hlen1]; exact hlen
  · intro w hw
    rw [htot, howmany16] at hw
    rw [hword]
    split
    · omega
    · rw [if_pos (by omega)]; norm_num

/-- C6: the bitmap of a chunk page agrees with its counters (`free` is the number of
set bits among the first `total`, no bit from `total` on is set).  This holds after
`init_chunk_info` for every bucket `0 .. BUCKETS`, with
`total = MALLOC_PAGESIZE / B2ALLOC(bucket)`; every allocation step of `malloc_bytes` on a
page with a free chunk returns, clears one set bit of index below `total`, decrements
`free` and keeps the agreement; and `free_bytes` on a chunk in use of that page gets
its chunk number from `find_chunknum`, sets that one clear bit, increments `free` and
keeps the agreement. -/
theorem chunk_bitmap_consistent (ps : Nat) (mopts : malloc_readonly) (hps : 5 ≤ ps)
    (hps16 : ps ≤ 16) :
    (∀ (canary1 : Nat) (p : chunk_info) (bucket : Nat), bucket ≤ BUCKETS ps →
      howmany (MALLOC_PAGESIZE ps / B2ALLOC bucket) MALLOC_BITS ≤ p.bits.length →
      bitmap_ok (init_chunk_info ps canary1 p bucket) ∧
      (init_chunk_info ps canary1 p bucket).total = MALLOC_PAGESIZE ps / B2ALLOC bucket ∧
      chunk_wf ps (init_chunk_info ps canary1 p bucket)) ∧
    (∀ (bp : chunk_info) (r size : Nat), chunk_wf ps bp → 0 < bp.free →
      ∃ ci k, malloc_bytes_take mopts bp r size = some (ci, k) ∧ k < bp.total ∧
        chunk_bit bp.bits k = true ∧ chunk_bit ci.bits k = false ∧
        (∀ k2 < bp.total, k2 ≠ k → chunk_bit ci.bits k2 = chunk_bit bp.bits k2) ∧
        ci.free + 1 = bp.free ∧ ci.total = bp.total ∧ bitmap_ok ci ∧ chunk_wf ps ci) ∧
    (∀ (canary1 : Nat) (info : chunk_info) (k : Nat), chunk_wf ps info → k < info.total →
      chunk_bit info.bits k = false → info.canary = canary1 % 2 ^ 16 →
      info.page % 2 ^ ps = 0 →
      find_chunknum ps canary1 info (info.page + k * B2ALLOC info.bucket) = .ok k ∧
      chunk_bit (free_bytes_mark info k).bits k = true ∧
      (∀ k2 < info.total, k2 ≠ k →
        chunk_bit (free_bytes_mark info k).bits k2 = chunk_bit info.bits k2) ∧
      (free_bytes_mark info k).free = info.free + 1 ∧
      (free_bytes_mark info k).total = info.total ∧
      bitmap_ok (free_bytes_mark info k) ∧ chunk_wf ps (free_bytes_mark info k)) := by
  refine ⟨?_, ?_, ?_⟩
  · intro canary1 p bucket hb hlen
    obtain ⟨h1, h2, _⟩ := init_chunk_info_spec ps canary1 p bucket hps hps16 hb hlen
    exact ⟨h1.1, h2, h1⟩
  · intro bp r size hwf hfree
    obtain ⟨ci, k, h1, h2, h3, h4, h5, h6, h7, _, _, h8⟩ :=
      malloc_bytes_take_spec ps mopts bp r size hps hps16 hwf hfree
    exact ⟨ci, k, h1, h2, h3, h4, h5, h6, h7, h8.1, h8⟩
  · intro canary1 info k hwf hk hbit hcan hpage
    obtain ⟨h1, h2, h3, h4, h5⟩ := free_bytes_mark_spec ps info k hps hps16 hwf hk hbit
    have hf := find_chunknum_spec ps canary1 info k hps hps16 hwf hk hcan hpage
    rw [hbit] at hf
    exact ⟨hf, h1, h2, h3, h4, h5.1, h5⟩

theorem chunk_bitmap_consistent_witness :
    bitmap_ok (init_chunk_info 12 0x1234 (fresh_chunk_info 12 (default_mopts 7) 3) 3) ∧
    (init_chunk_info 12 0x1234 (fresh_chunk_info 12 (default_mopts 7) 3) 3).total = 85 ∧
    ∃ ci k, malloc_bytes_take (default_mopts 7)
        (init_chunk_info 12 0x1234 (fresh_chunk_info 12 (default_mopts 7) 3) 3) 4660 40 =
          some (ci, k) ∧ k < 85 ∧ ci.free + 1 = 85 ∧ bitmap_ok ci :=
  have h := chunk_bitmap_consistent 12 (default_mopts 7) (by decide) (by decide)
  have h1 := h.1 0x1234 (fresh_chunk_info 12 (default_mopts 7) 3) 3 (by decide) (by decide)
  have h2 := h.2.1 (init_chunk_info 12 0x1234 (fresh_chunk_info 12 (default_mopts 7) 3) 3)
    4660 40 h1.2.2 (by decide)
  ⟨h1.1, by decide, by
    obtain ⟨ci, k, e1, e2, _, _, _, e3, _, e4, _⟩ := h2
    exact ⟨ci, k, e1, e2, e3, e4⟩⟩

/-! ## Lemmas on the public functions -/

theorem mul_overflows_iff (nmemb size : Nat) (hn : nmemb < 2 ^ 64) (hs : size < 2 ^ 64) :
    mul_overflows nmemb size = true ↔ SIZE_MAX < nmemb * size := by
  unfold mul_overflows MUL_NO_OVERFLOW SIZE_MAX
  rw [decide_eq_true_iff]
  have h32 : (1 : Nat) <<< (8 * 4) = 2 ^ 32 := by decide
  rw [h32]
  constructor
  · rintro ⟨-, hpos, hdiv⟩
    have := (Nat.div_lt_iff_lt_mul hpos).1 hdiv
    rw [Nat.mul_comm] at this
    exact this
  · intro h
    have hpos : 0 < nmemb := by
      rcases Nat.eq_zero_or_pos nmemb with h0 | h0
      · subst h0; simp at h
      · exact h0
    refine ⟨?_, hpos, ?_⟩
    · by_contra hc
      push_neg at hc
      have : nmemb * size ≤ (2 ^ 32 - 1) * (2 ^ 32 - 1) :=
        Nat.mul_le_mul (by omega) (by omega)
      generalize nmemb * size = x at h this
      omega
    · rw [Nat.div_lt_iff_lt_mul hpos, Nat.mul_comm]
      exact h

theorem errno_eta (s : pool_state) : { s with errno := s.errno } = s := by
  cases s; rfl

theorem calloc_ok_path (ps : Nat) (mopts : malloc_readonly) (nmemb size caller : Nat)
    (s : pool_state) (h : mul_overflows nmemb size = false) :
    calloc ps mopts nmemb size caller s =
      (omalloc ps mopts ((size * nmemb) % 2 ^ 64) 1 (CALLER mopts caller) >>=
        fun r => EPILOGUE mopts s.errno r) s := by
  unfold calloc
  simp only [h, bind, StateT.bind, get, getThe, MonadStateOf.get, StateT.get, pure,
    Outcome.bind, Bool.false_eq_true, if_false]

/-- C11 (counterexample): with option X set, `calloc(2^32, 2^32)`, whose product is
    above `SIZE_MAX`, does not return `NULL`: it aborts with "out of memory". -/
theorem calloc_overflow_xmalloc_counterexample :
    SIZE_MAX < 2 ^ 32 * 2 ^ 32 ∧
    calloc 12 (malloc_readonly.mk 8 0 0 1 0 1 0 1 64 0 0 0 0 7) (2 ^ 32) (2 ^ 32) 0
      (malloc_init_pool 12 (malloc_readonly.mk 8 0 0 1 0 1 0 1 64 0 0 0 0 7) 4096 1 []) =
      .abort .out_of_memory := by
  constructor
  · decide
  · rfl

/-- C11 (amended): for all `size_t` values `nmemb` and `size`, the overflow test of
    `calloc` holds exactly when the product is above `SIZE_MAX`.  On overflow `calloc`
    does not call `omalloc`: it aborts with "out of memory" under option X, and otherwise
    returns `NULL` with `errno = ENOMEM` and the rest of the state untouched.  Without
    overflow it is `omalloc` on exactly `nmemb * size` with `zero_fill` set, followed by
    `EPILOGUE`. -/
theorem calloc_overflow_spec (ps : Nat) (mopts : malloc_readonly) (nmemb size caller : Nat)
    (s : pool_state) (hn : nmemb < 2 ^ 64) (hs : size < 2 ^ 64) :
    (mul_overflows nmemb size = true ↔ SIZE_MAX < nmemb * size) ∧
    (SIZE_MAX < nmemb * size →
      calloc ps mopts nmemb size caller s =
        if mopts.malloc_xmalloc ≠ 0 then .abort .out_of_memory
        else .ok (0, { s with errno := ENOMEM })) ∧
    (nmemb * size ≤ SIZE_MAX →
      calloc ps mopts nmemb size caller s =
        (omalloc ps mopts (nmemb * size) 1 (CALLER mopts caller) >>=
          fun r => EPILOGUE mopts s.errno r) s) := by
  have hiff := mul_overflows_iff nmemb size hn hs
  refine ⟨hiff, ?_, ?_⟩
  · intro h
    have ht := hiff.2 h
    unfold calloc
    by_cases hx : mopts.malloc_xmalloc ≠ 0
    · rw [if_pos hx]
      simp only [ht, hx, bind, StateT.bind, get, getThe, MonadStateOf.get, StateT.get,
        Outcome.bind, if_true, wrterror, ne_eq, not_false_eq_true]
    · rw [if_neg hx]
      simp only [ht, hx, bind, StateT.bind, get, getThe, MonadStateOf.get, StateT.get,
        Outcome.bind, if_true, if_false, modify, modifyGet, MonadStateOf.modifyGet,
        StateT.modifyGet, pure, StateT.pure]
  · intro h
    have hf : mul_overflows nmemb size = false := by
      rcases hb : mul_overflows nmemb size with _ | _
      · rfl
      · have := hiff.1 hb; omega
    rw [calloc_ok_path ps mopts nmemb size caller s hf, Nat.mul_comm size nmemb,
      Nat.mod_eq_of_lt (by unfold SIZE_MAX at h; omega)]

/-- C11 (witness): `calloc(2^32, 2^32)` without option X on a fresh pool. -/
theorem calloc_overflow_spec_witness :
    ((2 : Nat) ^ 32 < 2 ^ 64 ∧ (2 : Nat) ^ 32 < 2 ^ 64) ∧
    calloc 12 (default_mopts 7) (2 ^ 32) (2 ^ 32) 0
      (malloc_init_pool 12 (default_mopts 7) 4096 1 []) =
      .ok (0, { malloc_init_pool 12 (default_mopts 7) 4096 1 [] with errno := ENOMEM }) :=
  ⟨by decide,
    ((calloc_overflow_spec 12 (default_mopts 7) (2 ^ 32) (2 ^ 32) 0
      (malloc_init_pool 12 (default_mopts 7) 4096 1 []) (by decide) (by decide)).2.1
      (by decide)).trans (by decide)⟩

/-- C15: for a non-null pointer `p` and `n`, `m` whose product does not overflow,
    `recallocarray(p, n, n, m)` returns `p` and leaves the whole pool state as it was:
    the directory, every chunk bitmap and the delayed-free ring included.
    (`internal_funcs` is set by `_malloc_init` before any pointer is handed out.) -/
theorem recallocarray_same_size (ps : Nat) (mopts : malloc_readonly) (p n m caller : Nat)
    (s : pool_state) (hint : mopts.internal_funcs ≠ 0) (hp : p ≠ 0)
    (hn : n < 2 ^ 64) (hm : m < 2 ^ 64) (hprod : n * m ≤ SIZE_MAX) :
    recallocarray ps mopts p n n m caller s = .ok (p, s) := by
  have hf : mul_overflows n m = false := by
    rcases hb : mul_overflows n m with _ | _
    · rfl
    · have := (mul_overflows_iff n m hn hm).1 hb; omega
  unfold recallocarray orecallocarray EPILOGUE
  simp only [hint, hp, hf, bind, StateT.bind, get, getThe, MonadStateOf.get, StateT.get,
    Outcome.bind, if_true, if_false, modify, modifyGet, MonadStateOf.modifyGet,
    StateT.modifyGet, pure, StateT.pure, ne_eq, not_false_eq_true, Bool.false_eq_true,
    and_false, false_and]

/-- C15 (witness): `recallocarray(p, 3, 3, 8)` for `p = 0x5000` on a fresh pool. -/
theorem recallocarray_same_size_witness :
    recallocarray 12 (malloc_readonly.mk 8 0 0 1 0 0 0 1 64 0 0 0 0 7) 0x5000 3 3 8 0
      (malloc_init_pool 12 (malloc_readonly.mk 8 0 0 1 0 0 0 1 64 0 0 0 0 7) 4096 1 []) =
      .ok (0x5000, malloc_init_pool 12 (malloc_readonly.mk 8 0 0 1 0 0 0 1 64 0 0 0 0 7)
        4096 1 []) :=
  recallocarray_same_size 12 (malloc_readonly.mk 8 0 0 1 0 0 0 1 64 0 0 0 0 7) 0x5000 3 8 0
    _ (by decide) (by decide) (by decide) (by decide) (by decide)

theorem PAGEROUND_eq (ps x : Nat) (hps : ps ≤ 64) :
    PAGEROUND ps x = ((x + (2 ^ ps - 1)) % 2 ^ 64) / 2 ^ ps * 2 ^ ps := by
  unfold PAGEROUND
  rw [MALLOC_PAGEMASK_eq, and_not64_mask _ _ hps, Nat.mod_mod]

theorem omalloc_overflow_path (ps : Nat) (mopts : malloc_readonly) (sz zero_fill f : Nat)
    (s : pool_state) (hbig : sz > MALLOC_MAXCHUNK ps)
    (h : sz ≥ sub64 (sub64 SIZE_MAX mopts.malloc_guard) (MALLOC_PAGESIZE ps)) :
    omalloc ps mopts sz zero_fill f s = .ok (0, { s with errno := ENOMEM }) := by
  unfold omalloc
  rw [if_pos hbig, if_pos h]
  rfl

/-- C12: for a request above `MALLOC_MAXCHUNK` with
    `sz >= SIZE_MAX - guard - PAGESIZE`, `omalloc` returns `NULL` with `errno = ENOMEM`
    and nothing else of the state changed (no page mapped, directory untouched); for
    every other request above `MALLOC_MAXCHUNK`, `sz + guard` and the sum inside
    `PAGEROUND(sz + guard)` do not wrap, and `PAGEROUND(sz + guard)` is a positive
    multiple of the page size that is at least `sz + guard`.  The guard is 0 or one page,
    the only values the options give it. -/
theorem omalloc_overflow_spec (ps : Nat) (mopts : malloc_readonly) (sz zero_fill f : Nat)
    (s : pool_state) (hps : ps ≤ 62)
    (hg : mopts.malloc_guard = 0 ∨ mopts.malloc_guard = MALLOC_PAGESIZE ps)
    (hsz : sz < 2 ^ 64) :
    (sz ≥ SIZE_MAX - mopts.malloc_guard - MALLOC_PAGESIZE ps →
      omalloc ps mopts sz zero_fill f s = .ok (0, { s with errno := ENOMEM })) ∧
    (sz > MALLOC_MAXCHUNK ps → sz < SIZE_MAX - mopts.malloc_guard - MALLOC_PAGESIZE ps →
      add64 sz mopts.malloc_guard = sz + mopts.malloc_guard ∧
      sz + mopts.malloc_guard + MALLOC_PAGEMASK ps < 2 ^ 64 ∧
      PAGEROUND ps (add64 sz mopts.malloc_guard) =
        (sz + mopts.malloc_guard + MALLOC_PAGEMASK ps) / MALLOC_PAGESIZE ps *
          MALLOC_PAGESIZE ps ∧
      sz + mopts.malloc_guard ≤ PAGEROUND ps (add64 sz mopts.malloc_guard) ∧
      0 < PAGEROUND ps (add64 sz mopts.malloc_guard) ∧
      PAGEROUND ps (add64 sz mopts.malloc_guard) < 2 ^ 64 ∧
      MALLOC_PAGESIZE ps ∣ PAGEROUND ps (add64 sz mopts.malloc_guard)) := by
  have hP : MALLOC_PAGESIZE ps = 2 ^ ps := MALLOC_PAGESIZE_eq ps
  have hM : MALLOC_PAGEMASK ps = 2 ^ ps - 1 := MALLOC_PAGEMASK_eq ps
  have hC : MALLOC_MAXCHUNK ps = 2 ^ (ps - 1) := MALLOC_MAXCHUNK_eq ps
  have hpos : 0 < 2 ^ ps := Nat.pow_pos (by norm_num)
  have hle : 2 ^ ps ≤ 2 ^ 62 := Nat.pow_le_pow_right (by norm_num) hps
  have hle2 : 2 ^ (ps - 1) ≤ 2 ^ 62 := Nat.pow_le_pow_right (by norm_num) (by omega)
  have hgle : mopts.malloc_guard ≤ 2 ^ ps := by
    rcases hg with h | h
    · rw [h]; exact Nat.zero_le _
    · rw [h, hP]
  have hsub : sub64 (sub64 SIZE_MAX mopts.malloc_guard) (MALLOC_PAGESIZE ps) =
      SIZE_MAX - mopts.malloc_guard - MALLOC_PAGESIZE ps := by
    rw [sub64_eq SIZE_MAX _ (by unfold SIZE_MAX; omega) (by unfold SIZE_MAX; omega),
      sub64_eq _ _ (by unfold SIZE_MAX; omega) (by unfold SIZE_MAX; rw [hP]; omega)]
  rw [hP, hM, hC]
  rw [hP] at hsub
  refine ⟨?_, ?_⟩
  · intro h
    apply omalloc_overflow_path
    · rw [hC]; unfold SIZE_MAX at h; omega
    · rw [hP, hsub]; exact h
  · intro hbig h
    unfold SIZE_MAX at h
    have hadd : add64 sz mopts.malloc_guard = sz + mopts.malloc_guard :=
      add64_eq _ _ (by omega)
    have hpr : PAGEROUND ps (add64 sz mopts.malloc_guard) =
        (sz + mopts.malloc_guard + (2 ^ ps - 1)) / 2 ^ ps * 2 ^ ps := by
      rw [PAGEROUND_eq ps _ (by omega), hadd, Nat.mod_eq_of_lt (by omega)]
    have hge := le_roundup (sz + mopts.malloc_guard) (2 ^ ps) hpos
    have hdm := Nat.div_mul_le_self (sz + mopts.malloc_guard + (2 ^ ps - 1)) (2 ^ ps)
    refine ⟨hadd, by omega, hpr, ?_, ?_, ?_, ?_⟩
    · rw [hpr]; exact hge
    · rw [hpr]; omega
    · rw [hpr]; omega
    · rw [hpr]; exact Nat.dvd_mul_left _ _

/-- C12 (witness): `omalloc(SIZE_MAX)` with 4096-byte pages and no guard. -/
theorem omalloc_overflow_spec_witness :
    (12 ≤ 62 ∧ ((default_mopts 7).malloc_guard = 0 ∨
      (default_mopts 7).malloc_guard = MALLOC_PAGESIZE 12) ∧ SIZE_MAX < 2 ^ 64) ∧
    omalloc 12 (default_mopts 7) SIZE_MAX 0 0 (malloc_init_pool 12 (default_mopts 7) 4096 1 []) =
      .ok (0, { malloc_init_pool 12 (default_mopts 7) 4096 1 [] with errno := ENOMEM }) :=
  ⟨by decide,
    (omalloc_overflow_spec 12 (default_mopts 7) SIZE_MAX 0 0
      (malloc_init_pool 12 (default_mopts 7) 4096 1 []) (by decide) (by decide)
      (by decide)).1 (by decide)⟩

theorem memset_spec (mem : Nat → Nat) (p c : Nat) :
    ∀ (n a : Nat), p + n ≤ 2 ^ 64 →
      memset mem p c n a = if p ≤ a ∧ a < p + n then c % 256 else mem a := by
  intro n
  induction n with
  | zero =>
    intro a _
    have : ¬ (p ≤ a ∧ a < p + 0) := by omega
    rw [if_neg this]; rfl
  | succ n ih =>
    intro a h
    show (if a = add64 p n then c % 256 else memset mem p c n a) = _
    rw [add64_eq p n (by omega), ih a (by omega)]
    by_cases h1 : a = p + n
    · rw [if_pos h1, if_pos (by omega)]
    · rw [if_neg h1]
      by_cases h2 : p ≤ a ∧ a < p + n
      · rw [if_pos h2, if_pos (by omega)]
      · rw [if_neg h2, if_neg (by omega)]

theorem validate_canary_scan_spec (mopts : malloc_readonly) (mem : Nat → Nat) :
    ∀ (n p : Nat), p + n ≤ 2 ^ 64 →
      (validate_canary_scan mopts mem n p = true ↔
        ∃ a, p ≤ a ∧ a < p + n ∧ mem a ≠ mopts.chunk_canaries % 256 ∧ mem a ≠ SOME_JUNK) := by
  intro n
  induction n with
  | zero =>
    intro p _
    constructor
    · intro h; exact Bool.noConfusion h
    · rintro ⟨a, h1, h2, -⟩; omega
  | succ n ih =>
    intro p h
    show (if mem p ≠ mopts.chunk_canaries % 256 ∧ mem p ≠ SOME_JUNK then true
      else validate_canary_scan mopts mem n (add64 p 1)) = true ↔ _
    by_cases hc : mem p ≠ mopts.chunk_canaries % 256 ∧ mem p ≠ SOME_JUNK
    · rw [if_pos hc]
      exact ⟨fun _ => ⟨p, le_refl _, by omega, hc.1, hc.2⟩, fun _ => rfl⟩
    · rw [if_neg hc]
      rcases Nat.eq_zero_or_pos n with hn | hn
      · subst hn
        constructor
        · intro h; exact Bool.noConfusion h
        · rintro ⟨a, h1, h2, h3⟩
          have : a = p := by omega
          subst this; exact absurd h3 hc
      rw [add64_eq p 1 (by omega), ih (p + 1) (by omega)]
      constructor
      · rintro ⟨a, h1, h2, h3⟩
        exact ⟨a, by omega, by omega, h3⟩
      · rintro ⟨a, h1, h2, h3⟩
        have : a ≠ p := by
          intro e; subst e; exact hc h3
        exact ⟨a, by omega, by omega, h3⟩

theorem find_bucket_20 (mopts : malloc_readonly) : find_bucket mopts 20 = 2 := by
  unfold find_bucket
  by_cases h : mopts.def_maxcache = 0
  · simp [h]; decide
  · simp [h]; decide

theorem malloc_bytes_take_records (mopts : malloc_readonly) (bp ci : chunk_info)
    (r size k : Nat) (h : malloc_bytes_take mopts bp r size = some (ci, k))
    (hc : mopts.chunk_canaries ≠ 0) (h0 : 0 < size) (h16 : size < 2 ^ 16)
    (hroom : bp.offset + k < bp.bits.length) :
    bits_word ci.bits (bp.offset + k) = size := by
  unfold malloc_bytes_take at h
  split at h
  · exact Option.noConfusion h
  · rename_i lp k0 hs
    simp only [Option.some.injEq, Prod.mk.injEq] at h
    obtain ⟨h1, h2⟩ := h
    subst h2
    rw [← h1]
    simp only [hc, h0, ne_eq, not_false_eq_true, gt_iff_lt, and_self, if_true]
    unfold bits_word
    rw [List.getD_eq_getElem?_getD, List.getElem?_set]
    simp only [if_true]
    rw [if_pos (by rw [List.length_set]; exact hroom)]
    simp only [Option.getD_some]
    exact Nat.mod_eq_of_lt h16

theorem check_sz_eq (s b : Nat) (hs : s ≤ b) (hb : b < 2 ^ 64) :
    (if sub64 b s > CHUNK_CHECK_LENGTH then CHUNK_CHECK_LENGTH else sub64 b s) = min (b - s) 32 := by
  rw [sub64_eq b s hb hs]
  unfold CHUNK_CHECK_LENGTH
  split <;> omega

theorem fill_canary_spec (mopts : malloc_readonly) (mem : Nat → Nat) (ptr s b : Nat)
    (hs : s ≤ b) (hfit : ptr + b < 2 ^ 64) (a : Nat) :
    fill_canary mopts mem ptr s b a =
      if ptr + s ≤ a ∧ a < ptr + s + min (b - s) 32 then mopts.chunk_canaries % 256 else mem a := by
  unfold fill_canary
  rw [check_sz_eq s b hs (by omega), add64_eq ptr s (by omega)]
  exact memset_spec mem (ptr + s) mopts.chunk_canaries _ a (by omega)

theorem validate_canary_mem_abort (mopts : malloc_readonly) (mem : Nat → Nat) (ptr s b : Nat)
    (hs : s ≤ b) (hfit : ptr + b < 2 ^ 64)
    (h : ∃ a, ptr + s ≤ a ∧ a < ptr + s + min (b - s) 32 ∧
          mem a ≠ mopts.chunk_canaries % 256 ∧ mem a ≠ SOME_JUNK) :
    validate_canary_mem mopts mem ptr s b = .abort .canary_corrupted := by
  unfold validate_canary_mem
  show (if validate_canary_scan mopts mem
      (if sub64 b s > CHUNK_CHECK_LENGTH then CHUNK_CHECK_LENGTH else sub64 b s)
      (add64 ptr s) = true then Outcome.abort wrterror_msg.canary_corrupted
    else Outcome.ok ()) = _
  rw [check_sz_eq s b hs (by omega), add64_eq ptr s (by omega)]
  have := validate_canary_scan_spec mopts mem (min (b - s) 32) (ptr + s) (by omega)
  rw [if_pos (this.2 h)]

theorem validate_canary_mem_ok (mopts : malloc_readonly) (mem : Nat → Nat) (ptr s b : Nat)
    (hs : s ≤ b) (hfit : ptr + b < 2 ^ 64)
    (h : ¬ ∃ a, ptr + s ≤ a ∧ a < ptr + s + min (b - s) 32 ∧
          mem a ≠ mopts.chunk_canaries % 256 ∧ mem a ≠ SOME_JUNK) :
    validate_canary_mem mopts mem ptr s b = .ok () := by
  unfold validate_canary_mem
  show (if validate_canary_scan mopts mem
      (if sub64 b s > CHUNK_CHECK_LENGTH then CHUNK_CHECK_LENGTH else sub64 b s)
      (add64 ptr s) = true then Outcome.abort wrterror_msg.canary_corrupted
    else Outcome.ok ()) = _
  rw [check_sz_eq s b hs (by omega), add64_eq ptr s (by omega)]
  have := validate_canary_scan_spec mopts mem (min (b - s) 32) (ptr + s) (by omega)
  rw [if_neg (fun e => h (this.1 e))]

/-! ## Rules for runs on the pool -/

theorem wp_pure_i {α : Type} {a : α} {Q : α → pool_state → Prop} {s : pool_state}
    (h : Q a s) : wp (pure a : Run α) Q s := by
  unfold wp
  intro b s' e
  have e2 : Outcome.ok (a, s) = Outcome.ok (b, s') := e
  injection e2 with e3
  injection e3 with e4 e5
  subst e4; subst e5; exact h

theorem wp_bind_i {α β : Type} {x : Run α} {f : α → Run β} {Q : β → pool_state → Prop}
    {s : pool_state} (h : wp x (fun a s1 => wp (f a) Q s1) s) : wp (x >>= f) Q s := by
  unfold wp at h ⊢
  intro b s2 hb
  have hb2 : (x s).bind (fun p => f p.1 p.2) = .ok (b, s2) := hb
  cases hx : x s with
  | ok p =>
    rw [hx] at hb2
    exact h p.1 p.2 (by rw [hx]) b s2 hb2
  | abort m => rw [hx] at hb2; exact Outcome.noConfusion hb2
  | diverge => rw [hx] at hb2; exact Outcome.noConfusion hb2
  | undefined => rw [hx] at hb2; exact Outcome.noConfusion hb2

theorem wp_get_i {Q : pool_state → pool_state → Prop} {s : pool_state}
    (h : Q s s) : wp (get : Run pool_state) Q s := by
  unfold wp
  intro b s' e
  have e2 : Outcome.ok (s, s) = Outcome.ok (b, s') := e
  injection e2 with e3
  injection e3 with e4 e5
  subst e4; subst e5; exact h

theorem wp_set_i {s1 : pool_state} {Q : PUnit → pool_state → Prop} {s : pool_state}
    (h : Q ⟨⟩ s1) : wp (set s1 : Run PUnit) Q s := by
  unfold wp
  intro b s' e
  have e2 : Outcome.ok (PUnit.unit, s1) = Outcome.ok (b, s') := e
  injection e2 with e3
  injection e3 with e4 e5
  subst e5; exact h

theorem wp_modify_i {g : pool_state → pool_state} {Q : PUnit → pool_state → Prop}
    {s : pool_state} (h : Q ⟨⟩ (g s)) : wp (modify g : Run PUnit) Q s := by
  unfold wp
  intro b s' e
  have e2 : Outcome.ok (PUnit.unit, g s) = Outcome.ok (b, s') := e
  injection e2 with e3
  injection e3 with e4 e5
  subst e5; exact h

theorem wp_wrterror_i {α : Type} {m : wrterror_msg} {Q : α → pool_state → Prop}
    {s : pool_state} : wp (wrterror m : Run α) Q s := by
  unfold wp; exact fun _ _ e => Outcome.noConfusion e

theorem wp_diverges_i {α : Type} {Q : α → pool_state → Prop}
    {s : pool_state} : wp (diverges : Run α) Q s := by
  unfold wp; exact fun _ _ e => Outcome.noConfusion e

theorem wp_undefined_i {α : Type} {Q : α → pool_state → Prop}
    {s : pool_state} : wp (undefined_behaviour : Run α) Q s := by
  unfold wp; exact fun _ _ e => Outcome.noConfusion e

theorem wp_ite_i {α : Type} {c : Prop} [Decidable c] {x y : Run α}
    {Q : α → pool_state → Prop} {s : pool_state}
    (h1 : c → wp x Q s) (h2 : ¬ c → wp y Q s) : wp (if c then x else y) Q s := by
  by_cases h : c
  · rw [if_pos h]; exact h1 h
  · rw [if_neg h]; exact h2 h

theorem wp_mono {α : Type} {m : Run α} {Q Q2 : α → pool_state → Prop} {s : pool_state}
    (h : wp m Q s) (himp : ∀ a s', Q a s' → Q2 a s') : wp m Q2 s := by
  unfold wp at h ⊢; exact fun a s' e => himp a s' (h a s' e)

theorem wp_lift_outcome_i {α : Type} {x : Outcome α} {Q : α → pool_state → Prop}
    {s : pool_state} (h : ∀ a, x = .ok a → Q a s) : wp (lift_outcome x) Q s := by
  unfold wp
  intro a s' e
  have e1 : x.bind (fun a => Outcome.ok (a, s)) = .ok (a, s') := e
  cases hx : x with
  | ok v =>
    rw [hx] at e1
    have e2 : Outcome.ok (v, s) = Outcome.ok (a, s') := e1
    injection e2 with e3
    injection e3 with e4 e5
    subst e4; subst e5; exact h v hx
  | abort m => rw [hx] at e1; exact Outcome.noConfusion e1
  | diverge => rw [hx] at e1; exact Outcome.noConfusion e1
  | undefined => rw [hx] at e1; exact Outcome.noConfusion e1

theorem wp_env_next_i {Q : Nat → pool_state → Prop} {s : pool_state}
    (h : Q (s.env.headD 0) { s with env := s.env.tail }) : wp env_next Q s := by
  unfold wp
  intro a s' e
  have e2 : Outcome.ok (s.env.headD 0, { s with env := s.env.tail }) = Outcome.ok (a, s') := e
  injection e2 with e3
  injection e3 with e4 e5
  subst e4; subst e5; exact h

/-! ## Rules for relations that a run keeps -/

theorem keeps_wp {R : pool_state → pool_state → Prop} {α : Type} {m : Run α}
    (z : pool_state) (hm : keeps R m) {s : pool_state} {Q : α → pool_state → Prop}
    (h : R z s) (hQ : ∀ a s', R z s' → Q a s') : wp m Q s := by
  unfold keeps at hm
  exact hm z s Q h hQ

theorem keeps_intro {R : pool_state → pool_state → Prop} {α : Type} {m : Run α}
    (h : ∀ (z s : pool_state) (Q : α → pool_state → Prop),
      R z s → (∀ a s', R z s' → Q a s') → wp m Q s) : keeps R m := by
  unfold keeps
  exact h

theorem keeps_pure {R : pool_state → pool_state → Prop} {α : Type} {a : α} :
    keeps R (pure a : Run α) :=
  keeps_intro fun _ _ _ h hQ => wp_pure_i (hQ _ _ h)

theorem keeps_bind {R : pool_state → pool_state → Prop} {α β : Type} {x : Run α}
    {f : α → Run β} (hx : keeps R x) (hf : ∀ a, keeps R (f a)) : keeps R (x >>= f) :=
  keeps_intro fun z _ _ h hQ =>
    wp_bind_i (keeps_wp z hx h (fun a _ h1 => keeps_wp z (hf a) h1 hQ))

theorem keeps_get {R : pool_state → pool_state → Prop} :
    keeps R (get : Run pool_state) :=
  keeps_intro fun _ _ _ h hQ => wp_get_i (hQ _ _ h)

theorem keeps_modify {R : pool_state → pool_state → Prop} {g : pool_state → pool_state}
    (hg : ∀ z s, R z s → R z (g s)) : keeps R (modify g : Run PUnit) :=
  keeps_intro fun z s _ h hQ => wp_modify_i (hQ _ _ (hg z s h))

theorem keeps_wrterror {R : pool_state → pool_state → Prop} {α : Type} {m : wrterror_msg} :
    keeps R (wrterror m : Run α) :=
  keeps_intro fun _ _ _ _ _ => wp_wrterror_i

theorem keeps_diverges {R : pool_state → pool_state → Prop} {α : Type} :
    keeps R (diverges : Run α) :=
  keeps_intro fun _ _ _ _ _ => wp_diverges_i

theorem keeps_undefined {R : pool_state → pool_state → Prop} {α : Type} :
    keeps R (undefined_behaviour : Run α) :=
  keeps_intro fun _ _ _ _ _ => wp_undefined_i

theorem keeps_lift_outcome {R : pool_state → pool_state → Prop} {α : Type} {x : Outcome α} :
    keeps R (lift_outcome x) :=
  keeps_intro fun _ _ _ h hQ => wp_lift_outcome_i (fun a _ => hQ a _ h)

theorem keeps_ite {R : pool_state → pool_state → Prop} {α : Type} {c : Prop} [Decidable c]
    {x y : Run α} (hx : keeps R x) (hy : keeps R y) : keeps R (if c then x else y) := by
  by_cases h : c
  · rw [if_pos h]; exact hx
  · rw [if_neg h]; exact hy

theorem keeps_letFun {R : pool_state → pool_state → Prop} {α β γ : Type}
    {v : α → Run β} {body : (α → Run β) → Run γ}
    (hv : ∀ y, keeps R (v y)) (hb : ∀ jp : α → Run β, (∀ y, keeps R (jp y)) → keeps R (body jp)) :
    keeps R (letFun v body) :=
  hb v hv

/-! ## The pool canaries are written once -/

set_option linter.unusedTactic false
set_option linter.unreachableTactic false


theorem getrbyte_canary :
    keeps canary_frame getrbyte := by
  unfold getrbyte
  apply keeps_intro
  intro z s Q h hQ
  repeat' first
    | with_reducible apply wp_ite_i
    | with_reducible apply wp_bind_i
    | with_reducible apply wp_env_next_i
    | with_reducible apply wp_pure_i
    | with_reducible apply wp_get_i
    | with_reducible apply wp_set_i
    | with_reducible apply wp_modify_i
    | with_reducible exact wp_wrterror_i
    | with_reducible exact wp_diverges_i
    | with_reducible exact wp_undefined_i
    | with_reducible apply wp_lift_outcome_i
    | with_reducible assumption
    | with_reducible apply hQ
    | intro _
    | split
    | dsimp only

theorem os_mmap_canary {ps sz : Nat} :
    keeps canary_frame (os_mmap ps sz) := by
  unfold os_mmap
  apply keeps_intro
  intro z s Q h hQ
  repeat' first
    | with_reducible apply wp_ite_i
    | with_reducible apply wp_bind_i
    | with_reducible apply wp_env_next_i
    | with_reducible apply wp_pure_i
    | with_reducible apply wp_get_i
    | with_reducible apply wp_set_i
    | with_reducible apply wp_modify_i
    | with_reducible exact wp_wrterror_i
    | with_reducible exact wp_diverges_i
    | with_reducible exact wp_undefined_i
    | with_reducible apply wp_lift_outcome_i
    | with_reducible assumption
    | with_reducible apply hQ
    | intro _
    | split
    | dsimp only

theorem os_mmap_fixed_canary {ps a sz : Nat} :
    keeps canary_frame (os_mmap_fixed ps a sz) := by
  unfold os_mmap_fixed
  apply keeps_intro
  intro z s Q h hQ
  repeat' first
    | with_reducible apply wp_ite_i
    | with_reducible apply wp_bind_i
    | with_reducible apply wp_env_next_i
    | with_reducible apply wp_pure_i
    | with_reducible apply wp_get_i
    | with_reducible apply wp_set_i
    | with_reducible apply wp_modify_i
    | with_reducible exact wp_wrterror_i
    | with_reducible exact wp_diverges_i
    | with_reducible exact wp_undefined_i
    | with_reducible apply wp_lift_outcome_i
    | with_reducible assumption
    | with_reducible apply hQ
    | intro _
    | split
    | dsimp only

theorem os_munmap_canary {a sz : Nat} :
    keeps canary_frame (os_munmap a sz) := by
  unfold os_munmap
  apply keeps_intro
  intro z s Q h hQ
  repeat' first
    | with_reducible apply wp_ite_i
    | with_reducible apply wp_bind_i
    | with_reducible apply wp_env_next_i
    | with_reducible apply wp_pure_i
    | with_reducible apply wp_get_i
    | with_reducible apply wp_set_i
    | with_reducible apply wp_modify_i
    | with_reducible exact wp_wrterror_i
    | with_reducible exact wp_diverges_i
    | with_reducible exact wp_undefined_i
    | with_reducible apply wp_lift_outcome_i
    | with_reducible assumption
    | with_reducible apply hQ
    | intro _
    | split
    | dsimp only

theorem os_mprotect_canary :
    keeps canary_frame os_mprotect := by
  unfold os_mprotect
  apply keeps_intro
  intro z s Q h hQ
  repeat' first
    | with_reducible apply wp_ite_i
    | with_reducible apply wp_bind_i
    | with_reducible apply wp_env_next_i
    | with_reducible apply wp_pure_i
    | with_reducible apply wp_get_i
    | with_reducible apply wp_set_i
    | with_reducible apply wp_modify_i
    | with_reducible exact wp_wrterror_i
    | with_reducible exact wp_diverges_i
    | with_reducible exact wp_undefined_i
    | with_reducible apply wp_lift_outcome_i
    | with_reducible assumption
    | with_reducible apply hQ
    | intro _
    | split
    | dsimp only

theorem validate_junk_canary {p sz : Nat} :
    keeps canary_frame (validate_junk p sz) := by
  unfold validate_junk
  apply keeps_intro
  intro z s Q h hQ
  repeat' first
    | with_reducible apply wp_ite_i
    | with_reducible apply wp_bind_i
    | with_reducible apply wp_env_next_i
    | with_reducible apply wp_pure_i
    | with_reducible apply wp_get_i
    | with_reducible apply wp_set_i
    | with_reducible apply wp_modify_i
    | with_reducible exact wp_wrterror_i
    | with_reducible exact wp_diverges_i
    | with_reducible exact wp_undefined_i
    | with_reducible apply wp_lift_outcome_i
    | with_reducible assumption
    | with_reducible apply hQ
    | intro _
    | split
    | dsimp only

theorem validate_canary_canary {p sz allocated : Nat} :
    keeps canary_frame (validate_canary p sz allocated) := by
  unfold validate_canary
  apply keeps_intro
  intro z s Q h hQ
  repeat' first
    | with_reducible apply wp_ite_i
    | with_reducible apply wp_bind_i
    | with_reducible apply wp_env_next_i
    | with_reducible apply wp_pure_i
    | with_reducible apply wp_get_i
    | with_reducible apply wp_set_i
    | with_reducible apply wp_modify_i
    | with_reducible exact wp_wrterror_i
    | with_reducible exact wp_diverges_i
    | with_reducible exact wp_undefined_i
    | with_reducible apply wp_lift_outcome_i
    | with_reducible assumption
    | with_reducible apply hQ
    | intro _
    | split
    | dsimp only

theorem unmap_big_canary {ps p sz psz : Nat} {mopts : malloc_readonly} :
    keeps canary_frame (unmap_big ps mopts p sz psz) := by
  unfold unmap_big
  apply keeps_intro
  intro z s Q h hQ
  repeat' first
    | with_reducible apply wp_ite_i
    | with_reducible apply wp_bind_i
    | with_reducible apply wp_env_next_i
    | with_reducible apply wp_pure_i
    | with_reducible apply wp_get_i
    | with_reducible apply wp_set_i
    | with_reducible apply wp_modify_i
    | with_reducible exact wp_wrterror_i
    | with_reducible exact wp_diverges_i
    | with_reducible exact wp_undefined_i
    | with_reducible apply wp_lift_outcome_i
    | with_reducible apply keeps_wp z getrbyte_canary
    | with_reducible apply keeps_wp z validate_junk_canary
    | with_reducible apply keeps_wp z os_munmap_canary
    | with_reducible apply keeps_wp z os_mprotect_canary
    | with_reducible assumption
    | with_reducible apply hQ
    | intro _
    | split
    | dsimp only

theorem unmap_small_canary {mopts : malloc_readonly} {p sz psz : Nat} :
    keeps canary_frame (unmap_small mopts p sz psz) := by
  unfold unmap_small
  repeat' first
    | with_reducible apply keeps_ite
    | with_reducible apply keeps_bind
    | with_reducible exact keeps_pure
    | with_reducible exact keeps_get
    | with_reducible exact keeps_wrterror
    | with_reducible exact keeps_diverges
    | with_reducible exact keeps_undefined
    | with_reducible exact keeps_lift_outcome
    | with_reducible apply keeps_modify
    | with_reducible exact getrbyte_canary
    | with_reducible exact validate_junk_canary
    | with_reducible exact os_munmap_canary
    | with_reducible assumption
    | intro _
    | split
    | dsimp only

theorem unmap_canary {ps p sz clear : Nat} {mopts : malloc_readonly} :
    keeps canary_frame (unmap ps mopts p sz clear) := by
  unfold unmap
  repeat' first
    | with_reducible apply keeps_ite
    | with_reducible apply keeps_bind
    | with_reducible exact keeps_pure
    | with_reducible exact keeps_get
    | with_reducible exact keeps_wrterror
    | with_reducible exact keeps_diverges
    | with_reducible exact keeps_undefined
    | with_reducible exact keeps_lift_outcome
    | with_reducible apply keeps_modify
    | with_reducible exact unmap_big_canary
    | with_reducible exact unmap_small_canary
    | with_reducible exact os_munmap_canary
    | with_reducible assumption
    | intro _
    | split
    | dsimp only

theorem map_big_canary {mopts : malloc_readonly} {sz psz : Nat} :
    keeps canary_frame (map_big mopts sz psz) := by
  unfold map_big
  apply keeps_intro
  intro z s Q h hQ
  repeat' first
    | with_reducible apply wp_ite_i
    | with_reducible apply wp_bind_i
    | with_reducible apply wp_env_next_i
    | with_reducible apply wp_pure_i
    | with_reducible apply wp_get_i
    | with_reducible apply wp_set_i
    | with_reducible apply wp_modify_i
    | with_reducible exact wp_wrterror_i
    | with_reducible exact wp_diverges_i
    | with_reducible exact wp_undefined_i
    | with_reducible apply wp_lift_outcome_i
    | with_reducible apply keeps_wp z getrbyte_canary
    | with_reducible apply keeps_wp z validate_junk_canary
    | with_reducible assumption
    | with_reducible apply hQ
    | intro _
    | split
    | dsimp only

theorem map_small_canary {ps sz psz : Nat} {mopts : malloc_readonly} :
    keeps canary_frame (map_small ps mopts sz psz) := by
  unfold map_small
  repeat' first
    | with_reducible apply keeps_ite
    | with_reducible apply keeps_bind
    | with_reducible exact keeps_pure
    | with_reducible exact keeps_get
    | with_reducible exact keeps_wrterror
    | with_reducible exact keeps_diverges
    | with_reducible exact keeps_undefined
    | with_reducible exact keeps_lift_outcome
    | with_reducible apply keeps_modify
    | with_reducible exact getrbyte_canary
    | with_reducible exact validate_junk_canary
    | with_reducible exact os_mmap_canary
    | with_reducible assumption
    | intro _
    | split
    | dsimp only

theorem map_canary {ps sz zero_fill : Nat} {mopts : malloc_readonly} :
    keeps canary_frame (map ps mopts sz zero_fill) := by
  unfold map
  repeat' first
    | with_reducible apply keeps_ite
    | with_reducible apply keeps_bind
    | with_reducible exact keeps_pure
    | with_reducible exact keeps_get
    | with_reducible exact keeps_wrterror
    | with_reducible exact keeps_diverges
    | with_reducible exact keeps_undefined
    | with_reducible exact keeps_lift_outcome
    | with_reducible apply keeps_modify
    | with_reducible exact map_big_canary
    | with_reducible exact map_small_canary
    | with_reducible exact os_mmap_canary
    | with_reducible assumption
    | intro _
    | split
    | dsimp only

theorem omalloc_grow_canary_eq {ps : Nat} {d : dir_info} {b : Bool} {g : Nat × dir_info}
    {z : pool_state}
    (h : omalloc_grow ps d b = .ok g)
    (h0 : d.canary1 = z.d.canary1 ∧ d.canary2 = z.d.canary2 ∧ d.self = z.d.self) :
    g.2.canary1 = z.d.canary1 ∧ g.2.canary2 = z.d.canary2 ∧ g.2.self = z.d.self := by
  unfold omalloc_grow at h
  simp only [] at h
  repeat' split at h
  all_goals first
    | exact Outcome.noConfusion h
    | (injection h with h; subst h; exact h0)

theorem omalloc_grow_pool_canary {ps : Nat} {mopts : malloc_readonly} :
    keeps canary_frame (omalloc_grow_pool ps mopts) := by
  unfold omalloc_grow_pool
  apply keeps_intro
  intro z s Q h hQ
  repeat' first
    | with_reducible apply wp_ite_i
    | with_reducible apply wp_bind_i
    | with_reducible apply wp_pure_i
    | with_reducible apply wp_get_i
    | with_reducible apply wp_modify_i
    | with_reducible apply wp_lift_outcome_i
    | with_reducible apply keeps_wp z os_mmap_canary
    | with_reducible apply keeps_wp z unmap_canary
    | with_reducible assumption
    | with_reducible exact omalloc_grow_canary_eq (by assumption) h
    | with_reducible apply hQ
    | intro _

theorem insert_pool_canary {ps p sz f : Nat} {mopts : malloc_readonly} :
    keeps canary_frame (insert_pool ps mopts p sz f) := by
  unfold insert_pool
  apply keeps_intro
  intro z s Q h hQ
  repeat' first
    | with_reducible apply wp_ite_i
    | with_reducible apply wp_bind_i
    | with_reducible apply wp_env_next_i
    | with_reducible apply wp_pure_i
    | with_reducible apply wp_get_i
    | with_reducible apply wp_set_i
    | with_reducible apply wp_modify_i
    | with_reducible exact wp_wrterror_i
    | with_reducible exact wp_diverges_i
    | with_reducible exact wp_undefined_i
    | with_reducible apply wp_lift_outcome_i
    | with_reducible apply keeps_wp z omalloc_grow_pool_canary
    | with_reducible assumption
    | with_reducible apply hQ
    | intro _
    | split
    | dsimp only

theorem delete_canary_eq {ps : Nat} {d d1 : dir_info} {i : Nat} {z : pool_state}
    (h : delete ps d i = .ok d1)
    (h0 : d.canary1 = z.d.canary1 ∧ d.canary2 = z.d.canary2 ∧ d.self = z.d.self) :
    d1.canary1 = z.d.canary1 ∧ d1.canary2 = z.d.canary2 ∧ d1.self = z.d.self := by
  unfold delete at h
  simp only [] at h
  repeat' split at h
  all_goals first
    | exact Outcome.noConfusion h
    | (injection h with h; subst h; exact h0)

theorem delete_pool_canary {ps ri : Nat} :
    keeps canary_frame (delete_pool ps ri) := by
  unfold delete_pool
  apply keeps_intro
  intro z s Q h hQ
  repeat' first
    | with_reducible apply wp_bind_i
    | with_reducible apply wp_get_i
    | with_reducible apply wp_set_i
    | with_reducible apply wp_lift_outcome_i
    | with_reducible exact delete_canary_eq (by assumption) h
    | with_reducible apply hQ
    | intro _

theorem STATS_SETF_canary {ri f : Nat} :
    keeps canary_frame (STATS_SETF ri f) := by
  unfold STATS_SETF
  repeat' first
    | with_reducible apply keeps_ite
    | with_reducible apply keeps_bind
    | with_reducible exact keeps_pure
    | with_reducible exact keeps_get
    | with_reducible exact keeps_wrterror
    | with_reducible exact keeps_diverges
    | with_reducible exact keeps_undefined
    | with_reducible exact keeps_lift_outcome
    | with_reducible apply keeps_modify
    | with_reducible assumption
    | intro _
    | split
    | dsimp only

theorem LIST_REMOVE_canary {bp : Nat} :
    keeps canary_frame (LIST_REMOVE bp) := by
  unfold LIST_REMOVE
  repeat' first
    | with_reducible apply keeps_ite
    | with_reducible apply keeps_bind
    | with_reducible exact keeps_pure
    | with_reducible exact keeps_get
    | with_reducible exact keeps_wrterror
    | with_reducible exact keeps_diverges
    | with_reducible exact keeps_undefined
    | with_reducible exact keeps_lift_outcome
    | with_reducible apply keeps_modify
    | with_reducible assumption
    | intro _
    | split
    | dsimp only

theorem LIST_INSERT_HEAD_dir_canary {bucket listnum bp : Nat} :
    keeps canary_frame (LIST_INSERT_HEAD_dir bucket listnum bp) := by
  unfold LIST_INSERT_HEAD_dir
  repeat' first
    | with_reducible apply keeps_ite
    | with_reducible apply keeps_bind
    | with_reducible exact keeps_pure
    | with_reducible exact keeps_get
    | with_reducible exact keeps_wrterror
    | with_reducible exact keeps_diverges
    | with_reducible exact keeps_undefined
    | with_reducible exact keeps_lift_outcome
    | with_reducible apply keeps_modify
    | with_reducible assumption
    | intro _
    | split
    | dsimp only

theorem LIST_INSERT_HEAD_info_canary {bucket bp : Nat} :
    keeps canary_frame (LIST_INSERT_HEAD_info bucket bp) := by
  unfold LIST_INSERT_HEAD_info
  repeat' first
    | with_reducible apply keeps_ite
    | with_reducible apply keeps_bind
    | with_reducible exact keeps_pure
    | with_reducible exact keeps_get
    | with_reducible exact keeps_wrterror
    | with_reducible exact keeps_diverges
    | with_reducible exact keeps_undefined
    | with_reducible exact keeps_lift_outcome
    | with_reducible apply keeps_modify
    | with_reducible assumption
    | intro _
    | split
    | dsimp only

theorem alloc_chunk_info_carve_canary {ps bucket : Nat} {mopts : malloc_readonly} :
    keeps canary_frame (alloc_chunk_info_carve ps mopts bucket) := by
  unfold alloc_chunk_info_carve
  repeat' first
    | with_reducible apply keeps_ite
    | with_reducible apply keeps_bind
    | with_reducible exact keeps_pure
    | with_reducible exact keeps_get
    | with_reducible exact keeps_wrterror
    | with_reducible exact keeps_diverges
    | with_reducible exact keeps_undefined
    | with_reducible exact keeps_lift_outcome
    | with_reducible apply keeps_modify
    | with_reducible exact os_mmap_canary
    | with_reducible assumption
    | intro _
    | split
    | dsimp only

theorem alloc_chunk_info_canary {ps bucket : Nat} {mopts : malloc_readonly} :
    keeps canary_frame (alloc_chunk_info ps mopts bucket) := by
  unfold alloc_chunk_info
  repeat' first
    | with_reducible apply keeps_ite
    | with_reducible apply keeps_bind
    | with_reducible exact keeps_pure
    | with_reducible exact keeps_get
    | with_reducible exact keeps_wrterror
    | with_reducible exact keeps_diverges
    | with_reducible exact keeps_undefined
    | with_reducible exact keeps_lift_outcome
    | with_reducible apply keeps_modify
    | with_reducible exact alloc_chunk_info_carve_canary
    | with_reducible exact LIST_REMOVE_canary
    | with_reducible assumption
    | intro _
    | split
    | dsimp only

theorem omalloc_make_chunks_canary {ps bucket listnum : Nat} {mopts : malloc_readonly} :
    keeps canary_frame (omalloc_make_chunks ps mopts bucket listnum) := by
  unfold omalloc_make_chunks
  repeat' first
    | with_reducible apply keeps_ite
    | with_reducible apply keeps_bind
    | with_reducible exact keeps_pure
    | with_reducible exact keeps_get
    | with_reducible exact keeps_wrterror
    | with_reducible exact keeps_diverges
    | with_reducible exact keeps_undefined
    | with_reducible exact keeps_lift_outcome
    | with_reducible apply keeps_modify
    | with_reducible exact map_canary
    | with_reducible exact os_mprotect_canary
    | with_reducible exact unmap_canary
    | with_reducible exact alloc_chunk_info_canary
    | with_reducible exact insert_pool_canary
    | with_reducible exact LIST_INSERT_HEAD_dir_canary
    | with_reducible assumption
    | intro _
    | split
    | dsimp only

theorem malloc_bytes_canary {ps size f : Nat} {mopts : malloc_readonly} :
    keeps canary_frame (malloc_bytes ps mopts size f) := by
  unfold malloc_bytes
  repeat' first
    | with_reducible apply keeps_ite
    | with_reducible apply keeps_bind
    | with_reducible exact keeps_pure
    | with_reducible exact keeps_get
    | with_reducible exact keeps_wrterror
    | with_reducible exact keeps_diverges
    | with_reducible exact keeps_undefined
    | with_reducible exact keeps_lift_outcome
    | with_reducible apply keeps_modify
    | with_reducible exact getrbyte_canary
    | with_reducible exact omalloc_make_chunks_canary
    | with_reducible exact STATS_SETF_canary
    | with_reducible exact LIST_REMOVE_canary
    | with_reducible exact validate_junk_canary
    | with_reducible assumption
    | intro _
    | split
    | dsimp only

theorem omalloc_canary {ps sz zero_fill f : Nat} {mopts : malloc_readonly} :
    keeps canary_frame (omalloc ps mopts sz zero_fill f) := by
  unfold omalloc
  repeat' first
    | with_reducible apply keeps_ite
    | with_reducible apply keeps_bind
    | with_reducible exact keeps_pure
    | with_reducible exact keeps_get
    | with_reducible exact keeps_wrterror
    | with_reducible exact keeps_diverges
    | with_reducible exact keeps_undefined
    | with_reducible exact keeps_lift_outcome
    | with_reducible apply keeps_modify
    | with_reducible exact map_canary
    | with_reducible exact insert_pool_canary
    | with_reducible exact unmap_canary
    | with_reducible exact os_mprotect_canary
    | with_reducible exact malloc_bytes_canary
    | with_reducible assumption
    | intro _
    | split
    | dsimp only

theorem find_chunknum_check_canary {ps ptr check : Nat} {info : chunk_info} :
    keeps canary_frame (find_chunknum_check ps info ptr check) := by
  unfold find_chunknum_check
  repeat' first
    | with_reducible apply keeps_ite
    | with_reducible apply keeps_bind
    | with_reducible exact keeps_pure
    | with_reducible exact keeps_get
    | with_reducible exact keeps_wrterror
    | with_reducible exact keeps_diverges
    | with_reducible exact keeps_undefined
    | with_reducible exact keeps_lift_outcome
    | with_reducible apply keeps_modify
    | with_reducible exact validate_canary_canary
    | with_reducible assumption
    | intro _
    | split
    | dsimp only

theorem free_bytes_canary {ps ri ptr : Nat} {mopts : malloc_readonly} :
    keeps canary_frame (free_bytes ps mopts ri ptr) := by
  unfold free_bytes
  repeat' first
    | with_reducible apply keeps_ite
    | with_reducible apply keeps_bind
    | with_reducible exact keeps_pure
    | with_reducible exact keeps_get
    | with_reducible exact keeps_wrterror
    | with_reducible exact keeps_diverges
    | with_reducible exact keeps_undefined
    | with_reducible exact keeps_lift_outcome
    | with_reducible apply keeps_modify
    | with_reducible exact find_chunknum_check_canary
    | with_reducible exact STATS_SETF_canary
    | with_reducible exact getrbyte_canary
    | with_reducible exact LIST_INSERT_HEAD_dir_canary
    | with_reducible exact LIST_REMOVE_canary
    | with_reducible exact unmap_canary
    | with_reducible exact delete_pool_canary
    | with_reducible exact LIST_INSERT_HEAD_info_canary
    | with_reducible assumption
    | intro _
    | split
    | dsimp only

theorem findpool_canary {ps p : Nat} {mopts : malloc_readonly} :
    keeps canary_frame (findpool ps mopts p) := by
  unfold findpool
  repeat' first
    | with_reducible apply keeps_ite
    | with_reducible apply keeps_bind
    | with_reducible exact keeps_pure
    | with_reducible exact keeps_get
    | with_reducible exact keeps_wrterror
    | with_reducible exact keeps_diverges
    | with_reducible exact keeps_undefined
    | with_reducible exact keeps_lift_outcome
    | with_reducible apply keeps_modify
    | with_reducible assumption
    | intro _
    | split
    | dsimp only

theorem ofree_freecheck_canary {ps : Nat} {mopts : malloc_readonly} {p : Nat} {l : List Nat} :
    keeps canary_frame (ofree_freecheck ps mopts p l) := by
  induction l with
  | nil =>
    unfold ofree_freecheck
    exact keeps_pure
  | cons tmp rest ih =>
    unfold ofree_freecheck
    repeat' first
      | with_reducible apply keeps_ite
      | with_reducible apply keeps_bind
      | with_reducible exact keeps_pure
      | with_reducible exact keeps_get
      | with_reducible exact keeps_wrterror
      | with_reducible exact keeps_lift_outcome
      | with_reducible exact validate_junk_canary
      | with_reducible exact ih
      | intro _
      | split

theorem ofree_large_canary {ps ri p sz clear argsz : Nat} {mopts : malloc_readonly} :
    keeps canary_frame (ofree_large ps mopts ri p sz clear argsz) := by
  unfold ofree_large
  repeat' first
    | with_reducible apply keeps_ite
    | with_reducible apply keeps_bind
    | with_reducible exact keeps_pure
    | with_reducible exact keeps_get
    | with_reducible exact keeps_wrterror
    | with_reducible exact keeps_diverges
    | with_reducible exact keeps_undefined
    | with_reducible exact keeps_lift_outcome
    | with_reducible apply keeps_modify
    | with_reducible exact validate_canary_canary
    | with_reducible exact os_mprotect_canary
    | with_reducible exact unmap_canary
    | with_reducible exact delete_pool_canary
    | with_reducible assumption
    | intro _
    | split
    | dsimp only

theorem ofree_chunk_canary {ps ri p sz : Nat} {mopts : malloc_readonly} :
    keeps canary_frame (ofree_chunk ps mopts ri p sz) := by
  unfold ofree_chunk
  repeat' first
    | with_reducible apply keeps_ite
    | with_reducible apply keeps_bind
    | with_reducible exact keeps_pure
    | with_reducible exact keeps_get
    | with_reducible exact keeps_wrterror
    | with_reducible exact keeps_diverges
    | with_reducible exact keeps_undefined
    | with_reducible exact keeps_lift_outcome
    | with_reducible apply keeps_modify
    | with_reducible exact find_chunknum_check_canary
    | with_reducible exact ofree_freecheck_canary
    | with_reducible exact getrbyte_canary
    | with_reducible exact validate_junk_canary
    | with_reducible exact free_bytes_canary
    | with_reducible assumption
    | intro _
    | split
    | dsimp only

theorem ofree_canary {ps p clear check argsz : Nat} {mopts : malloc_readonly} :
    keeps canary_frame (ofree ps mopts p clear check argsz) := by
  unfold ofree
  repeat' first
    | with_reducible apply keeps_ite
    | with_reducible apply keeps_bind
    | with_reducible exact keeps_pure
    | with_reducible exact keeps_get
    | with_reducible exact keeps_wrterror
    | with_reducible exact keeps_diverges
    | with_reducible exact keeps_undefined
    | with_reducible exact keeps_lift_outcome
    | with_reducible apply keeps_modify
    | with_reducible exact findpool_canary
    | with_reducible exact find_chunknum_check_canary
    | with_reducible exact ofree_large_canary
    | with_reducible exact ofree_chunk_canary
    | with_reducible assumption
    | intro _
    | split
    | dsimp only

theorem set_region_size_canary {ri sz : Nat} :
    keeps canary_frame (set_region_size ri sz) := by
  unfold set_region_size
  repeat' first
    | with_reducible apply keeps_ite
    | with_reducible apply keeps_bind
    | with_reducible exact keeps_pure
    | with_reducible exact keeps_get
    | with_reducible exact keeps_wrterror
    | with_reducible exact keeps_diverges
    | with_reducible exact keeps_undefined
    | with_reducible exact keeps_lift_outcome
    | with_reducible apply keeps_modify
    | with_reducible assumption
    | intro _
    | split
    | dsimp only

theorem orealloc_pages_canary {ps ri p goldsz gnewsz f : Nat} {mopts : malloc_readonly} :
    keeps canary_frame (orealloc_pages ps mopts ri p goldsz gnewsz f) := by
  unfold orealloc_pages
  repeat' first
    | with_reducible apply keeps_ite
    | with_reducible apply keeps_bind
    | with_reducible exact keeps_pure
    | with_reducible exact keeps_get
    | with_reducible exact keeps_wrterror
    | with_reducible exact keeps_diverges
    | with_reducible exact keeps_undefined
    | with_reducible exact keeps_lift_outcome
    | with_reducible apply keeps_modify
    | with_reducible exact os_mmap_fixed_canary
    | with_reducible exact set_region_size_canary
    | with_reducible exact STATS_SETF_canary
    | with_reducible exact os_mprotect_canary
    | with_reducible exact os_munmap_canary
    | with_reducible assumption
    | intro _
    | split
    | dsimp only

theorem orealloc_canary {ps p newsz f : Nat} {mopts : malloc_readonly} :
    keeps canary_frame (orealloc ps mopts p newsz f) := by
  unfold orealloc
  repeat' first
    | with_reducible apply keeps_ite
    | with_reducible apply keeps_bind
    | with_reducible exact keeps_pure
    | with_reducible exact keeps_get
    | with_reducible exact keeps_wrterror
    | with_reducible exact keeps_diverges
    | with_reducible exact keeps_undefined
    | with_reducible exact keeps_lift_outcome
    | with_reducible apply keeps_modify
    | with_reducible exact omalloc_canary
    | with_reducible exact findpool_canary
    | with_reducible exact find_chunknum_check_canary
    | with_reducible exact orealloc_pages_canary
    | with_reducible exact STATS_SETF_canary
    | with_reducible exact ofree_canary
    | with_reducible assumption
    | intro _
    | split
    | dsimp only

theorem orecallocarray_canary {ps p oldsize newsize f : Nat} {mopts : malloc_readonly} :
    keeps canary_frame (orecallocarray ps mopts p oldsize newsize f) := by
  unfold orecallocarray
  repeat' first
    | with_reducible apply keeps_ite
    | with_reducible apply keeps_bind
    | with_reducible exact keeps_pure
    | with_reducible exact keeps_get
    | with_reducible exact keeps_wrterror
    | with_reducible exact keeps_diverges
    | with_reducible exact keeps_undefined
    | with_reducible exact keeps_lift_outcome
    | with_reducible apply keeps_modify
    | with_reducible exact omalloc_canary
    | with_reducible exact findpool_canary
    | with_reducible exact find_chunknum_check_canary
    | with_reducible exact ofree_canary
    | with_reducible assumption
    | intro _
    | split
    | dsimp only

theorem mapalign_trim_canary {p alignment sz : Nat} :
    keeps canary_frame (mapalign_trim p alignment sz) := by
  unfold mapalign_trim
  repeat' first
    | with_reducible apply keeps_ite
    | with_reducible apply keeps_bind
    | with_reducible exact keeps_pure
    | with_reducible exact keeps_get
    | with_reducible exact keeps_wrterror
    | with_reducible exact keeps_diverges
    | with_reducible exact keeps_undefined
    | with_reducible exact keeps_lift_outcome
    | with_reducible apply keeps_modify
    | with_reducible exact os_munmap_canary
    | with_reducible assumption
    | intro _
    | split
    | dsimp only

theorem mapalign_canary {ps alignment sz zero_fill : Nat} {mopts : malloc_readonly} :
    keeps canary_frame (mapalign ps mopts alignment sz zero_fill) := by
  unfold mapalign
  repeat' first
    | with_reducible apply keeps_ite
    | with_reducible apply keeps_bind
    | with_reducible exact keeps_pure
    | with_reducible exact keeps_get
    | with_reducible exact keeps_wrterror
    | with_reducible exact keeps_diverges
    | with_reducible exact keeps_undefined
    | with_reducible exact keeps_lift_outcome
    | with_reducible apply keeps_modify
    | with_reducible exact map_canary
    | with_reducible exact mapalign_trim_canary
    | with_reducible assumption
    | intro _
    | split
    | dsimp only

theorem omemalign_canary {ps alignment sz zero_fill f : Nat} {mopts : malloc_readonly} :
    keeps canary_frame (omemalign ps mopts alignment sz zero_fill f) := by
  unfold omemalign
  repeat' first
    | with_reducible apply keeps_ite
    | with_reducible apply keeps_bind
    | with_reducible exact keeps_pure
    | with_reducible exact keeps_get
    | with_reducible exact keeps_wrterror
    | with_reducible exact keeps_diverges
    | with_reducible exact keeps_undefined
    | with_reducible exact keeps_lift_outcome
    | with_reducible apply keeps_modify
    | with_reducible exact omalloc_canary
    | with_reducible exact mapalign_canary
    | with_reducible exact insert_pool_canary
    | with_reducible exact unmap_canary
    | with_reducible exact os_mprotect_canary
    | with_reducible assumption
    | intro _
    | split
    | dsimp only

theorem EPILOGUE_canary {mopts : malloc_readonly} {saved_errno r : Nat} :
    keeps canary_frame (EPILOGUE mopts saved_errno r) := by
  unfold EPILOGUE
  repeat' first
    | with_reducible apply keeps_ite
    | with_reducible apply keeps_bind
    | with_reducible exact keeps_pure
    | with_reducible exact keeps_get
    | with_reducible exact keeps_wrterror
    | with_reducible exact keeps_diverges
    | with_reducible exact keeps_undefined
    | with_reducible exact keeps_lift_outcome
    | with_reducible apply keeps_modify
    | with_reducible assumption
    | intro _
    | split
    | dsimp only

theorem malloc_canary {ps size caller : Nat} {mopts : malloc_readonly} :
    keeps canary_frame (malloc ps mopts size caller) := by
  unfold malloc
  repeat' first
    | with_reducible apply keeps_ite
    | with_reducible apply keeps_bind
    | with_reducible exact keeps_pure
    | with_reducible exact keeps_get
    | with_reducible exact keeps_wrterror
    | with_reducible exact keeps_diverges
    | with_reducible exact keeps_undefined
    | with_reducible exact keeps_lift_outcome
    | with_reducible apply keeps_modify
    | with_reducible exact omalloc_canary
    | with_reducible exact EPILOGUE_canary
    | with_reducible assumption
    | intro _
    | split
    | dsimp only

theorem free_canary {ps ptr : Nat} {mopts : malloc_readonly} :
    keeps canary_frame (free ps mopts ptr) := by
  unfold free
  repeat' first
    | with_reducible apply keeps_ite
    | with_reducible apply keeps_bind
    | with_reducible exact keeps_pure
    | with_reducible exact keeps_get
    | with_reducible exact keeps_wrterror
    | with_reducible exact keeps_diverges
    | with_reducible exact keeps_undefined
    | with_reducible exact keeps_lift_outcome
    | with_reducible apply keeps_modify
    | with_reducible exact ofree_canary
    | with_reducible assumption
    | intro _
    | split
    | dsimp only

theorem freezero_canary {ps ptr sz : Nat} {mopts : malloc_readonly} :
    keeps canary_frame (freezero ps mopts ptr sz) := by
  unfold freezero
  repeat' first
    | with_reducible apply keeps_ite
    | with_reducible apply keeps_bind
    | with_reducible exact keeps_pure
    | with_reducible exact keeps_get
    | with_reducible exact keeps_wrterror
    | with_reducible exact keeps_diverges
    | with_reducible exact keeps_undefined
    | with_reducible exact keeps_lift_outcome
    | with_reducible apply keeps_modify
    | with_reducible exact free_canary
    | with_reducible exact ofree_canary
    | with_reducible assumption
    | intro _
    | split
    | dsimp only

theorem realloc_canary {ps ptr size caller : Nat} {mopts : malloc_readonly} :
    keeps canary_frame (realloc ps mopts ptr size caller) := by
  unfold realloc
  repeat' first
    | with_reducible apply keeps_ite
    | with_reducible apply keeps_bind
    | with_reducible exact keeps_pure
    | with_reducible exact keeps_get
    | with_reducible exact keeps_wrterror
    | with_reducible exact keeps_diverges
    | with_reducible exact keeps_undefined
    | with_reducible exact keeps_lift_outcome
    | with_reducible apply keeps_modify
    | with_reducible exact orealloc_canary
    | with_reducible exact EPILOGUE_canary
    | with_reducible assumption
    | intro _
    | split
    | dsimp only

theorem calloc_canary {ps nmemb size caller : Nat} {mopts : malloc_readonly} :
    keeps canary_frame (calloc ps mopts nmemb size caller) := by
  unfold calloc
  repeat' first
    | with_reducible apply keeps_ite
    | with_reducible apply keeps_bind
    | with_reducible exact keeps_pure
    | with_reducible exact keeps_get
    | with_reducible exact keeps_wrterror
    | with_reducible exact keeps_diverges
    | with_reducible exact keeps_undefined
    | with_reducible exact keeps_lift_outcome
    | with_reducible apply keeps_modify
    | with_reducible exact omalloc_canary
    | with_reducible exact EPILOGUE_canary
    | with_reducible assumption
    | intro _
    | split
    | dsimp only

theorem recallocarray_p_canary {ps ptr oldnmemb newnmemb size caller : Nat} {mopts : malloc_readonly} :
    keeps canary_frame (recallocarray_p ps mopts ptr oldnmemb newnmemb size caller) := by
  unfold recallocarray_p
  repeat' first
    | with_reducible apply keeps_ite
    | with_reducible apply keeps_bind
    | with_reducible exact keeps_pure
    | with_reducible exact keeps_get
    | with_reducible exact keeps_wrterror
    | with_reducible exact keeps_diverges
    | with_reducible exact keeps_undefined
    | with_reducible exact keeps_lift_outcome
    | with_reducible apply keeps_modify
    | with_reducible exact calloc_canary
    | with_reducible exact malloc_canary
    | with_reducible exact free_canary
    | with_reducible assumption
    | intro _
    | split
    | dsimp only

theorem recallocarray_canary {ps ptr oldnmemb newnmemb size caller : Nat} {mopts : malloc_readonly} :
    keeps canary_frame (recallocarray ps mopts ptr oldnmemb newnmemb size caller) := by
  unfold recallocarray
  repeat' first
    | with_reducible apply keeps_ite
    | with_reducible apply keeps_bind
    | with_reducible exact keeps_pure
    | with_reducible exact keeps_get
    | with_reducible exact keeps_wrterror
    | with_reducible exact keeps_diverges
    | with_reducible exact keeps_undefined
    | with_reducible exact keeps_lift_outcome
    | with_reducible apply keeps_modify
    | with_reducible exact recallocarray_p_canary
    | with_reducible exact orecallocarray_canary
    | with_reducible exact EPILOGUE_canary
    | with_reducible assumption
    | intro _
    | split
    | dsimp only

theorem posix_memalign_canary {ps alignment size caller : Nat} {mopts : malloc_readonly} :
    keeps canary_frame (posix_memalign ps mopts alignment size caller) := by
  unfold posix_memalign
  apply keeps_intro
  intro z s Q h hQ
  repeat' first
    | with_reducible apply wp_ite_i
    | with_reducible apply wp_bind_i
    | with_reducible apply wp_env_next_i
    | with_reducible apply wp_pure_i
    | with_reducible apply wp_get_i
    | with_reducible apply wp_set_i
    | with_reducible apply wp_modify_i
    | with_reducible exact wp_wrterror_i
    | with_reducible exact wp_diverges_i
    | with_reducible exact wp_undefined_i
    | with_reducible apply wp_lift_outcome_i
    | with_reducible apply keeps_wp z omemalign_canary
    | with_reducible assumption
    | with_reducible apply hQ
    | intro _
    | split
    | dsimp only

theorem aligned_alloc_canary {ps alignment size caller : Nat} {mopts : malloc_readonly} :
    keeps canary_frame (aligned_alloc ps mopts alignment size caller) := by
  unfold aligned_alloc
  repeat' first
    | with_reducible apply keeps_ite
    | with_reducible apply keeps_bind
    | with_reducible exact keeps_pure
    | with_reducible exact keeps_get
    | with_reducible exact keeps_wrterror
    | with_reducible exact keeps_diverges
    | with_reducible exact keeps_undefined
    | with_reducible exact keeps_lift_outcome
    | with_reducible apply keeps_modify
    | with_reducible exact omemalign_canary
    | with_reducible exact EPILOGUE_canary
    | with_reducible assumption
    | intro _
    | split
    | dsimp only

theorem keeps_run {R : pool_state → pool_state → Prop} {α : Type} {m : Run α}
    (hm : keeps R m) {s s' : pool_state} {a : α} (hr : R s s)
    (h : m s = .ok (a, s')) : R s s' := by
  have := keeps_wp s hm (Q := fun _ s1 => R s s1) hr (fun _ _ h1 => h1)
  unfold wp at this
  exact this a s' h

theorem not32_not32 (x : Nat) (h : x < 2 ^ 32) : not32 (not32 x) = x := by
  unfold not32
  rw [Nat.mod_eq_of_lt h, Nat.mod_eq_of_lt (by omega)]
  omega

theorem poolinit_canary_ok (mopts : malloc_readonly) (self flag : Nat)
    (hc : mopts.malloc_canary < 2 ^ 32) :
    canary_corrupt mopts (omalloc_poolinit mopts self flag) = false := by
  have hx : mopts.malloc_canary ^^^ (self % 2 ^ 32) < 2 ^ 32 :=
    Nat.xor_lt_two_pow hc (Nat.mod_lt _ (by norm_num))
  unfold canary_corrupt omalloc_poolinit
  simp only [decide_eq_false_iff_not, not_or, not_not, ne_eq]
  refine ⟨?_, (not32_not32 _ hx).symm⟩
  rw [Nat.xor_assoc, Nat.xor_self, Nat.xor_zero]

/-- C17: `omalloc_poolinit` leaves `canary1 = malloc_canary ^ (u_int32_t)d` and
    `canary2 = ~canary1`, so the corruption test of `find`, `map` and `malloc_bytes`
    passes; every public function that returns leaves `canary1`, `canary2` and the pool
    address as they were; a zero-filled pool fails the test `canary1 == ~canary2` of
    `_malloc_init` and is set up, and a pool that was set up passes it and is skipped. -/
theorem pool_canary_stable (ps : Nat) (mopts : malloc_readonly)
    (hc : mopts.malloc_canary < 2 ^ 32) :
    (∀ self flag,
      (omalloc_poolinit mopts self flag).canary1 = mopts.malloc_canary ^^^ (self % 2 ^ 32) ∧
      (omalloc_poolinit mopts self flag).canary2 =
        not32 (omalloc_poolinit mopts self flag).canary1 ∧
      canary_corrupt mopts (omalloc_poolinit mopts self flag) = false) ∧
    (∀ s s' : pool_state,
      (∀ size caller a, malloc ps mopts size caller s = .ok (a, s') → canary_frame s s') ∧
      (∀ ptr a, free ps mopts ptr s = .ok (a, s') → canary_frame s s') ∧
      (∀ ptr sz a, freezero ps mopts ptr sz s = .ok (a, s') → canary_frame s s') ∧
      (∀ ptr size caller a, realloc ps mopts ptr size caller s = .ok (a, s') →
        canary_frame s s') ∧
      (∀ nmemb size caller a, calloc ps mopts nmemb size caller s = .ok (a, s') →
        canary_frame s s') ∧
      (∀ ptr oldnmemb newnmemb size caller a,
        recallocarray ps mopts ptr oldnmemb newnmemb size caller s = .ok (a, s') →
        canary_frame s s') ∧
      (∀ alignment size caller a,
        posix_memalign ps mopts alignment size caller s = .ok (a, s') → canary_frame s s') ∧
      (∀ alignment size caller a,
        aligned_alloc ps mopts alignment size caller s = .ok (a, s') → canary_frame s s')) ∧
    (∀ s s' : pool_state, canary_frame s s' →
      canary_corrupt mopts s'.d = canary_corrupt mopts s.d) ∧
    (∀ i (d : dir_info), d.canary1 = 0 → d.canary2 = 0 →
      ¬ d.canary1 = not32 d.canary2 ∧
      malloc_init_visit mopts i d =
        (if i = 0 then { omalloc_poolinit mopts d.self MAP_CONCEAL with malloc_junk := 2 }
         else { omalloc_poolinit mopts d.self 0 with
           malloc_junk := mopts.def_malloc_junk })) ∧
    (∀ i j (d : dir_info),
      (malloc_init_visit mopts i d).canary1 = not32 (malloc_init_visit mopts i d).canary2 ∧
      malloc_init_visit mopts j (malloc_init_visit mopts i d) = malloc_init_visit mopts i d) := by
  have hx : ∀ self, mopts.malloc_canary ^^^ (self % 2 ^ 32) < 2 ^ 32 := fun self =>
    Nat.xor_lt_two_pow hc (Nat.mod_lt _ (by norm_num))
  refine ⟨fun self flag => ⟨rfl, rfl, poolinit_canary_ok mopts self flag hc⟩, ?_, ?_, ?_, ?_⟩
  · intro s s'
    exact ⟨fun _ _ _ h => keeps_run malloc_canary ⟨rfl, rfl, rfl⟩ h,
      fun _ _ h => keeps_run free_canary ⟨rfl, rfl, rfl⟩ h,
      fun _ _ _ h => keeps_run freezero_canary ⟨rfl, rfl, rfl⟩ h,
      fun _ _ _ _ h => keeps_run realloc_canary ⟨rfl, rfl, rfl⟩ h,
      fun _ _ _ _ h => keeps_run calloc_canary ⟨rfl, rfl, rfl⟩ h,
      fun _ _ _ _ _ _ h => keeps_run recallocarray_canary ⟨rfl, rfl, rfl⟩ h,
      fun _ _ _ _ h => keeps_run posix_memalign_canary ⟨rfl, rfl, rfl⟩ h,
      fun _ _ _ _ h => keeps_run aligned_alloc_canary ⟨rfl, rfl, rfl⟩ h⟩
  · intro s s' h
    unfold canary_corrupt
    rw [h.1, h.2.1, h.2.2]
  · intro i d h1 h2
    have hne : ¬ d.canary1 = not32 d.canary2 := by
      rw [h1, h2]; decide
    refine ⟨hne, ?_⟩
    unfold malloc_init_visit
    rw [if_neg hne]
  · intro i j d
    have hfix : (malloc_init_visit mopts i d).canary1 =
        not32 (malloc_init_visit mopts i d).canary2 := by
      unfold malloc_init_visit
      by_cases h : d.canary1 = not32 d.canary2
      · rw [if_pos h]; exact h
      · rw [if_neg h]
        by_cases h0 : i = 0
        · rw [if_pos h0]; exact (not32_not32 _ (hx _)).symm
        · rw [if_neg h0]; exact (not32_not32 _ (hx _)).symm
    refine ⟨hfix, ?_⟩
    generalize malloc_init_visit mopts i d = e at hfix
    unfold malloc_init_visit
    rw [if_pos hfix]

/-- C17 (witness): the pool at address 4096 with process canary 7. -/
theorem pool_canary_stable_witness :
    (default_mopts 7).malloc_canary < 2 ^ 32 ∧
    canary_corrupt (default_mopts 7) (omalloc_poolinit (default_mopts 7) 4096 0) = false :=
  ⟨by decide, ((pool_canary_stable 12 (default_mopts 7) (by decide)).1 4096 0).2.2⟩

theorem roundup_of_dvd (y m : Nat) (hm : 0 < m) (h : m ∣ y) : (y + (m - 1)) / m * m = y := by
  obtain ⟨c, rfl⟩ := h
  have : (m * c + (m - 1)) / m = c := by
    rw [Nat.mul_add_div hm, (Nat.div_eq_zero_iff hm).2 (by omega)]
    rfl
  rw [this, Nat.mul_comm]

theorem bin_of_le_next (s : Nat) (hs : s < 2 ^ 31) : bin_of s ≤ 2 ^ (lb (s ||| 64) + 1) := by
  obtain ⟨s6, s1, _, _⟩ := n_bits_spec s hs
  rw [bin_of_eq s hs, two_pow_dvd_form (lb (s ||| 64) - 2) (lb (s ||| 64) + 1) (by omega)]
  exact roundup_le _ _ _ (Nat.pow_pos (by norm_num))
    (by rw [← two_pow_dvd_form (lb (s ||| 64) - 2) (lb (s ||| 64) + 1) (by omega)]; omega)

theorem bin_of_idem (s : Nat) (hs : s < 2 ^ 30) : bin_of (bin_of s) = bin_of s := by
  have hs31 : s < 2 ^ 31 := by omega
  have hy30 : bin_of s ≤ 2 ^ 30 := by
    rcases Nat.lt_or_ge s 16 with h | h
    · exact le_trans (bin_of_le_pow s 4 (by omega) (by omega) (by omega))
        (Nat.pow_le_pow_right (by norm_num) (by omega))
    · exact bin_of_le_pow s 30 (by omega) (by omega) (by omega)
  have hy31 : bin_of s < 2 ^ 31 := by omega
  obtain ⟨s6, s1, _, _⟩ := n_bits_spec s hs31
  obtain ⟨t6, t1, t2, t7⟩ := n_bits_spec (bin_of s) hy31
  have hge := bin_of_ge s hs31
  have hmono := lb_or_mono s (bin_of s) hge hy31
  have hnext := bin_of_le_next s hs31
  -- the shift of the result is at most one more than the shift of `s`
  have hle : lb (bin_of s ||| 64) ≤ lb (s ||| 64) + 1 := by
    by_contra hc
    push_neg at hc
    have h7 : 7 ≤ lb (bin_of s ||| 64) := by omega
    have := t7 h7
    have : 2 ^ (lb (s ||| 64) + 2) ≤ 2 ^ lb (bin_of s ||| 64) :=
      Nat.pow_le_pow_right (by norm_num) (by omega)
    have : 2 ^ (lb (s ||| 64) + 1) < 2 ^ (lb (s ||| 64) + 2) :=
      Nat.pow_lt_pow_right (by norm_num) (by omega)
    omega
  have hdvd : 2 ^ (lb (bin_of s ||| 64) - 2) ∣ bin_of s := by
    rcases Nat.eq_or_lt_of_le hmono with he | hlt
    · rw [← he]
      conv_rhs => rw [bin_of_eq s hs31]
      exact Nat.dvd_mul_left _ _
    · have he : lb (bin_of s ||| 64) = lb (s ||| 64) + 1 := by omega
      have h7 : 7 ≤ lb (bin_of s ||| 64) := by omega
      have h2 := t7 h7
      rw [he] at h2
      have hy : bin_of s = 2 ^ (lb (s ||| 64) + 1) := by omega
      rw [he]
      conv_rhs => rw [hy]
      exact Nat.pow_dvd_pow 2 (by omega)
  conv_lhs => rw [bin_of_eq (bin_of s) hy31]
  exact roundup_of_dvd _ _ (Nat.pow_pos (by norm_num)) hdvd

theorem find_bucket_fixed (mopts : malloc_readonly) (ps s : Nat) (hps : 5 ≤ ps)
    (hps16 : ps ≤ 16) (hs : s ≤ MALLOC_MAXCHUNK ps) :
    find_bucket mopts (B2SIZE (find_bucket mopts s)) = find_bucket mopts s := by
  rcases Nat.eq_zero_or_pos s with h0 | h0
  · subst h0
    rw [find_bucket_zero]
    show find_bucket mopts (0 * MALLOC_MINSIZE) = 0
    rw [Nat.zero_mul, find_bucket_zero]
  have hC := MALLOC_MAXCHUNK_eq ps
  have hp15 : 2 ^ (ps - 1) ≤ 2 ^ 15 := Nat.pow_le_pow_right (by norm_num) (by omega)
  have hB : ∀ b, B2SIZE b = b * 16 := fun b => by
    unfold B2SIZE; rw [MALLOC_MINSIZE_eq]
  by_cases hc : mopts.def_maxcache = 0
  · have h1 := find_bucket_lin mopts s hc h0 (by rw [hC] at hs; omega)
    have hfb : 0 < find_bucket mopts s := by rw [h1]; omega
    have hfb2 : find_bucket mopts s * 16 < 2 ^ 16 := by
      rw [h1]; rw [hC] at hs; omega
    rw [hB, find_bucket_lin mopts _ hc (by omega) hfb2]
    omega
  · obtain ⟨h1, h2⟩ := find_bucket_bin mopts ps s hps hps16 hc h0 hs
    have hm16 := bin_of_mod16 (max s 16) (by rw [hC] at hs; omega)
    have hy : find_bucket mopts s * 16 = bin_of (max s 16) := by
      rw [h1]; omega
    have hge := bin_of_ge (max s 16) (by rw [hC] at hs; omega)
    have hy16 : 16 ≤ bin_of (max s 16) := by omega
    rw [hB, hy]
    obtain ⟨h3, _⟩ := find_bucket_bin mopts ps (bin_of (max s 16)) hps hps16 hc (by omega)
      (by rw [hC]; exact h2)
    rw [h3, Nat.max_eq_left hy16, bin_of_idem _ (by rw [hC] at hs; omega), h1]

/-! ## Rules for runs that return -/

theorem tot_intro {α : Type} {m : Run α} {Q : α → pool_state → Prop} {s : pool_state}
    (a : α) (s' : pool_state) (h : m s = .ok (a, s')) (hQ : Q a s') : tot m Q s := by
  unfold tot; exact ⟨a, s', h, hQ⟩

theorem tot_elim {α : Type} {m : Run α} {Q : α → pool_state → Prop} {s : pool_state}
    (h : tot m Q s) : ∃ a s', m s = .ok (a, s') ∧ Q a s' := by
  unfold tot at h; exact h

theorem tot_pure_i {α : Type} {a : α} {Q : α → pool_state → Prop} {s : pool_state}
    (h : Q a s) : tot (pure a : Run α) Q s :=
  tot_intro a s rfl h

theorem tot_bind_i {α β : Type} {x : Run α} {f : α → Run β} {Q : β → pool_state → Prop}
    {s : pool_state} (h : tot x (fun a s1 => tot (f a) Q s1) s) : tot (x >>= f) Q s := by
  obtain ⟨a, s1, hx, h1⟩ := tot_elim h
  obtain ⟨b, s2, hf, h2⟩ := tot_elim h1
  refine tot_intro b s2 ?_ h2
  show (x s).bind (fun p => f p.1 p.2) = _
  rw [hx]; exact hf

theorem tot_get_i {Q : pool_state → pool_state → Prop} {s : pool_state}
    (h : Q s s) : tot (get : Run pool_state) Q s :=
  tot_intro s s rfl h

theorem tot_set_i {s1 : pool_state} {Q : PUnit → pool_state → Prop} {s : pool_state}
    (h : Q ⟨⟩ s1) : tot (set s1 : Run PUnit) Q s :=
  tot_intro ⟨⟩ s1 rfl h

theorem tot_modify_i {g : pool_state → pool_state} {Q : PUnit → pool_state → Prop}
    {s : pool_state} (h : Q ⟨⟩ (g s)) : tot (modify g : Run PUnit) Q s :=
  tot_intro ⟨⟩ (g s) rfl h

theorem tot_ite_i {α : Type} {c : Prop} [Decidable c] {x y : Run α}
    {Q : α → pool_state → Prop} {s : pool_state}
    (h1 : c → tot x Q s) (h2 : ¬ c → tot y Q s) : tot (if c then x else y) Q s := by
  by_cases h : c
  · rw [if_pos h]; exact h1 h
  · rw [if_neg h]; exact h2 h

theorem tot_lift_outcome_i {α : Type} {x : Outcome α} {Q : α → pool_state → Prop}
    {s : pool_state} (a : α) (hx : x = .ok a) (h : Q a s) : tot (lift_outcome x) Q s := by
  refine tot_intro a s ?_ h
  show x.bind (fun a => Outcome.ok (a, s)) = _
  rw [hx]; rfl

theorem tot_env_next_i {Q : Nat → pool_state → Prop} {s : pool_state}
    (h : Q (s.env.headD 0) { s with env := s.env.tail }) : tot env_next Q s :=
  tot_intro _ _ rfl h

theorem tot_mono {α : Type} {m : Run α} {Q Q2 : α → pool_state → Prop} {s : pool_state}
    (h : tot m Q s) (himp : ∀ a s', Q a s' → Q2 a s') : tot m Q2 s := by
  obtain ⟨a, s', hm, hq⟩ := tot_elim h
  exact tot_intro a s' hm (himp a s' hq)

theorem tot_returned {α : Type} {m : Run α} {s : pool_state} {b : α}
    (h : tot m (fun a _ => a = b) s) : returned (m s) = some b := by
  obtain ⟨a, s', hm, hq⟩ := tot_elim h
  rw [hm, ← hq]; rfl

theorem findpool_tot {ps : Nat} {mopts : malloc_readonly} {p ri : Nat} {s : pool_state}
    {Q : Nat → pool_state → Prop}
    (hfind : find ps mopts s.d p = .ok (some ri)) (h : Q ri s) :
    tot (findpool ps mopts p) Q s := by
  unfold findpool
  apply tot_bind_i
  apply tot_get_i
  apply tot_bind_i
  apply tot_lift_outcome_i _ hfind
  exact tot_pure_i h

theorem find_chunknum_check_tot {ps : Nat} {info : chunk_info} {ptr k : Nat} {s : pool_state}
    {Q : Nat → pool_state → Prop}
    (hk : find_chunknum ps s.d.canary1 info ptr = .ok k) (h : Q k s) :
    tot (find_chunknum_check ps info ptr 0) Q s := by
  unfold find_chunknum_check
  apply tot_bind_i
  apply tot_get_i
  apply tot_bind_i
  apply tot_lift_outcome_i _ hk
  apply tot_bind_i
  apply tot_pure_i
  exact tot_pure_i h

theorem limit_eq {ps : Nat} {mopts : malloc_readonly} (hps16 : ps ≤ 62)
    (hg : mopts.malloc_guard = 0 ∨ mopts.malloc_guard = MALLOC_PAGESIZE ps) :
    sub64 (sub64 SIZE_MAX mopts.malloc_guard) (MALLOC_PAGESIZE ps) =
      2 ^ 64 - 1 - mopts.malloc_guard - 2 ^ ps ∧ mopts.malloc_guard ≤ 2 ^ ps ∧
      2 ^ ps ≤ 2 ^ 62 := by
  have hP : MALLOC_PAGESIZE ps = 2 ^ ps := MALLOC_PAGESIZE_eq ps
  have hle : 2 ^ ps ≤ 2 ^ 62 := Nat.pow_le_pow_right (by norm_num) hps16
  have hgle : mopts.malloc_guard ≤ 2 ^ ps := by
    rcases hg with h | h
    · rw [h]; exact Nat.zero_le _
    · rw [h, hP]
  refine ⟨?_, hgle, hle⟩
  rw [sub64_eq SIZE_MAX _ (by unfold SIZE_MAX; omega) (by unfold SIZE_MAX; omega),
    sub64_eq _ _ (by unfold SIZE_MAX; omega) (by unfold SIZE_MAX; rw [hP]; omega), hP]
  rfl

theorem orealloc_same_chunk {ps : Nat} {mopts : malloc_readonly} {p sz f ri k : Nat}
    {s : pool_state} (hps : 5 ≤ ps) (hps16 : ps ≤ 16)
    (hg : mopts.malloc_guard = 0 ∨ mopts.malloc_guard = MALLOC_PAGESIZE ps)
    (hp : p ≠ 0) (hR : mopts.malloc_realloc = 0) (hflag : s.d.mmap_flag = 0)
    (hfind : find ps mopts s.d p = .ok (some ri))
    (hsz : sz ≤ MALLOC_MAXCHUNK ps)
    (htag : (slot s.d.r ri).p &&& MALLOC_PAGEMASK ps = find_bucket mopts sz + 1)
    (hk : find_chunknum ps s.d.canary1 (heap_get s (slot s.d.r ri).size) p = .ok k) :
    tot (orealloc ps mopts p sz f) (fun a _ => a = p) s := by
  have hold : REALSIZE ps (slot s.d.r ri) = B2SIZE (find_bucket mopts sz) := by
    unfold REALSIZE
    simp only [htag]
    rw [if_neg (by omega)]
    rfl
  obtain ⟨hlim, hgle, hle⟩ := limit_eq (by omega : ps ≤ 62) hg
  have hC := MALLOC_MAXCHUNK_eq ps
  have hp15 : 2 ^ (ps - 1) ≤ 2 ^ 15 := Nat.pow_le_pow_right (by norm_num) (by omega)
  have hfb := (find_bucket_monotone_bounded mopts ps sz sz hps hps16 (le_refl _) hsz)
  have hfix := find_bucket_fixed mopts ps sz hps hps16 hsz
  have hB : BUCKETS ps * 16 = 2 ^ (ps - 1) := by
    unfold BUCKETS; rw [hC, MALLOC_MINSIZE_eq, two_pow_dvd_form 4 (ps - 1) (by omega)]
    norm_num
    exact Nat.mul_comm _ _
  have hold_le : B2SIZE (find_bucket mopts sz) ≤ MALLOC_MAXCHUNK ps := by
    unfold B2SIZE; rw [MALLOC_MINSIZE_eq, hC, ← hB]
    exact Nat.mul_le_mul_right _ hfb.2.2
  unfold orealloc
  rw [if_neg hp, if_neg (by rw [hlim]; rw [hC] at hsz; omega)]
  apply tot_bind_i
  apply findpool_tot hfind
  apply tot_bind_i
  apply tot_get_i
  dsimp only
  rw [hold]
  have hgt : ¬ B2SIZE (find_bucket mopts sz) > MALLOC_MAXCHUNK ps := by omega
  have hsgt : ¬ sz > MALLOC_MAXCHUNK ps := by omega
  simp only [hgt, hsgt, hR, hflag, false_and, if_false, ne_eq, not_true_eq_false, or_self,
    decide_False, Bool.false_eq_true, not_false_eq_true, true_and, hfix, hold_le, hsz]
  have hcases : (B2SIZE (find_bucket mopts sz) > 0 ∧ sz > 0 ∧ True) ∨
      (¬ (B2SIZE (find_bucket mopts sz) > 0 ∧ sz > 0 ∧ True) ∧
        ¬ (¬ sz = B2SIZE (find_bucket mopts sz) ∨ False) ∧ ¬ ¬ sz = 0) := by
    rcases Nat.eq_zero_or_pos sz with h0 | h0
    · right
      subst h0
      rw [find_bucket_zero]
      refine ⟨by omega, ?_, by omega⟩
      simp [B2SIZE]
    · left
      exact ⟨by omega, h0, trivial⟩
  apply tot_bind_i
  apply tot_ite_i
  · intro _
    apply find_chunknum_check_tot hk
    apply tot_bind_i
    apply tot_pure_i
    dsimp only
    rcases hcases with hc | ⟨hc1, hc2, hc3⟩
    · rw [if_pos hc]
      repeat' first
        | with_reducible apply tot_ite_i
        | with_reducible apply tot_bind_i
        | with_reducible apply tot_pure_i
        | with_reducible apply tot_modify_i
        | (unfold STATS_SETF; with_reducible apply tot_modify_i)
        | intro _
        | rfl
    · rw [if_neg hc1, if_neg hc2, if_neg hc3]
      repeat' first
        | with_reducible apply tot_ite_i
        | with_reducible apply tot_bind_i
        | with_reducible apply tot_pure_i
        | with_reducible apply tot_modify_i
        | (unfold STATS_SETF; with_reducible apply tot_modify_i)
        | intro _
        | rfl
  · intro _
    apply tot_pure_i
    apply tot_bind_i
    apply tot_pure_i
    dsimp only
    rcases hcases with hc | ⟨hc1, hc2, hc3⟩
    · rw [if_pos hc]
      repeat' first
        | with_reducible apply tot_ite_i
        | with_reducible apply tot_bind_i
        | with_reducible apply tot_pure_i
        | with_reducible apply tot_modify_i
        | (unfold STATS_SETF; with_reducible apply tot_modify_i)
        | intro _
        | rfl
    · rw [if_neg hc1, if_neg hc2, if_neg hc3]
      repeat' first
        | with_reducible apply tot_ite_i
        | with_reducible apply tot_bind_i
        | with_reducible apply tot_pure_i
        | with_reducible apply tot_modify_i
        | (unfold STATS_SETF; with_reducible apply tot_modify_i)
        | intro _
        | rfl



theorem orealloc_pages_same {ps : Nat} {mopts : malloc_readonly} {ri p g f : Nat}
    {s : pool_state} {Q : Option Nat → pool_state → Prop}
    (h : ∀ s', Q (some (if MALLOC_MOVE_COND ps mopts g then
        MALLOC_MOVE ps mopts (slot s.d.r ri).p g else (slot s.d.r ri).p)) s') :
    tot (orealloc_pages ps mopts ri p g g f) Q s := by
  unfold orealloc_pages
  apply tot_bind_i
  apply tot_get_i
  dsimp only
  rw [if_neg (by omega), if_neg (by omega), if_neg (by omega)]
  unfold set_region_size STATS_SETF
  apply tot_bind_i
  apply tot_modify_i
  apply tot_bind_i
  apply tot_modify_i
  apply tot_pure_i
  exact h _

theorem orealloc_same_large {ps : Nat} {mopts : malloc_readonly} {p sz f ri : Nat}
    {s : pool_state} (hps : 5 ≤ ps) (hps16 : ps ≤ 16)
    (hg : mopts.malloc_guard = 0 ∨ mopts.malloc_guard = MALLOC_PAGESIZE ps)
    (hp : p ≠ 0) (hR : mopts.malloc_realloc = 0) (hflag : s.d.mmap_flag = 0)
    (hfind : find ps mopts s.d p = .ok (some ri))
    (hbig : MALLOC_MAXCHUNK ps < sz)
    (hlimit : sz < SIZE_MAX - mopts.malloc_guard - MALLOC_PAGESIZE ps)
    (htag : (slot s.d.r ri).p &&& MALLOC_PAGEMASK ps = 0)
    (hsize : (slot s.d.r ri).size = sz + mopts.malloc_guard)
    (hptr : p = if MALLOC_MOVE_COND ps mopts (sz + mopts.malloc_guard) then
        MALLOC_MOVE ps mopts (slot s.d.r ri).p (sz + mopts.malloc_guard)
      else (slot s.d.r ri).p) :
    tot (orealloc ps mopts p sz f) (fun a _ => a = p) s := by
  have hold : REALSIZE ps (slot s.d.r ri) = sz + mopts.malloc_guard := by
    unfold REALSIZE
    simp only [htag, if_true, hsize]
  obtain ⟨hlim, hgle, hle⟩ := limit_eq (by omega : ps ≤ 62) hg
  have hP := MALLOC_PAGESIZE_eq ps
  unfold SIZE_MAX at hlimit
  rw [hP] at hlimit
  have hsub : sub64 (sz + mopts.malloc_guard) mopts.malloc_guard = sz := by
    rw [sub64_eq _ _ (by omega) (by omega)]; omega
  have hadd : add64 sz mopts.malloc_guard = sz + mopts.malloc_guard :=
    add64_eq _ _ (by omega)
  unfold orealloc
  rw [if_neg hp, if_neg (by rw [hlim]; omega)]
  apply tot_bind_i
  apply findpool_tot hfind
  apply tot_bind_i
  apply tot_get_i
  dsimp only
  rw [hold]
  have hgt : sz + mopts.malloc_guard > MALLOC_MAXCHUNK ps := by omega
  have hnle : ¬ sz + mopts.malloc_guard ≤ MALLOC_MAXCHUNK ps := by omega
  have hng : ¬ sz + mopts.malloc_guard < mopts.malloc_guard := by omega
  have hbig2 : sz > MALLOC_MAXCHUNK ps := hbig
  simp only [hgt, hnle, hng, hbig2, hR, hflag, hsub, hadd, false_and, and_false, if_false,
    if_true, ne_eq, not_true_eq_false, or_self, decide_False, Bool.false_eq_true,
    not_false_eq_true, true_and, and_self]
  apply tot_bind_i
  apply tot_pure_i
  apply tot_bind_i
  apply orealloc_pages_same
  intro s'
  apply tot_pure_i
  exact hptr.symm

theorem EPILOGUE_tot {mopts : malloc_readonly} {e r : Nat} {s : pool_state}
    {Q : Nat → pool_state → Prop} (hr : r ≠ 0) (h : Q r { s with errno := e }) :
    tot (EPILOGUE mopts e r) Q s := by
  unfold EPILOGUE
  rw [if_neg (fun h => hr h.1)]
  dsimp only
  rw [if_pos hr]
  apply tot_bind_i
  apply tot_modify_i
  exact tot_pure_i h

/-- C14 (counterexample): in the pool of the `_conceal` functions (`mmap_flag` is
    `MAP_CONCEAL`), without option R, `realloc(p, 100)` of the chunk `p` that
    `malloc(100)` returned gives another chunk; and in an ordinary pool `realloc(p, 3000)`
    of the region that `posix_memalign(&p, 4096, 3000)` returned moves the pointer to
    the end of the page. -/
theorem realloc_same_size_counterexample :
    (malloc_init_mopts 12 [] 7 0 0).malloc_realloc = 0 ∧
    returned ((do
        let p ← malloc 12 (malloc_init_mopts 12 [] 7 0 0) 100 0
        let q ← realloc 12 (malloc_init_mopts 12 [] 7 0 0) p 100 0
        pure (p, q) : Run (Nat × Nat))
      { malloc_init_pool 12 (malloc_init_mopts 12 [] 7 0 0) 0x7000 0 [] with
        env := [0, 0, 0x100000, 0x200000, 0x300000] }) = some (0x100000, 0x100070) ∧
    returned ((do
        let p ← posix_memalign 12 (malloc_init_mopts 12 [] 7 0 0) 4096 3000 0
        let q ← realloc 12 (malloc_init_mopts 12 [] 7 0 0) p.2 3000 0
        pure (p.2, q) : Run (Nat × Nat))
      { malloc_init_pool 12 (malloc_init_mopts 12 [] 7 0 0) 0x7000 1 [] with
        env := [0x100000, 0x200000, 0x300000] }) = some (0x13f000, 0x13f440) := by
  refine ⟨by decide, ?_, ?_⟩
  · set_option maxRecDepth 1000000 in decide
  · set_option maxRecDepth 1000000 in decide

/-- C14 (amended): without option R and outside the `MAP_CONCEAL` pool, `realloc(p, sz)`
    returns `p` when `p` is a chunk whose page is in the directory with the bucket of
    `sz`, and when `p` is the pointer `omalloc` gives for the region recorded in the
    directory with size `sz + guard` (the page base, or the base moved towards the end
    of the page). -/
theorem realloc_same_size (ps : Nat) (mopts : malloc_readonly) (p sz caller ri k : Nat)
    (s : pool_state) (hps : 5 ≤ ps) (hps16 : ps ≤ 16)
    (hg : mopts.malloc_guard = 0 ∨ mopts.malloc_guard = MALLOC_PAGESIZE ps)
    (hp : p ≠ 0) (hR : mopts.malloc_realloc = 0) (hflag : s.d.mmap_flag = 0)
    (hfind : find ps mopts s.d p = .ok (some ri))
    (hlive :
      (sz ≤ MALLOC_MAXCHUNK ps ∧
        (slot s.d.r ri).p &&& MALLOC_PAGEMASK ps = find_bucket mopts sz + 1 ∧
        find_chunknum ps s.d.canary1 (heap_get s (slot s.d.r ri).size) p = .ok k) ∨
      (MALLOC_MAXCHUNK ps < sz ∧
        sz < SIZE_MAX - mopts.malloc_guard - MALLOC_PAGESIZE ps ∧
        (slot s.d.r ri).p &&& MALLOC_PAGEMASK ps = 0 ∧
        (slot s.d.r ri).size = sz + mopts.malloc_guard ∧
        p = if MALLOC_MOVE_COND ps mopts (sz + mopts.malloc_guard) then
            MALLOC_MOVE ps mopts (slot s.d.r ri).p (sz + mopts.malloc_guard)
          else (slot s.d.r ri).p)) :
    returned (realloc ps mopts p sz caller s) = some p := by
  apply tot_returned
  unfold realloc
  apply tot_bind_i
  apply tot_get_i
  apply tot_bind_i
  have hor : tot (orealloc ps mopts p sz (CALLER mopts caller)) (fun a _ => a = p) s := by
    rcases hlive with ⟨h1, h2, h3⟩ | ⟨h1, h2, h3, h4, h5⟩
    · exact orealloc_same_chunk hps hps16 hg hp hR hflag hfind h1 h2 h3
    · exact orealloc_same_large hps hps16 hg hp hR hflag hfind h1 h2 h3 h4 h5
  apply tot_mono hor
  intro a s' ha
  subst ha
  exact EPILOGUE_tot hp rfl

set_option maxRecDepth 1000000 in
/-- C14 (witness): `realloc(p, 100)` of the chunk that `malloc(100)` returned on a fresh
    pool with the default options. -/
theorem realloc_same_size_witness :
    returned (realloc 12 (malloc_init_mopts 12 [] 7 0 0) 0x13f000 100 0
      ((state_after (malloc 12 (malloc_init_mopts 12 [] 7 0 0) 100 0
        { malloc_init_pool 12 (malloc_init_mopts 12 [] 7 0 0) 0x7000 1 [] with
          env := [0, 0, 0x100000, 0x200000, 0x300000] })).getD
        (malloc_init_pool 12 (malloc_init_mopts 12 [] 7 0 0) 0x7000 1 []))) = some 0x13f000 :=
  realloc_same_size 12 (malloc_init_mopts 12 [] 7 0 0) 0x13f000 100 0 321 0 _
    (by decide) (by decide) (by decide) (by decide) (by decide) (by decide) (by decide)
    (Or.inl ⟨by decide, by decide, by decide⟩)

theorem run_bind {α β : Type} (x : Run α) (f : α → Run β) (s : pool_state) :
    (x >>= f) s = (x s).bind (fun p => f p.1 p.2) := rfl

theorem run_pure {α : Type} (a : α) (s : pool_state) : (pure a : Run α) s = .ok (a, s) := rfl

theorem run_get (s : pool_state) : (get : Run pool_state) s = .ok (s, s) := rfl

theorem ok_bind {α β : Type} (a : α) (f : α → Outcome β) : (Outcome.ok a).bind f = f a := rfl

theorem findpool_run {ps : Nat} {mopts : malloc_readonly} {p ri : Nat} {s : pool_state}
    (hfind : find ps mopts s.d p = .ok (some ri)) : findpool ps mopts p s = .ok (ri, s) := by
  unfold findpool
  rw [run_bind, run_get, ok_bind, run_bind]
  dsimp only
  rw [hfind]
  rfl

theorem find_chunknum_check_run {ps : Nat} {info : chunk_info} {ptr k : Nat} {s : pool_state}
    (hk : find_chunknum ps s.d.canary1 info ptr = .ok k) :
    find_chunknum_check ps info ptr 0 s = .ok (k, s) := by
  unfold find_chunknum_check
  rw [run_bind, run_get, ok_bind, run_bind]
  dsimp only
  rw [hk]
  rfl

theorem orealloc_zero {ps : Nat} {mopts : malloc_readonly} {p f ri k : Nat}
    {s : pool_state} (hps : ps ≤ 62)
    (hg : mopts.malloc_guard = 0 ∨ mopts.malloc_guard = MALLOC_PAGESIZE ps)
    (hp : p ≠ 0)
    (hfind : find ps mopts s.d p = .ok (some ri))
    (hsize : REALSIZE ps (slot s.d.r ri) ≠ 0 ∨ mopts.malloc_realloc ≠ 0 ∨ s.d.mmap_flag ≠ 0)
    (hk : REALSIZE ps (slot s.d.r ri) ≤ MALLOC_MAXCHUNK ps →
      find_chunknum ps s.d.canary1 (heap_get s (slot s.d.r ri).size) p = .ok k)
    (hguard : REALSIZE ps (slot s.d.r ri) > MALLOC_MAXCHUNK ps →
      mopts.malloc_guard < REALSIZE ps (slot s.d.r ri) ∧ REALSIZE ps (slot s.d.r ri) < 2 ^ 64) :
    orealloc ps mopts p 0 f s =
      (omalloc ps mopts 0 0 f >>= fun q =>
        if q = 0 then pure 0 else ofree ps mopts p 0 0 0 >>= fun _ => pure q) s := by
  obtain ⟨hlim, hgle, hle⟩ := limit_eq hps hg
  unfold orealloc
  rw [if_neg hp, if_neg (by rw [hlim]; omega), run_bind, findpool_run hfind, ok_bind,
    run_bind, run_get, ok_bind]
  dsimp only
  generalize hold : REALSIZE ps (slot s.d.r ri) = oldsz at hsize hk hguard
  have hchunk : (if oldsz ≤ MALLOC_MAXCHUNK ps ∧
        (mopts.malloc_stats ≠ 0 ∨ mopts.chunk_canaries ≠ 0) then
        find_chunknum_check ps (heap_get s (slot s.d.r ri).size) p 0
      else pure 0) s = .ok ((if oldsz ≤ MALLOC_MAXCHUNK ps ∧
        (mopts.malloc_stats ≠ 0 ∨ mopts.chunk_canaries ≠ 0) then k else 0), s) := by
    by_cases hc : oldsz ≤ MALLOC_MAXCHUNK ps ∧
        (mopts.malloc_stats ≠ 0 ∨ mopts.chunk_canaries ≠ 0)
    · rw [if_pos hc, if_pos hc]; exact find_chunknum_check_run (hk hc.1)
    · rw [if_neg hc, if_neg hc]; rfl
  rw [run_bind, hchunk, ok_bind]
  dsimp only
  have hC0 : ¬ (0 > MALLOC_MAXCHUNK ps) := by omega
  have hgs : ¬ (oldsz > MALLOC_MAXCHUNK ps ∧ oldsz < mopts.malloc_guard) := by
    intro h; have := hguard h.1; omega
  rw [if_neg hgs]
  have hne : (0 ≠ (if oldsz > MALLOC_MAXCHUNK ps then sub64 oldsz mopts.malloc_guard
      else oldsz)) ∨ decide (mopts.malloc_realloc ≠ 0 ∨ s.d.mmap_flag ≠ 0) = true := by
    by_cases hf : mopts.malloc_realloc ≠ 0 ∨ s.d.mmap_flag ≠ 0
    · right; exact decide_eq_true hf
    · left
      have h0 : oldsz ≠ 0 := by
        rcases hsize with h | h | h
        · exact h
        · exact absurd (Or.inl h) hf
        · exact absurd (Or.inr h) hf
      by_cases hb : oldsz > MALLOC_MAXCHUNK ps
      · rw [if_pos hb]
        have := hguard hb
        rw [sub64_eq _ _ this.2 (by omega)]
        omega
      · rw [if_neg hb]; omega
  simp only [hC0, false_and, if_false, gt_iff_lt, lt_self_iff_false, and_false]
  rw [run_bind, run_pure, ok_bind]
  dsimp only
  rw [if_pos hne]

set_option maxRecDepth 1000000 in
/-- C16 (counterexample): `p = malloc(0)` is a live non-null pointer, and without option
    R `realloc(p, 0)` returns `p` itself and leaves the pool as it was: nothing is
    allocated and nothing is freed. -/
theorem realloc_zero_counterexample :
    returned ((do
        let p ← malloc 12 (malloc_init_mopts 12 [] 7 0 0) 0 0
        let s1 ← get
        let q ← realloc 12 (malloc_init_mopts 12 [] 7 0 0) p 0 0
        let s2 ← get
        pure (p, q, decide (s1 = s2)) : Run (Nat × Nat × Bool))
      { malloc_init_pool 12 (malloc_init_mopts 12 [] 7 0 0) 0x7000 1 [] with
        env := [0, 0, 0x100000, 0, 0x200000, 0x300000] }) =
      some (0x13f000, 0x13f000, true) := by
  decide

/-- C16 (amended): for a non-null pointer `p` found in the directory whose allocation
    is not itself of size zero (or when reallocation is forced by option R or by the
    `MAP_CONCEAL` pool), `realloc(p, 0)` is: `omalloc` of 0 bytes, which is
    `malloc_bytes` for bucket 0; if that fails, `NULL`; otherwise `ofree` of `p` and the
    new chunk as result; then `EPILOGUE`. -/
theorem realloc_zero_spec (ps : Nat) (mopts : malloc_readonly) (p caller ri k : Nat)
    (s : pool_state) (hps : ps ≤ 62)
    (hg : mopts.malloc_guard = 0 ∨ mopts.malloc_guard = MALLOC_PAGESIZE ps)
    (hp : p ≠ 0)
    (hfind : find ps mopts s.d p = .ok (some ri))
    (hsize : REALSIZE ps (slot s.d.r ri) ≠ 0 ∨ mopts.malloc_realloc ≠ 0 ∨ s.d.mmap_flag ≠ 0)
    (hk : REALSIZE ps (slot s.d.r ri) ≤ MALLOC_MAXCHUNK ps →
      find_chunknum ps s.d.canary1 (heap_get s (slot s.d.r ri).size) p = .ok k)
    (hguard : REALSIZE ps (slot s.d.r ri) > MALLOC_MAXCHUNK ps →
      mopts.malloc_guard < REALSIZE ps (slot s.d.r ri) ∧ REALSIZE ps (slot s.d.r ri) < 2 ^ 64) :
    realloc ps mopts p 0 caller s =
      ((omalloc ps mopts 0 0 (CALLER mopts caller) >>= fun q =>
          if q = 0 then pure 0 else ofree ps mopts p 0 0 0 >>= fun _ => pure q) >>=
        fun r => EPILOGUE mopts s.errno r) s ∧
    omalloc ps mopts 0 0 (CALLER mopts caller) = malloc_bytes ps mopts 0 (CALLER mopts caller) ∧
    find_bucket mopts 0 = 0 ∧ B2SIZE 0 = 0 := by
  refine ⟨?_, ?_, find_bucket_zero mopts, by decide⟩
  · unfold realloc
    rw [run_bind, run_get, ok_bind]
    dsimp only
    rw [run_bind, orealloc_zero hps hg hp hfind hsize hk hguard, run_bind]
    rfl
  · unfold omalloc
    rw [if_neg (by omega)]

set_option maxRecDepth 1000000 in
/-- C16 (witness): `realloc(p, 0)` of the chunk that `malloc(100)` returned on a fresh
    pool: the result is the bucket-0 chunk `0x109000`. -/
theorem realloc_zero_spec_witness :
    returned (realloc 12 (malloc_init_mopts 12 [] 7 0 0) 0x13f000 0 0
      ((state_after (malloc 12 (malloc_init_mopts 12 [] 7 0 0) 100 0
        { malloc_init_pool 12 (malloc_init_mopts 12 [] 7 0 0) 0x7000 1 [] with
          env := [0, 0, 0x100000, 0x200000, 0x300000, 0, 0, 0, 9, 0, 5] })).getD
        (malloc_init_pool 12 (malloc_init_mopts 12 [] 7 0 0) 0x7000 1 []))) =
      some 0x109000 := by
  rw [(realloc_zero_spec 12 (malloc_init_mopts 12 [] 7 0 0) 0x13f000 0 321 0 _
    (by decide) (by decide) (by decide) (by decide) (by decide) (by decide) (by decide)).1]
  decide

set_option maxRecDepth 1000000 in
/-- C20 (counterexample): with options "cfgjs" on a fresh pool, the first `malloc(17)`
    draws list 0 and the second draws list 1, which is empty: the second chunk comes
    from a new chunk page, `0x109000` instead of `0x13f000`. -/
theorem malloc_same_page_counterexample :
    returned ((do
        let p ← malloc 12 (malloc_init_mopts 12 "cfgjs".toList 7 0 0) 17 0
        free 12 (malloc_init_mopts 12 "cfgjs".toList 7 0 0) p
        let q ← malloc 12 (malloc_init_mopts 12 "cfgjs".toList 7 0 0) 17 0
        pure (p, q, MASK_POINTER 12 p, MASK_POINTER 12 q) : Run (Nat × Nat × Nat × Nat))
      { malloc_init_pool 12 (malloc_init_mopts 12 "cfgjs".toList 7 0 0) 0x7000 1 [] with
        env := [0, 0, 0x100000, 0x200000, 0x300000, 5, 0, 1, 9] }) =
      some (0x13f000, 0x109000, 0x13f000, 0x109000) := by
  decide

/-! ## Alignment of the pool and of the pointers returned -/

/-! ## Lemmas on the alignment invariant -/

theorem getD_set_if {α : Type} (l : List α) (i j : Nat) (x d : α) :
    (l.set i x).getD j d = if j = i ∧ i < l.length then x else l.getD j d := by
  by_cases h : j = i ∧ i < l.length
  · rw [if_pos h]
    obtain ⟨rfl, h2⟩ := h
    simp [List.getD_eq_getElem?_getD, List.getElem?_set, h2]
  · rw [if_neg h]
    by_cases hj : j = i
    · subst hj
      have : ¬ j < l.length := fun h2 => h ⟨rfl, h2⟩
      rw [List.getD_eq_default _ _ (by rw [List.length_set]; omega),
        List.getD_eq_default _ _ (by omega)]
    · simp [List.getD_eq_getElem?_getD, List.getElem?_set, Ne.symm hj]

theorem mem_getD_of_ne_default {α : Type} (l : List α) (i : Nat) (d : α) :
    l.getD i d ∈ l ∨ l.getD i d = d := by
  by_cases h : i < l.length
  · left
    rw [List.getD_eq_getElem _ _ h]
    exact List.getElem_mem h
  · right
    exact List.getD_eq_default _ _ (by omega)

theorem aligned_heap_get {ps : Nat} {r : List region_info} {a : Nat} {h : List chunk_info}
    {cil : List (List Nat)} {cd : List (List (List Nat))} {sc : List smallcache}
    {bc : List bigcache} (hal : aligned_core ps r a h cil cd sc bc) (bp : Nat) :
    (h.getD bp ⟨0, 0, 0, 0, 0, 0, []⟩).page % 2 ^ ps = 0 := by
  rcases mem_getD_of_ne_default h bp ⟨0, 0, 0, 0, 0, 0, []⟩ with hm | hd
  · exact hal.2.2.1 _ hm
  · rw [hd]; exact Nat.zero_mod _

theorem aligned_smallcache {ps : Nat} {r : List region_info} {a : Nat} {h : List chunk_info}
    {cil : List (List Nat)} {cd : List (List (List Nat))} {sc : List smallcache}
    {bc : List bigcache} (hal : aligned_core ps r a h cil cd sc bc) (j : Nat)
    (c : smallcache) (hc : ∀ x ∈ c.pages, (x &&& not64 1) % 2 ^ ps = 0) :
    aligned_core ps r a h cil cd (sc.set j c) bc := by
  refine ⟨?_, hal.2⟩
  intro c' hc' x hx
  rcases List.mem_or_eq_of_mem_set hc' with h1 | h1
  · exact hal.1 c' h1 x hx
  · subst h1; exact hc x hx

theorem aligned_smallcache_get {ps : Nat} {r : List region_info} {a : Nat}
    {h : List chunk_info} {cil : List (List Nat)} {cd : List (List (List Nat))}
    {sc : List smallcache} {bc : List bigcache}
    (hal : aligned_core ps r a h cil cd sc bc) (j : Nat) :
    ∀ x ∈ (sc.getD j ⟨[], 0, 0⟩).pages, (x &&& not64 1) % 2 ^ ps = 0 := by
  rcases mem_getD_of_ne_default sc j ⟨[], 0, 0⟩ with hm | hd
  · exact hal.1 _ hm
  · rw [hd]; intro x hx; exact absurd hx (List.not_mem_nil _)

theorem aligned_bigcache {ps : Nat} {r : List region_info} {a : Nat} {h : List chunk_info}
    {cil : List (List Nat)} {cd : List (List (List Nat))} {sc : List smallcache}
    {bc : List bigcache} (hal : aligned_core ps r a h cil cd sc bc) (i : Nat)
    (e : bigcache) (he : e.page % 2 ^ ps = 0) :
    aligned_core ps r a h cil cd sc (bc.set i e) := by
  refine ⟨hal.1, ?_, hal.2.2⟩
  intro e' he'
  rcases List.mem_or_eq_of_mem_set he' with h1 | h1
  · exact hal.2.1 e' h1
  · subst h1; exact he

theorem aligned_bigcache_get {ps : Nat} {r : List region_info} {a : Nat}
    {h : List chunk_info} {cil : List (List Nat)} {cd : List (List (List Nat))}
    {sc : List smallcache} {bc : List bigcache}
    (hal : aligned_core ps r a h cil cd sc bc) (i : Nat) :
    (bc.getD i ⟨0, 0⟩).page % 2 ^ ps = 0 := by
  rcases mem_getD_of_ne_default bc i ⟨0, 0⟩ with hm | hd
  · exact hal.2.1 _ hm
  · rw [hd]; exact Nat.zero_mod _

theorem aligned_dir {ps : Nat} {r r2 : List region_info} {a a2 : Nat} {h : List chunk_info}
    {cil : List (List Nat)} {cd : List (List (List Nat))} {sc : List smallcache}
    {bc : List bigcache} (hal : aligned_core ps r a h cil cd sc bc)
    (hr : ∀ e ∈ r2, e.p &&& MALLOC_PAGEMASK ps ≤ BUCKETS ps + 1) (ha : a2 % 2 ^ ps = 0) :
    aligned_core ps r2 a2 h cil cd sc bc :=
  ⟨hal.1, hal.2.1, hal.2.2.1, hr, ha, hal.2.2.2.2.2⟩

/-- A store into a `chunk_info` that keeps its bucket and its `total`. -/
theorem aligned_heap_set {ps : Nat} {r : List region_info} {a : Nat} {h : List chunk_info}
    {cil : List (List Nat)} {cd : List (List (List Nat))} {sc : List smallcache}
    {bc : List bigcache} (hal : aligned_core ps r a h cil cd sc bc) (bp : Nat)
    (ci : chunk_info) (hpage : ci.page % 2 ^ ps = 0)
    (hb : ci.bucket = (h.getD bp ⟨0, 0, 0, 0, 0, 0, []⟩).bucket)
    (ht : ci.total = (h.getD bp ⟨0, 0, 0, 0, 0, 0, []⟩).total) :
    aligned_core ps r a (h.set bp ci) cil cd sc bc := by
  obtain ⟨h1, h2, h3, h4, h5, h6, h7, h8⟩ := hal
  have hget : ∀ x, ((h.set bp ci).getD x ⟨0, 0, 0, 0, 0, 0, []⟩).bucket =
      (h.getD x ⟨0, 0, 0, 0, 0, 0, []⟩).bucket ∧
      ((h.set bp ci).getD x ⟨0, 0, 0, 0, 0, 0, []⟩).total =
      (h.getD x ⟨0, 0, 0, 0, 0, 0, []⟩).total := by
    intro x
    rw [getD_set_if]
    by_cases hx : x = bp ∧ bp < h.length
    · rw [if_pos hx, hx.1]; exact ⟨hb, ht⟩
    · rw [if_neg hx]; exact ⟨rfl, rfl⟩
  refine ⟨h1, h2, ?_, h4, h5, ?_, ?_, ?_⟩
  · intro c hc
    rcases List.mem_or_eq_of_mem_set hc with hm | hm
    · exact h3 c hm
    · subst hm; exact hpage
  · intro b l x hx
    rw [(hget x).1]; exact h6 b l x hx
  · intro b x hx ht2
    rw [(hget x).1]; rw [(hget x).2] at ht2; exact h7 b x hx ht2
  · intro b x hb0 hx
    rw [List.length_set]; exact h8 b x hb0 hx

theorem getD_map_default {α β : Type} (f : α → β) (l : List α) (i : Nat) (d : α) :
    (l.map f).getD i (f d) = f (l.getD i d) := by
  rw [List.getD_eq_getElem?_getD, List.getD_eq_getElem?_getD, List.getElem?_map]
  cases l[i]? <;> rfl

theorem mem_getD_map_filter {cil : List (List Nat)} {b x p : Nat}
    (hx : x ∈ (cil.map (fun l => l.filter (fun y => decide (y ≠ p)))).getD b []) :
    x ∈ cil.getD b [] ∧ x ≠ p := by
  have e : (cil.map (fun l => l.filter (fun y => decide (y ≠ p)))).getD b [] =
      (cil.getD b []).filter (fun y => decide (y ≠ p)) :=
    getD_map_default (fun l : List Nat => l.filter (fun y => decide (y ≠ p))) cil b []
  rw [e] at hx
  simpa using hx

theorem mem_getD_map_map_filter {cd : List (List (List Nat))} {b l x p : Nat}
    (hx : x ∈ ((cd.map (fun ls => ls.map (fun l => l.filter (fun y => decide (y ≠ p))))).getD
      b []).getD l []) :
    x ∈ (cd.getD b []).getD l [] ∧ x ≠ p := by
  have e : (cd.map (fun ls => ls.map (fun l => l.filter (fun y => decide (y ≠ p))))).getD
      b [] = (cd.getD b []).map (fun l => l.filter (fun y => decide (y ≠ p))) :=
    getD_map_default
      (fun ls : List (List Nat) => ls.map (fun l => l.filter (fun y => decide (y ≠ p)))) cd b []
  rw [e] at hx
  exact mem_getD_map_filter hx

/-- `LIST_REMOVE(p)` followed by a store into the `chunk_info` `p`. -/
theorem aligned_remove_set {ps : Nat} {r : List region_info} {a : Nat} {h : List chunk_info}
    {cil : List (List Nat)} {cd : List (List (List Nat))} {sc : List smallcache}
    {bc : List bigcache} (hal : aligned_core ps r a h cil cd sc bc) (p : Nat)
    (ci : chunk_info) (hpage : ci.page % 2 ^ ps = 0) :
    aligned_core ps r a (h.set p ci)
      (cil.map (fun l => l.filter (fun y => decide (y ≠ p))))
      (cd.map (fun ls => ls.map (fun l => l.filter (fun y => decide (y ≠ p))))) sc bc := by
  obtain ⟨h1, h2, h3, h4, h5, h6, h7, h8⟩ := hal
  have hget : ∀ x, x ≠ p → (h.set p ci).getD x ⟨0, 0, 0, 0, 0, 0, []⟩ =
      h.getD x ⟨0, 0, 0, 0, 0, 0, []⟩ := by
    intro x hx
    rw [getD_set_if, if_neg (fun hc => hx hc.1)]
  refine ⟨h1, h2, ?_, h4, h5, ?_, ?_, ?_⟩
  · intro c hc
    rcases List.mem_or_eq_of_mem_set hc with hm | hm
    · exact h3 c hm
    · subst hm; exact hpage
  · intro b l x hx
    obtain ⟨hx1, hx2⟩ := mem_getD_map_map_filter hx
    rw [hget x hx2]; exact h6 b l x hx1
  · intro b x hx ht2
    obtain ⟨hx1, hx2⟩ := mem_getD_map_filter hx
    rw [hget x hx2] at ht2 ⊢; exact h7 b x hx1 ht2
  · intro b x hb0 hx
    rw [List.length_set]; exact h8 b x hb0 (mem_getD_map_filter hx).1

/-- `LIST_REMOVE(p)`. -/
theorem aligned_remove {ps : Nat} {r : List region_info} {a : Nat} {h : List chunk_info}
    {cil : List (List Nat)} {cd : List (List (List Nat))} {sc : List smallcache}
    {bc : List bigcache} (hal : aligned_core ps r a h cil cd sc bc) (p : Nat) :
    aligned_core ps r a h
      (cil.map (fun l => l.filter (fun y => decide (y ≠ p))))
      (cd.map (fun ls => ls.map (fun l => l.filter (fun y => decide (y ≠ p))))) sc bc := by
  obtain ⟨h1, h2, h3, h4, h5, h6, h7, h8⟩ := hal
  refine ⟨h1, h2, h3, h4, h5, ?_, ?_, ?_⟩
  · intro b l x hx
    exact h6 b l x (mem_getD_map_map_filter hx).1
  · intro b x hx ht2
    exact h7 b x (mem_getD_map_filter hx).1 ht2
  · intro b x hb0 hx
    exact h8 b x hb0 (mem_getD_map_filter hx).1

/-- `LIST_INSERT_HEAD(&d->chunk_dir[b][l], bp, entries)`. -/
theorem aligned_dir_insert {ps : Nat} {r : List region_info} {a : Nat} {h : List chunk_info}
    {cil : List (List Nat)} {cd : List (List (List Nat))} {sc : List smallcache}
    {bc : List bigcache} (hal : aligned_core ps r a h cil cd sc bc) (b l bp : Nat)
    (hb : (h.getD bp ⟨0, 0, 0, 0, 0, 0, []⟩).bucket = b) :
    aligned_core ps r a h cil
      (cd.set b ((cd.getD b []).set l (bp :: (cd.getD b []).getD l []))) sc bc := by
  obtain ⟨h1, h2, h3, h4, h5, h6, h7, h8⟩ := hal
  refine ⟨h1, h2, h3, h4, h5, ?_, h7, h8⟩
  intro b' l' x hx
  rw [getD_set_if] at hx
  by_cases hc : b' = b ∧ b < cd.length
  · rw [if_pos hc, getD_set_if] at hx
    obtain ⟨rfl, _⟩ := hc
    by_cases hl : l' = l ∧ l < (cd.getD b' []).length
    · rw [if_pos hl] at hx
      rcases List.mem_cons.1 hx with he | hm
      · rw [he]; exact hb
      · exact h6 b' l x hm
    · rw [if_neg hl] at hx
      exact h6 b' l' x hx
  · rw [if_neg hc] at hx
    exact h6 b' l' x hx

/-- `LIST_INSERT_HEAD(&d->chunk_info_list[b], bp, entries)`. -/
theorem aligned_info_insert {ps : Nat} {r : List region_info} {a : Nat}
    {h : List chunk_info} {cil : List (List Nat)} {cd : List (List (List Nat))}
    {sc : List smallcache} {bc : List bigcache}
    (hal : aligned_core ps r a h cil cd sc bc) (b bp : Nat)
    (hb : (h.getD bp ⟨0, 0, 0, 0, 0, 0, []⟩).total ≠ 0 →
      (h.getD bp ⟨0, 0, 0, 0, 0, 0, []⟩).bucket = b)
    (hlen : b ≠ 0 → bp < h.length) :
    aligned_core ps r a h (cil.set b (bp :: cil.getD b [])) cd sc bc := by
  obtain ⟨h1, h2, h3, h4, h5, h6, h7, h8⟩ := hal
  have hmem : ∀ b' x, x ∈ (cil.set b (bp :: cil.getD b [])).getD b' [] →
      x ∈ cil.getD b' [] ∨ (b' = b ∧ x = bp) := by
    intro b' x hx
    rw [getD_set_if] at hx
    by_cases hc : b' = b ∧ b < cil.length
    · rw [if_pos hc] at hx
      rcases List.mem_cons.1 hx with he | hm
      · exact Or.inr ⟨hc.1, he⟩
      · left; rw [hc.1]; exact hm
    · rw [if_neg hc] at hx; exact Or.inl hx
  refine ⟨h1, h2, h3, h4, h5, h6, ?_, ?_⟩
  · intro b' x hx ht
    rcases hmem b' x hx with hm | ⟨rfl, rfl⟩
    · exact h7 b' x hm ht
    · exact hb ht
  · intro b' x hb0 hx
    rcases hmem b' x hx with hm | ⟨rfl, rfl⟩
    · exact h8 b' x hb0 hm
    · exact hlen hb0

theorem keeps_weaken {R R2 : pool_state → pool_state → Prop} {α : Type} {m : Run α}
    (hm : keeps R m) (hin : ∀ z s, R2 z s → ∃ y, R y s ∧ ∀ s', R y s' → R2 z s') :
    keeps R2 m := by
  apply keeps_intro
  intro z s Q h hQ
  obtain ⟨y, hy, hback⟩ := hin z s h
  exact keeps_wp y hm hy (fun a s' h' => hQ a s' (hback s' h'))

theorem aligned_of_heap {ps : Nat} {α : Type} {m : Run α} (hm : keeps (aligned_heap ps) m) :
    keeps (aligned_rel ps) m :=
  keeps_weaken hm (fun _ s h => ⟨s, ⟨h, rfl⟩, fun _ h' => h'.1⟩)

theorem getrbyte_ah {ps : Nat} : keeps (aligned_heap ps) getrbyte := by
  unfold getrbyte
  apply keeps_intro
  intro z s Q h hQ
  repeat' first
    | with_reducible apply wp_bind_i
    | with_reducible apply wp_env_next_i
    | with_reducible apply wp_pure_i
    | with_reducible assumption
    | with_reducible apply hQ
    | intro _

theorem os_munmap_ah {ps a sz : Nat} : keeps (aligned_heap ps) (os_munmap a sz) := by
  unfold os_munmap
  apply keeps_intro
  intro z s Q h hQ
  repeat' first
    | with_reducible apply wp_ite_i
    | with_reducible apply wp_bind_i
    | with_reducible apply wp_env_next_i
    | with_reducible apply wp_pure_i
    | with_reducible apply wp_modify_i
    | with_reducible assumption
    | with_reducible apply hQ
    | intro _

theorem os_mprotect_ah {ps : Nat} : keeps (aligned_heap ps) os_mprotect := by
  unfold os_mprotect
  apply keeps_intro
  intro z s Q h hQ
  repeat' first
    | with_reducible apply wp_ite_i
    | with_reducible apply wp_bind_i
    | with_reducible apply wp_env_next_i
    | with_reducible apply wp_pure_i
    | with_reducible apply wp_modify_i
    | with_reducible assumption
    | with_reducible apply hQ
    | intro _

theorem validate_junk_ah {ps p sz : Nat} : keeps (aligned_heap ps) (validate_junk p sz) := by
  unfold validate_junk
  apply keeps_intro
  intro z s Q h hQ
  repeat' first
    | with_reducible apply wp_ite_i
    | with_reducible apply wp_bind_i
    | with_reducible apply wp_env_next_i
    | with_reducible apply wp_pure_i
    | with_reducible apply wp_get_i
    | with_reducible exact wp_wrterror_i
    | with_reducible assumption
    | with_reducible apply hQ
    | intro _

theorem validate_canary_ah {ps p sz allocated : Nat} :
    keeps (aligned_heap ps) (validate_canary p sz allocated) := by
  unfold validate_canary
  apply keeps_intro
  intro z s Q h hQ
  repeat' first
    | with_reducible apply wp_ite_i
    | with_reducible apply wp_bind_i
    | with_reducible apply wp_env_next_i
    | with_reducible apply wp_pure_i
    | with_reducible exact wp_wrterror_i
    | with_reducible assumption
    | with_reducible apply hQ
    | intro _

theorem mmap_free_aligned {ps : Nat} {mapped : List Nat} {a sz : Nat}
    (h : mmap_free ps mapped a sz = true) : a % 2 ^ ps = 0 := by
  unfold mmap_free at h
  rw [Bool.and_eq_true, decide_eq_true_eq, MALLOC_PAGESIZE_eq] at h
  exact h.1.2.1

/-- `MMAP`: the result is `MAP_FAILED` or page-aligned. -/
theorem os_mmap_ah {ps sz : Nat} (z : pool_state) {s : pool_state}
    {Q : Nat → pool_state → Prop} (h : aligned_heap ps z s)
    (hQ : ∀ a s', aligned_heap ps z s' → (a = MAP_FAILED ∨ a % 2 ^ ps = 0) → Q a s') :
    wp (os_mmap ps sz) Q s := by
  unfold os_mmap
  apply wp_bind_i
  apply wp_env_next_i
  apply wp_bind_i
  apply wp_get_i
  apply wp_ite_i
  · intro hc
    apply wp_bind_i
    apply wp_set_i
    apply wp_pure_i
    exact hQ _ _ h (Or.inr (mmap_free_aligned hc))
  · intro _
    apply wp_bind_i
    apply wp_set_i
    apply wp_pure_i
    exact hQ _ _ h (Or.inl rfl)

theorem os_mmap_fixed_ah {ps a sz : Nat} : keeps (aligned_heap ps) (os_mmap_fixed ps a sz) := by
  unfold os_mmap_fixed
  apply keeps_intro
  intro z s Q h hQ
  repeat' first
    | with_reducible apply wp_ite_i
    | with_reducible apply wp_bind_i
    | with_reducible apply wp_env_next_i
    | with_reducible apply wp_pure_i
    | with_reducible apply wp_get_i
    | with_reducible apply wp_set_i
    | with_reducible assumption
    | with_reducible apply hQ
    | intro _

theorem mod_pow_zero_iff (x n : Nat) : x % 2 ^ n = 0 ↔ ∀ i < n, x.testBit i = false := by
  constructor
  · intro h i hi
    have := Nat.testBit_mod_two_pow x n i
    rw [h, Nat.zero_testBit] at this
    simpa [hi] using this.symm
  · intro h
    apply Nat.eq_of_testBit_eq
    intro i
    rw [Nat.testBit_mod_two_pow, Nat.zero_testBit]
    by_cases hi : i < n
    · simp [h i hi]
    · simp [hi]

theorem and_aligned {x n : Nat} (m : Nat) (h : x % 2 ^ n = 0) : (x &&& m) % 2 ^ n = 0 := by
  rw [mod_pow_zero_iff] at h ⊢
  intro i hi
  rw [Nat.testBit_and, h i hi, Bool.false_and]

theorem add64_aligned {x y n : Nat} (hn : n ≤ 64) (hx : x % 2 ^ n = 0) (hy : y % 2 ^ n = 0) :
    add64 x y % 2 ^ n = 0 := by
  unfold add64
  rw [Nat.mod_mod_of_dvd _ (Nat.pow_dvd_pow 2 hn)]
  exact Nat.mod_eq_zero_of_dvd
    (Nat.dvd_add (Nat.dvd_of_mod_eq_zero hx) (Nat.dvd_of_mod_eq_zero hy))

theorem aligned_pages_set {ps : Nat} {l : List Nat}
    (hl : ∀ x ∈ l, (x &&& not64 1) % 2 ^ ps = 0) (i p : Nat)
    (hp : (p &&& not64 1) % 2 ^ ps = 0) : ∀ x ∈ l.set i p, (x &&& not64 1) % 2 ^ ps = 0 := by
  intro x hx
  rcases List.mem_or_eq_of_mem_set hx with h | h
  · exact hl x h
  · rw [h]; exact hp

theorem unmap_big_ah {ps : Nat} {mopts : malloc_readonly} {p sz psz : Nat}
    (hp : p % 2 ^ ps = 0) : keeps (aligned_heap ps) (unmap_big ps mopts p sz psz) := by
  unfold unmap_big
  apply keeps_intro
  rintro z s Q ⟨hal, hheap⟩ hQ
  repeat' first
    | with_reducible apply wp_ite_i
    | with_reducible apply wp_bind_i
    | with_reducible apply wp_pure_i
    | with_reducible apply wp_get_i
    | with_reducible apply wp_set_i
    | with_reducible apply wp_modify_i
    | with_reducible exact wp_wrterror_i
    | with_reducible exact wp_undefined_i
    | with_reducible exact wp_diverges_i
    | with_reducible apply keeps_wp z getrbyte_ah
    | with_reducible apply keeps_wp z validate_junk_ah
    | with_reducible apply keeps_wp z os_munmap_ah
    | with_reducible apply keeps_wp z os_mprotect_ah
    | with_reducible exact ⟨by assumption, by assumption⟩
    | with_reducible apply hQ
    | rintro _ s ⟨hal, hheap⟩
    | intro _
    | split
    | dsimp only
  all_goals exact ⟨aligned_bigcache hal _ _ hp, hheap⟩

theorem unmap_small_ah {ps : Nat} {mopts : malloc_readonly} {p sz psz : Nat}
    (hp : p % 2 ^ ps = 0) : keeps (aligned_heap ps) (unmap_small mopts p sz psz) := by
  unfold unmap_small
  apply keeps_intro
  rintro z s Q ⟨hal, hheap⟩ hQ
  repeat' first
    | with_reducible apply wp_ite_i
    | with_reducible apply wp_bind_i
    | with_reducible apply wp_pure_i
    | with_reducible apply wp_get_i
    | with_reducible apply wp_set_i
    | with_reducible apply wp_modify_i
    | with_reducible exact wp_wrterror_i
    | with_reducible exact wp_undefined_i
    | with_reducible exact wp_diverges_i
    | with_reducible apply keeps_wp z getrbyte_ah
    | with_reducible apply keeps_wp z validate_junk_ah
    | with_reducible apply keeps_wp z os_munmap_ah
    | with_reducible apply keeps_wp z os_mprotect_ah
    | with_reducible exact ⟨by assumption, by assumption⟩
    | with_reducible apply hQ
    | rintro _ s ⟨hal, hheap⟩
    | intro _
    | split
    | dsimp only
  all_goals exact ⟨aligned_smallcache hal _ _ (aligned_pages_set
    (aligned_smallcache_get (by assumption) _) _ _ (and_aligned _ hp)), hheap⟩

theorem unmap_ah {ps : Nat} {mopts : malloc_readonly} {p sz clear : Nat}
    (hp : p % 2 ^ ps = 0) : keeps (aligned_heap ps) (unmap ps mopts p sz clear) := by
  unfold unmap
  apply keeps_intro
  rintro z s Q ⟨hal, hheap⟩ hQ
  repeat' first
    | with_reducible apply wp_ite_i
    | with_reducible apply wp_bind_i
    | with_reducible apply wp_pure_i
    | with_reducible apply wp_get_i
    | with_reducible apply wp_set_i
    | with_reducible apply wp_modify_i
    | with_reducible exact wp_wrterror_i
    | with_reducible exact wp_undefined_i
    | with_reducible exact wp_diverges_i
    | with_reducible apply keeps_wp z getrbyte_ah
    | with_reducible apply keeps_wp z validate_junk_ah
    | with_reducible apply keeps_wp z os_munmap_ah
    | with_reducible apply keeps_wp z os_mprotect_ah
    | with_reducible apply keeps_wp z (unmap_big_ah hp)
    | with_reducible apply keeps_wp z (unmap_small_ah hp)
    | with_reducible exact ⟨by assumption, by assumption⟩
    | with_reducible apply hQ
    | rintro _ s ⟨hal, hheap⟩
    | intro _
    | split
    | dsimp only

theorem map_big_ah {ps : Nat} {mopts : malloc_readonly} {sz psz : Nat} (z : pool_state)
    {s : pool_state} {Q : Option Nat → pool_state → Prop} (h : aligned_heap ps z s)
    (hQ : ∀ a s', aligned_heap ps z s' → (∀ p, a = some p → p % 2 ^ ps = 0) → Q a s') :
    wp (map_big mopts sz psz) Q s := by
  unfold map_big
  obtain ⟨hal, hheap⟩ := h
  repeat' first
    | with_reducible apply wp_ite_i
    | with_reducible apply wp_bind_i
    | with_reducible apply wp_pure_i
    | with_reducible apply wp_get_i
    | with_reducible apply wp_set_i
    | with_reducible apply wp_modify_i
    | with_reducible exact wp_wrterror_i
    | with_reducible exact wp_undefined_i
    | with_reducible exact wp_diverges_i
    | with_reducible apply keeps_wp z getrbyte_ah
    | with_reducible apply keeps_wp z validate_junk_ah
    | with_reducible apply keeps_wp z os_munmap_ah
    | with_reducible apply keeps_wp z os_mprotect_ah
    | with_reducible exact ⟨by assumption, by assumption⟩
    | with_reducible apply hQ
    | rintro _ s ⟨hal, hheap⟩
    | intro _
    | split
    | dsimp only
  all_goals first
    | exact ⟨aligned_bigcache hal _ _ (Nat.zero_mod _), hheap⟩
    | (rename_i p hp; cases hp <;> exact aligned_bigcache_get (by assumption) _)

theorem or_one_and_aligned {x n : Nat} (h : x % 2 ^ n = 0) :
    ((x ||| 1) &&& not64 1) % 2 ^ n = 0 := by
  rw [mod_pow_zero_iff] at h ⊢
  intro i hi
  rw [Nat.testBit_and, Nat.testBit_or, h i hi, Bool.false_or]
  rcases Nat.eq_zero_or_pos i with h0 | h0
  · subst h0; decide
  · have : Nat.testBit 1 i = false := by
      rw [← Bool.not_eq_true, Nat.testBit_one_eq_true_iff_self_eq_zero]; omega
    rw [this, Bool.false_and]

theorem aligned_pages_getD {ps : Nat} {l : List Nat}
    (hl : ∀ x ∈ l, (x &&& not64 1) % 2 ^ ps = 0) (i : Nat) :
    (l.getD i 0 &&& not64 1) % 2 ^ ps = 0 := by
  rcases mem_getD_of_ne_default l i 0 with h | h
  · exact hl _ h
  · rw [h, Nat.zero_and, Nat.zero_mod]

theorem mul_aligned {sz n : Nat} (i : Nat) (h : sz % 2 ^ n = 0) : (i * sz) % 2 ^ n = 0 :=
  Nat.mod_eq_zero_of_dvd (Dvd.dvd.mul_left (Nat.dvd_of_mod_eq_zero h) i)

theorem aligned_pages_batch {ps : Nat} {l : List Nat} {p sz : Nat} (hps : ps ≤ 64)
    (hl : ∀ x ∈ l, (x &&& not64 1) % 2 ^ ps = 0) (hp : p % 2 ^ ps = 0)
    (hsz : sz % 2 ^ ps = 0) (n : Nat) :
    ∀ x ∈ (List.range n).map (fun i => add64 p (i * sz) ||| 1) ++ l.drop n,
      (x &&& not64 1) % 2 ^ ps = 0 := by
  intro x hx
  rcases List.mem_append.1 hx with h | h
  · obtain ⟨i, _, rfl⟩ := List.mem_map.1 h
    exact or_one_and_aligned (add64_aligned hps hp (mul_aligned i hsz))
  · exact hl x (List.mem_of_mem_drop h)

theorem mmap_ok {ps a : Nat} (h : a = MAP_FAILED ∨ a % 2 ^ ps = 0) (hne : a ≠ MAP_FAILED) :
    a % 2 ^ ps = 0 := h.resolve_left hne

theorem map_small_ah {ps : Nat} {mopts : malloc_readonly} {sz psz : Nat} (hps : ps ≤ 64)
    (hsz : sz % 2 ^ ps = 0) (z : pool_state)
    {s : pool_state} {Q : Option Nat → pool_state → Prop} (h : aligned_heap ps z s)
    (hQ : ∀ a s', aligned_heap ps z s' → (∀ p, a = some p → p % 2 ^ ps = 0) → Q a s') :
    wp (map_small ps mopts sz psz) Q s := by
  unfold map_small
  obtain ⟨hal, hheap⟩ := h
  repeat' first
    | with_reducible apply wp_ite_i
    | with_reducible apply wp_bind_i
    | with_reducible apply wp_pure_i
    | with_reducible apply wp_get_i
    | with_reducible apply wp_set_i
    | with_reducible apply wp_modify_i
    | with_reducible exact wp_wrterror_i
    | with_reducible exact wp_undefined_i
    | with_reducible exact wp_diverges_i
    | with_reducible apply keeps_wp z getrbyte_ah
    | with_reducible apply keeps_wp z validate_junk_ah
    | with_reducible apply keeps_wp z os_munmap_ah
    | with_reducible apply keeps_wp z os_mprotect_ah
    | with_reducible apply os_mmap_ah z
    | with_reducible exact ⟨by assumption, by assumption⟩
    | with_reducible apply hQ
    | rintro _ s ⟨hal, hheap⟩
    | intro _
    | split
    | dsimp only
  all_goals first
    | with_reducible exact ⟨aligned_smallcache hal _ _ (aligned_smallcache_get (by with_reducible assumption) _), hheap⟩
    | with_reducible exact ⟨aligned_smallcache hal _ _ (aligned_pages_set
        (aligned_smallcache_get (by with_reducible assumption) _) _ _
        (aligned_pages_getD (aligned_smallcache_get (by with_reducible assumption) _) _)), hheap⟩
    | with_reducible exact ⟨aligned_smallcache hal _ _ (aligned_pages_batch hps
        (aligned_smallcache_get (by with_reducible assumption) _) (mmap_ok (by with_reducible assumption) (by with_reducible assumption))
        hsz _), hheap⟩
    | (rename_i p hp; cases hp <;> first
        | with_reducible exact aligned_pages_getD (aligned_smallcache_get (by with_reducible assumption) _) _
        | with_reducible exact add64_aligned hps (mmap_ok (by with_reducible assumption) (by with_reducible assumption)) (mul_aligned _ hsz))

theorem PAGEROUND_aligned (ps x : Nat) (hps : ps ≤ 64) : PAGEROUND ps x % 2 ^ ps = 0 := by
  rw [PAGEROUND_eq ps x hps]
  exact Nat.mul_mod_left _ _

theorem map_ah {ps : Nat} {mopts : malloc_readonly} {sz zero_fill : Nat} (hps : ps ≤ 64)
    (z : pool_state) {s : pool_state} {Q : Nat → pool_state → Prop} (h : aligned_heap ps z s)
    (hQ : ∀ a s', aligned_heap ps z s' → (a = MAP_FAILED ∨ a % 2 ^ ps = 0) → Q a s') :
    wp (map ps mopts sz zero_fill) Q s := by
  unfold map
  obtain ⟨hal, hheap⟩ := h
  have hsz : ¬ (sz ≠ PAGEROUND ps sz ∨ sz >>> ps = 0) → sz % 2 ^ ps = 0 := by
    intro hc
    have e : sz = PAGEROUND ps sz := by
      by_contra hne
      exact hc (Or.inl hne)
    rw [e]
    exact PAGEROUND_aligned ps sz hps
  repeat' first
    | with_reducible apply wp_ite_i
    | with_reducible apply wp_bind_i
    | with_reducible apply wp_pure_i
    | with_reducible apply wp_get_i
    | with_reducible apply wp_set_i
    | with_reducible apply wp_modify_i
    | with_reducible exact wp_wrterror_i
    | with_reducible exact wp_undefined_i
    | with_reducible exact wp_diverges_i
    | with_reducible apply keeps_wp z getrbyte_ah
    | with_reducible apply keeps_wp z validate_junk_ah
    | with_reducible apply keeps_wp z os_munmap_ah
    | with_reducible apply keeps_wp z os_mprotect_ah
    | with_reducible apply os_mmap_ah z
    | with_reducible apply map_big_ah z
    | with_reducible apply map_small_ah hps ?_ z
    | with_reducible exact ⟨by assumption, by assumption⟩
    | with_reducible apply hQ
    | rintro _ s ⟨hal, hheap⟩
    | intro _
    | split
    | dsimp only
  all_goals first
    | exact hsz (by assumption)
    | (rename_i hh; exact Or.inr (hh _ rfl))
    | with_reducible assumption

theorem mem_set_cases {α : Type} {l : List α} {i : Nat} {x y : α} (h : y ∈ l.set i x) :
    y ∈ l ∨ y = x := List.mem_or_eq_of_mem_set h

theorem grow_rehash_mem (ps mask : Nat) (P : region_info → Prop) :
    ∀ (old p q : List region_info), (∀ e ∈ old, P e) → (∀ e ∈ p, P e) →
      grow_rehash ps mask old p = some q → ∀ e ∈ q, P e := by
  intro old
  induction old with
  | nil =>
    intro p q _ hp h
    simp only [grow_rehash, Option.some.injEq] at h
    subst h
    exact hp
  | cons e old ih =>
    intro p q hold hp h
    unfold grow_rehash at h
    split at h
    · split at h
      · exact absurd h (by simp)
      · rename_i index _
        refine ih _ q (fun x hx => hold x (List.mem_cons_of_mem _ hx)) ?_ h
        intro x hx
        rcases mem_set_cases hx with h1 | h1
        · exact hp x h1
        · rw [h1]; exact hold e (List.mem_cons_self _ _)
    · exact ih p q (fun x hx => hold x (List.mem_cons_of_mem _ hx)) hp h

theorem slot_P (P : region_info → Prop) (h0 : P ⟨0, 0, 0⟩) {r : List region_info}
    (hr : ∀ e ∈ r, P e) (i : Nat) : P (slot r i) := by
  unfold slot
  rcases mem_getD_of_ne_default r i ⟨0, 0, 0⟩ with h | h
  · exact hr _ h
  · rw [h]; exact h0

theorem delete_walk_mem (ps mask : Nat) (P : region_info → Prop) (h0 : P ⟨0, 0, 0⟩)
    (hc : ∀ e, P (clear_slot e)) :
    ∀ (fuel : Nat) (r q : List region_info) (j i : Nat), (∀ e ∈ r, P e) →
      delete_walk ps mask fuel r j i = some q → ∀ e ∈ q, P e := by
  intro fuel
  induction fuel with
  | zero =>
    intro r q j i _ h
    simp [delete_walk] at h
  | succ fuel ih =>
    intro r q j i hr h
    unfold delete_walk at h
    simp only [] at h
    split at h
    · simp only [Option.some.injEq] at h
      subst h
      exact hr
    · split at h
      · exact ih _ _ _ _ hr h
      · refine ih _ _ _ _ ?_ h
        intro x hx
        rcases mem_set_cases hx with h1 | h1
        · rcases mem_set_cases h1 with h2 | h2
          · exact hr x h2
          · rw [h2]; exact slot_P P h0 hr _
        · rw [h1]; exact hc _

theorem tag_zero (ps : Nat) : (0 : Nat) &&& MALLOC_PAGEMASK ps ≤ BUCKETS ps + 1 := by
  rw [Nat.zero_and]; exact Nat.zero_le _

theorem omalloc_grow_tags {ps : Nat} {d : dir_info} {g : Nat × dir_info}
    (h : omalloc_grow ps d true = .ok g)
    (hr : ∀ e ∈ d.r, e.p &&& MALLOC_PAGEMASK ps ≤ BUCKETS ps + 1) :
    ∀ e ∈ g.2.r, e.p &&& MALLOC_PAGEMASK ps ≤ BUCKETS ps + 1 := by
  unfold omalloc_grow at h
  simp only [] at h
  repeat' split at h
  all_goals first
    | exact Outcome.noConfusion h
    | (injection h with h; subst h; exact hr)
    | (injection h with h; subst h
       dsimp only
       refine grow_rehash_mem ps _ (fun e => e.p &&& MALLOC_PAGEMASK ps ≤ BUCKETS ps + 1)
         _ _ _ hr ?_ (by assumption)
       intro e he
       rw [List.eq_of_mem_replicate he]
       exact tag_zero ps)

theorem delete_tags {ps : Nat} {d d2 : dir_info} {i : Nat}
    (h : delete ps d i = .ok d2)
    (hr : ∀ e ∈ d.r, e.p &&& MALLOC_PAGEMASK ps ≤ BUCKETS ps + 1) :
    ∀ e ∈ d2.r, e.p &&& MALLOC_PAGEMASK ps ≤ BUCKETS ps + 1 := by
  unfold delete at h
  simp only [] at h
  repeat' split at h
  all_goals first
    | exact Outcome.noConfusion h
    | (injection h with h; subst h
       dsimp only
       refine delete_walk_mem ps _ (fun e => e.p &&& MALLOC_PAGEMASK ps ≤ BUCKETS ps + 1)
         (tag_zero ps) (fun _ => tag_zero ps) _ _ _ _ _ ?_ (by assumption)
       intro e he
       rcases mem_set_cases he with h1 | h1
       · exact hr e h1
       · rw [h1]; exact tag_zero ps)

theorem aligned_r_addr {ps : Nat} {r : List region_info} {a : Nat} {h : List chunk_info}
    {cil : List (List Nat)} {cd : List (List (List Nat))} {sc : List smallcache}
    {bc : List bigcache} (hal : aligned_core ps r a h cil cd sc bc) : a % 2 ^ ps = 0 :=
  hal.2.2.2.2.1

theorem aligned_tags {ps : Nat} {r : List region_info} {a : Nat} {h : List chunk_info}
    {cil : List (List Nat)} {cd : List (List (List Nat))} {sc : List smallcache}
    {bc : List bigcache} (hal : aligned_core ps r a h cil cd sc bc) :
    ∀ e ∈ r, e.p &&& MALLOC_PAGEMASK ps ≤ BUCKETS ps + 1 :=
  hal.2.2.2.1

theorem tags_set {ps : Nat} {r : List region_info} {i : Nat} {e : region_info}
    (hr : ∀ e ∈ r, e.p &&& MALLOC_PAGEMASK ps ≤ BUCKETS ps + 1)
    (he : e.p &&& MALLOC_PAGEMASK ps ≤ BUCKETS ps + 1) :
    ∀ x ∈ r.set i e, x.p &&& MALLOC_PAGEMASK ps ≤ BUCKETS ps + 1 := by
  intro x hx
  rcases mem_set_cases hx with h | h
  · exact hr x h
  · rw [h]; exact he

theorem slot_tag {ps : Nat} {r : List region_info}
    (hr : ∀ e ∈ r, e.p &&& MALLOC_PAGEMASK ps ≤ BUCKETS ps + 1) (i : Nat) :
    (slot r i).p &&& MALLOC_PAGEMASK ps ≤ BUCKETS ps + 1 :=
  slot_P (fun e => e.p &&& MALLOC_PAGEMASK ps ≤ BUCKETS ps + 1) (tag_zero ps) hr i

theorem omalloc_grow_pool_ah {ps : Nat} {mopts : malloc_readonly} :
    keeps (aligned_heap ps) (omalloc_grow_pool ps mopts) := by
  unfold omalloc_grow_pool
  apply keeps_intro
  rintro z s Q ⟨hal, hheap⟩ hQ
  repeat' first
    | with_reducible apply wp_ite_i
    | with_reducible apply wp_bind_i
    | with_reducible apply wp_pure_i
    | with_reducible apply wp_get_i
    | with_reducible apply wp_set_i
    | with_reducible apply wp_modify_i
    | with_reducible exact wp_wrterror_i
    | with_reducible exact wp_undefined_i
    | with_reducible exact wp_diverges_i
    | with_reducible apply keeps_wp z getrbyte_ah
    | with_reducible apply keeps_wp z validate_junk_ah
    | with_reducible apply keeps_wp z os_munmap_ah
    | with_reducible apply keeps_wp z os_mprotect_ah
    | with_reducible apply wp_lift_outcome_i
    | with_reducible apply os_mmap_ah z
    | with_reducible apply keeps_wp z (unmap_ah ?_)
    | with_reducible exact ⟨by assumption, by assumption⟩
    | with_reducible apply hQ
    | rintro _ s ⟨hal, hheap⟩
    | intro _
    | split
    | dsimp only
  all_goals first
    | with_reducible exact aligned_r_addr (by with_reducible assumption)
    | with_reducible exact ⟨aligned_dir hal (omalloc_grow_tags
        (by with_reducible assumption) (aligned_tags (by with_reducible assumption)))
        (mmap_ok (by assumption) (by assumption)), hheap⟩

theorem insert_pool_ah {ps : Nat} {mopts : malloc_readonly} {p sz f : Nat}
    (hp : p &&& MALLOC_PAGEMASK ps ≤ BUCKETS ps + 1) :
    keeps (aligned_heap ps) (insert_pool ps mopts p sz f) := by
  unfold insert_pool
  apply keeps_intro
  rintro z s Q ⟨hal, hheap⟩ hQ
  repeat' first
    | with_reducible apply wp_ite_i
    | with_reducible apply wp_bind_i
    | with_reducible apply wp_pure_i
    | with_reducible apply wp_get_i
    | with_reducible apply wp_set_i
    | with_reducible apply wp_modify_i
    | with_reducible exact wp_wrterror_i
    | with_reducible exact wp_undefined_i
    | with_reducible exact wp_diverges_i
    | with_reducible apply keeps_wp z getrbyte_ah
    | with_reducible apply keeps_wp z validate_junk_ah
    | with_reducible apply keeps_wp z os_munmap_ah
    | with_reducible apply keeps_wp z os_mprotect_ah
    | with_reducible apply keeps_wp z omalloc_grow_pool_ah
    | with_reducible exact ⟨by assumption, by assumption⟩
    | with_reducible apply hQ
    | rintro _ s ⟨hal, hheap⟩
    | intro _
    | split
    | dsimp only
  all_goals first
    | with_reducible exact ⟨aligned_dir hal (tags_set (aligned_tags hal) hp)
        (aligned_r_addr hal), hheap⟩

theorem delete_pool_ah {ps ri : Nat} : keeps (aligned_heap ps) (delete_pool ps ri) := by
  unfold delete_pool
  apply keeps_intro
  rintro z s Q ⟨hal, hheap⟩ hQ
  repeat' first
    | with_reducible apply wp_ite_i
    | with_reducible apply wp_bind_i
    | with_reducible apply wp_pure_i
    | with_reducible apply wp_get_i
    | with_reducible apply wp_set_i
    | with_reducible apply wp_modify_i
    | with_reducible exact wp_wrterror_i
    | with_reducible exact wp_undefined_i
    | with_reducible exact wp_diverges_i
    | with_reducible apply keeps_wp z getrbyte_ah
    | with_reducible apply keeps_wp z validate_junk_ah
    | with_reducible apply keeps_wp z os_munmap_ah
    | with_reducible apply keeps_wp z os_mprotect_ah
    | with_reducible apply wp_lift_outcome_i
    | with_reducible exact ⟨by assumption, by assumption⟩
    | with_reducible apply hQ
    | rintro _ s ⟨hal, hheap⟩
    | intro _
    | split
    | dsimp only
  all_goals first
    | with_reducible exact ⟨aligned_dir hal (delete_tags
        (by with_reducible assumption) (aligned_tags hal)) (aligned_r_addr hal), hheap⟩

theorem STATS_SETF_ah {ps ri f : Nat} : keeps (aligned_heap ps) (STATS_SETF ri f) := by
  unfold STATS_SETF
  apply keeps_intro
  rintro z s Q ⟨hal, hheap⟩ hQ
  repeat' first
    | with_reducible apply wp_ite_i
    | with_reducible apply wp_bind_i
    | with_reducible apply wp_pure_i
    | with_reducible apply wp_get_i
    | with_reducible apply wp_set_i
    | with_reducible apply wp_modify_i
    | with_reducible exact wp_wrterror_i
    | with_reducible exact wp_undefined_i
    | with_reducible exact wp_diverges_i
    | with_reducible apply keeps_wp z getrbyte_ah
    | with_reducible apply keeps_wp z validate_junk_ah
    | with_reducible apply keeps_wp z os_munmap_ah
    | with_reducible apply keeps_wp z os_mprotect_ah
    | with_reducible exact ⟨by assumption, by assumption⟩
    | with_reducible apply hQ
    | rintro _ s ⟨hal, hheap⟩
    | intro _
    | split
    | dsimp only
  all_goals first
    | with_reducible exact ⟨aligned_dir hal (tags_set (aligned_tags hal)
        (slot_tag (aligned_tags hal) _)) (aligned_r_addr hal), hheap⟩

theorem set_region_size_ah {ps ri sz : Nat} :
    keeps (aligned_heap ps) (set_region_size ri sz) := by
  unfold set_region_size
  apply keeps_intro
  rintro z s Q ⟨hal, hheap⟩ hQ
  repeat' first
    | with_reducible apply wp_ite_i
    | with_reducible apply wp_bind_i
    | with_reducible apply wp_pure_i
    | with_reducible apply wp_get_i
    | with_reducible apply wp_set_i
    | with_reducible apply wp_modify_i
    | with_reducible exact wp_wrterror_i
    | with_reducible exact wp_undefined_i
    | with_reducible exact wp_diverges_i
    | with_reducible apply keeps_wp z getrbyte_ah
    | with_reducible apply keeps_wp z validate_junk_ah
    | with_reducible apply keeps_wp z os_munmap_ah
    | with_reducible apply keeps_wp z os_mprotect_ah
    | with_reducible exact ⟨by assumption, by assumption⟩
    | with_reducible apply hQ
    | rintro _ s ⟨hal, hheap⟩
    | intro _
    | split
    | dsimp only
  all_goals first
    | with_reducible exact ⟨aligned_dir hal (tags_set (aligned_tags hal)
        (slot_tag (aligned_tags hal) _)) (aligned_r_addr hal), hheap⟩

theorem getrbyte_al {ps : Nat} : keeps (aligned_rel ps) getrbyte :=
  aligned_of_heap getrbyte_ah

theorem validate_junk_al {ps : Nat} {p sz : Nat} : keeps (aligned_rel ps) (validate_junk p sz) :=
  aligned_of_heap validate_junk_ah

theorem validate_canary_al {ps : Nat} {p sz allocated : Nat} : keeps (aligned_rel ps) (validate_canary p sz allocated) :=
  aligned_of_heap validate_canary_ah

theorem os_munmap_al {ps : Nat} {a sz : Nat} : keeps (aligned_rel ps) (os_munmap a sz) :=
  aligned_of_heap os_munmap_ah

theorem os_mprotect_al {ps : Nat} : keeps (aligned_rel ps) os_mprotect :=
  aligned_of_heap os_mprotect_ah

theorem os_mmap_fixed_al {ps : Nat} {a sz : Nat} : keeps (aligned_rel ps) (os_mmap_fixed ps a sz) :=
  aligned_of_heap os_mmap_fixed_ah

theorem delete_pool_al {ps : Nat} {ri : Nat} : keeps (aligned_rel ps) (delete_pool ps ri) :=
  aligned_of_heap delete_pool_ah

theorem STATS_SETF_al {ps : Nat} {ri f : Nat} : keeps (aligned_rel ps) (STATS_SETF ri f) :=
  aligned_of_heap STATS_SETF_ah

theorem set_region_size_al {ps : Nat} {ri sz : Nat} : keeps (aligned_rel ps) (set_region_size ri sz) :=
  aligned_of_heap set_region_size_ah

theorem omalloc_grow_pool_al {ps : Nat} {mopts : malloc_readonly} : keeps (aligned_rel ps) (omalloc_grow_pool ps mopts) :=
  aligned_of_heap omalloc_grow_pool_ah

theorem unmap_al {ps : Nat} {mopts : malloc_readonly} {p sz clear : Nat}
    (hp : p % 2 ^ ps = 0) : keeps (aligned_rel ps) (unmap ps mopts p sz clear) :=
  aligned_of_heap (unmap_ah hp)

theorem insert_pool_al {ps : Nat} {mopts : malloc_readonly} {p sz f : Nat}
    (hp : p &&& MALLOC_PAGEMASK ps ≤ BUCKETS ps + 1) :
    keeps (aligned_rel ps) (insert_pool ps mopts p sz f) :=
  aligned_of_heap (insert_pool_ah hp)

theorem os_mmap_al {ps sz : Nat} {s : pool_state} {Q : Nat → pool_state → Prop}
    (h : pool_aligned ps s)
    (hQ : ∀ a s', pool_aligned ps s' → (a = MAP_FAILED ∨ a % 2 ^ ps = 0) → Q a s') :
    wp (os_mmap ps sz) Q s :=
  os_mmap_ah s ⟨h, rfl⟩ (fun a s' h' hp => hQ a s' h'.1 hp)

theorem map_al {ps : Nat} {mopts : malloc_readonly} {sz zero_fill : Nat} (hps : ps ≤ 64)
    {s : pool_state} {Q : Nat → pool_state → Prop} (h : pool_aligned ps s)
    (hQ : ∀ a s', pool_aligned ps s' → (a = MAP_FAILED ∨ a % 2 ^ ps = 0) → Q a s') :
    wp (map ps mopts sz zero_fill) Q s :=
  map_ah hps s ⟨h, rfl⟩ (fun a s' h' hp => hQ a s' h'.1 hp)

theorem getD_append_fresh (h : List chunk_info) (count : Nat) (ci : chunk_info) (bp : Nat)
    (hb : ci.bucket = 0) (ht : ci.total = 0) :
    ((h ++ List.replicate count ci).getD bp ⟨0, 0, 0, 0, 0, 0, []⟩).bucket =
        (h.getD bp ⟨0, 0, 0, 0, 0, 0, []⟩).bucket ∧
    ((h ++ List.replicate count ci).getD bp ⟨0, 0, 0, 0, 0, 0, []⟩).total =
        (h.getD bp ⟨0, 0, 0, 0, 0, 0, []⟩).total := by
  rcases Nat.lt_or_ge bp h.length with hlt | hge
  · rw [List.getD_append _ _ _ _ hlt]
    exact ⟨rfl, rfl⟩
  · rw [List.getD_append_right _ _ _ _ hge, List.getD_eq_default h _ hge]
    rcases mem_getD_of_ne_default (List.replicate count ci) (bp - h.length)
      ⟨0, 0, 0, 0, 0, 0, []⟩ with hm | hm
    · rw [List.eq_of_mem_replicate hm]
      exact ⟨hb, ht⟩
    · rw [hm]
      exact ⟨rfl, rfl⟩

theorem aligned_carve {ps : Nat} {r : List region_info} {a : Nat} {h : List chunk_info}
    {cil : List (List Nat)} {cd : List (List (List Nat))} {sc : List smallcache}
    {bc : List bigcache} (hal : aligned_core ps r a h cil cd sc bc) (b count : Nat)
    (ci : chunk_info) (hp : ci.page = 0) (hb : ci.bucket = 0) (ht : ci.total = 0) :
    aligned_core ps r a (h ++ List.replicate count ci)
      (cil.set b (((List.range count).map (fun i => h.length + i)).reverse ++ cil.getD b []))
      cd sc bc := by
  obtain ⟨h1, h2, h3, h4, h5, h6, h7, h8⟩ := hal
  have hnew : ∀ b2 bp, bp ∈ (cil.set b (((List.range count).map
      (fun i => h.length + i)).reverse ++ cil.getD b [])).getD b2 [] →
      bp ∈ cil.getD b2 [] ∨ (h.length ≤ bp ∧ bp < h.length + count) := by
    intro b2 bp hbp
    rw [getD_set_if] at hbp
    split at hbp
    · rename_i hc
      rcases List.mem_append.1 hbp with hm | hm
      · right
        rw [List.mem_reverse] at hm
        obtain ⟨i, hi, rfl⟩ := List.mem_map.1 hm
        rw [List.mem_range] at hi
        omega
      · left; rw [hc.1]; exact hm
    · left; exact hbp
  refine ⟨h1, h2, ?_, h4, h5, ?_, ?_, ?_⟩
  · intro x hx
    rcases List.mem_append.1 hx with hm | hm
    · exact h3 x hm
    · rw [List.eq_of_mem_replicate hm, hp, Nat.zero_mod]
  · intro b2 l bp hbp
    rw [(getD_append_fresh h count ci bp hb ht).1]
    exact h6 b2 l bp hbp
  · intro b2 bp hbp htot
    rw [(getD_append_fresh h count ci bp hb ht).2] at htot
    rw [(getD_append_fresh h count ci bp hb ht).1]
    rcases hnew b2 bp hbp with hm | hm
    · exact h7 b2 bp hm htot
    · rw [List.getD_eq_default h _ hm.1] at htot
      exact absurd rfl htot
  · intro b2 bp hb2 hbp
    rw [List.length_append, List.length_replicate]
    rcases hnew b2 bp hbp with hm | hm
    · have := h8 b2 bp hb2 hm
      omega
    · exact hm.2

theorem fresh_page (ps : Nat) (mopts : malloc_readonly) (b : Nat) :
    (fresh_chunk_info ps mopts b).page = 0 := rfl

theorem fresh_bucket (ps : Nat) (mopts : malloc_readonly) (b : Nat) :
    (fresh_chunk_info ps mopts b).bucket = 0 := rfl

theorem fresh_total (ps : Nat) (mopts : malloc_readonly) (b : Nat) :
    (fresh_chunk_info ps mopts b).total = 0 := rfl

theorem alloc_chunk_info_carve_al {ps : Nat} {mopts : malloc_readonly} {bucket : Nat} :
    keeps (aligned_rel ps) (alloc_chunk_info_carve ps mopts bucket) := by
  unfold alloc_chunk_info_carve
  apply keeps_intro
  intro z s Q hal hQ
  repeat' first
    | with_reducible apply wp_ite_i
    | with_reducible apply wp_bind_i
    | with_reducible apply wp_pure_i
    | with_reducible apply wp_get_i
    | with_reducible apply wp_set_i
    | with_reducible apply wp_modify_i
    | with_reducible apply wp_lift_outcome_i
    | with_reducible exact wp_wrterror_i
    | with_reducible exact wp_undefined_i
    | with_reducible exact wp_diverges_i
    | with_reducible apply keeps_wp s getrbyte_al
    | with_reducible apply keeps_wp s validate_junk_al
    | with_reducible apply keeps_wp s validate_canary_al
    | with_reducible apply keeps_wp s os_munmap_al
    | with_reducible apply keeps_wp s os_mprotect_al
    | with_reducible apply keeps_wp s os_mmap_fixed_al
    | with_reducible apply keeps_wp s delete_pool_al
    | with_reducible apply keeps_wp s STATS_SETF_al
    | with_reducible apply keeps_wp s set_region_size_al
    | with_reducible apply os_mmap_al
    | with_reducible assumption
    | with_reducible apply hQ
    | intro _ s hal
    | intro _
    | split
    | dsimp only
  all_goals first
    | with_reducible exact (aligned_carve hal _ _ _ (fresh_page _ _ _) (fresh_bucket _ _ _)
        (fresh_total _ _ _))

theorem init_chunk_info_page (ps c : Nat) (p : chunk_info) (b : Nat) :
    (init_chunk_info ps c p b).page = p.page := rfl

theorem init_chunk_info_bucket (ps c : Nat) (p : chunk_info) (b : Nat) :
    (init_chunk_info ps c p b).bucket = b % 2 ^ 16 := rfl

theorem mem_of_LIST_FIRST {l : List Nat} {p : Nat} (h : LIST_FIRST l = some p) : p ∈ l := by
  unfold LIST_FIRST at h
  cases l with
  | nil => simp at h
  | cons a t =>
    simp only [List.head?_cons, Option.some.injEq] at h
    rw [h]; exact List.mem_cons_self _ _

theorem getD_set_self {α : Type} (l : List α) (i : Nat) (x d : α) :
    (l.set i x).getD i d = if i < l.length then x else d := by
  rw [getD_set_if]
  by_cases h : i < l.length
  · rw [if_pos ⟨rfl, h⟩, if_pos h]
  · rw [if_neg (fun hc => h hc.2), if_neg h, List.getD_eq_default _ _ (by omega)]

theorem alloc_chunk_info_al {ps : Nat} {mopts : malloc_readonly} {bucket : Nat}
    (hb16 : bucket < 2 ^ 16) {s : pool_state} {Q : Option Nat → pool_state → Prop}
    (hal : pool_aligned ps s)
    (hQ : ∀ a s', pool_aligned ps s' →
      (∀ p, a = some p → (heap_get s' p).bucket = bucket) → Q a s') :
    wp (alloc_chunk_info ps mopts bucket) Q s := by
  unfold alloc_chunk_info
  apply wp_bind_i
  apply wp_get_i
  apply wp_bind_i
  apply keeps_wp s (keeps_ite alloc_chunk_info_carve_al keeps_pure) hal
  intro have_info s1 hal1
  apply wp_ite_i
  · intro _
    apply wp_bind_i
    apply wp_get_i
    dsimp only
    split
    · exact wp_undefined_i
    · rename_i p hp
      have hmem := mem_of_LIST_FIRST hp
      unfold LIST_REMOVE
      apply wp_bind_i
      apply wp_modify_i
      apply wp_ite_i
      · intro ht
        apply wp_bind_i
        apply wp_modify_i
        apply wp_pure_i
        apply hQ
        · exact aligned_remove_set hal1 p _
            (by rw [init_chunk_info_page]; exact aligned_heap_get hal1 p)
        · intro p2 hp2
          cases hp2
          show ((s1.heap.set p _).getD p _).bucket = bucket
          rw [getD_set_self]
          split
          · rw [init_chunk_info_bucket, Nat.mod_eq_of_lt hb16]
          · rename_i hlen
            by_contra hne
            exact hlen (hal1.2.2.2.2.2.2.2 bucket p (fun h0 => hne (by rw [h0])) hmem)
      · intro ht
        apply wp_bind_i
        apply wp_pure_i
        apply wp_pure_i
        apply hQ
        · exact aligned_remove hal1 p
        · intro p2 hp2
          cases hp2
          exact hal1.2.2.2.2.2.2.1 bucket p hmem ht
  · intro _
    apply wp_pure_i
    exact hQ _ _ hal1 (fun p h => by cases h)

theorem key_tag {ps pp t : Nat} (h : pp % 2 ^ ps = 0) (ht : t < 2 ^ ps) :
    (pp ||| t) &&& MALLOC_PAGEMASK ps = t := by
  rw [MALLOC_PAGEMASK_eq, Nat.and_pow_two_sub_one_eq_mod]
  rw [mod_pow_zero_iff] at h
  apply Nat.eq_of_testBit_eq
  intro i
  rw [Nat.testBit_mod_two_pow, Nat.testBit_or]
  by_cases hi : i < ps
  · simp [hi, h i hi]
  · have : t < 2 ^ i := lt_of_lt_of_le ht (Nat.pow_le_pow_right (by norm_num) (by omega))
    simp [hi, Nat.testBit_eq_false_of_lt this]

theorem BUCKETS_lt (ps : Nat) (hps : 5 ≤ ps) (hps16 : ps ≤ 16) : BUCKETS ps < 2 ^ 11 + 1 := by
  unfold BUCKETS
  rw [MALLOC_MAXCHUNK_eq, MALLOC_MINSIZE_eq]
  have hp15 : 2 ^ (ps - 1) ≤ 2 ^ 15 := Nat.pow_le_pow_right (by norm_num) (by omega)
  omega

theorem getD_set_bucket (h : List chunk_info) (bp : Nat) (ci : chunk_info)
    (hb : ci.bucket = (h.getD bp ⟨0, 0, 0, 0, 0, 0, []⟩).bucket) :
    ((h.set bp ci).getD bp ⟨0, 0, 0, 0, 0, 0, []⟩).bucket =
      (h.getD bp ⟨0, 0, 0, 0, 0, 0, []⟩).bucket := by
  rw [getD_set_self]
  split
  · exact hb
  · rename_i hlen
    rw [List.getD_eq_default _ _ (by omega)]

theorem omalloc_make_chunks_al {ps : Nat} {mopts : malloc_readonly} {bucket listnum : Nat}
    (hps : 5 ≤ ps) (hps16 : ps ≤ 16) (hb : bucket ≤ BUCKETS ps)
    {s : pool_state} {Q : Option Nat → pool_state → Prop} (hal : pool_aligned ps s)
    (hQ : ∀ a s', pool_aligned ps s' →
      (∀ bp, a = some bp → (heap_get s' bp).bucket = bucket) → Q a s') :
    wp (omalloc_make_chunks ps mopts bucket listnum) Q s := by
  have hB := BUCKETS_lt ps hps hps16
  have hnone : ∀ s', pool_aligned ps s' → Q none s' :=
    fun s' h => hQ none s' h (fun p hp => by cases hp)
  unfold omalloc_make_chunks
  apply wp_bind_i
  apply map_al (by omega) hal
  intro pp s1 hal1 hpp
  apply wp_ite_i
  · intro _
    apply wp_pure_i
    exact hnone _ hal1
  · intro hne
    have hpa := mmap_ok hpp hne
    apply wp_bind_i
    apply keeps_wp s (keeps_ite os_mprotect_al keeps_pure) hal1
    intro prot s2 hal2
    apply wp_ite_i
    · intro _
      apply wp_bind_i
      apply keeps_wp s (unmap_al hpa) hal2
      intro _ s3 hal3
      apply wp_pure_i
      exact hnone _ hal3
    · intro _
      apply wp_bind_i
      apply alloc_chunk_info_al (by omega) hal2
      intro obp s3 hal3 hbp
      split
      · apply wp_bind_i
        apply keeps_wp s (unmap_al hpa) hal3
        intro _ s4 hal4
        apply wp_pure_i
        exact hnone _ hal4
      · rename_i bp
        have hbk := hbp bp rfl
        apply wp_bind_i
        apply wp_modify_i
        apply wp_bind_i
        have hal4 : pool_aligned ps
            { s3 with heap := s3.heap.set bp { heap_get s3 bp with page := pp } } :=
          aligned_heap_set hal3 bp _ hpa rfl rfl
        have hbk4 : (heap_get
            { s3 with heap := s3.heap.set bp { heap_get s3 bp with page := pp } }
            bp).bucket = bucket := by
          show ((s3.heap.set bp _).getD bp _).bucket = bucket
          refine Eq.trans (getD_set_bucket s3.heap bp _ ?_) hbk
          rfl
        have htag : (pp ||| ((bucket + 1) % 2 ^ 32)) &&& MALLOC_PAGEMASK ps ≤ BUCKETS ps + 1 := by
          rw [Nat.mod_eq_of_lt (by omega), key_tag hpa (tag_lt_pagesize ps _ hps (by omega))]
          omega
        apply keeps_wp _ (insert_pool_ah htag) ⟨hal4, rfl⟩
        rintro rc s5 ⟨hal5, hheap5⟩
        apply wp_ite_i
        · intro _
          apply wp_bind_i
          apply keeps_wp s (unmap_al hpa) hal5
          intro _ s6 hal6
          apply wp_pure_i
          exact hnone _ hal6
        · intro _
          unfold LIST_INSERT_HEAD_dir
          apply wp_bind_i
          apply wp_modify_i
          apply wp_pure_i
          have hbk5 : (s5.heap.getD bp ⟨0, 0, 0, 0, 0, 0, []⟩).bucket = bucket := by
            rw [hheap5]; exact hbk4
          apply hQ
          · exact aligned_dir_insert hal5 bucket listnum bp hbk5
          · intro bp2 h2
            cases h2
            exact hbk5

theorem find_bucket_le (mopts : malloc_readonly) (ps size : Nat) (hps : 5 ≤ ps)
    (hps16 : ps ≤ 16) (h : size ≤ MALLOC_MAXCHUNK ps) : find_bucket mopts size ≤ BUCKETS ps := by
  have hp15 : 2 ^ (ps - 1) ≤ 2 ^ 15 := Nat.pow_le_pow_right (by norm_num) (by omega)
  have hp16 : 2 ^ (ps - 1) = 16 * 2 ^ (ps - 1 - 4) := by
    rw [two_pow_dvd_form 4 (ps - 1) (by omega)]; norm_num
  have hB : BUCKETS ps = 2 ^ (ps - 1) / 16 := by
    unfold BUCKETS; rw [MALLOC_MAXCHUNK_eq, MALLOC_MINSIZE_eq]
  have h2p := h
  rw [MALLOC_MAXCHUNK_eq] at h2p
  rw [hB]
  by_cases hz : size = 0
  · subst hz; rw [find_bucket_zero]; exact Nat.zero_le _
  have h0 : 0 < size := Nat.pos_of_ne_zero hz
  by_cases hc : mopts.def_maxcache = 0
  · rw [find_bucket_lin mopts size hc h0 (by omega)]
    omega
  · obtain ⟨e2, b2⟩ := find_bucket_bin mopts ps size hps hps16 hc h0 h
    rw [e2]
    exact Nat.div_le_div_right b2

theorem malloc_bytes_take_fields {mopts : malloc_readonly} {bp ci : chunk_info} {r size k : Nat}
    (h : malloc_bytes_take mopts bp r size = some (ci, k)) :
    ci.page = bp.page ∧ ci.bucket = bp.bucket ∧ ci.total = bp.total := by
  unfold malloc_bytes_take at h
  split at h
  · exact absurd h (by simp)
  · simp only [Option.some.injEq, Prod.mk.injEq] at h
    obtain ⟨h1, _⟩ := h
    rw [← h1]
    exact ⟨rfl, rfl, rfl⟩

theorem shape_refl {ps : Nat} {s : pool_state} (z : pool_state) (h : pool_aligned ps s) :
    aligned_shape ps s z s := ⟨h, rfl, fun _ => ⟨rfl, rfl⟩⟩

theorem shape_of_heap {ps : Nat} (y : pool_state) {α : Type} {m : Run α}
    (hm : keeps (aligned_heap ps) m) : keeps (aligned_shape ps y) m :=
  keeps_weaken hm (fun _ s h => ⟨s, ⟨h.1, rfl⟩, fun s' h' =>
    ⟨h'.1, by rw [h'.2]; exact h.2.1, fun i => by
      have e : heap_get s' i = heap_get s i := by unfold heap_get; rw [h'.2]
      rw [e]; exact h.2.2 i⟩⟩)

theorem heap_get_set (s : pool_state) (bp i : Nat) (ci : chunk_info)
    (hb : ci.bucket = (heap_get s bp).bucket) (ht : ci.total = (heap_get s bp).total) :
    ((s.heap.set bp ci).getD i ⟨0, 0, 0, 0, 0, 0, []⟩).bucket = (heap_get s i).bucket ∧
    ((s.heap.set bp ci).getD i ⟨0, 0, 0, 0, 0, 0, []⟩).total = (heap_get s i).total := by
  unfold heap_get at hb ht ⊢
  rw [getD_set_if]
  split
  · rename_i hc
    rw [hc.1]
    exact ⟨hb, ht⟩
  · exact ⟨rfl, rfl⟩

theorem shape_heap_set {ps : Nat} {y z s : pool_state} (h : aligned_shape ps y z s)
    {bp : Nat} {ci : chunk_info} (hpage : ci.page % 2 ^ ps = 0)
    (hb : ci.bucket = (heap_get y bp).bucket) (ht : ci.total = (heap_get y bp).total) :
    aligned_shape ps y z { s with heap := s.heap.set bp ci } := by
  obtain ⟨h1, h2, h3⟩ := h
  have hb2 : ci.bucket = (heap_get s bp).bucket := by rw [(h3 bp).1]; exact hb
  have ht2 : ci.total = (heap_get s bp).total := by rw [(h3 bp).2]; exact ht
  refine ⟨aligned_heap_set h1 bp ci hpage hb2 ht2, ?_, ?_⟩
  · show (s.heap.set bp ci).length = y.heap.length
    rw [List.length_set]; exact h2
  · intro i
    have := heap_get_set s bp i ci hb2 ht2
    exact ⟨this.1.trans (h3 i).1, this.2.trans (h3 i).2⟩

theorem shape_remove {ps : Nat} {y z s : pool_state} (h : aligned_shape ps y z s) (p : Nat) :
    aligned_shape ps y z { s with
      chunk_info_list := s.chunk_info_list.map (fun l => l.filter (fun x => decide (x ≠ p)))
      chunk_dir := s.chunk_dir.map (fun ls =>
        ls.map (fun l => l.filter (fun x => decide (x ≠ p)))) } :=
  ⟨aligned_remove h.1 p, h.2.1, h.2.2⟩

theorem shape_dir_insert {ps : Nat} {y z s : pool_state} (h : aligned_shape ps y z s)
    {b l bp : Nat} (hb : (heap_get y bp).bucket = b) :
    aligned_shape ps y z { s with
      chunk_dir := s.chunk_dir.set b ((s.chunk_dir.getD b []).set l
        (bp :: (s.chunk_dir.getD b []).getD l [])) } :=
  ⟨aligned_dir_insert h.1 b l bp ((h.2.2 bp).1.trans hb), h.2.1, h.2.2⟩

theorem shape_info_insert {ps : Nat} {y z s : pool_state} (h : aligned_shape ps y z s)
    {b bp : Nat} (hb : (heap_get y bp).total ≠ 0 → (heap_get y bp).bucket = b)
    (hlen : b ≠ 0 → bp < y.heap.length) :
    aligned_shape ps y z { s with
      chunk_info_list := s.chunk_info_list.set b (bp :: s.chunk_info_list.getD b []) } := by
  refine ⟨aligned_info_insert h.1 b bp ?_ ?_, h.2.1, h.2.2⟩
  · intro ht
    have e1 := (h.2.2 bp).1
    have e2 := (h.2.2 bp).2
    unfold heap_get at e1 e2 hb
    rw [e1]
    rw [e2] at ht
    exact hb ht
  · intro hb0
    rw [h.2.1]; exact hlen hb0

theorem malloc_bytes_al {ps : Nat} {mopts : malloc_readonly} {size f : Nat}
    (hps : 5 ≤ ps) (hps16 : ps ≤ 16) (hsz : size ≤ MALLOC_MAXCHUNK ps)
    {s : pool_state} {Q : Nat → pool_state → Prop} (hal : pool_aligned ps s)
    (hQ : ∀ a s', pool_aligned ps s' →
      (a = 0 ∨ ∃ page k, page % 2 ^ ps = 0 ∧
        a = add64 page ((k * B2ALLOC (find_bucket mopts size)) % 2 ^ 64)) → Q a s') :
    wp (malloc_bytes ps mopts size f) Q s := by
  have hfb := find_bucket_le mopts ps size hps hps16 hsz
  unfold malloc_bytes
  apply wp_bind_i
  apply wp_get_i
  apply wp_ite_i
  · intro _; exact wp_wrterror_i
  intro _
  dsimp only
  apply wp_bind_i
  apply keeps_wp s getrbyte_al hal
  intro r1 s1 hal1
  apply wp_bind_i
  apply keeps_wp s getrbyte_al hal1
  intro r2 s2 hal2
  apply wp_bind_i
  apply wp_get_i
  apply wp_bind_i
  refine wp_mono (Q := fun made s3 => pool_aligned ps s3 ∧
    ∀ bp, made = some bp → (heap_get s3 bp).bucket = find_bucket mopts size) ?_ ?_
  · split
    · rename_i bp hbp
      apply wp_pure_i
      refine ⟨hal2, ?_⟩
      intro bp2 h2
      cases h2
      exact hal2.2.2.2.2.2.1 _ _ _ (mem_of_LIST_FIRST hbp)
    · exact omalloc_make_chunks_al hps hps16 hfb hal2 (fun a s' h1 h2 => ⟨h1, h2⟩)
  · rintro made y ⟨hal3, hmade⟩
    split
    · apply wp_pure_i
      exact hQ _ _ hal3 (Or.inl rfl)
    · rename_i bp
      have hbk := hmade bp rfl
      apply wp_bind_i
      apply wp_get_i
      apply wp_ite_i
      · intro _; exact wp_wrterror_i
      intro _
      split
      · exact wp_diverges_i
      · rename_i ci k htake
        obtain ⟨hf1, hf2, hf3⟩ := malloc_bytes_take_fields htake
        have hpage : ci.page % 2 ^ ps = 0 := by rw [hf1]; exact aligned_heap_get hal3 bp
        have hpost : ∀ s', aligned_shape ps y y s' →
            Q (add64 (heap_get y bp).page (k * B2ALLOC (heap_get y bp).bucket % 2 ^ 64)) s' :=
          fun s' h => hQ _ _ h.1 (Or.inr ⟨(heap_get y bp).page, k, aligned_heap_get hal3 bp,
            by rw [hbk]⟩)
        have hal := shape_refl y hal3
        clear hQ
        unfold LIST_REMOVE
        repeat' first
          | with_reducible apply wp_ite_i
          | with_reducible apply wp_bind_i
          | with_reducible apply wp_pure_i
          | with_reducible apply wp_get_i
          | with_reducible apply wp_set_i
          | with_reducible apply wp_modify_i
          | with_reducible apply wp_lift_outcome_i
          | with_reducible exact wp_wrterror_i
          | with_reducible exact wp_undefined_i
          | with_reducible exact wp_diverges_i
          | with_reducible apply keeps_wp y (shape_of_heap y getrbyte_ah)
          | with_reducible apply keeps_wp y (shape_of_heap y validate_junk_ah)
          | with_reducible apply keeps_wp y (shape_of_heap y validate_canary_ah)
          | with_reducible apply keeps_wp y (shape_of_heap y os_munmap_ah)
          | with_reducible apply keeps_wp y (shape_of_heap y os_mprotect_ah)
          | with_reducible apply keeps_wp y (shape_of_heap y os_mmap_fixed_ah)
          | with_reducible apply keeps_wp y (shape_of_heap y delete_pool_ah)
          | with_reducible apply keeps_wp y (shape_of_heap y STATS_SETF_ah)
          | with_reducible apply keeps_wp y (shape_of_heap y set_region_size_ah)
          | with_reducible assumption
          | with_reducible exact shape_remove (by with_reducible assumption) _
          | with_reducible exact shape_heap_set (by with_reducible assumption) hpage hf2 hf3
          | with_reducible exact shape_remove (shape_heap_set (by with_reducible assumption) hpage hf2 hf3) _
          | with_reducible exact hpost _ (by with_reducible assumption)
          | with_reducible exact hpost _ (shape_heap_set (by with_reducible assumption) hpage hf2 hf3)
          | with_reducible exact hpost _ (shape_remove (shape_heap_set (by with_reducible assumption) hpage hf2 hf3) _)
          | with_reducible exact hpost _ (shape_remove (by with_reducible assumption) _)
          | intro _ s hal
          | intro _
          | split
          | dsimp only

theorem aligned_tag_zero {ps p : Nat} (hp : p % 2 ^ ps = 0) :
    p &&& MALLOC_PAGEMASK ps ≤ BUCKETS ps + 1 := by
  rw [MALLOC_PAGEMASK_eq, Nat.and_pow_two_sub_one_eq_mod, hp]
  exact Nat.zero_le _

theorem omalloc_al {ps : Nat} {mopts : malloc_readonly} {sz zero_fill f : Nat}
    (hps : 5 ≤ ps) (hps16 : ps ≤ 16)
    {s : pool_state} {Q : Nat → pool_state → Prop} (hal : pool_aligned ps s)
    (hQ : ∀ a s', pool_aligned ps s' →
      ((sz ≤ MALLOC_MAXCHUNK ps → a = 0 ∨ ∃ page k, page % 2 ^ ps = 0 ∧
          a = add64 page ((k * B2ALLOC (find_bucket mopts sz)) % 2 ^ 64)) ∧
        (sz > MALLOC_MAXCHUNK ps → a = 0 ∨ ∃ p, p % 2 ^ ps = 0 ∧
          a = if MALLOC_MOVE_COND ps mopts (add64 sz mopts.malloc_guard) then
            MALLOC_MOVE ps mopts p (add64 sz mopts.malloc_guard) else p)) → Q a s') :
    wp (omalloc ps mopts sz zero_fill f) Q s := by
  unfold omalloc
  apply wp_ite_i
  · intro hbig
    have hzero : ∀ s', pool_aligned ps s' → Q 0 s' :=
      fun s' h => hQ 0 s' h ⟨fun _ => Or.inl rfl, fun _ => Or.inl rfl⟩
    apply wp_ite_i
    · intro _
      apply wp_bind_i
      apply wp_modify_i
      apply wp_pure_i
      exact hzero _ hal
    · intro _
      dsimp only
      apply wp_bind_i
      apply map_al (by omega) hal
      intro p s1 hal1 hp
      apply wp_ite_i
      · intro _
        apply wp_bind_i
        apply wp_modify_i
        apply wp_pure_i
        exact hzero _ hal1
      · intro hne
        have hpa := mmap_ok hp hne
        apply wp_bind_i
        apply keeps_wp s (insert_pool_al (aligned_tag_zero hpa)) hal1
        intro rc s2 hal2
        apply wp_ite_i
        · intro _
          apply wp_bind_i
          apply keeps_wp s (unmap_al hpa) hal2
          intro _ s3 hal3
          apply wp_bind_i
          apply wp_modify_i
          apply wp_pure_i
          exact hzero _ hal3
        · intro _
          have hpost : ∀ s', pool_aligned ps s' →
              Q (if MALLOC_MOVE_COND ps mopts (add64 sz mopts.malloc_guard) then
                MALLOC_MOVE ps mopts p (add64 sz mopts.malloc_guard) else p) s' :=
            fun s' h => hQ _ s' h ⟨fun hc => absurd hbig (by omega),
              fun _ => Or.inr ⟨p, hpa, rfl⟩⟩
          repeat' first
            | with_reducible apply wp_ite_i
            | with_reducible apply wp_bind_i
            | with_reducible apply wp_pure_i
            | with_reducible exact wp_wrterror_i
            | with_reducible apply keeps_wp s os_mprotect_al
            | with_reducible assumption
            | intro _ s hal
            | intro _
          all_goals first
            | (rename_i hc; have h := hpost _ (by with_reducible assumption)
               rw [if_pos hc] at h; exact h)
            | (rename_i hc; have h := hpost _ (by with_reducible assumption)
               rw [if_neg hc] at h; exact h)
  · intro hsmall
    exact malloc_bytes_al hps hps16 (by omega) hal
      (fun a s' h hp => hQ a s' h ⟨fun _ => hp, fun hc => absurd hc hsmall⟩)

theorem find_chunknum_check_ah {ps ptr check : Nat} {info : chunk_info} :
    keeps (aligned_heap ps) (find_chunknum_check ps info ptr check) := by
  unfold find_chunknum_check
  apply keeps_intro
  rintro z s Q ⟨hal, hheap⟩ hQ
  repeat' first
    | with_reducible apply wp_ite_i
    | with_reducible apply wp_bind_i
    | with_reducible apply wp_pure_i
    | with_reducible apply wp_get_i
    | with_reducible apply wp_set_i
    | with_reducible apply wp_modify_i
    | with_reducible exact wp_wrterror_i
    | with_reducible exact wp_undefined_i
    | with_reducible exact wp_diverges_i
    | with_reducible apply keeps_wp z getrbyte_ah
    | with_reducible apply keeps_wp z validate_junk_ah
    | with_reducible apply keeps_wp z os_munmap_ah
    | with_reducible apply keeps_wp z os_mprotect_ah
    | with_reducible apply wp_lift_outcome_i
    | with_reducible apply keeps_wp z validate_canary_ah
    | with_reducible exact ⟨by assumption, by assumption⟩
    | with_reducible apply hQ
    | rintro _ s ⟨hal, hheap⟩
    | intro _
    | split
    | dsimp only

theorem find_chunknum_check_al {ps ptr check : Nat} {info : chunk_info} :
    keeps (aligned_rel ps) (find_chunknum_check ps info ptr check) :=
  aligned_of_heap find_chunknum_check_ah

theorem findpool_ah {ps p : Nat} {mopts : malloc_readonly} :
    keeps (aligned_heap ps) (findpool ps mopts p) := by
  unfold findpool
  apply keeps_intro
  rintro z s Q ⟨hal, hheap⟩ hQ
  repeat' first
    | with_reducible apply wp_ite_i
    | with_reducible apply wp_bind_i
    | with_reducible apply wp_pure_i
    | with_reducible apply wp_get_i
    | with_reducible apply wp_set_i
    | with_reducible apply wp_modify_i
    | with_reducible exact wp_wrterror_i
    | with_reducible exact wp_undefined_i
    | with_reducible exact wp_diverges_i
    | with_reducible apply keeps_wp z getrbyte_ah
    | with_reducible apply keeps_wp z validate_junk_ah
    | with_reducible apply keeps_wp z os_munmap_ah
    | with_reducible apply keeps_wp z os_mprotect_ah
    | with_reducible apply wp_lift_outcome_i
    | with_reducible exact ⟨by assumption, by assumption⟩
    | with_reducible apply hQ
    | rintro _ s ⟨hal, hheap⟩
    | intro _
    | split
    | dsimp only

theorem findpool_al {ps p : Nat} {mopts : malloc_readonly} :
    keeps (aligned_rel ps) (findpool ps mopts p) :=
  aligned_of_heap findpool_ah

theorem free_bytes_mark_page (info : chunk_info) (k : Nat) :
    (free_bytes_mark info k).page = info.page := rfl

theorem free_bytes_mark_bucket (info : chunk_info) (k : Nat) :
    (free_bytes_mark info k).bucket = info.bucket := rfl

theorem free_bytes_mark_total (info : chunk_info) (k : Nat) :
    (free_bytes_mark info k).total = info.total := rfl

theorem heap_get_bucket_lt (s : pool_state) (bp : Nat) (h : (heap_get s bp).bucket ≠ 0) :
    bp < s.heap.length := by
  by_contra hc
  unfold heap_get at h
  rw [List.getD_eq_default _ _ (by omega)] at h
  exact h rfl

theorem free_bytes_al {ps : Nat} {mopts : malloc_readonly} {ri ptr : Nat}
    {s : pool_state} {Q : Unit → pool_state → Prop} (hal : pool_aligned ps s)
    (hQ : ∀ a s', pool_aligned ps s' → Q a s') :
    wp (free_bytes ps mopts ri ptr) Q s := by
  unfold free_bytes
  apply wp_bind_i
  apply wp_get_i
  dsimp only
  generalize hbp : (slot s.d.r ri).size = bp
  have hpage : ∀ k, (free_bytes_mark (heap_get s bp) k).page % 2 ^ ps = 0 :=
    fun k => aligned_heap_get hal bp
  have hpost : ∀ s', aligned_shape ps s s s' → Q () s' := fun s' h => hQ _ _ h.1
  have hlen : ∀ k, (free_bytes_mark (heap_get s bp) k).bucket ≠ 0 → bp < s.heap.length :=
    fun k h => heap_get_bucket_lt s bp h
  clear hQ
  revert hpage hpost hlen
  generalize s = y at hal ⊢
  intro hpage hpost hlen
  have hal := shape_refl y hal
  unfold LIST_REMOVE LIST_INSERT_HEAD_dir LIST_INSERT_HEAD_info
  repeat' first
    | with_reducible apply wp_ite_i
    | with_reducible apply wp_bind_i
    | with_reducible apply wp_pure_i
    | with_reducible apply wp_get_i
    | with_reducible apply wp_set_i
    | with_reducible apply wp_modify_i
    | with_reducible apply wp_lift_outcome_i
    | with_reducible exact wp_wrterror_i
    | with_reducible exact wp_undefined_i
    | with_reducible exact wp_diverges_i
    | with_reducible apply keeps_wp y (shape_of_heap y getrbyte_ah)
    | with_reducible apply keeps_wp y (shape_of_heap y validate_junk_ah)
    | with_reducible apply keeps_wp y (shape_of_heap y validate_canary_ah)
    | with_reducible apply keeps_wp y (shape_of_heap y os_munmap_ah)
    | with_reducible apply keeps_wp y (shape_of_heap y os_mprotect_ah)
    | with_reducible apply keeps_wp y (shape_of_heap y os_mmap_fixed_ah)
    | with_reducible apply keeps_wp y (shape_of_heap y delete_pool_ah)
    | with_reducible apply keeps_wp y (shape_of_heap y STATS_SETF_ah)
    | with_reducible apply keeps_wp y (shape_of_heap y set_region_size_ah)
    | with_reducible apply keeps_wp y (shape_of_heap y find_chunknum_check_ah)
    | with_reducible apply keeps_wp y (shape_of_heap y (unmap_ah (hpage _)))
    | with_reducible assumption
    | with_reducible exact shape_remove (by with_reducible assumption) _
    | with_reducible exact shape_heap_set (by with_reducible assumption) (hpage _) (free_bytes_mark_bucket _ _) (free_bytes_mark_total _ _)
    | with_reducible exact shape_remove (shape_heap_set (by with_reducible assumption) (hpage _) (free_bytes_mark_bucket _ _) (free_bytes_mark_total _ _)) _
    | with_reducible exact hpost _ (by with_reducible assumption)
    | with_reducible exact hpost _ (shape_heap_set (by with_reducible assumption) (hpage _) (free_bytes_mark_bucket _ _) (free_bytes_mark_total _ _))
    | with_reducible exact hpost _ (shape_dir_insert (by with_reducible assumption) (free_bytes_mark_bucket _ _).symm)
    | with_reducible exact hpost _ (shape_info_insert (by with_reducible assumption) (fun _ => (free_bytes_mark_bucket _ _).symm) (hlen _))
    | with_reducible apply hQ
    | intro _ s hal
    | intro _
    | split
    | dsimp only

theorem ofree_freecheck_al {ps p : Nat} {mopts : malloc_readonly} (l : List Nat) :
    keeps (aligned_rel ps) (ofree_freecheck ps mopts p l) := by
  induction l with
  | nil =>
    unfold ofree_freecheck
    exact keeps_pure
  | cons tmp rest ih =>
    unfold ofree_freecheck
    apply keeps_intro
    intro z s Q hal hQ
    repeat' first
      | with_reducible apply wp_ite_i
      | with_reducible apply wp_bind_i
      | with_reducible apply wp_pure_i
      | with_reducible apply wp_get_i
      | with_reducible apply wp_set_i
      | with_reducible apply wp_modify_i
      | with_reducible apply wp_lift_outcome_i
      | with_reducible exact wp_wrterror_i
      | with_reducible exact wp_undefined_i
      | with_reducible exact wp_diverges_i
      | with_reducible apply keeps_wp s getrbyte_al
      | with_reducible apply keeps_wp s validate_junk_al
      | with_reducible apply keeps_wp s validate_canary_al
      | with_reducible apply keeps_wp s os_munmap_al
      | with_reducible apply keeps_wp s os_mprotect_al
      | with_reducible apply keeps_wp s os_mmap_fixed_al
      | with_reducible apply keeps_wp s delete_pool_al
      | with_reducible apply keeps_wp s STATS_SETF_al
      | with_reducible apply keeps_wp s set_region_size_al
      | with_reducible apply keeps_wp s ih
      | with_reducible assumption
      | with_reducible apply hQ
      | intro _ s hal
      | intro _
      | split
      | dsimp only

theorem B2SIZE_le_MAXCHUNK (ps t : Nat) (ht : t ≤ BUCKETS ps) :
    B2SIZE t ≤ MALLOC_MAXCHUNK ps := by
  unfold B2SIZE BUCKETS at *
  rw [MALLOC_MINSIZE_eq] at *
  have := Nat.div_mul_le_self (MALLOC_MAXCHUNK ps) 16
  calc t * 16 ≤ MALLOC_MAXCHUNK ps / 16 * 16 := Nat.mul_le_mul_right 16 ht
    _ ≤ MALLOC_MAXCHUNK ps := this

theorem large_slot_aligned {ps : Nat} {s : pool_state} {ri : Nat} (_hps : 5 ≤ ps)
    (hal : pool_aligned ps s)
    (hbig : REALSIZE ps (slot s.d.r ri) > MALLOC_MAXCHUNK ps) :
    (slot s.d.r ri).p % 2 ^ ps = 0 := by
  have htag := slot_tag (aligned_tags hal) ri
  unfold REALSIZE at hbig
  simp only [] at hbig
  split at hbig
  · rename_i h0
    rw [MALLOC_PAGEMASK_eq, Nat.and_pow_two_sub_one_eq_mod] at h0
    exact h0
  · have := B2SIZE_le_MAXCHUNK ps (((slot s.d.r ri).p &&& MALLOC_PAGEMASK ps) - 1) (by omega)
    omega

theorem aligned_of_not_ne {a p n : Nat} (ha : a % 2 ^ n = 0) (h : ¬ a ≠ p) :
    p % 2 ^ n = 0 := by
  rw [← not_not.mp h]; exact ha

theorem ofree_large_al {ps : Nat} {mopts : malloc_readonly} {ri p sz clear argsz : Nat}
    (hps : 5 ≤ ps) {s : pool_state} {Q : Unit → pool_state → Prop} (hal : pool_aligned ps s)
    (hbig : REALSIZE ps (slot s.d.r ri) > MALLOC_MAXCHUNK ps)
    (hQ : ∀ a s', pool_aligned ps s' → Q a s') :
    wp (ofree_large ps mopts ri p sz clear argsz) Q s := by
  have hra := large_slot_aligned hps hal hbig
  unfold ofree_large
  repeat' first
    | with_reducible apply wp_ite_i
    | with_reducible apply wp_bind_i
    | with_reducible apply wp_pure_i
    | with_reducible apply wp_get_i
    | with_reducible apply wp_set_i
    | with_reducible apply wp_modify_i
    | with_reducible apply wp_lift_outcome_i
    | with_reducible exact wp_wrterror_i
    | with_reducible exact wp_undefined_i
    | with_reducible exact wp_diverges_i
    | with_reducible apply keeps_wp s getrbyte_al
    | with_reducible apply keeps_wp s validate_junk_al
    | with_reducible apply keeps_wp s validate_canary_al
    | with_reducible apply keeps_wp s os_munmap_al
    | with_reducible apply keeps_wp s os_mprotect_al
    | with_reducible apply keeps_wp s os_mmap_fixed_al
    | with_reducible apply keeps_wp s delete_pool_al
    | with_reducible apply keeps_wp s STATS_SETF_al
    | with_reducible apply keeps_wp s set_region_size_al
    | with_reducible apply keeps_wp s (unmap_al ?_)
    | with_reducible assumption
    | with_reducible apply hQ
    | intro _ s hal
    | intro _
    | split
    | dsimp only
  all_goals first
    | exact hra
    | exact aligned_of_not_ne hra (by assumption)

theorem ofree_chunk_al {ps : Nat} {mopts : malloc_readonly} {ri p sz : Nat} :
    keeps (aligned_rel ps) (ofree_chunk ps mopts ri p sz) := by
  unfold ofree_chunk
  apply keeps_intro
  intro z s Q hal hQ
  repeat' first
    | with_reducible apply wp_ite_i
    | with_reducible apply wp_bind_i
    | with_reducible apply wp_pure_i
    | with_reducible apply wp_get_i
    | with_reducible apply wp_set_i
    | with_reducible apply wp_modify_i
    | with_reducible apply wp_lift_outcome_i
    | with_reducible exact wp_wrterror_i
    | with_reducible exact wp_undefined_i
    | with_reducible exact wp_diverges_i
    | with_reducible apply keeps_wp s getrbyte_al
    | with_reducible apply keeps_wp s validate_junk_al
    | with_reducible apply keeps_wp s validate_canary_al
    | with_reducible apply keeps_wp s os_munmap_al
    | with_reducible apply keeps_wp s os_mprotect_al
    | with_reducible apply keeps_wp s os_mmap_fixed_al
    | with_reducible apply keeps_wp s delete_pool_al
    | with_reducible apply keeps_wp s STATS_SETF_al
    | with_reducible apply keeps_wp s set_region_size_al
    | with_reducible apply keeps_wp s find_chunknum_check_al
    | with_reducible apply keeps_wp s (ofree_freecheck_al _)
    | with_reducible apply free_bytes_al
    | with_reducible assumption
    | with_reducible apply hQ
    | intro _ s hal
    | intro _
    | split
    | dsimp only

theorem ofree_al {ps : Nat} {mopts : malloc_readonly} {p clear check argsz : Nat}
    (hps : 5 ≤ ps) : keeps (aligned_rel ps) (ofree ps mopts p clear check argsz) := by
  unfold ofree
  apply keeps_intro
  intro z s Q hal hQ
  repeat' first
    | with_reducible apply wp_ite_i
    | with_reducible apply wp_bind_i
    | with_reducible apply wp_pure_i
    | with_reducible apply wp_get_i
    | with_reducible apply wp_set_i
    | with_reducible apply wp_modify_i
    | with_reducible apply wp_lift_outcome_i
    | with_reducible exact wp_wrterror_i
    | with_reducible exact wp_undefined_i
    | with_reducible exact wp_diverges_i
    | with_reducible apply keeps_wp s getrbyte_al
    | with_reducible apply keeps_wp s validate_junk_al
    | with_reducible apply keeps_wp s validate_canary_al
    | with_reducible apply keeps_wp s os_munmap_al
    | with_reducible apply keeps_wp s os_mprotect_al
    | with_reducible apply keeps_wp s os_mmap_fixed_al
    | with_reducible apply keeps_wp s delete_pool_al
    | with_reducible apply keeps_wp s STATS_SETF_al
    | with_reducible apply keeps_wp s set_region_size_al
    | with_reducible apply keeps_wp s findpool_al
    | with_reducible apply keeps_wp s find_chunknum_check_al
    | with_reducible apply keeps_wp s ofree_chunk_al
    | with_reducible apply ofree_large_al hps
    | with_reducible assumption
    | with_reducible apply hQ
    | intro _ s hal
    | intro _
    | split
    | dsimp only
  all_goals exact (absurd (by assumption : REALSIZE ps _ > MALLOC_MAXCHUNK ps)
    (Nat.not_lt.mpr (by assumption)))

theorem orealloc_pages_ah {ps : Nat} {mopts : malloc_readonly} {ri p goldsz gnewsz f : Nat} :
    keeps (aligned_heap ps) (orealloc_pages ps mopts ri p goldsz gnewsz f) := by
  unfold orealloc_pages
  apply keeps_intro
  rintro z s Q ⟨hal, hheap⟩ hQ
  repeat' first
    | with_reducible apply wp_ite_i
    | with_reducible apply wp_bind_i
    | with_reducible apply wp_pure_i
    | with_reducible apply wp_get_i
    | with_reducible apply wp_set_i
    | with_reducible apply wp_modify_i
    | with_reducible exact wp_wrterror_i
    | with_reducible exact wp_undefined_i
    | with_reducible exact wp_diverges_i
    | with_reducible apply keeps_wp z getrbyte_ah
    | with_reducible apply keeps_wp z validate_junk_ah
    | with_reducible apply keeps_wp z os_munmap_ah
    | with_reducible apply keeps_wp z os_mprotect_ah
    | with_reducible apply keeps_wp z os_mmap_fixed_ah
    | with_reducible apply keeps_wp z set_region_size_ah
    | with_reducible apply keeps_wp z STATS_SETF_ah
    | with_reducible exact ⟨by assumption, by assumption⟩
    | with_reducible apply hQ
    | rintro _ s ⟨hal, hheap⟩
    | intro _
    | split
    | dsimp only

theorem omalloc_keeps {ps : Nat} {mopts : malloc_readonly} {sz zero_fill f : Nat}
    (hps : 5 ≤ ps) (hps16 : ps ≤ 16) :
    keeps (aligned_rel ps) (omalloc ps mopts sz zero_fill f) :=
  keeps_intro fun _ _ _ h hQ => omalloc_al hps hps16 h (fun a s' h' _ => hQ a s' h')

theorem orealloc_al {ps : Nat} {mopts : malloc_readonly} {p newsz f : Nat}
    (hps : 5 ≤ ps) (hps16 : ps ≤ 16) :
    keeps (aligned_rel ps) (orealloc ps mopts p newsz f) := by
  unfold orealloc
  apply keeps_intro
  intro z s Q hal hQ
  apply wp_ite_i
  · intro _
    exact keeps_wp z (omalloc_keeps hps hps16) hal hQ
  intro _
  apply wp_ite_i
  · intro _
    apply wp_bind_i
    apply wp_modify_i
    apply wp_pure_i
    exact hQ _ _ hal
  intro _
  apply wp_bind_i
  apply keeps_wp z findpool_al hal
  intro ri y haly
  apply wp_bind_i
  apply wp_get_i
  have hpage : ∀ bp, (heap_get y bp).page % 2 ^ ps = 0 := fun bp => aligned_heap_get haly bp
  have hal := shape_refl y haly
  have hpost : ∀ a s', aligned_shape ps y y s' → Q a s' := fun a s' h => hQ a s' h.1
  repeat' first
    | with_reducible apply wp_ite_i
    | with_reducible apply wp_bind_i
    | with_reducible apply wp_pure_i
    | with_reducible apply wp_get_i
    | with_reducible apply wp_set_i
    | with_reducible apply wp_modify_i
    | with_reducible apply wp_lift_outcome_i
    | with_reducible exact wp_wrterror_i
    | with_reducible exact wp_undefined_i
    | with_reducible exact wp_diverges_i
    | with_reducible apply keeps_wp y (shape_of_heap y getrbyte_ah)
    | with_reducible apply keeps_wp y (shape_of_heap y validate_junk_ah)
    | with_reducible apply keeps_wp y (shape_of_heap y validate_canary_ah)
    | with_reducible apply keeps_wp y (shape_of_heap y os_munmap_ah)
    | with_reducible apply keeps_wp y (shape_of_heap y os_mprotect_ah)
    | with_reducible apply keeps_wp y (shape_of_heap y os_mmap_fixed_ah)
    | with_reducible apply keeps_wp y (shape_of_heap y delete_pool_ah)
    | with_reducible apply keeps_wp y (shape_of_heap y STATS_SETF_ah)
    | with_reducible apply keeps_wp y (shape_of_heap y set_region_size_ah)
    | with_reducible apply keeps_wp y (shape_of_heap y find_chunknum_check_ah)
    | with_reducible apply keeps_wp y (shape_of_heap y orealloc_pages_ah)
    | with_reducible apply keeps_wp y (omalloc_keeps hps hps16)
    | with_reducible apply keeps_wp y (ofree_al hps)
    | with_reducible assumption
    | with_reducible exact shape_remove (by with_reducible assumption) _
    | with_reducible exact (And.left (by with_reducible assumption : aligned_shape ps y y _))
    | with_reducible exact shape_heap_set (by with_reducible assumption) (hpage _) rfl rfl
    | with_reducible exact hpost _ _ (by with_reducible assumption)
    | with_reducible exact hpost _ _ (shape_heap_set (by with_reducible assumption) (hpage _) rfl rfl)
    | with_reducible apply hQ
    | intro _ s hal
    | intro _
    | split
    | dsimp only


theorem orecallocarray_al {ps : Nat} {mopts : malloc_readonly} {p oldsize newsize f : Nat}
    (hps : 5 ≤ ps) (hps16 : ps ≤ 16) :
    keeps (aligned_rel ps) (orecallocarray ps mopts p oldsize newsize f) := by
  unfold orecallocarray
  apply keeps_intro
  intro z s Q hal hQ
  repeat' first
    | with_reducible apply wp_ite_i
    | with_reducible apply wp_bind_i
    | with_reducible apply wp_pure_i
    | with_reducible apply wp_get_i
    | with_reducible apply wp_set_i
    | with_reducible apply wp_modify_i
    | with_reducible apply wp_lift_outcome_i
    | with_reducible exact wp_wrterror_i
    | with_reducible exact wp_undefined_i
    | with_reducible exact wp_diverges_i
    | with_reducible apply keeps_wp s getrbyte_al
    | with_reducible apply keeps_wp s validate_junk_al
    | with_reducible apply keeps_wp s validate_canary_al
    | with_reducible apply keeps_wp s os_munmap_al
    | with_reducible apply keeps_wp s os_mprotect_al
    | with_reducible apply keeps_wp s os_mmap_fixed_al
    | with_reducible apply keeps_wp s delete_pool_al
    | with_reducible apply keeps_wp s STATS_SETF_al
    | with_reducible apply keeps_wp s set_region_size_al
    | with_reducible apply keeps_wp s findpool_al
    | with_reducible apply keeps_wp s find_chunknum_check_al
    | with_reducible apply keeps_wp s (omalloc_keeps hps hps16)
    | with_reducible apply keeps_wp s (ofree_al hps)
    | with_reducible assumption
    | with_reducible apply hQ
    | intro _ s hal
    | intro _
    | split
    | dsimp only

theorem sub64_pow_one (k : Nat) (hk : k < 64) : sub64 (2 ^ k) 1 = 2 ^ k - 1 := by
  have h1 : 2 ^ k < 2 ^ 64 := Nat.pow_lt_pow_right (by norm_num) hk
  have h2 : 0 < 2 ^ k := Nat.pow_pos (by norm_num)
  unfold sub64
  rw [Nat.mod_eq_of_lt h1]
  norm_num
  omega

theorem trim_aligned (x k : Nat) (hk : k < 64) :
    (x &&& not64 (sub64 (2 ^ k) 1)) % 2 ^ k = 0 := by
  rw [sub64_pow_one k hk, and_not64_mask _ _ (by omega)]
  exact Nat.mul_mod_left _ _

theorem bin_of_pow : ∀ j, j < 12 → bin_of (2 ^ (j + 4)) = 2 ^ (j + 4) := by decide

theorem find_bucket_pow2 (mopts : malloc_readonly) (ps i : Nat) (hps : 5 ≤ ps)
    (hps16 : ps ≤ 16) (h4 : 4 ≤ i) (hi : i ≤ ps - 1) :
    B2ALLOC (find_bucket mopts (2 ^ i)) = 2 ^ i := by
  have hform : 2 ^ i = 16 * 2 ^ (i - 4) := by
    rw [two_pow_dvd_form 4 i h4]; norm_num
  have hpos : 0 < 2 ^ (i - 4) := Nat.pow_pos (by norm_num)
  have hle : 2 ^ i ≤ 2 ^ (ps - 1) := Nat.pow_le_pow_right (by norm_num) hi
  have hp15 : 2 ^ (ps - 1) ≤ 2 ^ 15 := Nat.pow_le_pow_right (by norm_num) (by omega)
  have hfb : find_bucket mopts (2 ^ i) = 2 ^ (i - 4) := by
    by_cases hc : mopts.def_maxcache = 0
    · rw [find_bucket_lin mopts _ hc (Nat.pow_pos (by norm_num)) (by omega)]
      omega
    · obtain ⟨e, _⟩ := find_bucket_bin mopts ps (2 ^ i) hps hps16 hc
        (Nat.pow_pos (by norm_num)) (by rw [MALLOC_MAXCHUNK_eq]; exact hle)
      rw [e, Nat.max_eq_left (by omega)]
      have hb := bin_of_pow (i - 4) (by omega)
      rw [Nat.sub_add_cancel h4] at hb
      rw [hb]
      omega
  rw [hfb]
  unfold B2ALLOC
  rw [if_neg (by omega), MALLOC_MINSIZE_eq]
  omega

theorem omemalign_pof2_zero (sz : Nat) (hsz : 0 < sz) :
    ∀ fuel, omemalign_pof2 sz fuel 0 = none := by
  intro fuel
  induction fuel with
  | zero => rfl
  | succ n ih =>
    unfold omemalign_pof2
    rw [if_pos hsz]
    have : shl64 0 1 = 0 := by decide
    rw [this]
    exact ih

theorem shl64_pow (j : Nat) (hj : j < 63) : shl64 (2 ^ j) 1 = 2 ^ (j + 1) := by
  unfold shl64
  rw [Nat.shiftLeft_eq, ← pow_succ]
  exact Nat.mod_eq_of_lt (Nat.pow_lt_pow_right (by norm_num) (by omega))

theorem shl64_pow63 : shl64 (2 ^ 63) 1 = 0 := by decide

theorem omemalign_pof2_spec (sz : Nat) :
    ∀ fuel j pof2, j ≤ 63 → omemalign_pof2 sz fuel (2 ^ j) = some pof2 →
      ∃ i, pof2 = 2 ^ i ∧ j ≤ i ∧ i ≤ 63 ∧ sz ≤ pof2 ∧ (i = j ∨ 2 ^ (i - 1) < sz) := by
  intro fuel
  induction fuel with
  | zero =>
    intro j pof2 _ h
    simp [omemalign_pof2] at h
  | succ n ih =>
    intro j pof2 hj h
    unfold omemalign_pof2 at h
    split at h
    · rename_i hlt
      rcases Nat.lt_or_ge j 63 with h63 | h63
      · rw [shl64_pow j h63] at h
        obtain ⟨i, e, h1, h2, h3, h4⟩ := ih (j + 1) pof2 (by omega) h
        refine ⟨i, e, by omega, h2, h3, ?_⟩
        rcases h4 with h4 | h4
        · right
          rw [h4, Nat.add_sub_cancel]
          exact hlt
        · right; exact h4
      · have e : j = 63 := by omega
        subst e
        rw [shl64_pow63, omemalign_pof2_zero sz (by omega)] at h
        exact absurd h (by simp)
    · rename_i hge
      simp only [Option.some.injEq] at h
      exact ⟨j, h.symm, le_refl _, hj, by omega, Or.inl rfl⟩

theorem chunk_pointer_mod {ps k page n B : Nat} (hk : k ≤ ps) (hps : ps ≤ 64)
    (hpage : page % 2 ^ ps = 0) (hB : 2 ^ k ∣ B) :
    add64 page ((n * B) % 2 ^ 64) % 2 ^ k = 0 := by
  have h1 : page % 2 ^ k = 0 :=
    Nat.mod_eq_zero_of_dvd (Dvd.dvd.trans (Nat.pow_dvd_pow 2 hk) (Nat.dvd_of_mod_eq_zero hpage))
  have h2 : ((n * B) % 2 ^ 64) % 2 ^ k = 0 := by
    rw [Nat.mod_mod_of_dvd _ (Nat.pow_dvd_pow 2 (by omega : k ≤ 64))]
    exact Nat.mod_eq_zero_of_dvd (Dvd.dvd.mul_left hB n)
  exact add64_aligned (by omega) h1 h2

theorem move_cond_false (ps : Nat) (mopts : malloc_readonly) (sz : Nat) (hsz : sz < 2 ^ 64)
    (hbig : MALLOC_PAGESIZE ps ≤ sz) :
    MALLOC_MOVE_COND ps mopts (add64 sz mopts.malloc_guard) = false := by
  unfold MALLOC_MOVE_COND MALLOC_LEEWAY
  rw [decide_eq_false_iff_not, Nat.sub_zero, Nat.not_lt]
  have e : sub64 (add64 sz mopts.malloc_guard) mopts.malloc_guard = sz := by
    unfold sub64 add64
    rw [Nat.mod_mod]
    generalize mopts.malloc_guard = g
    have hg := Nat.mod_lt g (by norm_num : 0 < 2 ^ 64)
    have e1 : (sz + g) % 2 ^ 64 = (sz + g % 2 ^ 64) % 2 ^ 64 := by omega
    rw [e1]
    generalize g % 2 ^ 64 = g2 at hg ⊢
    omega
  rw [e]; exact hbig

theorem mapalign_trim_al {ps : Nat} {p sz k : Nat} (hk : k < 64)
    {s : pool_state} {Q : Nat → pool_state → Prop} (hal : pool_aligned ps s)
    (hQ : ∀ a s', pool_aligned ps s' → a % 2 ^ k = 0 → Q a s') :
    wp (mapalign_trim p (2 ^ k) sz) Q s := by
  have hq := trim_aligned (sub64 (add64 p (2 ^ k)) 1) k hk
  unfold mapalign_trim
  have hpost : ∀ s', pool_aligned ps s' →
      Q (sub64 (add64 p (2 ^ k)) 1 &&& not64 (sub64 (2 ^ k) 1)) s' := fun s' h => hQ _ s' h hq
  clear hQ
  repeat' first
    | with_reducible apply wp_ite_i
    | with_reducible apply wp_bind_i
    | with_reducible apply wp_pure_i
    | with_reducible apply wp_get_i
    | with_reducible apply wp_set_i
    | with_reducible apply wp_modify_i
    | with_reducible apply wp_lift_outcome_i
    | with_reducible exact wp_wrterror_i
    | with_reducible exact wp_undefined_i
    | with_reducible exact wp_diverges_i
    | with_reducible apply keeps_wp s getrbyte_al
    | with_reducible apply keeps_wp s validate_junk_al
    | with_reducible apply keeps_wp s validate_canary_al
    | with_reducible apply keeps_wp s os_munmap_al
    | with_reducible apply keeps_wp s os_mprotect_al
    | with_reducible apply keeps_wp s os_mmap_fixed_al
    | with_reducible apply keeps_wp s delete_pool_al
    | with_reducible apply keeps_wp s STATS_SETF_al
    | with_reducible apply keeps_wp s set_region_size_al
    | with_reducible assumption
    | with_reducible apply hQ
    | intro _ s hal
    | intro _
    | split
    | dsimp only
  all_goals exact hpost _ (by with_reducible assumption)

theorem mapalign_al {ps : Nat} {mopts : malloc_readonly} {sz zero_fill k : Nat}
    (hps : ps ≤ 64) (hk : k < 64)
    {s : pool_state} {Q : Nat → pool_state → Prop} (hal : pool_aligned ps s)
    (hQ : ∀ a s', pool_aligned ps s' → (a = MAP_FAILED ∨ a % 2 ^ k = 0) → Q a s') :
    wp (mapalign ps mopts (2 ^ k) sz zero_fill) Q s := by
  unfold mapalign
  apply wp_ite_i
  · intro _; exact wp_wrterror_i
  intro _
  apply wp_ite_i
  · intro _; exact wp_wrterror_i
  intro _
  apply wp_ite_i
  · intro _
    apply wp_pure_i
    exact hQ _ _ hal (Or.inl rfl)
  intro _
  apply wp_bind_i
  apply map_al hps hal
  intro p s1 hal1 _
  apply wp_ite_i
  · intro _
    apply wp_pure_i
    exact hQ _ _ hal1 (Or.inl rfl)
  · intro _
    exact mapalign_trim_al hk hal1 (fun a s' h hq => hQ a s' h (Or.inr hq))

theorem pow_aligned_page {ps k a : Nat} (hk : ps ≤ k) (h : a % 2 ^ k = 0) : a % 2 ^ ps = 0 :=
  Nat.mod_eq_zero_of_dvd (Dvd.dvd.trans (Nat.pow_dvd_pow 2 hk) (Nat.dvd_of_mod_eq_zero h))

theorem omemalign_al {ps : Nat} {mopts : malloc_readonly} {sz zero_fill f k : Nat}
    (hps : 5 ≤ ps) (hps16 : ps ≤ 16) (hk : k < 64) (hsz : sz < 2 ^ 64)
    {s : pool_state} {Q : Nat → pool_state → Prop} (hal : pool_aligned ps s)
    (hQ : ∀ a s', pool_aligned ps s' → a % 2 ^ k = 0 → Q a s') :
    wp (omemalign ps mopts (2 ^ k) sz zero_fill f) Q s := by
  have hP := MALLOC_PAGESIZE_eq ps
  have hC := MALLOC_MAXCHUNK_eq ps
  have hPC : 2 ^ ps = 2 ^ (ps - 1) * 2 := by
    rw [← pow_succ]; congr 1; omega
  have hzero : ∀ s', pool_aligned ps s' → Q 0 s' := fun s' h => hQ 0 s' h (Nat.zero_mod _)
  unfold omemalign
  dsimp only
  generalize hsz1 : (if sz > MALLOC_MAXCHUNK ps ∧ sz < MALLOC_PAGESIZE ps then
    MALLOC_PAGESIZE ps else sz) = sz1
  have hsz1' : (sz1 ≤ MALLOC_MAXCHUNK ps ∨ MALLOC_PAGESIZE ps ≤ sz1) ∧ sz1 < 2 ^ 64 := by
    rw [← hsz1]
    have : 2 ^ ps < 2 ^ 64 := Nat.pow_lt_pow_right (by norm_num) (by omega)
    split <;> omega
  apply wp_ite_i
  · intro hle
    rw [hP] at hle
    have hkps : k ≤ ps := (Nat.pow_le_pow_iff_right (by norm_num)).1 hle
    generalize hsz2 : (if sz1 < 2 ^ k then 2 ^ k else sz1) = sz2
    have hsz2' : (sz2 ≤ MALLOC_MAXCHUNK ps ∨ MALLOC_PAGESIZE ps ≤ sz2) ∧ sz2 < 2 ^ 64 ∧
        2 ^ k ≤ sz2 := by
      rw [← hsz2]
      have : 2 ^ ps < 2 ^ 64 := Nat.pow_lt_pow_right (by norm_num) (by omega)
      rcases Nat.lt_or_ge k ps with h1 | h1
      · have : 2 ^ k ≤ 2 ^ (ps - 1) := Nat.pow_le_pow_right (by norm_num) (by omega)
        split <;> omega
      · have e : k = ps := by omega
        subst e
        split <;> omega
    apply wp_ite_i
    · intro hlt
      split
      · exact wp_diverges_i
      · rename_i pof2 hpof
        have h16 : MALLOC_MINSIZE = 2 ^ 4 := by decide
        rw [h16] at hpof
        obtain ⟨i, e, h4, _, hge, hmin⟩ := omemalign_pof2_spec sz2 64 4 pof2 (by omega) hpof
        have hi : i ≤ ps - 1 := by
          rcases hmin with h | h
          · omega
          · by_contra hc
            have : 2 ^ (ps - 1) ≤ 2 ^ (i - 1) := Nat.pow_le_pow_right (by norm_num) (by omega)
            omega
        have hki : 2 ^ k ∣ 2 ^ i := by
          apply Nat.pow_dvd_pow
          by_contra hc
          have : 2 ^ i < 2 ^ k := Nat.pow_lt_pow_right (by norm_num) (by omega)
          omega
        have hle2 : pof2 ≤ MALLOC_MAXCHUNK ps := by
          rw [e, hC]; exact Nat.pow_le_pow_right (by norm_num) hi
        apply omalloc_al hps hps16 hal
        rintro a s' h' ⟨hchunk, _⟩
        apply hQ a s' h'
        rcases hchunk hle2 with h0 | ⟨page, n, hpage, ha⟩
        · rw [h0]; exact Nat.zero_mod _
        · rw [ha, e, find_bucket_pow2 mopts ps i hps hps16 h4 hi]
          exact chunk_pointer_mod hkps (by omega) hpage hki
    · intro hge
      have hbig : MALLOC_PAGESIZE ps ≤ sz2 := Nat.not_lt.mp hge
      have hpos : 0 < 2 ^ (ps - 1) := Nat.pow_pos (by norm_num)
      apply omalloc_al hps hps16 hal
      rintro a s' h' ⟨_, hlarge⟩
      apply hQ a s' h'
      rcases hlarge (by omega) with h0 | ⟨p, hp, ha⟩
      · rw [h0]; exact Nat.zero_mod _
      · rw [move_cond_false ps mopts sz2 hsz2'.2.1 hbig] at ha
        rw [ha]
        exact Nat.mod_eq_zero_of_dvd
          (Dvd.dvd.trans (Nat.pow_dvd_pow 2 hkps) (Nat.dvd_of_mod_eq_zero hp))
  · intro hgt
    rw [hP] at hgt
    have hpsk : ps ≤ k := by
      by_contra hc
      have : 2 ^ k ≤ 2 ^ ps := Nat.pow_le_pow_right (by norm_num) (by omega)
      omega
    apply wp_ite_i
    · intro _
      apply wp_bind_i
      apply wp_modify_i
      apply wp_pure_i
      exact hzero _ hal
    · intro _
      apply wp_bind_i
      apply mapalign_al (by omega) hk hal
      intro p s1 hal1 hp
      apply wp_ite_i
      · intro _
        apply wp_bind_i
        apply wp_modify_i
        apply wp_pure_i
        exact hzero _ hal1
      · intro hne
        have hpk := mmap_ok hp hne
        have hpa := pow_aligned_page hpsk hpk
        have hpost : ∀ s', pool_aligned ps s' → Q p s' := fun s' h => hQ p s' h hpk
        clear hQ
        repeat' first
          | with_reducible apply wp_ite_i
          | with_reducible apply wp_bind_i
          | with_reducible apply wp_pure_i
          | with_reducible apply wp_get_i
          | with_reducible apply wp_set_i
          | with_reducible apply wp_modify_i
          | with_reducible apply wp_lift_outcome_i
          | with_reducible exact wp_wrterror_i
          | with_reducible exact wp_undefined_i
          | with_reducible exact wp_diverges_i
          | with_reducible apply keeps_wp s getrbyte_al
          | with_reducible apply keeps_wp s validate_junk_al
          | with_reducible apply keeps_wp s validate_canary_al
          | with_reducible apply keeps_wp s os_munmap_al
          | with_reducible apply keeps_wp s os_mprotect_al
          | with_reducible apply keeps_wp s os_mmap_fixed_al
          | with_reducible apply keeps_wp s delete_pool_al
          | with_reducible apply keeps_wp s STATS_SETF_al
          | with_reducible apply keeps_wp s set_region_size_al
          | with_reducible apply keeps_wp s (insert_pool_al (aligned_tag_zero hpa))
          | with_reducible apply keeps_wp s (unmap_al hpa)
          | with_reducible assumption
          | with_reducible apply hQ
          | intro _ s hal
          | intro _
          | split
          | dsimp only
        all_goals first
          | exact hpost _ (by with_reducible assumption)
          | exact hzero _ (by with_reducible assumption)

theorem testBit_of_ge_pow (x k : Nat) (h1 : 2 ^ k ≤ x) (h2 : x < 2 ^ (k + 1)) :
    x.testBit k = true := by
  obtain ⟨r, rfl⟩ : ∃ r, x = 2 ^ k + r := ⟨x - 2 ^ k, by omega⟩
  have hr : r < 2 ^ k := by rw [pow_succ] at h2; omega
  rw [Nat.testBit_two_pow_add_eq, Nat.testBit_eq_false_of_lt hr]
  rfl

theorem pow2_of_and (a : Nat) (ha : 0 < a) (h : (a - 1) &&& a = 0) : ∃ k, a = 2 ^ k := by
  refine ⟨Nat.log 2 a, ?_⟩
  have h1 : 2 ^ Nat.log 2 a ≤ a := Nat.pow_log_le_self 2 (by omega)
  have h2 : a < 2 ^ (Nat.log 2 a + 1) := Nat.lt_pow_succ_log_self (by norm_num) a
  by_contra hne
  have h3 : 2 ^ Nat.log 2 a ≤ a - 1 := by omega
  have t1 := testBit_of_ge_pow a _ h1 h2
  have t2 := testBit_of_ge_pow (a - 1) _ h3 (by omega)
  have : ((a - 1) &&& a).testBit (Nat.log 2 a) = true := by
    rw [Nat.testBit_and, t1, t2]; rfl
  rw [h, Nat.zero_testBit] at this
  exact absurd this (by simp)

theorem and_of_pow2 (k : Nat) : (2 ^ k - 1) &&& 2 ^ k = 0 := by
  apply Nat.eq_of_testBit_eq
  intro i
  rw [Nat.testBit_and, Nat.zero_testBit, Nat.testBit_two_pow]
  by_cases hi : k = i
  · subst hi
    rw [Nat.testBit_eq_false_of_lt (by have := Nat.pow_pos (n := k) (by norm_num : 0 < 2); omega)]
    rfl
  · simp [hi]


theorem sub64_one (a : Nat) (h0 : 0 < a) (h64 : a < 2 ^ 64) : sub64 a 1 = a - 1 := by
  unfold sub64
  rw [Nat.mod_eq_of_lt h64]
  norm_num
  omega

theorem pow2_of_test (a : Nat) (h0 : 0 < a) (h64 : a < 2 ^ 64)
    (h : sub64 a 1 &&& a = 0) : ∃ k, a = 2 ^ k ∧ k < 64 := by
  rw [sub64_one a h0 h64] at h
  obtain ⟨k, rfl⟩ := pow2_of_and a h0 h
  exact ⟨k, rfl, (Nat.pow_lt_pow_iff_right (by norm_num)).1 h64⟩

theorem omemalign_keeps {ps : Nat} {mopts : malloc_readonly} {alignment sz zero_fill f : Nat}
    (hps : 5 ≤ ps) (hps16 : ps ≤ 16) (h0 : 0 < alignment) (h64 : alignment < 2 ^ 64)
    (hpow : sub64 alignment 1 &&& alignment = 0) (hsz : sz < 2 ^ 64) :
    keeps (aligned_rel ps) (omemalign ps mopts alignment sz zero_fill f) := by
  obtain ⟨k, rfl, hk⟩ := pow2_of_test alignment h0 h64 hpow
  exact keeps_intro fun _ _ _ h hQ =>
    omemalign_al hps hps16 hk hsz h (fun a s' h' _ => hQ a s' h')

theorem EPILOGUE_al {ps : Nat} {mopts : malloc_readonly} {e r : Nat} :
    keeps (aligned_rel ps) (EPILOGUE mopts e r) := by
  unfold EPILOGUE
  apply keeps_intro
  intro z s Q hal hQ
  repeat' first
    | with_reducible apply wp_ite_i
    | with_reducible apply wp_bind_i
    | with_reducible apply wp_pure_i
    | with_reducible apply wp_get_i
    | with_reducible apply wp_set_i
    | with_reducible apply wp_modify_i
    | with_reducible apply wp_lift_outcome_i
    | with_reducible exact wp_wrterror_i
    | with_reducible exact wp_undefined_i
    | with_reducible exact wp_diverges_i
    | with_reducible apply keeps_wp s getrbyte_al
    | with_reducible apply keeps_wp s validate_junk_al
    | with_reducible apply keeps_wp s validate_canary_al
    | with_reducible apply keeps_wp s os_munmap_al
    | with_reducible apply keeps_wp s os_mprotect_al
    | with_reducible apply keeps_wp s os_mmap_fixed_al
    | with_reducible apply keeps_wp s delete_pool_al
    | with_reducible apply keeps_wp s STATS_SETF_al
    | with_reducible apply keeps_wp s set_region_size_al
    | with_reducible assumption
    | with_reducible apply hQ
    | intro _ s hal
    | intro _
    | split
    | dsimp only

theorem malloc_al {ps : Nat} {mopts : malloc_readonly} {size caller : Nat}
    (hps : 5 ≤ ps) (hps16 : ps ≤ 16) :
    keeps (aligned_rel ps) (malloc ps mopts size caller) := by
  unfold malloc
  apply keeps_intro
  intro z s Q hal hQ
  repeat' first
    | with_reducible apply wp_ite_i
    | with_reducible apply wp_bind_i
    | with_reducible apply wp_pure_i
    | with_reducible apply wp_get_i
    | with_reducible apply wp_set_i
    | with_reducible apply wp_modify_i
    | with_reducible apply wp_lift_outcome_i
    | with_reducible exact wp_wrterror_i
    | with_reducible exact wp_undefined_i
    | with_reducible exact wp_diverges_i
    | with_reducible apply keeps_wp s getrbyte_al
    | with_reducible apply keeps_wp s validate_junk_al
    | with_reducible apply keeps_wp s validate_canary_al
    | with_reducible apply keeps_wp s os_munmap_al
    | with_reducible apply keeps_wp s os_mprotect_al
    | with_reducible apply keeps_wp s os_mmap_fixed_al
    | with_reducible apply keeps_wp s delete_pool_al
    | with_reducible apply keeps_wp s STATS_SETF_al
    | with_reducible apply keeps_wp s set_region_size_al
    | with_reducible apply keeps_wp s (omalloc_keeps hps hps16)
    | with_reducible apply keeps_wp s EPILOGUE_al
    | with_reducible assumption
    | with_reducible apply hQ
    | intro _ s hal
    | intro _
    | split
    | dsimp only

theorem free_al {ps : Nat} {mopts : malloc_readonly} {ptr : Nat} (hps : 5 ≤ ps) :
    keeps (aligned_rel ps) (free ps mopts ptr) := by
  unfold free
  apply keeps_intro
  intro z s Q hal hQ
  repeat' first
    | with_reducible apply wp_ite_i
    | with_reducible apply wp_bind_i
    | with_reducible apply wp_pure_i
    | with_reducible apply wp_get_i
    | with_reducible apply wp_set_i
    | with_reducible apply wp_modify_i
    | with_reducible apply wp_lift_outcome_i
    | with_reducible exact wp_wrterror_i
    | with_reducible exact wp_undefined_i
    | with_reducible exact wp_diverges_i
    | with_reducible apply keeps_wp s getrbyte_al
    | with_reducible apply keeps_wp s validate_junk_al
    | with_reducible apply keeps_wp s validate_canary_al
    | with_reducible apply keeps_wp s os_munmap_al
    | with_reducible apply keeps_wp s os_mprotect_al
    | with_reducible apply keeps_wp s os_mmap_fixed_al
    | with_reducible apply keeps_wp s delete_pool_al
    | with_reducible apply keeps_wp s STATS_SETF_al
    | with_reducible apply keeps_wp s set_region_size_al
    | with_reducible apply keeps_wp s (ofree_al hps)
    | with_reducible assumption
    | with_reducible apply hQ
    | intro _ s hal
    | intro _
    | split
    | dsimp only

theorem freezero_al {ps : Nat} {mopts : malloc_readonly} {ptr sz : Nat} (hps : 5 ≤ ps) :
    keeps (aligned_rel ps) (freezero ps mopts ptr sz) := by
  unfold freezero
  apply keeps_intro
  intro z s Q hal hQ
  repeat' first
    | with_reducible apply wp_ite_i
    | with_reducible apply wp_bind_i
    | with_reducible apply wp_pure_i
    | with_reducible apply wp_get_i
    | with_reducible apply wp_set_i
    | with_reducible apply wp_modify_i
    | with_reducible apply wp_lift_outcome_i
    | with_reducible exact wp_wrterror_i
    | with_reducible exact wp_undefined_i
    | with_reducible exact wp_diverges_i
    | with_reducible apply keeps_wp s getrbyte_al
    | with_reducible apply keeps_wp s validate_junk_al
    | with_reducible apply keeps_wp s validate_canary_al
    | with_reducible apply keeps_wp s os_munmap_al
    | with_reducible apply keeps_wp s os_mprotect_al
    | with_reducible apply keeps_wp s os_mmap_fixed_al
    | with_reducible apply keeps_wp s delete_pool_al
    | with_reducible apply keeps_wp s STATS_SETF_al
    | with_reducible apply keeps_wp s set_region_size_al
    | with_reducible apply keeps_wp s (ofree_al hps)
    | with_reducible apply keeps_wp s (free_al hps)
    | with_reducible assumption
    | with_reducible apply hQ
    | intro _ s hal
    | intro _
    | split
    | dsimp only

theorem realloc_al {ps : Nat} {mopts : malloc_readonly} {ptr size caller : Nat}
    (hps : 5 ≤ ps) (hps16 : ps ≤ 16) :
    keeps (aligned_rel ps) (realloc ps mopts ptr size caller) := by
  unfold realloc
  apply keeps_intro
  intro z s Q hal hQ
  repeat' first
    | with_reducible apply wp_ite_i
    | with_reducible apply wp_bind_i
    | with_reducible apply wp_pure_i
    | with_reducible apply wp_get_i
    | with_reducible apply wp_set_i
    | with_reducible apply wp_modify_i
    | with_reducible apply wp_lift_outcome_i
    | with_reducible exact wp_wrterror_i
    | with_reducible exact wp_undefined_i
    | with_reducible exact wp_diverges_i
    | with_reducible apply keeps_wp s getrbyte_al
    | with_reducible apply keeps_wp s validate_junk_al
    | with_reducible apply keeps_wp s validate_canary_al
    | with_reducible apply keeps_wp s os_munmap_al
    | with_reducible apply keeps_wp s os_mprotect_al
    | with_reducible apply keeps_wp s os_mmap_fixed_al
    | with_reducible apply keeps_wp s delete_pool_al
    | with_reducible apply keeps_wp s STATS_SETF_al
    | with_reducible apply keeps_wp s set_region_size_al
    | with_reducible apply keeps_wp s (orealloc_al hps hps16)
    | with_reducible apply keeps_wp s EPILOGUE_al
    | with_reducible assumption
    | with_reducible apply hQ
    | intro _ s hal
    | intro _
    | split
    | dsimp only

theorem calloc_al {ps : Nat} {mopts : malloc_readonly} {nmemb size caller : Nat}
    (hps : 5 ≤ ps) (hps16 : ps ≤ 16) :
    keeps (aligned_rel ps) (calloc ps mopts nmemb size caller) := by
  unfold calloc
  apply keeps_intro
  intro z s Q hal hQ
  repeat' first
    | with_reducible apply wp_ite_i
    | with_reducible apply wp_bind_i
    | with_reducible apply wp_pure_i
    | with_reducible apply wp_get_i
    | with_reducible apply wp_set_i
    | with_reducible apply wp_modify_i
    | with_reducible apply wp_lift_outcome_i
    | with_reducible exact wp_wrterror_i
    | with_reducible exact wp_undefined_i
    | with_reducible exact wp_diverges_i
    | with_reducible apply keeps_wp s getrbyte_al
    | with_reducible apply keeps_wp s validate_junk_al
    | with_reducible apply keeps_wp s validate_canary_al
    | with_reducible apply keeps_wp s os_munmap_al
    | with_reducible apply keeps_wp s os_mprotect_al
    | with_reducible apply keeps_wp s os_mmap_fixed_al
    | with_reducible apply keeps_wp s delete_pool_al
    | with_reducible apply keeps_wp s STATS_SETF_al
    | with_reducible apply keeps_wp s set_region_size_al
    | with_reducible apply keeps_wp s (omalloc_keeps hps hps16)
    | with_reducible apply keeps_wp s EPILOGUE_al
    | with_reducible assumption
    | with_reducible apply hQ
    | intro _ s hal
    | intro _
    | split
    | dsimp only

theorem recallocarray_p_al {ps : Nat} {mopts : malloc_readonly}
    {ptr oldnmemb newnmemb size caller : Nat} (hps : 5 ≤ ps) (hps16 : ps ≤ 16) :
    keeps (aligned_rel ps) (recallocarray_p ps mopts ptr oldnmemb newnmemb size caller) := by
  unfold recallocarray_p
  apply keeps_intro
  intro z s Q hal hQ
  repeat' first
    | with_reducible apply wp_ite_i
    | with_reducible apply wp_bind_i
    | with_reducible apply wp_pure_i
    | with_reducible apply wp_get_i
    | with_reducible apply wp_set_i
    | with_reducible apply wp_modify_i
    | with_reducible apply wp_lift_outcome_i
    | with_reducible exact wp_wrterror_i
    | with_reducible exact wp_undefined_i
    | with_reducible exact wp_diverges_i
    | with_reducible apply keeps_wp s getrbyte_al
    | with_reducible apply keeps_wp s validate_junk_al
    | with_reducible apply keeps_wp s validate_canary_al
    | with_reducible apply keeps_wp s os_munmap_al
    | with_reducible apply keeps_wp s os_mprotect_al
    | with_reducible apply keeps_wp s os_mmap_fixed_al
    | with_reducible apply keeps_wp s delete_pool_al
    | with_reducible apply keeps_wp s STATS_SETF_al
    | with_reducible apply keeps_wp s set_region_size_al
    | with_reducible apply keeps_wp s (calloc_al hps hps16)
    | with_reducible apply keeps_wp s (malloc_al hps hps16)
    | with_reducible apply keeps_wp s (free_al hps)
    | with_reducible assumption
    | with_reducible apply hQ
    | intro _ s hal
    | intro _
    | split
    | dsimp only

theorem recallocarray_al {ps : Nat} {mopts : malloc_readonly}
    {ptr oldnmemb newnmemb size caller : Nat} (hps : 5 ≤ ps) (hps16 : ps ≤ 16) :
    keeps (aligned_rel ps) (recallocarray ps mopts ptr oldnmemb newnmemb size caller) := by
  unfold recallocarray
  apply keeps_intro
  intro z s Q hal hQ
  repeat' first
    | with_reducible apply wp_ite_i
    | with_reducible apply wp_bind_i
    | with_reducible apply wp_pure_i
    | with_reducible apply wp_get_i
    | with_reducible apply wp_set_i
    | with_reducible apply wp_modify_i
    | with_reducible apply wp_lift_outcome_i
    | with_reducible exact wp_wrterror_i
    | with_reducible exact wp_undefined_i
    | with_reducible exact wp_diverges_i
    | with_reducible apply keeps_wp s getrbyte_al
    | with_reducible apply keeps_wp s validate_junk_al
    | with_reducible apply keeps_wp s validate_canary_al
    | with_reducible apply keeps_wp s os_munmap_al
    | with_reducible apply keeps_wp s os_mprotect_al
    | with_reducible apply keeps_wp s os_mmap_fixed_al
    | with_reducible apply keeps_wp s delete_pool_al
    | with_reducible apply keeps_wp s STATS_SETF_al
    | with_reducible apply keeps_wp s set_region_size_al
    | with_reducible apply keeps_wp s (recallocarray_p_al hps hps16)
    | with_reducible apply keeps_wp s (orecallocarray_al hps hps16)
    | with_reducible apply keeps_wp s EPILOGUE_al
    | with_reducible assumption
    | with_reducible apply hQ
    | intro _ s hal
    | intro _
    | split
    | dsimp only

theorem posix_memalign_al {ps : Nat} {mopts : malloc_readonly} {alignment size caller : Nat}
    (hps : 5 ≤ ps) (hps16 : ps ≤ 16) (h64 : alignment < 2 ^ 64) (hsz : size < 2 ^ 64) :
    keeps (aligned_rel ps) (posix_memalign ps mopts alignment size caller) := by
  unfold posix_memalign
  apply keeps_intro
  intro z s Q hal hQ
  apply wp_ite_i
  · intro _
    apply wp_pure_i
    exact hQ _ _ hal
  · intro hok
    have hpow : sub64 alignment 1 &&& alignment = 0 := by
      by_contra hc
      exact hok (Or.inl hc)
    have h0 : 0 < alignment := by
      by_contra hc
      exact hok (Or.inr (by omega))
    repeat' first
      | with_reducible apply wp_ite_i
      | with_reducible apply wp_bind_i
      | with_reducible apply wp_pure_i
      | with_reducible apply wp_get_i
      | with_reducible apply wp_set_i
      | with_reducible apply wp_modify_i
      | with_reducible apply wp_lift_outcome_i
      | with_reducible exact wp_wrterror_i
      | with_reducible exact wp_undefined_i
      | with_reducible exact wp_diverges_i
      | with_reducible apply keeps_wp s getrbyte_al
      | with_reducible apply keeps_wp s validate_junk_al
      | with_reducible apply keeps_wp s validate_canary_al
      | with_reducible apply keeps_wp s os_munmap_al
      | with_reducible apply keeps_wp s os_mprotect_al
      | with_reducible apply keeps_wp s os_mmap_fixed_al
      | with_reducible apply keeps_wp s delete_pool_al
      | with_reducible apply keeps_wp s STATS_SETF_al
      | with_reducible apply keeps_wp s set_region_size_al
      | with_reducible apply keeps_wp s (omemalign_keeps hps hps16 h0 h64 hpow hsz)
      | with_reducible assumption
      | with_reducible apply hQ
      | intro _ s hal
      | intro _
      | split
      | dsimp only

theorem aligned_alloc_al {ps : Nat} {mopts : malloc_readonly} {alignment size caller : Nat}
    (hps : 5 ≤ ps) (hps16 : ps ≤ 16) (h64 : alignment < 2 ^ 64) (hsz : size < 2 ^ 64) :
    keeps (aligned_rel ps) (aligned_alloc ps mopts alignment size caller) := by
  unfold aligned_alloc
  apply keeps_intro
  intro z s Q hal hQ
  apply wp_ite_i
  · intro _
    apply wp_bind_i
    apply wp_modify_i
    apply wp_pure_i
    exact hQ _ _ hal
  · intro hok
    have hpow : sub64 alignment 1 &&& alignment = 0 := by
      by_contra hc
      exact hok (Or.inl hc)
    have h0 : 0 < alignment := by
      by_contra hc
      exact hok (Or.inr (by omega))
    repeat' first
      | with_reducible apply wp_ite_i
      | with_reducible apply wp_bind_i
      | with_reducible apply wp_pure_i
      | with_reducible apply wp_get_i
      | with_reducible apply wp_set_i
      | with_reducible apply wp_modify_i
      | with_reducible apply wp_lift_outcome_i
      | with_reducible exact wp_wrterror_i
      | with_reducible exact wp_undefined_i
      | with_reducible exact wp_diverges_i
      | with_reducible apply keeps_wp s getrbyte_al
      | with_reducible apply keeps_wp s validate_junk_al
      | with_reducible apply keeps_wp s validate_canary_al
      | with_reducible apply keeps_wp s os_munmap_al
      | with_reducible apply keeps_wp s os_mprotect_al
      | with_reducible apply keeps_wp s os_mmap_fixed_al
      | with_reducible apply keeps_wp s delete_pool_al
      | with_reducible apply keeps_wp s STATS_SETF_al
      | with_reducible apply keeps_wp s set_region_size_al
      | with_reducible apply keeps_wp s (omemalign_keeps hps hps16 h0 h64 hpow hsz)
      | with_reducible apply keeps_wp s EPILOGUE_al
      | with_reducible assumption
      | with_reducible apply hQ
      | intro _ s hal
      | intro _
      | split
      | dsimp only

theorem malloc_init_pool_aligned (ps : Nat) (mopts : malloc_readonly) (self i : Nat)
    (mapped env : List Nat) :
    pool_aligned ps { malloc_init_pool ps mopts self i mapped with env := env } := by
  unfold malloc_init_pool
  refine ⟨?_, ?_, ?_, ?_, ?_, ?_, ?_, ?_⟩
  · intro c hc x hx
    obtain ⟨j, _, rfl⟩ := List.mem_map.1 hc
    rw [List.eq_of_mem_replicate hx]
    rfl
  · intro e he
    rw [List.eq_of_mem_replicate he]
    exact Nat.zero_mod _
  · intro ci hci
    exact absurd hci (List.not_mem_nil _)
  · intro e he
    exact absurd he (List.not_mem_nil _)
  · exact Nat.zero_mod _
  · intro b l bp hbp
    exfalso
    rcases mem_getD_of_ne_default (List.replicate (BUCKETS ps + 1)
      (List.replicate MALLOC_CHUNK_LISTS ([] : List Nat))) b [] with h | h
    · have e := List.eq_of_mem_replicate h
      change bp ∈ ((List.replicate (BUCKETS ps + 1)
        (List.replicate MALLOC_CHUNK_LISTS ([] : List Nat))).getD b []).getD l [] at hbp
      rw [e] at hbp
      rcases mem_getD_of_ne_default (List.replicate MALLOC_CHUNK_LISTS ([] : List Nat)) l []
        with h2 | h2
      · rw [List.eq_of_mem_replicate h2] at hbp
        exact absurd hbp (List.not_mem_nil _)
      · rw [h2] at hbp
        exact absurd hbp (List.not_mem_nil _)
    · change bp ∈ ((List.replicate (BUCKETS ps + 1)
        (List.replicate MALLOC_CHUNK_LISTS ([] : List Nat))).getD b []).getD l [] at hbp
      rw [h] at hbp
      exact absurd hbp (List.not_mem_nil _)
  · intro b bp hbp
    exfalso
    change bp ∈ (List.replicate (BUCKETS ps + 1) ([] : List Nat)).getD b [] at hbp
    rcases mem_getD_of_ne_default (List.replicate (BUCKETS ps + 1) ([] : List Nat)) b []
      with h | h
    · rw [List.eq_of_mem_replicate h] at hbp
      exact absurd hbp (List.not_mem_nil _)
    · rw [h] at hbp
      exact absurd hbp (List.not_mem_nil _)
  · intro b bp _ hbp
    exfalso
    change bp ∈ (List.replicate (BUCKETS ps + 1) ([] : List Nat)).getD b [] at hbp
    rcases mem_getD_of_ne_default (List.replicate (BUCKETS ps + 1) ([] : List Nat)) b []
      with h | h
    · rw [List.eq_of_mem_replicate h] at hbp
      exact absurd hbp (List.not_mem_nil _)
    · rw [h] at hbp
      exact absurd hbp (List.not_mem_nil _)

theorem returned_some {α : Type} {x : Outcome (α × pool_state)} {a : α}
    (h : returned x = some a) : ∃ s', x = .ok (a, s') := by
  unfold returned at h
  split at h
  · rename_i b s'
    simp only [Option.some.injEq] at h
    exact ⟨s', by rw [h]⟩
  · exact absurd h (by simp)

theorem wp_run {α : Type} {m : Run α} {Q : α → pool_state → Prop} {s s' : pool_state} {a : α}
    (h : wp m Q s) (e : m s = .ok (a, s')) : Q a s' := by
  unfold wp at h
  exact h a s' e

theorem omemalign_pof2_total (sz : Nat) :
    ∀ d j fuel, sz ≤ 2 ^ (j + d) → j + d ≤ 63 → d < fuel →
      ∃ pof2, omemalign_pof2 sz fuel (2 ^ j) = some pof2 := by
  intro d
  induction d with
  | zero =>
    intro j fuel hsz _ hf
    obtain ⟨n, rfl⟩ : ∃ n, fuel = n + 1 := ⟨fuel - 1, by omega⟩
    unfold omemalign_pof2
    rw [if_neg (by rw [Nat.add_zero] at hsz; omega)]
    exact ⟨_, rfl⟩
  | succ d ih =>
    intro j fuel hsz hj hf
    obtain ⟨n, rfl⟩ : ∃ n, fuel = n + 1 := ⟨fuel - 1, by omega⟩
    unfold omemalign_pof2
    split
    · rw [shl64_pow j (by omega)]
      exact ih (j + 1) n (by rw [Nat.add_assoc, Nat.add_comm 1 d]; exact hsz) (by omega)
        (by omega)
    · exact ⟨_, rfl⟩

theorem trim_q_eq (p k : Nat) (hk : k < 64) (hp : p + 2 ^ k ≤ 2 ^ 64) :
    sub64 (add64 p (2 ^ k)) 1 &&& not64 (sub64 (2 ^ k) 1) =
      (p + 2 ^ k - 1) / 2 ^ k * 2 ^ k := by
  have hpos : 0 < 2 ^ k := Nat.pow_pos (by norm_num)
  have hx : sub64 (add64 p (2 ^ k)) 1 = p + 2 ^ k - 1 := by
    unfold sub64 add64
    rw [Nat.mod_mod]
    generalize 2 ^ k = a at hp hpos
    rcases Nat.lt_or_ge (p + a) (2 ^ 64) with h | h
    · rw [Nat.mod_eq_of_lt h]
      norm_num
      omega
    · have e : p + a = 2 ^ 64 := by omega
      rw [e]
      norm_num
  rw [hx, sub64_pow_one k hk, and_not64_mask _ _ (by omega),
    Nat.mod_eq_of_lt (by omega)]

theorem roundup_bounds (p a : Nat) (ha : 0 < a) :
    p ≤ (p + a - 1) / a * a ∧ (p + a - 1) / a * a < p + a ∧ (p + a - 1) / a * a % a = 0 := by
  have h1 := Nat.div_add_mod (p + a - 1) a
  have h2 := Nat.mod_lt (p + a - 1) ha
  have h3 : a * ((p + a - 1) / a) = (p + a - 1) / a * a := Nat.mul_comm _ _
  refine ⟨by omega, by omega, Nat.mul_mod_left _ _⟩

theorem os_munmap_wp {a sz : Nat} {s : pool_state} {Q : Nat → pool_state → Prop}
    (hQ : ∀ s', s'.mapped = s.mapped.filter (fun x => decide (¬ (a ≤ x ∧ x < a + sz))) → Q 0 s')
    (hfail : ∀ rc s', rc ≠ 0 → Q rc s') : wp (os_munmap a sz) Q s := by
  unfold os_munmap
  apply wp_bind_i
  apply wp_env_next_i
  apply wp_ite_i
  · intro _
    apply wp_pure_i
    exact hfail _ _ (by decide)
  · intro _
    apply wp_bind_i
    apply wp_modify_i
    apply wp_pure_i
    exact hQ _ rfl

theorem mapalign_trim_run (p sz k : Nat) (hk : k < 64) (hp : p + sz + 2 ^ k ≤ 2 ^ 64)
    (s s' : pool_state) (q : Nat) (h : mapalign_trim p (2 ^ k) sz s = .ok (q, s')) :
    q = (p + 2 ^ k - 1) / 2 ^ k * 2 ^ k ∧
    s'.mapped = s.mapped.filter (fun x =>
      decide (¬ (p ≤ x ∧ x < q)) && decide (¬ (q + sz ≤ x ∧ x < p + sz + 2 ^ k))) := by
  have hpos : 0 < 2 ^ k := Nat.pow_pos (by norm_num)
  have h64 : 2 ^ k < 2 ^ 64 := Nat.pow_lt_pow_right (by norm_num) hk
  obtain ⟨b1, b2, _⟩ := roundup_bounds p (2 ^ k) hpos
  refine wp_run (Q := fun q s' => q = (p + 2 ^ k - 1) / 2 ^ k * 2 ^ k ∧
    s'.mapped = s.mapped.filter (fun x =>
      decide (¬ (p ≤ x ∧ x < q)) && decide (¬ (q + sz ≤ x ∧ x < p + sz + 2 ^ k)))) ?_ h
  unfold mapalign_trim
  dsimp only
  rw [trim_q_eq p k hk (by omega)]
  generalize (p + 2 ^ k - 1) / 2 ^ k * 2 ^ k = q0 at b1 b2 ⊢
  have hq64 : q0 < 2 ^ 64 := by omega
  have e1 : sub64 q0 p = q0 - p := sub64_eq q0 p hq64 b1
  have e2 : sub64 (2 ^ k) (q0 - p) = 2 ^ k - (q0 - p) := sub64_eq _ _ h64 (by omega)
  have e3 : add64 q0 sz = q0 + sz := add64_eq q0 sz (by omega)
  rw [e1, e2, e3]
  have htail : ∀ x, (q0 + sz ≤ x ∧ x < q0 + sz + (2 ^ k - (q0 - p))) ↔
      (q0 + sz ≤ x ∧ x < p + sz + 2 ^ k) := by
    intro x; omega
  repeat' first
    | with_reducible apply wp_ite_i
    | with_reducible apply wp_bind_i
    | with_reducible apply wp_pure_i
    | with_reducible exact wp_wrterror_i
    | with_reducible apply os_munmap_wp
    | intro _
  all_goals first
    | exact absurd (by assumption : (_ : Nat) ≠ 0) (by assumption)
    | (rename_i h1; exact absurd rfl h1)
    | (rename_i hne s1 hs1 _ s2 hs2 _
       refine ⟨rfl, ?_⟩
       rw [hs2, hs1, List.filter_filter]
       apply List.filter_congr
       intro x _
       rw [Bool.and_comm]
       have e : p + (q0 - p) = q0 := by omega
       rw [e]
       simp only [htail])
    | (rename_i heq s2 hs2 _
       have e : q0 = p := not_not.mp heq
       refine ⟨rfl, ?_⟩
       rw [hs2]
       apply List.filter_congr
       intro x _
       have e0 : ¬ (p ≤ x ∧ x < q0) := by omega
       simp only [htail, e0, not_false_eq_true, decide_True, Bool.true_and])

theorem omemalign_small_route (ps : Nat) (mopts : malloc_readonly) (hps : 5 ≤ ps)
    (hps16 : ps ≤ 16) (k n sz1 sz2 zero_fill f : Nat)
    (hle : 2 ^ k ≤ MALLOC_PAGESIZE ps)
    (h1 : sz1 = if n > MALLOC_MAXCHUNK ps ∧ n < MALLOC_PAGESIZE ps then MALLOC_PAGESIZE ps else n)
    (h2 : sz2 = if sz1 < 2 ^ k then 2 ^ k else sz1)
    (hlt : sz2 < MALLOC_PAGESIZE ps) :
    ∃ i, 2 ^ k ≤ 2 ^ i ∧ sz2 ≤ 2 ^ i ∧ 2 ^ i ≤ MALLOC_MAXCHUNK ps ∧
      B2ALLOC (find_bucket mopts (2 ^ i)) = 2 ^ i ∧
      omemalign ps mopts (2 ^ k) n zero_fill f = omalloc ps mopts (2 ^ i) zero_fill f := by
  have hP := MALLOC_PAGESIZE_eq ps
  have hC := MALLOC_MAXCHUNK_eq ps
  have hPC : 2 ^ ps = 2 ^ (ps - 1) * 2 := by
    rw [← pow_succ]; congr 1; omega
  have hpos : 0 < 2 ^ (ps - 1) := Nat.pow_pos (by norm_num)
  rw [hP] at hle
  have hkps : k ≤ ps := (Nat.pow_le_pow_iff_right (by norm_num)).1 hle
  have hsz1 : sz1 ≤ MALLOC_MAXCHUNK ps ∨ MALLOC_PAGESIZE ps ≤ sz1 := by
    rw [h1]; split <;> omega
  have hk2 : 2 ^ k ≤ sz2 := by rw [h2]; split <;> omega
  have hsz2 : sz2 ≤ 2 ^ (ps - 1) := by
    rcases Nat.lt_or_ge k ps with hk | hk
    · have : 2 ^ k ≤ 2 ^ (ps - 1) := Nat.pow_le_pow_right (by norm_num) (by omega)
      rw [h2] at hlt ⊢
      split at hlt <;> split <;> omega
    · have e : k = ps := by omega
      subst e
      omega
  have h16 : MALLOC_MINSIZE = 2 ^ 4 := by decide
  obtain ⟨pof2, hpof⟩ := omemalign_pof2_total sz2 (ps - 5) 4 64
    (by rw [show 4 + (ps - 5) = ps - 1 by omega]; exact hsz2) (by omega) (by omega)
  obtain ⟨i, e, h4, _, hge, hmin⟩ := omemalign_pof2_spec sz2 64 4 pof2 (by omega) hpof
  subst e
  have hi : i ≤ ps - 1 := by
    rcases hmin with h | h
    · omega
    · by_contra hc
      have : 2 ^ (ps - 1) ≤ 2 ^ (i - 1) := Nat.pow_le_pow_right (by norm_num) (by omega)
      omega
  refine ⟨i, le_trans hk2 hge, hge, by rw [hC]; exact Nat.pow_le_pow_right (by norm_num) hi,
    find_bucket_pow2 mopts ps i hps hps16 h4 hi, ?_⟩
  unfold omemalign
  dsimp only
  rw [← h1, if_pos (by rw [hP]; exact hle), ← h2, if_pos hlt, h16, hpof]

theorem omemalign_large_route (ps : Nat) (mopts : malloc_readonly) (k n sz1 sz2 zero_fill f : Nat)
    (hle : 2 ^ k ≤ MALLOC_PAGESIZE ps) (hn : n < 2 ^ 64) (hps : ps < 64)
    (h1 : sz1 = if n > MALLOC_MAXCHUNK ps ∧ n < MALLOC_PAGESIZE ps then MALLOC_PAGESIZE ps else n)
    (h2 : sz2 = if sz1 < 2 ^ k then 2 ^ k else sz1)
    (hge : MALLOC_PAGESIZE ps ≤ sz2) :
    MALLOC_MOVE_COND ps mopts (add64 sz2 mopts.malloc_guard) = false ∧
      omemalign ps mopts (2 ^ k) n zero_fill f = omalloc ps mopts sz2 zero_fill f := by
  have hP := MALLOC_PAGESIZE_eq ps
  have h64 : 2 ^ ps < 2 ^ 64 := Nat.pow_lt_pow_right (by norm_num) hps
  have hsz2 : sz2 < 2 ^ 64 := by
    rw [h2, h1]
    split <;> split <;> omega
  refine ⟨move_cond_false ps mopts sz2 hsz2 hge, ?_⟩
  unfold omemalign
  dsimp only
  rw [← h1, if_pos hle, ← h2, if_neg (Nat.not_lt.mpr hge)]

theorem B2ALLOC_dvd (b : Nat) : 2 ^ 4 ∣ B2ALLOC b := by
  unfold B2ALLOC
  rw [MALLOC_MINSIZE_eq]
  split
  · exact ⟨1, by norm_num⟩
  · exact ⟨b, by rw [Nat.mul_comm]; norm_num⟩

theorem MALLOC_MOVE_mod (ps : Nat) (mopts : malloc_readonly) (base sz : Nat)
    (h : base % 2 ^ 4 = 0) : MALLOC_MOVE ps mopts base sz % 2 ^ 4 = 0 := by
  unfold MALLOC_MOVE
  apply add64_aligned (by norm_num) h
  have e : MALLOC_MINSIZE - 1 = 2 ^ 4 - 1 := by decide
  rw [e, and_not64_mask _ _ (by norm_num)]
  exact Nat.mul_mod_left _ _

/-- C9: every pointer that `omalloc` returns is a multiple of `MALLOC_MINSIZE`, for
    every size and every option set.  The pool as `_malloc_init` leaves it is aligned
    (`pool_aligned`), every public function that returns leaves it aligned, and in an
    aligned pool a chunk pointer is `page + k * B2ALLOC(bucket)` with a page-aligned
    `page`, and the pointer of a large region is the page-aligned base or
    `MALLOC_MOVE` of it, whose offset is masked with `~(MALLOC_MINSIZE - 1)`. -/
theorem omalloc_min_aligned (ps : Nat) (mopts : malloc_readonly) (hps : 5 ≤ ps)
    (hps16 : ps ≤ 16) :
    (∀ self i mapped env,
      pool_aligned ps { malloc_init_pool ps mopts self i mapped with env := env }) ∧
    (∀ s s' : pool_state, pool_aligned ps s →
      (∀ size caller a, malloc ps mopts size caller s = .ok (a, s') → pool_aligned ps s') ∧
      (∀ ptr a, free ps mopts ptr s = .ok (a, s') → pool_aligned ps s') ∧
      (∀ ptr sz a, freezero ps mopts ptr sz s = .ok (a, s') → pool_aligned ps s') ∧
      (∀ ptr size caller a, realloc ps mopts ptr size caller s = .ok (a, s') →
        pool_aligned ps s') ∧
      (∀ nmemb size caller a, calloc ps mopts nmemb size caller s = .ok (a, s') →
        pool_aligned ps s') ∧
      (∀ ptr oldnmemb newnmemb size caller a,
        recallocarray ps mopts ptr oldnmemb newnmemb size caller s = .ok (a, s') →
        pool_aligned ps s') ∧
      (∀ alignment size caller a, alignment < 2 ^ 64 → size < 2 ^ 64 →
        posix_memalign ps mopts alignment size caller s = .ok (a, s') →
        pool_aligned ps s') ∧
      (∀ alignment size caller a, alignment < 2 ^ 64 → size < 2 ^ 64 →
        aligned_alloc ps mopts alignment size caller s = .ok (a, s') →
        pool_aligned ps s') ∧
      (∀ sz zero_fill f a, omalloc ps mopts sz zero_fill f s = .ok (a, s') →
        pool_aligned ps s')) ∧
    (∀ (s : pool_state) sz zero_fill f p, pool_aligned ps s →
      returned (omalloc ps mopts sz zero_fill f s) = some p →
      p % MALLOC_MINSIZE = 0 ∧
      (sz ≤ MALLOC_MAXCHUNK ps → p = 0 ∨ ∃ page k, page % MALLOC_PAGESIZE ps = 0 ∧
        p = add64 page ((k * B2ALLOC (find_bucket mopts sz)) % 2 ^ 64)) ∧
      (sz > MALLOC_MAXCHUNK ps → p = 0 ∨ ∃ base, base % MALLOC_PAGESIZE ps = 0 ∧
        p = if MALLOC_MOVE_COND ps mopts (add64 sz mopts.malloc_guard) then
          MALLOC_MOVE ps mopts base (add64 sz mopts.malloc_guard) else base)) := by
  refine ⟨fun self i mapped env => malloc_init_pool_aligned ps mopts self i mapped env, ?_, ?_⟩
  · intro s s' hal
    exact ⟨fun _ _ _ h => keeps_run (malloc_al hps hps16) hal h,
      fun _ _ h => keeps_run (free_al hps) hal h,
      fun _ _ _ h => keeps_run (freezero_al hps) hal h,
      fun _ _ _ _ h => keeps_run (realloc_al hps hps16) hal h,
      fun _ _ _ _ h => keeps_run (calloc_al hps hps16) hal h,
      fun _ _ _ _ _ _ h => keeps_run (recallocarray_al hps hps16) hal h,
      fun _ _ _ _ h1 h2 h => keeps_run (posix_memalign_al hps hps16 h1 h2) hal h,
      fun _ _ _ _ h1 h2 h => keeps_run (aligned_alloc_al hps hps16 h1 h2) hal h,
      fun _ _ _ _ h => keeps_run (omalloc_keeps hps hps16) hal h⟩
  · intro s sz zero_fill f p hal hret
    obtain ⟨s', hrun⟩ := returned_some hret
    have hpost := wp_run (omalloc_al hps hps16 hal (fun a s' _ hp => hp)
      (Q := fun a _ => (sz ≤ MALLOC_MAXCHUNK ps → a = 0 ∨ ∃ page k, page % 2 ^ ps = 0 ∧
          a = add64 page ((k * B2ALLOC (find_bucket mopts sz)) % 2 ^ 64)) ∧
        (sz > MALLOC_MAXCHUNK ps → a = 0 ∨ ∃ p, p % 2 ^ ps = 0 ∧
          a = if MALLOC_MOVE_COND ps mopts (add64 sz mopts.malloc_guard) then
            MALLOC_MOVE ps mopts p (add64 sz mopts.malloc_guard) else p))) hrun
    rw [MALLOC_PAGESIZE_eq]
    refine ⟨?_, hpost.1, hpost.2⟩
    have h16 : MALLOC_MINSIZE = 2 ^ 4 := by decide
    rw [h16]
    rcases Nat.lt_or_ge (MALLOC_MAXCHUNK ps) sz with hbig | hsmall
    · rcases hpost.2 hbig with h0 | ⟨base, hb, e⟩
      · rw [h0]; exact Nat.zero_mod _
      · have hb4 : base % 2 ^ 4 = 0 := pow_aligned_page (by omega) hb
        rw [e]
        split
        · exact MALLOC_MOVE_mod ps mopts base _ hb4
        · exact hb4
    · rcases hpost.1 hsmall with h0 | ⟨page, k, hpage, e⟩
      · rw [h0]; exact Nat.zero_mod _
      · rw [e]
        exact chunk_pointer_mod (by omega) (by omega) hpage (B2ALLOC_dvd _)

set_option maxRecDepth 1000000 in
/-- C9 (witness): on a fresh pool with 4096-byte pages and options "cfgjs",
    `omalloc(17)` returns `0x13f000`, a multiple of 16. -/
theorem omalloc_min_aligned_witness :
    5 ≤ 12 ∧ 12 ≤ 16 ∧
    returned (omalloc 12 (malloc_init_mopts 12 "cfgjs".toList 7 0 0) 17 0 0
      { malloc_init_pool 12 (malloc_init_mopts 12 "cfgjs".toList 7 0 0) 0x7000 1 [] with
        env := [0, 0, 0x100000, 0x200000, 0x300000, 5, 0, 1, 9] }) = some 0x13f000 ∧
    0x13f000 % MALLOC_MINSIZE = 0 :=
  ⟨by decide, by decide, by decide,
    ((omalloc_min_aligned 12 (malloc_init_mopts 12 "cfgjs".toList 7 0 0)
      (by decide) (by decide)).2.2 _ 17 0 0 0x13f000
      (malloc_init_pool_aligned 12 (malloc_init_mopts 12 "cfgjs".toList 7 0 0) 0x7000 1 []
        [0, 0, 0x100000, 0x200000, 0x300000, 5, 0, 1, 9]) (by decide)).1⟩

/-- C10: in an aligned pool a result of `omemalign` for the alignment `2 ^ k` is a
    multiple of `2 ^ k`.  For an alignment of at most a page the call is
    `omalloc(pof2)` for a power of two `pof2 >= 2 ^ k` that is the size of the chunks
    of its bucket, or, from a page on, `omalloc(sz)` for a region that is not moved to
    the end of its pages.  For a larger alignment the second half of `mapalign` returns
    the first multiple `q` of the alignment in the run at `p`, with `p <= q` and
    `q + sz <= p + sz + 2 ^ k`, and unmaps the head `[p, q)` and the tail
    `[q + sz, p + sz + 2 ^ k)`, `2 ^ k` bytes in total. -/
theorem omemalign_aligned (ps : Nat) (mopts : malloc_readonly) (hps : 5 ≤ ps)
    (hps16 : ps ≤ 16) (k : Nat) (hk : k < 64) :
    (∀ (s : pool_state) n zero_fill f q, pool_aligned ps s → n < 2 ^ 64 →
      returned (omemalign ps mopts (2 ^ k) n zero_fill f s) = some q → q % 2 ^ k = 0) ∧
    (∀ n sz1 sz2 zero_fill f, 2 ^ k ≤ MALLOC_PAGESIZE ps → n < 2 ^ 64 →
      sz1 = (if n > MALLOC_MAXCHUNK ps ∧ n < MALLOC_PAGESIZE ps then MALLOC_PAGESIZE ps
        else n) →
      sz2 = (if sz1 < 2 ^ k then 2 ^ k else sz1) →
      (sz2 < MALLOC_PAGESIZE ps →
        ∃ i, 2 ^ k ≤ 2 ^ i ∧ sz2 ≤ 2 ^ i ∧ 2 ^ i ≤ MALLOC_MAXCHUNK ps ∧
          B2ALLOC (find_bucket mopts (2 ^ i)) = 2 ^ i ∧
          omemalign ps mopts (2 ^ k) n zero_fill f = omalloc ps mopts (2 ^ i) zero_fill f) ∧
      (MALLOC_PAGESIZE ps ≤ sz2 →
        MALLOC_MOVE_COND ps mopts (add64 sz2 mopts.malloc_guard) = false ∧
        omemalign ps mopts (2 ^ k) n zero_fill f = omalloc ps mopts sz2 zero_fill f)) ∧
    (∀ p sz (s s' : pool_state) q, p + sz + 2 ^ k ≤ 2 ^ 64 →
      mapalign_trim p (2 ^ k) sz s = .ok (q, s') →
      q % 2 ^ k = 0 ∧ p ≤ q ∧ q + sz ≤ p + sz + 2 ^ k ∧
      s'.mapped = s.mapped.filter (fun x =>
        decide (¬ (p ≤ x ∧ x < q)) && decide (¬ (q + sz ≤ x ∧ x < p + sz + 2 ^ k))) ∧
      (q - p) + (p + sz + 2 ^ k - (q + sz)) = 2 ^ k) := by
  refine ⟨?_, ?_, ?_⟩
  · intro s n zero_fill f q hal hn hret
    obtain ⟨s', hrun⟩ := returned_some hret
    exact wp_run (omemalign_al hps hps16 hk hn hal (fun a s' _ hp => hp)
      (Q := fun a _ => a % 2 ^ k = 0)) hrun
  · intro n sz1 sz2 zero_fill f hle hn h1 h2
    exact ⟨fun hlt => omemalign_small_route ps mopts hps hps16 k n sz1 sz2 zero_fill f
        hle h1 h2 hlt,
      fun hge => omemalign_large_route ps mopts k n sz1 sz2 zero_fill f hle hn (by omega)
        h1 h2 hge⟩
  · intro p sz s s' q hp hrun
    obtain ⟨hq, hm⟩ := mapalign_trim_run p sz k hk hp s s' q hrun
    obtain ⟨b1, b2, b3⟩ := roundup_bounds p (2 ^ k) (Nat.pow_pos (by norm_num))
    rw [← hq] at b1 b2 b3
    exact ⟨b3, b1, by omega, hm, by omega⟩

set_option maxRecDepth 1000000 in
/-- C10 (witness): on a fresh pool with 4096-byte pages, `omemalign(64, 100)` returns
    the 128-byte chunk `0x13f080`, a multiple of 64. -/
theorem omemalign_aligned_witness :
    5 ≤ 12 ∧ 12 ≤ 16 ∧ 6 < 64 ∧ 100 < 2 ^ 64 ∧
    returned (omemalign 12 (malloc_init_mopts 12 [] 7 0 0) (2 ^ 6) 100 0 0
      { malloc_init_pool 12 (malloc_init_mopts 12 [] 7 0 0) 0x7000 1 [] with
        env := [0, 7, 0x100000, 0x200000, 0x300000, 0, 0, 0] }) = some 0x13f080 ∧
    0x13f080 % 2 ^ 6 = 0 :=
  ⟨by decide, by decide, by decide, by decide, by decide,
    (omemalign_aligned 12 (malloc_init_mopts 12 [] 7 0 0) (by decide) (by decide) 6
      (by decide)).1 _ 100 0 0 0x13f080
      (malloc_init_pool_aligned 12 (malloc_init_mopts 12 [] 7 0 0) 0x7000 1 []
        [0, 7, 0x100000, 0x200000, 0x300000, 0, 0, 0]) (by decide) (by decide)⟩

/-! ## The options stay in range -/

theorem pow2_cases32 (x : Nat) :
    (2 ≤ x ∧ x ≤ MALLOC_MUTEXES_MAX ∧ ∃ k, x = 2 ^ k) ↔
      (x = 2 ∨ x = 4 ∨ x = 8 ∨ x = 16 ∨ x = 32) := by
  have hM : MALLOC_MUTEXES_MAX = 32 := rfl
  rw [hM]
  constructor
  · rintro ⟨h2, h32, k, rfl⟩
    have hk : k < 6 := by
      by_contra hc
      have : 2 ^ 6 ≤ 2 ^ k := Nat.pow_le_pow_right (by norm_num) (by omega)
      omega
    interval_cases k <;> simp at h2 ⊢
  · intro h
    rcases h with h | h | h | h | h <;> subst h
    · exact ⟨by norm_num, by norm_num, 1, rfl⟩
    · exact ⟨by norm_num, by norm_num, 2, rfl⟩
    · exact ⟨by norm_num, by norm_num, 3, rfl⟩
    · exact ⟨by norm_num, by norm_num, 4, rfl⟩
    · exact ⟨by norm_num, by norm_num, 5, rfl⟩

theorem pow2_cases256 (x : Nat) :
    ((x = 0 ∨ ∃ k, x = 2 ^ k) ∧ x ≤ MALLOC_MAXCACHE) ↔
      (x = 0 ∨ x = 1 ∨ x = 2 ∨ x = 4 ∨ x = 8 ∨ x = 16 ∨ x = 32 ∨ x = 64 ∨ x = 128 ∨
        x = 256) := by
  have hM : MALLOC_MAXCACHE = 256 := rfl
  rw [hM]
  constructor
  · rintro ⟨h | ⟨k, rfl⟩, h256⟩
    · left; exact h
    · have hk : k < 9 := by
        by_contra hc
        have : 2 ^ 9 ≤ 2 ^ k := Nat.pow_le_pow_right (by norm_num) (by omega)
        omega
      interval_cases k <;> simp
  · intro h
    rcases h with h | h | h | h | h | h | h | h | h | h <;> subst h
    · exact ⟨Or.inl rfl, by norm_num⟩
    · exact ⟨Or.inr ⟨0, rfl⟩, by norm_num⟩
    · exact ⟨Or.inr ⟨1, rfl⟩, by norm_num⟩
    · exact ⟨Or.inr ⟨2, rfl⟩, by norm_num⟩
    · exact ⟨Or.inr ⟨3, rfl⟩, by norm_num⟩
    · exact ⟨Or.inr ⟨4, rfl⟩, by norm_num⟩
    · exact ⟨Or.inr ⟨5, rfl⟩, by norm_num⟩
    · exact ⟨Or.inr ⟨6, rfl⟩, by norm_num⟩
    · exact ⟨Or.inr ⟨7, rfl⟩, by norm_num⟩
    · exact ⟨Or.inr ⟨8, rfl⟩, by norm_num⟩

theorem parseopt_in_range (ps : Nat) (m : malloc_readonly) (c : Char)
    (h : options_in_range m) : options_in_range (omalloc_parseopt ps m c) := by
  unfold options_in_range at h ⊢
  rw [pow2_cases32, pow2_cases256] at h ⊢
  obtain ⟨h1, h2, h3⟩ := h
  have hM : MALLOC_MUTEXES_MAX = 32 := rfl
  have hC : MALLOC_MAXCACHE = 256 := rfl
  unfold omalloc_parseopt
  split
  all_goals first
    | exact ⟨h1, h2, h3⟩
    | (dsimp only
       simp only [Nat.shiftLeft_eq, Nat.shiftRight_eq_div_pow, hM, hC]
       refine ⟨?_, ?_, ?_⟩ <;> first | assumption | (split <;> omega) | omega)
    | (split
       · dsimp only
         exact ⟨h1, h2, by omega⟩
       · exact ⟨h1, h2, h3⟩)

theorem parseopt_unknown (ps : Nat) (m : malloc_readonly) (c : Char)
    (h : c ∉ option_chars) : omalloc_parseopt ps m c = m := by
  unfold option_chars at h
  simp only [List.mem_cons, List.mem_singleton, not_or, List.mem_nil_iff, not_false_eq_true,
    and_true] at h
  unfold omalloc_parseopt
  split
  all_goals first
    | rfl
    | (exfalso; simp_all)

theorem in_range_set_cache (m : malloc_readonly) (c : Nat)
    (hc : (c = 0 ∨ ∃ k, c = 2 ^ k) ∧ c ≤ MALLOC_MAXCACHE) (h : options_in_range m) :
    options_in_range { m with def_maxcache := c } :=
  ⟨h.1, hc, h.2.2⟩

theorem foldl_in_range (ps : Nat) :
    ∀ (l : List Char) (m : malloc_readonly), options_in_range m →
      options_in_range (l.foldl (omalloc_parseopt ps) m) := by
  intro l
  induction l with
  | nil => intro m h; exact h
  | cons c rest ih => intro m h; exact ih _ (parseopt_in_range ps m c h)

theorem init_string_S (ps : Nat) (m : malloc_readonly) (rest : List Char) :
    omalloc_init_string ps m ('S' :: rest) =
      omalloc_init_string ps
        { ("CFGJ".toList.foldl (omalloc_parseopt ps) m) with def_maxcache := 0 } rest := by
  conv_lhs => unfold omalloc_init_string
  split
  · rename_i heq; exact absurd heq (by simp)
  · rename_i heq
    injection heq with h1 h2
    subst h2
    rfl
  · rename_i heq
    injection heq with h1 h2
    exact absurd h1 (by decide)
  · rename_i hS hs heq
    injection heq with h1 h2; subst h1 h2; exact (hS rfl).elim

theorem init_string_s (ps : Nat) (m : malloc_readonly) (rest : List Char) :
    omalloc_init_string ps m ('s' :: rest) =
      omalloc_init_string ps
        { ("cfgj".toList.foldl (omalloc_parseopt ps) m) with
          def_maxcache := MALLOC_DEFAULT_CACHE } rest := by
  conv_lhs => unfold omalloc_init_string
  split
  · rename_i heq; exact absurd heq (by simp)
  · rename_i heq
    injection heq with h1 h2
    exact absurd h1 (by decide)
  · rename_i heq
    injection heq with h1 h2
    subst h2
    rfl
  · rename_i hS hs heq
    injection heq with h1 h2; subst h1 h2; exact (hs rfl).elim

theorem init_string_other (ps : Nat) (m : malloc_readonly) (c : Char) (rest : List Char)
    (hS : c ≠ 'S') (hs : c ≠ 's') :
    omalloc_init_string ps m (c :: rest) =
      omalloc_init_string ps (omalloc_parseopt ps m c) rest := by
  conv_lhs => unfold omalloc_init_string
  split
  · rename_i heq; exact absurd heq (by simp)
  · rename_i heq
    injection heq with h1 h2
    exact absurd h1 hS
  · rename_i heq
    injection heq with h1 h2
    exact absurd h1 hs
  · rename_i heq
    injection heq with h1 h2
    subst h1 h2
    rfl

theorem init_string_in_range (ps : Nat) :
    ∀ (opts : List Char) (m : malloc_readonly), options_in_range m →
      options_in_range (omalloc_init_string ps m opts) := by
  intro opts
  induction opts with
  | nil => intro m h; exact h
  | cons c rest ih =>
    intro m h
    by_cases hS : c = 'S'
    · subst hS
      rw [init_string_S]
      exact ih _ (in_range_set_cache _ _ ⟨Or.inl rfl, by decide⟩ (foldl_in_range ps _ m h))
    · by_cases hs : c = 's'
      · subst hs
        rw [init_string_s]
        exact ih _ (in_range_set_cache _ _ ⟨Or.inr ⟨6, rfl⟩, by decide⟩
          (foldl_in_range ps _ m h))
      · rw [init_string_other ps m c rest hS hs]
        exact ih _ (parseopt_in_range ps _ _ h)

theorem init_string_unknown (ps : Nat) (m : malloc_readonly) (c : Char) (rest : List Char)
    (h : c ∉ option_chars) :
    omalloc_init_string ps m (c :: rest) = omalloc_init_string ps m rest := by
  have hS : c ≠ 'S' := fun e => h (by rw [e]; decide)
  have hs : c ≠ 's' := fun e => h (by rw [e]; decide)
  rw [init_string_other ps m c rest hS hs, parseopt_unknown ps m _ h]

theorem init_string_append (ps : Nat) :
    ∀ (pre suf : List Char) (m : malloc_readonly),
      omalloc_init_string ps m (pre ++ suf) =
        omalloc_init_string ps (omalloc_init_string ps m pre) suf := by
  intro pre
  induction pre with
  | nil => intro suf m; rfl
  | cons c rest ih =>
    intro suf m
    rw [List.cons_append]
    by_cases hS : c = 'S'
    · subst hS
      rw [init_string_S, init_string_S]
      exact ih _ _
    · by_cases hs : c = 's'
      · subst hs
        rw [init_string_s, init_string_s]
        exact ih _ _
      · rw [init_string_other ps m c _ hS hs, init_string_other ps m c _ hS hs]
        exact ih _ _

/-- C27: from the defaults (8 pools, junk 1, cache 64), whatever the option string and
    after each of its characters (the options after a prefix are the start of the run
    on the rest), the number of pools is a power of two from 2 to `_MALLOC_MUTEXES`,
    `def_maxcache` is zero or a power of two and at most 256, and the junk level is at
    most 2; each call of `omalloc_parseopt` keeps these ranges, and a character without
    a case in `omalloc_init` or `omalloc_parseopt` leaves every option as it is. -/
theorem options_in_range_spec (ps : Nat) :
    (∀ canary junk_loc chunk_canary,
      (malloc_init_mopts ps [] canary junk_loc chunk_canary).malloc_mutexes = 8 ∧
      (malloc_init_mopts ps [] canary junk_loc chunk_canary).def_malloc_junk = 1 ∧
      (malloc_init_mopts ps [] canary junk_loc chunk_canary).def_maxcache = 64) ∧
    (∀ opts canary junk_loc chunk_canary,
      options_in_range (malloc_init_mopts ps opts canary junk_loc chunk_canary)) ∧
    (∀ m opts, options_in_range m → options_in_range (omalloc_init_string ps m opts)) ∧
    (∀ m pre suf, omalloc_init_string ps m (pre ++ suf) =
      omalloc_init_string ps (omalloc_init_string ps m pre) suf) ∧
    (∀ m c, options_in_range m → options_in_range (omalloc_parseopt ps m c)) ∧
    (∀ m c rest, c ∉ option_chars →
      omalloc_parseopt ps m c = m ∧
      omalloc_init_string ps m (c :: rest) = omalloc_init_string ps m rest) := by
  refine ⟨fun _ _ _ => ⟨rfl, rfl, rfl⟩, ?_, fun m opts h => init_string_in_range ps opts m h,
    fun m pre suf => init_string_append ps pre suf m,
    fun m c h => parseopt_in_range ps m c h,
    fun m c rest h => ⟨parseopt_unknown ps m c h, init_string_unknown ps m c rest h⟩⟩
  intro opts canary junk_loc chunk_canary
  unfold malloc_init_mopts
  have h0 : options_in_range
      { malloc_mutexes := 8, malloc_freecheck := 0, malloc_freeunmap := 0,
        def_malloc_junk := 1, malloc_realloc := 0, malloc_xmalloc := 0,
        chunk_canaries := 0, internal_funcs := 0, def_maxcache := MALLOC_DEFAULT_CACHE,
        junk_loc := 0, malloc_guard := 0, malloc_stats := 0, malloc_verbose := 0,
        malloc_canary := 0 } :=
    ⟨⟨by decide, by decide, 3, rfl⟩, ⟨Or.inr ⟨6, rfl⟩, by decide⟩, by decide⟩
  have h1 := init_string_in_range ps opts _ h0
  exact ⟨h1.1, h1.2.1, h1.2.2⟩

/-- C27 (witness): the string "+++Z<" leaves 32 pools and a cache of 32; `Z` has no
    case. -/
theorem options_in_range_spec_witness :
    'Z' ∉ option_chars ∧
    (malloc_init_mopts 12 "+++Z<".toList 7 0 0).malloc_mutexes = 32 ∧
    (malloc_init_mopts 12 "+++Z<".toList 7 0 0).def_maxcache = 32 ∧
    omalloc_parseopt 12 (malloc_init_mopts 12 [] 7 0 0) 'Z' = malloc_init_mopts 12 [] 7 0 0 ∧
    options_in_range (malloc_init_mopts 12 "+++Z<".toList 7 0 0) :=
  ⟨by decide, by decide, by decide,
    ((options_in_range_spec 12).2.2.2.2.2 (malloc_init_mopts 12 [] 7 0 0) 'Z' []
      (by decide)).1,
    (options_in_range_spec 12).2.1 "+++Z<".toList 7 0 0⟩

/-! ## The shifting test of delete -/

/-- C29 (counterexample): slot 7 is deleted while slot 6 holds an entry whose home is
    6.  With the hole `j = 7`, the candidate `i = 6` and its home `r = 6` the predicate
    holds (`i <= r < j`), and the candidate is not shifted: it stays in slot 6 and the
    hole stays empty. -/
theorem delete_shift_predicate_counterexample :
    hash 12 0x2000 &&& dir_mask 8 = 6 ∧
    ((6 ≤ 6 ∧ 6 < 7) ∨ (6 < 7 ∧ 7 < 6) ∨ (7 < 6 ∧ 6 ≤ 6)) ∧
    delete 12 { example_dir with
        r := [⟨0, 0, 0⟩, ⟨0, 0, 0⟩, ⟨0, 0, 0⟩, ⟨0, 0, 0⟩, ⟨0, 0, 0⟩, ⟨0, 0, 0⟩,
          ⟨0x2000, 8192, 0⟩, ⟨0x1003, 77, 0⟩]
        regions_free := 6 } 7 =
      .ok { example_dir with
        r := [⟨0, 0, 0⟩, ⟨0, 0, 0⟩, ⟨0, 0, 0⟩, ⟨0, 0, 0⟩, ⟨0, 0, 0⟩, ⟨0, 0, 0⟩,
          ⟨0x2000, 8192, 0⟩, ⟨0, 0, 0⟩]
        regions_free := 7 } := by
  decide

/-- C29: in the walk of `delete`, with the hole `j`, the candidate `i` (the slot below
    the one last examined, occupied) and `r` the home of its key, the candidate is
    skipped, the walk going on with the same table and hole, exactly when
    `(i <= r < j) || (r < j < i) || (j < i <= r)` holds, and it is moved into the hole,
    its slot becoming the new hole, exactly when that fails.  On a ring of `n` slots
    the predicate says that the hole does not lie on the probe path from `r` down to
    `i`. -/
theorem delete_shift_predicate (ps mask fuel : Nat) (r : List region_info) (j i0 : Nat)
    (hocc : (slot r (probe_next i0 mask)).p ≠ 0) :
    (((probe_next i0 mask ≤ hash ps (slot r (probe_next i0 mask)).p &&& mask ∧
          hash ps (slot r (probe_next i0 mask)).p &&& mask < j) ∨
        (hash ps (slot r (probe_next i0 mask)).p &&& mask < j ∧ j < probe_next i0 mask) ∨
        (j < probe_next i0 mask ∧
          probe_next i0 mask ≤ hash ps (slot r (probe_next i0 mask)).p &&& mask)) →
      delete_walk ps mask (fuel + 1) r j i0 =
        delete_walk ps mask fuel r j (probe_next i0 mask)) ∧
    (¬ ((probe_next i0 mask ≤ hash ps (slot r (probe_next i0 mask)).p &&& mask ∧
          hash ps (slot r (probe_next i0 mask)).p &&& mask < j) ∨
        (hash ps (slot r (probe_next i0 mask)).p &&& mask < j ∧ j < probe_next i0 mask) ∨
        (j < probe_next i0 mask ∧
          probe_next i0 mask ≤ hash ps (slot r (probe_next i0 mask)).p &&& mask)) →
      delete_walk ps mask (fuel + 1) r j i0 =
        delete_walk ps mask fuel
          ((r.set j (slot r (probe_next i0 mask))).set (probe_next i0 mask)
            (clear_slot (slot (r.set j (slot r (probe_next i0 mask))) (probe_next i0 mask))))
          (probe_next i0 mask) (probe_next i0 mask)) ∧
    (∀ n i h, i < n → h < n → j < n → i ≠ j →
      (((i ≤ h ∧ h < j) ∨ (h < j ∧ j < i) ∨ (j < i ∧ i ≤ h)) ↔
        ¬ bdist n h j < bdist n h i)) := by
  refine ⟨?_, ?_, ?_⟩
  · intro hc
    conv_lhs => unfold delete_walk
    simp only []
    rw [if_neg hocc, if_pos hc]
  · intro hc
    conv_lhs => unfold delete_walk
    simp only []
    rw [if_neg hocc, if_neg hc]
  · intro n i h hi hh hj hij
    have b1 := bdist_cases _ _ _ hh hj
    have b2 := bdist_cases _ _ _ hh hi
    omega

/-- C29 (witness): the table of `example_dir`, hole 7: the candidate in slot 6 has its
    home in slot 7, the predicate fails and the entry moves into the hole. -/
theorem delete_shift_predicate_witness :
    (slot example_dir.r (probe_next 7 7)).p ≠ 0 ∧
    delete_walk 12 7 3 example_dir.r 7 7 =
      delete_walk 12 7 2
        ((example_dir.r.set 7 (slot example_dir.r (probe_next 7 7))).set (probe_next 7 7)
          (clear_slot (slot (example_dir.r.set 7 (slot example_dir.r (probe_next 7 7)))
            (probe_next 7 7))))
        (probe_next 7 7) (probe_next 7 7) :=
  ⟨by decide, (delete_shift_predicate 12 7 2 example_dir.r 7 7 (by decide)).2.1 (by decide)⟩

/-! ## The limits of the caches -/

/-- C30 (counterexample): in a normal pool with the default `def_maxcache = 64` the
    slot for runs of 8 pages, `smallcache[7]`, has `max = 64`, not `64 >> (8 / 8) = 32`. -/
theorem smallcache_max_counterexample :
    (malloc_init_mopts 12 [] 7 0 0).def_maxcache = 64 ∧
    (((malloc_init_pool 12 (malloc_init_mopts 12 [] 7 0 0) 0x7000 1 []).smallcache.getD
      (8 - 1) ⟨[], 0, 0⟩).max = 64) ∧
    (malloc_init_mopts 12 [] 7 0 0).def_maxcache >>> (8 / 8) = 32 := by
  decide

theorem getD_map_range {α : Type} (f : Nat → α) (n j : Nat) (d : α) (hj : j < n) :
    ((List.range n).map f).getD j d = f j := by
  rw [List.getD_eq_getElem?_getD, List.getElem?_map, List.getElem?_range hj]
  rfl

/-- C30: in a normal pool (index other than 0) the slot `smallcache[k - 1]`, which
    `unmap` and `map` use for runs of `k` pages, `1 <= k <= 32`, has
    `max = def_maxcache >> ((k - 1) / 8)`, and `bigcache_size = def_maxcache`; in pool 0
    every `max` and `bigcache_size` are 0 and `malloc_junk` is 2. -/
theorem smallcache_max_spec (ps : Nat) (mopts : malloc_readonly) (self i : Nat)
    (mapped : List Nat) (k : Nat) (hk1 : 1 ≤ k) (hk : k ≤ MAX_SMALLCACHEABLE_SIZE)
    (hc : mopts.def_maxcache < 2 ^ 16) :
    (i ≠ 0 →
      ((malloc_init_pool ps mopts self i mapped).smallcache.getD (k - 1) ⟨[], 0, 0⟩).max =
        mopts.def_maxcache >>> ((k - 1) / 8) ∧
      (malloc_init_pool ps mopts self i mapped).bigcache_size = mopts.def_maxcache ∧
      (malloc_init_pool ps mopts self i mapped).d.malloc_junk = mopts.def_malloc_junk) ∧
    (i = 0 →
      ((malloc_init_pool ps mopts self i mapped).smallcache.getD (k - 1) ⟨[], 0, 0⟩).max = 0 ∧
      (malloc_init_pool ps mopts self i mapped).bigcache_size = 0 ∧
      (malloc_init_pool ps mopts self i mapped).d.malloc_junk = 2 ∧
      (malloc_init_pool ps mopts self i mapped).d.mmap_flag = MAP_CONCEAL) := by
  have hlt : k - 1 < MAX_SMALLCACHEABLE_SIZE := by omega
  unfold malloc_init_pool
  dsimp only
  rw [getD_map_range _ _ _ _ hlt]
  constructor
  · intro hi
    simp only [if_neg hi]
    refine ⟨?_, trivial, trivial⟩
    apply Nat.mod_eq_of_lt
    rw [Nat.shiftRight_eq_div_pow]
    exact lt_of_le_of_lt (Nat.div_le_self _ _) hc
  · intro hi
    simp only [if_pos hi]
    exact ⟨trivial, trivial, trivial, rfl⟩

/-- C30 (witness): the slot for runs of 9 pages in pool 1 under the default options. -/
theorem smallcache_max_spec_witness :
    1 ≤ 9 ∧ 9 ≤ MAX_SMALLCACHEABLE_SIZE ∧ (malloc_init_mopts 12 [] 7 0 0).def_maxcache < 2 ^ 16 ∧
    ((malloc_init_pool 12 (malloc_init_mopts 12 [] 7 0 0) 0x7000 1 []).smallcache.getD
      (9 - 1) ⟨[], 0, 0⟩).max = (malloc_init_mopts 12 [] 7 0 0).def_maxcache >>> ((9 - 1) / 8) :=
  ⟨by decide, by decide, by decide,
    ((smallcache_max_spec 12 (malloc_init_mopts 12 [] 7 0 0) 0x7000 1 [] 9 (by decide)
      (by decide) (by decide)).1 (by decide)).1⟩

/-! ## Rules that record what a callee did -/

theorem wp_any {α : Type} {m : Run α} {Q : α → pool_state → Prop} {s : pool_state}
    (h : ∀ a s', Q a s') : wp m Q s := by
  unfold wp
  intro a s' _
  exact h a s'

theorem wp_traced {α : Type} {m : Run α} {Q : α → pool_state → Prop} {s : pool_state}
    (h : ∀ a s', m s = .ok (a, s') → Q a s') : wp m Q s := by
  unfold wp
  exact h

theorem wp_trace_i {α : Type} {m : Run α} {Q : α → pool_state → Prop} {s : pool_state}
    (h : wp m (fun a s' => m s = .ok (a, s') → Q a s') s) : wp m Q s := by
  unfold wp at h ⊢
  intro a s' e
  exact h a s' e e

/-! ## Large regions below a page are moved to the end of the page -/

theorem sub64_add64_cancel (n g : Nat) (hn : n < 2 ^ 64) : sub64 (add64 n g) g = n := by
  unfold sub64 add64
  rw [Nat.mod_mod]
  have hg := Nat.mod_lt g (by norm_num : 0 < 2 ^ 64)
  have e1 : (n + g) % 2 ^ 64 = (n + g % 2 ^ 64) % 2 ^ 64 := by omega
  rw [e1]
  generalize g % 2 ^ 64 = g2 at hg ⊢
  omega

theorem MALLOC_MOVE_COND_eq (ps : Nat) (mopts : malloc_readonly) (n : Nat) (hn : n < 2 ^ 64) :
    MALLOC_MOVE_COND ps mopts (add64 n mopts.malloc_guard) = decide (n < MALLOC_PAGESIZE ps) := by
  unfold MALLOC_MOVE_COND MALLOC_LEEWAY
  rw [sub64_add64_cancel n _ hn, Nat.sub_zero]

theorem MALLOC_MOVE_eq (ps : Nat) (mopts : malloc_readonly) (base n : Nat) (hps : ps ≤ 63)
    (hn : n < MALLOC_PAGESIZE ps) :
    MALLOC_MOVE ps mopts base (add64 n mopts.malloc_guard) =
      add64 base ((MALLOC_PAGESIZE ps - n) &&& not64 (MALLOC_MINSIZE - 1)) := by
  have hP : MALLOC_PAGESIZE ps < 2 ^ 64 := by
    rw [MALLOC_PAGESIZE_eq]
    exact Nat.pow_lt_pow_right (by norm_num) (by omega)
  unfold MALLOC_MOVE MALLOC_LEEWAY
  rw [sub64_add64_cancel n _ (by omega), Nat.sub_zero, sub64_eq _ _ hP (by omega)]

theorem move_range (ps base n : Nat) (hps : ps ≤ 63) (hn0 : 0 < n)
    (hn : n < MALLOC_PAGESIZE ps)
    (hb : base + MALLOC_PAGESIZE ps ≤ 2 ^ 64) :
    add64 base ((MALLOC_PAGESIZE ps - n) &&& not64 (MALLOC_MINSIZE - 1)) =
        base + ((MALLOC_PAGESIZE ps - n) &&& not64 (MALLOC_MINSIZE - 1)) ∧
      base + ((MALLOC_PAGESIZE ps - n) &&& not64 (MALLOC_MINSIZE - 1)) + n ≤
        base + MALLOC_PAGESIZE ps ∧
      base + MALLOC_PAGESIZE ps -
        (base + ((MALLOC_PAGESIZE ps - n) &&& not64 (MALLOC_MINSIZE - 1)) + n) <
        MALLOC_MINSIZE := by
  have hP : MALLOC_PAGESIZE ps < 2 ^ 64 := by
    rw [MALLOC_PAGESIZE_eq]
    exact Nat.pow_lt_pow_right (by norm_num) (by omega)
  have e : MALLOC_MINSIZE - 1 = 2 ^ 4 - 1 := by decide
  rw [e, and_not64_mask _ _ (by norm_num), MALLOC_MINSIZE_eq,
    Nat.mod_eq_of_lt (by omega : MALLOC_PAGESIZE ps - n < 2 ^ 64)]
  have h1 := Nat.div_mul_le_self (MALLOC_PAGESIZE ps - n) (2 ^ 4)
  have h2 := Nat.div_add_mod (MALLOC_PAGESIZE ps - n) (2 ^ 4)
  have h3 := Nat.mod_lt (MALLOC_PAGESIZE ps - n) (by norm_num : 0 < 2 ^ 4)
  have h4 : 2 ^ 4 * ((MALLOC_PAGESIZE ps - n) / 2 ^ 4) =
      (MALLOC_PAGESIZE ps - n) / 2 ^ 4 * 2 ^ 4 := Nat.mul_comm _ _
  rw [h4] at h2
  generalize (MALLOC_PAGESIZE ps - n) / 2 ^ 4 * 2 ^ 4 = off at h1 h2 ⊢
  refine ⟨add64_eq _ _ (by omega), by omega, ?_⟩
  norm_num at h3 ⊢
  omega

theorem omalloc_large_run {ps : Nat} {mopts : malloc_readonly} {n zero_fill f : Nat}
    (hps : 5 ≤ ps) (hps16 : ps ≤ 16) (hbig : n > MALLOC_MAXCHUNK ps) (hn : n < 2 ^ 64)
    {s : pool_state} (hal : pool_aligned ps s) :
    wp (omalloc ps mopts n zero_fill f)
      (fun a _ => a = 0 ∨ ∃ base s1 s2,
        map ps mopts (PAGEROUND ps (add64 n mopts.malloc_guard)) zero_fill s = .ok (base, s1) ∧
        base ≠ MAP_FAILED ∧ base % MALLOC_PAGESIZE ps = 0 ∧
        insert_pool ps mopts base (add64 n mopts.malloc_guard) f s1 = .ok (0, s2) ∧
        a = if n < MALLOC_PAGESIZE ps then
          add64 base ((MALLOC_PAGESIZE ps - n) &&& not64 (MALLOC_MINSIZE - 1)) else base) s := by
  unfold omalloc
  apply wp_ite_i
  · intro _
    apply wp_ite_i
    · intro _
      apply wp_bind_i
      apply wp_modify_i
      apply wp_pure_i
      exact Or.inl rfl
    · intro _
      dsimp only
      apply wp_bind_i
      apply wp_trace_i
      apply map_al (by omega) hal
      intro p s1 hal1 hp hrun
      apply wp_ite_i
      · intro _
        apply wp_bind_i
        apply wp_modify_i
        apply wp_pure_i
        exact Or.inl rfl
      · intro hne
        have hpa := mmap_ok hp hne
        apply wp_bind_i
        apply wp_trace_i
        apply keeps_wp s (insert_pool_al (aligned_tag_zero hpa)) hal1
        intro rc s2 hal2 hins
        apply wp_ite_i
        · intro _
          apply wp_bind_i
          apply keeps_wp s (unmap_al hpa) hal2
          intro _ s3 hal3
          apply wp_bind_i
          apply wp_modify_i
          apply wp_pure_i
          exact Or.inl rfl
        · intro hrc
          have hrc0 : rc = 0 := by
            by_contra hc
            exact hrc hc
          subst hrc0
          have hpost : ∀ a, a = (if MALLOC_MOVE_COND ps mopts (add64 n mopts.malloc_guard) then
                MALLOC_MOVE ps mopts p (add64 n mopts.malloc_guard) else p) →
              (a = 0 ∨ ∃ base s1 s2,
                map ps mopts (PAGEROUND ps (add64 n mopts.malloc_guard)) zero_fill s =
                  .ok (base, s1) ∧
                base ≠ MAP_FAILED ∧ base % MALLOC_PAGESIZE ps = 0 ∧
                insert_pool ps mopts base (add64 n mopts.malloc_guard) f s1 = .ok (0, s2) ∧
                a = if n < MALLOC_PAGESIZE ps then
                  add64 base ((MALLOC_PAGESIZE ps - n) &&& not64 (MALLOC_MINSIZE - 1))
                  else base) := by
            intro a ha
            refine Or.inr ⟨p, s1, s2, hrun, hne, by rw [MALLOC_PAGESIZE_eq]; exact hpa, hins, ?_⟩
            rw [ha, MALLOC_MOVE_COND_eq ps mopts n hn]
            by_cases hc : n < MALLOC_PAGESIZE ps
            · rw [if_pos hc, if_pos (decide_eq_true hc), MALLOC_MOVE_eq ps mopts p n (by omega) hc]
            · rw [if_neg hc, if_neg (by simpa using hc)]
          repeat' first
            | with_reducible apply wp_ite_i
            | with_reducible apply wp_bind_i
            | with_reducible apply wp_pure_i
            | with_reducible exact wp_wrterror_i
            | with_reducible apply keeps_wp s os_mprotect_al
            | with_reducible assumption
            | intro _ s hal
            | intro _
          all_goals first
            | (rename_i hc; exact hpost _ (by rw [if_pos hc]))
            | (rename_i hc; exact hpost _ (by rw [if_neg hc]))
  · intro hsmall
    exact absurd hbig hsmall

theorem PAGEROUND_below_page (ps n g : Nat) (hps : ps ≤ 62) (hn0 : 0 < n)
    (hn : n < MALLOC_PAGESIZE ps) (hg : g = 0 ∨ g = MALLOC_PAGESIZE ps) :
    PAGEROUND ps (add64 n g) = MALLOC_PAGESIZE ps + g := by
  have hP : MALLOC_PAGESIZE ps ≤ 2 ^ 62 := by
    rw [MALLOC_PAGESIZE_eq]
    exact Nat.pow_le_pow_right (by norm_num) hps
  have hpos : 0 < 2 ^ ps := Nat.pow_pos (by norm_num)
  rw [PAGEROUND_eq _ _ (by omega)]
  rw [MALLOC_PAGESIZE_eq] at *
  rcases hg with hg | hg
  · subst hg
    rw [add64_eq _ _ (by omega), Nat.mod_eq_of_lt (by omega)]
    have : (n + 0 + (2 ^ ps - 1)) / 2 ^ ps = 1 :=
      Nat.div_eq_of_lt_le (by omega) (by omega)
    rw [this]; omega
  · subst hg
    rw [add64_eq _ _ (by omega), Nat.mod_eq_of_lt (by omega)]
    have : (n + 2 ^ ps + (2 ^ ps - 1)) / 2 ^ ps = 2 :=
      Nat.div_eq_of_lt_le (by omega) (by omega)
    rw [this]; omega

/-- C24: for a request above `MALLOC_MAXCHUNK`, in an aligned pool, a pointer that
    `omalloc` returns is `NULL` or comes from the page-aligned address `base` that `map`
    returned and `insert` recorded with the size `n + guard`: for `n < PAGESIZE` it is
    `base + ((PAGESIZE - n) & ~(MINSIZE - 1))`, and for `n >= PAGESIZE` it is `base`.
    For `n < PAGESIZE` the sum does not wrap, `[p, p + n)` lies in the page at `base`
    and ends fewer than `MINSIZE` bytes before the end of that page, and the region is
    one page followed by the guard, so that with a guard of one page the guard begins at
    `base + PAGESIZE`. -/
theorem omalloc_large_move (ps : Nat) (mopts : malloc_readonly) (n : Nat) (hps : 5 ≤ ps)
    (hps16 : ps ≤ 16) (hbig : MALLOC_MAXCHUNK ps < n) (hn : n < 2 ^ 64) :
    (∀ (s : pool_state) zero_fill f p, pool_aligned ps s →
      returned (omalloc ps mopts n zero_fill f s) = some p →
      p = 0 ∨ ∃ base s1 s2,
        map ps mopts (PAGEROUND ps (add64 n mopts.malloc_guard)) zero_fill s = .ok (base, s1) ∧
        base ≠ MAP_FAILED ∧ base % MALLOC_PAGESIZE ps = 0 ∧
        insert_pool ps mopts base (add64 n mopts.malloc_guard) f s1 = .ok (0, s2) ∧
        p = if n < MALLOC_PAGESIZE ps then
          add64 base ((MALLOC_PAGESIZE ps - n) &&& not64 (MALLOC_MINSIZE - 1)) else base) ∧
    (n < MALLOC_PAGESIZE ps → ∀ base, base + MALLOC_PAGESIZE ps ≤ 2 ^ 64 →
      add64 base ((MALLOC_PAGESIZE ps - n) &&& not64 (MALLOC_MINSIZE - 1)) =
        base + ((MALLOC_PAGESIZE ps - n) &&& not64 (MALLOC_MINSIZE - 1)) ∧
      base + ((MALLOC_PAGESIZE ps - n) &&& not64 (MALLOC_MINSIZE - 1)) + n ≤
        base + MALLOC_PAGESIZE ps ∧
      base + MALLOC_PAGESIZE ps -
        (base + ((MALLOC_PAGESIZE ps - n) &&& not64 (MALLOC_MINSIZE - 1)) + n) <
        MALLOC_MINSIZE) ∧
    (n < MALLOC_PAGESIZE ps →
      (mopts.malloc_guard = 0 ∨ mopts.malloc_guard = MALLOC_PAGESIZE ps) →
      PAGEROUND ps (add64 n mopts.malloc_guard) - mopts.malloc_guard = MALLOC_PAGESIZE ps) := by
  have hn0 : 0 < n := by omega
  refine ⟨?_, fun hlt base hb => move_range ps base n (by omega) hn0 hlt hb, ?_⟩
  · intro s zero_fill f p hal hret
    obtain ⟨s', hrun⟩ := returned_some hret
    exact wp_run (omalloc_large_run hps hps16 hbig hn hal) hrun
  · intro hlt hg
    rw [PAGEROUND_below_page ps n _ (by omega) hn0 hlt hg]
    omega

set_option maxRecDepth 1000000 in
/-- C24 (witness): with option G and 4096-byte pages, `omalloc(4096 - 8)` on a fresh pool
    returns the page base `0x100000` that `mmap` gave, `omalloc(3000)` returns
    `0x100000 + 1088`, and the 3000 bytes end 8 bytes before the end of the page. -/
theorem omalloc_large_move_witness :
    (5 ≤ 12 ∧ 12 ≤ 16 ∧ MALLOC_MAXCHUNK 12 < 3000 ∧ 3000 < 2 ^ 64 ∧
      3000 < MALLOC_PAGESIZE 12 ∧ 0x100000 + MALLOC_PAGESIZE 12 ≤ 2 ^ 64) ∧
    (malloc_init_mopts 12 "G".toList 7 0 0).malloc_guard = MALLOC_PAGESIZE 12 ∧
    returned (omalloc 12 (malloc_init_mopts 12 "G".toList 7 0 0) (4096 - 8) 0 0
      { malloc_init_pool 12 (malloc_init_mopts 12 "G".toList 7 0 0) 0x7000 1 [] with
        env := [0x100000, 0x300000, 0] }) = some 0x100000 ∧
    returned (omalloc 12 (malloc_init_mopts 12 "G".toList 7 0 0) 3000 0 0
      { malloc_init_pool 12 (malloc_init_mopts 12 "G".toList 7 0 0) 0x7000 1 [] with
        env := [0x100000, 0x300000, 0] }) = some (0x100000 + 1088) ∧
    (add64 0x100000 ((MALLOC_PAGESIZE 12 - 3000) &&& not64 (MALLOC_MINSIZE - 1)) =
        0x100000 + ((MALLOC_PAGESIZE 12 - 3000) &&& not64 (MALLOC_MINSIZE - 1)) ∧
      0x100000 + ((MALLOC_PAGESIZE 12 - 3000) &&& not64 (MALLOC_MINSIZE - 1)) + 3000 ≤
        0x100000 + MALLOC_PAGESIZE 12 ∧
      0x100000 + MALLOC_PAGESIZE 12 -
        (0x100000 + ((MALLOC_PAGESIZE 12 - 3000) &&& not64 (MALLOC_MINSIZE - 1)) + 3000) <
        MALLOC_MINSIZE) :=
  ⟨by decide, by decide, by decide, by decide,
    (omalloc_large_move 12 (malloc_init_mopts 12 "G".toList 7 0 0) 3000 (by decide)
      (by decide) (by decide) (by decide)).2.1 (by decide) 0x100000 (by decide)⟩

/-! ## errno across the public functions -/

theorem EPILOGUE_errno {mopts : malloc_readonly} {saved r : Nat} {s : pool_state} :
    wp (EPILOGUE mopts saved r)
      (fun a s' => (a ≠ 0 → s'.errno = saved) ∧ (mopts.malloc_xmalloc ≠ 0 → a ≠ 0)) s := by
  unfold EPILOGUE
  apply wp_ite_i
  · intro _
    exact wp_wrterror_i
  · intro hn
    dsimp only
    apply wp_ite_i
    · intro hr
      apply wp_bind_i
      apply wp_modify_i
      apply wp_pure_i
      exact ⟨fun _ => rfl, fun _ => hr⟩
    · intro hr
      apply wp_bind_i
      apply wp_pure_i
      apply wp_pure_i
      exact ⟨fun h => absurd h hr, fun hx h0 => hn ⟨h0, hx⟩⟩

theorem malloc_errno {ps : Nat} {mopts : malloc_readonly} {size caller : Nat} (s : pool_state) :
    wp (malloc ps mopts size caller)
      (fun a s' => (a ≠ 0 → s'.errno = s.errno) ∧ (mopts.malloc_xmalloc ≠ 0 → a ≠ 0)) s := by
  unfold malloc
  apply wp_bind_i
  apply wp_get_i
  apply wp_bind_i
  apply wp_any
  intro r s1
  exact EPILOGUE_errno

theorem realloc_errno {ps : Nat} {mopts : malloc_readonly} {ptr size caller : Nat}
    (s : pool_state) :
    wp (realloc ps mopts ptr size caller)
      (fun a s' => (a ≠ 0 → s'.errno = s.errno) ∧ (mopts.malloc_xmalloc ≠ 0 → a ≠ 0)) s := by
  unfold realloc
  apply wp_bind_i
  apply wp_get_i
  apply wp_bind_i
  apply wp_any
  intro r s1
  exact EPILOGUE_errno

theorem calloc_errno {ps : Nat} {mopts : malloc_readonly} {nmemb size caller : Nat}
    (s : pool_state) :
    wp (calloc ps mopts nmemb size caller)
      (fun a s' => (a ≠ 0 → s'.errno = s.errno) ∧ (mopts.malloc_xmalloc ≠ 0 → a ≠ 0)) s := by
  unfold calloc
  apply wp_bind_i
  apply wp_get_i
  apply wp_ite_i
  · intro _
    apply wp_ite_i
    · intro _
      exact wp_wrterror_i
    · intro hx
      apply wp_bind_i
      apply wp_modify_i
      apply wp_pure_i
      exact ⟨fun h => absurd rfl h, fun h => absurd h hx⟩
  · intro _
    apply wp_bind_i
    apply wp_any
    intro r s1
    exact EPILOGUE_errno

theorem free_errno {ps : Nat} {mopts : malloc_readonly} {ptr : Nat} (s : pool_state) :
    wp (free ps mopts ptr) (fun _ s' => s'.errno = s.errno) s := by
  unfold free
  apply wp_bind_i
  apply wp_get_i
  apply wp_ite_i
  · intro _
    apply wp_pure_i
    rfl
  · intro _
    apply wp_bind_i
    apply wp_any
    intro _ s1
    apply wp_modify_i
    rfl

theorem freezero_errno {ps : Nat} {mopts : malloc_readonly} {ptr sz : Nat} (s : pool_state) :
    wp (freezero ps mopts ptr sz) (fun _ s' => s'.errno = s.errno) s := by
  unfold freezero
  apply wp_bind_i
  apply wp_get_i
  apply wp_ite_i
  · intro _
    apply wp_pure_i
    rfl
  · intro _
    apply wp_ite_i
    · intro _
      exact free_errno s
    · intro _
      apply wp_bind_i
      apply wp_any
      intro _ s1
      apply wp_modify_i
      rfl

theorem recallocarray_p_errno {ps : Nat} {mopts : malloc_readonly}
    {ptr oldn newn size caller : Nat} (s : pool_state) :
    wp (recallocarray_p ps mopts ptr oldn newn size caller)
      (fun a s' => a ≠ 0 → s'.errno = s.errno) s := by
  unfold recallocarray_p
  apply wp_ite_i
  · intro _
    exact wp_mono (calloc_errno s) (fun a s' h => h.1)
  · intro _
    apply wp_ite_i
    · intro _
      apply wp_bind_i
      apply wp_modify_i
      apply wp_pure_i
      exact fun h => absurd rfl h
    · intro _
      apply wp_ite_i
      · intro _
        apply wp_bind_i
        apply wp_modify_i
        apply wp_pure_i
        exact fun h => absurd rfl h
      · intro _
        apply wp_ite_i
        · intro _
          apply wp_pure_i
          exact fun _ => rfl
        · intro _
          apply wp_bind_i
          apply wp_mono (malloc_errno s)
          intro q s2 hq
          apply wp_ite_i
          · intro _
            apply wp_pure_i
            exact fun h => absurd rfl h
          · intro hq0
            apply wp_bind_i
            apply wp_mono (free_errno s2)
            intro _ s3 h3
            apply wp_pure_i
            intro _
            rw [h3]
            exact hq.1 hq0

theorem recallocarray_errno {ps : Nat} {mopts : malloc_readonly}
    {ptr oldn newn size caller : Nat} (s : pool_state) :
    wp (recallocarray ps mopts ptr oldn newn size caller)
      (fun a s' => (a ≠ 0 → s'.errno = s.errno) ∧
        (mopts.internal_funcs ≠ 0 → mopts.malloc_xmalloc ≠ 0 → a = 0 →
          ptr ≠ 0 ∧ mul_overflows oldn size = true ∧ s'.errno = EINVAL)) s := by
  unfold recallocarray
  apply wp_ite_i
  · intro hint
    exact wp_mono (recallocarray_p_errno s) (fun a s' h => ⟨h, fun h2 => absurd hint h2⟩)
  · intro _
    apply wp_bind_i
    apply wp_get_i
    apply wp_ite_i
    · intro _
      apply wp_ite_i
      · intro _
        exact wp_wrterror_i
      · intro hx
        apply wp_bind_i
        apply wp_modify_i
        apply wp_pure_i
        exact ⟨fun h => absurd rfl h, fun _ h => absurd h hx⟩
    · intro _
      apply wp_ite_i
      · intro hov
        apply wp_bind_i
        apply wp_modify_i
        apply wp_pure_i
        exact ⟨fun h => absurd rfl h, fun _ _ _ => ⟨hov.1, hov.2, rfl⟩⟩
      · intro _
        dsimp only
        apply wp_bind_i
        apply wp_any
        intro r s1
        exact wp_mono EPILOGUE_errno
          (fun a s' h => ⟨h.1, fun _ hx h0 => absurd h0 (h.2 hx)⟩)

theorem aligned_alloc_errno {ps : Nat} {mopts : malloc_readonly}
    {alignment size caller : Nat} (s : pool_state) :
    wp (aligned_alloc ps mopts alignment size caller)
      (fun a s' => (a ≠ 0 → s'.errno = s.errno) ∧
        (mopts.malloc_xmalloc ≠ 0 → a = 0 →
          ((sub64 alignment 1 &&& alignment ≠ 0 ∨ alignment = 0) ∨
            size &&& sub64 alignment 1 ≠ 0) ∧ s'.errno = EINVAL)) s := by
  unfold aligned_alloc
  apply wp_ite_i
  · intro hbad
    apply wp_bind_i
    apply wp_modify_i
    apply wp_pure_i
    exact ⟨fun h => absurd rfl h, fun _ _ => ⟨Or.inl hbad, rfl⟩⟩
  · intro _
    apply wp_ite_i
    · intro hbad
      apply wp_bind_i
      apply wp_modify_i
      apply wp_pure_i
      exact ⟨fun h => absurd rfl h, fun _ _ => ⟨Or.inr hbad, rfl⟩⟩
    · intro _
      apply wp_bind_i
      apply wp_get_i
      apply wp_bind_i
      apply wp_any
      intro r s1
      exact wp_mono EPILOGUE_errno (fun a s' h => ⟨h.1, fun hx h0 => absurd h0 (h.2 hx)⟩)

/-- C25 (counterexample): with option X set, `aligned_alloc(3, 48)` returns `NULL`
    with `errno = EINVAL`, and so does `recallocarray(p, 2^63, 1, 4)`, whose old size
    overflows: both return instead of aborting. -/
theorem errno_restored_counterexample :
    (malloc_init_mopts 12 "X".toList 7 0 0).malloc_xmalloc ≠ 0 ∧
    aligned_alloc 12 (malloc_init_mopts 12 "X".toList 7 0 0) 3 48 0
        (malloc_init_pool 12 (malloc_init_mopts 12 "X".toList 7 0 0) 0x7000 1 []) =
      .ok (0, { malloc_init_pool 12 (malloc_init_mopts 12 "X".toList 7 0 0) 0x7000 1 [] with
        errno := EINVAL }) ∧
    recallocarray 12 (malloc_init_mopts 12 "X".toList 7 0 0) 0x13f000 (2 ^ 63) 1 4 0
        (malloc_init_pool 12 (malloc_init_mopts 12 "X".toList 7 0 0) 0x7000 1 []) =
      .ok (0, { malloc_init_pool 12 (malloc_init_mopts 12 "X".toList 7 0 0) 0x7000 1 [] with
        errno := EINVAL }) := by
  refine ⟨by decide, ?_, ?_⟩
  · decide
  · decide

/-- C25 (amended): when `malloc`, `calloc`, `realloc`, `recallocarray` or
    `aligned_alloc` returns a non-null result, `errno` is what it was on entry, whatever
    the pool (so also for the `_conceal` variants, which run the same bodies on pool 0);
    `free` and `freezero` return with `errno` as it was on entry.  With option X,
    `malloc`, `calloc` and `realloc` never return `NULL`; `recallocarray` (with
    `internal_funcs` set) returns `NULL` only for a non-null pointer whose old size
    overflows, and `aligned_alloc` only for an alignment that is not a power of two or
    a size that is not a multiple of it, both with `errno = EINVAL`. -/
theorem errno_restored (ps : Nat) (mopts : malloc_readonly) (s s' : pool_state) :
    (∀ size caller r, malloc ps mopts size caller s = .ok (r, s') →
      (r ≠ 0 → s'.errno = s.errno) ∧ (mopts.malloc_xmalloc ≠ 0 → r ≠ 0)) ∧
    (∀ nmemb size caller r, calloc ps mopts nmemb size caller s = .ok (r, s') →
      (r ≠ 0 → s'.errno = s.errno) ∧ (mopts.malloc_xmalloc ≠ 0 → r ≠ 0)) ∧
    (∀ ptr size caller r, realloc ps mopts ptr size caller s = .ok (r, s') →
      (r ≠ 0 → s'.errno = s.errno) ∧ (mopts.malloc_xmalloc ≠ 0 → r ≠ 0)) ∧
    (∀ ptr oldn newn size caller r,
      recallocarray ps mopts ptr oldn newn size caller s = .ok (r, s') →
      (r ≠ 0 → s'.errno = s.errno) ∧
      (mopts.internal_funcs ≠ 0 → mopts.malloc_xmalloc ≠ 0 → r = 0 →
        ptr ≠ 0 ∧ mul_overflows oldn size = true ∧ s'.errno = EINVAL)) ∧
    (∀ alignment size caller r, aligned_alloc ps mopts alignment size caller s = .ok (r, s') →
      (r ≠ 0 → s'.errno = s.errno) ∧
      (mopts.malloc_xmalloc ≠ 0 → r = 0 →
        ((sub64 alignment 1 &&& alignment ≠ 0 ∨ alignment = 0) ∨
          size &&& sub64 alignment 1 ≠ 0) ∧ s'.errno = EINVAL)) ∧
    (∀ ptr u, free ps mopts ptr s = .ok (u, s') → s'.errno = s.errno) ∧
    (∀ ptr sz u, freezero ps mopts ptr sz s = .ok (u, s') → s'.errno = s.errno) :=
  ⟨fun _ _ _ h => wp_run (malloc_errno s) h,
    fun _ _ _ _ h => wp_run (calloc_errno s) h,
    fun _ _ _ _ h => wp_run (realloc_errno s) h,
    fun _ _ _ _ _ _ h => wp_run (recallocarray_errno s) h,
    fun _ _ _ _ h => wp_run (aligned_alloc_errno s) h,
    fun _ _ h => wp_run (free_errno s) h,
    fun _ _ _ h => wp_run (freezero_errno s) h⟩

set_option maxRecDepth 1000000 in
/-- C25 (witness): `malloc(100)` on a fresh pool entered with `errno = 5` returns
    `0x13f000` with `errno = 5`. -/
theorem errno_restored_witness :
    malloc 12 (malloc_init_mopts 12 [] 7 0 0) 100 0
        { malloc_init_pool 12 (malloc_init_mopts 12 [] 7 0 0) 0x7000 1 [] with
          errno := 5, env := [0, 0, 0x100000, 0x200000, 0x300000] } =
      .ok (0x13f000, (state_after (malloc 12 (malloc_init_mopts 12 [] 7 0 0) 100 0
        { malloc_init_pool 12 (malloc_init_mopts 12 [] 7 0 0) 0x7000 1 [] with
          errno := 5, env := [0, 0, 0x100000, 0x200000, 0x300000] })).getD
        (malloc_init_pool 12 (malloc_init_mopts 12 [] 7 0 0) 0x7000 1 [])) ∧
    ((state_after (malloc 12 (malloc_init_mopts 12 [] 7 0 0) 100 0
        { malloc_init_pool 12 (malloc_init_mopts 12 [] 7 0 0) 0x7000 1 [] with
          errno := 5, env := [0, 0, 0x100000, 0x200000, 0x300000] })).getD
        (malloc_init_pool 12 (malloc_init_mopts 12 [] 7 0 0) 0x7000 1 [])).errno = 5 :=
  ⟨by decide,
    ((errno_restored 12 (malloc_init_mopts 12 [] 7 0 0)
      { malloc_init_pool 12 (malloc_init_mopts 12 [] 7 0 0) 0x7000 1 [] with
        errno := 5, env := [0, 0, 0x100000, 0x200000, 0x300000] }
      ((state_after (malloc 12 (malloc_init_mopts 12 [] 7 0 0) 100 0
        { malloc_init_pool 12 (malloc_init_mopts 12 [] 7 0 0) 0x7000 1 [] with
          errno := 5, env := [0, 0, 0x100000, 0x200000, 0x300000] })).getD
        (malloc_init_pool 12 (malloc_init_mopts 12 [] 7 0 0) 0x7000 1 []))).1 100 0 0x13f000
      (by decide)).1 (by decide)⟩

/-! ## recallocarray moves the object -/

theorem orecallocarray_moves {ps : Nat} {mopts : malloc_readonly} {p oldsize newsize f : Nat}
    (hp : p ≠ 0) (hne : oldsize ≠ newsize) (s : pool_state) :
    wp (orecallocarray ps mopts p oldsize newsize f)
      (fun q _ => q ≠ 0 → ∃ s1 s2 s3, omalloc ps mopts newsize 0 f s1 = .ok (q, s2) ∧
        ofree ps mopts p 1 0 oldsize s2 = .ok ((), s3)) s := by
  have htail : ∀ s1, wp (do
      let newptr ← omalloc ps mopts newsize 0 f
      if newptr = 0 then pure 0
      else do
        ofree ps mopts p 1 0 oldsize
        pure newptr : Run Nat)
      (fun q _ => q ≠ 0 → ∃ s1 s2 s3, omalloc ps mopts newsize 0 f s1 = .ok (q, s2) ∧
        ofree ps mopts p 1 0 oldsize s2 = .ok ((), s3)) s1 := by
    intro s1
    apply wp_bind_i
    apply wp_traced
    intro q s2 hom
    apply wp_ite_i
    · intro hq
      apply wp_pure_i
      intro hc
      exact absurd rfl hc
    · intro _
      apply wp_bind_i
      apply wp_traced
      intro u s3 hof
      apply wp_pure_i
      intro _
      exact ⟨s1, s2, s3, hom, hof⟩
  unfold orecallocarray
  rw [if_neg hp, if_neg hne]
  apply wp_bind_i
  apply wp_any
  intro ri s0
  apply wp_bind_i
  apply wp_get_i
  dsimp only
  repeat' first
    | with_reducible apply wp_ite_i
    | with_reducible exact htail _
    | with_reducible apply wp_bind_i
    | with_reducible apply wp_pure_i
    | with_reducible exact wp_wrterror_i
    | with_reducible apply wp_any
    | intro _ _
    | intro _

theorem EPILOGUE_result {mopts : malloc_readonly} {saved r : Nat} {s : pool_state}
    {Q : Nat → pool_state → Prop} (h : ∀ s', Q r s') : wp (EPILOGUE mopts saved r) Q s := by
  unfold EPILOGUE
  repeat' first
    | with_reducible apply wp_ite_i
    | with_reducible apply wp_bind_i
    | with_reducible apply wp_pure_i
    | with_reducible exact wp_wrterror_i
    | with_reducible apply wp_modify_i
    | with_reducible exact h _
    | intro _

theorem recallocarray_moves {ps : Nat} {mopts : malloc_readonly} {p oldn newn size caller : Nat}
    (hp : p ≠ 0) (hint : mopts.internal_funcs ≠ 0)
    (hold : mul_overflows oldn size = false) (hnew : mul_overflows newn size = false)
    (hne : (oldn * size) % 2 ^ 64 ≠ (newn * size) % 2 ^ 64) (s : pool_state) :
    wp (recallocarray ps mopts p oldn newn size caller)
      (fun q _ => q ≠ 0 → ∃ s1 s2 s3,
        omalloc ps mopts ((newn * size) % 2 ^ 64) 0 (CALLER mopts caller) s1 = .ok (q, s2) ∧
        ofree ps mopts p 1 0 ((oldn * size) % 2 ^ 64) s2 = .ok ((), s3)) s := by
  unfold recallocarray
  rw [if_neg hint]
  apply wp_bind_i
  apply wp_get_i
  rw [hnew, hold]
  rw [if_neg (by simp), if_neg (by simp)]
  dsimp only
  rw [if_pos hp]
  apply wp_bind_i
  apply wp_mono (orecallocarray_moves hp hne s)
  intro q s' hq
  exact EPILOGUE_result (fun _ => hq)

theorem recallocarray_p_in_place {ps : Nat} {mopts : malloc_readonly}
    {p oldn newn size caller : Nat} (hp : p ≠ 0)
    (hold : mul_overflows oldn size = false) (hnew : mul_overflows newn size = false)
    (hc : (newn * size) % 2 ^ 64 ≤ (oldn * size) % 2 ^ 64 ∧
      (oldn * size) % 2 ^ 64 - (newn * size) % 2 ^ 64 < (oldn * size) % 2 ^ 64 / 2 ∧
      (oldn * size) % 2 ^ 64 - (newn * size) % 2 ^ 64 < MALLOC_PAGESIZE ps) (s : pool_state) :
    recallocarray_p ps mopts p oldn newn size caller s = .ok (p, s) := by
  unfold recallocarray_p
  rw [if_neg hp, hnew, hold]
  rw [if_neg (by simp), if_neg (by simp)]
  rw [if_pos hc]
  rfl

theorem recallocarray_p_moves {ps : Nat} {mopts : malloc_readonly}
    {p oldn newn size caller : Nat} (hp : p ≠ 0)
    (hold : mul_overflows oldn size = false) (hnew : mul_overflows newn size = false)
    (hc : ¬ ((newn * size) % 2 ^ 64 ≤ (oldn * size) % 2 ^ 64 ∧
      (oldn * size) % 2 ^ 64 - (newn * size) % 2 ^ 64 < (oldn * size) % 2 ^ 64 / 2 ∧
      (oldn * size) % 2 ^ 64 - (newn * size) % 2 ^ 64 < MALLOC_PAGESIZE ps)) (s : pool_state) :
    wp (recallocarray_p ps mopts p oldn newn size caller)
      (fun q s' => q ≠ 0 → ∃ s2,
        malloc ps mopts ((newn * size) % 2 ^ 64) caller s = .ok (q, s2) ∧
        free ps mopts p s2 = .ok ((), s')) s := by
  unfold recallocarray_p
  rw [if_neg hp, hnew, hold]
  rw [if_neg (by simp), if_neg (by simp)]
  rw [if_neg hc]
  apply wp_bind_i
  apply wp_traced
  intro q s2 hm
  apply wp_ite_i
  · intro hq
    apply wp_pure_i
    intro h0
    exact absurd rfl h0
  · intro _
    apply wp_bind_i
    apply wp_traced
    intro u s3 hf
    apply wp_pure_i
    intro _
    exact ⟨s2, hm, hf⟩

set_option maxRecDepth 1000000 in
/-- C26 (counterexample): on a fresh pool `malloc(100)` returns `0x13f000`, and
    `recallocarray(p, 100, 60, 1)`, a shrink by 40 of 100 bytes, returns `0x100000`,
    another chunk; and with `internal_funcs` off, `recallocarray(p, 100, 50, 1)`, a
    shrink by exactly half, returns another chunk as well. -/
theorem recallocarray_shrink_counterexample :
    (60 * 1 < 100 * 1 ∧ 100 * 1 - 60 * 1 ≤ 100 * 1 / 2 ∧ 100 * 1 - 50 * 1 ≤ 100 * 1 / 2) ∧
    (malloc_init_mopts 12 [] 7 0 0).internal_funcs = 1 ∧
    returned ((do
        let p ← malloc 12 (malloc_init_mopts 12 [] 7 0 0) 100 0
        let q ← recallocarray 12 (malloc_init_mopts 12 [] 7 0 0) p 100 60 1 0
        pure (p, q) : Run (Nat × Nat))
      { malloc_init_pool 12 (malloc_init_mopts 12 [] 7 0 0) 0x7000 1 [] with
        env := [0, 0, 0x100000, 0x200000, 0x300000, 0, 0, 0, 0, 0, 0] }) =
      some (0x13f000, 0x100000) ∧
    returned ((do
        let p ← malloc 12 (malloc_init_mopts 12 [] 7 0 0) 100 0
        let q ← recallocarray 12
          { malloc_init_mopts 12 [] 7 0 0 with internal_funcs := 0 } p 100 50 1 0
        pure (p, q) : Run (Nat × Nat))
      { malloc_init_pool 12 (malloc_init_mopts 12 [] 7 0 0) 0x7000 1 [] with
        env := [0, 0, 0x100000, 0x200000, 0x300000, 0, 0, 0, 0, 0, 0] }) =
      some (0x13f000, 0x100000) := by
  refine ⟨by decide, by decide, ?_, ?_⟩
  · decide
  · decide

/-- C26 (amended): for a non-null `p` and sizes `o = on * m` and `s = nn * m` whose
    products do not overflow.  With `internal_funcs` set, as `_malloc_init` leaves it,
    and `s != o`, `recallocarray` is never done in place: a non-null result is the
    pointer `omalloc(s)` returned, and `p` went through `ofree` with `clear = 1` and
    the size `o`.  With `internal_funcs` off, `recallocarray_p` returns `p` and leaves
    the pool as it is when `s <= o`, `o - s < o / 2` and `o - s < PAGESIZE`, and
    otherwise a non-null result is the pointer of `malloc(s)`, followed by `free(p)`. -/
theorem recallocarray_shrink (ps : Nat) (mopts : malloc_readonly)
    (p oldn newn size caller : Nat) (hp : p ≠ 0)
    (hold : mul_overflows oldn size = false) (hnew : mul_overflows newn size = false) :
    (mopts.internal_funcs ≠ 0 → (oldn * size) % 2 ^ 64 ≠ (newn * size) % 2 ^ 64 →
      ∀ (s : pool_state) q, returned (recallocarray ps mopts p oldn newn size caller s) = some q →
        q ≠ 0 → ∃ s1 s2 s3,
          omalloc ps mopts ((newn * size) % 2 ^ 64) 0 (CALLER mopts caller) s1 = .ok (q, s2) ∧
          ofree ps mopts p 1 0 ((oldn * size) % 2 ^ 64) s2 = .ok ((), s3)) ∧
    (mopts.internal_funcs = 0 →
      ((newn * size) % 2 ^ 64 ≤ (oldn * size) % 2 ^ 64 ∧
        (oldn * size) % 2 ^ 64 - (newn * size) % 2 ^ 64 < (oldn * size) % 2 ^ 64 / 2 ∧
        (oldn * size) % 2 ^ 64 - (newn * size) % 2 ^ 64 < MALLOC_PAGESIZE ps) →
      ∀ s : pool_state, recallocarray ps mopts p oldn newn size caller s = .ok (p, s)) ∧
    (mopts.internal_funcs = 0 →
      ¬ ((newn * size) % 2 ^ 64 ≤ (oldn * size) % 2 ^ 64 ∧
        (oldn * size) % 2 ^ 64 - (newn * size) % 2 ^ 64 < (oldn * size) % 2 ^ 64 / 2 ∧
        (oldn * size) % 2 ^ 64 - (newn * size) % 2 ^ 64 < MALLOC_PAGESIZE ps) →
      ∀ (s s' : pool_state) q, recallocarray ps mopts p oldn newn size caller s = .ok (q, s') →
        q ≠ 0 → ∃ s2, malloc ps mopts ((newn * size) % 2 ^ 64) caller s = .ok (q, s2) ∧
          free ps mopts p s2 = .ok ((), s')) := by
  refine ⟨?_, ?_, ?_⟩
  · intro hint hne s q hret hq
    obtain ⟨s', hrun⟩ := returned_some hret
    exact wp_run (recallocarray_moves hp hint hold hnew hne s) hrun hq
  · intro hint hc s
    unfold recallocarray
    rw [if_pos hint]
    exact recallocarray_p_in_place hp hold hnew hc s
  · intro hint hc s s' q hrun hq
    unfold recallocarray at hrun
    rw [if_pos hint] at hrun
    exact wp_run (recallocarray_p_moves hp hold hnew hc s) hrun hq

set_option maxRecDepth 1000000 in
/-- C26 (witness): `recallocarray(0x13f000, 100, 60, 1)` after `malloc(100)` on a fresh
    pool: the result `0x100000` is what `omalloc(60)` returned. -/
theorem recallocarray_shrink_witness :
    ((0x13f000 : Nat) ≠ 0 ∧ mul_overflows 100 1 = false ∧ mul_overflows 60 1 = false ∧
      (malloc_init_mopts 12 [] 7 0 0).internal_funcs ≠ 0 ∧
      (100 * 1) % 2 ^ 64 ≠ (60 * 1) % 2 ^ 64) ∧
    ∃ s : pool_state,
      returned (recallocarray 12 (malloc_init_mopts 12 [] 7 0 0) 0x13f000 100 60 1 0 s) =
        some 0x100000 ∧
      ∃ s1 s2 s3,
        omalloc 12 (malloc_init_mopts 12 [] 7 0 0) ((60 * 1) % 2 ^ 64) 0
          (CALLER (malloc_init_mopts 12 [] 7 0 0) 0) s1 = .ok (0x100000, s2) ∧
        ofree 12 (malloc_init_mopts 12 [] 7 0 0) 0x13f000 1 0 ((100 * 1) % 2 ^ 64) s2 =
          .ok ((), s3) :=
  ⟨by decide,
    (state_after (malloc 12 (malloc_init_mopts 12 [] 7 0 0) 100 0
      { malloc_init_pool 12 (malloc_init_mopts 12 [] 7 0 0) 0x7000 1 [] with
        env := [0, 0, 0x100000, 0x200000, 0x300000, 0, 0, 0, 0, 0, 0] })).getD
      (malloc_init_pool 12 (malloc_init_mopts 12 [] 7 0 0) 0x7000 1 []),
    by decide,
    (recallocarray_shrink 12 (malloc_init_mopts 12 [] 7 0 0) 0x13f000 100 60 1 0 (by decide)
      (by decide) (by decide)).1 (by decide) (by decide)
      ((state_after (malloc 12 (malloc_init_mopts 12 [] 7 0 0) 100 0
      { malloc_init_pool 12 (malloc_init_mopts 12 [] 7 0 0) 0x7000 1 [] with
        env := [0, 0, 0x100000, 0x200000, 0x300000, 0, 0, 0, 0, 0, 0] })).getD
      (malloc_init_pool 12 (malloc_init_mopts 12 [] 7 0 0) 0x7000 1 []))
      0x100000 (by decide) (by decide)⟩

/-! ## The size of the directory -/

theorem insert_step_wf (ps k : Nat) (mopts : malloc_readonly) (d : dir_info)
    (key sz f : Nat) (hk : k < 64) (hwf : dir_wf ps mopts d)
    (htot : d.regions_total = 2 ^ k) (hfree2 : 2 ≤ d.regions_free) (hkey : key ≠ 0)
    (habs : ∀ y < d.regions_total, (slot d.r y).p ≠ 0 →
      MASK_POINTER ps (slot d.r y).p ≠ MASK_POINTER ps key) :
    ∃ idx, insert_probe d.r (dir_mask d.regions_total) (dir_mask d.regions_total + 1)
        (hash ps key &&& dir_mask d.regions_total) = some idx ∧
      dir_wf ps mopts { d with r := d.r.set idx ⟨key, sz, f⟩,
                               regions_free := sub64 d.regions_free 1 } ∧
      sub64 d.regions_free 1 = d.regions_free - 1 ∧
      List.Perm ((d.r.set idx ⟨key, sz, f⟩).filter (fun e => decide (e.p ≠ 0)))
        (⟨key, sz, f⟩ :: d.r.filter (fun e => decide (e.p ≠ 0))) := by
  obtain ⟨hcan, hlen, hp, hfree, hpos, hch, huq⟩ := hwf
  have hn : 0 < 2 ^ k := Nat.pow_pos (by norm_num)
  have hn64 := two_pow_lt_64 k hk
  have hlen2 : d.r.length = 2 ^ k := by rw [hlen, htot]
  have hmask : dir_mask d.regions_total = 2 ^ k - 1 := by
    rw [htot]; exact dir_mask_eq _ hn hn64
  rw [hmask]
  have hs : hash ps key &&& (2 ^ k - 1) < 2 ^ k := and_mask_lt _ _
  have hfp : 0 < d.r.countP (fun v => v.p = 0) := by rw [← hfree]; omega
  obtain ⟨idx, i1, i2, i3, i4⟩ := insert_probe_spec d.r k _ hk hlen2 hs hfp
  have hil : idx < d.r.length := by omega
  have hle : d.r.countP (fun v => decide (v.p = 0)) ≤ d.r.length := List.countP_le_length _
  have hsub : sub64 d.regions_free 1 = d.regions_free - 1 :=
    sub64_eq _ _ (by rw [hfree]; omega) (by omega)
  have hperm := filter_set_empty d.r idx ⟨key, sz, f⟩ hil i3 hkey
  refine ⟨idx, i1, ⟨hcan, ?_, hp, ?_, fun _ => ?_, ?_, ?_⟩, hsub, hperm⟩
  · show (d.r.set idx ⟨key, sz, f⟩).length = d.regions_total
    rw [List.length_set]; exact hlen
  · show sub64 d.regions_free 1 = (d.r.set idx ⟨key, sz, f⟩).countP (fun e => e.p = 0)
    have h := countP_set_of_length d.r (fun v => v.p = 0) idx ⟨key, sz, f⟩ hil
    simp only [i3, hkey, decide_True, decide_False, if_true] at h
    rw [hsub, hfree]
    simp at h
    omega
  · show 0 < sub64 d.regions_free 1
    rw [hsub]; omega
  · show chain_ok ps (d.r.set idx ⟨key, sz, f⟩)
    rw [chain_ok_pow ps k _ hk (by rw [List.length_set]; exact hlen2)]
    exact set_chain ps k d.r idx ⟨key, sz, f⟩ hlen2 i2 hkey
      ((chain_ok_pow ps k d.r hk hlen2).1 hch) i4
  · show pages_unique ps (d.r.set idx ⟨key, sz, f⟩)
    rw [pages_unique_iff] at huq ⊢
    rw [List.Perm.nodup_iff (List.Perm.map _ hperm), List.map_cons, List.nodup_cons]
    refine ⟨?_, huq⟩
    intro hmem
    obtain ⟨y, hy, hoy, hpy⟩ := (page_mem_iff ps d.r _).1 hmem
    exact habs y (by rw [← hlen]; exact hy) hoy hpy

theorem insert_wf (ps : Nat) (mopts : malloc_readonly) (d : dir_info)
    (key sz f : Nat) (mmap_ok : Bool) (hwf : dir_wf ps mopts d)
    (hmin : d.regions_total ≠ 0 → MALLOC_INITIAL_REGIONS ≤ d.regions_total)
    (hmax : d.regions_total ≤ 2 ^ 59) (hkey : key ≠ 0)
    (habs : ∀ y < d.regions_total, (slot d.r y).p ≠ 0 →
      MASK_POINTER ps (slot d.r y).p ≠ MASK_POINTER ps key) :
    ∃ rc d2, insert ps d key sz f mmap_ok = .ok (rc, d2) ∧
      (mmap_ok = true → d.regions_total ≤ SIZE_MAX / sizeof_region_info / 2 → rc = 0) ∧
      (rc = 0 → dir_wf ps mopts d2 ∧
        d2.regions_total =
          (if d.regions_free * 4 < d.regions_total ∨ d.regions_total = 0 then
            (if d.regions_total = 0 then MALLOC_INITIAL_REGIONS else d.regions_total * 2)
            else d.regions_total) ∧
        d2.regions_free + 1 = d.regions_free + (d2.regions_total - d.regions_total) ∧
        MALLOC_INITIAL_REGIONS ≤ d2.regions_total ∧ d2.regions_total ≤ 2 ^ 59 ∧
        List.Perm (d2.r.filter (fun e => decide (e.p ≠ 0)))
          (⟨key, sz, f⟩ :: d.r.filter (fun e => decide (e.p ≠ 0)))) := by
  have hwf0 := hwf
  obtain ⟨hcan, hlen, hp, hfree, hpos, hch, huq⟩ := hwf
  have hle : d.r.countP (fun v => decide (v.p = 0)) ≤ d.r.length := List.countP_le_length _
  have hfl : d.regions_free ≤ d.regions_total := by rw [hfree, ← hlen]; exact hle
  have h4 : d.regions_free * 4 % 2 ^ 64 = d.regions_free * 4 :=
    Nat.mod_eq_of_lt (by omega)
  have hM : MALLOC_INITIAL_REGIONS = 512 := rfl
  have hsm : SIZE_MAX / sizeof_region_info / 2 = 384307168202282325 := by decide
  by_cases hneed : d.regions_free * 4 < d.regions_total ∨ d.regions_total = 0
  · have hneed2 : d.regions_free * 4 % 2 ^ 64 < d.regions_total ∨ d.regions_total = 0 := by
      rw [h4]; exact hneed
    by_cases hgo : mmap_ok = true ∧ d.regions_total ≤ SIZE_MAX / sizeof_region_info / 2
    · obtain ⟨hok, hcap⟩ := hgo
      subst hok
      obtain ⟨d1, g1, g2, g3, g4, wf1, g5⟩ := omalloc_grow_ok ps mopts d hwf0 hcap
      have h10 : d1.regions_total ≠ 0 := by omega
      obtain ⟨k1, hk1, ht1, hl1⟩ := dir_wf_pow ps mopts d1 wf1 h10
      have hT1 : d1.regions_total = 512 ∨ d1.regions_total = d.regions_total * 2 := by
        rw [g2]; split
        · exact Or.inl rfl
        · exact Or.inr rfl
      have hT1min : 512 ≤ d1.regions_total := by
        rcases hT1 with h | h
        · omega
        · by_cases h0 : d.regions_total = 0
          · rw [g2, if_pos h0]; omega
          · have := hmin h0; omega
      have hT1max : d1.regions_total ≤ 2 ^ 59 := by
        rw [hsm] at hcap
        by_cases h0 : d.regions_total = 0
        · rw [g2, if_pos h0, hM]; norm_num
        · obtain ⟨k, hk, he, _⟩ := dir_wf_pow ps mopts d hwf0 h0
          have hk58 : k ≤ 58 := by
            by_contra hc
            have : 2 ^ 59 ≤ 2 ^ k := Nat.pow_le_pow_right (by norm_num) (by omega)
            omega
          rw [g2, if_neg h0, he, ← pow_succ]
          exact Nat.pow_le_pow_right (by norm_num) (by omega)
      have habs1 : ∀ y < d1.regions_total, (slot d1.r y).p ≠ 0 →
          MASK_POINTER ps (slot d1.r y).p ≠ MASK_POINTER ps key := by
        intro y hy hoy hpy
        have hl1b : d1.r.length = d1.regions_total := wf1.2.1
        have hm : MASK_POINTER ps key ∈
            (d1.r.filter (fun e => decide (e.p ≠ 0))).map (fun v => MASK_POINTER ps v.p) :=
          (page_mem_iff ps d1.r _).2 ⟨y, by rw [hl1b]; exact hy, hoy, hpy⟩
        rw [List.Perm.mem_iff (List.Perm.map _ g5)] at hm
        obtain ⟨x, hx, hox, hpx⟩ := (page_mem_iff ps d.r _).1 hm
        exact habs x (by rw [← hlen]; exact hx) hox hpx
      obtain ⟨idx, i1, i2, i3, i4⟩ := insert_step_wf ps k1 mopts d1 key sz f hk1 wf1 ht1
        (by omega) hkey habs1
      refine ⟨0, { d1 with r := d1.r.set idx ⟨key, sz, f⟩,
                           regions_free := sub64 d1.regions_free 1 }, ?_, fun _ _ => rfl,
        fun _ => ⟨i2, ?_, ?_, hT1min, hT1max, i4.trans (List.Perm.cons _ g5)⟩⟩
      · unfold insert
        simp only [hneed2, if_true, g1, i1]
      · show d1.regions_total = _
        rw [if_pos hneed]; exact g2
      · show sub64 d1.regions_free 1 + 1 = d.regions_free + (d1.regions_total - d.regions_total)
        rw [i3]; omega
    · have hg : omalloc_grow ps d mmap_ok = .ok (1, d) := by
        by_cases hbig : d.regions_total > SIZE_MAX / sizeof_region_info / 2
        · unfold omalloc_grow; rw [if_pos hbig]
        · have hf : mmap_ok = false := by
            cases mmap_ok with
            | false => rfl
            | true => exact absurd ⟨rfl, by omega⟩ hgo
          subst hf
          unfold omalloc_grow; rw [if_neg hbig]; simp
      refine ⟨1, d, insert_grow_fail ps d key sz f mmap_ok hneed2 hg, ?_,
        fun h => absurd h (by norm_num)⟩
      intro hok h58
      exact absurd ⟨hok, h58⟩ hgo
  · have hneed2 : ¬ (d.regions_free * 4 % 2 ^ 64 < d.regions_total ∨ d.regions_total = 0) := by
      rw [h4]; exact hneed
    have h0 : d.regions_total ≠ 0 := fun h => hneed (Or.inr h)
    have hge : d.regions_total ≤ d.regions_free * 4 := by
      by_contra hc
      exact hneed (Or.inl (by omega))
    have hm := hmin h0
    obtain ⟨k, hk, ht, hl⟩ := dir_wf_pow ps mopts d hwf0 h0
    obtain ⟨idx, i1, i2, i3, i4⟩ := insert_step_wf ps k mopts d key sz f hk hwf0 ht
      (by omega) hkey habs
    refine ⟨0, { d with r := d.r.set idx ⟨key, sz, f⟩,
                        regions_free := sub64 d.regions_free 1 }, ?_, fun _ _ => rfl,
      fun _ => ⟨i2, ?_, ?_, hm, hmax, i4⟩⟩
    · unfold insert
      simp only [hneed2, if_false, i1]
    · show d.regions_total = _
      rw [if_neg hneed]
    · show sub64 d.regions_free 1 + 1 = d.regions_free + (d.regions_total - d.regions_total)
      rw [i3]; omega

theorem delete_wf (ps : Nat) (mopts : malloc_readonly) (d : dir_info) (i : Nat)
    (hwf : dir_wf ps mopts d) (hi : i < d.regions_total) (hocc : (slot d.r i).p ≠ 0) :
    ∃ d2, delete ps d i = .ok d2 ∧ dir_wf ps mopts d2 ∧
      d2.regions_free = d.regions_free + 1 ∧ d2.regions_total = d.regions_total := by
  have h0 : d.regions_total ≠ 0 := by omega
  obtain ⟨k, hk, htot, hlen⟩ := dir_wf_pow ps mopts d hwf h0
  obtain ⟨hcan, _, _, hfree, hpos, hch, huq⟩ := hwf
  have hn : 0 < 2 ^ k := Nat.pow_pos (by norm_num)
  have hn64 := two_pow_lt_64 k hk
  rw [htot] at hi
  have hfp := hpos h0
  rw [hfree] at hfp
  obtain ⟨e, he, hee⟩ := exists_of_countP_pos d.r _ hfp
  have hee : (slot d.r e).p = 0 := by simpa using hee
  rw [hlen] at he
  have hei : e ≠ i := by intro h; subst h; exact hocc hee
  have hil : i < d.r.length := by omega
  have hch2 := (chain_ok_pow ps k d.r hk hlen).1 hch
  -- the table after the first slot has been cleared
  have hs0 : ∀ x, slot (d.r.set i (clear_slot (slot d.r i))) x =
      if x = i then clear_slot (slot d.r i) else slot d.r x := by
    intro x
    rw [slot_set]
    by_cases hx : x = i
    · rw [if_pos ⟨hx, hil⟩, if_pos hx]
    · rw [if_neg (fun h => hx h.1), if_neg hx]
  have hc0 := countP_set_of_length d.r (fun v => decide (v.p = 0)) i
    (clear_slot (slot d.r i)) hil
  have hcl : (clear_slot (slot d.r i)).p = 0 := rfl
  simp only [hocc, hcl, decide_True, decide_False, if_true, Bool.false_eq_true, if_false]
    at hc0
  generalize hr0 : d.r.set i (clear_slot (slot d.r i)) = r0 at hs0 hc0
  have hl0 : r0.length = 2 ^ k := by rw [← hr0]; simpa using hlen
  have huq0 : pages_unique ps r0 := by
    intro x hx y hy hox hoy hxy
    rw [hs0] at hox hoy hxy
    rw [hs0] at hxy
    by_cases hxi : x = i
    · rw [if_pos hxi] at hox; exact absurd hcl hox
    · by_cases hyi : y = i
      · rw [if_pos hyi] at hoy; exact absurd hcl hoy
      · rw [if_neg hxi] at hox hxy
        rw [if_neg hyi] at hoy hxy
        exact huq x (by omega) y (by omega) hox hoy hxy
  obtain ⟨r2, w1, w2, w3, w4, w5, w6⟩ := delete_walk_spec ps k hk (2 ^ k) r0 i i e hl0 hi hi he
    (by rw [hs0, if_pos rfl]; rfl)
    (by rw [hs0, if_neg hei]; exact hee)
    (by rw [ring_self _ _ hi]; exact ring_pos _ _ _ hi he hei)
    (Nat.le_of_lt (ring_lt_n _ _ _ hi he))
    (by
      intro x hx hox y hy hlt
      have hxi : x ≠ i := by
        intro h; rw [hs0, if_pos h] at hox; exact hox hcl
      rw [hs0, if_neg hxi] at hox hlt
      by_cases hyi : y = i
      · right
        refine ⟨hyi, ?_⟩
        rw [ring_self _ _ hi]; exact ring_pos _ _ _ hi hx hxi
      · left
        rw [hs0, if_neg hyi]
        exact hch2 x hx hox y hy hlt)
  have hfl : r0.countP (fun v => decide (v.p = 0)) ≤ r0.length := List.countP_le_length _
  have hadd : add64 d.regions_free 1 = d.regions_free + 1 := add64_eq _ _ (by omega)
  have hwf2 : dir_wf ps mopts { d with regions_free := add64 d.regions_free 1, r := r2 } := by
    refine ⟨hcan, by rw [htot]; exact w2, Or.inr ⟨k, hk, htot⟩, ?_, fun _ => ?_,
      (chain_ok_pow ps k r2 hk w2).2 w3, w5 huq0⟩
    · show add64 d.regions_free 1 = r2.countP (fun e => decide (e.p = 0))
      rw [hadd, w6]; omega
    · show 0 < add64 d.regions_free 1
      rw [hadd]; omega
  refine ⟨{ d with regions_free := add64 d.regions_free 1, r := r2 }, ?_, hwf2, hadd, rfl⟩
  unfold delete
  rw [htot, if_neg (by rw [two_pow_and_pred k hk]; exact fun h => h rfl),
    dir_mask_eq _ hn hn64]
  simp only [hr0, w1]

theorem poolinit_wf (ps : Nat) (mopts : malloc_readonly) (self flag : Nat)
    (hc : mopts.malloc_canary < 2 ^ 32) :
    dir_wf ps mopts (omalloc_poolinit mopts self flag) := by
  refine ⟨poolinit_canary_ok mopts self flag hc, rfl, Or.inl rfl, rfl,
    fun h => absurd rfl h, ?_, ?_⟩
  · intro x hx
    exact absurd hx (Nat.not_lt_zero _)
  · intro x hx
    exact absurd hx (Nat.not_lt_zero _)

theorem occ_add_free (ps : Nat) (mopts : malloc_readonly) (d : dir_info)
    (hwf : dir_wf ps mopts d) :
    d.r.countP (fun e => decide (e.p ≠ 0)) + d.regions_free = d.regions_total := by
  obtain ⟨_, hlen, _, hfree, _⟩ := hwf
  rw [hfree, ← hlen]
  exact countP_occ_add_empty d.r

theorem reachable_inv (ps : Nat) (mopts : malloc_readonly)
    (hc : mopts.malloc_canary < 2 ^ 32) (d : dir_info) (hr : dir_reachable ps mopts d) :
    dir_wf ps mopts d ∧
      (d.regions_total ≠ 0 → MALLOC_INITIAL_REGIONS ≤ d.regions_total) ∧
      d.regions_total ≤ 2 ^ 59 ∧
      (d.regions_total - d.regions_free) * 4 ≤ 3 * d.regions_total + 4 := by
  induction hr with
  | initial self flag =>
    exact ⟨poolinit_wf ps mopts self flag hc, fun h => absurd rfl h, Nat.zero_le _,
      Nat.zero_le _⟩
  | by_insert d d2 key sz f mmap_ok _ hkey habs hins ih =>
    obtain ⟨hwf, hmin, hmax, hload⟩ := ih
    obtain ⟨rc, d3, h1, _, h3⟩ := insert_wf ps mopts d key sz f mmap_ok hwf hmin hmax hkey habs
    rw [hins] at h1
    injection h1 with h1
    injection h1 with hrc hd
    subst hrc; subst hd
    obtain ⟨wf2, t2, f2, m2, x2, _⟩ := h3 rfl
    refine ⟨wf2, fun _ => m2, x2, ?_⟩
    have hM : MALLOC_INITIAL_REGIONS = 512 := rfl
    have hfl := occ_add_free ps mopts d hwf
    split at t2
    · split at t2
      · omega
      · omega
    · rename_i hng
      have : d.regions_total ≤ d.regions_free * 4 := by
        by_contra hcc
        exact hng (Or.inl (by omega))
      omega
  | by_delete d d2 i _ hi hocc hdel ih =>
    obtain ⟨hwf, hmin, hmax, hload⟩ := ih
    obtain ⟨d3, h1, wf2, f2, t2⟩ := delete_wf ps mopts d i hwf hi hocc
    rw [hdel] at h1
    injection h1 with hd
    subst hd
    refine ⟨wf2, by rw [t2]; exact hmin, by rw [t2]; exact hmax, ?_⟩
    rw [t2, f2]; omega

theorem insert_pages_spec (ps : Nat) (mopts : malloc_readonly) :
    ∀ (keys : List Nat) (d : dir_info) (n : Nat),
      dir_wf ps mopts d → d.regions_free + n = d.regions_total →
      ((d.regions_total = 0 ∧ n = 0) ∨
        (512 ≤ d.regions_total ∧ d.regions_total ≤ 2 ^ 59 ∧ 1 ≤ n ∧
          4 * (n - 1) ≤ 3 * d.regions_total ∧
          (d.regions_total = 512 ∨ 3 * (d.regions_total / 2) < 4 * (n - 1)))) →
      n + keys.length ≤ 2 ^ 57 →
      (∀ p ∈ keys, p ≠ 0) → (keys.map (MASK_POINTER ps)).Nodup →
      (∀ p ∈ keys, MASK_POINTER ps p ∉
        (d.r.filter (fun e => decide (e.p ≠ 0))).map (fun v => MASK_POINTER ps v.p)) →
      ∃ d2, insert_pages ps keys d = some d2 ∧ dir_wf ps mopts d2 ∧
        d2.regions_free + (n + keys.length) = d2.regions_total ∧
        ((d2.regions_total = 0 ∧ n + keys.length = 0) ∨
          (512 ≤ d2.regions_total ∧ d2.regions_total ≤ 2 ^ 59 ∧ 1 ≤ n + keys.length ∧
            4 * (n + keys.length - 1) ≤ 3 * d2.regions_total ∧
            (d2.regions_total = 512 ∨
              3 * (d2.regions_total / 2) < 4 * (n + keys.length - 1)))) ∧
        (dir_reachable ps mopts d → dir_reachable ps mopts d2) := by
  intro keys
  induction keys with
  | nil =>
    intro d n hwf hn hJ _ _ _ _
    exact ⟨d, rfl, hwf, hn, hJ, fun h => h⟩
  | cons p rest ih =>
    intro d n hwf hn hJ hlen hk0 hnd hfresh
    have hM : MALLOC_INITIAL_REGIONS = 512 := rfl
    have hsm : SIZE_MAX / sizeof_region_info / 2 = 384307168202282325 := by decide
    rw [List.length_cons] at hlen
    have hp0 : p ≠ 0 := hk0 p (List.mem_cons_self _ _)
    have habs : ∀ y < d.regions_total, (slot d.r y).p ≠ 0 →
        MASK_POINTER ps (slot d.r y).p ≠ MASK_POINTER ps p := by
      intro y hy hoy hpy
      exact hfresh p (List.mem_cons_self _ _)
        ((page_mem_iff ps d.r _).2 ⟨y, by rw [hwf.2.1]; exact hy, hoy, hpy⟩)
    obtain ⟨rc, d1, h1, h2, h3⟩ := insert_wf ps mopts d p 0 0 true hwf
      (by rw [hM]; omega) (by omega) hp0 habs
    have hrc : rc = 0 := h2 rfl (by rw [hsm]; omega)
    subst hrc
    obtain ⟨wf1, t1, f1, m1, x1, perm1⟩ := h3 rfl
    rw [hM] at m1
    have hT : (d1.regions_total = d.regions_total ∧ d.regions_total ≤ d.regions_free * 4 ∧
          d.regions_total ≠ 0) ∨
        (d.regions_total = 0 ∧ d1.regions_total = 512) ∨
        (d.regions_total ≠ 0 ∧ d1.regions_total = d.regions_total * 2 ∧
          d.regions_free * 4 < d.regions_total) := by
      split at t1
      · rename_i hg
        split at t1
        · rename_i h0
          exact Or.inr (Or.inl ⟨h0, by rw [t1, hM]⟩)
        · rename_i h0
          rcases hg with hg | hg
          · exact Or.inr (Or.inr ⟨h0, t1, hg⟩)
          · exact absurd hg h0
      · rename_i hng
        refine Or.inl ⟨t1, ?_, fun h => hng (Or.inr h)⟩
        by_contra hcc
        exact hng (Or.inl (by omega))
    clear t1
    have hn1 : d1.regions_free + (n + 1) = d1.regions_total := by omega
    have hJ1 : (d1.regions_total = 0 ∧ n + 1 = 0) ∨
        (512 ≤ d1.regions_total ∧ d1.regions_total ≤ 2 ^ 59 ∧ 1 ≤ n + 1 ∧
          4 * (n + 1 - 1) ≤ 3 * d1.regions_total ∧
          (d1.regions_total = 512 ∨ 3 * (d1.regions_total / 2) < 4 * (n + 1 - 1))) := by
      right
      refine ⟨m1, x1, by omega, by omega, by omega⟩
    rw [List.map_cons, List.nodup_cons] at hnd
    have hfresh1 : ∀ q ∈ rest, MASK_POINTER ps q ∉
        (d1.r.filter (fun e => decide (e.p ≠ 0))).map (fun v => MASK_POINTER ps v.p) := by
      intro q hq hmem
      rw [List.Perm.mem_iff (List.Perm.map _ perm1), List.map_cons, List.mem_cons] at hmem
      rcases hmem with hm | hm
      · apply hnd.1
        show MASK_POINTER ps p ∈ rest.map (MASK_POINTER ps)
        rw [← hm]
        exact List.mem_map_of_mem _ hq
      · exact hfresh q (List.mem_cons_of_mem _ hq) hm
    obtain ⟨d2, e1, e2, e3, e4, e5⟩ := ih d1 (n + 1) wf1 hn1 hJ1 (by omega)
      (fun q hq => hk0 q (List.mem_cons_of_mem _ hq)) hnd.2 hfresh1
    have hl : n + (rest.length + 1) = n + 1 + rest.length := by omega
    rw [List.length_cons, hl]
    refine ⟨d2, ?_, e2, e3, e4, fun hr => e5 (dir_reachable.by_insert d d1 p 0 0 true hr hp0
      habs h1)⟩
    rw [insert_pages]
    simp only [h1]
    exact e1

theorem insert_pages_fresh (ps : Nat) (mopts : malloc_readonly) (self flag : Nat)
    (keys : List Nat) (hc : mopts.malloc_canary < 2 ^ 32) (hlen : keys.length ≤ 2 ^ 57)
    (hk0 : ∀ p ∈ keys, p ≠ 0) (hnd : (keys.map (MASK_POINTER ps)).Nodup) :
    ∃ d, insert_pages ps keys (omalloc_poolinit mopts self flag) = some d ∧
      dir_wf ps mopts d ∧ dir_reachable ps mopts d ∧
      d.regions_free + keys.length = d.regions_total ∧
      ((d.regions_total = 0 ∧ keys.length = 0) ∨
        (512 ≤ d.regions_total ∧ d.regions_total ≤ 2 ^ 59 ∧ 1 ≤ keys.length ∧
          4 * (keys.length - 1) ≤ 3 * d.regions_total ∧
          (d.regions_total = 512 ∨ 3 * (d.regions_total / 2) < 4 * (keys.length - 1)))) := by
  obtain ⟨d, h1, h2, h3, h4, h5⟩ := insert_pages_spec ps mopts keys
    (omalloc_poolinit mopts self flag) 0 (poolinit_wf ps mopts self flag hc) rfl
    (Or.inl ⟨rfl, rfl⟩) (by omega) hk0 hnd
    (fun p _ hm => by
      have : (omalloc_poolinit mopts self flag).r = [] := rfl
      rw [this] at hm
      simp at hm)
  rw [Nat.zero_add] at h3 h4
  exact ⟨d, h1, h2, h5 (dir_reachable.initial self flag), h3, h4⟩

theorem page_keys_ok (ps n : Nat) (hps : ps ≤ 64) (hn : (n + 1) * 2 ^ ps ≤ 2 ^ 64) :
    (∀ p ∈ (List.range n).map (fun i => (i + 1) * 2 ^ ps), p ≠ 0) ∧
    (((List.range n).map (fun i => (i + 1) * 2 ^ ps)).map (MASK_POINTER ps)).Nodup := by
  have hpos : 0 < 2 ^ ps := Nat.pow_pos (by norm_num)
  constructor
  · intro p hp
    obtain ⟨i, _, rfl⟩ := List.mem_map.1 hp
    exact Nat.ne_of_gt (Nat.mul_pos (Nat.succ_pos i) hpos)
  · rw [List.map_map]
    apply List.Nodup.map_on _ (List.nodup_range n)
    intro x hx y hy hxy
    rw [List.mem_range] at hx hy
    have hb : ∀ i, i < n → (i + 1) * 2 ^ ps < 2 ^ 64 := by
      intro i hi
      have : (i + 1) * 2 ^ ps < (n + 1) * 2 ^ ps :=
        Nat.mul_lt_mul_of_pos_right (by omega) hpos
      omega
    simp only [Function.comp] at hxy
    rw [MASK_POINTER_eq _ _ hps, MASK_POINTER_eq _ _ hps, Nat.mod_eq_of_lt (hb x hx),
      Nat.mod_eq_of_lt (hb y hy), Nat.mul_div_cancel _ hpos, Nat.mul_div_cancel _ hpos] at hxy
    have := Nat.eq_of_mul_eq_mul_right hpos hxy
    omega

theorem pow2_between (j : Nat) (h1 : 512 ≤ 2 ^ j) (h2 : 2 ^ j < 1024) : 2 ^ j = 512 := by
  have hj9 : 9 ≤ j := by
    by_contra hc
    have : 2 ^ j ≤ 2 ^ 8 := Nat.pow_le_pow_right (by norm_num) (by omega)
    omega
  have hj10 : j < 10 := by
    by_contra hc
    have : 2 ^ 10 ≤ 2 ^ j := Nat.pow_le_pow_right (by norm_num) (by omega)
    omega
  have : j = 9 := by omega
  subst this
  rfl

theorem insert_pages_385 :
    ∃ d, insert_pages 12 ((List.range 385).map (fun i => (i + 1) * 2 ^ 12))
        (omalloc_poolinit (default_mopts 7) 4096 0) = some d ∧
      dir_reachable 12 (default_mopts 7) d ∧ d.regions_total = 512 ∧ d.regions_free = 127 := by
  obtain ⟨hk0, hnd⟩ := page_keys_ok 12 385 (by norm_num) (by norm_num)
  obtain ⟨d, h1, h2, h3, h4, h5⟩ := insert_pages_fresh 12 (default_mopts 7) 4096 0 _
    (by decide) (by simp) hk0 hnd
  have hl : ((List.range 385).map (fun i => (i + 1) * 2 ^ 12)).length = 385 := by simp
  rw [hl] at h4 h5
  obtain ⟨k, hk, ht, _⟩ := dir_wf_pow 12 (default_mopts 7) d h2 (by omega)
  have hT : d.regions_total = 512 := by
    rw [ht]
    apply pow2_between
    · rw [← ht]; omega
    · rw [← ht]; omega
  exact ⟨d, h1, h3, hT, by omega⟩

/-- C22 (counterexample): 385 inserts of the pages `4096, 8192, ...` into the empty
    directory leave a table of 512 slots with 127 of them free: 385 of 512 slots are
    occupied, which is more than 75%. -/
theorem dir_reachable_load_counterexample :
    (insert_pages 12 ((List.range 385).map (fun i => (i + 1) * 2 ^ 12))
        (omalloc_poolinit (default_mopts 7) 4096 0)).map
      (fun d => (d.regions_total, d.regions_free)) = some (512, 127) ∧
    (∀ d, insert_pages 12 ((List.range 385).map (fun i => (i + 1) * 2 ^ 12))
        (omalloc_poolinit (default_mopts 7) 4096 0) = some d →
      dir_reachable 12 (default_mopts 7) d) ∧
    ¬ ((512 - 127) * 4 < 3 * 512) := by
  obtain ⟨d, h1, h2, h3, h4⟩ := insert_pages_385
  refine ⟨by rw [h1, Option.map_some', h3, h4], ?_, by norm_num⟩
  intro d2 hd2
  rw [h1] at hd2
  injection hd2 with hd2
  rw [← hd2]; exact h2

/-- C22 (amended): in every directory reachable from `omalloc_poolinit` by successful
    inserts of non-null keys on pages that have no entry and by deletes of occupied slots,
    `regions_total` is zero (before the first insert) or a power of two that is at least
    `MALLOC_INITIAL_REGIONS`, the table has `regions_total` slots, `regions_free` is the
    number of empty slots, and the occupied slots are at most three quarters of the
    table plus one: `4 * occupied <= 3 * regions_total + 4`. -/
theorem dir_reachable_load (ps : Nat) (mopts : malloc_readonly)
    (hc : mopts.malloc_canary < 2 ^ 32) (d : dir_info) (hr : dir_reachable ps mopts d) :
    (d.regions_total = 0 ∨
      ((∃ k, d.regions_total = 2 ^ k) ∧ MALLOC_INITIAL_REGIONS ≤ d.regions_total)) ∧
    d.r.length = d.regions_total ∧
    d.regions_free = d.r.countP (fun e => decide (e.p = 0)) ∧
    d.r.countP (fun e => decide (e.p ≠ 0)) * 4 ≤ 3 * d.regions_total + 4 := by
  obtain ⟨hwf, hmin, hmax, hload⟩ := reachable_inv ps mopts hc d hr
  have hocc := occ_add_free ps mopts d hwf
  refine ⟨?_, hwf.2.1, hwf.2.2.2.1, by omega⟩
  by_cases h0 : d.regions_total = 0
  · exact Or.inl h0
  · obtain ⟨k, _, hk, _⟩ := dir_wf_pow ps mopts d hwf h0
    exact Or.inr ⟨⟨k, hk⟩, hmin h0⟩

set_option maxRecDepth 1000000 in
/-- C22 (witness): the directory after the insert of the page `0x1000` into the empty
    directory: 512 slots, one of them occupied. -/
theorem dir_reachable_load_witness :
    (default_mopts 7).malloc_canary < 2 ^ 32 ∧
    insert 12 (omalloc_poolinit (default_mopts 7) 4096 0) 0x1000 0 0 true =
      .ok (0, (insert_pages 12 [0x1000] (omalloc_poolinit (default_mopts 7) 4096 0)).getD
        (omalloc_poolinit (default_mopts 7) 4096 0)) ∧
    ((insert_pages 12 [0x1000] (omalloc_poolinit (default_mopts 7) 4096 0)).getD
        (omalloc_poolinit (default_mopts 7) 4096 0)).regions_total = 512 ∧
    ((insert_pages 12 [0x1000] (omalloc_poolinit (default_mopts 7) 4096 0)).getD
        (omalloc_poolinit (default_mopts 7) 4096 0)).r.countP (fun e => decide (e.p ≠ 0)) * 4 ≤
      3 * ((insert_pages 12 [0x1000] (omalloc_poolinit (default_mopts 7) 4096 0)).getD
        (omalloc_poolinit (default_mopts 7) 4096 0)).regions_total + 4 :=
  ⟨by decide, by decide, by decide,
    (dir_reachable_load 12 (default_mopts 7) (by decide) _
      (dir_reachable.by_insert (omalloc_poolinit (default_mopts 7) 4096 0) _ 0x1000 0 0 true
        (dir_reachable.initial 4096 0) (by decide)
        (fun y hy => absurd hy (Nat.not_lt_zero y)) (by decide))).2.2.2⟩

/-- C23 (counterexample): after 385 inserts of distinct pages into the empty directory
    `regions_total` is 512, which is less than `385 / 0.75`. -/
theorem insert_pages_total_counterexample :
    ((List.range 385).map (fun i => (i + 1) * 2 ^ 12)).length = 385 ∧
    (insert_pages 12 ((List.range 385).map (fun i => (i + 1) * 2 ^ 12))
        (omalloc_poolinit (default_mopts 7) 4096 0)).map (fun d => d.regions_total) =
      some 512 ∧
    ¬ (4 * 385 ≤ 3 * 512) := by
  obtain ⟨d, h1, _, h3, _⟩ := insert_pages_385
  exact ⟨by simp, by rw [h1, Option.map_some', h3], by norm_num⟩

/-- C23 (amended): for every list of `k >= 1` non-null keys on distinct pages (and
    `k <= 2^57`), the inserts of these keys into the empty directory, with every table
    allocation succeeding, all return 0, and afterwards `regions_total` is the smallest
    power of two that is at least `MALLOC_INITIAL_REGIONS` and at least
    `(k - 1) / 0.75`, that is with `4 * (k - 1) <= 3 * regions_total`; `k` of its slots
    are occupied. -/
theorem insert_pages_total (ps : Nat) (mopts : malloc_readonly) (self flag : Nat)
    (keys : List Nat) (hc : mopts.malloc_canary < 2 ^ 32) (h1 : 1 ≤ keys.length)
    (hlen : keys.length ≤ 2 ^ 57) (hk0 : ∀ p ∈ keys, p ≠ 0)
    (hnd : (keys.map (MASK_POINTER ps)).Nodup) :
    ∃ d, insert_pages ps keys (omalloc_poolinit mopts self flag) = some d ∧
      (∃ j, d.regions_total = 2 ^ j) ∧
      MALLOC_INITIAL_REGIONS ≤ d.regions_total ∧
      4 * (keys.length - 1) ≤ 3 * d.regions_total ∧
      (∀ j, MALLOC_INITIAL_REGIONS ≤ 2 ^ j → 4 * (keys.length - 1) ≤ 3 * 2 ^ j →
        d.regions_total ≤ 2 ^ j) ∧
      d.regions_free + keys.length = d.regions_total := by
  obtain ⟨d, e1, e2, _, e4, e5⟩ := insert_pages_fresh ps mopts self flag keys hc hlen hk0 hnd
  have hM : MALLOC_INITIAL_REGIONS = 512 := rfl
  rcases e5 with e5 | ⟨m1, m2, m3, m4, m5⟩
  · omega
  · obtain ⟨a, _, ha, _⟩ := dir_wf_pow ps mopts d e2 (by omega)
    refine ⟨d, e1, ⟨a, ha⟩, by rw [hM]; exact m1, m4, ?_, e4⟩
    intro j hj1 hj2
    rw [hM] at hj1
    by_contra hcc
    have hlt : 2 ^ j < 2 ^ a := by rw [← ha]; omega
    have hja : j < a := (Nat.pow_lt_pow_iff_right (by norm_num)).1 hlt
    have hle : 2 ^ j ≤ 2 ^ (a - 1) := Nat.pow_le_pow_right (by norm_num) (by omega)
    have hsplit : 2 ^ a = 2 ^ (a - 1) * 2 := by
      rw [← pow_succ]; congr 1; omega
    rw [ha] at m5 m1
    rcases m5 with m5 | m5
    · omega
    · rw [hsplit, Nat.mul_div_cancel _ (by norm_num : 0 < 2)] at m5
      omega

set_option maxRecDepth 1000000 in
/-- C23 (witness): two inserts into the empty directory. -/
theorem insert_pages_total_witness :
    ((default_mopts 7).malloc_canary < 2 ^ 32 ∧ 1 ≤ [0x1000, 0x2000].length ∧
      [0x1000, 0x2000].length ≤ 2 ^ 57 ∧ (∀ p ∈ [0x1000, 0x2000], p ≠ 0) ∧
      ([0x1000, 0x2000].map (MASK_POINTER 12)).Nodup) ∧
    ∃ d, insert_pages 12 [0x1000, 0x2000] (omalloc_poolinit (default_mopts 7) 4096 0) =
        some d ∧
      (∃ j, d.regions_total = 2 ^ j) ∧
      MALLOC_INITIAL_REGIONS ≤ d.regions_total ∧
      4 * ([0x1000, 0x2000].length - 1) ≤ 3 * d.regions_total ∧
      (∀ j, MALLOC_INITIAL_REGIONS ≤ 2 ^ j → 4 * ([0x1000, 0x2000].length - 1) ≤ 3 * 2 ^ j →
        d.regions_total ≤ 2 ^ j) ∧
      d.regions_free + [0x1000, 0x2000].length = d.regions_total :=
  ⟨by decide,
    insert_pages_total 12 (default_mopts 7) 4096 0 [0x1000, 0x2000] (by decide) (by decide)
      (by decide) (by decide) (by decide)⟩

/-! ## malloc followed by free -/

theorem getrbyte_core :
    keeps core_frame getrbyte := by
  unfold getrbyte
  apply keeps_intro
  intro z s Q h hQ
  repeat' first
    | with_reducible apply wp_ite_i
    | with_reducible apply wp_bind_i
    | with_reducible apply wp_env_next_i
    | with_reducible apply wp_pure_i
    | with_reducible apply wp_get_i
    | with_reducible apply wp_set_i
    | with_reducible apply wp_modify_i
    | with_reducible exact wp_wrterror_i
    | with_reducible exact wp_diverges_i
    | with_reducible exact wp_undefined_i
    | with_reducible apply wp_lift_outcome_i
    | with_reducible assumption
    | with_reducible apply hQ
    | intro _
    | split
    | dsimp only

theorem os_mmap_core {ps sz : Nat} :
    keeps core_frame (os_mmap ps sz) := by
  unfold os_mmap
  apply keeps_intro
  intro z s Q h hQ
  repeat' first
    | with_reducible apply wp_ite_i
    | with_reducible apply wp_bind_i
    | with_reducible apply wp_env_next_i
    | with_reducible apply wp_pure_i
    | with_reducible apply wp_get_i
    | with_reducible apply wp_set_i
    | with_reducible apply wp_modify_i
    | with_reducible exact wp_wrterror_i
    | with_reducible exact wp_diverges_i
    | with_reducible exact wp_undefined_i
    | with_reducible apply wp_lift_outcome_i
    | with_reducible assumption
    | with_reducible apply hQ
    | intro _
    | split
    | dsimp only

theorem os_munmap_core {a sz : Nat} :
    keeps core_frame (os_munmap a sz) := by
  unfold os_munmap
  apply keeps_intro
  intro z s Q h hQ
  repeat' first
    | with_reducible apply wp_ite_i
    | with_reducible apply wp_bind_i
    | with_reducible apply wp_env_next_i
    | with_reducible apply wp_pure_i
    | with_reducible apply wp_get_i
    | with_reducible apply wp_set_i
    | with_reducible apply wp_modify_i
    | with_reducible exact wp_wrterror_i
    | with_reducible exact wp_diverges_i
    | with_reducible exact wp_undefined_i
    | with_reducible apply wp_lift_outcome_i
    | with_reducible assumption
    | with_reducible apply hQ
    | intro _
    | split
    | dsimp only

theorem os_mprotect_core :
    keeps core_frame os_mprotect := by
  unfold os_mprotect
  apply keeps_intro
  intro z s Q h hQ
  repeat' first
    | with_reducible apply wp_ite_i
    | with_reducible apply wp_bind_i
    | with_reducible apply wp_env_next_i
    | with_reducible apply wp_pure_i
    | with_reducible apply wp_get_i
    | with_reducible apply wp_set_i
    | with_reducible apply wp_modify_i
    | with_reducible exact wp_wrterror_i
    | with_reducible exact wp_diverges_i
    | with_reducible exact wp_undefined_i
    | with_reducible apply wp_lift_outcome_i
    | with_reducible assumption
    | with_reducible apply hQ
    | intro _
    | split
    | dsimp only

theorem validate_junk_core {p sz : Nat} :
    keeps core_frame (validate_junk p sz) := by
  unfold validate_junk
  apply keeps_intro
  intro z s Q h hQ
  repeat' first
    | with_reducible apply wp_ite_i
    | with_reducible apply wp_bind_i
    | with_reducible apply wp_env_next_i
    | with_reducible apply wp_pure_i
    | with_reducible apply wp_get_i
    | with_reducible apply wp_set_i
    | with_reducible apply wp_modify_i
    | with_reducible exact wp_wrterror_i
    | with_reducible exact wp_diverges_i
    | with_reducible exact wp_undefined_i
    | with_reducible apply wp_lift_outcome_i
    | with_reducible assumption
    | with_reducible apply hQ
    | intro _
    | split
    | dsimp only

theorem validate_canary_core {p sz allocated : Nat} :
    keeps core_frame (validate_canary p sz allocated) := by
  unfold validate_canary
  apply keeps_intro
  intro z s Q h hQ
  repeat' first
    | with_reducible apply wp_ite_i
    | with_reducible apply wp_bind_i
    | with_reducible apply wp_env_next_i
    | with_reducible apply wp_pure_i
    | with_reducible apply wp_get_i
    | with_reducible apply wp_set_i
    | with_reducible apply wp_modify_i
    | with_reducible exact wp_wrterror_i
    | with_reducible exact wp_diverges_i
    | with_reducible exact wp_undefined_i
    | with_reducible apply wp_lift_outcome_i
    | with_reducible assumption
    | with_reducible apply hQ
    | intro _
    | split
    | dsimp only

theorem unmap_big_core {ps p sz psz : Nat} {mopts : malloc_readonly} :
    keeps core_frame (unmap_big ps mopts p sz psz) := by
  unfold unmap_big
  apply keeps_intro
  intro z s Q h hQ
  repeat' first
    | with_reducible apply wp_ite_i
    | with_reducible apply wp_bind_i
    | with_reducible apply wp_env_next_i
    | with_reducible apply wp_pure_i
    | with_reducible apply wp_get_i
    | with_reducible apply wp_set_i
    | with_reducible apply wp_modify_i
    | with_reducible exact wp_wrterror_i
    | with_reducible exact wp_diverges_i
    | with_reducible exact wp_undefined_i
    | with_reducible apply wp_lift_outcome_i
    | with_reducible apply keeps_wp z getrbyte_core
    | with_reducible apply keeps_wp z validate_junk_core
    | with_reducible apply keeps_wp z os_munmap_core
    | with_reducible apply keeps_wp z os_mprotect_core
    | with_reducible assumption
    | with_reducible apply hQ
    | intro _
    | split
    | dsimp only

theorem unmap_small_core {mopts : malloc_readonly} {p sz psz : Nat} :
    keeps core_frame (unmap_small mopts p sz psz) := by
  unfold unmap_small
  repeat' first
    | with_reducible apply keeps_ite
    | with_reducible apply keeps_bind
    | with_reducible exact keeps_pure
    | with_reducible exact keeps_get
    | with_reducible exact keeps_wrterror
    | with_reducible exact keeps_diverges
    | with_reducible exact keeps_undefined
    | with_reducible exact keeps_lift_outcome
    | with_reducible apply keeps_modify
    | with_reducible exact getrbyte_core
    | with_reducible exact validate_junk_core
    | with_reducible exact os_munmap_core
    | with_reducible assumption
    | intro _
    | split
    | dsimp only

theorem unmap_core {ps p sz clear : Nat} {mopts : malloc_readonly} :
    keeps core_frame (unmap ps mopts p sz clear) := by
  unfold unmap
  repeat' first
    | with_reducible apply keeps_ite
    | with_reducible apply keeps_bind
    | with_reducible exact keeps_pure
    | with_reducible exact keeps_get
    | with_reducible exact keeps_wrterror
    | with_reducible exact keeps_diverges
    | with_reducible exact keeps_undefined
    | with_reducible exact keeps_lift_outcome
    | with_reducible apply keeps_modify
    | with_reducible exact unmap_big_core
    | with_reducible exact unmap_small_core
    | with_reducible exact os_munmap_core
    | with_reducible assumption
    | intro _
    | split
    | dsimp only

theorem map_big_core {mopts : malloc_readonly} {sz psz : Nat} :
    keeps core_frame (map_big mopts sz psz) := by
  unfold map_big
  apply keeps_intro
  intro z s Q h hQ
  repeat' first
    | with_reducible apply wp_ite_i
    | with_reducible apply wp_bind_i
    | with_reducible apply wp_env_next_i
    | with_reducible apply wp_pure_i
    | with_reducible apply wp_get_i
    | with_reducible apply wp_set_i
    | with_reducible apply wp_modify_i
    | with_reducible exact wp_wrterror_i
    | with_reducible exact wp_diverges_i
    | with_reducible exact wp_undefined_i
    | with_reducible apply wp_lift_outcome_i
    | with_reducible apply keeps_wp z getrbyte_core
    | with_reducible apply keeps_wp z validate_junk_core
    | with_reducible assumption
    | with_reducible apply hQ
    | intro _
    | split
    | dsimp only

theorem map_small_core {ps sz psz : Nat} {mopts : malloc_readonly} :
    keeps core_frame (map_small ps mopts sz psz) := by
  unfold map_small
  repeat' first
    | with_reducible apply keeps_ite
    | with_reducible apply keeps_bind
    | with_reducible exact keeps_pure
    | with_reducible exact keeps_get
    | with_reducible exact keeps_wrterror
    | with_reducible exact keeps_diverges
    | with_reducible exact keeps_undefined
    | with_reducible exact keeps_lift_outcome
    | with_reducible apply keeps_modify
    | with_reducible exact getrbyte_core
    | with_reducible exact validate_junk_core
    | with_reducible exact os_mmap_core
    | with_reducible assumption
    | intro _
    | split
    | dsimp only

theorem map_core {ps sz zero_fill : Nat} {mopts : malloc_readonly} :
    keeps core_frame (map ps mopts sz zero_fill) := by
  unfold map
  repeat' first
    | with_reducible apply keeps_ite
    | with_reducible apply keeps_bind
    | with_reducible exact keeps_pure
    | with_reducible exact keeps_get
    | with_reducible exact keeps_wrterror
    | with_reducible exact keeps_diverges
    | with_reducible exact keeps_undefined
    | with_reducible exact keeps_lift_outcome
    | with_reducible apply keeps_modify
    | with_reducible exact map_big_core
    | with_reducible exact map_small_core
    | with_reducible exact os_mmap_core
    | with_reducible assumption
    | intro _
    | split
    | dsimp only

theorem delete_walk_skip (ps k : Nat) (hk : k < 64) (r : List region_info) (j : Nat)
    (hj : j < 2 ^ k) (hje : (slot r j).p = 0)
    (hch : ∀ x < 2 ^ k, (slot r x).p ≠ 0 →
      ¬ bdist (2 ^ k) (hash ps (slot r x).p &&& (2 ^ k - 1)) j <
        bdist (2 ^ k) (hash ps (slot r x).p &&& (2 ^ k - 1)) x) :
    ∀ (fuel i0 : Nat), i0 < 2 ^ k →
      (if i0 = j then 2 ^ k else bdist (2 ^ k) i0 j) ≤ fuel →
      delete_walk ps (2 ^ k - 1) fuel r j i0 = some r := by
  have hn : 0 < 2 ^ k := Nat.pow_pos (by norm_num)
  intro fuel
  induction fuel with
  | zero =>
    intro i0 hi0 hm
    split at hm
    · omega
    · rename_i hne
      have := ring_pos _ _ _ hi0 hj (fun h => hne h.symm)
      omega
  | succ fuel ih =>
    intro i0 hi0 hm
    have hpn : (i0 = 0 ∧ probe_next i0 (2 ^ k - 1) = 2 ^ k - 1) ∨
        (i0 ≠ 0 ∧ probe_next i0 (2 ^ k - 1) = i0 - 1) := by
      rw [probe_next_eq k i0 hk hi0]; split <;> omega
    have hi2 : probe_next i0 (2 ^ k - 1) < 2 ^ k := by omega
    rw [delete_walk]
    simp only []
    generalize probe_next i0 (2 ^ k - 1) = i at hpn hi2 ⊢
    by_cases hemp : (slot r i).p = 0
    · rw [if_pos hemp]
    · rw [if_neg hemp]
      have hij : i ≠ j := by
        intro h; rw [h] at hemp; exact hemp hje
      have hh : hash ps (slot r i).p &&& (2 ^ k - 1) < 2 ^ k := and_mask_lt _ _
      have hnot := hch i hi2 hemp
      generalize hash ps (slot r i).p &&& (2 ^ k - 1) = h at hh hnot ⊢
      have b1 := bdist_cases _ _ _ hh hj
      have b2 := bdist_cases _ _ _ hh hi2
      have hpred : (i ≤ h ∧ h < j) ∨ (h < j ∧ j < i) ∨ (j < i ∧ i ≤ h) := by omega
      rw [if_pos hpred]
      apply ih i hi2
      rw [if_neg hij]
      have b3 := bdist_cases _ _ _ hi2 hj
      split at hm
      · omega
      · have b4 := bdist_cases _ _ _ hi0 hj
        omega

theorem delete_after_store (ps k : Nat) (mopts : malloc_readonly) (d : dir_info)
    (idx key sz f : Nat) (hk : k < 64) (hwf : dir_wf ps mopts d)
    (htot : d.regions_total = 2 ^ k) (hidx : idx < 2 ^ k) (hemp : (slot d.r idx).p = 0) :
    delete ps { d with r := d.r.set idx ⟨key, sz, f⟩,
                       regions_free := sub64 d.regions_free 1 } idx =
      .ok { d with r := d.r.set idx ⟨0, 0, f⟩ } := by
  obtain ⟨hcan, hlen, hp, hfree, hpos, hch, huq⟩ := hwf
  have hn : 0 < 2 ^ k := Nat.pow_pos (by norm_num)
  have hn64 := two_pow_lt_64 k hk
  have hlen2 : d.r.length = 2 ^ k := by rw [hlen, htot]
  have hil : idx < d.r.length := by omega
  have hfp : 0 < d.regions_free := hpos (by omega)
  have hle : d.r.countP (fun v => decide (v.p = 0)) ≤ d.r.length := List.countP_le_length _
  have hf64 : d.regions_free < 2 ^ 64 := by rw [hfree]; omega
  have hback : add64 (sub64 d.regions_free 1) 1 = d.regions_free := by
    rw [sub64_eq _ _ hf64 (by omega), add64_eq _ _ (by omega)]
    omega
  have hr0 : (d.r.set idx ⟨key, sz, f⟩).set idx
      (clear_slot (slot (d.r.set idx ⟨key, sz, f⟩) idx)) = d.r.set idx ⟨0, 0, f⟩ := by
    rw [slot_set, if_pos ⟨rfl, hil⟩, List.set_set]
    rfl
  have hch2 := (chain_ok_pow ps k d.r hk hlen2).1 hch
  have hwalk := delete_walk_skip ps k hk (d.r.set idx ⟨0, 0, f⟩) idx hidx
    (by rw [slot_set, if_pos ⟨rfl, hil⟩])
    (by
      intro x hx hox hlt
      rw [slot_set] at hox hlt
      by_cases hxi : x = idx
      · rw [if_pos ⟨hxi, hil⟩] at hox
        exact hox rfl
      · rw [if_neg (fun h => hxi h.1)] at hox hlt
        exact hch2 x hx hox idx hidx hlt hemp)
    (2 ^ k) idx hidx (by rw [if_pos rfl])
  unfold delete
  simp only []
  rw [htot, if_neg (by rw [two_pow_and_pred k hk]; exact fun h => h rfl),
    dir_mask_eq _ hn hn64, hr0, hwalk]
  simp only [hback]

theorem wp_and {α : Type} {m : Run α} {Q1 Q2 : α → pool_state → Prop} {s : pool_state}
    (h1 : wp m Q1 s) (h2 : wp m Q2 s) : wp m (fun a s' => Q1 a s' ∧ Q2 a s') s := by
  unfold wp at h1 h2 ⊢
  exact fun a s' e => ⟨h1 a s' e, h2 a s' e⟩

theorem core_frame_refl (s : pool_state) : core_frame s s :=
  ⟨rfl, rfl, rfl, rfl, rfl, rfl, rfl, rfl⟩

theorem insert_pool_store {ps : Nat} {mopts : malloc_readonly} {p sz f : Nat}
    {s : pool_state}
    (hroom : ¬ (s.d.regions_free * 4 % 2 ^ 64 < s.d.regions_total ∨ s.d.regions_total = 0)) :
    wp (insert_pool ps mopts p sz f)
      (fun rc s' => rc = 0 ∧ ∃ idx,
        insert_probe s.d.r (dir_mask s.d.regions_total) (dir_mask s.d.regions_total + 1)
          (hash ps p &&& dir_mask s.d.regions_total) = some idx ∧
        s' = { s with d := { s.d with
          r := s.d.r.set idx ⟨p, sz, f⟩
          regions_free := sub64 s.d.regions_free 1 } }) s := by
  unfold insert_pool
  apply wp_bind_i
  apply wp_get_i
  rw [if_neg hroom]
  apply wp_bind_i
  apply wp_pure_i
  rw [if_neg (by simp)]
  apply wp_bind_i
  apply wp_get_i
  dsimp only
  split
  · exact wp_diverges_i
  · rename_i idx hidx
    apply wp_bind_i
    apply wp_set_i
    apply wp_pure_i
    exact ⟨rfl, idx, hidx, rfl⟩

theorem omalloc_large_store {ps : Nat} {mopts : malloc_readonly} {n zero_fill f : Nat}
    (hps : 5 ≤ ps) (hps16 : ps ≤ 16) (hbig : n > MALLOC_MAXCHUNK ps)
    {s : pool_state} (hal : pool_aligned ps s)
    (hroom : ¬ (s.d.regions_free * 4 % 2 ^ 64 < s.d.regions_total ∨ s.d.regions_total = 0)) :
    wp (omalloc ps mopts n zero_fill f)
      (fun a s' => a ≠ 0 → ∃ base idx,
        base % 2 ^ ps = 0 ∧
        n < sub64 (sub64 SIZE_MAX mopts.malloc_guard) (MALLOC_PAGESIZE ps) ∧
        a = (if MALLOC_MOVE_COND ps mopts (add64 n mopts.malloc_guard) then
          MALLOC_MOVE ps mopts base (add64 n mopts.malloc_guard) else base) ∧
        insert_probe s.d.r (dir_mask s.d.regions_total) (dir_mask s.d.regions_total + 1)
          (hash ps base &&& dir_mask s.d.regions_total) = some idx ∧
        core_frame { s with d := { s.d with
          r := s.d.r.set idx ⟨base, add64 n mopts.malloc_guard, f⟩
          regions_free := sub64 s.d.regions_free 1 } } s') s := by
  unfold omalloc
  rw [if_pos hbig]
  apply wp_ite_i
  · intro _
    apply wp_bind_i
    apply wp_modify_i
    apply wp_pure_i
    exact fun h => absurd rfl h
  · intro hlim
    dsimp only
    apply wp_bind_i
    apply wp_mono (wp_and
      (map_al (Q := fun a s' => pool_aligned ps s' ∧ (a = MAP_FAILED ∨ a % 2 ^ ps = 0))
        (by omega) hal (fun a s' h hp => ⟨h, hp⟩))
      (keeps_wp (Q := fun _ s' => core_frame s s') s map_core (core_frame_refl s)
        (fun a s' h => h)))
    rintro base sa ⟨⟨hal1, hp⟩, hca⟩
    apply wp_ite_i
    · intro _
      apply wp_bind_i
      apply wp_modify_i
      apply wp_pure_i
      exact fun h => absurd rfl h
    · intro hne
      have hpa := mmap_ok hp hne
      have hroom1 : ¬ (sa.d.regions_free * 4 % 2 ^ 64 < sa.d.regions_total ∨
          sa.d.regions_total = 0) := by
        rw [hca.1]; exact hroom
      apply wp_bind_i
      apply wp_mono (insert_pool_store hroom1)
      rintro rc sb ⟨hrc, idx, hidx, hsb⟩
      subst hrc
      rw [if_neg (by simp)]
      rw [hca.1] at hidx
      have hcb : core_frame { s with d := { s.d with
          r := s.d.r.set idx ⟨base, add64 n mopts.malloc_guard, f⟩
          regions_free := sub64 s.d.regions_free 1 } } sb := by
        rw [hsb]
        obtain ⟨c1, c2, c3, c4, c5, c6, c7, c8⟩ := hca
        exact ⟨by rw [c1], c2, c3, c4, c5, c6, c7, c8⟩
      have hpost : ∀ a s', a = (if MALLOC_MOVE_COND ps mopts (add64 n mopts.malloc_guard) then
            MALLOC_MOVE ps mopts base (add64 n mopts.malloc_guard) else base) →
          core_frame { s with d := { s.d with
            r := s.d.r.set idx ⟨base, add64 n mopts.malloc_guard, f⟩
            regions_free := sub64 s.d.regions_free 1 } } s' →
          (a ≠ 0 → ∃ base idx,
            base % 2 ^ ps = 0 ∧
            n < sub64 (sub64 SIZE_MAX mopts.malloc_guard) (MALLOC_PAGESIZE ps) ∧
            a = (if MALLOC_MOVE_COND ps mopts (add64 n mopts.malloc_guard) then
              MALLOC_MOVE ps mopts base (add64 n mopts.malloc_guard) else base) ∧
            insert_probe s.d.r (dir_mask s.d.regions_total) (dir_mask s.d.regions_total + 1)
              (hash ps base &&& dir_mask s.d.regions_total) = some idx ∧
            core_frame { s with d := { s.d with
              r := s.d.r.set idx ⟨base, add64 n mopts.malloc_guard, f⟩
              regions_free := sub64 s.d.regions_free 1 } } s') :=
        fun a s' ha hc _ => ⟨base, idx, hpa, Nat.not_le.mp hlim, ha, hidx, hc⟩
      generalize { s with d := { s.d with
          r := s.d.r.set idx ⟨base, add64 n mopts.malloc_guard, f⟩
          regions_free := sub64 s.d.regions_free 1 } } = z at hcb hpost
      clear hsb
      revert hcb
      generalize sb = s0
      intro h
      repeat' first
        | with_reducible apply wp_ite_i
        | with_reducible apply wp_bind_i
        | with_reducible apply wp_pure_i
        | with_reducible exact wp_wrterror_i
        | with_reducible apply keeps_wp z os_mprotect_core
        | with_reducible assumption
        | intro _ s0 h
        | intro _
      all_goals first
        | (rename_i hc hz
           exact hpost _ _ (by rw [if_pos hc]) (by with_reducible assumption) hz)
        | (rename_i hc hz
           exact hpost _ _ (by rw [if_neg hc]) (by with_reducible assumption) hz)

theorem EPILOGUE_core {mopts : malloc_readonly} {saved r : Nat} :
    keeps core_frame (EPILOGUE mopts saved r) := by
  unfold EPILOGUE
  repeat' first
    | with_reducible apply keeps_ite
    | with_reducible apply keeps_bind
    | with_reducible exact keeps_pure
    | with_reducible exact keeps_wrterror
    | with_reducible apply keeps_modify
    | with_reducible assumption
    | intro _
    | split
    | dsimp only

theorem delete_pool_core {ps idx : Nat} {z s : pool_state} {d2 : dir_info}
    (h : core_frame z s) (hdel : delete ps z.d idx = .ok d2) :
    wp (delete_pool ps idx) (fun _ s' => core_frame { z with d := d2 } s') s := by
  unfold delete_pool
  apply wp_bind_i
  apply wp_get_i
  apply wp_bind_i
  apply wp_lift_outcome_i
  intro d hd
  rw [h.1, hdel] at hd
  injection hd with hd
  subst hd
  apply wp_set_i
  obtain ⟨c1, c2, c3, c4, c5, c6, c7, c8⟩ := h
  exact ⟨rfl, c2, c3, c4, c5, c6, c7, c8⟩

theorem ofree_large_delete {ps : Nat} {mopts : malloc_readonly}
    {idx p sz clear argsz : Nat} {z s : pool_state} {d2 : dir_info}
    (h : core_frame z s) (hdel : delete ps z.d idx = .ok d2) :
    wp (ofree_large ps mopts idx p sz clear argsz)
      (fun _ s' => core_frame { z with d := d2 } s') s := by
  have htail : ∀ s0, core_frame z s0 →
      wp (delete_pool ps idx) (fun _ s' => core_frame { z with d := d2 } s') s0 :=
    fun s0 h0 => delete_pool_core h0 hdel
  unfold ofree_large
  repeat' first
    | with_reducible apply wp_ite_i
    | with_reducible exact htail _ (by assumption)
    | with_reducible apply wp_bind_i
    | with_reducible apply wp_get_i
    | with_reducible apply wp_pure_i
    | with_reducible exact wp_wrterror_i
    | with_reducible apply keeps_wp z validate_canary_core
    | with_reducible apply keeps_wp z os_mprotect_core
    | with_reducible apply keeps_wp z unmap_core
    | with_reducible assumption
    | intro _ s h
    | intro _
    | dsimp only

theorem ofree_region {ps : Nat} {mopts : malloc_readonly} {p : Nat} {z s : pool_state}
    {idx base szg f : Nat} {d2 : dir_info}
    (h : core_frame z s) (hfind : find ps mopts z.d p = .ok (some idx))
    (hslot : slot z.d.r idx = ⟨base, szg, f⟩) (htag : base &&& MALLOC_PAGEMASK ps = 0)
    (hszg : szg > MALLOC_MAXCHUNK ps) (hdel : delete ps z.d idx = .ok d2) :
    wp (ofree ps mopts p 0 0 0) (fun _ s' => core_frame { z with d := d2 } s') s := by
  unfold ofree
  apply wp_bind_i
  apply wp_traced
  intro ri sx hrun
  have hf : findpool ps mopts p s = .ok (idx, s) := findpool_run (by rw [h.1]; exact hfind)
  rw [hf] at hrun
  injection hrun with hrun
  injection hrun with h1 h2
  subst h1; subst h2
  apply wp_bind_i
  apply wp_get_i
  have hreal : REALSIZE ps (slot s.d.r idx) = szg := by
    rw [h.1, hslot]
    unfold REALSIZE
    simp only [htag, if_true]
  dsimp only
  rw [hreal, if_neg (by simp)]
  apply wp_bind_i
  apply wp_pure_i
  rw [if_pos hszg]
  exact ofree_large_delete h hdel

theorem core_frame_trans {a b c : pool_state} (h1 : core_frame a b) (h2 : core_frame b c) :
    core_frame a c := by
  obtain ⟨a1, a2, a3, a4, a5, a6, a7, a8⟩ := h1
  obtain ⟨b1, b2, b3, b4, b5, b6, b7, b8⟩ := h2
  exact ⟨b1.trans a1, b2.trans a2, b3.trans a3, b4.trans a4, b5.trans a5, b6.trans a6,
    b7.trans a7, b8.trans a8⟩

theorem malloc_large_store {ps : Nat} {mopts : malloc_readonly} {n caller : Nat}
    (hps : 5 ≤ ps) (hps16 : ps ≤ 16) (hbig : n > MALLOC_MAXCHUNK ps)
    {s : pool_state} (hal : pool_aligned ps s)
    (hroom : ¬ (s.d.regions_free * 4 % 2 ^ 64 < s.d.regions_total ∨ s.d.regions_total = 0)) :
    wp (malloc ps mopts n caller)
      (fun a s' => a ≠ 0 → ∃ base idx,
        base % 2 ^ ps = 0 ∧
        n < sub64 (sub64 SIZE_MAX mopts.malloc_guard) (MALLOC_PAGESIZE ps) ∧
        a = (if MALLOC_MOVE_COND ps mopts (add64 n mopts.malloc_guard) then
          MALLOC_MOVE ps mopts base (add64 n mopts.malloc_guard) else base) ∧
        insert_probe s.d.r (dir_mask s.d.regions_total) (dir_mask s.d.regions_total + 1)
          (hash ps base &&& dir_mask s.d.regions_total) = some idx ∧
        core_frame { s with d := { s.d with
          r := s.d.r.set idx ⟨base, add64 n mopts.malloc_guard, CALLER mopts caller⟩
          regions_free := sub64 s.d.regions_free 1 } } s' ∧
        s'.errno = s.errno) s := by
  unfold malloc
  apply wp_bind_i
  apply wp_get_i
  apply wp_bind_i
  apply wp_mono (omalloc_large_store hps hps16 hbig hal hroom)
  intro r s1 hr
  apply wp_mono (wp_and (EPILOGUE_result (Q := fun a _ => a = r) (fun _ => rfl))
    (wp_and EPILOGUE_errno
      (keeps_wp (Q := fun _ s' => core_frame s1 s') s1 EPILOGUE_core (core_frame_refl s1)
        (fun _ _ h => h))))
  rintro a s2 ⟨ha, ⟨herr, _⟩, hc⟩ ha0
  subst ha
  obtain ⟨base, idx, h1, h2, h3, h4, h5⟩ := hr ha0
  exact ⟨base, idx, h1, h2, h3, h4, core_frame_trans h5 hc, herr ha0⟩

theorem free_region {ps : Nat} {mopts : malloc_readonly} {p : Nat} {z s : pool_state}
    {idx base szg f : Nat} {d2 : dir_info} (hp : p ≠ 0)
    (h : core_frame z s) (hfind : find ps mopts z.d p = .ok (some idx))
    (hslot : slot z.d.r idx = ⟨base, szg, f⟩) (htag : base &&& MALLOC_PAGEMASK ps = 0)
    (hszg : szg > MALLOC_MAXCHUNK ps) (hdel : delete ps z.d idx = .ok d2) :
    wp (free ps mopts p)
      (fun _ s' => core_frame { z with d := d2 } s' ∧ s'.errno = s.errno) s := by
  unfold free
  apply wp_bind_i
  apply wp_get_i
  rw [if_neg hp]
  apply wp_bind_i
  apply wp_mono (ofree_region h hfind hslot htag hszg hdel)
  intro _ s1 h1
  apply wp_modify_i
  obtain ⟨c1, c2, c3, c4, c5, c6, c7, c8⟩ := h1
  exact ⟨⟨c1, c2, c3, c4, c5, c6, c7, c8⟩, rfl⟩

theorem MASK_POINTER_offset (ps base off : Nat) (hps : ps ≤ 64) (hb : base % 2 ^ ps = 0)
    (ho : off < 2 ^ ps) : MASK_POINTER ps (add64 base off) = MASK_POINTER ps base := by
  have hpos : 0 < 2 ^ ps := Nat.pow_pos (by norm_num)
  have e2 : 2 ^ 64 = 2 ^ ps * 2 ^ (64 - ps) := two_pow_dvd_form ps 64 hps
  have hB : base % 2 ^ 64 % 2 ^ ps = 0 := by
    rw [Nat.mod_mod_of_dvd _ ⟨2 ^ (64 - ps), e2⟩]; exact hb
  have hlt := Nat.mod_lt base (by norm_num : 0 < 2 ^ 64)
  rw [MASK_POINTER_eq _ _ hps, MASK_POINTER_eq _ _ hps]
  unfold add64
  have e1 : (base + off) % 2 ^ 64 = (base % 2 ^ 64 + off) % 2 ^ 64 := by omega
  rw [e1]
  generalize base % 2 ^ 64 = B at hB hlt ⊢
  obtain ⟨q, hq⟩ := Nat.dvd_of_mod_eq_zero hB
  have hq2 : q < 2 ^ (64 - ps) := by
    by_contra hc
    have : 2 ^ ps * 2 ^ (64 - ps) ≤ 2 ^ ps * q := Nat.mul_le_mul_left _ (Nat.le_of_not_lt hc)
    omega
  have hlt2 : B + off < 2 ^ 64 := by
    have : 2 ^ ps * (q + 1) ≤ 2 ^ ps * 2 ^ (64 - ps) := Nat.mul_le_mul_left _ hq2
    rw [Nat.mul_add, Nat.mul_one] at this
    omega
  rw [Nat.mod_mod, Nat.mod_eq_of_lt hlt2, hq]
  congr 1
  rw [Nat.mul_add_div hpos, Nat.div_eq_of_lt ho, Nat.add_zero,
    Nat.mul_div_cancel_left _ hpos]

theorem map_set_same (l : List region_info) (i : Nat) (v : region_info)
    (g : region_info → Nat) (h : g v = g (slot l i)) : (l.set i v).map g = l.map g := by
  induction l generalizing i with
  | nil => rfl
  | cons a t ih =>
    cases i with
    | zero =>
      rw [slot_cons_zero] at h
      simp only [List.set_cons_zero, List.map_cons, h]
    | succ i =>
      rw [slot_cons_succ] at h
      simp only [List.set_cons_succ, List.map_cons, ih i h]

set_option maxRecDepth 1000000 in
/-- C21 (counterexample): on a fresh pool every `malloc(100)` followed by `free` leaves
    the pointer in the delayed-free ring and its chunk allocated in the bitmap: after the
    first pair the ring holds `0x13f000` and the chunk page has 35 of 36 chunks free, after
    the second pair the ring also holds `0x13f070` and 34 chunks are free; the first pair
    also took the directory from 0 to 512 slots. -/
theorem malloc_free_restores_counterexample :
    (malloc_init_pool 12 (malloc_init_mopts 12 [] 7 0 0) 0x7000 1 []).d.regions_total = 0 ∧
    returned ((do
        let p ← malloc 12 (malloc_init_mopts 12 [] 7 0 0) 100 0
        free 12 (malloc_init_mopts 12 [] 7 0 0) p
        let a ← get
        let q ← malloc 12 (malloc_init_mopts 12 [] 7 0 0) 100 0
        free 12 (malloc_init_mopts 12 [] 7 0 0) q
        let b ← get
        pure ((p, a.d.regions_total, a.delayed_chunks, (heap_get a 84).free),
          (q, b.d.regions_total, b.delayed_chunks, (heap_get b 84).free)) :
          Run ((Nat × Nat × List Nat × Nat) × (Nat × Nat × List Nat × Nat)))
      { malloc_init_pool 12 (malloc_init_mopts 12 [] 7 0 0) 0x7000 1 [] with
        env := [0, 0, 0x100000, 0x200000, 0x300000, 0, 5, 0, 0, 0, 6] }) =
      some ((0x13f000, 512, [0, 0, 0, 0, 0, 0x13f000, 0, 0, 0, 0, 0, 0, 0, 0, 0, 0], 35),
        (0x13f070, 512, [0, 0, 0, 0, 0, 0x13f000, 0x13f070, 0, 0, 0, 0, 0, 0, 0, 0, 0], 34)) := by
  refine ⟨by decide, ?_⟩
  decide

/-- C21 (amended): for a size above `MALLOC_MAXCHUNK`, in an aligned pool whose
    directory is well-formed and need not grow, when `malloc(n)` returns a non-null
    pointer outside the null page whose page had no entry in the directory, and the
    `free` of that pointer returns, the pool is as before the `malloc` up to the page
    caches, the mapped pages and the random draws: the chunk headers, the chunk lists
    and the delayed-free ring are untouched, `errno` is restored, and the directory is
    the same except that the slot that held the region, empty before and after, has its
    size field zeroed and holds the caller in `f`; the keys of all slots, `regions_total`
    and `regions_free` are the same. -/
theorem malloc_free_restores (ps : Nat) (mopts : malloc_readonly) (n caller p : Nat)
    (s s1 s2 : pool_state) (hps : 5 ≤ ps) (hps16 : ps ≤ 16)
    (hbig : n > MALLOC_MAXCHUNK ps) (hn : n < 2 ^ 64)
    (hg : mopts.malloc_guard = 0 ∨ mopts.malloc_guard = MALLOC_PAGESIZE ps)
    (hwf : dir_wf ps mopts s.d) (hal : pool_aligned ps s)
    (hroom : ¬ (s.d.regions_free * 4 % 2 ^ 64 < s.d.regions_total ∨ s.d.regions_total = 0))
    (hm : malloc ps mopts n caller s = .ok (p, s1)) (hp : p ≠ 0)
    (hpage : MASK_POINTER ps p ≠ 0)
    (hfresh : ∀ y < s.d.regions_total, (slot s.d.r y).p ≠ 0 →
      MASK_POINTER ps (slot s.d.r y).p ≠ MASK_POINTER ps p)
    (hf : free ps mopts p s1 = .ok ((), s2)) :
    (∃ idx, (slot s.d.r idx).p = 0 ∧
      s2.d = { s.d with r := s.d.r.set idx ⟨0, 0, CALLER mopts caller⟩ }) ∧
    s2.d.r.map (fun e => e.p) = s.d.r.map (fun e => e.p) ∧
    s2.d.regions_total = s.d.regions_total ∧ s2.d.regions_free = s.d.regions_free ∧
    s2.heap = s.heap ∧ s2.chunk_info_list = s.chunk_info_list ∧
    s2.chunk_dir = s.chunk_dir ∧ s2.delayed_chunks = s.delayed_chunks ∧
    s2.errno = s.errno := by
  obtain ⟨base, idx, hb, hlim, ha, hidx, hc1, herr1⟩ :=
    wp_run (malloc_large_store hps hps16 hbig hal hroom) hm hp
  have h0 : s.d.regions_total ≠ 0 := fun h => hroom (Or.inr h)
  obtain ⟨k, hk, htot, hlen⟩ := dir_wf_pow ps mopts s.d hwf h0
  obtain ⟨hcan, _, _, hfree, hpos, hch, huq⟩ := hwf
  have hwf0 : dir_wf ps mopts s.d := ⟨hcan, by rw [hlen, htot], Or.inr ⟨k, hk, htot⟩, hfree,
    hpos, hch, huq⟩
  have hn2 : 0 < 2 ^ k := Nat.pow_pos (by norm_num)
  have hmask : dir_mask s.d.regions_total = 2 ^ k - 1 := by
    rw [htot]; exact dir_mask_eq _ hn2 (two_pow_lt_64 k hk)
  rw [hmask] at hidx
  have hfp : 0 < s.d.r.countP (fun v => v.p = 0) := by rw [← hfree]; exact hpos h0
  -- the guard and the sizes
  obtain ⟨hlimeq, hgle, hle⟩ := @limit_eq ps mopts (by omega : ps ≤ 62) hg
  rw [hlimeq] at hlim
  have hP := MALLOC_PAGESIZE_eq ps
  have hadd : add64 n mopts.malloc_guard = n + mopts.malloc_guard := add64_eq _ _ (by omega)
  -- the page of the pointer is the page of the base
  have hmp : MASK_POINTER ps p = MASK_POINTER ps base := by
    rw [ha]
    split
    · rename_i hcond
      rw [MALLOC_MOVE_COND_eq ps mopts n hn] at hcond
      have hnP : n < MALLOC_PAGESIZE ps := by simpa using hcond
      rw [MALLOC_MOVE_eq ps mopts base n (by omega) hnP]
      apply MASK_POINTER_offset ps base _ (by omega) hb
      have hr := (move_range ps 0 n (by omega) (by omega) hnP (by rw [hP]; omega)).2.1
      rw [hP] at hr hnP ⊢
      omega
    · rfl
  have hbase0 : base ≠ 0 := by
    intro h
    rw [hmp, h] at hpage
    exact hpage (by rw [MASK_POINTER_eq _ _ (by omega)]; simp)
  obtain ⟨idx2, j1, j2, j3⟩ := insert_store ps k mopts s.d base
    (add64 n mopts.malloc_guard) (CALLER mopts caller) (by omega) hk hcan hlen htot hfp hbase0
    (by
      intro y hy hoy
      rw [← hmp]
      exact hfresh y (by rw [htot]; exact hy) hoy)
  have e1 : 2 ^ k - 1 + 1 = 2 ^ k - 1 + 1 := rfl
  rw [hidx] at j1
  injection j1 with j1
  subst j1
  obtain ⟨idx3, i1, i2, i3, _⟩ := insert_probe_spec s.d.r k _ hk hlen
    (and_mask_lt (hash ps base) k) hfp
  rw [hidx] at i1
  injection i1 with i1
  subst i1
  have hdel := delete_after_store ps k mopts s.d idx base (add64 n mopts.malloc_guard)
    (CALLER mopts caller) hk hwf0 htot i2 i3
  have htag : base &&& MALLOC_PAGEMASK ps = 0 := by
    rw [MALLOC_PAGEMASK_eq, Nat.and_pow_two_sub_one_eq_mod]; exact hb
  obtain ⟨hc2, herr2⟩ := wp_run
    (free_region (z := { s with d := { s.d with
        r := s.d.r.set idx ⟨base, add64 n mopts.malloc_guard, CALLER mopts caller⟩
        regions_free := sub64 s.d.regions_free 1 } }) hp hc1 (j3 p hmp) j2 htag
      (by rw [hadd]; omega) hdel) hf
  obtain ⟨c1, c2, c3, c4, c5, c6, c7, c8⟩ := hc2
  refine ⟨⟨idx, i3, c1⟩, ?_, by rw [c1], by rw [c1], c3, c4, c5, c6, herr2.trans herr1⟩
  rw [c1]
  exact map_set_same s.d.r idx _ (fun e => e.p) (by show 0 = (slot s.d.r idx).p; rw [i3])

set_option maxRecDepth 1000000 in
/-- C21 (witness): in the pool `example_pool`, whose directory has 8 slots with 5 of
    them free, `malloc(5000)` returns `0x100000` and the `free` of it returns; the
    directory is `example_dir` again and the delayed-free ring is untouched. -/
theorem malloc_free_restores_witness :
    malloc 12 (default_mopts 7) 5000 0 example_pool =
      .ok (0x100000,
        (state_after (malloc 12 (default_mopts 7) 5000 0 example_pool)).getD example_pool) ∧
    free 12 (default_mopts 7) 0x100000
        ((state_after (malloc 12 (default_mopts 7) 5000 0 example_pool)).getD example_pool) =
      .ok ((), (state_after (free 12 (default_mopts 7) 0x100000
        ((state_after (malloc 12 (default_mopts 7) 5000 0 example_pool)).getD
          example_pool))).getD example_pool) ∧
    ((state_after (free 12 (default_mopts 7) 0x100000
        ((state_after (malloc 12 (default_mopts 7) 5000 0 example_pool)).getD
          example_pool))).getD example_pool).d = example_dir ∧
    ((state_after (free 12 (default_mopts 7) 0x100000
        ((state_after (malloc 12 (default_mopts 7) 5000 0 example_pool)).getD
          example_pool))).getD example_pool).delayed_chunks = example_pool.delayed_chunks :=
  ⟨by decide, by decide, by decide,
    (malloc_free_restores 12 (default_mopts 7) 5000 0 0x100000 example_pool
      ((state_after (malloc 12 (default_mopts 7) 5000 0 example_pool)).getD example_pool)
      ((state_after (free 12 (default_mopts 7) 0x100000
        ((state_after (malloc 12 (default_mopts 7) 5000 0 example_pool)).getD
          example_pool))).getD example_pool)
      (by decide) (by decide) (by decide) (by decide) (by decide) example_dir_wf
      (aligned_dir (malloc_init_pool_aligned 12 (default_mopts 7) 4096 1 [] [0x100000])
        (by decide) (by decide))
      (by decide) (by decide) (by decide) (by decide) (by decide)
      (by decide)).2.2.2.2.2.2.2.1⟩

/-! ## findpool over the pools of the process -/

theorem adj_back (e : pool_entry) :
    { adj_active e 1 with active := (adj_active e 1).active - 1 } = e := by
  ext <;> simp [adj_active]

theorem findpool_round (ps : Nat) (mopts : malloc_readonly) (p a N rem i c j : Nat)
    (P : Nat → Option pool_entry) (st : pools_state)
    (hP : ∀ x < N, ∃ e, P x = some e ∧ e.mutex = x) (ha : a < N) (hc : c < N) (hj : j < N)
    (hjc : j ≠ c) (hja : j ≠ a)
    (hjeq : ((a + i) % 2 ^ 32) &&& ((N + 2 ^ 32 - 1) % 2 ^ 32) = j)
    (hinv : st.malloc_pool = handed_over P a c) (hheld : st.held = [c]) :
    ∃ ej ea, P j = some ej ∧ P a = some ea ∧
      findpool_loop ps mopts p a N (rem + 1) i c st =
        (find ps mopts ej.d p).bind (fun r =>
          match r with
          | some ri =>
            .ok (some (ri, ej.func), j,
              { malloc_pool := fun x =>
                  if x = j then some { adj_active ej 1 with func := ea.func }
                  else handed_over P a j x
                held := [j]
                max_held := max st.max_held 1
                examined := st.examined ++ [j] })
          | none =>
            findpool_loop ps mopts p a N rem ((i + 1) % 2 ^ 32) j
              { malloc_pool := handed_over P a j
                held := [j]
                max_held := max st.max_held 1
                examined := st.examined ++ [j] }) := by
  obtain ⟨ej, hej, hmj⟩ := hP j hj
  obtain ⟨ea, hea, hma⟩ := hP a ha
  obtain ⟨ec, hec, hmc⟩ := hP c hc
  refine ⟨ej, ea, hej, hea, ?_⟩
  have h1 : ∃ arg, st.malloc_pool a = some arg ∧ arg.mutex = a ∧ arg.func = ea.func := by
    rw [hinv]
    unfold handed_over
    by_cases hca : c = a
    · simp only [hca, if_true]
      exact ⟨ea, hea, hma, rfl⟩
    · simp only [hca, if_false, Ne.symm hca, if_true, hea, Option.map_some']
      exact ⟨_, rfl, hma, rfl⟩
  have h2 : ∃ cur, st.malloc_pool c = some cur ∧ cur.mutex = c ∧
      (fun x => if x = j then some (adj_active ej 1)
        else if x = c then some { cur with active := cur.active - 1 }
        else st.malloc_pool x) = handed_over P a j := by
    rw [hinv]
    by_cases hca : c = a
    · subst hca
      refine ⟨ea, by unfold handed_over; simp only [if_true]; exact hea, hma, ?_⟩
      funext x
      unfold handed_over
      simp only [hja, if_false, if_true]
      by_cases hxj : x = j
      · simp only [hxj, if_true, hej, Option.map_some']
      · simp only [hxj, if_false]
        by_cases hxc : x = c
        · simp only [hxc, if_true, hea, Option.map_some']
          rfl
        · simp only [hxc, if_false]
    · refine ⟨adj_active ec 1, by
        unfold handed_over
        simp only [hca, if_false, if_true, hec, Option.map_some'], hmc, ?_⟩
      funext x
      unfold handed_over
      simp only [hja, hca, if_false]
      by_cases hxj : x = j
      · simp only [hxj, if_true, hej, Option.map_some']
      · simp only [hxj, if_false]
        by_cases hxc : x = c
        · simp only [hxc, if_true, hca, if_false, adj_back, hec]
        · simp only [hxc, if_false]
  obtain ⟨arg, g1, g2, g3⟩ := h1
  obtain ⟨cur, g4, g5, g6⟩ := h2
  rw [findpool_loop]
  simp only [g1, g4]
  have g7 : st.malloc_pool j = some ej := by
    rw [hinv]
    unfold handed_over
    by_cases hca : c = a
    · simp only [hca, if_true]; exact hej
    · simp only [hca, if_false, hjc, hja]; exact hej
  rw [g2, hjeq]
  simp only [MALLOC_UNLOCK, set_pool, hheld, g5, List.mem_singleton, if_true, ok_bind, hjc,
    if_false, g7, MALLOC_LOCK, List.erase_cons_head, List.not_mem_nil, hmj, find_in,
    List.length_nil, Nat.zero_add]
  simp only [adj_active, hmj, g5] at g6
  simp only [g6]
  have g8 : handed_over P a j a = some (adj_active ea (-1)) := by
    unfold handed_over
    simp only [hja, if_false, Ne.symm hja, if_true, hea, Option.map_some']
  have g9 : handed_over P a j j = some (adj_active ej 1) := by
    unfold handed_over
    simp only [hja, if_false, if_true, hej, Option.map_some']
  cases hfind : find ps mopts ej.d p with
  | ok r =>
    cases r with
    | none => rfl
    | some ri =>
      simp only [ok_bind, g8, g9]
      rfl
  | abort m => rfl
  | diverge => rfl
  | undefined => rfl

theorem pool_at_cases (a N t : Nat) (ha : a < N) (ht : t < N) :
    (a + t < N ∧ pool_at a N t = a + t) ∨ (N ≤ a + t ∧ pool_at a N t = a + t - N) := by
  unfold pool_at
  by_cases h : a + t < N
  · exact Or.inl ⟨h, Nat.mod_eq_of_lt h⟩
  · right
    refine ⟨by omega, ?_⟩
    have e : a + t = (a + t - N) + N := by omega
    rw [e, Nat.add_mod_right, ← e]
    exact Nat.mod_eq_of_lt (by omega)

theorem pool_index_eq (a k i : Nat) (hk : k ≤ 5) (ha : a < 2 ^ k) (hi : i < 2 ^ k) :
    ((a + i) % 2 ^ 32) &&& ((2 ^ k + 2 ^ 32 - 1) % 2 ^ 32) = pool_at a (2 ^ k) i := by
  have hN : 2 ^ k ≤ 2 ^ 5 := Nat.pow_le_pow_right (by norm_num) hk
  have hpos : 0 < 2 ^ k := Nat.pow_pos (by norm_num)
  have e1 : (a + i) % 2 ^ 32 = a + i := Nat.mod_eq_of_lt (by omega)
  have e2 : (2 ^ k + 2 ^ 32 - 1) % 2 ^ 32 = 2 ^ k - 1 := by
    have : 2 ^ k + 2 ^ 32 - 1 = (2 ^ k - 1) + 2 ^ 32 := by omega
    rw [this, Nat.add_mod_right]
    exact Nat.mod_eq_of_lt (by omega)
  rw [e1, e2, Nat.and_pow_two_sub_one_eq_mod]
  rfl

theorem handed_over_self (P : Nat → Option pool_entry) (a : Nat) : handed_over P a a = P := by
  funext x
  unfold handed_over
  simp only [if_true]

theorem find_at_some {ps : Nat} {mopts : malloc_readonly} {P : Nat → Option pool_entry}
    {p x : Nat} {e : pool_entry} (h : P x = some e) :
    find_at ps mopts P p x = find ps mopts e.d p := by
  unfold find_at
  rw [h]

theorem findpool_loop_miss (ps : Nat) (mopts : malloc_readonly) (p a k : Nat)
    (P : Nat → Option pool_entry) (hk : k ≤ 5) (ha : a < 2 ^ k)
    (hP : ∀ x < 2 ^ k, ∃ e, P x = some e ∧ e.mutex = x) :
    ∀ (rem i : Nat) (st : pools_state), 1 ≤ i → i + rem = 2 ^ k →
      st.malloc_pool = handed_over P a (pool_at a (2 ^ k) (i - 1)) →
      st.held = [pool_at a (2 ^ k) (i - 1)] → st.max_held ≤ 1 →
      (∀ t, i ≤ t → t < 2 ^ k → find_at ps mopts P p (pool_at a (2 ^ k) t) = .ok none) →
      ∃ st', findpool_loop ps mopts p a (2 ^ k) rem i (pool_at a (2 ^ k) (i - 1)) st =
          .ok (none, pool_at a (2 ^ k) (2 ^ k - 1), st') ∧
        st'.malloc_pool = handed_over P a (pool_at a (2 ^ k) (2 ^ k - 1)) ∧
        st'.held = [pool_at a (2 ^ k) (2 ^ k - 1)] ∧ st'.max_held ≤ 1 ∧
        st'.examined = st.examined ++ (List.range' i rem).map (pool_at a (2 ^ k)) := by
  have hN : 2 ^ k ≤ 2 ^ 5 := Nat.pow_le_pow_right (by norm_num) hk
  intro rem
  induction rem with
  | zero =>
    intro i st hi hsum hinv hheld hmax _
    have e : i - 1 = 2 ^ k - 1 := by omega
    rw [e] at hinv hheld ⊢
    exact ⟨st, rfl, hinv, hheld, hmax, by simp⟩
  | succ rem ih =>
    intro i st hi hsum hinv hheld hmax hmiss
    have hiN : i < 2 ^ k := by omega
    have c1 := pool_at_cases a (2 ^ k) (i - 1) ha (by omega)
    have c2 := pool_at_cases a (2 ^ k) i ha hiN
    obtain ⟨ej, ea, hej, hea, hround⟩ := findpool_round ps mopts p a (2 ^ k) rem i
      (pool_at a (2 ^ k) (i - 1)) (pool_at a (2 ^ k) i) P st
      (fun x hx => by
        obtain ⟨e, h1, h2⟩ := hP x hx
        exact ⟨e, h1, h2⟩)
      ha (by omega) (by omega) (by omega) (by omega)
      (pool_index_eq a k i hk ha hiN) hinv hheld
    have hm := hmiss i (Nat.le_refl _) hiN
    rw [find_at_some hej] at hm
    rw [hround, hm, ok_bind]
    have e32 : (i + 1) % 2 ^ 32 = i + 1 := Nat.mod_eq_of_lt (by omega)
    simp only [e32]
    obtain ⟨st', h1, h2, h3, h4, h5⟩ := ih (i + 1)
      { malloc_pool := handed_over P a (pool_at a (2 ^ k) i)
        held := [pool_at a (2 ^ k) i]
        max_held := max st.max_held 1
        examined := st.examined ++ [pool_at a (2 ^ k) i] }
      (by omega) (by omega) rfl rfl (by show max st.max_held 1 ≤ 1; omega)
      (fun t ht1 ht2 => hmiss t (by omega) ht2)
    refine ⟨st', h1, h2, h3, h4, ?_⟩
    rw [h5]
    show (st.examined ++ [pool_at a (2 ^ k) i]) ++ _ = _
    rw [List.range'_succ, List.map_cons, List.append_assoc]
    rfl

theorem findpool_loop_hit (ps : Nat) (mopts : malloc_readonly) (p a k : Nat)
    (P : Nat → Option pool_entry) (hk : k ≤ 5) (ha : a < 2 ^ k)
    (hP : ∀ x < 2 ^ k, ∃ e, P x = some e ∧ e.mutex = x)
    (t0 ri : Nat) (e0 ea : pool_entry) (ht0 : t0 < 2 ^ k)
    (he0 : P (pool_at a (2 ^ k) t0) = some e0) (hea : P a = some ea)
    (hhit : find ps mopts e0.d p = .ok (some ri)) :
    ∀ (rem i : Nat) (st : pools_state), 1 ≤ i → i ≤ t0 → i + rem = 2 ^ k →
      st.malloc_pool = handed_over P a (pool_at a (2 ^ k) (i - 1)) →
      st.held = [pool_at a (2 ^ k) (i - 1)] → st.max_held ≤ 1 →
      (∀ t, i ≤ t → t < t0 → find_at ps mopts P p (pool_at a (2 ^ k) t) = .ok none) →
      ∃ st', findpool_loop ps mopts p a (2 ^ k) rem i (pool_at a (2 ^ k) (i - 1)) st =
          .ok (some (ri, e0.func), pool_at a (2 ^ k) t0, st') ∧
        st'.malloc_pool = (fun x =>
          if x = pool_at a (2 ^ k) t0 then some { adj_active e0 1 with func := ea.func }
          else handed_over P a (pool_at a (2 ^ k) t0) x) ∧
        st'.held = [pool_at a (2 ^ k) t0] ∧ st'.max_held ≤ 1 ∧
        st'.examined =
          st.examined ++ (List.range' i (t0 - i + 1)).map (pool_at a (2 ^ k)) := by
  have hN : 2 ^ k ≤ 2 ^ 5 := Nat.pow_le_pow_right (by norm_num) hk
  intro rem
  induction rem with
  | zero =>
    intro i st hi hit0 hsum _ _ _ _
    omega
  | succ rem ih =>
    intro i st hi hit0 hsum hinv hheld hmax hmiss
    have hiN : i < 2 ^ k := by omega
    have c1 := pool_at_cases a (2 ^ k) (i - 1) ha (by omega)
    have c2 := pool_at_cases a (2 ^ k) i ha hiN
    obtain ⟨ej, ea2, hej, hea2, hround⟩ := findpool_round ps mopts p a (2 ^ k) rem i
      (pool_at a (2 ^ k) (i - 1)) (pool_at a (2 ^ k) i) P st
      (fun x hx => by
        obtain ⟨e, h1, h2⟩ := hP x hx
        exact ⟨e, h1, h2⟩)
      ha (by omega) (by omega) (by omega) (by omega)
      (pool_index_eq a k i hk ha hiN) hinv hheld
    rw [hea] at hea2
    injection hea2 with hea2
    subst hea2
    by_cases heq : i = t0
    · subst heq
      rw [he0] at hej
      injection hej with hej
      subst hej
      rw [hround, hhit, ok_bind]
      refine ⟨_, rfl, rfl, rfl, by show max st.max_held 1 ≤ 1; omega, ?_⟩
      show st.examined ++ [pool_at a (2 ^ k) i] = _
      rw [Nat.sub_self, Nat.zero_add]
      rfl
    · have hm := hmiss i (Nat.le_refl _) (by omega)
      rw [find_at_some hej] at hm
      rw [hround, hm, ok_bind]
      have e32 : (i + 1) % 2 ^ 32 = i + 1 := Nat.mod_eq_of_lt (by omega)
      simp only [e32]
      obtain ⟨st', h1, h2, h3, h4, h5⟩ := ih (i + 1)
        { malloc_pool := handed_over P a (pool_at a (2 ^ k) i)
          held := [pool_at a (2 ^ k) i]
          max_held := max st.max_held 1
          examined := st.examined ++ [pool_at a (2 ^ k) i] }
        (by omega) (by omega) (by omega) rfl rfl (by show max st.max_held 1 ≤ 1; omega)
        (fun t ht1 ht2 => hmiss t (by omega) ht2)
      refine ⟨st', h1, h2, h3, h4, ?_⟩
      rw [h5]
      show (st.examined ++ [pool_at a (2 ^ k) i]) ++ _ = _
      have e : t0 - i + 1 = (t0 - (i + 1) + 1) + 1 := by omega
      rw [e, List.range'_succ, List.map_cons, List.append_assoc]
      rfl

theorem first_such (Q : Nat → Prop) :
    ∀ n, (∃ t < n, Q t) → ∃ t0 < n, Q t0 ∧ ∀ t < t0, ¬ Q t := by
  intro n
  induction n with
  | zero =>
    rintro ⟨t, ht, _⟩
    exact absurd ht (Nat.not_lt_zero _)
  | succ n ih =>
    rintro ⟨t, ht, hq⟩
    by_cases h : ∃ t < n, Q t
    · obtain ⟨t0, h1, h2, h3⟩ := ih h
      exact ⟨t0, by omega, h2, h3⟩
    · have htn : t = n := by
        by_contra hc
        exact h ⟨t, by omega, hq⟩
      subst htn
      exact ⟨t, ht, hq, fun t' ht' hq' => h ⟨t', ht', hq'⟩⟩

theorem pool_at_bij (a N : Nat) (ha : a < N) :
    ∀ x < N, ∃ t < N, pool_at a N t = x ∧ ∀ t' < N, pool_at a N t' = x → t' = t := by
  intro x hx
  by_cases h : a ≤ x
  · refine ⟨x - a, by omega, ?_, ?_⟩
    · have := pool_at_cases a N (x - a) ha (by omega)
      omega
    · intro t' ht' he
      have := pool_at_cases a N t' ha ht'
      omega
  · refine ⟨x + N - a, by omega, ?_, ?_⟩
    · have := pool_at_cases a N (x + N - a) ha (by omega)
      omega
    · intro t' ht' he
      have := pool_at_cases a N t' ha ht'
      omega

theorem findpool_mt_here (ps : Nat) (mopts : malloc_readonly) (p a ri : Nat)
    (st : pools_state) (h : find_at ps mopts st.malloc_pool p a = .ok (some ri)) :
    findpool_mt ps mopts p a st =
      .ok ((ri, a, none), { st with examined := st.examined ++ [a] }) := by
  unfold find_at at h
  unfold findpool_mt find_in
  split at h
  · exact Outcome.noConfusion h
  · rename_i e he
    simp only [he, h, ok_bind]

theorem findpool_mt_miss (ps : Nat) (mopts : malloc_readonly) (p a k : Nat)
    (st : pools_state) (p1 : pool_entry)
    (h1 : st.malloc_pool 1 = some p1)
    (hN : (if p1.malloc_mt ≠ 0 then mopts.malloc_mutexes else 2) = 2 ^ k)
    (h : find_at ps mopts st.malloc_pool p a = .ok none) :
    findpool_mt ps mopts p a st =
      (findpool_loop ps mopts p a (2 ^ k) (2 ^ k - 1) 1 a
        { st with examined := st.examined ++ [a] }).bind
        (fun x => match x.1 with
          | none => .abort .bogus_pointer
          | some (ri, saved) => .ok ((ri, x.2.1, some saved), x.2.2)) := by
  unfold find_at at h
  unfold findpool_mt find_in
  split at h
  · exact Outcome.noConfusion h
  · rename_i e he
    simp only [he, h, ok_bind, h1, hN]
    all_goals rfl

theorem range_head (n : Nat) (hn : 0 < n) : List.range n = 0 :: List.range' 1 (n - 1) := by
  obtain ⟨m, rfl⟩ : ∃ m, n = m + 1 := ⟨n - 1, by omega⟩
  rw [List.range_eq_range', List.range'_succ]
  rfl

theorem pool_at_zero (a N : Nat) (ha : a < N) : pool_at a N 0 = a := by
  unfold pool_at
  exact Nat.mod_eq_of_lt ha

theorem findpool_mt_first (ps : Nat) (mopts : malloc_readonly) (p a k : Nat)
    (st : pools_state) (p1 : pool_entry) (hk : k ≤ 5) (ha : a < 2 ^ k)
    (hP : ∀ x < 2 ^ k, ∃ e, st.malloc_pool x = some e ∧ e.mutex = x)
    (h1 : st.malloc_pool 1 = some p1)
    (hN : (if p1.malloc_mt ≠ 0 then mopts.malloc_mutexes else 2) = 2 ^ k)
    (hheld : st.held = [a]) (hmax : st.max_held ≤ 1)
    (t0 ri : Nat) (e0 ea : pool_entry) (ht1 : 1 ≤ t0) (ht0 : t0 < 2 ^ k)
    (he0 : st.malloc_pool (pool_at a (2 ^ k) t0) = some e0) (hea : st.malloc_pool a = some ea)
    (hmiss : ∀ t < t0, find_at ps mopts st.malloc_pool p (pool_at a (2 ^ k) t) = .ok none)
    (hhit : find_at ps mopts st.malloc_pool p (pool_at a (2 ^ k) t0) = .ok (some ri)) :
    ∃ st', findpool_mt ps mopts p a st =
        .ok ((ri, pool_at a (2 ^ k) t0, some e0.func), st') ∧
      st'.malloc_pool = (fun x =>
        if x = pool_at a (2 ^ k) t0 then some { adj_active e0 1 with func := ea.func }
        else handed_over st.malloc_pool a (pool_at a (2 ^ k) t0) x) ∧
      st'.held = [pool_at a (2 ^ k) t0] ∧ st'.max_held ≤ 1 ∧
      st'.examined = st.examined ++ (List.range (t0 + 1)).map (pool_at a (2 ^ k)) := by
  have h0 := hmiss 0 (by omega)
  rw [pool_at_zero a _ ha] at h0
  rw [find_at_some he0] at hhit
  obtain ⟨st', g1, g2, g3, g4, g5⟩ := findpool_loop_hit ps mopts p a k st.malloc_pool hk ha hP
    t0 ri e0 ea ht0 he0 hea hhit (2 ^ k - 1) 1
    { st with examined := st.examined ++ [a] } (Nat.le_refl _) ht1 (by omega)
    (by
      show st.malloc_pool = _
      rw [Nat.sub_self, pool_at_zero a _ ha, handed_over_self])
    (by
      show st.held = _
      rw [Nat.sub_self, pool_at_zero a _ ha]; exact hheld)
    hmax (fun t _ ht => hmiss t ht)
  rw [Nat.sub_self, pool_at_zero a _ ha] at g1
  refine ⟨st', ?_, g2, g3, g4, ?_⟩
  · rw [findpool_mt_miss ps mopts p a k st p1 h1 hN h0, g1]
    rfl
  · rw [g5]
    show (st.examined ++ [a]) ++ _ = _
    have e : t0 - 1 + 1 = t0 := by omega
    rw [e, range_head _ (Nat.succ_pos t0), List.map_cons, pool_at_zero a _ ha,
      List.append_assoc]
    rfl

theorem findpool_mt_none (ps : Nat) (mopts : malloc_readonly) (p a k : Nat)
    (st : pools_state) (p1 : pool_entry) (hk1 : 1 ≤ k) (hk : k ≤ 5) (ha : a < 2 ^ k)
    (hP : ∀ x < 2 ^ k, ∃ e, st.malloc_pool x = some e ∧ e.mutex = x)
    (h1 : st.malloc_pool 1 = some p1)
    (hN : (if p1.malloc_mt ≠ 0 then mopts.malloc_mutexes else 2) = 2 ^ k)
    (hheld : st.held = [a]) (hmax : st.max_held ≤ 1)
    (hmiss : ∀ t < 2 ^ k, find_at ps mopts st.malloc_pool p (pool_at a (2 ^ k) t) = .ok none) :
    findpool_mt ps mopts p a st = .abort .bogus_pointer ∧
    ∃ st', findpool_loop ps mopts p a (2 ^ k) (2 ^ k - 1) 1 a
        { st with examined := st.examined ++ [a] } =
        .ok (none, pool_at a (2 ^ k) (2 ^ k - 1), st') ∧
      st'.held = [pool_at a (2 ^ k) (2 ^ k - 1)] ∧ st'.max_held ≤ 1 ∧
      st'.examined = st.examined ++ (List.range (2 ^ k)).map (pool_at a (2 ^ k)) := by
  have hpos : 0 < 2 ^ k := Nat.pow_pos (by norm_num)
  have h2 : 2 ^ 1 ≤ 2 ^ k := Nat.pow_le_pow_right (by norm_num) hk1
  have h0 := hmiss 0 hpos
  rw [pool_at_zero a _ ha] at h0
  obtain ⟨st', g1, g2, g3, g4, g5⟩ := findpool_loop_miss ps mopts p a k st.malloc_pool hk ha hP
    (2 ^ k - 1) 1 { st with examined := st.examined ++ [a] } (Nat.le_refl _) (by omega)
    (by
      show st.malloc_pool = _
      rw [Nat.sub_self, pool_at_zero a _ ha, handed_over_self])
    (by
      show st.held = _
      rw [Nat.sub_self, pool_at_zero a _ ha]; exact hheld)
    hmax (fun t _ ht => hmiss t ht)
  rw [Nat.sub_self, pool_at_zero a _ ha] at g1
  refine ⟨?_, st', g1, g3, g4, ?_⟩
  · rw [findpool_mt_miss ps mopts p a k st p1 h1 hN h0, g1]
    rfl
  · rw [g5]
    show (st.examined ++ [a]) ++ _ = _
    rw [range_head _ hpos, List.map_cons, pool_at_zero a _ ha, List.append_assoc]
    rfl

/-- C28: for `N = 2 ^ k` pools in use (`N` is `malloc_mutexes` in a multi-threaded
    process and 2 otherwise), each with its index as mutex and a `find` that returns,
    and a thread that holds the mutex of its pool `a` and no other.  The pools
    `(a + t) mod N`, `t = 0 .. N - 1`, are all the pools, each once.  If `find` hits in
    pool `a`, `findpool` returns that slot and touches no other pool.  If the first hit
    in this order is in round `t0 >= 1`, `findpool` returns the slot and the pool
    `(a + t0) mod N` with the `saved_function`, having examined exactly the pools of
    the rounds `0 .. t0`; on return the thread holds the mutex of that pool only, it has
    never held two mutexes, `active` has gone down by one in pool `a` and up by one in
    the pool returned (so only that pool is active when the thread had entered pool `a`
    alone), and the other pools are as they were.  `findpool` aborts with `bogus
    pointer` if and only if `find` misses in every pool, and then the loop has examined
    every pool exactly once. -/
theorem findpool_mt_spec (ps : Nat) (mopts : malloc_readonly) (p a k : Nat)
    (st : pools_state) (p1 : pool_entry) (hk1 : 1 ≤ k) (hk : k ≤ 5) (ha : a < 2 ^ k)
    (hP : ∀ x < 2 ^ k, ∃ e, st.malloc_pool x = some e ∧ e.mutex = x ∧
      ∃ r, find ps mopts e.d p = .ok r)
    (h1 : st.malloc_pool 1 = some p1)
    (hN : (if p1.malloc_mt ≠ 0 then mopts.malloc_mutexes else 2) = 2 ^ k)
    (hheld : st.held = [a]) (hmax : st.max_held ≤ 1) :
    (∀ x < 2 ^ k, ∃ t < 2 ^ k, pool_at a (2 ^ k) t = x ∧
      ∀ t' < 2 ^ k, pool_at a (2 ^ k) t' = x → t' = t) ∧
    (∀ ri, find_at ps mopts st.malloc_pool p a = .ok (some ri) →
      findpool_mt ps mopts p a st =
        .ok ((ri, a, none), { st with examined := st.examined ++ [a] })) ∧
    (∀ t0 ri e0 ea, 1 ≤ t0 → t0 < 2 ^ k →
      st.malloc_pool (pool_at a (2 ^ k) t0) = some e0 → st.malloc_pool a = some ea →
      (∀ t < t0, find_at ps mopts st.malloc_pool p (pool_at a (2 ^ k) t) = .ok none) →
      find_at ps mopts st.malloc_pool p (pool_at a (2 ^ k) t0) = .ok (some ri) →
      ∃ st', findpool_mt ps mopts p a st =
          .ok ((ri, pool_at a (2 ^ k) t0, some e0.func), st') ∧
        st'.malloc_pool = (fun x =>
          if x = pool_at a (2 ^ k) t0 then some { adj_active e0 1 with func := ea.func }
          else handed_over st.malloc_pool a (pool_at a (2 ^ k) t0) x) ∧
        st'.held = [pool_at a (2 ^ k) t0] ∧ st'.max_held ≤ 1 ∧
        st'.examined = st.examined ++ (List.range (t0 + 1)).map (pool_at a (2 ^ k)) ∧
        ((∀ x < 2 ^ k, ∀ e, st.malloc_pool x = some e →
            e.active = if x = a then 1 else 0) →
          ∀ x < 2 ^ k, ∀ e, st'.malloc_pool x = some e →
            e.active = if x = pool_at a (2 ^ k) t0 then 1 else 0)) ∧
    (findpool_mt ps mopts p a st = .abort .bogus_pointer ↔
      ∀ x < 2 ^ k, find_at ps mopts st.malloc_pool p x = .ok none) ∧
    ((∀ x < 2 ^ k, find_at ps mopts st.malloc_pool p x = .ok none) →
      ∃ st', findpool_loop ps mopts p a (2 ^ k) (2 ^ k - 1) 1 a
          { st with examined := st.examined ++ [a] } =
          .ok (none, pool_at a (2 ^ k) (2 ^ k - 1), st') ∧
        st'.held = [pool_at a (2 ^ k) (2 ^ k - 1)] ∧ st'.max_held ≤ 1 ∧
        st'.examined = st.examined ++ (List.range (2 ^ k)).map (pool_at a (2 ^ k))) := by
  have hpos : 0 < 2 ^ k := Nat.pow_pos (by norm_num)
  have hP2 : ∀ x < 2 ^ k, ∃ e, st.malloc_pool x = some e ∧ e.mutex = x := by
    intro x hx
    obtain ⟨e, c1, c2, _⟩ := hP x hx
    exact ⟨e, c1, c2⟩
  have hlt : ∀ t, t < 2 ^ k → pool_at a (2 ^ k) t < 2 ^ k := by
    intro t _
    exact Nat.mod_lt _ hpos
  have hall : (∀ x < 2 ^ k, find_at ps mopts st.malloc_pool p x = .ok none) →
      ∀ t < 2 ^ k, find_at ps mopts st.malloc_pool p (pool_at a (2 ^ k) t) = .ok none :=
    fun h t ht => h _ (hlt t ht)
  refine ⟨pool_at_bij a (2 ^ k) ha, fun ri h => findpool_mt_here ps mopts p a ri st h, ?_, ?_,
    fun h => (findpool_mt_none ps mopts p a k st p1 hk1 hk ha hP2 h1 hN hheld hmax
      (hall h)).2⟩
  · intro t0 ri e0 ea ht1 ht0 he0 hea hmiss hhit
    obtain ⟨st', g1, g2, g3, g4, g5⟩ := findpool_mt_first ps mopts p a k st p1 hk ha hP2 h1 hN
      hheld hmax t0 ri e0 ea ht1 ht0 he0 hea hmiss hhit
    refine ⟨st', g1, g2, g3, g4, g5, ?_⟩
    intro hact x hx e hxe
    have c2 := pool_at_cases a (2 ^ k) t0 ha ht0
    have hja : pool_at a (2 ^ k) t0 ≠ a := by omega
    rw [g2] at hxe
    dsimp only at hxe
    by_cases hxj : x = pool_at a (2 ^ k) t0
    · rw [if_pos hxj] at hxe ⊢
      injection hxe with hxe
      rw [← hxe]
      show e0.active + 1 = 1
      have := hact _ (hlt t0 ht0) e0 he0
      rw [if_neg hja] at this
      omega
    · rw [if_neg hxj] at hxe ⊢
      unfold handed_over at hxe
      rw [if_neg hja, if_neg hxj] at hxe
      by_cases hxa : x = a
      · rw [if_pos hxa] at hxe
        subst hxa
        rw [hea] at hxe
        injection hxe with hxe
        rw [← hxe]
        show ea.active + -1 = 0
        have := hact _ hx ea hea
        rw [if_pos rfl] at this
        omega
      · rw [if_neg hxa] at hxe
        have := hact x hx e hxe
        rw [if_neg hxa] at this
        exact this
  · constructor
    · intro habort
      by_contra hne
      -- some pool has the page: take the first in the order of the rounds
      have hex : ∃ t < 2 ^ k,
          find_at ps mopts st.malloc_pool p (pool_at a (2 ^ k) t) ≠ .ok none := by
        by_contra hc
        apply hne
        intro x hx
        obtain ⟨t, ht, hxt, _⟩ := pool_at_bij a (2 ^ k) ha x hx
        by_contra hq
        exact hc ⟨t, ht, by rw [hxt]; exact hq⟩
      obtain ⟨t0, ht0, hq0, hfirst⟩ := first_such _ _ hex
      obtain ⟨e0, he0, _, r, hr⟩ := hP _ (hlt t0 ht0)
      obtain ⟨ea, hea, _, _⟩ := hP a ha
      have hfa : find_at ps mopts st.malloc_pool p (pool_at a (2 ^ k) t0) = .ok r := by
        rw [find_at_some he0]; exact hr
      cases r with
      | none => exact hq0 hfa
      | some ri =>
        by_cases h0 : t0 = 0
        · subst h0
          rw [pool_at_zero a _ ha] at hfa
          rw [findpool_mt_here ps mopts p a ri st hfa] at habort
          exact Outcome.noConfusion habort
        · obtain ⟨st', g1, _⟩ := findpool_mt_first ps mopts p a k st p1 hk ha hP2 h1 hN
            hheld hmax t0 ri e0 ea (by omega) ht0 he0 hea
            (fun t ht => by
              by_contra hq
              exact hfirst t ht hq)
            hfa
          rw [g1] at habort
          exact Outcome.noConfusion habort
    · intro h
      exact (findpool_mt_none ps mopts p a k st p1 hk1 hk ha hP2 h1 hN hheld hmax (hall h)).1

/-- C28 (witness): a thread in pool 1 of a single-threaded process frees a pointer on the
    page `0x2000`, which is in the directory of pool 0: `findpool` returns the slot 5 of
    pool 0 and the thread holds the mutex 0 only. -/
theorem findpool_mt_spec_witness :
    (1 ≤ 1 ∧ 1 ≤ 5 ∧ 1 < 2 ^ 1 ∧ example_pools.held = [1] ∧ example_pools.max_held ≤ 1 ∧
      find_at 12 (default_mopts 7) example_pools.malloc_pool 0x2000 (pool_at 1 (2 ^ 1) 0) =
        .ok none ∧
      find_at 12 (default_mopts 7) example_pools.malloc_pool 0x2000 (pool_at 1 (2 ^ 1) 1) =
        .ok (some 5)) ∧
    ∃ st', findpool_mt 12 (default_mopts 7) 0x2000 1 example_pools =
        .ok ((5, 0, some 0x500), st') ∧
      st'.held = [0] ∧ st'.max_held ≤ 1 ∧ st'.examined = [1, 0] := by
  refine ⟨by decide, ?_⟩
  obtain ⟨st', g1, _, g3, g4, g5, _⟩ :=
    (findpool_mt_spec 12 (default_mopts 7) 0x2000 1 1 example_pools
      ⟨omalloc_poolinit (default_mopts 7) 8192 0, 1, 0x600, 1, 0⟩
      (by decide) (by decide) (by decide)
      (fun x hx => match x, hx with
        | 0, _ => ⟨⟨example_dir, 0, 0x500, 0, 0⟩, rfl, rfl, some 5, by decide⟩
        | 1, _ => ⟨⟨omalloc_poolinit (default_mopts 7) 8192 0, 1, 0x600, 1, 0⟩, rfl, rfl,
            none, by decide⟩
        | n + 2, h => absurd h (by norm_num))
      rfl (by decide) rfl (by decide)).2.2.1 1 5 ⟨example_dir, 0, 0x500, 0, 0⟩
      ⟨omalloc_poolinit (default_mopts 7) 8192 0, 1, 0x600, 1, 0⟩
      (by decide) (by decide) rfl rfl
      (fun t ht => by
        have : t = 0 := by omega
        subst this
        decide)
      (by decide)
  exact ⟨st', g1, g3, g4, g5⟩

/-! ## Two chunks of one page -/

theorem chunk_of_core {α : Type} {m : Run α} (h : keeps core_frame m) :
    keeps chunk_frame m :=
  keeps_intro fun _ s _ hz hQ =>
    keeps_wp s h (core_frame_refl s) (fun a s' hc =>
      hQ a s' ⟨hc.2.2.1.trans hz.1, hc.2.2.2.1.trans hz.2.1, hc.2.2.2.2.1.trans hz.2.2.1,
        hc.2.2.2.2.2.1.trans hz.2.2.2⟩)

theorem omalloc_grow_pool_cf {ps : Nat} {mopts : malloc_readonly} :
    keeps chunk_frame (omalloc_grow_pool ps mopts) := by
  unfold omalloc_grow_pool
  repeat' first
    | with_reducible apply keeps_ite
    | with_reducible apply keeps_bind
    | with_reducible exact keeps_pure
    | with_reducible exact keeps_get
    | with_reducible exact keeps_wrterror
    | with_reducible exact keeps_diverges
    | with_reducible exact keeps_undefined
    | with_reducible exact keeps_lift_outcome
    | with_reducible apply keeps_modify
    | with_reducible exact chunk_of_core os_mmap_core
    | with_reducible exact chunk_of_core unmap_core
    | with_reducible assumption
    | intro _
    | split
    | dsimp only

theorem insert_pool_cf {ps p sz f : Nat} {mopts : malloc_readonly} :
    keeps chunk_frame (insert_pool ps mopts p sz f) := by
  unfold insert_pool
  apply keeps_intro
  intro z s Q h hQ
  repeat' first
    | with_reducible apply wp_ite_i
    | with_reducible apply wp_bind_i
    | with_reducible apply wp_pure_i
    | with_reducible apply wp_get_i
    | with_reducible apply wp_set_i
    | with_reducible apply wp_modify_i
    | with_reducible exact wp_wrterror_i
    | with_reducible exact wp_diverges_i
    | with_reducible exact wp_undefined_i
    | with_reducible apply wp_lift_outcome_i
    | with_reducible apply keeps_wp z omalloc_grow_pool_cf
    | with_reducible assumption
    | with_reducible apply hQ
    | intro _
    | split
    | dsimp only

theorem fresh_ready (ps b : Nat) (mopts : malloc_readonly) :
    info_ready ps b (fresh_chunk_info ps mopts b) := by
  left
  refine ⟨rfl, ?_⟩
  unfold fresh_chunk_info
  simp only [List.length_replicate]
  omega

theorem alloc_chunk_info_carve_ready {ps b : Nat} {mopts : malloc_readonly} {s : pool_state}
    (hempty : s.chunk_info_list.getD b [] = []) :
    wp (alloc_chunk_info_carve ps mopts b) (fun _ s' =>
      (∀ bp ∈ s'.chunk_info_list.getD b [],
        bp < s'.heap.length ∧ info_ready ps b (heap_get s' bp)) ∧
      s'.chunk_dir = s.chunk_dir ∧ s'.delayed_chunks = s.delayed_chunks ∧ s'.d = s.d) s := by
  unfold alloc_chunk_info_carve
  dsimp only
  apply wp_bind_i
  apply wp_get_i
  apply wp_bind_i
  apply @wp_mono _ _ (fun _ s2 => s2.heap = s.heap ∧ s2.chunk_info_list = s.chunk_info_list ∧
    s2.chunk_dir = s.chunk_dir ∧ s2.delayed_chunks = s.delayed_chunks ∧ s2.d = s.d)
  · apply wp_ite_i
    · intro _
      apply wp_bind_i
      apply keeps_wp s os_mmap_core (core_frame_refl s)
      intro q s1 hc
      apply wp_ite_i
      · intro _
        apply wp_pure_i
        exact ⟨hc.2.2.1, hc.2.2.2.1, hc.2.2.2.2.1, hc.2.2.2.2.2.1, hc.1⟩
      · intro _
        apply wp_bind_i
        apply wp_modify_i
        apply wp_pure_i
        exact ⟨hc.2.2.1, hc.2.2.2.1, hc.2.2.2.2.1, hc.2.2.2.2.2.1, hc.1⟩
    · intro _
      apply wp_pure_i
      exact ⟨rfl, rfl, rfl, rfl, rfl⟩
  · intro hb s2 ⟨h1, h2, h3, h4, h5⟩
    have hemp2 : s2.chunk_info_list.getD b [] = [] := by rw [h2]; exact hempty
    apply wp_ite_i
    · intro _
      apply wp_bind_i
      apply wp_modify_i
      apply wp_pure_i
      refine ⟨?_, h3, h4, h5⟩
      intro bp hbp
      dsimp only at hbp ⊢
      rw [getD_set_if] at hbp
      split at hbp
      · rw [hemp2, List.append_nil, List.mem_reverse] at hbp
        obtain ⟨i, hi, rfl⟩ := List.mem_map.1 hbp
        rw [List.mem_range] at hi
        refine ⟨by rw [List.length_append, List.length_replicate]; omega, ?_⟩
        unfold heap_get
        dsimp only
        rw [List.getD_append_right _ _ _ _ (by omega)]
        rw [show s2.heap.length + i - s2.heap.length = i by omega]
        rw [List.getD_eq_getElem _ _ (by rw [List.length_replicate]; exact hi)]
        rw [List.getElem_replicate]
        exact fresh_ready ps b mopts
      · rw [hemp2] at hbp
        exact absurd hbp (List.not_mem_nil _)
    · intro _
      apply wp_pure_i
      refine ⟨?_, h3, h4, h5⟩
      intro bp hbp
      rw [hemp2] at hbp
      exact absurd hbp (List.not_mem_nil _)

theorem heap_get_of_set (s s' : pool_state) (p : Nat) (ci : chunk_info)
    (h : s'.heap = s.heap.set p ci) (hlt : p < s.heap.length) : heap_get s' p = ci := by
  unfold heap_get
  rw [h, getD_set_self, if_pos hlt]

theorem heap_get_of_heap (s s' : pool_state) (p : Nat) (h : s'.heap = s.heap) :
    heap_get s' p = heap_get s p := by
  unfold heap_get
  rw [h]

theorem alloc_chunk_info_ready {ps b : Nat} {mopts : malloc_readonly} {s : pool_state}
    (hps : 5 ≤ ps) (hps16 : ps ≤ 16) (hb : b ≤ BUCKETS ps)
    (hready : ∀ bp ∈ s.chunk_info_list.getD b [],
      bp < s.heap.length ∧ info_ready ps b (heap_get s bp)) :
    wp (alloc_chunk_info ps mopts b) (fun r s' => ∀ bp, r = some bp →
      bp < s'.heap.length ∧ chunk_wf ps (heap_get s' bp) ∧
      (heap_get s' bp).free = (heap_get s' bp).total ∧ (heap_get s' bp).bucket = b ∧
      s'.chunk_dir = s.chunk_dir.map (fun ls => ls.map (fun l =>
        l.filter (fun x => decide (x ≠ bp)))) ∧
      s'.delayed_chunks = s.delayed_chunks ∧ s'.d = s.d) s := by
  unfold alloc_chunk_info
  apply wp_bind_i
  apply wp_get_i
  apply wp_bind_i
  apply @wp_mono _ _ (fun _ s2 =>
    (∀ bp ∈ s2.chunk_info_list.getD b [],
      bp < s2.heap.length ∧ info_ready ps b (heap_get s2 bp)) ∧
    s2.chunk_dir = s.chunk_dir ∧ s2.delayed_chunks = s.delayed_chunks ∧ s2.d = s.d)
  · apply wp_ite_i
    · intro he
      exact alloc_chunk_info_carve_ready he
    · intro _
      apply wp_pure_i
      exact ⟨hready, rfl, rfl, rfl⟩
  · intro hi s2 ⟨h1, h2, h3, h4⟩
    apply wp_ite_i
    · intro _
      apply wp_bind_i
      apply wp_get_i
      split
      · exact wp_undefined_i
      · rename_i p hp
        have hmem : p ∈ s2.chunk_info_list.getD b [] := by
          unfold LIST_FIRST at hp
          exact List.mem_of_mem_head? (by rw [hp]; exact rfl)
        obtain ⟨hlt, hrdy⟩ := h1 p hmem
        apply wp_bind_i
        unfold LIST_REMOVE
        apply wp_modify_i
        dsimp only
        apply wp_ite_i
        · intro ht
          apply wp_bind_i
          apply wp_modify_i
          apply wp_pure_i
          intro bp hbp
          injection hbp with hbp
          subst hbp
          have hlen : howmany (MALLOC_PAGESIZE ps / B2ALLOC b) MALLOC_BITS ≤
              (heap_get s2 p).bits.length := by
            rcases hrdy with hr | hr
            · exact hr.2
            · obtain ⟨tb1, _, _, _⟩ := total_bounds ps (heap_get s2 p).bucket hps hps16 hr.1.2.1
              rw [← hr.1.2.2.1] at tb1
              have ht2 : (heap_get s2 p).total = 0 := ht
              omega
          obtain ⟨w1, w2, w3, w4, _⟩ :=
            init_chunk_info_spec ps s2.d.canary1 (heap_get s2 p) b hps hps16 hb hlen
          refine ⟨by dsimp only; rw [List.length_set]; exact hlt, ?_, ?_, ?_, ?_, h3, h4⟩
          · unfold heap_get; dsimp only; rw [getD_set_self, if_pos hlt]; exact w1
          · unfold heap_get; dsimp only; rw [getD_set_self, if_pos hlt]
            exact w3.trans w2.symm
          · unfold heap_get; dsimp only; rw [getD_set_self, if_pos hlt]; exact w4
          · exact congrArg _ h2
        · intro ht
          apply wp_bind_i
          apply wp_pure_i
          apply wp_pure_i
          intro bp hbp
          injection hbp with hbp
          subst hbp
          have ht2 : (heap_get s2 p).total ≠ 0 := ht
          rcases hrdy with hr | hr
          · exact absurd hr.1 ht2
          · exact ⟨hlt, hr.1, hr.2.1, hr.2.2, congrArg _ h2, h3, h4⟩
    · intro _
      apply wp_pure_i
      intro bp hbp
      exact Option.noConfusion hbp

theorem getD_map_lists {α : Type} (cd : List (List α)) (f : List α → List α) (b : Nat)
    (hf : f [] = []) : (cd.map f).getD b [] = f (cd.getD b []) := by
  have := List.getD_map (l := cd) (n := b) (d := []) f
  rw [hf] at this
  exact this

theorem chunk_dir_shape (cd : List (List (List Nat))) (bp b : Nat) :
    (cd.map (fun ls => ls.map (fun l => l.filter (fun x => decide (x ≠ bp))))).length =
      cd.length ∧
    ((cd.map (fun ls => ls.map (fun l => l.filter (fun x => decide (x ≠ bp))))).getD b
      []).length = (cd.getD b []).length := by
  refine ⟨List.length_map _ _, ?_⟩
  rw [getD_map_lists cd _ b rfl, List.length_map]

theorem omalloc_make_chunks_listed {ps b l : Nat} {mopts : malloc_readonly} {s : pool_state}
    (hps : 5 ≤ ps) (hps16 : ps ≤ 16) (hb : b ≤ BUCKETS ps)
    (hready : ∀ bp ∈ s.chunk_info_list.getD b [],
      bp < s.heap.length ∧ info_ready ps b (heap_get s bp))
    (hb1 : b < s.chunk_dir.length) (hl : l < (s.chunk_dir.getD b []).length) :
    wp (omalloc_make_chunks ps mopts b l) (fun r s' => ∀ bp, r = some bp →
      LIST_FIRST ((s'.chunk_dir.getD b []).getD l []) = some bp ∧
      bp < s'.heap.length ∧ chunk_wf ps (heap_get s' bp) ∧
      (heap_get s' bp).free = (heap_get s' bp).total ∧ (heap_get s' bp).bucket = b ∧
      s'.delayed_chunks = s.delayed_chunks) s := by
  unfold omalloc_make_chunks
  apply wp_bind_i
  apply keeps_wp s (chunk_of_core map_core) ⟨rfl, rfl, rfl, rfl⟩
  intro pp s1 hc1
  apply wp_ite_i
  · intro _
    apply wp_pure_i
    intro bp hbp
    exact Option.noConfusion hbp
  intro _
  apply wp_bind_i
  apply @wp_mono _ _ (fun _ s2 => chunk_frame s s2)
  · apply wp_ite_i
    · intro _
      exact keeps_wp s (chunk_of_core os_mprotect_core) hc1 (fun _ _ h => h)
    · intro _
      apply wp_pure_i
      exact hc1
  intro prot s2 hc2
  apply wp_ite_i
  · intro _
    apply wp_bind_i
    apply wp_any
    intro _ _
    apply wp_pure_i
    intro bp hbp
    exact Option.noConfusion hbp
  intro _
  apply wp_bind_i
  have hready2 : ∀ bp ∈ s2.chunk_info_list.getD b [],
      bp < s2.heap.length ∧ info_ready ps b (heap_get s2 bp) := by
    intro bp hbp
    rw [hc2.2.1] at hbp
    have := hready bp hbp
    rw [hc2.1, heap_get_of_heap s s2 bp hc2.1]
    exact this
  apply wp_mono (alloc_chunk_info_ready hps hps16 hb hready2)
  intro r s3 h3
  split
  · apply wp_bind_i
    apply wp_any
    intro _ _
    apply wp_pure_i
    intro bp hbp
    exact Option.noConfusion hbp
  rename_i bp
  obtain ⟨hlt, hwf, hfree, hbk, hcd, hring, hd⟩ := h3 bp rfl
  apply wp_bind_i
  apply wp_modify_i
  apply wp_bind_i
  apply keeps_wp _ insert_pool_cf ⟨rfl, rfl, rfl, rfl⟩
  intro rc s5 hc5
  apply wp_ite_i
  · intro _
    apply wp_bind_i
    apply wp_any
    intro _ _
    apply wp_pure_i
    intro bp hbp
    exact Option.noConfusion hbp
  intro _
  apply wp_bind_i
  unfold LIST_INSERT_HEAD_dir
  apply wp_modify_i
  apply wp_pure_i
  intro bp2 hbp2
  injection hbp2 with hbp2
  subst hbp2
  obtain ⟨c1, c2, c3, c4⟩ := hc5
  dsimp only at c1 c2 c3 c4
  have hsh := chunk_dir_shape s2.chunk_dir bp b
  rw [← hcd, hc2.2.2.1] at hsh
  have hg : heap_get s5 bp = { heap_get s3 bp with page := pp } := by
    unfold heap_get
    rw [c1, getD_set_self, if_pos hlt]
    rfl
  refine ⟨?_, ?_, ?_, ?_, ?_, ?_⟩
  · dsimp only
    rw [getD_set_self, if_pos (by rw [c3, hsh.1]; exact hb1), getD_set_self,
      if_pos (by rw [c3, hsh.2]; exact hl)]
    rfl
  · dsimp only
    rw [c1, List.length_set]
    exact hlt
  · show chunk_wf ps (heap_get s5 bp)
    rw [hg]
    exact hwf
  · show (heap_get s5 bp).free = (heap_get s5 bp).total
    rw [hg]
    exact hfree
  · show (heap_get s5 bp).bucket = b
    rw [hg]
    exact hbk
  · dsimp only
    rw [c4, hring, hc2.2.2.2]

theorem wp_getrbyte_i {Q : Nat → pool_state → Prop} {s : pool_state}
    (h : Q (s.env.headD 0 % 256) { s with env := s.env.tail }) : wp getrbyte Q s := by
  unfold getrbyte
  apply wp_bind_i
  apply wp_env_next_i
  apply wp_pure_i
  exact h

theorem malloc_bytes_listed {ps size f bp : Nat} {mopts : malloc_readonly} {s : pool_state}
    (hps : 5 ≤ ps) (hps16 : ps ≤ 16)
    (hfirst : LIST_FIRST ((s.chunk_dir.getD (find_bucket mopts size) []).getD
      (drawn_list s.env) []) = some bp)
    (hwf : chunk_wf ps (heap_get s bp)) (hfree : 0 < (heap_get s bp).free) :
    wp (malloc_bytes ps mopts size f) (fun a _ => ∃ k, k < (heap_get s bp).total ∧
      chunk_bit (heap_get s bp).bits k = true ∧
      a = add64 (heap_get s bp).page ((k * B2ALLOC (heap_get s bp).bucket) % 2 ^ 64)) s := by
  unfold malloc_bytes
  apply wp_bind_i
  apply wp_get_i
  apply wp_ite_i
  · intro _; exact wp_wrterror_i
  intro _
  dsimp only
  apply wp_bind_i
  apply wp_getrbyte_i
  apply wp_bind_i
  apply wp_getrbyte_i
  apply wp_bind_i
  apply wp_get_i
  apply wp_bind_i
  apply @wp_mono _ _ (fun made s2 => made = some bp ∧ heap_get s2 bp = heap_get s bp)
  · split
    · rename_i bp2 hx
      apply wp_pure_i
      have h2 : some bp2 = some bp :=
        (show LIST_FIRST ((s.chunk_dir.getD (find_bucket mopts size) []).getD
          (drawn_list s.env) []) = some bp2 from hx).symm.trans hfirst
      exact ⟨h2, rfl⟩
    · rename_i hx
      have h2 := (show LIST_FIRST ((s.chunk_dir.getD (find_bucket mopts size) []).getD
          (drawn_list s.env) []) = none from hx).symm.trans hfirst
      exact Option.noConfusion h2
  intro made s2 ⟨hm, hh⟩
  subst hm
  dsimp only
  apply wp_bind_i
  apply wp_get_i
  rw [hh]
  apply wp_ite_i
  · intro _; exact wp_wrterror_i
  intro _
  split
  · rename_i hx
    obtain ⟨ci, k, htake, _⟩ := malloc_bytes_take_spec ps mopts (heap_get s bp) _ size
      hps hps16 hwf hfree
    rw [hx] at htake
    exact Option.noConfusion htake
  · rename_i ci k hx
    obtain ⟨ci2, k2, htake, hk, hbit, _⟩ := malloc_bytes_take_spec ps mopts (heap_get s bp) _ size
      hps hps16 hwf hfree
    rw [hx] at htake
    injection htake with htake
    injection htake with _ hkk
    subst hkk
    repeat' first
      | with_reducible apply wp_ite_i
      | with_reducible apply wp_bind_i
      | with_reducible apply wp_pure_i
      | with_reducible exact wp_wrterror_i
      | with_reducible exact wp_undefined_i
      | with_reducible exact wp_diverges_i
      | intro _
      | split
      | (apply wp_any; intro _ _)
    all_goals exact ⟨k, hk, hbit, rfl⟩

theorem malloc_bytes_tail {bp p b sz : Nat} {ci : chunk_info} {s : pool_state}
    (hlt : bp < s.heap.length) (hfree : ci.free ≠ 0) :
    wp (do
        modify (fun s => { s with heap := s.heap.set bp ci })
        if ci.free = 0 then LIST_REMOVE bp
        if b > 0 then validate_junk p sz
        pure p : Run Nat)
      (fun a s' => a = p ∧ heap_get s' bp = ci ∧ s'.chunk_dir = s.chunk_dir ∧
        s'.delayed_chunks = s.delayed_chunks) s := by
  apply wp_bind_i
  apply wp_modify_i
  rw [if_neg hfree]
  apply wp_bind_i
  apply wp_pure_i
  have hg : heap_get { s with heap := s.heap.set bp ci } bp = ci := by
    unfold heap_get
    dsimp only
    rw [getD_set_self, if_pos hlt]
  apply wp_ite_i
  · intro _
    apply wp_bind_i
    apply keeps_wp _ (chunk_of_core validate_junk_core) ⟨rfl, rfl, rfl, rfl⟩
    intro _ s2 hc
    apply wp_pure_i
    refine ⟨rfl, ?_, hc.2.2.1, hc.2.2.2⟩
    rw [heap_get_of_heap _ s2 bp hc.1]
    exact hg
  · intro _
    apply wp_bind_i
    apply wp_pure_i
    apply wp_pure_i
    exact ⟨rfl, hg, rfl, rfl⟩

theorem drawn_list_lt (env : List Nat) : drawn_list env < MALLOC_CHUNK_LISTS :=
  Nat.mod_lt _ (by decide)

theorem malloc_bytes_made {ps size f : Nat} {mopts : malloc_readonly} {s : pool_state}
    (hps : 5 ≤ ps) (hps16 : ps ≤ 16) (hb : find_bucket mopts size ≤ BUCKETS ps)
    (hready : ∀ bp ∈ s.chunk_info_list.getD (find_bucket mopts size) [],
      bp < s.heap.length ∧ info_ready ps (find_bucket mopts size) (heap_get s bp))
    (hb1 : find_bucket mopts size < s.chunk_dir.length)
    (hl : (s.chunk_dir.getD (find_bucket mopts size) []).length = MALLOC_CHUNK_LISTS)
    (hempty : (s.chunk_dir.getD (find_bucket mopts size) []).getD (drawn_list s.env) [] = []) :
    wp (malloc_bytes ps mopts size f) (fun a s' => a ≠ 0 → ∃ bp k,
      LIST_FIRST ((s'.chunk_dir.getD (find_bucket mopts size) []).getD
        (drawn_list s.env) []) = some bp ∧
      chunk_wf ps (heap_get s' bp) ∧ 0 < (heap_get s' bp).free ∧
      k < (heap_get s' bp).total ∧ chunk_bit (heap_get s' bp).bits k = false ∧
      (heap_get s' bp).bucket = find_bucket mopts size ∧
      a = add64 (heap_get s' bp).page ((k * B2ALLOC (heap_get s' bp).bucket) % 2 ^ 64) ∧
      s'.delayed_chunks = s.delayed_chunks) s := by
  unfold malloc_bytes
  apply wp_bind_i
  apply wp_get_i
  apply wp_ite_i
  · intro _; exact wp_wrterror_i
  intro _
  dsimp only
  apply wp_bind_i
  apply wp_getrbyte_i
  apply wp_bind_i
  apply wp_getrbyte_i
  apply wp_bind_i
  apply wp_get_i
  apply wp_bind_i
  apply @wp_mono _ _ (fun made s2 => ∀ bp, made = some bp →
      LIST_FIRST ((s2.chunk_dir.getD (find_bucket mopts size) []).getD
        (drawn_list s.env) []) = some bp ∧
      bp < s2.heap.length ∧ chunk_wf ps (heap_get s2 bp) ∧
      (heap_get s2 bp).free = (heap_get s2 bp).total ∧
      (heap_get s2 bp).bucket = find_bucket mopts size ∧
      s2.delayed_chunks = s.delayed_chunks)
  · split
    · rename_i bp2 hx
      have h2 := (show LIST_FIRST ((s.chunk_dir.getD (find_bucket mopts size) []).getD
          (drawn_list s.env) []) = some bp2 from hx)
      rw [hempty] at h2
      exact Option.noConfusion h2
    · exact @omalloc_make_chunks_listed ps _ (drawn_list s.env) mopts
        { s with env := s.env.tail.tail } hps hps16 hb hready hb1
        (hl.symm ▸ drawn_list_lt s.env)
  intro made s2 hmade
  split
  · apply wp_pure_i
    intro h0
    exact absurd rfl h0
  rename_i bp
  obtain ⟨hfirst, hlt, hwf, hfree, hbk, hring⟩ := hmade bp rfl
  obtain ⟨tb1, _, _, _⟩ := total_bounds ps (heap_get s2 bp).bucket hps hps16 hwf.2.1
  rw [← hwf.2.2.1] at tb1
  apply wp_bind_i
  apply wp_get_i
  apply wp_ite_i
  · intro _; exact wp_wrterror_i
  intro _
  split
  · exact wp_diverges_i
  rename_i ci k hx
  obtain ⟨ci2, k2, htake, hk, _, hbit, _, hf1, ht1, hb2, hp1, hwf1⟩ :=
    malloc_bytes_take_spec ps mopts (heap_get s2 bp) _ size hps hps16 hwf (by omega)
  rw [hx] at htake
  injection htake with htake
  injection htake with hcc hkk
  subst hkk
  subst hcc
  have hfin : ∀ (s4 : pool_state), s4.heap = s2.heap → s4.chunk_dir = s2.chunk_dir →
      s4.delayed_chunks = s2.delayed_chunks →
      wp (do
        modify (fun s => { s with heap := s.heap.set bp ci })
        if ci.free = 0 then LIST_REMOVE bp
        if (heap_get s2 bp).bucket > 0 then
          validate_junk (add64 (heap_get s2 bp).page
            ((k * B2ALLOC (heap_get s2 bp).bucket) % 2 ^ 64)) (B2SIZE (heap_get s2 bp).bucket)
        pure (add64 (heap_get s2 bp).page
            ((k * B2ALLOC (heap_get s2 bp).bucket) % 2 ^ 64)) : Run Nat)
        (fun a s' => a ≠ 0 → ∃ bp k,
          LIST_FIRST ((s'.chunk_dir.getD (find_bucket mopts size) []).getD
            (drawn_list s.env) []) = some bp ∧
          chunk_wf ps (heap_get s' bp) ∧ 0 < (heap_get s' bp).free ∧
          k < (heap_get s' bp).total ∧ chunk_bit (heap_get s' bp).bits k = false ∧
          (heap_get s' bp).bucket = find_bucket mopts size ∧
          a = add64 (heap_get s' bp).page ((k * B2ALLOC (heap_get s' bp).bucket) % 2 ^ 64) ∧
          s'.delayed_chunks = s.delayed_chunks) s4 := by
    intro s4 e1 e2 e3
    apply wp_mono (malloc_bytes_tail (by rw [e1]; exact hlt) (by omega))
    intro a s' ⟨ha, hg, hcd, hr⟩ _
    refine ⟨bp, k, ?_, ?_, ?_, ?_, ?_, ?_, ?_, ?_⟩
    · rw [hcd, e2]; exact hfirst
    · rw [hg]; exact hwf1
    · rw [hg]; omega
    · rw [hg, ht1]; exact hk
    · rw [hg]; exact hbit
    · rw [hg, hb2]; exact hbk
    · rw [hg, hp1, hb2]; exact ha
    · rw [hr, e3]; exact hring
  apply wp_ite_i
  · intro _
    apply wp_bind_i
    apply wp_lift_outcome_i
    intro ri _
    split
    · apply wp_bind_i
      exact wp_undefined_i
    · apply wp_bind_i
      unfold STATS_SETF
      apply wp_modify_i
      exact hfin _ rfl rfl rfl
  · intro _
    apply wp_bind_i
    apply wp_pure_i
    exact hfin _ rfl rfl rfl

theorem delete_pool_cf {ps ri : Nat} : keeps chunk_frame (delete_pool ps ri) := by
  unfold delete_pool
  apply keeps_intro
  intro z s Q h hQ
  repeat' first
    | with_reducible apply wp_bind_i
    | with_reducible apply wp_get_i
    | with_reducible apply wp_set_i
    | with_reducible apply wp_lift_outcome_i
    | with_reducible assumption
    | with_reducible apply hQ
    | intro _

theorem findpool_cf {ps p : Nat} {mopts : malloc_readonly} :
    keeps chunk_frame (findpool ps mopts p) := by
  unfold findpool
  repeat' first
    | with_reducible apply keeps_ite
    | with_reducible apply keeps_bind
    | with_reducible exact keeps_pure
    | with_reducible exact keeps_get
    | with_reducible exact keeps_wrterror
    | with_reducible exact keeps_lift_outcome
    | intro _
    | split

theorem find_chunknum_check_cf {ps ptr check : Nat} {info : chunk_info} :
    keeps chunk_frame (find_chunknum_check ps info ptr check) := by
  unfold find_chunknum_check
  repeat' first
    | with_reducible apply keeps_ite
    | with_reducible apply keeps_bind
    | with_reducible exact keeps_pure
    | with_reducible exact keeps_get
    | with_reducible exact keeps_wrterror
    | with_reducible exact keeps_lift_outcome
    | with_reducible exact chunk_of_core validate_canary_core
    | intro _
    | split

theorem ofree_freecheck_cf {ps : Nat} {mopts : malloc_readonly} {p : Nat} {l : List Nat} :
    keeps chunk_frame (ofree_freecheck ps mopts p l) := by
  induction l with
  | nil =>
    unfold ofree_freecheck
    exact keeps_pure
  | cons tmp rest ih =>
    unfold ofree_freecheck
    repeat' first
      | with_reducible apply keeps_ite
      | with_reducible apply keeps_bind
      | with_reducible exact keeps_pure
      | with_reducible exact keeps_get
      | with_reducible exact keeps_wrterror
      | with_reducible exact keeps_lift_outcome
      | with_reducible exact chunk_of_core validate_junk_core
      | with_reducible exact ih
      | intro _
      | split

theorem ofree_large_cf {ps ri p sz clear argsz : Nat} {mopts : malloc_readonly} :
    keeps chunk_frame (ofree_large ps mopts ri p sz clear argsz) := by
  unfold ofree_large
  repeat' first
    | with_reducible apply keeps_ite
    | with_reducible apply keeps_bind
    | with_reducible exact keeps_pure
    | with_reducible exact keeps_get
    | with_reducible exact keeps_wrterror
    | with_reducible exact keeps_lift_outcome
    | with_reducible exact chunk_of_core validate_canary_core
    | with_reducible exact chunk_of_core os_mprotect_core
    | with_reducible exact chunk_of_core unmap_core
    | with_reducible exact delete_pool_cf
    | intro _
    | split
    | dsimp only

theorem ofree_chunk_empty_ring {ps ri p sz : Nat} {mopts : malloc_readonly} {z s : pool_state}
    (hz : chunk_frame z s) (hring : ∀ i, z.delayed_chunks.getD i 0 = 0) :
    wp (ofree_chunk ps mopts ri p sz)
      (fun _ s' => s'.heap = z.heap ∧ s'.chunk_dir = z.chunk_dir) s := by
  unfold ofree_chunk
  apply wp_bind_i
  apply wp_get_i
  apply wp_ite_i
  · intro _; exact wp_wrterror_i
  intro _
  apply wp_bind_i
  apply keeps_wp z find_chunknum_check_cf hz
  intro _ s1 h1
  dsimp only
  apply wp_ite_i
  on_goal 1 =>
    intro _
    apply wp_bind_i
    apply keeps_wp z ofree_freecheck_cf h1
    intro _ s2 h2
  on_goal 2 =>
    intro _
    apply wp_bind_i
    apply wp_pure_i
    have h2 := h1
  all_goals
    apply wp_bind_i
    apply keeps_wp z (chunk_of_core getrbyte_core) h2
    intro x s3 h3
    have h0 : s.delayed_chunks.getD (x &&& MALLOC_DELAYED_CHUNK_MASK) 0 = 0 := by
      rw [hz.2.2.2]; exact hring _
    rw [h0]
    apply wp_ite_i
    · intro _; exact wp_wrterror_i
    intro _
    apply wp_bind_i
    apply wp_modify_i
    rw [if_neg (fun h => h rfl)]
    apply wp_pure_i
    exact ⟨h3.1, h3.2.2.1⟩

theorem free_empty_ring {ps p : Nat} {mopts : malloc_readonly} {s : pool_state}
    (hring : ∀ i, s.delayed_chunks.getD i 0 = 0) :
    wp (free ps mopts p) (fun _ s' => s'.heap = s.heap ∧ s'.chunk_dir = s.chunk_dir) s := by
  unfold free
  apply wp_bind_i
  apply wp_get_i
  apply wp_ite_i
  · intro _
    apply wp_pure_i
    exact ⟨rfl, rfl⟩
  intro _
  apply wp_bind_i
  apply @wp_mono _ _ (fun _ s' => s'.heap = s.heap ∧ s'.chunk_dir = s.chunk_dir)
  · unfold ofree
    apply wp_bind_i
    apply keeps_wp s findpool_cf ⟨rfl, rfl, rfl, rfl⟩
    intro ri s1 h1
    apply wp_bind_i
    apply wp_get_i
    dsimp only
    apply wp_bind_i
    apply wp_pure_i
    apply wp_ite_i
    · intro _
      exact keeps_wp s ofree_large_cf h1 (fun _ _ h => ⟨h.1, h.2.2.1⟩)
    · intro _
      exact ofree_chunk_empty_ring h1 hring
  intro _ s2 h2
  apply wp_modify_i
  exact h2

theorem find_bucket_17 (mopts : malloc_readonly) : find_bucket mopts 17 = 2 := by
  unfold find_bucket
  by_cases h : mopts.def_maxcache = 0
  · simp [h]; decide
  · simp [h]; decide

theorem malloc_chunk {ps size caller : Nat} {mopts : malloc_readonly} {s : pool_state}
    {Q : Nat → pool_state → Prop} (hsz : size ≤ MALLOC_MAXCHUNK ps)
    (hQ : ∀ a s' e, Q a s' → Q a { s' with errno := e })
    (h : wp (malloc_bytes ps mopts size (CALLER mopts caller)) Q s) :
    wp (malloc ps mopts size caller) Q s := by
  unfold malloc
  apply wp_bind_i
  apply wp_get_i
  apply wp_bind_i
  unfold omalloc
  rw [if_neg (by omega)]
  apply wp_mono h
  intro r s1 hq
  unfold EPILOGUE
  apply wp_ite_i
  · intro _; exact wp_wrterror_i
  intro _
  dsimp only
  apply wp_ite_i
  · intro _
    apply wp_bind_i
    apply wp_modify_i
    apply wp_pure_i
    exact hQ _ _ _ hq
  · intro _
    apply wp_bind_i
    apply wp_pure_i
    apply wp_pure_i
    exact hq

theorem heap_get_page_aligned {ps : Nat} {s : pool_state} (h : pool_aligned ps s) (bp : Nat) :
    (heap_get s bp).page % 2 ^ ps = 0 := by
  unfold heap_get
  rcases mem_getD_of_ne_default s.heap bp ⟨0, 0, 0, 0, 0, 0, []⟩ with hm | hm
  · exact h.2.2.1 _ hm
  · rw [hm]; rfl

theorem chunk_offset_lt (ps : Nat) (ci : chunk_info) (k : Nat) (hwf : chunk_wf ps ci)
    (hk : k < ci.total) : k * B2ALLOC ci.bucket < 2 ^ ps := by
  have ht := hwf.2.2.1
  rw [MALLOC_PAGESIZE_eq] at ht
  have h1 : ci.total * B2ALLOC ci.bucket ≤ 2 ^ ps := by
    rw [ht]; exact Nat.div_mul_le_self _ _
  have hB : 0 < B2ALLOC ci.bucket := by
    rcases Nat.eq_zero_or_pos (B2ALLOC ci.bucket) with h0 | h0
    · rw [h0, Nat.div_zero] at ht; omega
    · exact h0
  calc k * B2ALLOC ci.bucket < ci.total * B2ALLOC ci.bucket :=
        Nat.mul_lt_mul_of_pos_right hk hB
    _ ≤ 2 ^ ps := h1

theorem getD_replicate_nil {α : Type} (n b : Nat) :
    (List.replicate n ([] : List α)).getD b [] = [] := by
  rcases mem_getD_of_ne_default (List.replicate n ([] : List α)) b [] with hm | hm
  · exact List.eq_of_mem_replicate hm
  · exact hm

theorem getD_replicate_lt {α : Type} (n b : Nat) (x d : α) (h : b < n) :
    (List.replicate n x).getD b d = x := by
  rw [List.getD_eq_getElem _ _ (by rw [List.length_replicate]; exact h), List.getElem_replicate]

theorem getD_replicate_zero (n b : Nat) : (List.replicate n 0).getD b 0 = 0 := by
  rcases mem_getD_of_ne_default (List.replicate n 0) b 0 with hm | hm
  · exact List.eq_of_mem_replicate hm
  · exact hm

theorem opts_cfgjs (ps canary junk_loc cc : Nat) :
    (malloc_init_mopts ps "cfgjs".toList canary junk_loc cc).def_malloc_junk = 0 ∧
    (malloc_init_mopts ps "cfgjs".toList canary junk_loc cc).chunk_canaries = 0 ∧
    (malloc_init_mopts ps "cfgjs".toList canary junk_loc cc).malloc_guard = 0 ∧
    (malloc_init_mopts ps "cfgjs".toList canary junk_loc cc).def_maxcache = 64 := by
  refine ⟨rfl, rfl, rfl, rfl⟩

/-- C20 (amended): the options "cfgjs" parse to junk 0, no chunk canaries, no guard and
    a cache of 64 pages, and `malloc(17)` is served from bucket 2, whose chunks have 32
    bytes.  On a fresh pool, whatever the environment answers: when `p = malloc(17)`,
    `free(p)` and `q = malloc(17)` return, `p` and `q` are not null and the second
    `malloc` draws the chunk list that the first one drew, then `q` lies on the chunk
    page of `p`, both on the grid of 32 bytes, and `q` is another chunk than `p`. -/
theorem malloc_same_page (ps canary junk_loc cc self i caller : Nat) (mapped env : List Nat)
    (p q : Nat) (s1 s2 s3 : pool_state) (hps : 6 ≤ ps) (hps16 : ps ≤ 16)
    (hm : malloc ps (malloc_init_mopts ps "cfgjs".toList canary junk_loc cc) 17 caller
      { malloc_init_pool ps (malloc_init_mopts ps "cfgjs".toList canary junk_loc cc)
          self i mapped with env := env } = .ok (p, s1))
    (hp : p ≠ 0)
    (hf : free ps (malloc_init_mopts ps "cfgjs".toList canary junk_loc cc) p s1 =
      .ok ((), s2))
    (hq : malloc ps (malloc_init_mopts ps "cfgjs".toList canary junk_loc cc) 17 caller s2 =
      .ok (q, s3))
    (hq0 : q ≠ 0) (hlist : drawn_list s2.env = drawn_list env) :
    ((malloc_init_mopts ps "cfgjs".toList canary junk_loc cc).def_malloc_junk = 0 ∧
      (malloc_init_mopts ps "cfgjs".toList canary junk_loc cc).chunk_canaries = 0 ∧
      (malloc_init_mopts ps "cfgjs".toList canary junk_loc cc).malloc_guard = 0 ∧
      (malloc_init_mopts ps "cfgjs".toList canary junk_loc cc).def_maxcache = 64) ∧
    (find_bucket (malloc_init_mopts ps "cfgjs".toList canary junk_loc cc) 17 = 2 ∧
      B2SIZE 2 = 32) ∧
    MASK_POINTER ps p = MASK_POINTER ps q ∧ p ≠ q ∧ p % 32 = 0 ∧ q % 32 = 0 := by
  refine ⟨opts_cfgjs ps canary junk_loc cc, ⟨find_bucket_17 _, by decide⟩, ?_⟩
  generalize malloc_init_mopts ps "cfgjs".toList canary junk_loc cc = M at hm hf hq
  have hb := find_bucket_17 M
  have hpow : 2 ^ (ps - 1) = 32 * 2 ^ (ps - 6) := by
    rw [two_pow_dvd_form 5 (ps - 1) (by omega)]
    congr 1
  have hpos6 : 0 < 2 ^ (ps - 6) := Nat.pow_pos (by norm_num)
  have hmax : 17 ≤ MALLOC_MAXCHUNK ps := by rw [MALLOC_MAXCHUNK_eq]; omega
  have hB : 2 ≤ BUCKETS ps := by
    unfold BUCKETS
    rw [MALLOC_MAXCHUNK_eq, MALLOC_MINSIZE_eq, hpow]
    omega
  have hal0 := malloc_init_pool_aligned ps M self i mapped env
  have hal1 : pool_aligned ps s1 := keeps_run (malloc_al (by omega) hps16) hal0 hm
  have h1 := wp_run (malloc_chunk hmax (fun _ _ _ h => h)
    (@malloc_bytes_made ps 17 (CALLER M caller) M
      { malloc_init_pool ps M self i mapped with env := env } (by omega) hps16
      (by rw [hb]; exact hB)
      (by
        intro bp hbp
        have : bp ∈ (List.replicate (BUCKETS ps + 1) ([] : List Nat)).getD
          (find_bucket M 17) [] := hbp
        rw [getD_replicate_nil] at this
        exact absurd this (List.not_mem_nil _))
      (by
        show find_bucket M 17 < (List.replicate (BUCKETS ps + 1)
          (List.replicate MALLOC_CHUNK_LISTS ([] : List Nat))).length
        rw [List.length_replicate, hb]; omega)
      (by
        show ((List.replicate (BUCKETS ps + 1)
          (List.replicate MALLOC_CHUNK_LISTS ([] : List Nat))).getD
            (find_bucket M 17) []).length = MALLOC_CHUNK_LISTS
        rw [getD_replicate_lt _ _ _ _ (by rw [hb]; omega), List.length_replicate])
      (by
        show ((List.replicate (BUCKETS ps + 1)
          (List.replicate MALLOC_CHUNK_LISTS ([] : List Nat))).getD
            (find_bucket M 17) []).getD (drawn_list env) [] = []
        rw [getD_replicate_lt _ _ _ _ (by rw [hb]; omega), getD_replicate_nil]))) hm
  obtain ⟨bp, k1, hfirst, hwf, hfree, hk1, hbit1, hbk, hpa, hring⟩ := h1 hp
  have hring1 : ∀ j, s1.delayed_chunks.getD j 0 = 0 := by
    intro j
    rw [hring]
    exact getD_replicate_zero _ j
  obtain ⟨e1, e2⟩ := wp_run (free_empty_ring hring1) hf
  have hg : heap_get s2 bp = heap_get s1 bp := heap_get_of_heap s1 s2 bp e1
  have h3 := wp_run (malloc_chunk hmax (fun _ _ _ h => h)
    (@malloc_bytes_listed ps 17 (CALLER M caller) bp M s2 (by omega) hps16
      (by rw [e2, hlist]; exact hfirst) (by rw [hg]; exact hwf) (by rw [hg]; exact hfree))) hq
  obtain ⟨k2, hk2, hbit2, hqa⟩ := h3
  rw [hg] at hk2 hbit2 hqa
  have hne : k1 ≠ k2 := by
    intro h
    rw [h, hbit2] at hbit1
    exact Bool.noConfusion hbit1
  have ho1 := chunk_offset_lt ps _ k1 hwf hk1
  have ho2 := chunk_offset_lt ps _ k2 hwf hk2
  have hB2 : B2ALLOC (heap_get s1 bp).bucket = 32 := by rw [hbk, hb]; decide
  rw [hB2] at ho1 ho2 hpa hqa
  have hpg := heap_get_page_aligned hal1 bp
  have hp16 : 2 ^ ps ≤ 2 ^ 16 := Nat.pow_le_pow_right (by norm_num) hps16
  have hpow2 : 2 ^ ps = 32 * 2 ^ (ps - 5) := by
    rw [two_pow_dvd_form 5 ps (by omega)]
    congr 1
  have hpg32 : (heap_get s1 bp).page % 32 = 0 := by
    obtain ⟨c, hc⟩ := Nat.dvd_of_mod_eq_zero hpg
    rw [hc, hpow2, Nat.mul_assoc]
    exact Nat.mul_mod_right _ _
  have m1 : k1 * 32 % 2 ^ 64 = k1 * 32 := Nat.mod_eq_of_lt (by omega)
  have m2 : k2 * 32 % 2 ^ 64 = k2 * 32 := Nat.mod_eq_of_lt (by omega)
  rw [m1] at hpa
  rw [m2] at hqa
  refine ⟨?_, ?_, ?_, ?_⟩
  · rw [hpa, hqa, MASK_POINTER_offset ps _ _ (by omega) hpg ho1,
      MASK_POINTER_offset ps _ _ (by omega) hpg ho2]
  · rw [hpa, hqa]
    unfold add64
    omega
  · rw [hpa]; unfold add64; omega
  · rw [hqa]; unfold add64; omega

theorem run_of_returned {α : Type} {x : Outcome (α × pool_state)} {a : α} (d : pool_state)
    (h : returned x = some a) : x = .ok (a, (state_after x).getD d) := by
  obtain ⟨s', hs⟩ := returned_some h
  rw [hs]
  rfl

set_option maxRecDepth 1000000 in
/-- C20 (witness): with options "cfgjs" on a fresh pool, both calls of `malloc(17)`
    draw list 0: the first returns `0x13f000`, the second `0x13f020` on the same chunk
    page. -/
theorem malloc_same_page_witness :
    returned (malloc 12 cfgjs_mopts 17 0 cfgjs_pool) = some 0x13f000 ∧
    returned (free 12 cfgjs_mopts 0x13f000 cfgjs_pool1) = some () ∧
    returned (malloc 12 cfgjs_mopts 17 0 cfgjs_pool2) = some 0x13f020 ∧
    drawn_list cfgjs_pool2.env = drawn_list cfgjs_pool.env ∧
    MASK_POINTER 12 0x13f000 = MASK_POINTER 12 0x13f020 := by
  have h1 : returned (malloc 12 cfgjs_mopts 17 0 cfgjs_pool) = some 0x13f000 := by decide
  have h2 : returned (free 12 cfgjs_mopts 0x13f000 cfgjs_pool1) = some () := by decide
  have h3 : returned (malloc 12 cfgjs_mopts 17 0 cfgjs_pool2) = some 0x13f020 := by decide
  have h4 : drawn_list cfgjs_pool2.env = drawn_list cfgjs_pool.env := by decide
  exact ⟨h1, h2, h3, h4,
    (malloc_same_page 12 7 0 0 0x7000 1 0 [] [0, 0, 0x100000, 0x200000, 0x300000, 5, 0, 0, 9]
      0x13f000 0x13f020 cfgjs_pool1 cfgjs_pool2 cfgjs_pool3
      (by decide) (by decide)
      (run_of_returned example_pool h1) (by decide)
      (run_of_returned example_pool h2)
      (run_of_returned example_pool h3) (by decide) h4).2.2.1⟩

/-! ## The loops of the directory and of the bitmap search come to an end -/

theorem insert_returns (ps : Nat) (mopts : malloc_readonly) (d : dir_info)
    (key sz f : Nat) (mmap_ok : Bool) (hwf : dir_wf ps mopts d) :
    ∃ rc d2, insert ps d key sz f mmap_ok = .ok (rc, d2) := by
  have hwf0 := hwf
  obtain ⟨hcan, hlen, hp, hfree, hpos, hch, huq⟩ := hwf
  have store : ∀ d1 : dir_info, dir_wf ps mopts d1 → d1.regions_total ≠ 0 →
      ∃ idx, insert_probe d1.r (dir_mask d1.regions_total) (dir_mask d1.regions_total + 1)
        (hash ps key &&& dir_mask d1.regions_total) = some idx := by
    intro d1 wf1 h10
    obtain ⟨k1, hk1, ht1, hl1⟩ := dir_wf_pow ps mopts d1 wf1 h10
    have hn : 0 < 2 ^ k1 := Nat.pow_pos (by norm_num)
    have hfp := wf1.2.2.2.2.1 h10
    rw [wf1.2.2.2.1] at hfp
    obtain ⟨idx, i1, _⟩ := insert_probe_spec d1.r k1 (hash ps key &&& (2 ^ k1 - 1)) hk1 hl1
      (and_mask_lt _ _) (by simpa using hfp)
    refine ⟨idx, ?_⟩
    rw [ht1, dir_mask_eq _ hn (two_pow_lt_64 k1 hk1)]
    exact i1
  by_cases hneed : d.regions_free * 4 % 2 ^ 64 < d.regions_total ∨ d.regions_total = 0
  · by_cases hgo : mmap_ok = true ∧ d.regions_total ≤ SIZE_MAX / sizeof_region_info / 2
    · obtain ⟨hok, hcap⟩ := hgo
      subst hok
      obtain ⟨d1, g1, g2, g3, g4, wf1, g5⟩ := omalloc_grow_ok ps mopts d hwf0 hcap
      obtain ⟨idx, i1⟩ := store d1 wf1 (by omega)
      refine ⟨0, { d1 with r := d1.r.set idx ⟨key, sz, f⟩,
                           regions_free := sub64 d1.regions_free 1 }, ?_⟩
      unfold insert
      simp only [hneed, if_true, g1, i1]
    · have hg : omalloc_grow ps d mmap_ok = .ok (1, d) := by
        by_cases hbig : d.regions_total > SIZE_MAX / sizeof_region_info / 2
        · unfold omalloc_grow; rw [if_pos hbig]
        · have hf : mmap_ok = false := by
            cases mmap_ok with
            | false => rfl
            | true => exact absurd ⟨rfl, by omega⟩ hgo
          subst hf
          unfold omalloc_grow; rw [if_neg hbig]; simp
      exact ⟨1, d, insert_grow_fail ps d key sz f mmap_ok hneed hg⟩
  · have h0 : d.regions_total ≠ 0 := fun h => hneed (Or.inr h)
    obtain ⟨idx, i1⟩ := store d hwf0 h0
    refine ⟨0, { d with r := d.r.set idx ⟨key, sz, f⟩,
                        regions_free := sub64 d.regions_free 1 }, ?_⟩
    unfold insert
    simp only [hneed, if_false, i1]

theorem find_returns (ps : Nat) (mopts : malloc_readonly) (d : dir_info) (q : Nat)
    (hps : ps ≤ 64) (hwf : dir_wf ps mopts d) : ∃ res, find ps mopts d q = .ok res := by
  by_cases h : ∃ y, y < d.regions_total ∧ (slot d.r y).p ≠ 0 ∧
      MASK_POINTER ps (slot d.r y).p = MASK_POINTER ps q
  · obtain ⟨y, hy, hoy, hpy⟩ := h
    exact ⟨some y, find_present_wf ps mopts d y q hps hwf hy hoy hpy.symm⟩
  · refine ⟨none, find_absent_wf ps mopts d q hwf ?_⟩
    intro y hy hoy hpy
    exact h ⟨y, hy, hoy, hpy⟩

theorem delete_returns (ps : Nat) (mopts : malloc_readonly) (d : dir_info) (i : Nat)
    (hwf : dir_wf ps mopts d) (hi : i < d.regions_total) :
    ∃ d2, delete ps d i = .ok d2 := by
  by_cases hocc : (slot d.r i).p = 0
  · have h0 : d.regions_total ≠ 0 := by omega
    obtain ⟨k, hk, htot, hlen⟩ := dir_wf_pow ps mopts d hwf h0
    obtain ⟨hcan, _, _, hfree, hpos, hch, huq⟩ := hwf
    have hn : 0 < 2 ^ k := Nat.pow_pos (by norm_num)
    have hn64 := two_pow_lt_64 k hk
    rw [htot] at hi
    have hil : i < d.r.length := by omega
    have hch2 := (chain_ok_pow ps k d.r hk hlen).1 hch
    have hwalk := delete_walk_skip ps k hk (d.r.set i (clear_slot (slot d.r i))) i hi
      (by rw [slot_set, if_pos ⟨rfl, hil⟩]; rfl)
      (by
        intro x hx hox hlt
        rw [slot_set] at hox hlt
        by_cases hxi : x = i
        · rw [if_pos ⟨hxi, hil⟩] at hox
          exact hox rfl
        · rw [if_neg (fun h => hxi h.1)] at hox hlt
          exact hch2 x hx hox i hi hlt hocc)
      (2 ^ k) i hi (by rw [if_pos rfl])
    refine ⟨{ d with regions_free := add64 d.regions_free 1,
                     r := d.r.set i (clear_slot (slot d.r i)) }, ?_⟩
    unfold delete
    simp only []
    rw [htot, if_neg (by rw [two_pow_and_pred k hk]; exact fun h => h rfl),
      dir_mask_eq _ hn hn64, hwalk]
  · obtain ⟨d2, h, _⟩ := delete_wf ps mopts d i hwf hi hocc
    exact ⟨d2, h⟩

/-- C40: in every directory that `insert`, `delete` and `omalloc_grow` reach from the
    one of `omalloc_poolinit`, a table has an empty slot (`regions_free >= 1`, and it
    counts the empty slots); `find` returns for every pointer, present or not, `insert`
    returns for every key, and `delete` returns for every slot of the table; and the
    search of `malloc_bytes` in the bitmap of a well-formed chunk page with `free >= 1`
    returns a chunk number below `total` whose bit is set. -/
theorem loops_terminate (ps : Nat) (mopts : malloc_readonly) (d : dir_info)
    (hps : 5 ≤ ps) (hps16 : ps ≤ 16) (hc : mopts.malloc_canary < 2 ^ 32)
    (hr : dir_reachable ps mopts d) :
    (d.regions_total > 0 → 1 ≤ d.regions_free ∧
      d.regions_free = d.r.countP (fun e => e.p = 0) ∧
      ∃ e, e < d.regions_total ∧ (slot d.r e).p = 0) ∧
    (∀ q, ∃ res, find ps mopts d q = .ok res) ∧
    (∀ key sz f mmap_ok, ∃ rc d2, insert ps d key sz f mmap_ok = .ok (rc, d2)) ∧
    (∀ i, i < d.regions_total → ∃ d2, delete ps d i = .ok d2) ∧
    (∀ (ci : chunk_info) (r size : Nat), chunk_wf ps ci → 1 ≤ ci.free →
      ∃ ci2 k, malloc_bytes_take mopts ci r size = some (ci2, k) ∧ k < ci.total ∧
        chunk_bit ci.bits k = true) := by
  obtain ⟨hwf, _, _, _⟩ := reachable_inv ps mopts hc d hr
  refine ⟨?_, fun q => find_returns ps mopts d q (by omega) hwf,
    fun key sz f m => insert_returns ps mopts d key sz f m hwf,
    fun i hi => delete_returns ps mopts d i hwf hi, ?_⟩
  · intro h0
    have hfp := hwf.2.2.2.2.1 (by omega)
    refine ⟨hfp, hwf.2.2.2.1, ?_⟩
    rw [hwf.2.2.2.1] at hfp
    obtain ⟨e, he, hee⟩ := exists_of_countP_pos d.r _ hfp
    rw [hwf.2.1] at he
    exact ⟨e, he, by simpa using hee⟩
  · intro ci r size hw hf
    obtain ⟨ci2, k, h1, h2, h3, _⟩ := malloc_bytes_take_spec ps mopts ci r size hps hps16 hw hf
    exact ⟨ci2, k, h1, h2, h3⟩

set_option maxRecDepth 1000000 in
/-- C40 (witness): the directory after the first `insert` into the one of
    `omalloc_poolinit` has 512 slots, of which 511 are empty. -/
theorem loops_terminate_witness :
    ((insert_pages 12 [0x1000] (omalloc_poolinit (default_mopts 7) 4096 0)).getD
        (omalloc_poolinit (default_mopts 7) 4096 0)).regions_total = 512 ∧
    1 ≤ ((insert_pages 12 [0x1000] (omalloc_poolinit (default_mopts 7) 4096 0)).getD
        (omalloc_poolinit (default_mopts 7) 4096 0)).regions_free :=
  ⟨by decide,
    ((loops_terminate 12 (default_mopts 7) _ (by decide) (by decide) (by decide)
      (dir_reachable.by_insert (omalloc_poolinit (default_mopts 7) 4096 0) _ 0x1000 0 0 true
        (dir_reachable.initial 4096 0) (by decide)
        (fun y hy => absurd hy (Nat.not_lt_zero y)) (by decide))).1 (by decide)).1⟩

/-! ## insert followed by delete -/

theorem set_slot_same (l : List region_info) (i : Nat) : l.set i (slot l i) = l := by
  apply List.ext_getElem
  · rw [List.length_set]
  · intro n h1 h2
    rw [List.getElem_set]
    split
    · rename_i h
      subst h
      unfold slot
      rw [List.getD_eq_getElem _ _ h2]
    · rfl

/-- C38 (amended): in a well-formed directory in which `insert` does not grow the
    table and two slots are empty, `insert` of a non-null key whose page has no entry
    stores it in an empty slot `idx`, `find` returns that slot, and `delete` of it
    returns the directory with its old `regions_free` and its old slot array except
    that slot `idx` holds key 0, size 0 and the caller `f` of the insert: the keys are
    those before the insert, and the whole array is when the slot had size 0 and the
    same caller before. -/
theorem insert_delete_restores (ps : Nat) (mopts : malloc_readonly) (d : dir_info)
    (key sz f : Nat) (mmap_ok : Bool) (hps : ps ≤ 64) (hwf : dir_wf ps mopts d)
    (hroom : ¬ (d.regions_free * 4 % 2 ^ 64 < d.regions_total ∨ d.regions_total = 0))
    (h2 : 2 ≤ d.regions_free) (hkey : key ≠ 0)
    (habs : ∀ y < d.regions_total, (slot d.r y).p ≠ 0 →
      MASK_POINTER ps (slot d.r y).p ≠ MASK_POINTER ps key) :
    ∃ idx d1, insert ps d key sz f mmap_ok = .ok (0, d1) ∧
      find ps mopts d1 key = .ok (some idx) ∧ (slot d.r idx).p = 0 ∧
      delete ps d1 idx = .ok { d with r := d.r.set idx ⟨0, 0, f⟩ } ∧
      (d.r.set idx ⟨0, 0, f⟩).map (fun e => e.p) = d.r.map (fun e => e.p) ∧
      ((slot d.r idx).size = 0 → (slot d.r idx).f = f → d.r.set idx ⟨0, 0, f⟩ = d.r) := by
  have h0 : d.regions_total ≠ 0 := fun h => hroom (Or.inr h)
  obtain ⟨k, hk, ht, hl⟩ := dir_wf_pow ps mopts d hwf h0
  have hn : 0 < 2 ^ k := Nat.pow_pos (by norm_num)
  obtain ⟨idx, i1, i2, i3, i4⟩ := insert_step_wf ps k mopts d key sz f hk hwf ht h2 hkey habs
  have hfp : 0 < d.r.countP (fun v => decide (v.p = 0)) := by
    rw [← hwf.2.2.2.1]; omega
  obtain ⟨idx2, j1, j2, j3, _⟩ := insert_probe_spec d.r k (hash ps key &&& (2 ^ k - 1)) hk hl
    (and_mask_lt _ _) hfp
  have e1 := i1
  rw [ht, dir_mask_eq _ hn (two_pow_lt_64 k hk), j1] at e1
  injection e1 with e1
  subst e1
  have hil : idx2 < d.r.length := by omega
  refine ⟨idx2, ({ d with r := d.r.set idx2 ⟨key, sz, f⟩
                          regions_free := sub64 d.regions_free 1 } : dir_info),
    ?_, ?_, j3, ?_, ?_, ?_⟩
  · unfold insert
    simp only [hroom, if_false, i1]
  · apply find_present_wf ps mopts _ idx2 key hps i2
    · show idx2 < d.regions_total
      omega
    · show (slot (d.r.set idx2 ⟨key, sz, f⟩) idx2).p ≠ 0
      rw [slot_set, if_pos ⟨rfl, hil⟩]
      exact hkey
    · show MASK_POINTER ps key = MASK_POINTER ps (slot (d.r.set idx2 ⟨key, sz, f⟩) idx2).p
      rw [slot_set, if_pos ⟨rfl, hil⟩]
  · exact delete_after_store ps k mopts d idx2 key sz f hk hwf ht j2 j3
  · exact map_set_same d.r idx2 ⟨0, 0, f⟩ (fun e => e.p) j3.symm
  · intro hs hf
    have : (⟨0, 0, f⟩ : region_info) = slot d.r idx2 := by
      cases hslot : slot d.r idx2 with
      | mk p0 s0 f0 =>
        rw [hslot] at j3 hs hf
        simp only at j3 hs hf
        rw [j3, hs, hf]
    rw [this]
    exact set_slot_same d.r idx2

/-- C38 (counterexample): in the well-formed directory `example_dir`, which needs no
    growth and has no entry for page `0x5000`, `insert` of `0x5000` with the caller 9
    takes slot 3, `find` returns slot 3, and `delete` of it leaves the caller 9 in the
    `f` field of slot 3, which was 0: the slot array is not the one before the
    insert. -/
theorem insert_delete_restores_counterexample :
    dir_wf 12 (default_mopts 7) example_dir ∧
    ¬ (example_dir.regions_free * 4 % 2 ^ 64 < example_dir.regions_total ∨
      example_dir.regions_total = 0) ∧
    find 12 (default_mopts 7) example_dir 0x5000 = .ok none ∧
    insert 12 example_dir 0x5000 4096 9 true =
      .ok (0, { example_dir with
        r := example_dir.r.set 3 ⟨0x5000, 4096, 9⟩, regions_free := 4 }) ∧
    find 12 (default_mopts 7) { example_dir with
        r := example_dir.r.set 3 ⟨0x5000, 4096, 9⟩, regions_free := 4 } 0x5000 =
      .ok (some 3) ∧
    delete 12 { example_dir with
        r := example_dir.r.set 3 ⟨0x5000, 4096, 9⟩, regions_free := 4 } 3 =
      .ok { example_dir with r := example_dir.r.set 3 ⟨0, 0, 9⟩ } ∧
    example_dir.r.set 3 ⟨0, 0, 9⟩ ≠ example_dir.r :=
  ⟨example_dir_wf, by decide, by decide, by decide, by decide, by decide, by decide⟩

/-- C38 (witness): `insert` of page `0x5000` into `example_dir` with the caller 0 and
    `delete` of its slot 3 give back the slot array of `example_dir`. -/
theorem insert_delete_restores_witness :
    ∃ idx d1, insert 12 example_dir 0x5000 4096 0 true = .ok (0, d1) ∧
      find 12 (default_mopts 7) d1 0x5000 = .ok (some idx) ∧ (slot example_dir.r idx).p = 0 ∧
      delete 12 d1 idx = .ok { example_dir with r := example_dir.r.set idx ⟨0, 0, 0⟩ } ∧
      (example_dir.r.set idx ⟨0, 0, 0⟩).map (fun e => e.p) =
        example_dir.r.map (fun e => e.p) ∧
      ((slot example_dir.r idx).size = 0 → (slot example_dir.r idx).f = 0 →
        example_dir.r.set idx ⟨0, 0, 0⟩ = example_dir.r) :=
  insert_delete_restores 12 (default_mopts 7) example_dir 0x5000 4096 0 true (by decide)
    example_dir_wf (by decide) (by decide) (by decide) (by decide)

/-! ## The slot that unmap picks in the big cache -/

theorem unmap_scan_some (bc : List bigcache) (size : Nat) (below : Bool) (base : Nat) (k : Nat)
    (hk : k ≤ 16) (hsize : size = 2 ^ k) :
    ∀ (n j : Nat) (i0 : Option Nat), (0 < n ∨ ∃ i, i0 = some i ∧ i < size) →
      ∃ i, unmap_scan bc size below base n j i0 = some i ∧ i < size := by
  have hlt : ∀ j, ((base + j) &&& sub64 size 1) % 2 ^ 16 < size := by
    intro j
    have h64 : size < 2 ^ 64 := by
      rw [hsize]; exact Nat.pow_lt_pow_right (by norm_num) (by omega)
    have hpos : 0 < size := by rw [hsize]; exact Nat.pow_pos (by norm_num)
    have e : sub64 size 1 = 2 ^ k - 1 := by
      rw [sub64_one size hpos h64, hsize]
    rw [e]
    have h1 := and_mask_lt (base + j) k
    rw [hsize]
    exact lt_of_le_of_lt (Nat.mod_le _ _) h1
  intro n
  induction n with
  | zero =>
    intro j i0 h
    rcases h with h | ⟨i, hi, hlt2⟩
    · exact absurd h (Nat.lt_irrefl 0)
    · exact ⟨i, by unfold unmap_scan; exact hi, hlt2⟩
  | succ n ih =>
    intro j i0 _
    unfold unmap_scan
    dsimp only
    cases below with
    | true =>
      rw [if_pos rfl]
      split
      · exact ⟨_, rfl, hlt j⟩
      · exact ih (j + 1) _ (Or.inr ⟨_, rfl, hlt j⟩)
    | false =>
      rw [if_neg (by simp)]
      split
      · exact ⟨_, rfl, hlt j⟩
      · exact ih (j + 1) _ (Or.inr ⟨_, rfl, hlt j⟩)

/-- The probe loop of `unmap` assigns the slot index when the big cache has at least
four slots, and the index is then below `bigcache_size`. -/
theorem unmap_scan_assigned (bc : List bigcache) (size : Nat) (below : Bool) (base k : Nat)
    (hk2 : 2 ≤ k) (hk : k ≤ 16) (hsize : size = 2 ^ k) :
    ∃ i, unmap_scan bc size below base (size / 4) 0 none = some i ∧ i < size := by
  apply unmap_scan_some bc size below base k hk hsize
  left
  rw [hsize]
  have : 2 ^ k = 4 * 2 ^ (k - 2) := by
    rw [two_pow_dvd_form 2 k hk2]
    congr 1
  have hp : 0 < 2 ^ (k - 2) := Nat.pow_pos (by norm_num)
  omega

/-- With one or two slots the loop `for (j = 0; j < d->bigcache_size / 4; j++)` does
not run, and the index is read without having been assigned. -/
theorem unmap_scan_unassigned (bc : List bigcache) (size : Nat) (below : Bool) (base : Nat)
    (hsize : size = 1 ∨ size = 2) :
    unmap_scan bc size below base (size / 4) 0 none = none := by
  rcases hsize with h | h <;> subst h <;> rfl

set_option maxRecDepth 1000000 in
/-- With the options "<<<<<" the big cache of pool 1 has two slots, and `unmap` of a run
of 33 pages reads the slot index that the probe loop never assigned; `malloc` of 33
pages followed by `free` of the result gets there. -/
theorem unmap_big_unassigned :
    (malloc_init_pool 12 (malloc_init_mopts 12 "<<<<<".toList 7 0 0) 0x7000 1 []).bigcache_size
      = 2 ∧
    unmap 12 (malloc_init_mopts 12 "<<<<<".toList 7 0 0) 0x100000 (33 * 4096) 0
      { malloc_init_pool 12 (malloc_init_mopts 12 "<<<<<".toList 7 0 0) 0x7000 1 [] with
        env := [0] } = .undefined ∧
    (do let p ← malloc 12 (malloc_init_mopts 12 "<<<<<".toList 7 0 0) (33 * 4096) 0
        free 12 (malloc_init_mopts 12 "<<<<<".toList 7 0 0) p : Run Unit)
      { malloc_init_pool 12 (malloc_init_mopts 12 "<<<<<".toList 7 0 0) 0x7000 1 [] with
        env := [0, 0x100000, 0x300000, 0] } = .undefined := by
  refine ⟨by decide, by decide, by decide⟩

/-! ## junk_free and validate_junk visit the same words -/

/-- The number of rounds of the junk loops from the index `i`. -/
theorem junk_rounds_step (step sz i : Nat) (hstep : 0 < step) (hi : i < sz) :
    (sz + step - 1 - i) / step = (sz + step - 1 - (i + step)) / step + 1 := by
  have e : sz + step - 1 - i = (sz + step - 1 - (i + step)) + step := by omega
  rw [e, Nat.add_div_right _ hstep]

theorem junk_rounds_zero (step sz i : Nat) (hi : ¬ i < sz) (hi2 : i < sz + step) :
    (sz + step - 1 - i) / step = 0 :=
  Nat.div_eq_of_lt (by omega)

theorem junk_free_loop_spec (step sz : Nat) (hstep : 0 < step) (h64 : sz + step < 2 ^ 64) :
    ∀ (fuel i : Nat) (mem : Nat → Nat) (w : List Nat), i < sz + step →
      (sz + step - 1 - i) / step < fuel →
      ∃ mem2, junk_free_loop step sz fuel i mem w =
          some (mem2, w ++ List.range' i ((sz + step - 1 - i) / step) step) ∧
        ∀ a, mem2 a = if a ∈ List.range' i ((sz + step - 1 - i) / step) step
          then SOME_FREEJUNK_ULL else mem a := by
  intro fuel
  induction fuel with
  | zero => intro i mem w _ h; exact absurd h (Nat.not_lt_zero _)
  | succ fuel ih =>
    intro i mem w hi hf
    unfold junk_free_loop
    by_cases hlt : i < sz
    · rw [if_pos hlt]
      have hr := junk_rounds_step step sz i hstep hlt
      have ha : add64 i step = i + step := by
        unfold add64; exact Nat.mod_eq_of_lt (by omega)
      rw [ha]
      obtain ⟨mem2, h1, h2⟩ := ih (i + step)
        (fun a => if a = i then SOME_FREEJUNK_ULL else mem a) (w ++ [i]) (by omega)
        (by omega)
      refine ⟨mem2, ?_, ?_⟩
      · rw [h1, hr, List.range'_succ, List.append_assoc]
        rfl
      · intro a
        rw [h2 a, hr, List.range'_succ]
        by_cases hm : a ∈ List.range' (i + step) ((sz + step - 1 - (i + step)) / step) step
        · rw [if_pos hm, if_pos (List.mem_cons_of_mem _ hm)]
        · rw [if_neg hm]
          by_cases hai : a = i
          · rw [if_pos hai, if_pos (by rw [hai]; exact List.mem_cons_self _ _)]
          · rw [if_neg hai, if_neg (fun h => (List.mem_cons.1 h).elim hai hm)]
    · rw [if_neg hlt, junk_rounds_zero step sz i hlt hi]
      exact ⟨mem, by simp, fun a => by simp⟩

theorem validate_junk_loop_spec (mem : Nat → Nat) (step sz : Nat) (hstep : 0 < step)
    (h64 : sz + step < 2 ^ 64) :
    ∀ (fuel i : Nat) (r : List Nat), i < sz + step →
      (sz + step - 1 - i) / step < fuel →
      ∃ b rs, validate_junk_loop mem step sz fuel i r = some (b, r ++ rs) ∧
        rs <+: List.range' i ((sz + step - 1 - i) / step) step ∧
        (b = false → rs = List.range' i ((sz + step - 1 - i) / step) step) ∧
        (b = true ↔ ∃ a ∈ List.range' i ((sz + step - 1 - i) / step) step,
          mem a ≠ SOME_FREEJUNK_ULL) := by
  intro fuel
  induction fuel with
  | zero => intro i r _ h; exact absurd h (Nat.not_lt_zero _)
  | succ fuel ih =>
    intro i r hi hf
    unfold validate_junk_loop
    by_cases hlt : i < sz
    · rw [if_pos hlt]
      have hr := junk_rounds_step step sz i hstep hlt
      rw [hr, List.range'_succ]
      by_cases hbad : mem i ≠ SOME_FREEJUNK_ULL
      · rw [if_pos hbad]
        refine ⟨true, [i], rfl, ?_, fun h => Bool.noConfusion h,
          ⟨fun _ => ⟨i, List.mem_cons_self _ _, hbad⟩, fun _ => rfl⟩⟩
        exact ⟨_, rfl⟩
      · rw [if_neg hbad]
        have ha : add64 i step = i + step := by
          unfold add64; exact Nat.mod_eq_of_lt (by omega)
        rw [ha]
        obtain ⟨b, rs, h1, h2, h3, h4⟩ := ih (i + step) (r ++ [i]) (by omega) (by omega)
        refine ⟨b, i :: rs, ?_, ?_, ?_, ?_⟩
        · rw [h1, List.append_assoc]; rfl
        · obtain ⟨t, ht⟩ := h2
          exact ⟨t, by rw [← ht]; rfl⟩
        · intro hb; rw [h3 hb]
        · rw [h4]
          constructor
          · rintro ⟨a, ha1, ha2⟩
            exact ⟨a, List.mem_cons_of_mem _ ha1, ha2⟩
          · rintro ⟨a, ha1, ha2⟩
            rcases List.mem_cons.1 ha1 with h | h
            · subst h; exact absurd ha2 hbad
            · exact ⟨a, h, ha2⟩
    · rw [if_neg hlt, junk_rounds_zero step sz i hlt hi]
      refine ⟨false, [], by simp, ?_, fun _ => by simp, ?_⟩
      · simp
      · simp

theorem junk_rounds_lt (step sz start : Nat) (hstep : 0 < step) :
    (sz + step - 1 - start) / step < sz + 1 := by
  rw [Nat.div_lt_iff_lt_mul hstep]
  have : sz ≤ sz * step := Nat.le_mul_of_pos_right sz hstep
  have e : (sz + 1) * step = sz * step + step := by ring
  omega

theorem junk_words_below (step sz start a : Nat) (hstep : 0 < step)
    (ha : a ∈ List.range' start ((sz + step - 1 - start) / step) step) : a < sz := by
  obtain ⟨t, ht, rfl⟩ := List.mem_range'.1 ha
  have h1 : (sz + step - 1 - start) / step * step ≤ sz + step - 1 - start :=
    Nat.div_mul_le_self _ _
  have h2 : (t + 1) * step ≤ (sz + step - 1 - start) / step * step :=
    Nat.mul_le_mul_right _ ht
  have e : (t + 1) * step = step * t + step := by ring
  omega

theorem junk_stripe_count (sz1 start : Nat) :
    (sz1 + (if sz1 / 4 = 0 then 1 else sz1 / 4) - 1 - start) /
      (if sz1 / 4 = 0 then 1 else sz1 / 4) ≤ 7 := by
  by_cases h : sz1 / 4 = 0
  · rw [if_pos h, Nat.div_one]
    omega
  · rw [if_neg h]
    have hpos : 0 < sz1 / 4 := Nat.pos_of_ne_zero h
    apply Nat.le_of_lt_succ
    rw [Nat.div_lt_iff_lt_mul hpos]
    omega

/-- C31: `junk_free` and `validate_junk` with the same junk level, size and `junk_loc`
    visit the same 64-bit words of the region: `junk_free` returns, having written
    `SOME_FREEJUNK_ULL` to the words `ws` and to nothing else; on any memory
    `validate_junk` returns or aborts with `write after free`, it reads a prefix of
    `ws` (all of `ws` when it returns) and aborts exactly when one of the words `ws`
    does not hold `SOME_FREEJUNK_ULL`, so it returns right after `junk_free`.  With
    level 1 there are at most 7 words, all within the first page; with any other
    level but 0 they are all `sz / 8` words; with level 0 or size 0 there
    are none. -/
theorem junk_same_words (ps : Nat) (mopts : malloc_readonly) (junk sz : Nat)
    (mem mem2 : Nat → Nat) (hsz : sz < 2 ^ 64) :
    ∃ memJ ws, junk_free_mem ps mopts junk mem sz = some (memJ, ws) ∧
      (∀ a, memJ a = if a ∈ ws then SOME_FREEJUNK_ULL else mem a) ∧
      (∃ res rs, validate_junk_mem ps mopts junk mem2 sz = some (res, rs) ∧
        rs <+: ws ∧ (res = .ok () → rs = ws) ∧
        (res = .ok () ∨ res = .abort .write_after_free) ∧
        (res = .abort .write_after_free ↔ ∃ a ∈ ws, mem2 a ≠ SOME_FREEJUNK_ULL)) ∧
      validate_junk_mem ps mopts junk memJ sz = some (.ok (), ws) ∧
      (junk = 1 → ws.length ≤ 7 ∧ ∀ a ∈ ws, a < MALLOC_PAGESIZE ps / 8 ∧ a < sz / 8) ∧
      (junk ≠ 0 → junk ≠ 1 → ws = List.range (sz / 8)) ∧
      (junk = 0 ∨ sz = 0 → ws = []) := by
  by_cases h0 : junk = 0 ∨ sz = 0
  · refine ⟨mem, [], by unfold junk_free_mem; rw [if_pos h0], fun a => by simp,
      ⟨.ok (), [], by unfold validate_junk_mem; rw [if_pos h0], List.prefix_refl _,
        fun _ => rfl, Or.inl rfl, ?_⟩,
      by unfold validate_junk_mem; rw [if_pos h0], ?_, ?_, fun _ => rfl⟩
    · constructor
      · intro h; exact Outcome.noConfusion h
      · rintro ⟨a, ha, _⟩; exact absurd ha (List.not_mem_nil _)
    · intro _; exact ⟨by simp, fun a ha => absurd ha (List.not_mem_nil _)⟩
    · intro hj0 _
      rcases h0 with h | h
      · exact absurd h hj0
      · subst h; rfl
  · unfold junk_free_mem validate_junk_mem
    simp only [if_neg h0]
    set sz1 := (if junk = 1 ∧ sz / 8 > MALLOC_PAGESIZE ps / 8 then MALLOC_PAGESIZE ps / 8
      else sz / 8) with hsz1
    set step := (if junk = 1 then (if sz1 / 4 = 0 then 1 else sz1 / 4) else 1) with hstepd
    have hstep : 0 < step := by
      rw [hstepd]
      split
      · split
        · exact Nat.one_pos
        · rename_i h; exact Nat.pos_of_ne_zero h
      · exact Nat.one_pos
    have hsz1le : sz1 ≤ sz / 8 := by
      rw [hsz1]; split
      · rename_i h; exact Nat.le_of_lt h.2
      · exact Nat.le_refl _
    have hstepl : step ≤ sz1 + 1 := by
      rw [hstepd]
      split
      · split
        · omega
        · have := Nat.div_le_self sz1 4; omega
      · omega
    have h64 : sz1 + step < 2 ^ 64 := by
      have := Nat.div_le_self sz 8
      omega
    have hs : mopts.junk_loc % step < step := Nat.mod_lt _ hstep
    have hf := junk_rounds_lt step sz1 (mopts.junk_loc % step) hstep
    obtain ⟨memJ, j1, j2⟩ := junk_free_loop_spec step sz1 hstep h64 (sz1 + 1)
      (mopts.junk_loc % step) mem [] (by omega) hf
    rw [List.nil_append] at j1
    have hval : ∀ m : Nat → Nat, ∃ b rs,
        validate_junk_loop m step sz1 (sz1 + 1) (mopts.junk_loc % step) [] = some (b, rs) ∧
        rs <+: List.range' (mopts.junk_loc % step)
          ((sz1 + step - 1 - mopts.junk_loc % step) / step) step ∧
        (b = false → rs = List.range' (mopts.junk_loc % step)
          ((sz1 + step - 1 - mopts.junk_loc % step) / step) step) ∧
        (b = true ↔ ∃ a ∈ List.range' (mopts.junk_loc % step)
          ((sz1 + step - 1 - mopts.junk_loc % step) / step) step,
          m a ≠ SOME_FREEJUNK_ULL) := by
      intro m
      obtain ⟨b, rs, v1, v2, v3, v4⟩ := validate_junk_loop_spec m step sz1 hstep h64 (sz1 + 1)
        (mopts.junk_loc % step) [] (by omega) hf
      rw [List.nil_append] at v1
      exact ⟨b, rs, v1, v2, v3, v4⟩
    refine ⟨memJ, _, j1, j2, ?_, ?_, ?_, ?_, fun h => absurd h h0⟩
    · obtain ⟨b, rs, v1, v2, v3, v4⟩ := hval mem2
      rw [v1]
      cases b with
      | true =>
        refine ⟨_, rs, rfl, v2, fun h => Outcome.noConfusion h, Or.inr rfl, ?_⟩
        exact ⟨fun _ => v4.1 rfl, fun _ => rfl⟩
      | false =>
        refine ⟨_, rs, rfl, v2, fun _ => v3 rfl, Or.inl rfl, ?_⟩
        constructor
        · intro h; exact Outcome.noConfusion h
        · intro h; exact Bool.noConfusion (v4.2 h)
    · obtain ⟨b, rs, v1, v2, v3, v4⟩ := hval memJ
      rw [v1]
      cases b with
      | true =>
        obtain ⟨a, ha, hne⟩ := v4.1 rfl
        rw [j2 a, if_pos ha] at hne
        exact absurd rfl hne
      | false => rw [v3 rfl]
    · intro hj
      refine ⟨?_, ?_⟩
      · rw [List.length_range']
        have e : step = if sz1 / 4 = 0 then 1 else sz1 / 4 := by rw [hstepd, if_pos hj]
        rw [e]
        exact junk_stripe_count sz1 _
      · intro a ha
        have hlt := junk_words_below step sz1 _ a hstep ha
        refine ⟨lt_of_lt_of_le hlt ?_, lt_of_lt_of_le hlt hsz1le⟩
        rw [hsz1]; split
        · exact Nat.le_refl _
        · rename_i h
          have : ¬ sz / 8 > MALLOC_PAGESIZE ps / 8 := fun h2 => h ⟨hj, h2⟩
          omega
    · intro _ hj1
      have e1 : step = 1 := by rw [hstepd, if_neg hj1]
      have e2 : sz1 = sz / 8 := by rw [hsz1, if_neg (fun h => hj1 h.1)]
      rw [e1, e2, Nat.mod_one, Nat.div_one, List.range_eq_range']
      congr 1

/-- C31 (witness): with junk level 1 on a region of one page, `junk_free` writes at
    most 7 words and `validate_junk` right after it reads them and returns. -/
theorem junk_same_words_witness :
    ∃ memJ ws, junk_free_mem 12 (default_mopts 7) 1 (fun _ => 0) 4096 = some (memJ, ws) ∧
      validate_junk_mem 12 (default_mopts 7) 1 memJ 4096 = some (.ok (), ws) ∧
      ws.length ≤ 7 := by
  obtain ⟨memJ, ws, h1, _, _, h4, h5, _⟩ :=
    junk_same_words 12 (default_mopts 7) 1 4096 (fun _ => 0) (fun _ => 0) (by decide)
  exact ⟨memJ, ws, h1, h4, (h5 rfl).1⟩

/-! ## The delayed-free ring -/

theorem hr_of_chunk {α : Type} {m : Run α} (h : keeps chunk_frame m) :
    keeps heap_ring_frame m :=
  keeps_intro fun _ s _ hz hQ =>
    keeps_wp s h ⟨rfl, rfl, rfl, rfl⟩ (fun a s' hc =>
      hQ a s' ⟨hc.1.trans hz.1, hc.2.2.2.trans hz.2⟩)

theorem find_chunknum_check_core {ps ptr check : Nat} {info : chunk_info} :
    keeps core_frame (find_chunknum_check ps info ptr check) := by
  unfold find_chunknum_check
  repeat' first
    | with_reducible apply keeps_ite
    | with_reducible apply keeps_bind
    | with_reducible exact keeps_pure
    | with_reducible exact keeps_get
    | with_reducible exact keeps_wrterror
    | with_reducible exact keeps_lift_outcome
    | with_reducible exact validate_canary_core
    | intro _
    | split

theorem ofree_freecheck_core {ps : Nat} {mopts : malloc_readonly} {p : Nat} {l : List Nat} :
    keeps core_frame (ofree_freecheck ps mopts p l) := by
  induction l with
  | nil =>
    unfold ofree_freecheck
    exact keeps_pure
  | cons tmp rest ih =>
    unfold ofree_freecheck
    repeat' first
      | with_reducible apply keeps_ite
      | with_reducible apply keeps_bind
      | with_reducible exact keeps_pure
      | with_reducible exact keeps_get
      | with_reducible exact keeps_wrterror
      | with_reducible exact keeps_lift_outcome
      | with_reducible exact validate_junk_core
      | with_reducible exact ih
      | intro _
      | split

/-- What `free_bytes` does to the chunk headers and the ring: the header of the page is
marked at the chunk number that `find_chunknum` gives, and the ring is left alone. -/
theorem free_bytes_marks {ps ro old : Nat} {mopts : malloc_readonly} {s : pool_state} :
    wp (free_bytes ps mopts ro old) (fun _ s' => ∃ ko,
      find_chunknum ps s.d.canary1 (heap_get s (slot s.d.r ro).size) old = .ok ko ∧
      s'.heap = s.heap.set (slot s.d.r ro).size
        (free_bytes_mark (heap_get s (slot s.d.r ro).size) ko) ∧
      s'.delayed_chunks = s.delayed_chunks) s := by
  unfold free_bytes
  apply wp_bind_i
  apply wp_get_i
  dsimp only
  apply wp_bind_i
  unfold find_chunknum_check
  apply wp_bind_i
  apply wp_get_i
  apply wp_bind_i
  apply wp_lift_outcome_i
  intro ko hko
  dsimp only
  apply wp_bind_i
  apply wp_pure_i
  apply wp_pure_i
  have hr1 : keeps heap_ring_frame (STATS_SETF ro 0) := by
    unfold STATS_SETF
    exact keeps_modify (fun _ _ h => h)
  have hr2 : ∀ b l bp, keeps heap_ring_frame (LIST_INSERT_HEAD_dir b l bp) := by
    intro b l bp
    unfold LIST_INSERT_HEAD_dir
    exact keeps_modify (fun _ _ h => h)
  have hr3 : ∀ bp, keeps heap_ring_frame (LIST_REMOVE bp) := by
    intro bp
    unfold LIST_REMOVE
    exact keeps_modify (fun _ _ h => h)
  have hr4 : ∀ b bp, keeps heap_ring_frame (LIST_INSERT_HEAD_info b bp) := by
    intro b bp
    unfold LIST_INSERT_HEAD_info
    exact keeps_modify (fun _ _ h => h)
  have tail : ∀ (s1 : pool_state), heap_ring_frame s s1 →
      wp (do
        modify (fun s2 => { s2 with heap := s2.heap.set (slot s.d.r ro).size (free_bytes_mark (heap_get s (slot s.d.r ro).size) ko) })
        if (free_bytes_mark (heap_get s (slot s.d.r ro).size) ko).free = 1 then do
          let x ← getrbyte
          LIST_INSERT_HEAD_dir (free_bytes_mark (heap_get s (slot s.d.r ro).size) ko).bucket (x % MALLOC_CHUNK_LISTS) (slot s.d.r ro).size
        else if (free_bytes_mark (heap_get s (slot s.d.r ro).size) ko).free ≠ (free_bytes_mark (heap_get s (slot s.d.r ro).size) ko).total then pure ()
        else do
          LIST_REMOVE (slot s.d.r ro).size
          unmap ps mopts (free_bytes_mark (heap_get s (slot s.d.r ro).size) ko).page (MALLOC_PAGESIZE ps) 0
          delete_pool ps ro
          LIST_INSERT_HEAD_info (free_bytes_mark (heap_get s (slot s.d.r ro).size) ko).bucket (slot s.d.r ro).size : Run Unit)
        (fun _ s' => ∃ ko,
          find_chunknum ps s.d.canary1 (heap_get s (slot s.d.r ro).size) old = .ok ko ∧
          s'.heap = s.heap.set (slot s.d.r ro).size
            (free_bytes_mark (heap_get s (slot s.d.r ro).size) ko) ∧
          s'.delayed_chunks = s.delayed_chunks) s1 := by
    intro s1 h1
    apply wp_bind_i
    apply wp_modify_i
    have hk : ∀ {m : Run Unit}, keeps heap_ring_frame m → ∀ s2 : pool_state,
        s2.heap = s.heap.set (slot s.d.r ro).size
          (free_bytes_mark (heap_get s (slot s.d.r ro).size) ko) →
        s2.delayed_chunks = s.delayed_chunks →
        wp m (fun _ s' => ∃ ko,
          find_chunknum ps s.d.canary1 (heap_get s (slot s.d.r ro).size) old = .ok ko ∧
          s'.heap = s.heap.set (slot s.d.r ro).size
            (free_bytes_mark (heap_get s (slot s.d.r ro).size) ko) ∧
          s'.delayed_chunks = s.delayed_chunks) s2 := by
      intro m hm s2 e1 e2
      exact keeps_wp s2 hm ⟨rfl, rfl⟩ (fun _ s' h => ⟨ko, hko, h.1.trans e1, h.2.trans e2⟩)
    apply hk
    · repeat' first
        | with_reducible apply keeps_ite
        | with_reducible apply keeps_bind
        | with_reducible exact keeps_pure
        | with_reducible exact hr2 _ _ _
        | with_reducible exact hr3 _
        | with_reducible exact hr4 _ _
        | with_reducible exact hr_of_chunk (chunk_of_core getrbyte_core)
        | with_reducible exact hr_of_chunk (chunk_of_core unmap_core)
        | with_reducible exact hr_of_chunk delete_pool_cf
        | intro _
    · dsimp only
      rw [h1.1]
    · exact h1.2
  apply wp_ite_i
  · intro _
    apply wp_bind_i
    exact keeps_wp s hr1 ⟨rfl, rfl⟩ (fun _ s1 h => tail s1 h)
  · intro _
    apply wp_bind_i
    apply wp_pure_i
    exact tail s ⟨rfl, rfl⟩

theorem find_chunknum_check_post {ps ptr check : Nat} {info : chunk_info} {z s : pool_state}
    (hz : core_frame z s) :
    wp (find_chunknum_check ps info ptr check)
      (fun k s' => find_chunknum ps z.d.canary1 info ptr = .ok k ∧ core_frame z s') s := by
  unfold find_chunknum_check
  apply wp_bind_i
  apply wp_get_i
  apply wp_bind_i
  apply wp_lift_outcome_i
  intro k hk
  rw [hz.1] at hk
  dsimp only
  apply wp_ite_i
  · intro _
    apply wp_bind_i
    apply keeps_wp z validate_canary_core hz
    intro _ s1 h1
    apply wp_pure_i
    exact ⟨hk, h1⟩
  · intro _
    apply wp_bind_i
    apply wp_pure_i
    apply wp_pure_i
    exact ⟨hk, hz⟩

/-- A chunk free that returns: the slot drawn in the ring held another pointer, it now
holds `p`, the other slots are as before, and the chunk headers change only by the
`free_bytes` of the pointer that was in the slot. -/
theorem ofree_chunk_ring {ps ri p sz : Nat} {mopts : malloc_readonly} {s : pool_state} :
    wp (ofree_chunk ps mopts ri p sz)
      (fun _ s' => ∃ x k,
        find_chunknum ps s.d.canary1 (heap_get s (slot s.d.r ri).size) p = .ok k ∧
        s.delayed_chunks.getD (x &&& MALLOC_DELAYED_CHUNK_MASK) 0 ≠ p ∧
        s'.delayed_chunks = s.delayed_chunks.set (x &&& MALLOC_DELAYED_CHUNK_MASK) p ∧
        (s.delayed_chunks.getD (x &&& MALLOC_DELAYED_CHUNK_MASK) 0 = 0 → s'.heap = s.heap) ∧
        (s.delayed_chunks.getD (x &&& MALLOC_DELAYED_CHUNK_MASK) 0 ≠ 0 → ∃ ro ko,
          find ps mopts s.d (s.delayed_chunks.getD (x &&& MALLOC_DELAYED_CHUNK_MASK) 0) =
            .ok (some ro) ∧
          find_chunknum ps s.d.canary1 (heap_get s (slot s.d.r ro).size)
            (s.delayed_chunks.getD (x &&& MALLOC_DELAYED_CHUNK_MASK) 0) = .ok ko ∧
          s'.heap = s.heap.set (slot s.d.r ro).size
            (free_bytes_mark (heap_get s (slot s.d.r ro).size) ko))) s := by
  unfold ofree_chunk
  apply wp_bind_i
  apply wp_get_i
  apply wp_ite_i
  · intro _; exact wp_wrterror_i
  intro _
  apply wp_bind_i
  apply wp_mono (find_chunknum_check_post (z := s) ⟨rfl, rfl, rfl, rfl, rfl, rfl, rfl, rfl⟩)
  intro k s1 ⟨hk, h1⟩
  dsimp only
  apply wp_ite_i
  on_goal 1 =>
    intro _
    apply wp_bind_i
    apply keeps_wp s ofree_freecheck_core h1
    intro _ s2 h2
  on_goal 2 =>
    intro _
    apply wp_bind_i
    apply wp_pure_i
    have h2 := h1
  all_goals
    apply wp_bind_i
    apply keeps_wp s getrbyte_core h2
    intro x s3 h3
    apply wp_ite_i
    · intro _; exact wp_wrterror_i
    intro hne
    apply wp_bind_i
    apply wp_modify_i
    apply wp_ite_i
    · intro hold
      apply wp_bind_i
      apply wp_get_i
      apply wp_bind_i
      apply wp_lift_outcome_i
      intro r hr
      dsimp only at hr
      rw [h3.1] at hr
      cases r with
      | none => exact wp_wrterror_i
      | some ro =>
        dsimp only
        have hfin : ∀ s5 : pool_state, s5.d = s.d → s5.heap = s.heap →
            s5.delayed_chunks = s.delayed_chunks.set (x &&& MALLOC_DELAYED_CHUNK_MASK) p →
            wp (free_bytes ps mopts ro (s.delayed_chunks.getD (x &&& MALLOC_DELAYED_CHUNK_MASK) 0))
              (fun _ s' => ∃ x k,
        find_chunknum ps s.d.canary1 (heap_get s (slot s.d.r ri).size) p = .ok k ∧
        s.delayed_chunks.getD (x &&& MALLOC_DELAYED_CHUNK_MASK) 0 ≠ p ∧
        s'.delayed_chunks = s.delayed_chunks.set (x &&& MALLOC_DELAYED_CHUNK_MASK) p ∧
        (s.delayed_chunks.getD (x &&& MALLOC_DELAYED_CHUNK_MASK) 0 = 0 → s'.heap = s.heap) ∧
        (s.delayed_chunks.getD (x &&& MALLOC_DELAYED_CHUNK_MASK) 0 ≠ 0 → ∃ ro ko,
          find ps mopts s.d (s.delayed_chunks.getD (x &&& MALLOC_DELAYED_CHUNK_MASK) 0) =
            .ok (some ro) ∧
          find_chunknum ps s.d.canary1 (heap_get s (slot s.d.r ro).size)
            (s.delayed_chunks.getD (x &&& MALLOC_DELAYED_CHUNK_MASK) 0) = .ok ko ∧
          s'.heap = s.heap.set (slot s.d.r ro).size
            (free_bytes_mark (heap_get s (slot s.d.r ro).size) ko))) s5 := by
          intro s5 e1 e2 e3
          apply wp_mono free_bytes_marks
          intro _ s6 ⟨ko, hko, hh, hd⟩
          have eg : heap_get s5 (slot s.d.r ro).size = heap_get s (slot s.d.r ro).size := by
            unfold heap_get; rw [e2]
          rw [e1, eg] at hko
          rw [e1, eg, e2] at hh
          exact ⟨x, k, hk, fun h => hne h.symm, hd.trans e3, fun h0 => absurd h0 hold,
            fun _ => ⟨ro, ko, hr, hko, hh⟩⟩
        apply wp_ite_i
        · intro _
          apply wp_bind_i
          apply keeps_wp _ validate_junk_core ⟨rfl, rfl, rfl, rfl, rfl, rfl, rfl, rfl⟩
          intro _ s5 h5
          exact hfin s5 (h5.1.trans h3.1) (h5.2.2.1.trans h3.2.2.1)
            (h5.2.2.2.2.2.1.trans (by dsimp only; rw [h3.2.2.2.2.2.1]))
        · intro _
          apply wp_bind_i
          apply wp_pure_i
          exact hfin _ h3.1 h3.2.2.1 (by dsimp only; rw [h3.2.2.2.2.2.1])
    · intro hold
      apply wp_pure_i
      refine ⟨x, k, hk, fun h => hne h.symm, ?_, fun _ => h3.2.2.1, fun h => absurd h hold⟩
      dsimp only
      rw [h3.2.2.2.2.2.1]

theorem chunk_bit_mark_other (info : chunk_info) (ko k : Nat) (h : ko ≠ k) :
    chunk_bit (free_bytes_mark info ko).bits k = chunk_bit info.bits k := by
  unfold free_bytes_mark
  dsimp only
  rw [MALLOC_BITS_eq]
  by_cases hl : ko / 16 < info.bits.length
  · rw [chunk_bit_or _ _ _ hl, if_neg (fun e => h e.symm)]
  · rw [List.set_eq_of_length_le (by omega)]

theorem find_chunknum_in_use {ps canary1 ptr k : Nat} {info : chunk_info}
    (h : find_chunknum ps canary1 info ptr = .ok k) : chunk_bit info.bits k = false := by
  unfold find_chunknum at h
  dsimp only at h
  split at h
  · exact Outcome.noConfusion h
  split at h
  · exact Outcome.noConfusion h
  split at h
  · exact Outcome.noConfusion h
  rename_i _ _ hb
  injection h with h
  subst h
  unfold chunk_bit
  rw [← and_bit_eq_zero]
  simpa using hb

/-- C32 (amended): a chunk free that returns has drawn a ring index `i = x & 15` whose
slot held a pointer other than `p`; afterwards the slot holds `p` and the other slots
are unchanged; the chunk headers are unchanged when the slot was empty, and otherwise
change exactly by `free_bytes` of the pointer that was in the slot, found through the
directory.  The bit of the chunk of `p` marked it in use before, and it still does
provided the pointer that was in the slot is not a pointer of the same chunk on the
same chunk page. -/
theorem ofree_chunk_delayed (ps : Nat) (mopts : malloc_readonly) (ri p sz : Nat)
    (s s' : pool_state) (hlen : s.delayed_chunks.length = MALLOC_DELAYED_CHUNK_MASK + 1)
    (hrun : ofree_chunk ps mopts ri p sz s = .ok ((), s')) :
    ∃ x k,
      x &&& MALLOC_DELAYED_CHUNK_MASK < 16 ∧
      find_chunknum ps s.d.canary1 (heap_get s (slot s.d.r ri).size) p = .ok k ∧
      chunk_bit (heap_get s (slot s.d.r ri).size).bits k = false ∧
      s.delayed_chunks.getD (x &&& MALLOC_DELAYED_CHUNK_MASK) 0 ≠ p ∧
      s'.delayed_chunks.getD (x &&& MALLOC_DELAYED_CHUNK_MASK) 0 = p ∧
      (∀ j, j ≠ x &&& MALLOC_DELAYED_CHUNK_MASK →
        s'.delayed_chunks.getD j 0 = s.delayed_chunks.getD j 0) ∧
      (s.delayed_chunks.getD (x &&& MALLOC_DELAYED_CHUNK_MASK) 0 = 0 → s'.heap = s.heap) ∧
      (s.delayed_chunks.getD (x &&& MALLOC_DELAYED_CHUNK_MASK) 0 ≠ 0 → ∃ ro ko,
        find ps mopts s.d (s.delayed_chunks.getD (x &&& MALLOC_DELAYED_CHUNK_MASK) 0) =
          .ok (some ro) ∧
        find_chunknum ps s.d.canary1 (heap_get s (slot s.d.r ro).size)
          (s.delayed_chunks.getD (x &&& MALLOC_DELAYED_CHUNK_MASK) 0) = .ok ko ∧
        s'.heap = s.heap.set (slot s.d.r ro).size
          (free_bytes_mark (heap_get s (slot s.d.r ro).size) ko)) ∧
      ((∀ ro ko,
          find ps mopts s.d (s.delayed_chunks.getD (x &&& MALLOC_DELAYED_CHUNK_MASK) 0) =
            .ok (some ro) →
          find_chunknum ps s.d.canary1 (heap_get s (slot s.d.r ro).size)
            (s.delayed_chunks.getD (x &&& MALLOC_DELAYED_CHUNK_MASK) 0) = .ok ko →
          (slot s.d.r ro).size ≠ (slot s.d.r ri).size ∨ ko ≠ k) →
        chunk_bit (heap_get s' (slot s.d.r ri).size).bits k = false) := by
  obtain ⟨x, k, hk, hne, hring, h0, h1⟩ := wp_run ofree_chunk_ring hrun
  have hi : x &&& MALLOC_DELAYED_CHUNK_MASK < 16 :=
    Nat.lt_of_le_of_lt Nat.and_le_right (by decide)
  have hbit := find_chunknum_in_use hk
  refine ⟨x, k, hi, hk, hbit, hne, ?_, ?_, h0, h1, ?_⟩
  · rw [hring, getD_set_self, if_pos (by rw [hlen]; exact hi)]
  · intro j hj
    rw [hring, getD_set_if, if_neg (fun h => hj h.1)]
  · intro hnot
    by_cases hold : s.delayed_chunks.getD (x &&& MALLOC_DELAYED_CHUNK_MASK) 0 = 0
    · rw [heap_get_of_heap s s' _ (h0 hold)]; exact hbit
    · obtain ⟨ro, ko, hf, hko, hh⟩ := h1 hold
      have hor := hnot ro ko hf hko
      unfold heap_get
      rw [hh, getD_set_if]
      by_cases hc : (slot s.d.r ri).size = (slot s.d.r ro).size ∧
          (slot s.d.r ro).size < s.heap.length
      · rw [if_pos hc]
        have hkk : ko ≠ k := by
          rcases hor with h | h
          · exact absurd hc.1.symm h
          · exact h
        rw [chunk_bit_mark_other _ _ _ hkk, ← hc.1]
        exact hbit
      · rw [if_neg hc]
        exact hbit

set_option maxRecDepth 1000000 in
/-- C32 (counterexample): under the options `cfgjs`, with both ring draws 3,
`p = malloc(17)` returns chunk 0 of a page of 32-byte chunks, `free(p + 16)` is accepted
and puts `p + 16` in slot 3 of the ring, and `free(p)` returns with `p` in slot 3 and
the bit of chunk 0 set: the pointer it took out of the slot, `p + 16`, is a pointer of
the chunk of `p`.  With that the page has all its chunks free and is released, so the
directory no longer has it. -/
theorem ofree_chunk_delayed_counterexample :
    returned ((do
        let p ← malloc 12 cfgjs_mopts 17 0
        free 12 cfgjs_mopts (p + 16)
        let ri ← findpool 12 cfgjs_mopts p
        let s2 ← get
        free 12 cfgjs_mopts p
        let s3 ← get
        pure (p, s2.delayed_chunks.getD 3 0,
          chunk_bit (heap_get s2 (slot s2.d.r ri).size).bits 0,
          s3.delayed_chunks.getD 3 0,
          chunk_bit (heap_get s3 (slot s2.d.r ri).size).bits 0,
          decide (find 12 cfgjs_mopts s3.d p = .ok none)) :
          Run (Nat × Nat × Bool × Nat × Bool × Bool)) ring_pool) =
      some (0x13f000, 0x13f010, false, 0x13f000, true, true) := by
  decide

set_option maxRecDepth 1000000 in
/-- The chunk path of `free(p)` in `ring_pool1` returns, and `ofree_chunk_delayed`
describes the ring and the chunk headers after it. -/
theorem ofree_chunk_delayed_witness :
    ring_pool1.delayed_chunks.length = MALLOC_DELAYED_CHUNK_MASK + 1 ∧
    returned (ofree_chunk 12 cfgjs_mopts 321 0x13f000 32 ring_pool1) = some () ∧
    ∃ x k,
      x &&& MALLOC_DELAYED_CHUNK_MASK < 16 ∧
      find_chunknum 12 ring_pool1.d.canary1
        (heap_get ring_pool1 (slot ring_pool1.d.r 321).size) 0x13f000 = .ok k ∧
      ring_pool1.delayed_chunks.getD (x &&& MALLOC_DELAYED_CHUNK_MASK) 0 ≠ 0x13f000 ∧
      ring_pool2.delayed_chunks.getD (x &&& MALLOC_DELAYED_CHUNK_MASK) 0 = 0x13f000 := by
  have h1 : ring_pool1.delayed_chunks.length = MALLOC_DELAYED_CHUNK_MASK + 1 := by decide
  have h2 : returned (ofree_chunk 12 cfgjs_mopts 321 0x13f000 32 ring_pool1) = some () := by
    decide
  obtain ⟨x, k, a1, a2, _, a4, a5, _⟩ :=
    ofree_chunk_delayed 12 cfgjs_mopts 321 0x13f000 32 ring_pool1 ring_pool2 h1
      (run_of_returned example_pool h2)
  exact ⟨h1, h2, x, k, a1, a2, a4, a5⟩

/-! ## Rules for runs with their aborts -/

theorem wpx_pure_i {α : Type} {a : α} {P : wrterror_msg → Prop} {D : Prop}
    {Q : α → pool_state → Prop} {s : pool_state}
    (h : Q a s) : wpx (pure a : Run α) P D Q s := by
  unfold wpx
  exact h

theorem wpx_bind_i {α β : Type} {x : Run α} {f : α → Run β} {P : wrterror_msg → Prop}
    {D : Prop} {Q : β → pool_state → Prop} {s : pool_state}
    (h : wpx x P D (fun a s1 => wpx (f a) P D Q s1) s) : wpx (x >>= f) P D Q s := by
  unfold wpx at h ⊢
  have hb : (x >>= f) s = (x s).bind (fun p => f p.1 p.2) := rfl
  rw [hb]
  cases hx : x s with
  | ok p =>
    rw [hx] at h
    exact h
  | abort m => rw [hx] at h; exact h
  | diverge => rw [hx] at h; exact h
  | undefined => rw [hx] at h; exact h

theorem wpx_get_i {P : wrterror_msg → Prop} {D : Prop}
    {Q : pool_state → pool_state → Prop} {s : pool_state}
    (h : Q s s) : wpx (get : Run pool_state) P D Q s := by
  unfold wpx
  exact h

theorem wpx_set_i {s1 : pool_state} {P : wrterror_msg → Prop} {D : Prop}
    {Q : PUnit → pool_state → Prop} {s : pool_state}
    (h : Q ⟨⟩ s1) : wpx (set s1 : Run PUnit) P D Q s := by
  unfold wpx
  exact h

theorem wpx_modify_i {g : pool_state → pool_state} {P : wrterror_msg → Prop} {D : Prop}
    {Q : PUnit → pool_state → Prop} {s : pool_state}
    (h : Q ⟨⟩ (g s)) : wpx (modify g : Run PUnit) P D Q s := by
  unfold wpx
  exact h

theorem wpx_wrterror_i {α : Type} {m : wrterror_msg} {P : wrterror_msg → Prop} {D : Prop}
    {Q : α → pool_state → Prop} {s : pool_state} (h : P m) :
    wpx (wrterror m : Run α) P D Q s := by
  unfold wpx
  exact h

theorem wpx_diverges_i {α : Type} {P : wrterror_msg → Prop} {D : Prop}
    {Q : α → pool_state → Prop} {s : pool_state} (h : D) :
    wpx (diverges : Run α) P D Q s := by
  unfold wpx
  exact h

theorem wpx_undefined_i {α : Type} {P : wrterror_msg → Prop} {D : Prop}
    {Q : α → pool_state → Prop} {s : pool_state} (h : D) :
    wpx (undefined_behaviour : Run α) P D Q s := by
  unfold wpx
  exact h

theorem wpx_ite_i {α : Type} {c : Prop} [Decidable c] {x y : Run α}
    {P : wrterror_msg → Prop} {D : Prop}
    {Q : α → pool_state → Prop} {s : pool_state}
    (h1 : c → wpx x P D Q s) (h2 : ¬ c → wpx y P D Q s) :
    wpx (if c then x else y) P D Q s := by
  by_cases h : c
  · rw [if_pos h]; exact h1 h
  · rw [if_neg h]; exact h2 h

theorem wpx_mono {α : Type} {m : Run α} {P P2 : wrterror_msg → Prop} {D D2 : Prop}
    {Q Q2 : α → pool_state → Prop} {s : pool_state}
    (h : wpx m P D Q s) (hP : ∀ e, P e → P2 e) (hD : D → D2)
    (himp : ∀ a s', Q a s' → Q2 a s') : wpx m P2 D2 Q2 s := by
  unfold wpx at h ⊢
  cases hx : m s with
  | ok p => rw [hx] at h; exact himp _ _ h
  | abort m => rw [hx] at h; exact hP _ h
  | diverge => rw [hx] at h; exact hD h
  | undefined => rw [hx] at h; exact hD h

theorem wpx_lift_outcome_i {α : Type} {x : Outcome α} {P : wrterror_msg → Prop} {D : Prop}
    {Q : α → pool_state → Prop} {s : pool_state}
    (h : ∀ a, x = .ok a → Q a s) (hP : ∀ e, x = .abort e → P e)
    (hD : x = .diverge ∨ x = .undefined → D) : wpx (lift_outcome x) P D Q s := by
  unfold wpx
  have e1 : lift_outcome x s = x.bind (fun a => Outcome.ok (a, s)) := rfl
  rw [e1]
  cases hx : x with
  | ok v => exact h v hx
  | abort m => exact hP m hx
  | diverge => exact hD (Or.inl hx)
  | undefined => exact hD (Or.inr hx)

theorem wpx_env_next_i {P : wrterror_msg → Prop} {D : Prop}
    {Q : Nat → pool_state → Prop} {s : pool_state}
    (h : Q (s.env.headD 0) { s with env := s.env.tail }) : wpx env_next P D Q s := by
  unfold wpx
  exact h

/-- The returns of a run are those that `wp` describes. -/
theorem wpx_with_wp {α : Type} {m : Run α} {P : wrterror_msg → Prop} {D : Prop}
    {Q Q2 : α → pool_state → Prop} {s : pool_state}
    (h : wpx m P D Q s) (h2 : wp m Q2 s) : wpx m P D (fun a s' => Q a s' ∧ Q2 a s') s := by
  unfold wpx at h ⊢
  unfold wp at h2
  cases hx : m s with
  | ok p => rw [hx] at h; exact ⟨h, h2 _ _ hx⟩
  | abort m => rw [hx] at h; exact h
  | diverge => rw [hx] at h; exact h
  | undefined => rw [hx] at h; exact h

theorem wpx_abort {α : Type} {m : Run α} {P : wrterror_msg → Prop} {D : Prop}
    {Q : α → pool_state → Prop} {s : pool_state} {e : wrterror_msg}
    (h : wpx m P D Q s) (hrun : m s = .abort e) : P e := by
  unfold wpx at h
  rw [hrun] at h
  exact h

theorem wpx_run {α : Type} {m : Run α} {P : wrterror_msg → Prop} {D : Prop}
    {Q : α → pool_state → Prop} {s s' : pool_state} {a : α}
    (h : wpx m P D Q s) (hrun : m s = .ok (a, s')) : Q a s' := by
  unfold wpx at h
  rw [hrun] at h
  exact h

/-- A run that can neither return nor go wrong otherwise aborts, with a message of
which `P` holds. -/
theorem wpx_aborts {α : Type} {m : Run α} {P : wrterror_msg → Prop} {s : pool_state}
    (h : wpx m P False (fun _ _ => False) s) : ∃ e, m s = .abort e ∧ P e := by
  unfold wpx at h
  cases hx : m s with
  | ok p => rw [hx] at h; exact absurd h id
  | abort m => rw [hx] at h; exact ⟨m, rfl, h⟩
  | diverge => rw [hx] at h; exact absurd h id
  | undefined => rw [hx] at h; exact absurd h id

/-! ## The user pointer of a large region -/

theorem omalloc_grow_pool_wf {ps : Nat} {mopts : malloc_readonly} {s : pool_state}
    (hwf : dir_wf ps mopts s.d) :
    wp (omalloc_grow_pool ps mopts)
      (fun rc s' => rc = 0 → dir_wf ps mopts s'.d ∧ s'.d.regions_total ≠ 0) s := by
  unfold omalloc_grow_pool
  apply wp_bind_i
  apply wp_get_i
  apply wp_ite_i
  · intro _
    apply wp_pure_i
    intro h; exact absurd h (by decide)
  intro hsmall
  dsimp only
  apply wp_bind_i
  apply wp_any
  intro q s1
  apply wp_ite_i
  · intro _
    apply wp_pure_i
    intro h; exact absurd h (by decide)
  intro _
  apply wp_bind_i
  apply wp_lift_outcome_i
  intro g hg
  obtain ⟨d2, hd2, _, _, hlt, hwf2, _⟩ := omalloc_grow_ok ps mopts s.d hwf (by omega)
  rw [hd2] at hg
  injection hg with hg
  subst hg
  have hfin : ∀ s2 : pool_state, wp (do
      modify (fun s => { s with d := d2, r_addr := q })
      pure 0 : Run Nat) (fun rc s' => rc = 0 → dir_wf ps mopts s'.d ∧ s'.d.regions_total ≠ 0) s2 := by
    intro s2
    apply wp_bind_i
    apply wp_modify_i
    apply wp_pure_i
    intro _
    exact ⟨hwf2, Nat.ne_of_gt (Nat.lt_of_le_of_lt (Nat.zero_le _) hlt)⟩
  apply wp_ite_i
  · intro _
    apply wp_bind_i
    apply wp_any
    intro _ s2
    exact hfin s2
  · intro _
    apply wp_bind_i
    apply wp_pure_i
    exact hfin _

theorem insert_pool_stored {ps p sz f : Nat} {mopts : malloc_readonly} {s : pool_state}
    (hwf : dir_wf ps mopts s.d) :
    wp (insert_pool ps mopts p sz f)
      (fun rc s' => rc = 0 → ∃ idx, slot s'.d.r idx = ⟨p, sz, f⟩) s := by
  unfold insert_pool
  apply wp_bind_i
  apply wp_get_i
  apply wp_bind_i
  apply @wp_mono _ _ (fun rc s' => rc = 0 → dir_wf ps mopts s'.d ∧ s'.d.regions_total ≠ 0)
  · apply wp_ite_i
    · intro _
      exact omalloc_grow_pool_wf hwf
    · intro hn
      apply wp_pure_i
      intro _
      exact ⟨hwf, fun h => hn (Or.inr h)⟩
  intro rc s1 h1
  apply wp_ite_i
  · intro _
    apply wp_pure_i
    intro h; exact absurd h (by decide)
  intro hrc
  obtain ⟨hwf1, hne⟩ := h1 (by omega)
  apply wp_bind_i
  apply wp_get_i
  dsimp only
  obtain ⟨k, hk, ht, hl⟩ := dir_wf_pow ps mopts s1.d hwf1 hne
  have hn : 0 < 2 ^ k := Nat.pow_pos (by norm_num)
  have hfp := hwf1.2.2.2.2.1 hne
  rw [hwf1.2.2.2.1] at hfp
  obtain ⟨idx, i1, i2, _⟩ := insert_probe_spec s1.d.r k (hash ps p &&& (2 ^ k - 1)) hk hl
    (and_mask_lt _ _) (by simpa using hfp)
  rw [ht, dir_mask_eq _ hn (two_pow_lt_64 k hk), i1]
  dsimp only
  apply wp_bind_i
  apply wp_set_i
  apply wp_pure_i
  intro _
  refine ⟨idx, ?_⟩
  unfold slot
  dsimp only
  rw [getD_set_self, if_pos (by rw [hl]; exact i2)]

theorem user_pointer_eq (ps : Nat) (mopts : malloc_readonly) (base sz f : Nat) :
    (if MALLOC_MOVE_COND ps mopts sz = true then MALLOC_MOVE ps mopts base sz else base) =
      user_pointer ps mopts ⟨base, sz, f⟩ := by
  unfold user_pointer MALLOC_MOVE_COND MALLOC_LEEWAY
  simp

theorem dir_wf_of_core {ps : Nat} {mopts : malloc_readonly} {z s : pool_state}
    (h : core_frame z s) (hwf : dir_wf ps mopts z.d) : dir_wf ps mopts s.d := by
  rw [h.1]; exact hwf

/-- `omalloc` of more than `MALLOC_MAXCHUNK` bytes returns the user pointer of the
entry it has put into the directory. -/
theorem omalloc_large_up {ps : Nat} {mopts : malloc_readonly} {n zero_fill f : Nat}
    (hbig : n > MALLOC_MAXCHUNK ps) {s : pool_state} (hwf : dir_wf ps mopts s.d) :
    wp (omalloc ps mopts n zero_fill f)
      (fun a s' => a ≠ 0 → ∃ idx base,
        slot s'.d.r idx = ⟨base, add64 n mopts.malloc_guard, f⟩ ∧
        a = user_pointer ps mopts (slot s'.d.r idx)) s := by
  unfold omalloc
  rw [if_pos hbig]
  apply wp_ite_i
  · intro _
    apply wp_bind_i
    apply wp_modify_i
    apply wp_pure_i
    exact fun h => absurd rfl h
  intro _
  dsimp only
  apply wp_bind_i
  apply keeps_wp s map_core (core_frame_refl s)
  intro base s1 h1
  apply wp_ite_i
  · intro _
    apply wp_bind_i
    apply wp_modify_i
    apply wp_pure_i
    exact fun h => absurd rfl h
  intro _
  apply wp_bind_i
  apply wp_mono (insert_pool_stored (dir_wf_of_core h1 hwf))
  intro rc s2 h2
  apply wp_ite_i
  · intro _
    apply wp_bind_i
    apply wp_any
    intro _ _
    apply wp_bind_i
    apply wp_modify_i
    apply wp_pure_i
    exact fun h => absurd rfl h
  intro hrc
  obtain ⟨idx, hidx⟩ := h2 (by omega)
  have hfin : ∀ s3 : pool_state, core_frame s2 s3 →
      wp (if MALLOC_MOVE_COND ps mopts (add64 n mopts.malloc_guard) = true then
          (pure (MALLOC_MOVE ps mopts base (add64 n mopts.malloc_guard)) : Run Nat)
        else pure base)
        (fun a s' => a ≠ 0 → ∃ idx base,
          slot s'.d.r idx = ⟨base, add64 n mopts.malloc_guard, f⟩ ∧
          a = user_pointer ps mopts (slot s'.d.r idx)) s3 := by
    intro s3 h3
    have e : ∀ a, a = user_pointer ps mopts ⟨base, add64 n mopts.malloc_guard, f⟩ →
        a ≠ 0 → ∃ idx base,
          slot s3.d.r idx = ⟨base, add64 n mopts.malloc_guard, f⟩ ∧
          a = user_pointer ps mopts (slot s3.d.r idx) := by
      intro a ha _
      refine ⟨idx, base, ?_, ?_⟩
      · rw [h3.1]; exact hidx
      · rw [h3.1, hidx]; exact ha
    apply wp_ite_i
    · intro hc
      apply wp_pure_i
      apply e
      rw [← user_pointer_eq, if_pos hc]
    · intro hc
      apply wp_pure_i
      apply e
      rw [← user_pointer_eq, if_neg hc]
  apply wp_ite_i
  · intro _
    apply wp_bind_i
    apply keeps_wp s2 os_mprotect_core (core_frame_refl s2)
    intro prot s3 h3
    apply wp_ite_i
    · intro _
      apply wp_bind_i
      exact wp_wrterror_i
    · intro _
      apply wp_bind_i
      apply wp_pure_i
      exact hfin s3 h3
  · intro _
    apply wp_bind_i
    apply wp_pure_i
    exact hfin s2 (core_frame_refl s2)

theorem mapalign_core {ps alignment sz zero_fill : Nat} {mopts : malloc_readonly} :
    keeps core_frame (mapalign ps mopts alignment sz zero_fill) := by
  unfold mapalign mapalign_trim
  repeat' first
    | with_reducible apply keeps_ite
    | with_reducible apply keeps_bind
    | with_reducible exact keeps_pure
    | with_reducible exact keeps_wrterror
    | with_reducible exact map_core
    | with_reducible exact os_munmap_core
    | intro _

/-- `omemalign` for a request that is not served from a chunk page returns the user
pointer of the entry it has put into the directory. -/
theorem omemalign_large_up {ps : Nat} {mopts : malloc_readonly}
    {alignment sz zero_fill f : Nat} (hps5 : 5 ≤ ps) (hps : ps ≤ 62)
    (hg : mopts.malloc_guard = 0 ∨ mopts.malloc_guard = MALLOC_PAGESIZE ps)
    (hlarge : MALLOC_PAGESIZE ps < alignment ∨ MALLOC_MAXCHUNK ps < sz)
    {s : pool_state} (hwf : dir_wf ps mopts s.d) :
    wp (omemalign ps mopts alignment sz zero_fill f)
      (fun a s' => a ≠ 0 → ∃ idx base size,
        slot s'.d.r idx = ⟨base, size, f⟩ ∧
        a = user_pointer ps mopts (slot s'.d.r idx)) s := by
  have hP := MALLOC_PAGESIZE_eq ps
  have hM := MALLOC_MAXCHUNK_eq ps
  have hMP : MALLOC_MAXCHUNK ps < MALLOC_PAGESIZE ps := by
    rw [hP, hM]; exact Nat.pow_lt_pow_right (by norm_num) (by omega)
  obtain ⟨hlim, hgle, hle⟩ := limit_eq hps hg
  unfold omemalign
  dsimp only
  apply wp_ite_i
  · intro hal
    have hsz : MALLOC_MAXCHUNK ps < sz := by
      rcases hlarge with h | h
      · omega
      · exact h
    have h1 : MALLOC_PAGESIZE ps ≤
        (if sz > MALLOC_MAXCHUNK ps ∧ sz < MALLOC_PAGESIZE ps then MALLOC_PAGESIZE ps
          else sz) := by
      split <;> omega
    generalize (if sz > MALLOC_MAXCHUNK ps ∧ sz < MALLOC_PAGESIZE ps then MALLOC_PAGESIZE ps
          else sz) = sz1 at h1 ⊢
    rw [if_neg (by omega : ¬ sz1 < alignment), if_neg (by omega : ¬ sz1 < MALLOC_PAGESIZE ps)]
    apply wp_mono (omalloc_large_up (by omega) hwf)
    intro a s1 h ha
    obtain ⟨idx, base, h1, h2⟩ := h ha
    exact ⟨idx, base, _, h1, h2⟩
  intro hal
  generalize (if sz > MALLOC_MAXCHUNK ps ∧ sz < MALLOC_PAGESIZE ps then MALLOC_PAGESIZE ps
        else sz) = sz1
  apply wp_ite_i
  · intro _
    apply wp_bind_i
    apply wp_modify_i
    apply wp_pure_i
    exact fun h => absurd rfl h
  intro hlimit
  rw [hlim] at hlimit
  have h2 : MALLOC_PAGESIZE ps ≤
      (if sz1 < MALLOC_PAGESIZE ps then MALLOC_PAGESIZE ps else sz1) := by
    split <;> omega
  have h3 : (if sz1 < MALLOC_PAGESIZE ps then MALLOC_PAGESIZE ps else sz1) +
      mopts.malloc_guard < 2 ^ 64 := by
    split <;> omega
  generalize (if sz1 < MALLOC_PAGESIZE ps then MALLOC_PAGESIZE ps else sz1) = sz2 at h2 h3 ⊢
  apply wp_bind_i
  apply keeps_wp s mapalign_core (core_frame_refl s)
  intro p s1 h1
  apply wp_ite_i
  · intro _
    apply wp_bind_i
    apply wp_modify_i
    apply wp_pure_i
    exact fun h => absurd rfl h
  intro _
  apply wp_bind_i
  apply wp_mono (insert_pool_stored (dir_wf_of_core h1 hwf))
  intro rc s2 hs2
  apply wp_ite_i
  · intro _
    apply wp_bind_i
    apply wp_any
    intro _ _
    apply wp_bind_i
    apply wp_modify_i
    apply wp_pure_i
    exact fun h => absurd rfl h
  intro hrc
  obtain ⟨idx, hidx⟩ := hs2 (by omega)
  have hup : user_pointer ps mopts ⟨p, add64 sz2 mopts.malloc_guard, f⟩ = p := by
    unfold user_pointer
    dsimp only
    rw [add64_eq _ _ (by omega), sub64_eq _ _ (by omega) (by omega), if_neg (by omega)]
  have hfin : ∀ s3 : pool_state, core_frame s2 s3 →
      p ≠ 0 → ∃ idx base size,
        slot s3.d.r idx = ⟨base, size, f⟩ ∧
        p = user_pointer ps mopts (slot s3.d.r idx) := by
    intro s3 h3 _
    refine ⟨idx, p, add64 sz2 mopts.malloc_guard, ?_, ?_⟩
    · rw [h3.1]; exact hidx
    · rw [h3.1, hidx]; exact hup.symm
  apply wp_ite_i
  · intro _
    apply wp_bind_i
    apply keeps_wp s2 os_mprotect_core (core_frame_refl s2)
    intro prot s3 h3
    apply wp_ite_i
    · intro _
      apply wp_bind_i
      exact wp_wrterror_i
    · intro _
      apply wp_bind_i
      apply wp_pure_i
      apply wp_pure_i
      exact hfin s3 h3
  · intro _
    apply wp_bind_i
    apply wp_pure_i
    apply wp_pure_i
    exact hfin s2 (core_frame_refl s2)

theorem os_mmap_fixed_core {ps a sz : Nat} :
    keeps core_frame (os_mmap_fixed ps a sz) := by
  unfold os_mmap_fixed
  apply keeps_intro
  intro z s Q h hQ
  repeat' first
    | with_reducible apply wp_ite_i
    | with_reducible apply wp_bind_i
    | with_reducible apply wp_env_next_i
    | with_reducible apply wp_get_i
    | with_reducible apply wp_set_i
    | with_reducible apply wp_pure_i
    | with_reducible exact hQ _ _ h
    | intro _

theorem PAGEROUND_bounds (ps x : Nat) (hps : ps ≤ 64) (hx : x + 2 ^ ps ≤ 2 ^ 64) :
    x ≤ PAGEROUND ps x ∧ PAGEROUND ps x < x + 2 ^ ps ∧ ∃ q, PAGEROUND ps x = 2 ^ ps * q := by
  have hpos : 0 < 2 ^ ps := Nat.pow_pos (by norm_num)
  rw [PAGEROUND_eq ps x hps, Nat.mod_eq_of_lt (by omega)]
  have h1 := Nat.div_add_mod (x + (2 ^ ps - 1)) (2 ^ ps)
  have h2 := Nat.mod_lt (x + (2 ^ ps - 1)) hpos
  rw [Nat.mul_comm] at h1
  refine ⟨by omega, by omega, (x + (2 ^ ps - 1)) / 2 ^ ps, Nat.mul_comm _ _⟩

theorem mult_gap (m a b : Nat) (h : m * a < m * b) : m * a + m ≤ m * b := by
  have : a < b := Nat.lt_of_mul_lt_mul_left h
  calc m * a + m = m * (a + 1) := by ring
    _ ≤ m * b := Nat.mul_le_mul_left _ this

/-- The in-place branches of `orealloc` keep the user pointer of the region: the
pointer they return is the user pointer of the entry as they leave it. -/
theorem orealloc_pages_up {ps : Nat} {mopts : malloc_readonly} {ri p newsz f : Nat}
    {s : pool_state} (hps5 : 5 ≤ ps) (hps : ps ≤ 62)
    (hg : mopts.malloc_guard = 0 ∨ mopts.malloc_guard = MALLOC_PAGESIZE ps)
    (hri : ri < s.d.r.length)
    (hp : p = user_pointer ps mopts (slot s.d.r ri))
    (hgold1 : mopts.malloc_guard ≤ (slot s.d.r ri).size)
    (hgold2 : MALLOC_MAXCHUNK ps < sub64 (slot s.d.r ri).size mopts.malloc_guard)
    (hgold3 : (slot s.d.r ri).size + MALLOC_PAGESIZE ps ≤ 2 ^ 64)
    (hnew1 : MALLOC_MAXCHUNK ps < newsz)
    (hnew2 : newsz < sub64 (sub64 SIZE_MAX mopts.malloc_guard) (MALLOC_PAGESIZE ps)) :
    wp (orealloc_pages ps mopts ri p (slot s.d.r ri).size (add64 newsz mopts.malloc_guard) f)
      (fun r s' => ∀ ret, r = some ret →
        ret = user_pointer ps mopts (slot s'.d.r ri) ∧
        (slot s'.d.r ri).p = (slot s.d.r ri).p) s := by
  have hP := MALLOC_PAGESIZE_eq ps
  have hM := MALLOC_MAXCHUNK_eq ps
  have hpos : 0 < 2 ^ ps := Nat.pow_pos (by norm_num)
  have hMP : 0 < MALLOC_MAXCHUNK ps := by rw [hM]; exact Nat.pow_pos (by norm_num)
  obtain ⟨hlim, hgle, hle⟩ := limit_eq hps hg
  rw [hlim] at hnew2
  rw [hP] at hgold3
  have hadd : add64 newsz mopts.malloc_guard = newsz + mopts.malloc_guard :=
    add64_eq _ _ (by omega)
  rw [sub64_eq _ _ (by omega) hgold1] at hgold2
  obtain ⟨o1, o2, qo, o3⟩ := PAGEROUND_bounds ps (slot s.d.r ri).size (by omega) hgold3
  obtain ⟨n1, n2, qn, n3⟩ := PAGEROUND_bounds ps (newsz + mopts.malloc_guard) (by omega)
    (by omega)
  have hupold : ¬ (slot s.d.r ri).size - mopts.malloc_guard < 2 ^ ps → p = (slot s.d.r ri).p := by
    intro h
    rw [hp]
    unfold user_pointer
    rw [sub64_eq _ _ (by omega) hgold1, hP, if_neg h]
  have tail : ∀ (s1 : pool_state) (ret : Nat), s1.d = s.d →
      ret = user_pointer ps mopts
        ⟨(slot s.d.r ri).p, newsz + mopts.malloc_guard, f⟩ →
      wp (do
        set_region_size ri (newsz + mopts.malloc_guard)
        STATS_SETF ri f
        pure (some ret) : Run (Option Nat))
      (fun r s' => ∀ ret, r = some ret →
        ret = user_pointer ps mopts (slot s'.d.r ri) ∧
        (slot s'.d.r ri).p = (slot s.d.r ri).p) s1 := by
    intro s1 ret h1 hret
    unfold set_region_size STATS_SETF
    apply wp_bind_i
    apply wp_modify_i
    apply wp_bind_i
    apply wp_modify_i
    apply wp_pure_i
    intro ret2 e
    injection e with e
    subst e
    have hs : slot ((s1.d.r.set ri { slot s1.d.r ri with size := newsz + mopts.malloc_guard }).set ri
        { slot (s1.d.r.set ri { slot s1.d.r ri with size := newsz + mopts.malloc_guard }) ri
          with f := f }) ri =
        ⟨(slot s.d.r ri).p, newsz + mopts.malloc_guard, f⟩ := by
      unfold slot
      rw [getD_set_self, if_pos (by rw [List.length_set, h1]; exact hri), getD_set_self,
        if_pos (by rw [h1]; exact hri), h1]
    dsimp only
    rw [hs]
    exact ⟨hret, rfl⟩
  unfold orealloc_pages
  rw [hadd]
  apply wp_bind_i
  apply wp_get_i
  dsimp only
  rw [o3, n3]
  rw [o3] at o1 o2
  rw [n3] at n1 n2
  rw [hM] at hgold2 hnew1
  have hMP2 : 2 ^ (ps - 1) < 2 ^ ps := Nat.pow_lt_pow_right (by norm_num) (by omega)
  clear hlim hadd
  apply wp_ite_i
  · intro _
    apply wp_pure_i
    intro ret e
    injection e with e
    subst e
    exact ⟨hp, rfl⟩
  intro _
  apply wp_ite_i
  · intro hgt
    apply wp_ite_i
    · intro hg0
      apply wp_bind_i
      apply keeps_wp s os_mmap_fixed_core (core_frame_refl s)
      intro q s1 h1
      apply wp_ite_i
      · intro _
        apply tail s1 _ h1.1
        have hb := mult_gap _ _ _ hgt
        have hq0 : 2 ^ ps * qo ≠ 0 := by omega
        have hq1 : 2 ^ ps ≤ 2 ^ ps * qo := by
          rcases Nat.eq_zero_or_pos qo with h | h
          · rw [h] at hq0; exact absurd rfl hq0
          · exact Nat.le_mul_of_pos_right _ h
        have hu : user_pointer ps mopts
            ⟨(slot s.d.r ri).p, newsz + mopts.malloc_guard, f⟩ = (slot s.d.r ri).p := by
          unfold user_pointer
          dsimp only
          rw [sub64_eq (newsz + mopts.malloc_guard) mopts.malloc_guard (by omega) (by omega),
            hP, if_neg (by omega)]
        rw [hu]
        by_cases hc : (slot s.d.r ri).p ≠ p
        · rw [if_pos hc]
        · rw [if_neg hc]
          exact (not_not.mp hc).symm
      · intro _
        apply wp_pure_i
        intro ret e
        exact Option.noConfusion e
    · intro _
      apply wp_pure_i
      intro ret e
      exact Option.noConfusion e
  intro _
  apply wp_ite_i
  · intro hlt
    have hb := mult_gap _ _ _ hlt
    have hfin : ∀ s1 : pool_state, s1.d = s.d → wp (do
        let rc ← os_munmap (add64 (slot s.d.r ri).p (2 ^ ps * qn))
          (sub64 (2 ^ ps * qo) (2 ^ ps * qn))
        if rc ≠ 0 then wrterror .munmap
        set_region_size ri (newsz + mopts.malloc_guard)
        STATS_SETF ri f
        pure (some (if MALLOC_MOVE_COND ps mopts (newsz + mopts.malloc_guard) then
          MALLOC_MOVE ps mopts (slot s.d.r ri).p (newsz + mopts.malloc_guard) else p)) :
          Run (Option Nat))
        (fun r s' => ∀ ret, r = some ret →
          ret = user_pointer ps mopts (slot s'.d.r ri) ∧
          (slot s'.d.r ri).p = (slot s.d.r ri).p) s1 := by
      intro s1 h1
      apply wp_bind_i
      apply keeps_wp s1 os_munmap_core (core_frame_refl s1)
      intro rc s2 h2
      apply wp_ite_i
      · intro _
        apply wp_bind_i
        exact wp_wrterror_i
      · intro _
        apply wp_bind_i
        apply wp_pure_i
        apply tail s2 _ (h2.1.trans h1)
        rw [← user_pointer_eq]
        by_cases hc : MALLOC_MOVE_COND ps mopts (newsz + mopts.malloc_guard) = true
        · rw [if_pos hc, if_pos hc]
        · rw [if_neg hc, if_neg hc]
          have hc2 : ¬ newsz < 2 ^ ps := by
            intro h
            apply hc
            unfold MALLOC_MOVE_COND MALLOC_LEEWAY
            rw [sub64_eq (newsz + mopts.malloc_guard) mopts.malloc_guard (by omega) (by omega),
              hP]
            simp only [decide_eq_true_eq]
            omega
          exact hupold (by omega)
    apply wp_ite_i
    · intro _
      apply wp_bind_i
      apply keeps_wp s os_mprotect_core (core_frame_refl s)
      intro rc s1 h1
      apply wp_ite_i
      · intro _
        apply wp_bind_i
        exact wp_wrterror_i
      · intro _
        apply wp_bind_i
        apply wp_pure_i
        exact hfin s1 h1.1
    · intro _
      apply wp_bind_i
      apply wp_pure_i
      exact hfin s rfl
  · intro _
    apply tail s _ rfl
    rw [← user_pointer_eq]

theorem wpx_bind_run {α β : Type} {x : Run α} {f : α → Run β} {P : wrterror_msg → Prop}
    {D : Prop} {Q : β → pool_state → Prop} {s s1 : pool_state} {a : α}
    (hx : x s = .ok (a, s1)) (h : wpx (f a) P D Q s1) : wpx (x >>= f) P D Q s := by
  apply wpx_bind_i
  unfold wpx at h ⊢
  rw [hx]
  exact h

theorem delete_abort {ps i : Nat} {d : dir_info} {e : wrterror_msg}
    (h : delete ps d i = .abort e) : e = .regions_total_not_2x := by
  unfold delete at h
  dsimp only at h
  split at h
  · injection h with h; exact h.symm
  · split at h <;> exact Outcome.noConfusion h

/-- The messages of `unmap` and `delete` are not those of a pointer that `ofree`
rejects. -/
theorem unmap_aborts {ps p sz clear : Nat} {mopts : malloc_readonly} {s : pool_state}
    {P : wrterror_msg → Prop} (h1 : P .munmap_round) (h2 : P .munmap) (h3 : P .mprotect)
    (h4 : P .write_after_free) :
    wpx (unmap ps mopts p sz clear) P True (fun _ _ => True) s := by
  unfold unmap unmap_big unmap_small validate_junk os_munmap os_mprotect getrbyte
  repeat' first
    | with_reducible apply wpx_ite_i
    | with_reducible apply wpx_bind_i
    | with_reducible apply wpx_env_next_i
    | with_reducible apply wpx_pure_i
    | with_reducible apply wpx_get_i
    | with_reducible apply wpx_set_i
    | with_reducible apply wpx_modify_i
    | with_reducible exact wpx_wrterror_i h1
    | with_reducible exact wpx_wrterror_i h2
    | with_reducible exact wpx_wrterror_i h3
    | with_reducible exact wpx_wrterror_i h4
    | with_reducible exact wpx_undefined_i trivial
    | with_reducible exact trivial
    | intro _
    | split
    | dsimp only

theorem delete_pool_aborts {ps ri : Nat} {s : pool_state}
    {P : wrterror_msg → Prop} (h1 : P .regions_total_not_2x) :
    wpx (delete_pool ps ri) P True (fun _ _ => True) s := by
  unfold delete_pool
  apply wpx_bind_i
  apply wpx_get_i
  apply wpx_bind_i
  apply wpx_lift_outcome_i
  · intro d _
    apply wpx_set_i
    trivial
  · intro e he
    rw [delete_abort he]
    exact h1
  · intro _
    trivial

/-- `ofree` of the user pointer of a large region gets past the two checks of the
pointer against the directory entry. -/
theorem ofree_large_accepts {ps ri p sz clear argsz : Nat} {mopts : malloc_readonly}
    {s : pool_state} (hp : p = user_pointer ps mopts (slot s.d.r ri))
    (hsz : sz = (slot s.d.r ri).size) :
    wpx (ofree_large ps mopts ri p sz clear argsz)
      (fun e => e ≠ .bogus_pointer ∧ e ≠ .bogus_moved_pointer) True (fun _ _ => True) s := by
  have hup : p = if MALLOC_MOVE_COND ps mopts sz = true then
      MALLOC_MOVE ps mopts (slot s.d.r ri).p sz else (slot s.d.r ri).p := by
    rw [hp, hsz, user_pointer_eq ps mopts _ _ (slot s.d.r ri).f]
  unfold ofree_large os_mprotect validate_canary
  apply wpx_bind_i
  apply wpx_get_i
  dsimp only
  apply wpx_bind_i
  by_cases hc : MALLOC_MOVE_COND ps mopts sz = true
  on_goal 1 =>
    rw [if_pos hc] at hup
    rw [if_neg (by simpa using hc), if_neg (fun h => h hup)]
  on_goal 2 =>
    rw [if_neg hc] at hup
    rw [if_pos (by simpa using hc), if_neg (fun h => h hup.symm)]
  all_goals
    repeat' first
      | with_reducible apply wpx_ite_i
      | with_reducible apply wpx_bind_i
      | with_reducible apply wpx_env_next_i
      | with_reducible apply wpx_pure_i
      | with_reducible apply wpx_modify_i
      | with_reducible exact wpx_wrterror_i (by decide)
      | with_reducible exact wpx_mono (unmap_aborts (P := fun e => e ≠ .bogus_pointer ∧ e ≠ .bogus_moved_pointer) (by decide) (by decide) (by decide) (by decide)) (fun _ h => h) id (fun _ _ _ => delete_pool_aborts (by decide))
      | intro _

theorem ofree_accepts {ps p clear check argsz ri : Nat} {mopts : malloc_readonly}
    {s : pool_state} (hfind : find ps mopts s.d p = .ok (some ri))
    (htag : (slot s.d.r ri).p &&& MALLOC_PAGEMASK ps = 0)
    (hbig : MALLOC_MAXCHUNK ps < (slot s.d.r ri).size)
    (hp : p = user_pointer ps mopts (slot s.d.r ri)) :
    wpx (ofree ps mopts p clear check argsz)
      (fun e => e ≠ .bogus_pointer ∧ e ≠ .bogus_moved_pointer) True (fun _ _ => True) s := by
  have hreal : REALSIZE ps (slot s.d.r ri) = (slot s.d.r ri).size := by
    unfold REALSIZE
    simp only [htag, if_true]
  unfold ofree
  apply wpx_bind_run (findpool_run hfind)
  apply wpx_bind_i
  apply wpx_get_i
  dsimp only
  rw [hreal, if_neg (by omega : ¬ (slot s.d.r ri).size ≤ MALLOC_MAXCHUNK ps)]
  repeat' first
    | rw [if_pos hbig]
    | with_reducible apply wpx_ite_i
    | with_reducible apply wpx_bind_i
    | with_reducible apply wpx_pure_i
    | with_reducible exact wpx_wrterror_i (by decide)
    | with_reducible exact ofree_large_accepts hp rfl
    | intro _

/-- C39: with the guard off or of one page, the user pointer of a large region with
the directory entry `(base, size)` is `MALLOC_MOVE(base, size)` when
`size - guard < PAGESIZE` and `base` otherwise.  `omalloc` of more than
`MALLOC_MAXCHUNK` bytes and `omemalign` of a request not served from a chunk page
return the user pointer of the entry they have stored; each in-place branch of
`orealloc` on a region that was handed out as its user pointer returns the user
pointer of the entry as it leaves it, with the base unchanged; and `ofree` of the user
pointer of an entry that `find` gives never aborts with `bogus pointer` or
`bogus moved pointer`. -/
theorem user_pointer_invariant (ps : Nat) (mopts : malloc_readonly) (hps5 : 5 ≤ ps)
    (hps : ps ≤ 62)
    (hg : mopts.malloc_guard = 0 ∨ mopts.malloc_guard = MALLOC_PAGESIZE ps) :
    (∀ (n zero_fill f : Nat) (s : pool_state) (a : Nat) (s' : pool_state),
      MALLOC_MAXCHUNK ps < n → dir_wf ps mopts s.d →
      omalloc ps mopts n zero_fill f s = .ok (a, s') → a ≠ 0 →
      ∃ idx base, slot s'.d.r idx = ⟨base, add64 n mopts.malloc_guard, f⟩ ∧
        a = user_pointer ps mopts (slot s'.d.r idx)) ∧
    (∀ (alignment sz zero_fill f : Nat) (s : pool_state) (a : Nat) (s' : pool_state),
      (MALLOC_PAGESIZE ps < alignment ∨ MALLOC_MAXCHUNK ps < sz) → dir_wf ps mopts s.d →
      omemalign ps mopts alignment sz zero_fill f s = .ok (a, s') → a ≠ 0 →
      ∃ idx base size, slot s'.d.r idx = ⟨base, size, f⟩ ∧
        a = user_pointer ps mopts (slot s'.d.r idx)) ∧
    (∀ (ri p newsz f : Nat) (s : pool_state) (ret : Nat) (s' : pool_state),
      ri < s.d.r.length → p = user_pointer ps mopts (slot s.d.r ri) →
      mopts.malloc_guard ≤ (slot s.d.r ri).size →
      MALLOC_MAXCHUNK ps < sub64 (slot s.d.r ri).size mopts.malloc_guard →
      (slot s.d.r ri).size + MALLOC_PAGESIZE ps ≤ 2 ^ 64 →
      MALLOC_MAXCHUNK ps < newsz →
      newsz < sub64 (sub64 SIZE_MAX mopts.malloc_guard) (MALLOC_PAGESIZE ps) →
      orealloc_pages ps mopts ri p (slot s.d.r ri).size (add64 newsz mopts.malloc_guard) f s =
        .ok (some ret, s') →
      ret = user_pointer ps mopts (slot s'.d.r ri) ∧
        (slot s'.d.r ri).p = (slot s.d.r ri).p) ∧
    (∀ (p clear check argsz ri : Nat) (s : pool_state) (e : wrterror_msg),
      find ps mopts s.d p = .ok (some ri) →
      (slot s.d.r ri).p &&& MALLOC_PAGEMASK ps = 0 →
      MALLOC_MAXCHUNK ps < (slot s.d.r ri).size →
      p = user_pointer ps mopts (slot s.d.r ri) →
      ofree ps mopts p clear check argsz s = .abort e →
      e ≠ .bogus_pointer ∧ e ≠ .bogus_moved_pointer) := by
  refine ⟨?_, ?_, ?_, ?_⟩
  · intro n zero_fill f s a s' hn hwf hrun ha
    exact wp_run (omalloc_large_up hn hwf) hrun ha
  · intro alignment sz zero_fill f s a s' hl hwf hrun ha
    exact wp_run (omemalign_large_up hps5 hps hg hl hwf) hrun ha
  · intro ri p newsz f s ret s' hri hp h1 h2 h3 h4 h5 hrun
    exact wp_run (orealloc_pages_up hps5 hps hg hri hp h1 h2 h3 h4 h5) hrun ret rfl
  · intro p clear check argsz ri s e hfind htag hbig hp hrun
    exact wpx_abort (ofree_accepts hfind htag hbig hp) hrun

set_option maxRecDepth 1000000 in
/-- In `example_pool`, `omalloc` of 3000 bytes returns `0x13f000 + 1088`, the user
pointer of the entry it has stored. -/
theorem user_pointer_invariant_witness :
    (5 ≤ 12 ∧ 12 ≤ 62 ∧ ((default_mopts 7).malloc_guard = 0 ∨
      (default_mopts 7).malloc_guard = MALLOC_PAGESIZE 12)) ∧
    returned (omalloc 12 (default_mopts 7) 3000 0 0 example_pool) = some 0x13f440 ∧
    ∃ idx base,
      slot example_pool_3000.d.r idx = ⟨base, add64 3000 (default_mopts 7).malloc_guard, 0⟩ ∧
      0x13f440 = user_pointer 12 (default_mopts 7) (slot example_pool_3000.d.r idx) := by
  have h1 : returned (omalloc 12 (default_mopts 7) 3000 0 0 example_pool) = some 0x13f440 := by
    decide
  exact ⟨⟨by decide, by decide, by decide⟩, h1,
    (user_pointer_invariant 12 (default_mopts 7) (by decide) (by decide) (by decide)).1
      3000 0 0 example_pool 0x13f440 example_pool_3000 (by decide) example_dir_wf
      (run_of_returned example_pool h1) (by decide)⟩

/-! ## realloc of a region to more pages -/

theorem os_mmap_fixed_tot {ps a sz : Nat} {s : pool_state} {Q : Nat → pool_state → Prop}
    (hw : s.env.headD 0 ≠ 0) (hfree : mmap_free ps s.mapped a sz = true)
    (h : Q a { s with env := s.env.tail, mapped := page_list ps a sz ++ s.mapped }) :
    tot (os_mmap_fixed ps a sz) Q s := by
  unfold os_mmap_fixed
  apply tot_bind_i
  apply tot_env_next_i
  apply tot_bind_i
  apply tot_get_i
  dsimp only
  rw [if_pos ⟨hw, hfree⟩]
  apply tot_bind_i
  apply tot_set_i
  apply tot_pure_i
  exact h

theorem os_mmap_fixed_fails {ps a sz : Nat} {s : pool_state}
    (hfail : ¬ (s.env.headD 0 ≠ 0 ∧ mmap_free ps s.mapped a sz = true)) :
    wp (os_mmap_fixed ps a sz) (fun q s' => q = MAP_FAILED ∧ core_frame s s' ∧
      s'.mapped = s.mapped ∧ s'.smallcache = s.smallcache ∧ s'.bigcache = s.bigcache ∧
      s'.bigcache_used = s.bigcache_used ∧ s'.bigcache_size = s.bigcache_size) s := by
  unfold os_mmap_fixed
  apply wp_bind_i
  apply wp_env_next_i
  apply wp_bind_i
  apply wp_get_i
  dsimp only
  rw [if_neg hfail]
  apply wp_bind_i
  apply wp_set_i
  apply wp_pure_i
  exact ⟨rfl, ⟨rfl, rfl, rfl, rfl, rfl, rfl, rfl, rfl⟩, rfl, rfl, rfl, rfl, rfl⟩

theorem set_set_slot (r : List region_info) (ri sz f : Nat) (hri : ri < r.length) :
    (r.set ri { slot r ri with size := sz }).set ri
      { slot (r.set ri { slot r ri with size := sz }) ri with f := f } =
      r.set ri ⟨(slot r ri).p, sz, f⟩ := by
  have h : slot (r.set ri { slot r ri with size := sz }) ri = { slot r ri with size := sz } := by
    unfold slot
    rw [getD_set_self, if_pos hri]
  rw [h, List.set_set]

/-- The cheap expansion of `orealloc`: when the kernel maps the pages behind the
region, the entry keeps its key, records the new size, and the key is returned. -/
theorem orealloc_pages_grow {ps : Nat} {mopts : malloc_readonly} {ri p goldsz gnewsz f : Nat}
    {s : pool_state} (hg0 : mopts.malloc_guard = 0) (hri : ri < s.d.r.length)
    (hgrow : PAGEROUND ps goldsz < PAGEROUND ps gnewsz)
    (hw : s.env.headD 0 ≠ 0)
    (hfree : mmap_free ps s.mapped (add64 (slot s.d.r ri).p (PAGEROUND ps goldsz))
      (sub64 (PAGEROUND ps gnewsz) (PAGEROUND ps goldsz)) = true) :
    tot (orealloc_pages ps mopts ri p goldsz gnewsz f)
      (fun r s' => r = some (slot s.d.r ri).p ∧
        s'.d = { s.d with r := s.d.r.set ri ⟨(slot s.d.r ri).p, gnewsz, f⟩ } ∧
        s'.errno = s.errno) s := by
  unfold orealloc_pages
  apply tot_bind_i
  apply tot_get_i
  dsimp only
  rw [if_neg (by omega), if_pos hgrow, if_pos hg0]
  apply tot_bind_i
  apply os_mmap_fixed_tot hw hfree
  rw [if_pos rfl]
  unfold set_region_size STATS_SETF
  apply tot_bind_i
  apply tot_modify_i
  apply tot_bind_i
  apply tot_modify_i
  apply tot_pure_i
  refine ⟨?_, ?_, rfl⟩
  · by_cases hc : (slot s.d.r ri).p ≠ p
    · rw [if_pos hc]
    · rw [if_neg hc]; rw [not_not.mp hc]
  · dsimp only
    rw [set_set_slot _ _ _ _ hri]

theorem omalloc_grow_pool_dir {ps : Nat} {mopts : malloc_readonly} {s : pool_state}
    (hwf : dir_wf ps mopts s.d) :
    wp (omalloc_grow_pool ps mopts)
      (fun rc s' => rc = 0 → omalloc_grow ps s.d true = .ok (0, s'.d)) s := by
  unfold omalloc_grow_pool
  apply wp_bind_i
  apply wp_get_i
  apply wp_ite_i
  · intro _
    apply wp_pure_i
    intro h; exact absurd h (by decide)
  intro hsmall
  dsimp only
  apply wp_bind_i
  apply wp_any
  intro q s1
  apply wp_ite_i
  · intro _
    apply wp_pure_i
    intro h; exact absurd h (by decide)
  intro _
  apply wp_bind_i
  apply wp_lift_outcome_i
  intro g hg
  obtain ⟨d2, hd2, _⟩ := omalloc_grow_ok ps mopts s.d hwf (by omega)
  rw [hd2] at hg
  injection hg with hg
  subst hg
  have hfin : ∀ s2 : pool_state, wp (do
      modify (fun s => { s with d := d2, r_addr := q })
      pure 0 : Run Nat) (fun rc s' => rc = 0 → omalloc_grow ps s.d true = .ok (0, s'.d)) s2 := by
    intro s2
    apply wp_bind_i
    apply wp_modify_i
    apply wp_pure_i
    intro _
    exact hd2
  apply wp_ite_i
  · intro _
    apply wp_bind_i
    apply wp_any
    intro _ s2
    exact hfin s2
  · intro _
    apply wp_bind_i
    apply wp_pure_i
    exact hfin _

/-- A successful `insert` on the directory of the pool is the `insert` of the
directory functions. -/
theorem insert_pool_insert {ps p sz f : Nat} {mopts : malloc_readonly} {s : pool_state}
    (hwf : dir_wf ps mopts s.d) :
    wp (insert_pool ps mopts p sz f)
      (fun rc s' => rc = 0 → insert ps s.d p sz f true = .ok (0, s'.d)) s := by
  unfold insert_pool
  apply wp_bind_i
  apply wp_get_i
  by_cases hneed : s.d.regions_free * 4 % 2 ^ 64 < s.d.regions_total ∨ s.d.regions_total = 0
  · rw [if_pos hneed]
    apply wp_bind_i
    apply wp_mono (omalloc_grow_pool_dir hwf)
    intro rc s1 h1
    apply wp_ite_i
    · intro _
      apply wp_pure_i
      intro h; exact absurd h (by decide)
    intro hrc
    have hg := h1 (by omega)
    apply wp_bind_i
    apply wp_get_i
    dsimp only
    split
    · exact wp_diverges_i
    · rename_i idx hidx
      apply wp_bind_i
      apply wp_set_i
      apply wp_pure_i
      intro _
      unfold insert
      simp only [hneed, if_true, hg, hidx]
  · rw [if_neg hneed]
    apply wp_bind_i
    apply wp_pure_i
    rw [if_neg (by simp)]
    apply wp_bind_i
    apply wp_get_i
    dsimp only
    split
    · exact wp_diverges_i
    · rename_i idx hidx
      apply wp_bind_i
      apply wp_set_i
      apply wp_pure_i
      intro _
      unfold insert
      simp only [hneed, if_false, hidx]

/-- `omalloc` of more than `MALLOC_MAXCHUNK` bytes, when it returns a pointer, has put
the entry of its region into the directory with `insert`. -/
theorem omalloc_large_insert {ps : Nat} {mopts : malloc_readonly} {n zero_fill f : Nat}
    (hbig : n > MALLOC_MAXCHUNK ps) {s : pool_state} (hwf : dir_wf ps mopts s.d) :
    wp (omalloc ps mopts n zero_fill f)
      (fun a s' => a ≠ 0 → ∃ base,
        a = user_pointer ps mopts ⟨base, add64 n mopts.malloc_guard, f⟩ ∧
        insert ps s.d base (add64 n mopts.malloc_guard) f true = .ok (0, s'.d)) s := by
  unfold omalloc
  rw [if_pos hbig]
  apply wp_ite_i
  · intro _
    apply wp_bind_i
    apply wp_modify_i
    apply wp_pure_i
    exact fun h => absurd rfl h
  intro _
  dsimp only
  apply wp_bind_i
  apply keeps_wp s map_core (core_frame_refl s)
  intro base s1 h1
  apply wp_ite_i
  · intro _
    apply wp_bind_i
    apply wp_modify_i
    apply wp_pure_i
    exact fun h => absurd rfl h
  intro _
  apply wp_bind_i
  apply wp_mono (insert_pool_insert (dir_wf_of_core h1 hwf))
  intro rc s2 h2
  apply wp_ite_i
  · intro _
    apply wp_bind_i
    apply wp_any
    intro _ _
    apply wp_bind_i
    apply wp_modify_i
    apply wp_pure_i
    exact fun h => absurd rfl h
  intro hrc
  have hins := h2 (by omega)
  rw [h1.1] at hins
  have hfin : ∀ s3 : pool_state, core_frame s2 s3 →
      wp (if MALLOC_MOVE_COND ps mopts (add64 n mopts.malloc_guard) = true then
          (pure (MALLOC_MOVE ps mopts base (add64 n mopts.malloc_guard)) : Run Nat)
        else pure base)
        (fun a s' => a ≠ 0 → ∃ base,
          a = user_pointer ps mopts ⟨base, add64 n mopts.malloc_guard, f⟩ ∧
          insert ps s.d base (add64 n mopts.malloc_guard) f true = .ok (0, s'.d)) s3 := by
    intro s3 h3
    have e : ∀ a, a = user_pointer ps mopts ⟨base, add64 n mopts.malloc_guard, f⟩ →
        a ≠ 0 → ∃ base,
          a = user_pointer ps mopts ⟨base, add64 n mopts.malloc_guard, f⟩ ∧
          insert ps s.d base (add64 n mopts.malloc_guard) f true = .ok (0, s3.d) := by
      intro a ha _
      refine ⟨base, ha, ?_⟩
      rw [h3.1]; exact hins
    apply wp_ite_i
    · intro hc
      apply wp_pure_i
      apply e
      rw [← user_pointer_eq, if_pos hc]
    · intro hc
      apply wp_pure_i
      apply e
      rw [← user_pointer_eq, if_neg hc]
  apply wp_ite_i
  · intro _
    apply wp_bind_i
    apply keeps_wp s2 os_mprotect_core (core_frame_refl s2)
    intro prot s3 h3
    apply wp_ite_i
    · intro _
      apply wp_bind_i
      exact wp_wrterror_i
    · intro _
      apply wp_bind_i
      apply wp_pure_i
      exact hfin s3 h3
  · intro _
    apply wp_bind_i
    apply wp_pure_i
    exact hfin s2 (core_frame_refl s2)

theorem hint_ne_failed (ps p r : Nat) (hps : ps ≤ 64) (h0 : 0 < ps) (hp : p % 2 ^ ps = 0)
    (hr : r % 2 ^ ps = 0) : add64 p r ≠ MAP_FAILED := by
  intro h
  have e2 : 2 ^ 64 = 2 ^ ps * 2 ^ (64 - ps) := two_pow_dvd_form ps 64 hps
  have h1 : add64 p r % 2 ^ ps = 0 := by
    unfold add64
    rw [Nat.mod_mod_of_dvd _ ⟨2 ^ (64 - ps), e2⟩, Nat.add_mod, hp, hr]
    simp
  rw [h] at h1
  have h2 : 2 ≤ 2 ^ ps := by
    calc 2 = 2 ^ 1 := by norm_num
      _ ≤ 2 ^ ps := Nat.pow_le_pow_right (by norm_num) h0
  have h3 : MAP_FAILED = 2 ^ ps * (2 ^ (64 - ps) - 1) + (2 ^ ps - 1) := by
    unfold MAP_FAILED
    have hpos : 0 < 2 ^ (64 - ps) := Nat.pow_pos (by norm_num)
    rw [e2, Nat.mul_sub, Nat.mul_one]
    have : 2 ^ ps ≤ 2 ^ ps * 2 ^ (64 - ps) := Nat.le_mul_of_pos_right _ hpos
    omega
  rw [h3, Nat.mul_add_mod, Nat.mod_eq_of_lt (by omega)] at h1
  omega

/-- The cheap expansion of `orealloc` when the kernel does not map the pages behind
the region: control falls through to the general case, with the directory as it
was. -/
theorem orealloc_pages_fallthrough {ps : Nat} {mopts : malloc_readonly}
    {ri p goldsz gnewsz f : Nat}
    {s : pool_state} (hps : ps ≤ 64) (hps0 : 0 < ps) (hg0 : mopts.malloc_guard = 0)
    (hgrow : PAGEROUND ps goldsz < PAGEROUND ps gnewsz)
    (hal : (slot s.d.r ri).p % 2 ^ ps = 0)
    (hfail : ¬ (s.env.headD 0 ≠ 0 ∧
      mmap_free ps s.mapped (add64 (slot s.d.r ri).p (PAGEROUND ps goldsz))
        (sub64 (PAGEROUND ps gnewsz) (PAGEROUND ps goldsz)) = true)) :
    wp (orealloc_pages ps mopts ri p goldsz gnewsz f)
      (fun r s' => r = none ∧ core_frame s s') s := by
  unfold orealloc_pages
  apply wp_bind_i
  apply wp_get_i
  dsimp only
  rw [if_neg (by omega), if_pos hgrow, if_pos hg0]
  apply wp_bind_i
  apply wp_mono (os_mmap_fixed_fails hfail)
  rintro q s1 ⟨hq, hc, _⟩
  subst hq
  rw [if_neg (fun h => hint_ne_failed ps _ _ hps hps0 hal (PAGEROUND_aligned ps _ hps) h.symm)]
  apply wp_pure_i
  exact ⟨rfl, hc⟩

theorem mem_slot {r : List region_info} {e : region_info} (h : e ∈ r) :
    ∃ x, x < r.length ∧ slot r x = e := by
  obtain ⟨x, hx, he⟩ := List.getElem_of_mem h
  refine ⟨x, hx, ?_⟩
  unfold slot
  rw [List.getD_eq_getElem _ _ hx, he]

theorem slot_mem {r : List region_info} {x : Nat} (hx : x < r.length) : slot r x ∈ r := by
  unfold slot
  rw [List.getD_eq_getElem _ _ hx]
  exact List.getElem_mem _

/-! ## The page count of the big cache -/

theorem sum_psize_set (l : List bigcache) (i : Nat) (e : bigcache) (hi : i < l.length) :
    ((l.set i e).map (fun e => e.psize)).sum + (l.getD i ⟨0, 0⟩).psize =
      (l.map (fun e => e.psize)).sum + e.psize := by
  induction l generalizing i with
  | nil => simp at hi
  | cons a t ih =>
    cases i with
    | zero =>
      simp only [List.set_cons_zero, List.map_cons, List.sum_cons, List.getD_cons_zero]
      omega
    | succ i =>
      simp only [List.set_cons_succ, List.map_cons, List.sum_cons, List.getD_cons_succ]
      have := ih i (by simpa using hi)
      omega

theorem psize_le_sum (l : List bigcache) (i : Nat) :
    (l.getD i ⟨0, 0⟩).psize ≤ (l.map (fun e => e.psize)).sum := by
  induction l generalizing i with
  | nil => simp
  | cons a t ih =>
    cases i with
    | zero => simp
    | succ i =>
      simp only [List.getD_cons_succ, List.map_cons, List.sum_cons]
      have := ih i
      omega

theorem sum_psize_le (l : List bigcache) (m : Nat) (h : ∀ e ∈ l, e.psize ≤ m) :
    (l.map (fun e => e.psize)).sum ≤ l.length * m := by
  induction l with
  | nil => simp
  | cons a t ih =>
    simp only [List.map_cons, List.sum_cons, List.length_cons]
    have h1 := h a (List.mem_cons_self _ _)
    have h2 := ih (fun e he => h e (List.mem_cons_of_mem _ he))
    rw [Nat.add_mul, Nat.one_mul]
    omega

theorem mask_index (size k x : Nat) (hk : k ≤ 16) (hs : size = 2 ^ k) :
    (x &&& sub64 size 1) % 2 ^ 16 = x % size := by
  have hpos : 0 < 2 ^ k := Nat.pow_pos (by norm_num)
  have h16 : 2 ^ k ≤ 2 ^ 16 := Nat.pow_le_pow_right (by norm_num) hk
  rw [hs, sub64_eq _ _ (by omega) (by omega), Nat.and_pow_two_sub_one_eq_mod]
  exact Nat.mod_eq_of_lt (Nat.lt_of_lt_of_le (Nat.mod_lt _ hpos) h16)

theorem unmap_scan_lt (bc : List bigcache) (size k : Nat) (below : Bool) (base : Nat)
    (hk : k ≤ 16) (hs : size = 2 ^ k) :
    ∀ n j acc, (∀ i, acc = some i → i < size) →
      ∀ i, unmap_scan bc size below base n j acc = some i → i < size := by
  have hpos : 0 < size := by rw [hs]; exact Nat.pow_pos (by norm_num)
  intro n
  induction n with
  | zero =>
    intro j acc hacc i h
    unfold unmap_scan at h
    exact hacc i h
  | succ n ih =>
    intro j acc hacc i h
    unfold unmap_scan at h
    dsimp only at h
    rw [mask_index size k _ hk hs] at h
    have hlt : (base + j) % size < size := Nat.mod_lt _ hpos
    split at h
    · split at h
      · injection h with h; omega
      · exact ih _ _ (fun i hi => by injection hi with hi; omega) i h
    · split at h
      · injection h with h; omega
      · exact ih _ _ (fun i hi => by injection hi with hi; omega) i h

theorem bigcache_ok_of_eq {s s' : pool_state} (h : bigcache_ok s)
    (h1 : s'.bigcache = s.bigcache) (h2 : s'.bigcache_size = s.bigcache_size)
    (h3 : s'.bigcache_used = s.bigcache_used) : bigcache_ok s' := by
  unfold bigcache_ok at h ⊢
  rw [h1, h2, h3]
  exact h

/-- A run that leaves the three fields of the big cache alone keeps it consistent. -/
theorem bigcache_frame_keeps {α : Type} {m : Run α}
    (h : ∀ s : pool_state, wp m (fun _ s' => s'.bigcache = s.bigcache ∧
      s'.bigcache_size = s.bigcache_size ∧ s'.bigcache_used = s.bigcache_used) s) :
    keeps bigcache_rel m :=
  keeps_intro fun _ s _ hz hQ =>
    wp_mono (h s) (fun a s' hs => hQ a s' (bigcache_ok_of_eq hz hs.1 hs.2.1 hs.2.2))

theorem bigcache_ok_store {s : pool_state} (h : bigcache_ok s) (i p psz : Nat)
    (hi : i < s.bigcache_size) (hpsz : psz ≤ MAX_BIGCACHEABLE_SIZE) (used : Nat)
    (hused : used + (s.bigcache.getD i ⟨0, 0⟩).psize = s.bigcache_used) :
    (s.bigcache.set i ⟨p, psz⟩).length = s.bigcache_size ∧
    (∀ e ∈ s.bigcache.set i ⟨p, psz⟩, e.psize ≤ MAX_BIGCACHEABLE_SIZE) ∧
    add64 used psz = ((s.bigcache.set i ⟨p, psz⟩).map (fun e => e.psize)).sum := by
  obtain ⟨hlen, hsz, hle, hsum⟩ := h
  have hset := sum_psize_set s.bigcache i ⟨p, psz⟩ (by rw [hlen]; exact hi)
  have hbound := sum_psize_le _ _ hle
  have hsize : s.bigcache_size ≤ 2 ^ 16 := by
    rcases hsz with h0 | ⟨k, hk, h2⟩
    · rw [h0]; exact Nat.zero_le _
    · rw [h2]; exact Nat.pow_le_pow_right (by norm_num) hk
  have hM : MAX_BIGCACHEABLE_SIZE = 512 := rfl
  rw [hM] at hbound hpsz
  rw [hlen] at hbound
  have hb2 : s.bigcache_size * 512 ≤ 2 ^ 16 * 512 := Nat.mul_le_mul_right _ hsize
  refine ⟨by rw [List.length_set]; exact hlen, ?_, ?_⟩
  · intro e he
    rcases List.mem_or_eq_of_mem_set he with h1 | h1
    · exact hle e h1
    · rw [h1, hM]; exact hpsz
  · dsimp only at hset
    rw [add64_eq _ _ (by omega)]
    omega

theorem validate_junk_c3 {p sz : Nat} : keeps cache3_frame (validate_junk p sz) := by
  unfold validate_junk
  apply keeps_intro
  intro z s Q h hQ
  repeat' first
    | with_reducible apply wp_ite_i
    | with_reducible apply wp_bind_i
    | with_reducible apply wp_env_next_i
    | with_reducible apply wp_pure_i
    | with_reducible apply wp_get_i
    | with_reducible exact wp_wrterror_i
    | with_reducible exact hQ _ _ h
    | intro _

theorem os_munmap_c3 {a sz : Nat} : keeps cache3_frame (os_munmap a sz) := by
  unfold os_munmap
  apply keeps_intro
  intro z s Q h hQ
  repeat' first
    | with_reducible apply wp_ite_i
    | with_reducible apply wp_bind_i
    | with_reducible apply wp_env_next_i
    | with_reducible apply wp_pure_i
    | with_reducible apply wp_modify_i
    | with_reducible exact hQ _ _ h
    | intro _

theorem os_mprotect_c3 : keeps cache3_frame os_mprotect := by
  unfold os_mprotect
  apply keeps_intro
  intro z s Q h hQ
  repeat' first
    | with_reducible apply wp_ite_i
    | with_reducible apply wp_bind_i
    | with_reducible apply wp_env_next_i
    | with_reducible apply wp_pure_i
    | with_reducible apply wp_modify_i
    | with_reducible exact hQ _ _ h
    | intro _

theorem getrbyte_bc :
    keeps bigcache_rel getrbyte := by
  unfold getrbyte
  apply keeps_intro
  intro z s Q h hQ
  repeat' first
    | with_reducible apply wp_ite_i
    | with_reducible apply wp_bind_i
    | with_reducible apply wp_env_next_i
    | with_reducible apply wp_pure_i
    | with_reducible apply wp_get_i
    | with_reducible apply wp_set_i
    | with_reducible apply wp_modify_i
    | with_reducible exact wp_wrterror_i
    | with_reducible exact wp_diverges_i
    | with_reducible exact wp_undefined_i
    | with_reducible apply wp_lift_outcome_i
    | with_reducible assumption
    | with_reducible apply hQ
    | exact bigcache_ok_of_eq (by assumption) rfl rfl rfl
    | intro _
    | split
    | dsimp only

theorem os_mmap_bc {ps sz : Nat} :
    keeps bigcache_rel (os_mmap ps sz) := by
  unfold os_mmap
  apply keeps_intro
  intro z s Q h hQ
  repeat' first
    | with_reducible apply wp_ite_i
    | with_reducible apply wp_bind_i
    | with_reducible apply wp_env_next_i
    | with_reducible apply wp_pure_i
    | with_reducible apply wp_get_i
    | with_reducible apply wp_set_i
    | with_reducible apply wp_modify_i
    | with_reducible exact wp_wrterror_i
    | with_reducible exact wp_diverges_i
    | with_reducible exact wp_undefined_i
    | with_reducible apply wp_lift_outcome_i
    | with_reducible assumption
    | with_reducible apply hQ
    | exact bigcache_ok_of_eq (by assumption) rfl rfl rfl
    | intro _
    | split
    | dsimp only

theorem os_mmap_fixed_bc {ps a sz : Nat} :
    keeps bigcache_rel (os_mmap_fixed ps a sz) := by
  unfold os_mmap_fixed
  apply keeps_intro
  intro z s Q h hQ
  repeat' first
    | with_reducible apply wp_ite_i
    | with_reducible apply wp_bind_i
    | with_reducible apply wp_env_next_i
    | with_reducible apply wp_pure_i
    | with_reducible apply wp_get_i
    | with_reducible apply wp_set_i
    | with_reducible apply wp_modify_i
    | with_reducible exact wp_wrterror_i
    | with_reducible exact wp_diverges_i
    | with_reducible exact wp_undefined_i
    | with_reducible apply wp_lift_outcome_i
    | with_reducible assumption
    | with_reducible apply hQ
    | exact bigcache_ok_of_eq (by assumption) rfl rfl rfl
    | intro _
    | split
    | dsimp only

theorem os_munmap_bc {a sz : Nat} :
    keeps bigcache_rel (os_munmap a sz) := by
  unfold os_munmap
  apply keeps_intro
  intro z s Q h hQ
  repeat' first
    | with_reducible apply wp_ite_i
    | with_reducible apply wp_bind_i
    | with_reducible apply wp_env_next_i
    | with_reducible apply wp_pure_i
    | with_reducible apply wp_get_i
    | with_reducible apply wp_set_i
    | with_reducible apply wp_modify_i
    | with_reducible exact wp_wrterror_i
    | with_reducible exact wp_diverges_i
    | with_reducible exact wp_undefined_i
    | with_reducible apply wp_lift_outcome_i
    | with_reducible assumption
    | with_reducible apply hQ
    | exact bigcache_ok_of_eq (by assumption) rfl rfl rfl
    | intro _
    | split
    | dsimp only

theorem os_mprotect_bc :
    keeps bigcache_rel os_mprotect := by
  unfold os_mprotect
  apply keeps_intro
  intro z s Q h hQ
  repeat' first
    | with_reducible apply wp_ite_i
    | with_reducible apply wp_bind_i
    | with_reducible apply wp_env_next_i
    | with_reducible apply wp_pure_i
    | with_reducible apply wp_get_i
    | with_reducible apply wp_set_i
    | with_reducible apply wp_modify_i
    | with_reducible exact wp_wrterror_i
    | with_reducible exact wp_diverges_i
    | with_reducible exact wp_undefined_i
    | with_reducible apply wp_lift_outcome_i
    | with_reducible assumption
    | with_reducible apply hQ
    | exact bigcache_ok_of_eq (by assumption) rfl rfl rfl
    | intro _
    | split
    | dsimp only

theorem validate_junk_bc {p sz : Nat} :
    keeps bigcache_rel (validate_junk p sz) := by
  unfold validate_junk
  apply keeps_intro
  intro z s Q h hQ
  repeat' first
    | with_reducible apply wp_ite_i
    | with_reducible apply wp_bind_i
    | with_reducible apply wp_env_next_i
    | with_reducible apply wp_pure_i
    | with_reducible apply wp_get_i
    | with_reducible apply wp_set_i
    | with_reducible apply wp_modify_i
    | with_reducible exact wp_wrterror_i
    | with_reducible exact wp_diverges_i
    | with_reducible exact wp_undefined_i
    | with_reducible apply wp_lift_outcome_i
    | with_reducible assumption
    | with_reducible apply hQ
    | exact bigcache_ok_of_eq (by assumption) rfl rfl rfl
    | intro _
    | split
    | dsimp only

theorem validate_canary_bc {p sz allocated : Nat} :
    keeps bigcache_rel (validate_canary p sz allocated) := by
  unfold validate_canary
  apply keeps_intro
  intro z s Q h hQ
  repeat' first
    | with_reducible apply wp_ite_i
    | with_reducible apply wp_bind_i
    | with_reducible apply wp_env_next_i
    | with_reducible apply wp_pure_i
    | with_reducible apply wp_get_i
    | with_reducible apply wp_set_i
    | with_reducible apply wp_modify_i
    | with_reducible exact wp_wrterror_i
    | with_reducible exact wp_diverges_i
    | with_reducible exact wp_undefined_i
    | with_reducible apply wp_lift_outcome_i
    | with_reducible assumption
    | with_reducible apply hQ
    | exact bigcache_ok_of_eq (by assumption) rfl rfl rfl
    | intro _
    | split
    | dsimp only

theorem map_scan_psize (bc : List bigcache) (size psz base : Nat) :
    ∀ n j cached i, map_scan bc size psz base n j cached = some i →
      (bc.getD i ⟨0, 0⟩).psize = psz := by
  intro n
  induction n with
  | zero => intro j cached i h; exact Option.noConfusion h
  | succ n ih =>
    intro j cached i h
    unfold map_scan at h
    dsimp only at h
    split at h
    · split at h
      · rename_i hp
        injection h with h
        rw [← h]; exact hp
      · exact ih _ _ i h
    · exact Option.noConfusion h

theorem unmap_big_bc {ps p sz psz : Nat} {mopts : malloc_readonly}
    (hpsz : psz ≤ MAX_BIGCACHEABLE_SIZE) :
    keeps bigcache_rel (unmap_big ps mopts p sz psz) := by
  apply keeps_intro
  intro z s Q h hQ
  unfold unmap_big
  apply wp_bind_i
  apply keeps_wp z getrbyte_bc h
  intro base s0 h0
  apply wp_bind_i
  apply wp_get_i
  split
  · exact wp_undefined_i
  rename_i i hscan
  obtain ⟨hlen, hsz, hle, hsum⟩ := h0
  have hi : i < s0.bigcache_size := by
    rcases hsz with hz | ⟨k, hk, h2⟩
    · rw [hz] at hscan
      unfold unmap_scan at hscan
      exact Option.noConfusion hscan
    · exact unmap_scan_lt _ _ k _ _ hk h2 _ _ none (fun _ hn => Option.noConfusion hn) i hscan
  have h0 : bigcache_ok s0 := ⟨hlen, hsz, hle, hsum⟩
  have hpl := psize_le_sum s0.bigcache i
  have hbound := sum_psize_le _ _ hle
  have hsize : s0.bigcache_size ≤ 2 ^ 16 := by
    rcases hsz with h0 | ⟨k, hk, h2⟩
    · rw [h0]; exact Nat.zero_le _
    · rw [h2]; exact Nat.pow_le_pow_right (by norm_num) hk
  have hM : MAX_BIGCACHEABLE_SIZE = 512 := rfl
  rw [hM, hlen] at hbound
  have hb2 : s0.bigcache_size * 512 ≤ 2 ^ 16 * 512 := Nat.mul_le_mul_right _ hsize
  -- the store, from a state with the slots of `s0` and the count `used`
  have hstore : ∀ (s1 : pool_state) (used : Nat), s1.bigcache = s0.bigcache →
      s1.bigcache_size = s0.bigcache_size → s1.bigcache_used = used →
      used + (s0.bigcache.getD i ⟨0, 0⟩).psize = s0.bigcache_used →
      bigcache_ok { s1 with
        bigcache := s1.bigcache.set i ⟨p, psz⟩
        bigcache_used := add64 s1.bigcache_used psz } := by
    intro s1 used e1 e2 e3 e4
    obtain ⟨a1, a2, a3⟩ := bigcache_ok_store h0 i p psz hi hpsz used e4
    unfold bigcache_ok
    dsimp only
    rw [e1, e2, e3]
    exact ⟨a1, hsz, a2, a3⟩
  dsimp only
  apply wp_ite_i
  · intro hne
    apply wp_bind_i
    apply wp_set_i
    have e4 : sub64 s0.bigcache_used (s0.bigcache.getD i ⟨0, 0⟩).psize +
        (s0.bigcache.getD i ⟨0, 0⟩).psize = s0.bigcache_used := by
      rw [sub64_eq _ _ (by omega) (by omega)]
      omega
    generalize hA : ({ s0 with bigcache_used := sub64 s0.bigcache_used (s0.bigcache.getD i ⟨0, 0⟩).psize } : pool_state) = sA
    have a1 : sA.bigcache = s0.bigcache := by rw [← hA]
    have a2 : sA.bigcache_size = s0.bigcache_size := by rw [← hA]
    have a3 : sA.bigcache_used = sub64 s0.bigcache_used (s0.bigcache.getD i ⟨0, 0⟩).psize := by
      rw [← hA]
    apply wp_ite_i
    on_goal 1 =>
      intro _
      apply wp_bind_i
      apply keeps_wp sA validate_junk_c3 ⟨rfl, rfl, rfl⟩
      intro _ s2 h2
    on_goal 2 =>
      intro _
      apply wp_bind_i
      apply wp_pure_i
      have h2 : cache3_frame sA sA := ⟨rfl, rfl, rfl⟩
    all_goals
      apply wp_bind_i
      apply keeps_wp _ os_munmap_c3 h2
      intro rc s3 h3
      apply wp_ite_i
      · intro _
        apply wp_bind_i
        exact wp_wrterror_i
      intro _
      apply wp_bind_i
      apply wp_pure_i
      apply wp_ite_i
      · intro _
        apply wp_bind_i
        apply keeps_wp _ os_mprotect_c3 h3
        intro rc s4 h4
        apply wp_ite_i
        · intro _
          apply wp_bind_i
          exact wp_wrterror_i
        · intro _
          apply wp_bind_i
          apply wp_pure_i
          apply wp_modify_i
          exact hQ _ _ (hstore s4 _ (h4.1.trans a1) (h4.2.1.trans a2) (h4.2.2.trans a3) e4)
      · intro _
        apply wp_bind_i
        apply wp_pure_i
        apply wp_modify_i
        exact hQ _ _ (hstore s3 _ (h3.1.trans a1) (h3.2.1.trans a2) (h3.2.2.trans a3) e4)
  · intro hne
    have hz : (s0.bigcache.getD i ⟨0, 0⟩).psize = 0 := by simpa using hne
    have e4 : s0.bigcache_used + (s0.bigcache.getD i ⟨0, 0⟩).psize = s0.bigcache_used := by
      rw [hz]; rfl
    apply wp_bind_i
    apply wp_pure_i
    apply wp_ite_i
    · intro _
      apply wp_bind_i
      apply keeps_wp s0 os_mprotect_c3 ⟨rfl, rfl, rfl⟩
      intro rc s4 h4
      apply wp_ite_i
      · intro _
        apply wp_bind_i
        exact wp_wrterror_i
      · intro _
        apply wp_bind_i
        apply wp_pure_i
        apply wp_modify_i
        exact hQ _ _ (hstore s4 _ h4.1 h4.2.1 h4.2.2 e4)
    · intro _
      apply wp_bind_i
      apply wp_pure_i
      apply wp_modify_i
      exact hQ _ _ (hstore s0 _ rfl rfl rfl e4)

theorem unmap_small_bc {mopts : malloc_readonly} {p sz psz : Nat} :
    keeps bigcache_rel (unmap_small mopts p sz psz) := by
  unfold unmap_small
  repeat' first
    | with_reducible apply keeps_ite
    | with_reducible apply keeps_bind
    | with_reducible exact keeps_pure
    | with_reducible exact keeps_get
    | with_reducible exact keeps_wrterror
    | with_reducible exact keeps_diverges
    | with_reducible exact keeps_undefined
    | with_reducible exact keeps_lift_outcome
    | with_reducible apply keeps_modify
    | with_reducible exact getrbyte_bc
    | with_reducible exact validate_junk_bc
    | with_reducible exact os_munmap_bc
    | with_reducible assumption
    | exact bigcache_ok_of_eq (by assumption) rfl rfl rfl
    | intro _
    | split
    | dsimp only

theorem unmap_bc {ps p sz clear : Nat} {mopts : malloc_readonly} :
    keeps bigcache_rel (unmap ps mopts p sz clear) := by
  unfold unmap
  dsimp only
  apply keeps_ite
  · exact keeps_wrterror
  apply keeps_bind
  · exact keeps_get
  intro s
  by_cases hc : s.bigcache_size > 0 ∧ sz >>> ps > MAX_SMALLCACHEABLE_SIZE ∧
      sz >>> ps ≤ MAX_BIGCACHEABLE_SIZE
  · rw [if_pos hc]
    exact unmap_big_bc hc.2.2
  · rw [if_neg hc]
    repeat' first
      | with_reducible apply keeps_ite
      | with_reducible apply keeps_bind
      | with_reducible exact keeps_pure
      | with_reducible exact keeps_wrterror
      | with_reducible exact unmap_small_bc
      | with_reducible exact os_munmap_bc
      | intro _

theorem map_big_bc {sz psz : Nat} {mopts : malloc_readonly} :
    keeps bigcache_rel (map_big mopts sz psz) := by
  apply keeps_intro
  intro z s Q h hQ
  unfold map_big
  apply wp_bind_i
  apply keeps_wp z getrbyte_bc h
  intro base s0 h0
  apply wp_bind_i
  apply wp_get_i
  split
  · apply wp_pure_i
    exact hQ _ _ h0
  rename_i i hscan
  have hp := map_scan_psize _ _ _ _ _ _ _ i hscan
  obtain ⟨hlen, hsz, hle, hsum⟩ := h0
  have hpl := psize_le_sum s0.bigcache i
  have hbound := sum_psize_le _ _ hle
  have hsize : s0.bigcache_size ≤ 2 ^ 16 := by
    rcases hsz with h0 | ⟨k, hk, h2⟩
    · rw [h0]; exact Nat.zero_le _
    · rw [h2]; exact Nat.pow_le_pow_right (by norm_num) hk
  have hM : MAX_BIGCACHEABLE_SIZE = 512 := rfl
  rw [hM, hlen] at hbound
  have hb2 : s0.bigcache_size * 512 ≤ 2 ^ 16 * 512 := Nat.mul_le_mul_right _ hsize
  have hok : bigcache_ok { s0 with
      bigcache_used := sub64 s0.bigcache_used psz
      bigcache := s0.bigcache.set i ⟨0, 0⟩ } := by
    unfold bigcache_ok
    dsimp only
    refine ⟨by rw [List.length_set]; exact hlen, hsz, ?_, ?_⟩
    · intro e he
      rcases List.mem_or_eq_of_mem_set he with h1 | h1
      · exact hle e h1
      · rw [h1]; exact Nat.zero_le _
    · rw [hp] at hpl
      rw [sub64_eq _ _ (by omega) (by omega)]
      by_cases hi : i < s0.bigcache.length
      · have hset := sum_psize_set s0.bigcache i ⟨0, 0⟩ hi
        rw [hp] at hset
        dsimp only at hset
        omega
      · rw [List.set_eq_of_length_le (by omega)]
        rw [List.getD_eq_default _ _ (by omega)] at hp
        dsimp only at hp
        omega
  dsimp only
  apply wp_bind_i
  apply wp_set_i
  apply wp_ite_i
  · intro _
    apply wp_bind_i
    apply keeps_wp _ validate_junk_bc hok
    intro _ s2 h2
    apply wp_pure_i
    exact hQ _ _ h2
  · intro _
    apply wp_bind_i
    apply wp_pure_i
    apply wp_pure_i
    exact hQ _ _ hok

theorem map_small_bc {ps sz psz : Nat} {mopts : malloc_readonly} :
    keeps bigcache_rel (map_small ps mopts sz psz) := by
  unfold map_small
  repeat' first
    | with_reducible apply keeps_ite
    | with_reducible apply keeps_bind
    | with_reducible exact keeps_pure
    | with_reducible exact keeps_get
    | with_reducible exact keeps_wrterror
    | with_reducible exact keeps_diverges
    | with_reducible exact keeps_undefined
    | with_reducible exact keeps_lift_outcome
    | with_reducible apply keeps_modify
    | with_reducible exact getrbyte_bc
    | with_reducible exact validate_junk_bc
    | with_reducible exact os_mmap_bc
    | with_reducible assumption
    | exact bigcache_ok_of_eq (by assumption) rfl rfl rfl
    | intro _
    | split
    | dsimp only

theorem map_bc {ps sz zero_fill : Nat} {mopts : malloc_readonly} :
    keeps bigcache_rel (map ps mopts sz zero_fill) := by
  unfold map
  repeat' first
    | with_reducible apply keeps_ite
    | with_reducible apply keeps_bind
    | with_reducible exact keeps_pure
    | with_reducible exact keeps_get
    | with_reducible exact keeps_wrterror
    | with_reducible exact keeps_diverges
    | with_reducible exact keeps_undefined
    | with_reducible exact keeps_lift_outcome
    | with_reducible apply keeps_modify
    | with_reducible exact map_big_bc
    | with_reducible exact map_small_bc
    | with_reducible exact os_mmap_bc
    | with_reducible assumption
    | exact bigcache_ok_of_eq (by assumption) rfl rfl rfl
    | intro _
    | split
    | dsimp only

theorem omalloc_grow_pool_bc {ps : Nat} {mopts : malloc_readonly} :
    keeps bigcache_rel (omalloc_grow_pool ps mopts) := by
  unfold omalloc_grow_pool
  apply keeps_intro
  intro z s Q h hQ
  repeat' first
    | with_reducible apply wp_ite_i
    | with_reducible apply wp_bind_i
    | with_reducible apply wp_pure_i
    | with_reducible apply wp_get_i
    | with_reducible apply wp_modify_i
    | with_reducible apply wp_lift_outcome_i
    | with_reducible apply keeps_wp z os_mmap_bc
    | with_reducible apply keeps_wp z unmap_bc
    | with_reducible assumption
    | with_reducible apply hQ
    | exact bigcache_ok_of_eq (by assumption) rfl rfl rfl
    | intro _

theorem insert_pool_bc {ps p sz f : Nat} {mopts : malloc_readonly} :
    keeps bigcache_rel (insert_pool ps mopts p sz f) := by
  unfold insert_pool
  apply keeps_intro
  intro z s Q h hQ
  repeat' first
    | with_reducible apply wp_ite_i
    | with_reducible apply wp_bind_i
    | with_reducible apply wp_env_next_i
    | with_reducible apply wp_pure_i
    | with_reducible apply wp_get_i
    | with_reducible apply wp_set_i
    | with_reducible apply wp_modify_i
    | with_reducible exact wp_wrterror_i
    | with_reducible exact wp_diverges_i
    | with_reducible exact wp_undefined_i
    | with_reducible apply wp_lift_outcome_i
    | with_reducible apply keeps_wp z omalloc_grow_pool_bc
    | with_reducible assumption
    | with_reducible apply hQ
    | exact bigcache_ok_of_eq (by assumption) rfl rfl rfl
    | intro _
    | split
    | dsimp only

theorem delete_pool_bc {ps ri : Nat} :
    keeps bigcache_rel (delete_pool ps ri) := by
  unfold delete_pool
  apply keeps_intro
  intro z s Q h hQ
  repeat' first
    | with_reducible apply wp_bind_i
    | with_reducible apply wp_get_i
    | with_reducible apply wp_set_i
    | with_reducible apply wp_lift_outcome_i
    | with_reducible apply hQ
    | exact bigcache_ok_of_eq (by assumption) rfl rfl rfl
    | intro _

theorem STATS_SETF_bc {ri f : Nat} :
    keeps bigcache_rel (STATS_SETF ri f) := by
  unfold STATS_SETF
  repeat' first
    | with_reducible apply keeps_ite
    | with_reducible apply keeps_bind
    | with_reducible exact keeps_pure
    | with_reducible exact keeps_get
    | with_reducible exact keeps_wrterror
    | with_reducible exact keeps_diverges
    | with_reducible exact keeps_undefined
    | with_reducible exact keeps_lift_outcome
    | with_reducible apply keeps_modify
    | with_reducible assumption
    | exact bigcache_ok_of_eq (by assumption) rfl rfl rfl
    | intro _
    | split
    | dsimp only

theorem LIST_REMOVE_bc {bp : Nat} :
    keeps bigcache_rel (LIST_REMOVE bp) := by
  unfold LIST_REMOVE
  repeat' first
    | with_reducible apply keeps_ite
    | with_reducible apply keeps_bind
    | with_reducible exact keeps_pure
    | with_reducible exact keeps_get
    | with_reducible exact keeps_wrterror
    | with_reducible exact keeps_diverges
    | with_reducible exact keeps_undefined
    | with_reducible exact keeps_lift_outcome
    | with_reducible apply keeps_modify
    | with_reducible assumption
    | exact bigcache_ok_of_eq (by assumption) rfl rfl rfl
    | intro _
    | split
    | dsimp only

theorem LIST_INSERT_HEAD_dir_bc {bucket listnum bp : Nat} :
    keeps bigcache_rel (LIST_INSERT_HEAD_dir bucket listnum bp) := by
  unfold LIST_INSERT_HEAD_dir
  repeat' first
    | with_reducible apply keeps_ite
    | with_reducible apply keeps_bind
    | with_reducible exact keeps_pure
    | with_reducible exact keeps_get
    | with_reducible exact keeps_wrterror
    | with_reducible exact keeps_diverges
    | with_reducible exact keeps_undefined
    | with_reducible exact keeps_lift_outcome
    | with_reducible apply keeps_modify
    | with_reducible assumption
    | exact bigcache_ok_of_eq (by assumption) rfl rfl rfl
    | intro _
    | split
    | dsimp only

theorem LIST_INSERT_HEAD_info_bc {bucket bp : Nat} :
    keeps bigcache_rel (LIST_INSERT_HEAD_info bucket bp) := by
  unfold LIST_INSERT_HEAD_info
  repeat' first
    | with_reducible apply keeps_ite
    | with_reducible apply keeps_bind
    | with_reducible exact keeps_pure
    | with_reducible exact keeps_get
    | with_reducible exact keeps_wrterror
    | with_reducible exact keeps_diverges
    | with_reducible exact keeps_undefined
    | with_reducible exact keeps_lift_outcome
    | with_reducible apply keeps_modify
    | with_reducible assumption
    | exact bigcache_ok_of_eq (by assumption) rfl rfl rfl
    | intro _
    | split
    | dsimp only

theorem alloc_chunk_info_carve_bc {ps bucket : Nat} {mopts : malloc_readonly} :
    keeps bigcache_rel (alloc_chunk_info_carve ps mopts bucket) := by
  unfold alloc_chunk_info_carve
  repeat' first
    | with_reducible apply keeps_ite
    | with_reducible apply keeps_bind
    | with_reducible exact keeps_pure
    | with_reducible exact keeps_get
    | with_reducible exact keeps_wrterror
    | with_reducible exact keeps_diverges
    | with_reducible exact keeps_undefined
    | with_reducible exact keeps_lift_outcome
    | with_reducible apply keeps_modify
    | with_reducible exact os_mmap_bc
    | with_reducible assumption
    | exact bigcache_ok_of_eq (by assumption) rfl rfl rfl
    | intro _
    | split
    | dsimp only

theorem alloc_chunk_info_bc {ps bucket : Nat} {mopts : malloc_readonly} :
    keeps bigcache_rel (alloc_chunk_info ps mopts bucket) := by
  unfold alloc_chunk_info
  repeat' first
    | with_reducible apply keeps_ite
    | with_reducible apply keeps_bind
    | with_reducible exact keeps_pure
    | with_reducible exact keeps_get
    | with_reducible exact keeps_wrterror
    | with_reducible exact keeps_diverges
    | with_reducible exact keeps_undefined
    | with_reducible exact keeps_lift_outcome
    | with_reducible apply keeps_modify
    | with_reducible exact alloc_chunk_info_carve_bc
    | with_reducible exact LIST_REMOVE_bc
    | with_reducible assumption
    | exact bigcache_ok_of_eq (by assumption) rfl rfl rfl
    | intro _
    | split
    | dsimp only

theorem omalloc_make_chunks_bc {ps bucket listnum : Nat} {mopts : malloc_readonly} :
    keeps bigcache_rel (omalloc_make_chunks ps mopts bucket listnum) := by
  unfold omalloc_make_chunks
  repeat' first
    | with_reducible apply keeps_ite
    | with_reducible apply keeps_bind
    | with_reducible exact keeps_pure
    | with_reducible exact keeps_get
    | with_reducible exact keeps_wrterror
    | with_reducible exact keeps_diverges
    | with_reducible exact keeps_undefined
    | with_reducible exact keeps_lift_outcome
    | with_reducible apply keeps_modify
    | with_reducible exact map_bc
    | with_reducible exact os_mprotect_bc
    | with_reducible exact unmap_bc
    | with_reducible exact alloc_chunk_info_bc
    | with_reducible exact insert_pool_bc
    | with_reducible exact LIST_INSERT_HEAD_dir_bc
    | with_reducible assumption
    | exact bigcache_ok_of_eq (by assumption) rfl rfl rfl
    | intro _
    | split
    | dsimp only

theorem malloc_bytes_bc {ps size f : Nat} {mopts : malloc_readonly} :
    keeps bigcache_rel (malloc_bytes ps mopts size f) := by
  unfold malloc_bytes
  repeat' first
    | with_reducible apply keeps_ite
    | with_reducible apply keeps_bind
    | with_reducible exact keeps_pure
    | with_reducible exact keeps_get
    | with_reducible exact keeps_wrterror
    | with_reducible exact keeps_diverges
    | with_reducible exact keeps_undefined
    | with_reducible exact keeps_lift_outcome
    | with_reducible apply keeps_modify
    | with_reducible exact getrbyte_bc
    | with_reducible exact omalloc_make_chunks_bc
    | with_reducible exact STATS_SETF_bc
    | with_reducible exact LIST_REMOVE_bc
    | with_reducible exact validate_junk_bc
    | with_reducible assumption
    | exact bigcache_ok_of_eq (by assumption) rfl rfl rfl
    | intro _
    | split
    | dsimp only

theorem omalloc_bc {ps sz zero_fill f : Nat} {mopts : malloc_readonly} :
    keeps bigcache_rel (omalloc ps mopts sz zero_fill f) := by
  unfold omalloc
  repeat' first
    | with_reducible apply keeps_ite
    | with_reducible apply keeps_bind
    | with_reducible exact keeps_pure
    | with_reducible exact keeps_get
    | with_reducible exact keeps_wrterror
    | with_reducible exact keeps_diverges
    | with_reducible exact keeps_undefined
    | with_reducible exact keeps_lift_outcome
    | with_reducible apply keeps_modify
    | with_reducible exact map_bc
    | with_reducible exact insert_pool_bc
    | with_reducible exact unmap_bc
    | with_reducible exact os_mprotect_bc
    | with_reducible exact malloc_bytes_bc
    | with_reducible assumption
    | exact bigcache_ok_of_eq (by assumption) rfl rfl rfl
    | intro _
    | split
    | dsimp only

theorem find_chunknum_check_bc {ps ptr check : Nat} {info : chunk_info} :
    keeps bigcache_rel (find_chunknum_check ps info ptr check) := by
  unfold find_chunknum_check
  repeat' first
    | with_reducible apply keeps_ite
    | with_reducible apply keeps_bind
    | with_reducible exact keeps_pure
    | with_reducible exact keeps_get
    | with_reducible exact keeps_wrterror
    | with_reducible exact keeps_diverges
    | with_reducible exact keeps_undefined
    | with_reducible exact keeps_lift_outcome
    | with_reducible apply keeps_modify
    | with_reducible exact validate_canary_bc
    | with_reducible assumption
    | exact bigcache_ok_of_eq (by assumption) rfl rfl rfl
    | intro _
    | split
    | dsimp only

theorem free_bytes_bc {ps ri ptr : Nat} {mopts : malloc_readonly} :
    keeps bigcache_rel (free_bytes ps mopts ri ptr) := by
  unfold free_bytes
  repeat' first
    | with_reducible apply keeps_ite
    | with_reducible apply keeps_bind
    | with_reducible exact keeps_pure
    | with_reducible exact keeps_get
    | with_reducible exact keeps_wrterror
    | with_reducible exact keeps_diverges
    | with_reducible exact keeps_undefined
    | with_reducible exact keeps_lift_outcome
    | with_reducible apply keeps_modify
    | with_reducible exact find_chunknum_check_bc
    | with_reducible exact STATS_SETF_bc
    | with_reducible exact getrbyte_bc
    | with_reducible exact LIST_INSERT_HEAD_dir_bc
    | with_reducible exact LIST_REMOVE_bc
    | with_reducible exact unmap_bc
    | with_reducible exact delete_pool_bc
    | with_reducible exact LIST_INSERT_HEAD_info_bc
    | with_reducible assumption
    | exact bigcache_ok_of_eq (by assumption) rfl rfl rfl
    | intro _
    | split
    | dsimp only

theorem findpool_bc {ps p : Nat} {mopts : malloc_readonly} :
    keeps bigcache_rel (findpool ps mopts p) := by
  unfold findpool
  repeat' first
    | with_reducible apply keeps_ite
    | with_reducible apply keeps_bind
    | with_reducible exact keeps_pure
    | with_reducible exact keeps_get
    | with_reducible exact keeps_wrterror
    | with_reducible exact keeps_diverges
    | with_reducible exact keeps_undefined
    | with_reducible exact keeps_lift_outcome
    | with_reducible apply keeps_modify
    | with_reducible assumption
    | exact bigcache_ok_of_eq (by assumption) rfl rfl rfl
    | intro _
    | split
    | dsimp only

theorem ofree_freecheck_bc {ps : Nat} {mopts : malloc_readonly} {p : Nat} {l : List Nat} :
    keeps bigcache_rel (ofree_freecheck ps mopts p l) := by
  induction l with
  | nil =>
    unfold ofree_freecheck
    exact keeps_pure
  | cons tmp rest ih =>
    unfold ofree_freecheck
    repeat' first
      | with_reducible apply keeps_ite
      | with_reducible apply keeps_bind
      | with_reducible exact keeps_pure
      | with_reducible exact keeps_get
      | with_reducible exact keeps_wrterror
      | with_reducible exact keeps_lift_outcome
      | with_reducible exact validate_junk_bc
      | with_reducible exact ih
      | intro _
      | split

theorem ofree_large_bc {ps ri p sz clear argsz : Nat} {mopts : malloc_readonly} :
    keeps bigcache_rel (ofree_large ps mopts ri p sz clear argsz) := by
  unfold ofree_large
  repeat' first
    | with_reducible apply keeps_ite
    | with_reducible apply keeps_bind
    | with_reducible exact keeps_pure
    | with_reducible exact keeps_get
    | with_reducible exact keeps_wrterror
    | with_reducible exact keeps_diverges
    | with_reducible exact keeps_undefined
    | with_reducible exact keeps_lift_outcome
    | with_reducible apply keeps_modify
    | with_reducible exact validate_canary_bc
    | with_reducible exact os_mprotect_bc
    | with_reducible exact unmap_bc
    | with_reducible exact delete_pool_bc
    | with_reducible assumption
    | exact bigcache_ok_of_eq (by assumption) rfl rfl rfl
    | intro _
    | split
    | dsimp only

theorem ofree_chunk_bc {ps ri p sz : Nat} {mopts : malloc_readonly} :
    keeps bigcache_rel (ofree_chunk ps mopts ri p sz) := by
  unfold ofree_chunk
  repeat' first
    | with_reducible apply keeps_ite
    | with_reducible apply keeps_bind
    | with_reducible exact keeps_pure
    | with_reducible exact keeps_get
    | with_reducible exact keeps_wrterror
    | with_reducible exact keeps_diverges
    | with_reducible exact keeps_undefined
    | with_reducible exact keeps_lift_outcome
    | with_reducible apply keeps_modify
    | with_reducible exact find_chunknum_check_bc
    | with_reducible exact ofree_freecheck_bc
    | with_reducible exact getrbyte_bc
    | with_reducible exact validate_junk_bc
    | with_reducible exact free_bytes_bc
    | with_reducible assumption
    | exact bigcache_ok_of_eq (by assumption) rfl rfl rfl
    | intro _
    | split
    | dsimp only

theorem ofree_bc {ps p clear check argsz : Nat} {mopts : malloc_readonly} :
    keeps bigcache_rel (ofree ps mopts p clear check argsz) := by
  unfold ofree
  repeat' first
    | with_reducible apply keeps_ite
    | with_reducible apply keeps_bind
    | with_reducible exact keeps_pure
    | with_reducible exact keeps_get
    | with_reducible exact keeps_wrterror
    | with_reducible exact keeps_diverges
    | with_reducible exact keeps_undefined
    | with_reducible exact keeps_lift_outcome
    | with_reducible apply keeps_modify
    | with_reducible exact findpool_bc
    | with_reducible exact find_chunknum_check_bc
    | with_reducible exact ofree_large_bc
    | with_reducible exact ofree_chunk_bc
    | with_reducible assumption
    | exact bigcache_ok_of_eq (by assumption) rfl rfl rfl
    | intro _
    | split
    | dsimp only

theorem set_region_size_bc {ri sz : Nat} :
    keeps bigcache_rel (set_region_size ri sz) := by
  unfold set_region_size
  repeat' first
    | with_reducible apply keeps_ite
    | with_reducible apply keeps_bind
    | with_reducible exact keeps_pure
    | with_reducible exact keeps_get
    | with_reducible exact keeps_wrterror
    | with_reducible exact keeps_diverges
    | with_reducible exact keeps_undefined
    | with_reducible exact keeps_lift_outcome
    | with_reducible apply keeps_modify
    | with_reducible assumption
    | exact bigcache_ok_of_eq (by assumption) rfl rfl rfl
    | intro _
    | split
    | dsimp only

theorem orealloc_pages_bc {ps ri p goldsz gnewsz f : Nat} {mopts : malloc_readonly} :
    keeps bigcache_rel (orealloc_pages ps mopts ri p goldsz gnewsz f) := by
  unfold orealloc_pages
  repeat' first
    | with_reducible apply keeps_ite
    | with_reducible apply keeps_bind
    | with_reducible exact keeps_pure
    | with_reducible exact keeps_get
    | with_reducible exact keeps_wrterror
    | with_reducible exact keeps_diverges
    | with_reducible exact keeps_undefined
    | with_reducible exact keeps_lift_outcome
    | with_reducible apply keeps_modify
    | with_reducible exact os_mmap_fixed_bc
    | with_reducible exact set_region_size_bc
    | with_reducible exact STATS_SETF_bc
    | with_reducible exact os_mprotect_bc
    | with_reducible exact os_munmap_bc
    | with_reducible assumption
    | exact bigcache_ok_of_eq (by assumption) rfl rfl rfl
    | intro _
    | split
    | dsimp only

theorem orealloc_bc {ps p newsz f : Nat} {mopts : malloc_readonly} :
    keeps bigcache_rel (orealloc ps mopts p newsz f) := by
  unfold orealloc
  repeat' first
    | with_reducible apply keeps_ite
    | with_reducible apply keeps_bind
    | with_reducible exact keeps_pure
    | with_reducible exact keeps_get
    | with_reducible exact keeps_wrterror
    | with_reducible exact keeps_diverges
    | with_reducible exact keeps_undefined
    | with_reducible exact keeps_lift_outcome
    | with_reducible apply keeps_modify
    | with_reducible exact omalloc_bc
    | with_reducible exact findpool_bc
    | with_reducible exact find_chunknum_check_bc
    | with_reducible exact orealloc_pages_bc
    | with_reducible exact STATS_SETF_bc
    | with_reducible exact ofree_bc
    | with_reducible assumption
    | exact bigcache_ok_of_eq (by assumption) rfl rfl rfl
    | intro _
    | split
    | dsimp only

theorem orecallocarray_bc {ps p oldsize newsize f : Nat} {mopts : malloc_readonly} :
    keeps bigcache_rel (orecallocarray ps mopts p oldsize newsize f) := by
  unfold orecallocarray
  repeat' first
    | with_reducible apply keeps_ite
    | with_reducible apply keeps_bind
    | with_reducible exact keeps_pure
    | with_reducible exact keeps_get
    | with_reducible exact keeps_wrterror
    | with_reducible exact keeps_diverges
    | with_reducible exact keeps_undefined
    | with_reducible exact keeps_lift_outcome
    | with_reducible apply keeps_modify
    | with_reducible exact omalloc_bc
    | with_reducible exact findpool_bc
    | with_reducible exact find_chunknum_check_bc
    | with_reducible exact ofree_bc
    | with_reducible assumption
    | exact bigcache_ok_of_eq (by assumption) rfl rfl rfl
    | intro _
    | split
    | dsimp only

theorem mapalign_trim_bc {p alignment sz : Nat} :
    keeps bigcache_rel (mapalign_trim p alignment sz) := by
  unfold mapalign_trim
  repeat' first
    | with_reducible apply keeps_ite
    | with_reducible apply keeps_bind
    | with_reducible exact keeps_pure
    | with_reducible exact keeps_get
    | with_reducible exact keeps_wrterror
    | with_reducible exact keeps_diverges
    | with_reducible exact keeps_undefined
    | with_reducible exact keeps_lift_outcome
    | with_reducible apply keeps_modify
    | with_reducible exact os_munmap_bc
    | with_reducible assumption
    | exact bigcache_ok_of_eq (by assumption) rfl rfl rfl
    | intro _
    | split
    | dsimp only

theorem mapalign_bc {ps alignment sz zero_fill : Nat} {mopts : malloc_readonly} :
    keeps bigcache_rel (mapalign ps mopts alignment sz zero_fill) := by
  unfold mapalign
  repeat' first
    | with_reducible apply keeps_ite
    | with_reducible apply keeps_bind
    | with_reducible exact keeps_pure
    | with_reducible exact keeps_get
    | with_reducible exact keeps_wrterror
    | with_reducible exact keeps_diverges
    | with_reducible exact keeps_undefined
    | with_reducible exact keeps_lift_outcome
    | with_reducible apply keeps_modify
    | with_reducible exact map_bc
    | with_reducible exact mapalign_trim_bc
    | with_reducible assumption
    | exact bigcache_ok_of_eq (by assumption) rfl rfl rfl
    | intro _
    | split
    | dsimp only

theorem omemalign_bc {ps alignment sz zero_fill f : Nat} {mopts : malloc_readonly} :
    keeps bigcache_rel (omemalign ps mopts alignment sz zero_fill f) := by
  unfold omemalign
  repeat' first
    | with_reducible apply keeps_ite
    | with_reducible apply keeps_bind
    | with_reducible exact keeps_pure
    | with_reducible exact keeps_get
    | with_reducible exact keeps_wrterror
    | with_reducible exact keeps_diverges
    | with_reducible exact keeps_undefined
    | with_reducible exact keeps_lift_outcome
    | with_reducible apply keeps_modify
    | with_reducible exact omalloc_bc
    | with_reducible exact mapalign_bc
    | with_reducible exact insert_pool_bc
    | with_reducible exact unmap_bc
    | with_reducible exact os_mprotect_bc
    | with_reducible assumption
    | exact bigcache_ok_of_eq (by assumption) rfl rfl rfl
    | intro _
    | split
    | dsimp only

theorem EPILOGUE_bc {mopts : malloc_readonly} {saved_errno r : Nat} :
    keeps bigcache_rel (EPILOGUE mopts saved_errno r) := by
  unfold EPILOGUE
  repeat' first
    | with_reducible apply keeps_ite
    | with_reducible apply keeps_bind
    | with_reducible exact keeps_pure
    | with_reducible exact keeps_get
    | with_reducible exact keeps_wrterror
    | with_reducible exact keeps_diverges
    | with_reducible exact keeps_undefined
    | with_reducible exact keeps_lift_outcome
    | with_reducible apply keeps_modify
    | with_reducible assumption
    | exact bigcache_ok_of_eq (by assumption) rfl rfl rfl
    | intro _
    | split
    | dsimp only

theorem malloc_bc {ps size caller : Nat} {mopts : malloc_readonly} :
    keeps bigcache_rel (malloc ps mopts size caller) := by
  unfold malloc
  repeat' first
    | with_reducible apply keeps_ite
    | with_reducible apply keeps_bind
    | with_reducible exact keeps_pure
    | with_reducible exact keeps_get
    | with_reducible exact keeps_wrterror
    | with_reducible exact keeps_diverges
    | with_reducible exact keeps_undefined
    | with_reducible exact keeps_lift_outcome
    | with_reducible apply keeps_modify
    | with_reducible exact omalloc_bc
    | with_reducible exact EPILOGUE_bc
    | with_reducible assumption
    | exact bigcache_ok_of_eq (by assumption) rfl rfl rfl
    | intro _
    | split
    | dsimp only

theorem free_bc {ps ptr : Nat} {mopts : malloc_readonly} :
    keeps bigcache_rel (free ps mopts ptr) := by
  unfold free
  repeat' first
    | with_reducible apply keeps_ite
    | with_reducible apply keeps_bind
    | with_reducible exact keeps_pure
    | with_reducible exact keeps_get
    | with_reducible exact keeps_wrterror
    | with_reducible exact keeps_diverges
    | with_reducible exact keeps_undefined
    | with_reducible exact keeps_lift_outcome
    | with_reducible apply keeps_modify
    | with_reducible exact ofree_bc
    | with_reducible assumption
    | exact bigcache_ok_of_eq (by assumption) rfl rfl rfl
    | intro _
    | split
    | dsimp only

theorem freezero_bc {ps ptr sz : Nat} {mopts : malloc_readonly} :
    keeps bigcache_rel (freezero ps mopts ptr sz) := by
  unfold freezero
  repeat' first
    | with_reducible apply keeps_ite
    | with_reducible apply keeps_bind
    | with_reducible exact keeps_pure
    | with_reducible exact keeps_get
    | with_reducible exact keeps_wrterror
    | with_reducible exact keeps_diverges
    | with_reducible exact keeps_undefined
    | with_reducible exact keeps_lift_outcome
    | with_reducible apply keeps_modify
    | with_reducible exact free_bc
    | with_reducible exact ofree_bc
    | with_reducible assumption
    | exact bigcache_ok_of_eq (by assumption) rfl rfl rfl
    | intro _
    | split
    | dsimp only

theorem realloc_bc {ps ptr size caller : Nat} {mopts : malloc_readonly} :
    keeps bigcache_rel (realloc ps mopts ptr size caller) := by
  unfold realloc
  repeat' first
    | with_reducible apply keeps_ite
    | with_reducible apply keeps_bind
    | with_reducible exact keeps_pure
    | with_reducible exact keeps_get
    | with_reducible exact keeps_wrterror
    | with_reducible exact keeps_diverges
    | with_reducible exact keeps_undefined
    | with_reducible exact keeps_lift_outcome
    | with_reducible apply keeps_modify
    | with_reducible exact orealloc_bc
    | with_reducible exact EPILOGUE_bc
    | with_reducible assumption
    | exact bigcache_ok_of_eq (by assumption) rfl rfl rfl
    | intro _
    | split
    | dsimp only

theorem calloc_bc {ps nmemb size caller : Nat} {mopts : malloc_readonly} :
    keeps bigcache_rel (calloc ps mopts nmemb size caller) := by
  unfold calloc
  repeat' first
    | with_reducible apply keeps_ite
    | with_reducible apply keeps_bind
    | with_reducible exact keeps_pure
    | with_reducible exact keeps_get
    | with_reducible exact keeps_wrterror
    | with_reducible exact keeps_diverges
    | with_reducible exact keeps_undefined
    | with_reducible exact keeps_lift_outcome
    | with_reducible apply keeps_modify
    | with_reducible exact omalloc_bc
    | with_reducible exact EPILOGUE_bc
    | with_reducible assumption
    | exact bigcache_ok_of_eq (by assumption) rfl rfl rfl
    | intro _
    | split
    | dsimp only

theorem recallocarray_p_bc {ps ptr oldnmemb newnmemb size caller : Nat} {mopts : malloc_readonly} :
    keeps bigcache_rel (recallocarray_p ps mopts ptr oldnmemb newnmemb size caller) := by
  unfold recallocarray_p
  repeat' first
    | with_reducible apply keeps_ite
    | with_reducible apply keeps_bind
    | with_reducible exact keeps_pure
    | with_reducible exact keeps_get
    | with_reducible exact keeps_wrterror
    | with_reducible exact keeps_diverges
    | with_reducible exact keeps_undefined
    | with_reducible exact keeps_lift_outcome
    | with_reducible apply keeps_modify
    | with_reducible exact calloc_bc
    | with_reducible exact malloc_bc
    | with_reducible exact free_bc
    | with_reducible assumption
    | exact bigcache_ok_of_eq (by assumption) rfl rfl rfl
    | intro _
    | split
    | dsimp only

theorem recallocarray_bc {ps ptr oldnmemb newnmemb size caller : Nat} {mopts : malloc_readonly} :
    keeps bigcache_rel (recallocarray ps mopts ptr oldnmemb newnmemb size caller) := by
  unfold recallocarray
  repeat' first
    | with_reducible apply keeps_ite
    | with_reducible apply keeps_bind
    | with_reducible exact keeps_pure
    | with_reducible exact keeps_get
    | with_reducible exact keeps_wrterror
    | with_reducible exact keeps_diverges
    | with_reducible exact keeps_undefined
    | with_reducible exact keeps_lift_outcome
    | with_reducible apply keeps_modify
    | with_reducible exact recallocarray_p_bc
    | with_reducible exact orecallocarray_bc
    | with_reducible exact EPILOGUE_bc
    | with_reducible assumption
    | exact bigcache_ok_of_eq (by assumption) rfl rfl rfl
    | intro _
    | split
    | dsimp only

theorem posix_memalign_bc {ps alignment size caller : Nat} {mopts : malloc_readonly} :
    keeps bigcache_rel (posix_memalign ps mopts alignment size caller) := by
  unfold posix_memalign
  apply keeps_intro
  intro z s Q h hQ
  repeat' first
    | with_reducible apply wp_ite_i
    | with_reducible apply wp_bind_i
    | with_reducible apply wp_env_next_i
    | with_reducible apply wp_pure_i
    | with_reducible apply wp_get_i
    | with_reducible apply wp_set_i
    | with_reducible apply wp_modify_i
    | with_reducible exact wp_wrterror_i
    | with_reducible exact wp_diverges_i
    | with_reducible exact wp_undefined_i
    | with_reducible apply wp_lift_outcome_i
    | with_reducible apply keeps_wp z omemalign_bc
    | with_reducible assumption
    | with_reducible apply hQ
    | exact bigcache_ok_of_eq (by assumption) rfl rfl rfl
    | intro _
    | split
    | dsimp only

theorem aligned_alloc_bc {ps alignment size caller : Nat} {mopts : malloc_readonly} :
    keeps bigcache_rel (aligned_alloc ps mopts alignment size caller) := by
  unfold aligned_alloc
  repeat' first
    | with_reducible apply keeps_ite
    | with_reducible apply keeps_bind
    | with_reducible exact keeps_pure
    | with_reducible exact keeps_get
    | with_reducible exact keeps_wrterror
    | with_reducible exact keeps_diverges
    | with_reducible exact keeps_undefined
    | with_reducible exact keeps_lift_outcome
    | with_reducible apply keeps_modify
    | with_reducible exact omemalign_bc
    | with_reducible exact EPILOGUE_bc
    | with_reducible assumption
    | exact bigcache_ok_of_eq (by assumption) rfl rfl rfl
    | intro _
    | split
    | dsimp only

/-! ## The scan of map over the big cache -/

theorem range_map_getD (l : List bigcache) (d : bigcache) :
    (List.range l.length).map (fun i => l.getD i d) = l := by
  apply List.ext_getElem
  · simp
  · intro i h1 h2
    rw [List.getElem_map, List.getElem_range, List.getD_eq_getElem _ _ h2]

theorem rotate_perm (n base : Nat) (hn : 0 < n) :
    ((List.range n).map (fun t => (t + base) % n)).Perm (List.range n) := by
  have hnd : ((List.range n).map (fun t => (t + base) % n)).Nodup := by
    apply List.Nodup.map_on _ (List.nodup_range n)
    intro a ha b hb hab
    rw [List.mem_range] at ha hb
    exact Nat.ModEq.eq_of_lt_of_lt (Nat.ModEq.add_right_cancel' base hab) ha hb
  have hsub : (List.range n).map (fun t => (t + base) % n) ⊆ List.range n := by
    intro y hy
    obtain ⟨t, _, rfl⟩ := List.mem_map.1 hy
    exact List.mem_range.2 (Nat.mod_lt _ hn)
  exact (List.subperm_of_subset hnd hsub).perm_of_length_le (by simp)

/-- The page count of the slots in the order in which the scan visits them. -/
theorem rotate_sum (bc : List bigcache) (base : Nat) (hn : 0 < bc.length) :
    ((List.range bc.length).map
      (fun t => (bc.getD ((t + base) % bc.length) ⟨0, 0⟩).psize)).sum =
      (bc.map (fun e => e.psize)).sum := by
  have h1 : (List.range bc.length).map
      (fun t => (bc.getD ((t + base) % bc.length) ⟨0, 0⟩).psize) =
      ((List.range bc.length).map (fun t => (t + base) % bc.length)).map
        (fun x => (bc.getD x ⟨0, 0⟩).psize) := by
    rw [List.map_map]; rfl
  rw [h1, ((rotate_perm bc.length base hn).map _).sum_eq]
  have h2 : (List.range bc.length).map (fun x => (bc.getD x ⟨0, 0⟩).psize) =
      ((List.range bc.length).map (fun i => bc.getD i ⟨0, 0⟩)).map (fun e => e.psize) := by
    rw [List.map_map]; rfl
  rw [h2, range_map_getD]

theorem drop_range_cons (n j : Nat) (hj : j < n) :
    (List.range n).drop j = j :: (List.range n).drop (j + 1) := by
  rw [List.drop_eq_getElem_cons (by simpa using hj), List.getElem_range]

theorem tail_sum_ge (w : Nat → Nat) (n : Nat) :
    ∀ fuel j t, j + fuel = n → j ≤ t → t < n →
      w t ≤ (((List.range n).drop j).map w).sum := by
  intro fuel
  induction fuel with
  | zero => intro j t h1 h2 h3; omega
  | succ fuel ih =>
    intro j t h1 h2 h3
    rw [drop_range_cons n j (by omega), List.map_cons, List.sum_cons]
    by_cases htj : t = j
    · rw [htj]; omega
    · have := ih (j + 1) t (by omega) (by omega) h3
      omega

theorem map_scan_tail (bc : List bigcache) (k base psz : Nat) (hk : k ≤ 16)
    (hsum : (bc.map (fun e => e.psize)).sum < 2 ^ 64) :
    ∀ fuel j, j + fuel = 2 ^ k →
      (((List.range (2 ^ k)).drop j).map
        (fun t => (bc.getD ((t + base) % 2 ^ k) ⟨0, 0⟩).psize)).sum ≤
          (bc.map (fun e => e.psize)).sum →
      (∃ t, j ≤ t ∧ t < 2 ^ k ∧ (bc.getD ((t + base) % 2 ^ k) ⟨0, 0⟩).psize = psz) →
      ∃ i, map_scan bc (2 ^ k) psz base fuel j
          (((List.range (2 ^ k)).drop j).map
            (fun t => (bc.getD ((t + base) % 2 ^ k) ⟨0, 0⟩).psize)).sum = some i ∧
        i < 2 ^ k ∧ (bc.getD i ⟨0, 0⟩).psize = psz := by
  have hpos : 0 < 2 ^ k := Nat.pow_pos (by norm_num)
  intro fuel
  induction fuel with
  | zero =>
    intro j h1 _ ⟨t, h2, h3, _⟩
    omega
  | succ fuel ih =>
    intro j h1 hle ⟨t, h2, h3, h4⟩
    have hge := tail_sum_ge (fun t => (bc.getD ((t + base) % 2 ^ k) ⟨0, 0⟩).psize) (2 ^ k)
      (fuel + 1) j t h1 h2 h3
    dsimp only at hge
    rw [h4] at hge
    unfold map_scan
    dsimp only
    rw [if_pos hge, mask_index (2 ^ k) k _ hk rfl]
    by_cases hw : (bc.getD ((j + base) % 2 ^ k) ⟨0, 0⟩).psize = psz
    · rw [if_pos hw]
      exact ⟨_, rfl, Nat.mod_lt _ hpos, hw⟩
    · rw [if_neg hw]
      have hcons := drop_range_cons (2 ^ k) j (by omega)
      rw [hcons, List.map_cons, List.sum_cons] at hle ⊢
      have hsubeq : sub64 ((bc.getD ((j + base) % 2 ^ k) ⟨0, 0⟩).psize +
          (((List.range (2 ^ k)).drop (j + 1)).map
            (fun t => (bc.getD ((t + base) % 2 ^ k) ⟨0, 0⟩).psize)).sum)
          (bc.getD ((j + base) % 2 ^ k) ⟨0, 0⟩).psize =
          (((List.range (2 ^ k)).drop (j + 1)).map
            (fun t => (bc.getD ((t + base) % 2 ^ k) ⟨0, 0⟩).psize)).sum := by
        rw [sub64_eq _ _ (by omega) (by omega)]
        omega
      rw [hsubeq]
      apply ih (j + 1) (by omega) (by omega)
      refine ⟨t, ?_, h3, h4⟩
      by_contra hc
      have : t = j := by omega
      rw [this] at h4
      exact hw h4

/-- The scan of `map` finds a slot of `psz` pages whenever the big cache has one,
from every starting index. -/
theorem map_scan_finds (bc : List bigcache) (k base psz x : Nat) (hk : k ≤ 16)
    (hlen : bc.length = 2 ^ k) (hsum : (bc.map (fun e => e.psize)).sum < 2 ^ 64)
    (hx : x < 2 ^ k) (hxp : (bc.getD x ⟨0, 0⟩).psize = psz) :
    ∃ i, map_scan bc (2 ^ k) psz base (2 ^ k) 0 (bc.map (fun e => e.psize)).sum = some i ∧
      i < 2 ^ k ∧ (bc.getD i ⟨0, 0⟩).psize = psz := by
  have hpos : 0 < 2 ^ k := Nat.pow_pos (by norm_num)
  have hrot := rotate_sum bc base (by rw [hlen]; exact hpos)
  rw [hlen] at hrot
  have h := map_scan_tail bc k base psz hk hsum (2 ^ k) 0 (by omega)
    (by rw [List.drop_zero, hrot]) ?_
  · rw [List.drop_zero, hrot] at h
    exact h
  · -- the slot `x` is visited at the step `t` with `(t + base) % 2 ^ k = x`
    refine ⟨(x + (2 ^ k - base % 2 ^ k)) % 2 ^ k, Nat.zero_le _, Nat.mod_lt _ hpos, ?_⟩
    have hb := Nat.mod_lt base hpos
    have e : ((x + (2 ^ k - base % 2 ^ k)) % 2 ^ k + base) % 2 ^ k = x := by
      rw [Nat.add_mod, Nat.mod_mod, ← Nat.add_mod]
      have e2 : x + (2 ^ k - base % 2 ^ k) + base =
          x + 2 ^ k + 2 ^ k * (base / 2 ^ k) := by
        have := Nat.div_add_mod base (2 ^ k)
        omega
      rw [e2, Nat.add_mul_mod_self_left, Nat.add_mod_right, Nat.mod_eq_of_lt hx]
    rw [e]
    exact hxp

theorem init_pool_bigcache_ok (ps : Nat) (mopts : malloc_readonly) (self i : Nat)
    (mapped : List Nat)
    (h : mopts.def_maxcache = 0 ∨ ∃ k, k ≤ 16 ∧ mopts.def_maxcache = 2 ^ k) :
    bigcache_ok (malloc_init_pool ps mopts self i mapped) := by
  unfold bigcache_ok malloc_init_pool
  dsimp only
  refine ⟨List.length_replicate _ _, ?_, ?_, ?_⟩
  · by_cases hi : i = 0
    · rw [if_pos hi]; exact Or.inl rfl
    · rw [if_neg hi]; exact h
  · intro e he
    rw [List.eq_of_mem_replicate he]
    exact Nat.zero_le _
  · generalize (if i = 0 then 0 else mopts.def_maxcache) = n
    induction n with
    | zero => rfl
    | succ n ih => rw [List.replicate_succ, List.map_cons, List.sum_cons, ← ih]

theorem map_big_finds {mopts : malloc_readonly} {sz psz x : Nat} {s : pool_state}
    (hok : bigcache_ok s) (hx : x < s.bigcache_size)
    (hxp : (s.bigcache.getD x ⟨0, 0⟩).psize = psz) :
    wp (map_big mopts sz psz)
      (fun r _ => ∃ i, i < s.bigcache_size ∧ (s.bigcache.getD i ⟨0, 0⟩).psize = psz ∧
        r = some (s.bigcache.getD i ⟨0, 0⟩).page) s := by
  obtain ⟨hlen, hsz, hle, hsum⟩ := hok
  obtain ⟨k, hk, h2⟩ : ∃ k, k ≤ 16 ∧ s.bigcache_size = 2 ^ k := by
    rcases hsz with h0 | h
    · omega
    · exact h
  have hbound := sum_psize_le _ _ hle
  have hM : MAX_BIGCACHEABLE_SIZE = 512 := rfl
  have h16 : 2 ^ k ≤ 2 ^ 16 := Nat.pow_le_pow_right (by norm_num) hk
  rw [hM, hlen, h2] at hbound
  have hb2 : 2 ^ k * 512 ≤ 2 ^ 16 * 512 := Nat.mul_le_mul_right _ h16
  unfold map_big getrbyte
  apply wp_bind_i
  apply wp_bind_i
  apply wp_env_next_i
  apply wp_pure_i
  apply wp_bind_i
  apply wp_get_i
  dsimp only
  obtain ⟨i, hi1, hi2, hi3⟩ := map_scan_finds s.bigcache k (s.env.headD 0 % 256) psz x hk
    (by rw [hlen, h2]) (by omega) (by rw [← h2]; exact hx) hxp
  rw [h2, hsum, hi1]
  dsimp only
  apply wp_bind_i
  apply wp_set_i
  apply wp_ite_i
  · intro _
    apply wp_bind_i
    apply wp_any
    intro _ _
    apply wp_pure_i
    exact ⟨i, hi2, hi3, rfl⟩
  · intro _
    apply wp_bind_i
    apply wp_pure_i
    apply wp_pure_i
    exact ⟨i, hi2, hi3, rfl⟩

/-- C37: the big cache is consistent (`bigcache_used` is the sum of `psize` over the
slots, the array has `bigcache_size` slots, a power of two or none, each of at most
`MAX_BIGCACHEABLE_SIZE` pages) in the pool that `_malloc_init` sets up, and every
return of `unmap`, of `map` and of the public functions from a consistent state is in
a consistent state.  In a consistent state in which some slot holds `psz` pages, the
scan of `map` from every starting index ends at a slot that holds `psz` pages, and a
return of the big cache branch of `map` gives the page of such a slot. -/
theorem bigcache_used_spec (ps : Nat) (mopts : malloc_readonly) :
    (∀ self i mapped, (mopts.def_maxcache = 0 ∨ ∃ k, k ≤ 16 ∧ mopts.def_maxcache = 2 ^ k) →
      bigcache_ok (malloc_init_pool ps mopts self i mapped)) ∧
    (∀ s s' : pool_state, bigcache_ok s →
      (∀ p sz clear, unmap ps mopts p sz clear s = .ok ((), s') → bigcache_ok s') ∧
      (∀ sz zero_fill a, map ps mopts sz zero_fill s = .ok (a, s') → bigcache_ok s') ∧
      (∀ size caller a, malloc ps mopts size caller s = .ok (a, s') → bigcache_ok s') ∧
      (∀ ptr, free ps mopts ptr s = .ok ((), s') → bigcache_ok s') ∧
      (∀ ptr sz, freezero ps mopts ptr sz s = .ok ((), s') → bigcache_ok s') ∧
      (∀ ptr size caller a, realloc ps mopts ptr size caller s = .ok (a, s') →
        bigcache_ok s') ∧
      (∀ nmemb size caller a, calloc ps mopts nmemb size caller s = .ok (a, s') →
        bigcache_ok s') ∧
      (∀ ptr oldnmemb newnmemb size caller a,
        recallocarray ps mopts ptr oldnmemb newnmemb size caller s = .ok (a, s') →
        bigcache_ok s') ∧
      (∀ alignment size caller a,
        posix_memalign ps mopts alignment size caller s = .ok (a, s') → bigcache_ok s') ∧
      (∀ alignment size caller a,
        aligned_alloc ps mopts alignment size caller s = .ok (a, s') → bigcache_ok s')) ∧
    (∀ (s : pool_state) (base psz x : Nat), bigcache_ok s → x < s.bigcache_size →
      (s.bigcache.getD x ⟨0, 0⟩).psize = psz →
      ∃ i, map_scan s.bigcache s.bigcache_size psz base s.bigcache_size 0 s.bigcache_used =
          some i ∧
        i < s.bigcache_size ∧ (s.bigcache.getD i ⟨0, 0⟩).psize = psz) ∧
    (∀ (s : pool_state) (sz psz x : Nat) (r : Option Nat) (s' : pool_state),
      bigcache_ok s → x < s.bigcache_size → (s.bigcache.getD x ⟨0, 0⟩).psize = psz →
      map_big mopts sz psz s = .ok (r, s') →
      ∃ i, i < s.bigcache_size ∧ (s.bigcache.getD i ⟨0, 0⟩).psize = psz ∧
        r = some (s.bigcache.getD i ⟨0, 0⟩).page) := by
  refine ⟨fun self i mapped h => init_pool_bigcache_ok ps mopts self i mapped h, ?_, ?_, ?_⟩
  · intro s s' hok
    have k : ∀ {α : Type} {m : Run α} {a : α}, keeps bigcache_rel m → m s = .ok (a, s') →
        bigcache_ok s' :=
      fun hm hrun => wp_run (keeps_wp (Q := fun _ s2 => bigcache_ok s2) s hm hok
        (fun _ _ h => h)) hrun
    exact ⟨fun _ _ _ h => k unmap_bc h, fun _ _ _ h => k map_bc h,
      fun _ _ _ h => k malloc_bc h, fun _ h => k free_bc h, fun _ _ h => k freezero_bc h,
      fun _ _ _ _ h => k realloc_bc h, fun _ _ _ _ h => k calloc_bc h,
      fun _ _ _ _ _ _ h => k recallocarray_bc h, fun _ _ _ _ h => k posix_memalign_bc h,
      fun _ _ _ _ h => k aligned_alloc_bc h⟩
  · intro s base psz x hok hx hxp
    obtain ⟨hlen, hsz, hle, hsum⟩ := hok
    obtain ⟨k, hk, h2⟩ : ∃ k, k ≤ 16 ∧ s.bigcache_size = 2 ^ k := by
      rcases hsz with h0 | h
      · omega
      · exact h
    have hbound := sum_psize_le _ _ hle
    have hM : MAX_BIGCACHEABLE_SIZE = 512 := rfl
    have h16 : 2 ^ k ≤ 2 ^ 16 := Nat.pow_le_pow_right (by norm_num) hk
    rw [hM, hlen, h2] at hbound
    have hb2 : 2 ^ k * 512 ≤ 2 ^ 16 * 512 := Nat.mul_le_mul_right _ h16
    rw [h2, hsum]
    exact map_scan_finds s.bigcache k base psz x hk (by rw [hlen, h2]) (by omega)
      (by rw [← h2]; exact hx) hxp
  · intro s sz psz x r s' hok hx hxp hrun
    exact wp_run (map_big_finds hok hx hxp) hrun

set_option maxRecDepth 1000000 in
/-- In `example_bigcache_pool`, whose slot 5 holds 40 pages, the scan of `map` for 40
pages from the starting index 9 ends at a slot that holds 40 pages. -/
theorem bigcache_used_spec_witness :
    bigcache_ok example_bigcache_pool ∧
    5 < example_bigcache_pool.bigcache_size ∧
    (example_bigcache_pool.bigcache.getD 5 ⟨0, 0⟩).psize = 40 ∧
    ∃ i, map_scan example_bigcache_pool.bigcache example_bigcache_pool.bigcache_size 40 9
        example_bigcache_pool.bigcache_size 0 example_bigcache_pool.bigcache_used = some i ∧
      i < example_bigcache_pool.bigcache_size ∧
      (example_bigcache_pool.bigcache.getD i ⟨0, 0⟩).psize = 40 := by
  have hok : bigcache_ok example_bigcache_pool :=
    ⟨by decide, Or.inr ⟨6, by decide, by decide⟩, by decide, by decide⟩
  exact ⟨hok, by decide, by decide,
    (bigcache_used_spec 12 (default_mopts 7)).2.2.1 example_bigcache_pool 9 40 5 hok
      (by decide) (by decide)⟩

/-! ## A second free of a chunk -/

theorem find_sound {ps : Nat} {mopts : malloc_readonly} {d : dir_info} {q x : Nat}
    (h : find ps mopts d q = .ok (some x)) :
    (slot d.r x).p ≠ 0 ∧ MASK_POINTER ps (slot d.r x).p = MASK_POINTER ps q := by
  unfold find at h
  dsimp only at h
  split at h
  · exact Outcome.noConfusion h
  split at h
  · injection h with h
    exact Option.noConfusion h
  split at h
  · exact Outcome.noConfusion h
  split at h
  · rename_i hc
    injection h with h
    injection h with h
    subst h
    exact ⟨hc.2, hc.1⟩
  · injection h with h
    exact Option.noConfusion h

theorem slot_p_map (r : List region_info) (i : Nat) :
    (slot r i).p = (r.map (fun e => e.p)).getD i 0 := by
  unfold slot
  rw [List.getD_eq_getElem?_getD, List.getD_eq_getElem?_getD, List.getElem?_map]
  cases r[i]? with
  | none => rfl
  | some e => rfl

theorem find_probe_congr (ps : Nat) (r r2 : List region_info) (mask p : Nat)
    (h : ∀ i, (slot r2 i).p = (slot r i).p) (fuel index : Nat) :
    find_probe ps r2 mask p fuel index = find_probe ps r mask p fuel index := by
  induction fuel generalizing index with
  | zero => rfl
  | succ n ih =>
    unfold find_probe
    rw [h index, ih]

/-- The lookup reads only the keys of the slots. -/
theorem find_congr {ps : Nat} {mopts : malloc_readonly} {d d2 : dir_info} (q : Nat)
    (hc1 : d2.canary1 = d.canary1) (hc2 : d2.canary2 = d.canary2) (hs : d2.self = d.self)
    (ht : d2.regions_total = d.regions_total)
    (hm : d2.r.map (fun e => e.p) = d.r.map (fun e => e.p)) :
    find ps mopts d2 q = find ps mopts d q := by
  have hslot : ∀ i, (slot d2.r i).p = (slot d.r i).p := by
    intro i
    rw [slot_p_map, slot_p_map, hm]
  have hnil : (d2.r = []) = (d.r = []) := by
    have hl : d2.r.length = d.r.length := by
      have := congrArg List.length hm
      simpa using this
    apply propext
    constructor
    · intro h
      apply List.eq_nil_of_length_eq_zero
      rw [← hl, h]; rfl
    · intro h
      apply List.eq_nil_of_length_eq_zero
      rw [hl, h]; rfl
  have hcc : canary_corrupt mopts d2 = canary_corrupt mopts d := by
    unfold canary_corrupt
    rw [hc1, hc2, hs]
  unfold find
  dsimp only
  rw [hcc, ht, find_probe_congr ps d.r d2.r _ _ hslot]
  simp only [hnil, hslot]

/-- Well-formedness of the directory reads only the keys of the slots. -/
theorem dir_wf_congr {ps : Nat} {mopts : malloc_readonly} {d d2 : dir_info}
    (hc1 : d2.canary1 = d.canary1) (hc2 : d2.canary2 = d.canary2) (hs : d2.self = d.self)
    (ht : d2.regions_total = d.regions_total) (hf : d2.regions_free = d.regions_free)
    (hm : d2.r.map (fun e => e.p) = d.r.map (fun e => e.p))
    (hwf : dir_wf ps mopts d) : dir_wf ps mopts d2 := by
  have hslot : ∀ i, (slot d2.r i).p = (slot d.r i).p := by
    intro i
    rw [slot_p_map, slot_p_map, hm]
  have hl : d2.r.length = d.r.length := by
    have := congrArg List.length hm
    simpa using this
  have hcc : canary_corrupt mopts d2 = canary_corrupt mopts d := by
    unfold canary_corrupt
    rw [hc1, hc2, hs]
  obtain ⟨w1, w2, w3, w4, w5, w6, w7⟩ := hwf
  refine ⟨by rw [hcc]; exact w1, by rw [hl, ht]; exact w2, by rw [ht]; exact w3, ?_,
    by rw [ht, hf]; exact w5, ?_, ?_⟩
  · rw [hf, w4]
    have e : ∀ r : List region_info,
        r.countP (fun e => e.p = 0) = (r.map (fun e => e.p)).countP (fun x => x = 0) := by
      intro r
      rw [List.countP_map]
      rfl
    rw [e d.r, e d2.r, hm]
  · unfold chain_ok at w6 ⊢
    rw [hl]
    intro x hx hox y hy hlt
    rw [hslot] at hox hlt ⊢
    exact w6 x hx hox y hy hlt
  · unfold pages_unique at w7 ⊢
    rw [hl]
    intro x hx y hy hox hoy he
    rw [hslot] at hox hoy he
    rw [hslot] at he
    exact w7 x hx y hy hox hoy he

theorem find_chunknum_mark_other {ps canary1 ptr k ko : Nat} {info : chunk_info}
    (h : find_chunknum ps canary1 info ptr = .ok k) (hne : ko ≠ k) :
    find_chunknum ps canary1 (free_bytes_mark info ko) ptr = .ok k := by
  have hbit := find_chunknum_in_use h
  have hbit2 : chunk_bit (free_bytes_mark info ko).bits k = false := by
    rw [chunk_bit_mark_other info ko k hne]; exact hbit
  unfold find_chunknum at h ⊢
  dsimp only at h ⊢
  have e1 : (free_bytes_mark info ko).canary = info.canary := rfl
  have e2 : (free_bytes_mark info ko).bucket = info.bucket := rfl
  rw [e1, e2]
  split at h
  · exact Outcome.noConfusion h
  rename_i hc
  rw [if_neg hc]
  split at h
  · exact Outcome.noConfusion h
  rename_i hal
  rw [if_neg hal]
  split at h
  · exact Outcome.noConfusion h
  injection h with h
  rw [h]
  unfold chunk_bit at hbit2
  rw [← and_bit_eq_zero] at hbit2
  rw [if_neg (by rw [hbit2]; exact fun h => h rfl)]

theorem env_head_zero {s : pool_state} (henv : ∀ x ∈ s.env, x = 0) : s.env.headD 0 = 0 := by
  cases he : s.env with
  | nil => rfl
  | cons a t =>
    rw [he] at henv
    exact henv a (List.mem_cons_self _ _)

theorem validate_junk_quiet {p sz : Nat} {P : wrterror_msg → Prop} {D : Prop}
    {s : pool_state} (henv : ∀ x ∈ s.env, x = 0) :
    wpx (validate_junk p sz) P D (fun _ s' => core_frame s s' ∧ ∀ x ∈ s'.env, x = 0) s := by
  unfold validate_junk
  apply wpx_bind_i
  apply wpx_get_i
  apply wpx_ite_i
  · intro _
    apply wpx_pure_i
    exact ⟨⟨rfl, rfl, rfl, rfl, rfl, rfl, rfl, rfl⟩, henv⟩
  intro _
  apply wpx_bind_i
  apply wpx_env_next_i
  rw [env_head_zero henv]
  apply wpx_ite_i
  · intro h
    exact absurd rfl h
  intro _
  apply wpx_pure_i
  exact ⟨⟨rfl, rfl, rfl, rfl, rfl, rfl, rfl, rfl⟩, fun x hx => henv x (List.mem_of_mem_tail hx)⟩

theorem validate_canary_quiet {p sz al : Nat} {P : wrterror_msg → Prop} {D : Prop}
    {s : pool_state} (henv : ∀ x ∈ s.env, x = 0) :
    wpx (validate_canary p sz al) P D
      (fun _ s' => core_frame s s' ∧ ∀ x ∈ s'.env, x = 0) s := by
  unfold validate_canary
  apply wpx_ite_i
  · intro _
    apply wpx_pure_i
    exact ⟨⟨rfl, rfl, rfl, rfl, rfl, rfl, rfl, rfl⟩, henv⟩
  intro _
  apply wpx_bind_i
  apply wpx_env_next_i
  rw [env_head_zero henv]
  apply wpx_ite_i
  · intro h
    exact absurd rfl h
  intro _
  apply wpx_pure_i
  exact ⟨⟨rfl, rfl, rfl, rfl, rfl, rfl, rfl, rfl⟩, fun x hx => henv x (List.mem_of_mem_tail hx)⟩

theorem find_chunknum_check_quiet {ps ptr check k : Nat} {info : chunk_info}
    {P : wrterror_msg → Prop} {D : Prop} {s : pool_state}
    (hk : find_chunknum ps s.d.canary1 info ptr = .ok k) (henv : ∀ x ∈ s.env, x = 0) :
    wpx (find_chunknum_check ps info ptr check) P D
      (fun _ s' => core_frame s s' ∧ ∀ x ∈ s'.env, x = 0) s := by
  unfold find_chunknum_check
  apply wpx_bind_i
  apply wpx_get_i
  apply wpx_bind_i
  apply wpx_lift_outcome_i
  on_goal 2 =>
    intro e he
    rw [hk] at he
    exact Outcome.noConfusion he
  on_goal 2 =>
    intro he
    rw [hk] at he
    rcases he with he | he <;> exact Outcome.noConfusion he
  intro k2 _
  dsimp only
  apply wpx_ite_i
  · intro _
    apply wpx_bind_i
    apply wpx_mono (validate_canary_quiet henv) (fun _ h => h) (fun h => h)
    intro _ s1 h1
    apply wpx_pure_i
    exact h1
  · intro _
    apply wpx_bind_i
    apply wpx_pure_i
    apply wpx_pure_i
    exact ⟨⟨rfl, rfl, rfl, rfl, rfl, rfl, rfl, rfl⟩, henv⟩

/-- The scan of the ring under `malloc_freecheck` aborts with `double free` when the
pointer is in the ring, the other pointers of the ring have their pages in the
directory and no check of junk finds a word overwritten. -/
theorem ofree_freecheck_double {ps p : Nat} {mopts : malloc_readonly} (l : List Nat)
    (s : pool_state) (hp : p ∈ l)
    (hfind : ∀ t ∈ l, t ≠ 0 → t ≠ p → ∃ rt, find ps mopts s.d t = .ok (some rt))
    (henv : ∀ x ∈ s.env, x = 0) :
    wpx (ofree_freecheck ps mopts p l) (fun e => e = .double_free) False
      (fun _ _ => False) s := by
  induction l generalizing s with
  | nil => exact absurd hp (List.not_mem_nil _)
  | cons tmp rest ih =>
    unfold ofree_freecheck
    apply wpx_ite_i
    · intro _
      exact wpx_wrterror_i rfl
    intro hne
    have hrest : p ∈ rest := by
      rcases List.mem_cons.mp hp with h | h
      · exact absurd h.symm hne
      · exact h
    have step : ∀ s1 : pool_state, core_frame s s1 → (∀ x ∈ s1.env, x = 0) →
        wpx (ofree_freecheck ps mopts p rest) (fun e => e = .double_free) False
          (fun _ _ => False) s1 := by
      intro s1 h1 he1
      apply ih s1 hrest
      · intro t ht h0 htp
        rw [h1.1]
        exact hfind t (List.mem_cons_of_mem _ ht) h0 htp
      · exact he1
    dsimp only
    apply wpx_ite_i
    · intro h0
      apply wpx_bind_i
      apply wpx_get_i
      obtain ⟨rt, hrt⟩ := hfind tmp (List.mem_cons_self _ _) h0 hne
      apply wpx_bind_i
      apply wpx_lift_outcome_i
      on_goal 2 =>
        intro e he
        rw [hrt] at he
        exact Outcome.noConfusion he
      on_goal 2 =>
        intro he
        rw [hrt] at he
        rcases he with he | he <;> exact Outcome.noConfusion he
      intro r hr
      rw [hrt] at hr
      injection hr with hr
      subst hr
      dsimp only
      apply wpx_bind_i
      apply wpx_mono (validate_junk_quiet henv) (fun _ h => h) (fun h => h)
      intro _ s1 h1
      exact step s1 h1.1 h1.2
    · intro _
      apply wpx_bind_i
      apply wpx_pure_i
      exact step s ⟨rfl, rfl, rfl, rfl, rfl, rfl, rfl, rfl⟩ henv

theorem mem_ring_list (ring : List Nat) (i : Nat) (hi : i < MALLOC_DELAYED_CHUNK_MASK + 1) :
    ring.getD i 0 ∈
      (List.range (MALLOC_DELAYED_CHUNK_MASK + 1)).map (fun j => ring.getD j 0) :=
  List.mem_map.mpr ⟨i, List.mem_range.mpr hi, rfl⟩

/-- The chunk path of `free` on a pointer that is in the ring. -/
theorem ofree_chunk_double {ps ri p sz k i : Nat} {mopts : malloc_readonly} {s : pool_state}
    (hF : mopts.malloc_freecheck ≠ 0)
    (hb : B2SIZE (heap_get s (slot s.d.r ri).size).bucket = sz)
    (hk : find_chunknum ps s.d.canary1 (heap_get s (slot s.d.r ri).size) p = .ok k)
    (hi : i < MALLOC_DELAYED_CHUNK_MASK + 1) (hip : s.delayed_chunks.getD i 0 = p)
    (hfind : ∀ j < MALLOC_DELAYED_CHUNK_MASK + 1, s.delayed_chunks.getD j 0 ≠ 0 →
      s.delayed_chunks.getD j 0 ≠ p →
      ∃ rt, find ps mopts s.d (s.delayed_chunks.getD j 0) = .ok (some rt))
    (henv : ∀ x ∈ s.env, x = 0) :
    wpx (ofree_chunk ps mopts ri p sz) (fun e => e = .double_free) False
      (fun _ _ => False) s := by
  unfold ofree_chunk
  apply wpx_bind_i
  apply wpx_get_i
  apply wpx_ite_i
  · intro h
    exact absurd hb h
  intro _
  apply wpx_bind_i
  apply wpx_mono (find_chunknum_check_quiet hk henv) (fun _ h => h) (fun h => h)
  intro _ s1 h1
  rw [if_pos hF]
  apply wpx_bind_i
  apply wpx_mono (ofree_freecheck_double _ s1 ?_ ?_ h1.2) (fun _ h => h) (fun h => h)
  · intro _ _ h
    exact absurd h id
  · rw [← hip]
    exact mem_ring_list _ i hi
  · intro t ht h0 htp
    obtain ⟨j, hj, hjt⟩ := List.mem_map.mp ht
    subst hjt
    rw [h1.1.1]
    exact hfind j (List.mem_range.mp hj) h0 htp

/-- The second `free` of a chunk that is in the ring: the run ends in the abort with
the message `double free`. -/
theorem free_double {ps ri p k i : Nat} {mopts : malloc_readonly} {s : pool_state}
    (hp : p ≠ 0) (hF : mopts.malloc_freecheck ≠ 0)
    (hfp : find ps mopts s.d p = .ok (some ri))
    (hsz : REALSIZE ps (slot s.d.r ri) ≤ MALLOC_MAXCHUNK ps)
    (hb : B2SIZE (heap_get s (slot s.d.r ri).size).bucket = REALSIZE ps (slot s.d.r ri))
    (hk : find_chunknum ps s.d.canary1 (heap_get s (slot s.d.r ri).size) p = .ok k)
    (hi : i < MALLOC_DELAYED_CHUNK_MASK + 1) (hip : s.delayed_chunks.getD i 0 = p)
    (hfind : ∀ j < MALLOC_DELAYED_CHUNK_MASK + 1, s.delayed_chunks.getD j 0 ≠ 0 →
      s.delayed_chunks.getD j 0 ≠ p →
      ∃ rt, find ps mopts s.d (s.delayed_chunks.getD j 0) = .ok (some rt))
    (henv : ∀ x ∈ s.env, x = 0) :
    free ps mopts p s = .abort .double_free := by
  have h : wpx (free ps mopts p) (fun e => e = .double_free) False (fun _ _ => False) s := by
    unfold free
    apply wpx_bind_i
    apply wpx_get_i
    rw [if_neg hp]
    apply wpx_bind_i
    unfold ofree
    apply wpx_bind_run (findpool_run hfp)
    apply wpx_bind_i
    apply wpx_get_i
    dsimp only
    apply wpx_bind_i
    apply wpx_pure_i
    rw [if_neg (Nat.not_lt.mpr hsz)]
    apply wpx_mono (ofree_chunk_double hF hb hk hi hip hfind henv) (fun _ h => h) (fun h => h)
    intro _ _ h
    exact absurd h id
  obtain ⟨e, he, hE⟩ := wpx_aborts h
  rw [he, hE]

/-- What `free_bytes` does to the directory: the field `f` of the slot may be reset, and
the entry is deleted when the page has become entirely free. -/
theorem free_bytes_dir {ps ro old : Nat} {mopts : malloc_readonly} {s : pool_state} :
    wp (free_bytes ps mopts ro old) (fun _ s' => ∃ ko d1,
      find_chunknum ps s.d.canary1 (heap_get s (slot s.d.r ro).size) old = .ok ko ∧
      (d1 = s.d ∨ d1 = { s.d with r := s.d.r.set ro { slot s.d.r ro with f := 0 } }) ∧
      (s'.d = d1 ∨
        ((free_bytes_mark (heap_get s (slot s.d.r ro).size) ko).free =
            (free_bytes_mark (heap_get s (slot s.d.r ro).size) ko).total ∧
          delete ps d1 ro = .ok s'.d))) s := by
  unfold free_bytes
  apply wp_bind_i
  apply wp_get_i
  dsimp only
  apply wp_bind_i
  unfold find_chunknum_check
  apply wp_bind_i
  apply wp_get_i
  apply wp_bind_i
  apply wp_lift_outcome_i
  intro ko hko
  dsimp only
  apply wp_bind_i
  apply wp_pure_i
  apply wp_pure_i
  have tail : ∀ (s1 : pool_state),
      (s1.d = s.d ∨ s1.d = { s.d with r := s.d.r.set ro { slot s.d.r ro with f := 0 } }) →
      wp (do
        modify (fun s2 => { s2 with heap := s2.heap.set (slot s.d.r ro).size (free_bytes_mark (heap_get s (slot s.d.r ro).size) ko) })
        if (free_bytes_mark (heap_get s (slot s.d.r ro).size) ko).free = 1 then do
          let x ← getrbyte
          LIST_INSERT_HEAD_dir (free_bytes_mark (heap_get s (slot s.d.r ro).size) ko).bucket (x % MALLOC_CHUNK_LISTS) (slot s.d.r ro).size
        else if (free_bytes_mark (heap_get s (slot s.d.r ro).size) ko).free ≠ (free_bytes_mark (heap_get s (slot s.d.r ro).size) ko).total then pure ()
        else do
          LIST_REMOVE (slot s.d.r ro).size
          unmap ps mopts (free_bytes_mark (heap_get s (slot s.d.r ro).size) ko).page (MALLOC_PAGESIZE ps) 0
          delete_pool ps ro
          LIST_INSERT_HEAD_info (free_bytes_mark (heap_get s (slot s.d.r ro).size) ko).bucket (slot s.d.r ro).size : Run Unit)
        (fun _ s' => ∃ ko d1,
          find_chunknum ps s.d.canary1 (heap_get s (slot s.d.r ro).size) old = .ok ko ∧
          (d1 = s.d ∨ d1 = { s.d with r := s.d.r.set ro { slot s.d.r ro with f := 0 } }) ∧
          (s'.d = d1 ∨
            ((free_bytes_mark (heap_get s (slot s.d.r ro).size) ko).free =
                (free_bytes_mark (heap_get s (slot s.d.r ro).size) ko).total ∧
              delete ps d1 ro = .ok s'.d))) s1 := by
    intro s1 h1
    apply wp_bind_i
    apply wp_modify_i
    apply wp_ite_i
    · intro _
      apply wp_bind_i
      apply keeps_wp _ getrbyte_core ⟨rfl, rfl, rfl, rfl, rfl, rfl, rfl, rfl⟩
      intro x s2 h2
      unfold LIST_INSERT_HEAD_dir
      apply wp_modify_i
      exact ⟨ko, s1.d, hko, h1, Or.inl h2.1⟩
    intro _
    apply wp_ite_i
    · intro _
      apply wp_pure_i
      exact ⟨ko, s1.d, hko, h1, Or.inl rfl⟩
    intro hft
    apply wp_bind_i
    unfold LIST_REMOVE
    apply wp_modify_i
    apply wp_bind_i
    apply keeps_wp _ unmap_core ⟨rfl, rfl, rfl, rfl, rfl, rfl, rfl, rfl⟩
    intro _ s3 h3
    apply wp_bind_i
    unfold delete_pool
    apply wp_bind_i
    apply wp_get_i
    apply wp_bind_i
    apply wp_lift_outcome_i
    intro d2 hd2
    apply wp_set_i
    unfold LIST_INSERT_HEAD_info
    apply wp_modify_i
    refine ⟨ko, s1.d, hko, h1, Or.inr ⟨not_not.mp hft, ?_⟩⟩
    rw [h3.1] at hd2
    exact hd2
  apply wp_ite_i
  · intro _
    apply wp_bind_i
    unfold STATS_SETF
    apply wp_modify_i
    exact tail _ (Or.inr rfl)
  · intro _
    apply wp_bind_i
    apply wp_pure_i
    exact tail s (Or.inl rfl)

/-- A chunk free that returns, with the directory: the header of the page has the
size of the slot, the slot drawn in the ring held another pointer and now holds `p`,
and the headers and the directory change only by the `free_bytes` of the pointer that
was in the slot. -/
theorem ofree_chunk_state {ps ri p sz : Nat} {mopts : malloc_readonly} {s : pool_state} :
    wp (ofree_chunk ps mopts ri p sz)
      (fun _ s' => ∃ x k,
        B2SIZE (heap_get s (slot s.d.r ri).size).bucket = sz ∧
        find_chunknum ps s.d.canary1 (heap_get s (slot s.d.r ri).size) p = .ok k ∧
        s.delayed_chunks.getD (x &&& MALLOC_DELAYED_CHUNK_MASK) 0 ≠ p ∧
        s'.delayed_chunks = s.delayed_chunks.set (x &&& MALLOC_DELAYED_CHUNK_MASK) p ∧
        (s.delayed_chunks.getD (x &&& MALLOC_DELAYED_CHUNK_MASK) 0 = 0 →
          s'.heap = s.heap ∧ s'.d = s.d) ∧
        (s.delayed_chunks.getD (x &&& MALLOC_DELAYED_CHUNK_MASK) 0 ≠ 0 → ∃ ro ko d1,
          find ps mopts s.d (s.delayed_chunks.getD (x &&& MALLOC_DELAYED_CHUNK_MASK) 0) =
            .ok (some ro) ∧
          find_chunknum ps s.d.canary1 (heap_get s (slot s.d.r ro).size)
            (s.delayed_chunks.getD (x &&& MALLOC_DELAYED_CHUNK_MASK) 0) = .ok ko ∧
          s'.heap = s.heap.set (slot s.d.r ro).size
            (free_bytes_mark (heap_get s (slot s.d.r ro).size) ko) ∧
          (d1 = s.d ∨ d1 = { s.d with r := s.d.r.set ro { slot s.d.r ro with f := 0 } }) ∧
          (s'.d = d1 ∨
            ((free_bytes_mark (heap_get s (slot s.d.r ro).size) ko).free =
                (free_bytes_mark (heap_get s (slot s.d.r ro).size) ko).total ∧
              delete ps d1 ro = .ok s'.d)))) s := by
  unfold ofree_chunk
  apply wp_bind_i
  apply wp_get_i
  apply wp_ite_i
  · intro _; exact wp_wrterror_i
  intro hbk
  have hbk := not_not.mp hbk
  apply wp_bind_i
  apply wp_mono (find_chunknum_check_post (z := s) ⟨rfl, rfl, rfl, rfl, rfl, rfl, rfl, rfl⟩)
  intro k s1 ⟨hk, h1⟩
  dsimp only
  apply wp_ite_i
  on_goal 1 =>
    intro _
    apply wp_bind_i
    apply keeps_wp s ofree_freecheck_core h1
    intro _ s2 h2
  on_goal 2 =>
    intro _
    apply wp_bind_i
    apply wp_pure_i
    have h2 := h1
  all_goals
    apply wp_bind_i
    apply keeps_wp s getrbyte_core h2
    intro x s3 h3
    apply wp_ite_i
    · intro _; exact wp_wrterror_i
    intro hne
    apply wp_bind_i
    apply wp_modify_i
    apply wp_ite_i
    · intro hold
      apply wp_bind_i
      apply wp_get_i
      apply wp_bind_i
      apply wp_lift_outcome_i
      intro r hr
      dsimp only at hr
      rw [h3.1] at hr
      cases r with
      | none => exact wp_wrterror_i
      | some ro =>
        dsimp only
        have hfin : ∀ s5 : pool_state, s5.d = s.d → s5.heap = s.heap →
            s5.delayed_chunks = s.delayed_chunks.set (x &&& MALLOC_DELAYED_CHUNK_MASK) p →
            wp (free_bytes ps mopts ro (s.delayed_chunks.getD (x &&& MALLOC_DELAYED_CHUNK_MASK) 0))
              (fun _ s' => ∃ x k,
        B2SIZE (heap_get s (slot s.d.r ri).size).bucket = sz ∧
        find_chunknum ps s.d.canary1 (heap_get s (slot s.d.r ri).size) p = .ok k ∧
        s.delayed_chunks.getD (x &&& MALLOC_DELAYED_CHUNK_MASK) 0 ≠ p ∧
        s'.delayed_chunks = s.delayed_chunks.set (x &&& MALLOC_DELAYED_CHUNK_MASK) p ∧
        (s.delayed_chunks.getD (x &&& MALLOC_DELAYED_CHUNK_MASK) 0 = 0 →
          s'.heap = s.heap ∧ s'.d = s.d) ∧
        (s.delayed_chunks.getD (x &&& MALLOC_DELAYED_CHUNK_MASK) 0 ≠ 0 → ∃ ro ko d1,
          find ps mopts s.d (s.delayed_chunks.getD (x &&& MALLOC_DELAYED_CHUNK_MASK) 0) =
            .ok (some ro) ∧
          find_chunknum ps s.d.canary1 (heap_get s (slot s.d.r ro).size)
            (s.delayed_chunks.getD (x &&& MALLOC_DELAYED_CHUNK_MASK) 0) = .ok ko ∧
          s'.heap = s.heap.set (slot s.d.r ro).size
            (free_bytes_mark (heap_get s (slot s.d.r ro).size) ko) ∧
          (d1 = s.d ∨ d1 = { s.d with r := s.d.r.set ro { slot s.d.r ro with f := 0 } }) ∧
          (s'.d = d1 ∨
            ((free_bytes_mark (heap_get s (slot s.d.r ro).size) ko).free =
                (free_bytes_mark (heap_get s (slot s.d.r ro).size) ko).total ∧
              delete ps d1 ro = .ok s'.d)))) s5 := by
          intro s5 e1 e2 e3
          apply wp_mono (wp_and free_bytes_marks free_bytes_dir)
          intro _ s6 ⟨⟨ko, hko, hh, hd⟩, ⟨ko2, d1, hko2, hd1, hd2⟩⟩
          have eg : heap_get s5 (slot s.d.r ro).size = heap_get s (slot s.d.r ro).size := by
            unfold heap_get; rw [e2]
          rw [e1, eg] at hko
          rw [e1, eg, e2] at hh
          rw [e1, eg] at hko2
          rw [e1] at hd1
          rw [e1, eg] at hd2
          have hkk : ko2 = ko := by
            rw [hko] at hko2
            injection hko2 with h
            exact h.symm
          subst hkk
          exact ⟨x, k, hbk, hk, fun h => hne h.symm, hd.trans e3, fun h0 => absurd h0 hold,
            fun _ => ⟨ro, ko2, d1, hr, hko, hh, hd1, hd2⟩⟩
        apply wp_ite_i
        · intro _
          apply wp_bind_i
          apply keeps_wp _ validate_junk_core ⟨rfl, rfl, rfl, rfl, rfl, rfl, rfl, rfl⟩
          intro _ s5 h5
          exact hfin s5 (h5.1.trans h3.1) (h5.2.2.1.trans h3.2.2.1)
            (h5.2.2.2.2.2.1.trans (by dsimp only; rw [h3.2.2.2.2.2.1]))
        · intro _
          apply wp_bind_i
          apply wp_pure_i
          exact hfin _ h3.1 h3.2.2.1 (by dsimp only; rw [h3.2.2.2.2.2.1])
    · intro hold
      apply wp_pure_i
      refine ⟨x, k, hbk, hk, fun h => hne h.symm, ?_, fun _ => ⟨h3.2.2.1, h3.1⟩,
        fun h => absurd h hold⟩
      dsimp only
      rw [h3.2.2.2.2.2.1]

theorem chunk_of_some {ps : Nat} {mopts : malloc_readonly} {s : pool_state} {t bp k : Nat}
    (h : chunk_of ps mopts s t = some (bp, k)) :
    ∃ rt, find ps mopts s.d t = .ok (some rt) ∧ (slot s.d.r rt).size = bp ∧
      find_chunknum ps s.d.canary1 (heap_get s bp) t = .ok k := by
  unfold chunk_of at h
  split at h
  · rename_i rt hrt
    split at h
    · rename_i k2 hk2
      injection h with h
      injection h with h1 h2
      subst h1
      subst h2
      exact ⟨rt, hrt, rfl, hk2⟩
    · exact Option.noConfusion h
  · exact Option.noConfusion h

theorem delete_fields {ps i : Nat} {d d2 : dir_info} (h : delete ps d i = .ok d2) :
    d2.canary1 = d.canary1 := by
  unfold delete at h
  dsimp only at h
  split at h
  · exact Outcome.noConfusion h
  split at h
  · exact Outcome.noConfusion h
  · injection h with h
    rw [← h]

theorem full_page_bits {ci : chunk_info} (hb : bitmap_ok ci) (hf : ci.free = ci.total)
    (k : Nat) (hk : k < ci.total) : chunk_bit ci.bits k = true := by
  have h := hb.1
  rw [hf] at h
  have hl : (List.range ci.total).countP (fun k => chunk_bit ci.bits k) =
      (List.range ci.total).length := by
    rw [List.length_range]
    exact h.symm
  exact (List.countP_eq_length.mp hl) k (List.mem_range.mpr hk)

theorem slot_lt_of_occupied (r : List region_info) (x : Nat) (h : (slot r x).p ≠ 0) :
    x < r.length := by
  by_contra hc
  apply h
  unfold slot
  rw [List.getD_eq_default _ _ (Nat.le_of_not_lt hc)]

/-- A chunk in use other than the one `free_bytes` frees is still a chunk in use after
it: its page keeps an entry with the same key and header, and the header still takes
the pointer as the same chunk. -/
theorem chunk_kept {ps : Nat} {mopts : malloc_readonly} {s s1 : pool_state}
    {t bt kt old ro ko : Nat} {d1 : dir_info}
    (hps5 : 5 ≤ ps) (hps16 : ps ≤ 16) (hwf : dir_wf ps mopts s.d)
    (ht : chunk_of ps mopts s t = some (bt, kt))
    (htk : kt < (heap_get s bt).total)
    (hro : find ps mopts s.d old = .ok (some ro))
    (hko : find_chunknum ps s.d.canary1 (heap_get s (slot s.d.r ro).size) old = .ok ko)
    (hol : (slot s.d.r ro).size < s.heap.length)
    (howf : chunk_wf ps (heap_get s (slot s.d.r ro).size))
    (hok : ko < (heap_get s (slot s.d.r ro).size).total)
    (hdiff : (bt, kt) ≠ ((slot s.d.r ro).size, ko))
    (hheap : s1.heap = s.heap.set (slot s.d.r ro).size
      (free_bytes_mark (heap_get s (slot s.d.r ro).size) ko))
    (hd1 : d1 = s.d ∨ d1 = { s.d with r := s.d.r.set ro { slot s.d.r ro with f := 0 } })
    (hd2 : s1.d = d1 ∨
      ((free_bytes_mark (heap_get s (slot s.d.r ro).size) ko).free =
          (free_bytes_mark (heap_get s (slot s.d.r ro).size) ko).total ∧
        delete ps d1 ro = .ok s1.d)) :
    ∃ rt rt1, find ps mopts s.d t = .ok (some rt) ∧ find ps mopts s1.d t = .ok (some rt1) ∧
      (slot s1.d.r rt1).p = (slot s.d.r rt).p ∧ (slot s1.d.r rt1).size = bt ∧
      (slot s.d.r rt).size = bt ∧
      find_chunknum ps s1.d.canary1 (heap_get s1 bt) t = .ok kt ∧
      (heap_get s1 bt).bucket = (heap_get s bt).bucket := by
  obtain ⟨rt, hrt, hsz, hkt⟩ := chunk_of_some ht
  have hd1c : d1.canary1 = s.d.canary1 ∧ d1.canary2 = s.d.canary2 ∧ d1.self = s.d.self ∧
      d1.regions_total = s.d.regions_total ∧ d1.regions_free = s.d.regions_free ∧
      d1.r.map (fun e => e.p) = s.d.r.map (fun e => e.p) ∧
      (∀ x, (slot d1.r x).p = (slot s.d.r x).p ∧ (slot d1.r x).size = (slot s.d.r x).size) := by
    rcases hd1 with h | h
    · subst h
      exact ⟨rfl, rfl, rfl, rfl, rfl, rfl, fun _ => ⟨rfl, rfl⟩⟩
    · subst h
      refine ⟨rfl, rfl, rfl, rfl, rfl, map_set_same _ _ _ _ rfl, ?_⟩
      intro x
      dsimp only
      rw [slot_set]
      split
      · rename_i hx
        rw [hx.1]
        exact ⟨rfl, rfl⟩
      · exact ⟨rfl, rfl⟩
  obtain ⟨c1, c2, c3, c4, c5, c6, c7⟩ := hd1c
  have hfd1 : find ps mopts d1 t = .ok (some rt) := by
    rw [find_congr t c1 c2 c3 c4 c6]
    exact hrt
  have hwf1 : dir_wf ps mopts d1 := dir_wf_congr c1 c2 c3 c4 c5 c6 hwf
  have hheapfacts : find_chunknum ps s.d.canary1 (heap_get s1 bt) t = .ok kt ∧
      (heap_get s1 bt).bucket = (heap_get s bt).bucket := by
    by_cases hb : bt = (slot s.d.r ro).size
    · have hkk : ko ≠ kt := fun e => hdiff (by rw [hb, e])
      have e : heap_get s1 bt = free_bytes_mark (heap_get s bt) ko := by
        unfold heap_get
        rw [hheap, hb, getD_set_self, if_pos hol]
        rfl
      rw [e]
      exact ⟨find_chunknum_mark_other hkt hkk, rfl⟩
    · have e : heap_get s1 bt = heap_get s bt := by
        unfold heap_get
        rw [hheap, getD_set_if, if_neg (fun h => hb h.1)]
      rw [e]
      exact ⟨hkt, rfl⟩
  rcases hd2 with h | ⟨hfull, hdel⟩
  · refine ⟨rt, rt, hrt, by rw [h]; exact hfd1, by rw [h]; exact (c7 rt).1,
      by rw [h, (c7 rt).2]; exact hsz, hsz, by rw [h, c1]; exact hheapfacts.1, hheapfacts.2⟩
  · have hne : bt ≠ (slot s.d.r ro).size := by
      intro hb
      have hkk : kt ≠ ko := fun e => hdiff (by rw [hb, e])
      obtain ⟨_, hoth, _, htot, hwfm⟩ :=
        free_bytes_mark_spec ps _ ko hps5 hps16 howf hok (find_chunknum_in_use hko)
      have hbit := full_page_bits hwfm.1 hfull kt (by rw [htot, ← hb]; exact htk)
      rw [hoth kt (by rw [← hb]; exact htk) hkk] at hbit
      have hu := find_chunknum_in_use hkt
      rw [hb] at hu
      rw [hu] at hbit
      exact Bool.noConfusion hbit
    have hrne : rt ≠ ro := fun e => hne (by rw [← hsz, e])
    obtain ⟨ho1, ho2⟩ := find_sound hro
    obtain ⟨ht1, ht2⟩ := find_sound hrt
    have hlen := hwf.2.1
    have hrolt : ro < d1.regions_total := by
      rw [c4, ← hlen]
      exact slot_lt_of_occupied _ _ ho1
    have hrtlt : rt < d1.regions_total := by
      rw [c4, ← hlen]
      exact slot_lt_of_occupied _ _ ht1
    obtain ⟨d2, hd2eq, _, hkeep, _, _, _⟩ :=
      delete_full ps mopts d1 ro (by omega) hwf1 hrolt (by rw [(c7 ro).1]; exact ho1)
    rw [hdel] at hd2eq
    injection hd2eq with hd2eq
    subst hd2eq
    obtain ⟨idx, hidx, hp2, hs2⟩ :=
      hkeep rt hrtlt hrne (by rw [(c7 rt).1]; exact ht1) t (by rw [(c7 rt).1]; exact ht2.symm)
    have hc : s1.d.canary1 = s.d.canary1 := (delete_fields hdel).trans c1
    exact ⟨rt, idx, hrt, hidx, hp2.trans (c7 rt).1, hs2.trans ((c7 rt).2.trans hsz), hsz,
      by rw [hc]; exact hheapfacts.1, hheapfacts.2⟩

theorem wp_of_run {α : Type} {m : Run α} {Q : α → pool_state → Prop} {s s1 : pool_state}
    {a : α} (hrun : m s = .ok (a, s1)) (h : Q a s1) : wp m Q s := by
  unfold wp
  intro a2 s2 e
  rw [hrun] at e
  injection e with e
  injection e with e1 e2
  subst e1
  subst e2
  exact h

/-- `free` of a pointer whose page has a chunk entry is the chunk path of `ofree`. -/
theorem free_chunk_wp {ps ri p : Nat} {mopts : malloc_readonly} {s : pool_state}
    {Q : Unit → pool_state → Prop}
    (hp : p ≠ 0) (hfp : find ps mopts s.d p = .ok (some ri))
    (hsz : REALSIZE ps (slot s.d.r ri) ≤ MALLOC_MAXCHUNK ps)
    (hQ : ∀ a s' e, Q a s' → Q a { s' with errno := e })
    (h : wp (ofree_chunk ps mopts ri p (REALSIZE ps (slot s.d.r ri))) Q s) :
    wp (free ps mopts p) Q s := by
  unfold free
  apply wp_bind_i
  apply wp_get_i
  rw [if_neg hp]
  apply wp_bind_i
  unfold ofree
  apply wp_bind_i
  apply wp_of_run (findpool_run hfp)
  apply wp_bind_i
  apply wp_get_i
  dsimp only
  apply wp_bind_i
  apply wp_pure_i
  rw [if_neg (Nat.not_lt.mpr hsz)]
  apply wp_mono h
  intro _ s2 h2
  apply wp_modify_i
  exact hQ _ _ _ h2

theorem pairwise_getD {R : Nat → Nat → Prop} (hsymm : ∀ a b, R a b → R b a) (l : List Nat)
    (h : l.Pairwise R) (i j : Nat) (hi : i < l.length) (hj : j < l.length) (hij : i ≠ j) :
    R (l.getD i 0) (l.getD j 0) := by
  rw [List.getD_eq_getElem l 0 hi, List.getD_eq_getElem l 0 hj]
  rcases Nat.lt_or_gt_of_ne hij with hlt | hgt
  · exact List.pairwise_iff_getElem.mp h i j hi hj hlt
  · exact hsymm _ _ (List.pairwise_iff_getElem.mp h j i hj hi hgt)

theorem REALSIZE_congr (ps : Nat) (r1 r2 : region_info) (hp : r1.p = r2.p)
    (hs : r1.size = r2.size) : REALSIZE ps r1 = REALSIZE ps r2 := by
  unfold REALSIZE
  rw [hp, hs]

theorem ring_index_lt (x : Nat) :
    x &&& MALLOC_DELAYED_CHUNK_MASK < MALLOC_DELAYED_CHUNK_MASK + 1 :=
  Nat.lt_succ_of_le Nat.and_le_right

/-- The chunks in use of `delayed_ok`, other than the pointer the first `free` took out
of the ring, after that `free`. -/
theorem delayed_kept {ps : Nat} {mopts : malloc_readonly} {s s1 : pool_state} {p x : Nat}
    (hps5 : 5 ≤ ps) (hps16 : ps ≤ 16) (hwf : dir_wf ps mopts s.d)
    (hok : delayed_ok ps mopts s p)
    (h0 : s.delayed_chunks.getD (x &&& MALLOC_DELAYED_CHUNK_MASK) 0 = 0 →
      s1.heap = s.heap ∧ s1.d = s.d)
    (h1 : s.delayed_chunks.getD (x &&& MALLOC_DELAYED_CHUNK_MASK) 0 ≠ 0 → ∃ ro ko d1,
      find ps mopts s.d (s.delayed_chunks.getD (x &&& MALLOC_DELAYED_CHUNK_MASK) 0) =
        .ok (some ro) ∧
      find_chunknum ps s.d.canary1 (heap_get s (slot s.d.r ro).size)
        (s.delayed_chunks.getD (x &&& MALLOC_DELAYED_CHUNK_MASK) 0) = .ok ko ∧
      s1.heap = s.heap.set (slot s.d.r ro).size
        (free_bytes_mark (heap_get s (slot s.d.r ro).size) ko) ∧
      (d1 = s.d ∨ d1 = { s.d with r := s.d.r.set ro { slot s.d.r ro with f := 0 } }) ∧
      (s1.d = d1 ∨
        ((free_bytes_mark (heap_get s (slot s.d.r ro).size) ko).free =
            (free_bytes_mark (heap_get s (slot s.d.r ro).size) ko).total ∧
          delete ps d1 ro = .ok s1.d)))
    (q : Nat) (hq : q < MALLOC_DELAYED_CHUNK_MASK + 2)
    (hqi : q ≠ (x &&& MALLOC_DELAYED_CHUNK_MASK) + 1)
    (hq0 : (p :: s.delayed_chunks).getD q 0 ≠ 0) :
    ∃ bt kt rt rt1, chunk_of ps mopts s ((p :: s.delayed_chunks).getD q 0) = some (bt, kt) ∧
      find ps mopts s.d ((p :: s.delayed_chunks).getD q 0) = .ok (some rt) ∧
      find ps mopts s1.d ((p :: s.delayed_chunks).getD q 0) = .ok (some rt1) ∧
      (slot s1.d.r rt1).p = (slot s.d.r rt).p ∧ (slot s1.d.r rt1).size = bt ∧
      (slot s.d.r rt).size = bt ∧
      find_chunknum ps s1.d.canary1 (heap_get s1 bt) ((p :: s.delayed_chunks).getD q 0) =
        .ok kt ∧
      (heap_get s1 bt).bucket = (heap_get s bt).bucket := by
  obtain ⟨hlen, hall, hpair⟩ := hok
  have hLlen : (p :: s.delayed_chunks).length = MALLOC_DELAYED_CHUNK_MASK + 2 := by
    rw [List.length_cons, hlen]
  have hi := ring_index_lt x
  have hqmem : (p :: s.delayed_chunks).getD q 0 ∈ p :: s.delayed_chunks := by
    rw [List.getD_eq_getElem _ 0 (by rw [hLlen]; exact hq)]
    exact List.getElem_mem _
  obtain ⟨bt, kt, hct, _, _, hktl⟩ := hall _ hqmem hq0
  by_cases hold : s.delayed_chunks.getD (x &&& MALLOC_DELAYED_CHUNK_MASK) 0 = 0
  · obtain ⟨hh, hd⟩ := h0 hold
    obtain ⟨rt, hrt, hsz, hkt⟩ := chunk_of_some hct
    have e : heap_get s1 bt = heap_get s bt := by
      unfold heap_get
      rw [hh]
    exact ⟨bt, kt, rt, rt, hct, hrt, by rw [hd]; exact hrt, by rw [hd], by rw [hd]; exact hsz,
      hsz, by rw [hd, e]; exact hkt, by rw [e]⟩
  · obtain ⟨ro, ko, d1, hro, hko, hheap, hd1, hd2⟩ := h1 hold
    have hoeq : (p :: s.delayed_chunks).getD ((x &&& MALLOC_DELAYED_CHUNK_MASK) + 1) 0 =
        s.delayed_chunks.getD (x &&& MALLOC_DELAYED_CHUNK_MASK) 0 := rfl
    have homem : s.delayed_chunks.getD (x &&& MALLOC_DELAYED_CHUNK_MASK) 0 ∈
        p :: s.delayed_chunks := by
      rw [← hoeq, List.getD_eq_getElem _ 0 (by rw [hLlen]; omega)]
      exact List.getElem_mem _
    obtain ⟨bo, ko2, hco, hol, howf, hokl⟩ := hall _ homem hold
    obtain ⟨ro2, hro2, hosz, hko2⟩ := chunk_of_some hco
    rw [hro] at hro2
    injection hro2 with hro2
    injection hro2 with hro2
    subst hro2
    subst hosz
    rw [hko] at hko2
    injection hko2 with hko2
    subst hko2
    have hdiff : (bt, kt) ≠ ((slot s.d.r ro).size, ko) := by
      have hR := pairwise_getD (fun a b h ha hb e => h hb ha e.symm) _ hpair q
        ((x &&& MALLOC_DELAYED_CHUNK_MASK) + 1) (by rw [hLlen]; exact hq)
        (by rw [hLlen]; omega) hqi hq0 (by rw [hoeq]; exact hold)
      rw [hoeq, hct, hco] at hR
      exact fun e => hR (by rw [e])
    obtain ⟨rt, rt1, c1, c2, c3, c4, c5, c6, c7⟩ :=
      chunk_kept hps5 hps16 hwf hct hktl hro hko hol howf hokl hdiff hheap hd1 hd2
    exact ⟨bt, kt, rt, rt1, hct, c1, c2, c3, c4, c5, c6, c7⟩

/-- C18 (amended): with `malloc_freecheck` on, let `p` be a chunk in use of a pool with
a well-formed directory in which `p` and the pointers of the delayed-free ring are
distinct chunks in use of well-formed headers.  If `free(p)` returns, whatever ring
index it drew, then `p` is in the ring, and the next `free(p)` aborts with the message
`double free`, provided none of its checks (the canary check of `p`, the junk check of
the other pointers of the ring) finds memory overwritten. -/
theorem double_free_detected (ps : Nat) (mopts : malloc_readonly) (p ri : Nat)
    (s s1 : pool_state) (hps5 : 5 ≤ ps) (hps16 : ps ≤ 16)
    (hF : mopts.malloc_freecheck ≠ 0) (hp : p ≠ 0)
    (hwf : dir_wf ps mopts s.d)
    (hfp : find ps mopts s.d p = .ok (some ri))
    (hsz : REALSIZE ps (slot s.d.r ri) ≤ MALLOC_MAXCHUNK ps)
    (hok : delayed_ok ps mopts s p)
    (hrun : free ps mopts p s = .ok ((), s1))
    (henv : ∀ x ∈ s1.env, x = 0) :
    (∃ i, i < MALLOC_DELAYED_CHUNK_MASK + 1 ∧ s1.delayed_chunks.getD i 0 = p) ∧
      free ps mopts p s1 = .abort .double_free := by
  have hpost := wp_run (free_chunk_wp hp hfp hsz (fun _ _ _ h => h) ofree_chunk_state) hrun
  obtain ⟨x, k, hb, hk, hne, hring, h0, h1⟩ := hpost
  have hlen := hok.1
  have hi := ring_index_lt x
  have hip : s1.delayed_chunks.getD (x &&& MALLOC_DELAYED_CHUNK_MASK) 0 = p := by
    rw [hring, getD_set_self, if_pos (by rw [hlen]; exact hi)]
  refine ⟨⟨_, hi, hip⟩, ?_⟩
  have hkept := delayed_kept hps5 hps16 hwf hok h0 h1
  obtain ⟨bt, kt, rt, rt1, _, c1, c2, c3, c4, c5, c6, c7⟩ :=
    hkept 0 (Nat.succ_pos _) (Nat.succ_ne_zero _).symm hp
  have e0 : (p :: s.delayed_chunks).getD 0 0 = p := rfl
  rw [e0] at c1 c2 c6
  rw [hfp] at c1
  injection c1 with c1
  injection c1 with c1
  subst c1
  have hrs : REALSIZE ps (slot s1.d.r rt1) = REALSIZE ps (slot s.d.r ri) :=
    REALSIZE_congr ps _ _ c3 (c4.trans c5.symm)
  apply free_double hp hF c2 (by rw [hrs]; exact hsz) ?_ ?_ hi hip ?_ henv
  · exact kt
  · rw [hrs, c4, c7, ← c5]
    exact hb
  · rw [c4]
    exact c6
  · intro j hj hj0 hjp
    by_cases hji : j = x &&& MALLOC_DELAYED_CHUNK_MASK
    · rw [hji] at hjp
      exact absurd hip hjp
    · have ej : s1.delayed_chunks.getD j 0 = (p :: s.delayed_chunks).getD (j + 1) 0 := by
        rw [hring, getD_set_if, if_neg (fun h => hji h.1)]
        rfl
      rw [ej] at hj0 ⊢
      obtain ⟨_, _, _, rj1, _, _, d2, _⟩ :=
        hkept (j + 1) (Nat.succ_lt_succ hj) (fun h => hji (Nat.succ.inj h)) hj0
      exact ⟨rj1, d2⟩

theorem double_free_pool_wf : dir_wf 12 freecheck_mopts double_free_pool.d := by
  refine ⟨by decide, by decide, Or.inr ⟨3, by decide, by decide⟩, by decide, by decide, ?_, ?_⟩
  · unfold chain_ok; decide
  · unfold pages_unique; decide

set_option maxRecDepth 1000000 in
theorem double_free_pool_ok : delayed_ok 12 freecheck_mopts double_free_pool 0x1000 := by
  have hwf0 : chunk_wf 12 (heap_get double_free_pool 0) := by
    refine ⟨⟨by decide, ?_⟩, by decide, by decide, by decide, by decide, by decide⟩
    intro k h1 h2
    have e1 : (heap_get double_free_pool 0).total = 128 := by decide
    have e2 : MALLOC_BITS * howmany (heap_get double_free_pool 0).total MALLOC_BITS = 128 := by
      decide
    rw [e1] at h1
    rw [e2] at h2
    omega
  have hdec : ∀ t ∈ (0x1000 :: double_free_pool.delayed_chunks), t ≠ 0 →
      chunk_of 12 freecheck_mopts double_free_pool t =
        some (0, ((chunk_of 12 freecheck_mopts double_free_pool t).getD (0, 0)).2) ∧
      ((chunk_of 12 freecheck_mopts double_free_pool t).getD (0, 0)).2 <
        (heap_get double_free_pool 0).total := by
    decide
  refine ⟨by decide, ?_, by decide⟩
  intro t ht h0
  obtain ⟨h1, h2⟩ := hdec t ht h0
  exact ⟨0, _, h1, by decide, hwf0, h2⟩

set_option maxRecDepth 1000000 in
/-- C18 (witness): in `double_free_pool`, under the options "F", `free(0x1000)` returns
after taking `0x1020` out of slot 3 of the ring, and the second `free(0x1000)` aborts
with `double free`. -/
theorem double_free_detected_witness :
    (∃ i, i < MALLOC_DELAYED_CHUNK_MASK + 1 ∧
      double_free_pool1.delayed_chunks.getD i 0 = 0x1000) ∧
    free 12 freecheck_mopts 0x1000 double_free_pool1 = .abort .double_free :=
  double_free_detected 12 freecheck_mopts 0x1000 7 double_free_pool double_free_pool1
    (by decide) (by decide) (by decide) (by decide) double_free_pool_wf (by decide)
    (by decide) double_free_pool_ok
    (run_of_returned example_pool (by decide)) (by decide)

set_option maxRecDepth 1000000 in
/-- C18 (counterexample): under the options "CF" with junk level 1, `p = 0x1000` is a
chunk of 48 bytes allocated with the size 40, so its last 8 bytes hold the canary.
The first `free(p)` finds the canary intact, fills all six words of the chunk with
junk and puts `p` in the ring; on that memory the canary check fails, so the second
`free(p)` aborts in `find_chunknum` with the message `canary corrupted` (to which the
source appends the hint "(double free?)" for a junk byte), before the scan of the
ring and not with the message `double free` of that scan. -/
theorem double_free_detected_counterexample :
    cf_mopts.malloc_freecheck ≠ 0 ∧ cf_mopts.chunk_canaries = 0x5a ∧
    cf_pool.d.malloc_junk = 1 ∧
    find 12 cf_mopts cf_pool.d 0x1000 = .ok (some 7) ∧
    REALSIZE 12 (slot cf_pool.d.r 7) = 48 ∧
    bits_word (heap_get cf_pool 0).bits ((heap_get cf_pool 0).offset + 0) = 40 ∧
    validate_canary_mem cf_mopts (fill_canary cf_mopts (fun _ => 0) 0x1000 40 48)
      0x1000 40 48 = .ok () ∧
    (junk_free_mem 12 cf_mopts 1
        (region_words (fill_canary cf_mopts (fun _ => 0) 0x1000 40 48) 0x1000) 48).map
      (fun r => (r.2, validate_canary_mem cf_mopts (region_bytes r.1 0x1000) 0x1000 40 48)) =
      some ([0, 1, 2, 3, 4, 5], .abort .canary_corrupted) ∧
    returned ((do
        free 12 cf_mopts 0x1000
        let s ← get
        pure (s.delayed_chunks.getD 3 0) : Run Nat) cf_pool) = some 0x1000 ∧
    (do
        free 12 cf_mopts 0x1000
        free 12 cf_mopts 0x1000 : Run Unit) cf_pool = .abort .canary_corrupted := by
  refine ⟨by decide, by decide, by decide, by decide, by decide, by decide, by decide,
    by decide, by decide, by decide⟩

set_option linter.unusedTactic false
set_option linter.unreachableTactic false

/-! ## Rules for runs on the pool with its memory -/

theorem lift_pool_run {α : Type} {m : Run α} {ms : mem_state} {a : α} {s : pool_state}
    (h : m ms.pool = .ok (a, s)) : Mem.lift_pool m ms = .ok (a, { ms with pool := s }) := by
  unfold Mem.lift_pool
  rw [h]
  rfl

theorem lift_pool_ok {α : Type} {m : Run α} {ms ms' : mem_state} {a : α}
    (h : Mem.lift_pool m ms = .ok (a, ms')) :
    m ms.pool = .ok (a, ms'.pool) ∧ ms' = { ms with pool := ms'.pool } := by
  unfold Mem.lift_pool at h
  cases hx : m ms.pool with
  | ok r =>
    rw [hx] at h
    have e2 : Outcome.ok (r.1, { ms with pool := r.2 }) = Outcome.ok (a, ms') := h
    injection e2 with e3
    injection e3 with e4 e5
    subst e4
    subst e5
    exact ⟨rfl, rfl⟩
  | abort m => rw [hx] at h; exact Outcome.noConfusion h
  | diverge => rw [hx] at h; exact Outcome.noConfusion h
  | undefined => rw [hx] at h; exact Outcome.noConfusion h

theorem bind_ok {σ α β : Type} {x : StateT σ Outcome α} {f : α → StateT σ Outcome β}
    {s s2 : σ} {b : β} (h : (x >>= f) s = .ok (b, s2)) :
    ∃ a s1, x s = .ok (a, s1) ∧ f a s1 = .ok (b, s2) := by
  have hb2 : (x s).bind (fun p => f p.1 p.2) = .ok (b, s2) := h
  cases hx : x s with
  | ok p =>
    rw [hx] at hb2
    exact ⟨p.1, p.2, rfl, hb2⟩
  | abort m => rw [hx] at hb2; exact Outcome.noConfusion hb2
  | diverge => rw [hx] at hb2; exact Outcome.noConfusion hb2
  | undefined => rw [hx] at hb2; exact Outcome.noConfusion hb2

theorem bind_run {σ α β : Type} {x : StateT σ Outcome α} {f : α → StateT σ Outcome β}
    {s s1 : σ} {a : α} (h : x s = .ok (a, s1)) : (x >>= f) s = f a s1 := by
  show (x s).bind (fun p => f p.1 p.2) = _
  rw [h]
  rfl

theorem wpm_pure_i {α : Type} {a : α} {Q : α → mem_state → Prop} {ms : mem_state}
    (h : Q a ms) : wpm (pure a : RunM α) Q ms := by
  unfold wpm
  intro b s' e
  have e2 : Outcome.ok (a, ms) = Outcome.ok (b, s') := e
  injection e2 with e3
  injection e3 with e4 e5
  subst e4; subst e5; exact h

theorem wpm_bind_i {α β : Type} {x : RunM α} {f : α → RunM β} {Q : β → mem_state → Prop}
    {ms : mem_state} (h : wpm x (fun a s1 => wpm (f a) Q s1) ms) : wpm (x >>= f) Q ms := by
  unfold wpm at h ⊢
  intro b s2 hb
  obtain ⟨a, s1, h1, h2⟩ := bind_ok hb
  exact h a s1 h1 b s2 h2

theorem wpm_get_i {Q : mem_state → mem_state → Prop} {ms : mem_state}
    (h : Q ms ms) : wpm (get : RunM mem_state) Q ms := by
  unfold wpm
  intro b s' e
  have e2 : Outcome.ok (ms, ms) = Outcome.ok (b, s') := e
  injection e2 with e3
  injection e3 with e4 e5
  subst e4; subst e5; exact h

theorem wpm_modify_i {g : mem_state → mem_state} {Q : PUnit → mem_state → Prop}
    {ms : mem_state} (h : Q ⟨⟩ (g ms)) : wpm (modify g : RunM PUnit) Q ms := by
  unfold wpm
  intro b s' e
  have e2 : Outcome.ok (PUnit.unit, g ms) = Outcome.ok (b, s') := e
  injection e2 with e3
  injection e3 with e4 e5
  subst e5; exact h

theorem wpm_ite_i {α : Type} {c : Prop} [Decidable c] {x y : RunM α}
    {Q : α → mem_state → Prop} {ms : mem_state}
    (h1 : c → wpm x Q ms) (h2 : ¬ c → wpm y Q ms) : wpm (if c then x else y) Q ms := by
  by_cases h : c
  · rw [if_pos h]; exact h1 h
  · rw [if_neg h]; exact h2 h

theorem wpm_mono {α : Type} {m : RunM α} {Q Q2 : α → mem_state → Prop} {ms : mem_state}
    (h : wpm m Q ms) (himp : ∀ a s', Q a s' → Q2 a s') : wpm m Q2 ms := by
  unfold wpm at h ⊢; exact fun a s' e => himp a s' (h a s' e)

theorem wpm_and {α : Type} {m : RunM α} {Q Q2 : α → mem_state → Prop} {ms : mem_state}
    (h : wpm m Q ms) (h2 : wpm m Q2 ms) : wpm m (fun a s' => Q a s' ∧ Q2 a s') ms := by
  unfold wpm at h h2 ⊢; exact fun a s' e => ⟨h a s' e, h2 a s' e⟩

theorem wpm_any {α : Type} {m : RunM α} {Q : α → mem_state → Prop} {ms : mem_state}
    (h : ∀ a s', Q a s') : wpm m Q ms := by
  unfold wpm; exact fun a s' _ => h a s'

theorem wpm_run {α : Type} {m : RunM α} {Q : α → mem_state → Prop} {ms ms' : mem_state}
    {a : α} (h : wpm m Q ms) (hrun : m ms = .ok (a, ms')) : Q a ms' := by
  unfold wpm at h; exact h a ms' hrun

theorem wpm_intro {α : Type} {m : RunM α} {Q : α → mem_state → Prop} {ms : mem_state}
    (h : ∀ a ms', m ms = .ok (a, ms') → Q a ms') : wpm m Q ms := by
  unfold wpm; exact h

theorem wpm_lift_i {α : Type} {m : Run α} {Q : α → mem_state → Prop} {ms : mem_state}
    (h : wp m (fun a s' => Q a { ms with pool := s' }) ms.pool) :
    wpm (Mem.lift_pool m) Q ms := by
  apply wpm_intro
  intro a ms' e
  obtain ⟨e1, e2⟩ := lift_pool_ok e
  rw [e2]
  exact wp_run h e1

theorem wpm_pool_get_i {Q : pool_state → mem_state → Prop} {ms : mem_state}
    (h : Q ms.pool ms) : wpm Mem.pool_get Q ms := by
  apply wpm_lift_i
  apply wp_get_i
  exact h

theorem wpm_abort_i {α : Type} {e : wrterror_msg} {Q : α → mem_state → Prop}
    {ms : mem_state} : wpm (Mem.lift_pool (wrterror e) : RunM α) Q ms :=
  wpm_lift_i wp_wrterror_i

theorem wpm_diverges_i {α : Type} {Q : α → mem_state → Prop}
    {ms : mem_state} : wpm (Mem.lift_pool diverges : RunM α) Q ms :=
  wpm_lift_i wp_diverges_i

theorem wpm_undefined_i {α : Type} {Q : α → mem_state → Prop}
    {ms : mem_state} : wpm (Mem.lift_pool undefined_behaviour : RunM α) Q ms :=
  wpm_lift_i wp_undefined_i

/-! ## Rules for runs that leave the pool alone -/

theorem neutral_intro {α : Type} {m : RunM α}
    (h : ∀ ms a ms', m ms = .ok (a, ms') → ms'.pool = ms.pool) : neutral m := by
  unfold neutral; exact h

theorem neutral_elim {α : Type} {m : RunM α} (h : neutral m) {ms ms' : mem_state} {a : α}
    (e : m ms = .ok (a, ms')) : ms'.pool = ms.pool := by
  unfold neutral at h; exact h ms a ms' e

theorem neutral_pure {α : Type} {a : α} : neutral (pure a : RunM α) := by
  apply neutral_intro
  intro ms b ms' e
  have e2 : Outcome.ok (a, ms) = Outcome.ok (b, ms') := e
  injection e2 with e3
  injection e3 with e4 e5
  rw [← e5]

theorem neutral_bind {α β : Type} {x : RunM α} {f : α → RunM β}
    (hx : neutral x) (hf : ∀ a, neutral (f a)) : neutral (x >>= f) := by
  apply neutral_intro
  intro ms b ms' e
  obtain ⟨a, s1, h1, h2⟩ := bind_ok e
  rw [neutral_elim (hf a) h2, neutral_elim hx h1]

theorem neutral_ite {α : Type} {c : Prop} [Decidable c] {x y : RunM α}
    (hx : neutral x) (hy : neutral y) : neutral (if c then x else y) := by
  by_cases h : c
  · rw [if_pos h]; exact hx
  · rw [if_neg h]; exact hy

theorem neutral_get : neutral (get : RunM mem_state) := by
  apply neutral_intro
  intro ms b ms' e
  have e2 : Outcome.ok (ms, ms) = Outcome.ok (b, ms') := e
  injection e2 with e3
  injection e3 with e4 e5
  rw [← e5]

theorem neutral_modify {g : mem_state → mem_state} (hg : ∀ ms, (g ms).pool = ms.pool) :
    neutral (modify g : RunM PUnit) := by
  apply neutral_intro
  intro ms b ms' e
  have e2 : Outcome.ok (PUnit.unit, g ms) = Outcome.ok (b, ms') := e
  injection e2 with e3
  injection e3 with e4 e5
  rw [← e5]
  exact hg ms

theorem neutral_pool_get : neutral Mem.pool_get := by
  apply neutral_intro
  intro ms b ms' e
  obtain ⟨e1, _⟩ := lift_pool_ok e
  have e2 : Outcome.ok (ms.pool, ms.pool) = Outcome.ok (b, ms'.pool) := e1
  injection e2 with e3
  injection e3 with e4 e5
  exact e5.symm

theorem neutral_fail {α : Type} {m : Run α} (h : ∀ s a s', m s ≠ .ok (a, s')) :
    neutral (Mem.lift_pool m) := by
  apply neutral_intro
  intro ms b ms' e
  exact absurd (lift_pool_ok e).1 (h _ _ _)

theorem neutral_access {ps a n : Nat} : neutral (Mem.access ps a n) :=
  neutral_modify fun _ => rfl

theorem neutral_memset {ps p c n : Nat} : neutral (Mem.memset ps p c n) :=
  neutral_bind neutral_access fun _ => neutral_modify fun _ => rfl

theorem neutral_explicit_bzero {ps p n : Nat} : neutral (Mem.explicit_bzero ps p n) :=
  neutral_memset

theorem neutral_memcpy {ps dst src n : Nat} : neutral (Mem.memcpy ps dst src n) :=
  neutral_bind neutral_access fun _ =>
    neutral_bind neutral_access fun _ => neutral_modify fun _ => rfl

theorem neutral_mprotect {ps a sz : Nat} {none : Bool} : neutral (Mem.mprotect ps a sz none) :=
  neutral_modify fun _ => rfl

theorem neutral_fill_canary {ps ptr sz allocated : Nat} {mopts : malloc_readonly} :
    neutral (Mem.fill_canary ps mopts ptr sz allocated) :=
  neutral_bind neutral_access fun _ => neutral_modify fun _ => rfl

theorem neutral_junk_free {ps junk p sz : Nat} {mopts : malloc_readonly} :
    neutral (Mem.junk_free ps mopts junk p sz) := by
  unfold Mem.junk_free
  apply neutral_bind neutral_get
  intro ms
  split
  · exact neutral_fail fun _ _ _ e => Outcome.noConfusion e
  · exact neutral_modify fun _ => rfl

theorem neutral_ret_intro {α : Type} {m : RunM α} {a : α}
    (h : ∀ ms b ms', m ms = .ok (b, ms') → b = a ∧ ms'.pool = ms.pool) : neutral_ret m a := by
  unfold neutral_ret; exact h

theorem neutral_ret_elim {α : Type} {m : RunM α} {a : α} (h : neutral_ret m a)
    {ms ms' : mem_state} {b : α} (e : m ms = .ok (b, ms')) : b = a ∧ ms'.pool = ms.pool := by
  unfold neutral_ret at h; exact h ms b ms' e

theorem neutral_ret_pure {α : Type} {a : α} : neutral_ret (pure a : RunM α) a := by
  apply neutral_ret_intro
  intro ms b ms' e
  have e2 : Outcome.ok (a, ms) = Outcome.ok (b, ms') := e
  injection e2 with e3
  injection e3 with e4 e5
  exact ⟨e4.symm, by rw [← e5]⟩

theorem neutral_ret_bind {α β : Type} {x : RunM α} {f : α → RunM β} {b : β}
    (hx : neutral x) (hf : ∀ a, neutral_ret (f a) b) : neutral_ret (x >>= f) b := by
  apply neutral_ret_intro
  intro ms c ms' e
  obtain ⟨a, s1, h1, h2⟩ := bind_ok e
  obtain ⟨e1, e2⟩ := neutral_ret_elim (hf a) h2
  exact ⟨e1, by rw [e2, neutral_elim hx h1]⟩

theorem neutral_ret_ite {α : Type} {c : Prop} [Decidable c] {x y : RunM α} {a : α}
    (hx : neutral_ret x a) (hy : neutral_ret y a) : neutral_ret (if c then x else y) a := by
  by_cases h : c
  · rw [if_pos h]; exact hx
  · rw [if_neg h]; exact hy

/-! ## Rules for runs that take their answers from the front of the environment -/

theorem uniform_intro {α : Type} {m : Run α}
    (h : ∀ s a s', m s = .ok (a, s') → ∃ used : List Nat, ∀ rest : List Nat,
      m { s with env := used ++ rest } = .ok (a, { s' with env := rest })) : uniform m := by
  unfold uniform; exact h

theorem uniform_elim {α : Type} {m : Run α} (h : uniform m) {s s' : pool_state} {a : α}
    (e : m s = .ok (a, s')) : ∃ used : List Nat, ∀ rest : List Nat,
      m { s with env := used ++ rest } = .ok (a, { s' with env := rest }) := by
  unfold uniform at h; exact h s a s' e

theorem uniform_pure {α : Type} {a : α} : uniform (pure a : Run α) := by
  apply uniform_intro
  intro s b s' e
  have e2 : Outcome.ok (a, s) = Outcome.ok (b, s') := e
  injection e2 with e3
  injection e3 with e4 e5
  subst e4; subst e5
  exact ⟨[], fun _ => rfl⟩

theorem uniform_fail {α : Type} {m : Run α} (h : ∀ s a s', m s ≠ .ok (a, s')) :
    uniform m := by
  apply uniform_intro
  intro s a s' e
  exact absurd e (h _ _ _)

theorem uniform_wrterror {α : Type} {e : wrterror_msg} : uniform (wrterror e : Run α) :=
  uniform_fail fun _ _ _ h => Outcome.noConfusion h

theorem uniform_diverges {α : Type} : uniform (diverges : Run α) :=
  uniform_fail fun _ _ _ h => Outcome.noConfusion h

theorem uniform_undefined {α : Type} : uniform (undefined_behaviour : Run α) :=
  uniform_fail fun _ _ _ h => Outcome.noConfusion h

theorem uniform_bind {α β : Type} {x : Run α} {f : α → Run β}
    (hx : uniform x) (hf : ∀ a, uniform (f a)) : uniform (x >>= f) := by
  apply uniform_intro
  intro s b s2 e
  obtain ⟨a, s1, h1, h2⟩ := bind_ok e
  obtain ⟨u1, hu1⟩ := uniform_elim hx h1
  obtain ⟨u2, hu2⟩ := uniform_elim (hf a) h2
  refine ⟨u1 ++ u2, fun rest => ?_⟩
  rw [List.append_assoc, bind_run (hu1 (u2 ++ rest))]
  exact hu2 rest

theorem uniform_ite {α : Type} {c : Prop} [Decidable c] {x y : Run α}
    (hx : uniform x) (hy : uniform y) : uniform (if c then x else y) := by
  by_cases h : c
  · rw [if_pos h]; exact hx
  · rw [if_neg h]; exact hy

theorem uniform_get_bind {α : Type} {body : pool_state → Run α}
    (hb : ∀ s e, body { s with env := e } = body s) (h : ∀ s, uniform (body s)) :
    uniform (get >>= body) := by
  apply uniform_intro
  intro s a s' e
  have e1 : body s s = .ok (a, s') := e
  obtain ⟨u, hu⟩ := uniform_elim (h s) e1
  refine ⟨u, fun rest => ?_⟩
  show body { s with env := u ++ rest } { s with env := u ++ rest } = _
  rw [hb]
  exact hu rest

theorem uniform_modify {g : pool_state → pool_state}
    (hg : ∀ s e, g { s with env := e } = { g s with env := e }) :
    uniform (modify g : Run PUnit) := by
  apply uniform_intro
  intro s a s' e
  have e2 : Outcome.ok (PUnit.unit, g s) = Outcome.ok (a, s') := e
  injection e2 with e3
  injection e3 with e4 e5
  subst e5
  refine ⟨[], fun rest => ?_⟩
  show Outcome.ok (PUnit.unit, g { s with env := [] ++ rest }) = _
  rw [hg]
  rfl

theorem uniform_env_next : uniform env_next := by
  apply uniform_intro
  intro s a s' e
  have e2 : Outcome.ok (s.env.headD 0, { s with env := s.env.tail }) = Outcome.ok (a, s') := e
  injection e2 with e3
  injection e3 with e4 e5
  subst e4; subst e5
  exact ⟨[s.env.headD 0], fun _ => rfl⟩

theorem uniform_lift_outcome {α : Type} {x : Outcome α} : uniform (lift_outcome x) := by
  apply uniform_intro
  intro s a s' e
  have e1 : x.bind (fun a => Outcome.ok (a, s)) = .ok (a, s') := e
  cases hx : x with
  | ok v =>
    rw [hx] at e1
    have e2 : Outcome.ok (v, s) = Outcome.ok (a, s') := e1
    injection e2 with e3
    injection e3 with e4 e5
    subst e4; subst e5
    exact ⟨[], fun _ => rfl⟩
  | abort m => rw [hx] at e1; exact Outcome.noConfusion e1
  | diverge => rw [hx] at e1; exact Outcome.noConfusion e1
  | undefined => rw [hx] at e1; exact Outcome.noConfusion e1

/-! ## Rules for the simulation of the runs with memory by the runs on the pool -/

theorem sim_intro {α : Type} {m' : RunM α} {m : Run α}
    (h : ∀ ms a ms', m' ms = .ok (a, ms') → ∃ used : List Nat, ∀ rest : List Nat,
      m { ms.pool with env := used ++ rest } = .ok (a, { ms'.pool with env := rest })) :
    sim m' m := by
  unfold sim; exact h

theorem sim_elim {α : Type} {m' : RunM α} {m : Run α} (h : sim m' m) {ms ms' : mem_state}
    {a : α} (e : m' ms = .ok (a, ms')) : ∃ used : List Nat, ∀ rest : List Nat,
      m { ms.pool with env := used ++ rest } = .ok (a, { ms'.pool with env := rest }) := by
  unfold sim at h; exact h ms a ms' e

theorem sim_pure {α : Type} {a : α} : sim (pure a : RunM α) (pure a : Run α) := by
  apply sim_intro
  intro ms b ms' e
  have e2 : Outcome.ok (a, ms) = Outcome.ok (b, ms') := e
  injection e2 with e3
  injection e3 with e4 e5
  subst e4; subst e5
  exact ⟨[], fun _ => rfl⟩

theorem sim_lift {α : Type} {m : Run α} (h : uniform m) : sim (Mem.lift_pool m) m := by
  apply sim_intro
  intro ms a ms' e
  exact uniform_elim h (lift_pool_ok e).1

theorem sim_bind {α β : Type} {x' : RunM α} {f' : α → RunM β} {x : Run α} {f : α → Run β}
    (hx : sim x' x) (hf : ∀ a, sim (f' a) (f a)) : sim (x' >>= f') (x >>= f) := by
  apply sim_intro
  intro ms b ms2 e
  obtain ⟨a, ms1, h1, h2⟩ := bind_ok e
  obtain ⟨u1, hu1⟩ := sim_elim hx h1
  obtain ⟨u2, hu2⟩ := sim_elim (hf a) h2
  refine ⟨u1 ++ u2, fun rest => ?_⟩
  rw [List.append_assoc, bind_run (hu1 (u2 ++ rest))]
  exact hu2 rest

theorem sim_ite {α : Type} {c : Prop} [Decidable c] {x' y' : RunM α} {x y : Run α}
    (hx : sim x' x) (hy : sim y' y) : sim (if c then x' else y') (if c then x else y) := by
  by_cases h : c
  · rw [if_pos h, if_pos h]; exact hx
  · rw [if_neg h, if_neg h]; exact hy

theorem sim_get_bind {α : Type} {body' : pool_state → RunM α} {body : pool_state → Run α}
    (hb : ∀ s e, body { s with env := e } = body s) (h : ∀ s, sim (body' s) (body s)) :
    sim (Mem.pool_get >>= body') (get >>= body) := by
  apply sim_intro
  intro ms a ms' e
  obtain ⟨s, ms1, h1, h2⟩ := bind_ok e
  obtain ⟨e1, e2⟩ := lift_pool_ok h1
  have e3 : Outcome.ok (ms.pool, ms.pool) = Outcome.ok (s, ms1.pool) := e1
  injection e3 with e4
  injection e4 with e5 e6
  have hms1 : ms1 = ms := by rw [e2, ← e6]
  subst e5
  rw [hms1] at h2
  obtain ⟨u, hu⟩ := sim_elim (h ms.pool) h2
  refine ⟨u, fun rest => ?_⟩
  show body { ms.pool with env := u ++ rest } { ms.pool with env := u ++ rest } = _
  rw [hb]
  exact hu rest

theorem sim_skip {α β : Type} {x' : RunM α} {f' : α → RunM β} {m : Run β}
    (hx : neutral x') (hf : ∀ a, sim (f' a) m) : sim (x' >>= f') m := by
  apply sim_intro
  intro ms b ms2 e
  obtain ⟨a, ms1, h1, h2⟩ := bind_ok e
  obtain ⟨u, hu⟩ := sim_elim (hf a) h2
  rw [neutral_elim hx h1] at hu
  exact ⟨u, hu⟩

theorem sim_tail {α β : Type} {x' : RunM α} {f' : α → RunM β} {x : Run α} {g : α → β}
    (hx : sim x' x) (hf : ∀ a, neutral_ret (f' a) (g a)) :
    sim (x' >>= f') (x >>= fun a => pure (g a)) := by
  apply sim_intro
  intro ms b ms2 e
  obtain ⟨a, ms1, h1, h2⟩ := bind_ok e
  obtain ⟨u, hu⟩ := sim_elim hx h1
  obtain ⟨e1, e2⟩ := neutral_ret_elim (hf a) h2
  refine ⟨u, fun rest => ?_⟩
  rw [bind_run (hu rest), e1, e2]
  rfl

theorem sim_neutral {α : Type} {x' : RunM α} {a : α} (hx : neutral_ret x' a) :
    sim x' (pure a : Run α) := by
  apply sim_intro
  intro ms b ms2 e
  obtain ⟨e1, e2⟩ := neutral_ret_elim hx e
  refine ⟨[], fun rest => ?_⟩
  rw [e1, e2]
  rfl

theorem bind_pure_run {α : Type} (m : Run α) : (m >>= fun a => pure a) = m := by
  funext s
  show (m s).bind (fun p => Outcome.ok (p.1, p.2)) = m s
  cases m s with
  | ok p => rfl
  | abort m => rfl
  | diverge => rfl
  | undefined => rfl

theorem sim_tail_id {α : Type} {x' : RunM α} {f' : α → RunM α} {x : Run α}
    (hx : sim x' x) (hf : ∀ a, neutral_ret (f' a) a) : sim (x' >>= f') x := by
  have h := sim_tail (g := fun a => a) hx hf
  rw [bind_pure_run] at h
  exact h

theorem sim_ite_left {α : Type} {c : Prop} [Decidable c] {x' y' : RunM α} {m : Run α}
    (hx : sim x' m) (hy : sim y' m) : sim (if c then x' else y') m := by
  by_cases h : c
  · rw [if_pos h]; exact hx
  · rw [if_neg h]; exact hy

theorem pure_bind_fn {σ α β : Type} (a : α) (f : α → StateT σ Outcome β) :
    (pure a >>= f) = f a := by
  funext s
  rfl

theorem sim_pure_right {α β : Type} {m' : RunM β} {a : α} {f : α → Run β}
    (h : sim m' (f a)) : sim m' (pure a >>= f) := by
  rw [pure_bind_fn]
  exact h

theorem sim_pure_left {α β : Type} {m : Run β} {a : α} {f' : α → RunM β}
    (h : sim (f' a) m) : sim (pure a >>= f') m := by
  rw [pure_bind_fn]
  exact h

theorem sim_fail {α : Type} {m' : RunM α} {m : Run α}
    (h : ∀ ms a ms', m' ms ≠ .ok (a, ms')) : sim m' m := by
  apply sim_intro
  intro ms a ms' e
  exact absurd e (h _ _ _)

/-- What the runs on the pool return holds of the runs with memory. -/
theorem wpm_sim {α : Type} {m' : RunM α} {m : Run α} {Q : α → pool_state → Prop}
    {ms : mem_state} (hsim : sim m' m)
    (h : ∀ e, wp m Q { ms.pool with env := e })
    (hQ : ∀ a s e, Q a { s with env := e } → Q a s) :
    wpm m' (fun a ms' => Q a ms'.pool) ms := by
  apply wpm_intro
  intro a ms' e
  obtain ⟨u, hu⟩ := sim_elim hsim e
  exact hQ a ms'.pool [] (wp_run (h (u ++ [])) (hu []))

/-! ## The steps on the pool take their answers from the front of the environment -/

theorem srun_bind {σ α β : Type} (x : StateT σ Outcome α) (f : α → StateT σ Outcome β) (s : σ) :
    (x >>= f) s = (x s).bind (fun p => f p.1 p.2) := rfl

theorem srun_ite {σ α : Type} {c : Prop} [Decidable c] (x y : StateT σ Outcome α) (s : σ) :
    (if c then x else y) s = if c then x s else y s := by
  split <;> rfl

theorem srun_pure {σ α : Type} (a : α) (s : σ) :
    (pure a : StateT σ Outcome α) s = .ok (a, s) := rfl

theorem srun_get {σ : Type} (s : σ) : (get : StateT σ Outcome σ) s = .ok (s, s) := rfl

theorem srun_set {σ : Type} (s1 s : σ) : (set s1 : StateT σ Outcome PUnit) s = .ok (⟨⟩, s1) := rfl

theorem srun_modify {σ : Type} (g : σ → σ) (s : σ) :
    (modify g : StateT σ Outcome PUnit) s = .ok (⟨⟩, g s) := rfl

theorem run_env_next (s : pool_state) :
    env_next s = .ok (s.env.headD 0, { s with env := s.env.tail }) := rfl

theorem os_mmap_eq (ps sz : Nat) (s : pool_state) :
    os_mmap ps sz s =
      if mmap_free ps s.mapped (s.env.headD 0) sz = true then
        .ok (s.env.headD 0,
          { s with env := s.env.tail, mapped := page_list ps (s.env.headD 0) sz ++ s.mapped })
      else .ok (MAP_FAILED, { s with env := s.env.tail, errno := ENOMEM }) := by
  unfold os_mmap
  simp only [srun_bind, srun_ite, srun_pure, srun_get, srun_set, run_env_next, ok_bind]

theorem uniform_os_mmap {ps sz : Nat} : uniform (os_mmap ps sz) := by
  apply uniform_intro
  intro s a s' e
  refine ⟨[s.env.headD 0], fun rest => ?_⟩
  rw [os_mmap_eq] at e ⊢
  by_cases hc : mmap_free ps s.mapped (s.env.headD 0) sz = true
  · rw [if_pos hc] at e
    injection e with e
    injection e with e1 e2
    subst e1; subst e2
    exact if_pos hc
  · rw [if_neg hc] at e
    injection e with e
    injection e with e1 e2
    subst e1; subst e2
    exact if_neg hc

theorem unmap_big_modify (ps : Nat) (mopts : malloc_readonly) (p sz psz : Nat) :
    unmap_big ps mopts p sz psz = (do
      let base ← getrbyte
      let s ← get
      match unmap_scan s.bigcache s.bigcache_size
          (decide (s.bigcache_used < BIGCACHE_FILL s.bigcache_size)) base
          (s.bigcache_size / 4) 0 none with
      | none => undefined_behaviour
      | some i => do
        let e := s.bigcache.getD i ⟨0, 0⟩
        if e.psize ≠ 0 then do
          modify (fun t => { t with bigcache_used := sub64 s.bigcache_used e.psize })
          if mopts.malloc_freeunmap = 0 then validate_junk e.page (shl64 e.psize ps)
          let rc ← os_munmap e.page (shl64 e.psize ps)
          if rc ≠ 0 then wrterror .munmap
        if mopts.malloc_freeunmap ≠ 0 then do
          let rc ← os_mprotect
          if rc ≠ 0 then wrterror .mprotect
        modify (fun s => { s with
          bigcache := s.bigcache.set i ⟨p, psz⟩
          bigcache_used := add64 s.bigcache_used psz })) := by
  funext s
  unfold unmap_big
  rw [srun_bind, srun_bind]
  cases hg : getrbyte s with
  | ok r =>
    rw [ok_bind, ok_bind, srun_bind, srun_bind, srun_get, ok_bind, ok_bind]
    dsimp only
    cases unmap_scan r.2.bigcache r.2.bigcache_size
        (decide (r.2.bigcache_used < BIGCACHE_FILL r.2.bigcache_size)) r.1
        (r.2.bigcache_size / 4) 0 none with
    | none => rfl
    | some i =>
      dsimp only
      split
      · rfl
      · rfl
  | abort m => rfl
  | diverge => rfl
  | undefined => rfl

theorem map_big_modify (mopts : malloc_readonly) (sz psz : Nat) :
    map_big mopts sz psz = (do
      let base ← getrbyte
      let s ← get
      match map_scan s.bigcache s.bigcache_size psz base s.bigcache_size 0
          s.bigcache_used with
      | none => pure none
      | some i => do
        let p := (s.bigcache.getD i ⟨0, 0⟩).page
        modify (fun t => { t with
          bigcache_used := sub64 s.bigcache_used psz
          bigcache := s.bigcache.set i ⟨0, 0⟩ })
        if mopts.malloc_freeunmap = 0 then validate_junk p sz
        pure (some p)) := by
  funext s
  unfold map_big
  rw [srun_bind, srun_bind]
  cases hg : getrbyte s with
  | ok r =>
    rw [ok_bind, ok_bind, srun_bind, srun_bind, srun_get, ok_bind, ok_bind]
    dsimp only
    cases map_scan r.2.bigcache r.2.bigcache_size psz r.1 r.2.bigcache_size 0
        r.2.bigcache_used with
    | none => rfl
    | some i => rfl
  | abort m => rfl
  | diverge => rfl
  | undefined => rfl

theorem insert_pool_modify (ps : Nat) (mopts : malloc_readonly) (p sz f : Nat) :
    insert_pool ps mopts p sz f = (do
      let s ← get
      let rc ← (if s.d.regions_free * 4 % 2 ^ 64 < s.d.regions_total ∨ s.d.regions_total = 0
        then omalloc_grow_pool ps mopts else pure 0)
      if rc ≠ 0 then pure 1
      else do
        let s ← get
        let mask := dir_mask s.d.regions_total
        match insert_probe s.d.r mask (mask + 1) (hash ps p &&& mask) with
        | none => diverges
        | some index => do
          modify (fun t => { t with d := { s.d with
            r := s.d.r.set index ⟨p, sz, f⟩
            regions_free := sub64 s.d.regions_free 1 } })
          pure 0) := by
  funext s
  unfold insert_pool
  rw [srun_bind, srun_bind, srun_get, ok_bind, ok_bind]
  dsimp only
  rw [srun_bind, srun_bind]
  cases hg : (if s.d.regions_free * 4 % 2 ^ 64 < s.d.regions_total ∨ s.d.regions_total = 0
      then omalloc_grow_pool ps mopts else pure 0) s with
  | ok r =>
    rw [ok_bind, ok_bind, srun_ite, srun_ite]
    split
    · rfl
    · rw [srun_bind, srun_bind, srun_get, ok_bind, ok_bind]
      dsimp only
      cases insert_probe r.2.d.r (dir_mask r.2.d.regions_total)
          (dir_mask r.2.d.regions_total + 1) (hash ps p &&& dir_mask r.2.d.regions_total) with
      | none => rfl
      | some index => rfl
  | abort m => rfl
  | diverge => rfl
  | undefined => rfl

theorem os_mmap_fixed_eq (ps a sz : Nat) (s : pool_state) :
    os_mmap_fixed ps a sz s =
      if s.env.headD 0 ≠ 0 ∧ mmap_free ps s.mapped a sz = true then
        .ok (a, { s with env := s.env.tail, mapped := page_list ps a sz ++ s.mapped })
      else .ok (MAP_FAILED, { s with env := s.env.tail, errno := ENOMEM }) := by
  unfold os_mmap_fixed
  simp only [srun_bind, srun_ite, srun_pure, srun_get, srun_set, run_env_next, ok_bind]

theorem uniform_os_mmap_fixed {ps a sz : Nat} : uniform (os_mmap_fixed ps a sz) := by
  apply uniform_intro
  intro s r s' e
  refine ⟨[s.env.headD 0], fun rest => ?_⟩
  rw [os_mmap_fixed_eq] at e ⊢
  by_cases hc : s.env.headD 0 ≠ 0 ∧ mmap_free ps s.mapped a sz = true
  · rw [if_pos hc] at e
    injection e with e
    injection e with e1 e2
    subst e1; subst e2
    exact if_pos hc
  · rw [if_neg hc] at e
    injection e with e
    injection e with e1 e2
    subst e1; subst e2
    exact if_neg hc

theorem uniform_getrbyte : uniform getrbyte := by
  unfold getrbyte
  exact uniform_bind uniform_env_next fun _ => uniform_pure

theorem uniform_os_munmap {a sz : Nat} : uniform (os_munmap a sz) := by
  unfold os_munmap
  refine uniform_bind uniform_env_next fun _ => uniform_ite uniform_pure ?_
  exact uniform_bind (uniform_modify fun _ _ => rfl) fun _ => uniform_pure

theorem uniform_os_mprotect : uniform os_mprotect := by
  unfold os_mprotect
  refine uniform_bind uniform_env_next fun _ => uniform_ite ?_ uniform_pure
  exact uniform_bind (uniform_modify fun _ _ => rfl) fun _ => uniform_pure

theorem uniform_findpool {ps p : Nat} {mopts : malloc_readonly} :
    uniform (findpool ps mopts p) := by
  unfold findpool
  refine uniform_get_bind (fun _ _ => rfl) fun s => uniform_bind uniform_lift_outcome fun r => ?_
  cases r with
  | none => exact uniform_wrterror
  | some ri => exact uniform_pure

theorem delete_pool_eq (ps ri : Nat) (s : pool_state) :
    delete_pool ps ri s = (delete ps s.d ri).bind (fun d => .ok (⟨⟩, { s with d := d })) := by
  unfold delete_pool lift_outcome
  simp only [srun_bind, srun_get, srun_set, ok_bind]
  cases delete ps s.d ri <;> rfl

theorem uniform_delete_pool {ps ri : Nat} : uniform (delete_pool ps ri) := by
  apply uniform_intro
  intro s r s' e
  refine ⟨[], fun rest => ?_⟩
  rw [delete_pool_eq] at e ⊢
  show (delete ps s.d ri).bind _ = _
  cases hd : delete ps s.d ri with
  | ok d =>
    rw [hd] at e
    have e2 : Outcome.ok (PUnit.unit, { s with d := d }) = Outcome.ok (r, s') := e
    injection e2 with e3
    injection e3 with e4 e5
    subst e5
    rfl
  | abort m => rw [hd] at e; exact Outcome.noConfusion e
  | diverge => rw [hd] at e; exact Outcome.noConfusion e
  | undefined => rw [hd] at e; exact Outcome.noConfusion e

theorem uniform_STATS_SETF {ri f : Nat} : uniform (STATS_SETF ri f) :=
  uniform_modify fun _ _ => rfl

theorem uniform_LIST_REMOVE {bp : Nat} : uniform (LIST_REMOVE bp) :=
  uniform_modify fun _ _ => rfl

theorem uniform_LIST_INSERT_HEAD_dir {b l bp : Nat} : uniform (LIST_INSERT_HEAD_dir b l bp) :=
  uniform_modify fun _ _ => rfl

theorem uniform_LIST_INSERT_HEAD_info {b bp : Nat} : uniform (LIST_INSERT_HEAD_info b bp) :=
  uniform_modify fun _ _ => rfl

theorem uniform_set_region_size {ri sz : Nat} : uniform (set_region_size ri sz) :=
  uniform_modify fun _ _ => rfl

theorem uniform_EPILOGUE {mopts : malloc_readonly} {e r : Nat} :
    uniform (EPILOGUE mopts e r) := by
  unfold EPILOGUE
  refine uniform_ite uniform_wrterror ?_
  dsimp only
  refine uniform_ite ?_ ?_
  · exact uniform_bind (uniform_modify fun _ _ => rfl) fun _ => uniform_pure
  · exact uniform_bind uniform_pure fun _ => uniform_pure

/-! ## The runs with memory are runs on the pool -/

theorem sim_access_skip {ps a n : Nat} : neutral_ret (Mem.access ps a n) PUnit.unit := by
  apply neutral_ret_intro
  intro ms b ms' e
  exact ⟨rfl, neutral_elim neutral_access e⟩

theorem lift_outcome_ok {α : Type} {x : Outcome α} {s s' : pool_state} {a : α}
    (h : lift_outcome x s = .ok (a, s')) : x = .ok a ∧ s' = s := by
  unfold lift_outcome at h
  cases hx : x with
  | ok v =>
    rw [hx] at h
    have e2 : Outcome.ok (v, s) = Outcome.ok (a, s') := h
    injection e2 with e3
    injection e3 with e4 e5
    subst e4; subst e5
    exact ⟨rfl, rfl⟩
  | abort m => rw [hx] at h; exact Outcome.noConfusion h
  | diverge => rw [hx] at h; exact Outcome.noConfusion h
  | undefined => rw [hx] at h; exact Outcome.noConfusion h

theorem validate_junk_quiet_run (p sz : Nat) (s : pool_state) (rest : List Nat) :
    ∃ used : List Nat, ∀ rest : List Nat,
      validate_junk p sz { s with env := used ++ rest } = .ok (⟨⟩, { s with env := rest }) := by
  by_cases hg : s.d.malloc_junk = 0 ∨ sz = 0
  · refine ⟨[], fun rest => ?_⟩
    unfold validate_junk
    rw [srun_bind, srun_get, ok_bind]
    dsimp only
    rw [if_pos hg]
    rfl
  · refine ⟨[0], fun rest => ?_⟩
    unfold validate_junk
    rw [srun_bind, srun_get, ok_bind]
    dsimp only
    rw [if_neg hg]
    rfl

theorem sim_validate_junk {ps p sz : Nat} {mopts : malloc_readonly} :
    sim (Mem.validate_junk ps mopts p sz) (validate_junk p sz) := by
  apply sim_intro
  intro ms a ms' e
  unfold Mem.validate_junk at e
  obtain ⟨ms0, ms1, h1, h2⟩ := bind_ok e
  have e3 : Outcome.ok (ms, ms) = Outcome.ok (ms0, ms1) := h1
  injection e3 with e4
  injection e4 with e5 e6
  subst e5; subst e6
  have hp : ms'.pool = ms.pool := by
    cases hv : validate_junk_mem ps mopts ms.pool.d.malloc_junk (region_words ms.mem p) sz with
    | none =>
      rw [hv] at h2
      exact absurd (lift_pool_ok h2).1 (fun h => Outcome.noConfusion h)
    | some r =>
      rw [hv] at h2
      obtain ⟨_, ms2, h3, h4⟩ := bind_ok h2
      have hp2 := neutral_elim (neutral_modify (fun _ => rfl)) h3
      rw [← hp2]
      exact (lift_outcome_ok (lift_pool_ok h4).1).2
  rw [hp]
  exact validate_junk_quiet_run p sz ms.pool []

theorem validate_canary_quiet_run (p sz al : Nat) (s : pool_state) :
    ∃ used : List Nat, ∀ rest : List Nat,
      validate_canary p sz al { s with env := used ++ rest } =
        .ok (⟨⟩, { s with env := rest }) := by
  by_cases hg : sub64 al sz = 0
  · refine ⟨[], fun rest => ?_⟩
    unfold validate_canary
    rw [srun_ite, if_pos hg]
    rfl
  · refine ⟨[0], fun rest => ?_⟩
    unfold validate_canary
    rw [srun_ite, if_neg hg]
    rfl

theorem sim_validate_canary {ps p sz al : Nat} {mopts : malloc_readonly} :
    sim (Mem.validate_canary ps mopts p sz al) (validate_canary p sz al) := by
  apply sim_intro
  intro ms a ms' e
  unfold Mem.validate_canary at e
  obtain ⟨_, ms1, h1, h2⟩ := bind_ok e
  have hp1 := neutral_elim neutral_access h1
  obtain ⟨ms2, ms3, h3, h4⟩ := bind_ok h2
  have e3 : Outcome.ok (ms1, ms1) = Outcome.ok (ms2, ms3) := h3
  injection e3 with e4
  injection e4 with e5 e6
  subst e5; subst e6
  have hp : ms'.pool = ms.pool := by
    rw [← hp1]
    exact (lift_outcome_ok (lift_pool_ok h4).1).2
  rw [hp]
  exact validate_canary_quiet_run p sz al ms.pool

theorem sim_os_tail {ps : Nat} {g : mem_state → Nat → mem_state} {c : Nat → Prop}
    [DecidablePred c] {m : Run Nat} (hm : uniform m) (hg : ∀ ms a, (g ms a).pool = ms.pool) :
    sim (do
      let a ← Mem.lift_pool m
      if c a then modify (fun ms => g ms a)
      pure a) m := by
  apply sim_tail_id (sim_lift hm)
  intro a
  dsimp only
  apply neutral_ret_ite
  · exact neutral_ret_bind (neutral_modify fun ms => hg ms a) fun _ => neutral_ret_pure
  · exact neutral_ret_bind neutral_pure fun _ => neutral_ret_pure

theorem sim_os_mmap {ps sz : Nat} : sim (Mem.os_mmap ps sz) (os_mmap ps sz) := by
  unfold Mem.os_mmap
  apply sim_tail_id (sim_lift uniform_os_mmap)
  intro a
  dsimp only
  apply neutral_ret_ite
  · exact neutral_ret_bind (neutral_modify fun _ => rfl) fun _ => neutral_ret_pure
  · exact neutral_ret_bind neutral_pure fun _ => neutral_ret_pure

theorem sim_os_mmap_fixed {ps a sz : Nat} :
    sim (Mem.os_mmap_fixed ps a sz) (os_mmap_fixed ps a sz) := by
  unfold Mem.os_mmap_fixed
  apply sim_tail_id (sim_lift uniform_os_mmap_fixed)
  intro a
  dsimp only
  apply neutral_ret_ite
  · exact neutral_ret_bind (neutral_modify fun _ => rfl) fun _ => neutral_ret_pure
  · exact neutral_ret_bind neutral_pure fun _ => neutral_ret_pure

theorem sim_os_munmap {ps a sz : Nat} : sim (Mem.os_munmap ps a sz) (os_munmap a sz) := by
  unfold Mem.os_munmap
  apply sim_tail_id (sim_lift uniform_os_munmap)
  intro a
  dsimp only
  apply neutral_ret_ite
  · exact neutral_ret_bind (neutral_modify fun _ => rfl) fun _ => neutral_ret_pure
  · exact neutral_ret_bind neutral_pure fun _ => neutral_ret_pure

theorem sim_os_mprotect {ps a sz : Nat} {none : Bool} :
    sim (Mem.os_mprotect ps a sz none) os_mprotect := by
  unfold Mem.os_mprotect
  apply sim_tail_id (sim_lift uniform_os_mprotect)
  intro a
  dsimp only
  apply neutral_ret_ite
  · exact neutral_ret_bind neutral_mprotect fun _ => neutral_ret_pure
  · exact neutral_ret_bind neutral_pure fun _ => neutral_ret_pure

theorem sim_unmap_small {ps p sz psz clear : Nat} {mopts : malloc_readonly} :
    sim (Mem.unmap_small ps mopts p sz psz clear) (unmap_small mopts p sz psz) := by
  unfold Mem.unmap_small unmap_small
  repeat' first
    | with_reducible exact sim_pure
    | with_reducible exact sim_validate_junk
    | with_reducible exact sim_validate_canary
    | with_reducible exact sim_os_munmap
    | with_reducible exact sim_os_mmap
    | with_reducible exact sim_os_mmap_fixed
    | with_reducible exact sim_os_mprotect
    | with_reducible exact sim_lift uniform_getrbyte
    | with_reducible exact sim_lift uniform_wrterror
    | with_reducible exact sim_lift uniform_undefined
    | with_reducible exact sim_lift uniform_diverges
    | with_reducible exact sim_lift uniform_lift_outcome
    | with_reducible exact sim_lift uniform_findpool
    | with_reducible exact sim_lift uniform_delete_pool
    | with_reducible exact sim_lift uniform_STATS_SETF
    | with_reducible exact sim_lift uniform_LIST_REMOVE
    | with_reducible exact sim_lift uniform_LIST_INSERT_HEAD_dir
    | with_reducible exact sim_lift uniform_LIST_INSERT_HEAD_info
    | with_reducible exact sim_lift uniform_set_region_size
    | with_reducible exact sim_lift uniform_EPILOGUE
    | with_reducible refine sim_lift (uniform_modify ?_)
    | with_reducible refine sim_get_bind ?_ ?_
    | exact fun _ _ => rfl
    | with_reducible apply sim_pure_right
    | with_reducible apply sim_pure_left
    | with_reducible refine sim_skip (by first | exact neutral_memset | exact neutral_explicit_bzero | exact neutral_memcpy | exact neutral_junk_free | exact neutral_fill_canary | exact neutral_mprotect | exact neutral_pool_get) ?_
    | with_reducible apply sim_ite
    | with_reducible apply sim_bind
    | with_reducible apply sim_ite_left
    | intro _
    | dsimp only

theorem sim_unmap_big {ps p sz psz clear : Nat} {mopts : malloc_readonly} :
    sim (Mem.unmap_big ps mopts p sz psz clear) (unmap_big ps mopts p sz psz) := by
  rw [unmap_big_modify]
  unfold Mem.unmap_big
  refine sim_bind (sim_lift uniform_getrbyte) fun base => ?_
  refine sim_get_bind (fun _ _ => rfl) fun s => ?_
  generalize unmap_scan _ _ _ _ _ _ _ = o
  cases o with
  | none => exact sim_lift uniform_undefined
  | some i =>
    dsimp only
    repeat' first
      | with_reducible exact sim_pure
      | with_reducible exact sim_validate_junk
      | with_reducible exact sim_validate_canary
      | with_reducible exact sim_os_munmap
      | with_reducible exact sim_os_mmap
      | with_reducible exact sim_os_mmap_fixed
      | with_reducible exact sim_os_mprotect
      | with_reducible exact sim_lift uniform_getrbyte
      | with_reducible exact sim_lift uniform_wrterror
      | with_reducible exact sim_lift uniform_undefined
      | with_reducible exact sim_lift uniform_diverges
      | with_reducible exact sim_lift uniform_lift_outcome
      | with_reducible exact sim_lift uniform_findpool
      | with_reducible exact sim_lift uniform_delete_pool
      | with_reducible exact sim_lift uniform_STATS_SETF
      | with_reducible exact sim_lift uniform_LIST_REMOVE
      | with_reducible exact sim_lift uniform_LIST_INSERT_HEAD_dir
      | with_reducible exact sim_lift uniform_LIST_INSERT_HEAD_info
      | with_reducible exact sim_lift uniform_set_region_size
      | with_reducible exact sim_lift uniform_EPILOGUE
      | with_reducible refine sim_lift (uniform_modify ?_)
      | with_reducible refine sim_get_bind ?_ ?_
      | exact fun _ _ => rfl
      | with_reducible apply sim_pure_right
      | with_reducible apply sim_pure_left
      | with_reducible refine sim_skip (by first | exact neutral_memset | exact neutral_explicit_bzero | exact neutral_memcpy | exact neutral_junk_free | exact neutral_fill_canary | exact neutral_mprotect | exact neutral_pool_get) ?_
      | with_reducible apply sim_ite
      | with_reducible apply sim_bind
      | with_reducible apply sim_ite_left
      | intro _
      | dsimp only

theorem sim_unmap {ps p sz clear : Nat} {mopts : malloc_readonly} :
    sim (Mem.unmap ps mopts p sz clear) (unmap ps mopts p sz clear) := by
  unfold Mem.unmap unmap
  repeat' first
    | with_reducible exact sim_pure
    | with_reducible exact sim_unmap_big
    | with_reducible exact sim_unmap_small
    | with_reducible exact sim_validate_junk
    | with_reducible exact sim_validate_canary
    | with_reducible exact sim_os_munmap
    | with_reducible exact sim_os_mmap
    | with_reducible exact sim_os_mmap_fixed
    | with_reducible exact sim_os_mprotect
    | with_reducible exact sim_lift uniform_getrbyte
    | with_reducible exact sim_lift uniform_wrterror
    | with_reducible exact sim_lift uniform_undefined
    | with_reducible exact sim_lift uniform_diverges
    | with_reducible exact sim_lift uniform_lift_outcome
    | with_reducible exact sim_lift uniform_findpool
    | with_reducible exact sim_lift uniform_delete_pool
    | with_reducible exact sim_lift uniform_STATS_SETF
    | with_reducible exact sim_lift uniform_LIST_REMOVE
    | with_reducible exact sim_lift uniform_LIST_INSERT_HEAD_dir
    | with_reducible exact sim_lift uniform_LIST_INSERT_HEAD_info
    | with_reducible exact sim_lift uniform_set_region_size
    | with_reducible exact sim_lift uniform_EPILOGUE
    | with_reducible refine sim_lift (uniform_modify ?_)
    | with_reducible refine sim_get_bind ?_ ?_
    | exact fun _ _ => rfl
    | with_reducible apply sim_pure_right
    | with_reducible apply sim_pure_left
    | with_reducible refine sim_skip (by first | exact neutral_memset | exact neutral_explicit_bzero | exact neutral_memcpy | exact neutral_junk_free | exact neutral_fill_canary | exact neutral_mprotect | exact neutral_pool_get) ?_
    | with_reducible apply sim_ite
    | with_reducible apply sim_bind
    | with_reducible apply sim_ite_left
    | intro _
    | dsimp only

theorem sim_map_big {ps sz psz zero_fill : Nat} {mopts : malloc_readonly} :
    sim (Mem.map_big ps mopts sz psz zero_fill) (map_big mopts sz psz) := by
  rw [map_big_modify]
  unfold Mem.map_big
  refine sim_bind (sim_lift uniform_getrbyte) fun base => ?_
  refine sim_get_bind (fun _ _ => rfl) fun s => ?_
  generalize map_scan _ _ _ _ _ _ _ = o
  cases o with
  | none => exact sim_pure
  | some i =>
    dsimp only
    repeat' first
      | with_reducible exact sim_pure
      | with_reducible exact sim_validate_junk
      | with_reducible exact sim_validate_canary
      | with_reducible exact sim_os_munmap
      | with_reducible exact sim_os_mmap
      | with_reducible exact sim_os_mmap_fixed
      | with_reducible exact sim_os_mprotect
      | with_reducible exact sim_lift uniform_getrbyte
      | with_reducible exact sim_lift uniform_wrterror
      | with_reducible exact sim_lift uniform_undefined
      | with_reducible exact sim_lift uniform_diverges
      | with_reducible exact sim_lift uniform_lift_outcome
      | with_reducible exact sim_lift uniform_findpool
      | with_reducible exact sim_lift uniform_delete_pool
      | with_reducible exact sim_lift uniform_STATS_SETF
      | with_reducible exact sim_lift uniform_LIST_REMOVE
      | with_reducible exact sim_lift uniform_LIST_INSERT_HEAD_dir
      | with_reducible exact sim_lift uniform_LIST_INSERT_HEAD_info
      | with_reducible exact sim_lift uniform_set_region_size
      | with_reducible exact sim_lift uniform_EPILOGUE
      | with_reducible refine sim_lift (uniform_modify ?_)
      | with_reducible refine sim_get_bind ?_ ?_
      | exact fun _ _ => rfl
      | with_reducible apply sim_pure_right
      | with_reducible apply sim_pure_left
      | with_reducible refine sim_skip (by first | exact neutral_memset | exact neutral_explicit_bzero | exact neutral_memcpy | exact neutral_junk_free | exact neutral_fill_canary | exact neutral_mprotect | exact neutral_pool_get) ?_
      | with_reducible apply sim_ite
      | with_reducible apply sim_bind
      | with_reducible apply sim_ite_left
      | intro _
      | dsimp only

theorem sim_map_small {ps sz psz zero_fill : Nat} {mopts : malloc_readonly} :
    sim (Mem.map_small ps mopts sz psz zero_fill) (map_small ps mopts sz psz) := by
  unfold Mem.map_small map_small
  repeat' first
    | with_reducible exact sim_pure
    | with_reducible exact sim_validate_junk
    | with_reducible exact sim_validate_canary
    | with_reducible exact sim_os_munmap
    | with_reducible exact sim_os_mmap
    | with_reducible exact sim_os_mmap_fixed
    | with_reducible exact sim_os_mprotect
    | with_reducible exact sim_lift uniform_getrbyte
    | with_reducible exact sim_lift uniform_wrterror
    | with_reducible exact sim_lift uniform_undefined
    | with_reducible exact sim_lift uniform_diverges
    | with_reducible exact sim_lift uniform_lift_outcome
    | with_reducible exact sim_lift uniform_findpool
    | with_reducible exact sim_lift uniform_delete_pool
    | with_reducible exact sim_lift uniform_STATS_SETF
    | with_reducible exact sim_lift uniform_LIST_REMOVE
    | with_reducible exact sim_lift uniform_LIST_INSERT_HEAD_dir
    | with_reducible exact sim_lift uniform_LIST_INSERT_HEAD_info
    | with_reducible exact sim_lift uniform_set_region_size
    | with_reducible exact sim_lift uniform_EPILOGUE
    | with_reducible refine sim_lift (uniform_modify ?_)
    | with_reducible refine sim_get_bind ?_ ?_
    | exact fun _ _ => rfl
    | with_reducible apply sim_pure_right
    | with_reducible apply sim_pure_left
    | with_reducible refine sim_skip (by first | exact neutral_memset | exact neutral_explicit_bzero | exact neutral_memcpy | exact neutral_junk_free | exact neutral_fill_canary | exact neutral_mprotect | exact neutral_pool_get) ?_
    | with_reducible apply sim_ite
    | with_reducible apply sim_bind
    | with_reducible apply sim_ite_left
    | intro _
    | dsimp only

theorem sim_map {ps sz zero_fill : Nat} {mopts : malloc_readonly} :
    sim (Mem.map ps mopts sz zero_fill) (map ps mopts sz zero_fill) := by
  unfold Mem.map map
  repeat' first
    | with_reducible exact sim_map_big
    | with_reducible exact sim_map_small
    | with_reducible exact sim_pure
    | with_reducible exact sim_validate_junk
    | with_reducible exact sim_validate_canary
    | with_reducible exact sim_os_munmap
    | with_reducible exact sim_os_mmap
    | with_reducible exact sim_os_mmap_fixed
    | with_reducible exact sim_os_mprotect
    | with_reducible exact sim_lift uniform_getrbyte
    | with_reducible exact sim_lift uniform_wrterror
    | with_reducible exact sim_lift uniform_undefined
    | with_reducible exact sim_lift uniform_diverges
    | with_reducible exact sim_lift uniform_lift_outcome
    | with_reducible exact sim_lift uniform_findpool
    | with_reducible exact sim_lift uniform_delete_pool
    | with_reducible exact sim_lift uniform_STATS_SETF
    | with_reducible exact sim_lift uniform_LIST_REMOVE
    | with_reducible exact sim_lift uniform_LIST_INSERT_HEAD_dir
    | with_reducible exact sim_lift uniform_LIST_INSERT_HEAD_info
    | with_reducible exact sim_lift uniform_set_region_size
    | with_reducible exact sim_lift uniform_EPILOGUE
    | with_reducible refine sim_lift (uniform_modify ?_)
    | with_reducible refine sim_get_bind ?_ ?_
    | exact fun _ _ => rfl
    | with_reducible apply sim_pure_right
    | with_reducible apply sim_pure_left
    | with_reducible refine sim_skip (by first | exact neutral_memset | exact neutral_explicit_bzero | exact neutral_memcpy | exact neutral_junk_free | exact neutral_fill_canary | exact neutral_mprotect | exact neutral_pool_get) ?_
    | with_reducible apply sim_ite
    | with_reducible apply sim_bind
    | with_reducible apply sim_ite_left
    | intro _
    | dsimp only
  all_goals
    rename_i x
    cases x
    repeat' first
      | with_reducible exact sim_map_big
      | with_reducible exact sim_map_small
      | with_reducible exact sim_pure
      | with_reducible exact sim_validate_junk
      | with_reducible exact sim_validate_canary
      | with_reducible exact sim_os_munmap
      | with_reducible exact sim_os_mmap
      | with_reducible exact sim_os_mmap_fixed
      | with_reducible exact sim_os_mprotect
      | with_reducible exact sim_lift uniform_getrbyte
      | with_reducible exact sim_lift uniform_wrterror
      | with_reducible exact sim_lift uniform_undefined
      | with_reducible exact sim_lift uniform_diverges
      | with_reducible exact sim_lift uniform_lift_outcome
      | with_reducible exact sim_lift uniform_findpool
      | with_reducible exact sim_lift uniform_delete_pool
      | with_reducible exact sim_lift uniform_STATS_SETF
      | with_reducible exact sim_lift uniform_LIST_REMOVE
      | with_reducible exact sim_lift uniform_LIST_INSERT_HEAD_dir
      | with_reducible exact sim_lift uniform_LIST_INSERT_HEAD_info
      | with_reducible exact sim_lift uniform_set_region_size
      | with_reducible exact sim_lift uniform_EPILOGUE
      | with_reducible refine sim_lift (uniform_modify ?_)
      | with_reducible refine sim_get_bind ?_ ?_
      | exact fun _ _ => rfl
      | with_reducible apply sim_pure_right
      | with_reducible apply sim_pure_left
      | with_reducible refine sim_skip (by first | exact neutral_memset | exact neutral_explicit_bzero | exact neutral_memcpy | exact neutral_junk_free | exact neutral_fill_canary | exact neutral_mprotect | exact neutral_pool_get) ?_
      | with_reducible apply sim_ite
      | with_reducible apply sim_bind
      | with_reducible apply sim_ite_left
      | intro _
      | dsimp only
  all_goals
    rename_i x
    cases x
    repeat' first
      | with_reducible exact sim_map_big
      | with_reducible exact sim_map_small
      | with_reducible exact sim_pure
      | with_reducible exact sim_validate_junk
      | with_reducible exact sim_validate_canary
      | with_reducible exact sim_os_munmap
      | with_reducible exact sim_os_mmap
      | with_reducible exact sim_os_mmap_fixed
      | with_reducible exact sim_os_mprotect
      | with_reducible exact sim_lift uniform_getrbyte
      | with_reducible exact sim_lift uniform_wrterror
      | with_reducible exact sim_lift uniform_undefined
      | with_reducible exact sim_lift uniform_diverges
      | with_reducible exact sim_lift uniform_lift_outcome
      | with_reducible exact sim_lift uniform_findpool
      | with_reducible exact sim_lift uniform_delete_pool
      | with_reducible exact sim_lift uniform_STATS_SETF
      | with_reducible exact sim_lift uniform_LIST_REMOVE
      | with_reducible exact sim_lift uniform_LIST_INSERT_HEAD_dir
      | with_reducible exact sim_lift uniform_LIST_INSERT_HEAD_info
      | with_reducible exact sim_lift uniform_set_region_size
      | with_reducible exact sim_lift uniform_EPILOGUE
      | with_reducible refine sim_lift (uniform_modify ?_)
      | with_reducible refine sim_get_bind ?_ ?_
      | exact fun _ _ => rfl
      | with_reducible apply sim_pure_right
      | with_reducible apply sim_pure_left
      | with_reducible refine sim_skip (by first | exact neutral_memset | exact neutral_explicit_bzero | exact neutral_memcpy | exact neutral_junk_free | exact neutral_fill_canary | exact neutral_mprotect | exact neutral_pool_get) ?_
      | with_reducible apply sim_ite
      | with_reducible apply sim_bind
      | with_reducible apply sim_ite_left
      | intro _
      | dsimp only

theorem sim_omalloc_grow_pool {ps : Nat} {mopts : malloc_readonly} :
    sim (Mem.omalloc_grow_pool ps mopts) (omalloc_grow_pool ps mopts) := by
  unfold Mem.omalloc_grow_pool omalloc_grow_pool
  repeat' first
    | with_reducible exact sim_map
    | with_reducible exact sim_unmap
    | with_reducible exact sim_pure
    | with_reducible exact sim_validate_junk
    | with_reducible exact sim_validate_canary
    | with_reducible exact sim_os_munmap
    | with_reducible exact sim_os_mmap
    | with_reducible exact sim_os_mmap_fixed
    | with_reducible exact sim_os_mprotect
    | with_reducible exact sim_lift uniform_getrbyte
    | with_reducible exact sim_lift uniform_wrterror
    | with_reducible exact sim_lift uniform_undefined
    | with_reducible exact sim_lift uniform_diverges
    | with_reducible exact sim_lift uniform_lift_outcome
    | with_reducible exact sim_lift uniform_findpool
    | with_reducible exact sim_lift uniform_delete_pool
    | with_reducible exact sim_lift uniform_STATS_SETF
    | with_reducible exact sim_lift uniform_LIST_REMOVE
    | with_reducible exact sim_lift uniform_LIST_INSERT_HEAD_dir
    | with_reducible exact sim_lift uniform_LIST_INSERT_HEAD_info
    | with_reducible exact sim_lift uniform_set_region_size
    | with_reducible exact sim_lift uniform_EPILOGUE
    | with_reducible refine sim_lift (uniform_modify ?_)
    | with_reducible refine sim_get_bind ?_ ?_
    | exact fun _ _ => rfl
    | with_reducible apply sim_pure_right
    | with_reducible apply sim_pure_left
    | with_reducible refine sim_skip (by first | exact neutral_memset | exact neutral_explicit_bzero | exact neutral_memcpy | exact neutral_junk_free | exact neutral_fill_canary | exact neutral_mprotect | exact neutral_pool_get) ?_
    | with_reducible apply sim_ite
    | with_reducible apply sim_bind
    | with_reducible apply sim_ite_left
    | intro _
    | dsimp only

theorem sim_insert_pool {ps p sz f : Nat} {mopts : malloc_readonly} :
    sim (Mem.insert_pool ps mopts p sz f) (insert_pool ps mopts p sz f) := by
  rw [insert_pool_modify]
  unfold Mem.insert_pool
  repeat' first
    | with_reducible exact sim_map
    | with_reducible exact sim_unmap
    | with_reducible exact sim_omalloc_grow_pool
    | with_reducible exact sim_pure
    | with_reducible exact sim_validate_junk
    | with_reducible exact sim_validate_canary
    | with_reducible exact sim_os_munmap
    | with_reducible exact sim_os_mmap
    | with_reducible exact sim_os_mmap_fixed
    | with_reducible exact sim_os_mprotect
    | with_reducible exact sim_lift uniform_getrbyte
    | with_reducible exact sim_lift uniform_wrterror
    | with_reducible exact sim_lift uniform_undefined
    | with_reducible exact sim_lift uniform_diverges
    | with_reducible exact sim_lift uniform_lift_outcome
    | with_reducible exact sim_lift uniform_findpool
    | with_reducible exact sim_lift uniform_delete_pool
    | with_reducible exact sim_lift uniform_STATS_SETF
    | with_reducible exact sim_lift uniform_LIST_REMOVE
    | with_reducible exact sim_lift uniform_LIST_INSERT_HEAD_dir
    | with_reducible exact sim_lift uniform_LIST_INSERT_HEAD_info
    | with_reducible exact sim_lift uniform_set_region_size
    | with_reducible exact sim_lift uniform_EPILOGUE
    | with_reducible refine sim_lift (uniform_modify ?_)
    | with_reducible refine sim_get_bind ?_ ?_
    | exact fun _ _ => rfl
    | with_reducible apply sim_pure_right
    | with_reducible apply sim_pure_left
    | with_reducible refine sim_skip (by first | exact neutral_memset | exact neutral_explicit_bzero | exact neutral_memcpy | exact neutral_junk_free | exact neutral_fill_canary | exact neutral_mprotect | exact neutral_pool_get) ?_
    | with_reducible apply sim_ite
    | with_reducible apply sim_bind
    | with_reducible apply sim_ite_left
    | intro _
    | dsimp only
  all_goals
    generalize insert_probe _ _ _ _ = o
    cases o
    repeat' first
      | with_reducible exact sim_map
      | with_reducible exact sim_unmap
      | with_reducible exact sim_pure
      | with_reducible exact sim_validate_junk
      | with_reducible exact sim_validate_canary
      | with_reducible exact sim_os_munmap
      | with_reducible exact sim_os_mmap
      | with_reducible exact sim_os_mmap_fixed
      | with_reducible exact sim_os_mprotect
      | with_reducible exact sim_lift uniform_getrbyte
      | with_reducible exact sim_lift uniform_wrterror
      | with_reducible exact sim_lift uniform_undefined
      | with_reducible exact sim_lift uniform_diverges
      | with_reducible exact sim_lift uniform_lift_outcome
      | with_reducible exact sim_lift uniform_findpool
      | with_reducible exact sim_lift uniform_delete_pool
      | with_reducible exact sim_lift uniform_STATS_SETF
      | with_reducible exact sim_lift uniform_LIST_REMOVE
      | with_reducible exact sim_lift uniform_LIST_INSERT_HEAD_dir
      | with_reducible exact sim_lift uniform_LIST_INSERT_HEAD_info
      | with_reducible exact sim_lift uniform_set_region_size
      | with_reducible exact sim_lift uniform_EPILOGUE
      | with_reducible refine sim_lift (uniform_modify ?_)
      | with_reducible refine sim_get_bind ?_ ?_
      | exact fun _ _ => rfl
      | with_reducible apply sim_pure_right
      | with_reducible apply sim_pure_left
      | with_reducible refine sim_skip (by first | exact neutral_memset | exact neutral_explicit_bzero | exact neutral_memcpy | exact neutral_junk_free | exact neutral_fill_canary | exact neutral_mprotect | exact neutral_pool_get) ?_
      | with_reducible apply sim_ite
      | with_reducible apply sim_bind
      | with_reducible apply sim_ite_left
      | intro _
      | dsimp only

theorem sim_alloc_chunk_info_carve {ps b : Nat} {mopts : malloc_readonly} :
    sim (Mem.alloc_chunk_info_carve ps mopts b) (alloc_chunk_info_carve ps mopts b) := by
  unfold Mem.alloc_chunk_info_carve alloc_chunk_info_carve
  repeat' first
    | with_reducible exact sim_map
    | with_reducible exact sim_unmap
    | with_reducible exact sim_pure
    | with_reducible exact sim_validate_junk
    | with_reducible exact sim_validate_canary
    | with_reducible exact sim_os_munmap
    | with_reducible exact sim_os_mmap
    | with_reducible exact sim_os_mmap_fixed
    | with_reducible exact sim_os_mprotect
    | with_reducible exact sim_lift uniform_getrbyte
    | with_reducible exact sim_lift uniform_wrterror
    | with_reducible exact sim_lift uniform_undefined
    | with_reducible exact sim_lift uniform_diverges
    | with_reducible exact sim_lift uniform_lift_outcome
    | with_reducible exact sim_lift uniform_findpool
    | with_reducible exact sim_lift uniform_delete_pool
    | with_reducible exact sim_lift uniform_STATS_SETF
    | with_reducible exact sim_lift uniform_LIST_REMOVE
    | with_reducible exact sim_lift uniform_LIST_INSERT_HEAD_dir
    | with_reducible exact sim_lift uniform_LIST_INSERT_HEAD_info
    | with_reducible exact sim_lift uniform_set_region_size
    | with_reducible exact sim_lift uniform_EPILOGUE
    | with_reducible refine sim_lift (uniform_modify ?_)
    | with_reducible refine sim_get_bind ?_ ?_
    | exact fun _ _ => rfl
    | with_reducible apply sim_pure_right
    | with_reducible apply sim_pure_left
    | with_reducible refine sim_skip (by first | exact neutral_memset | exact neutral_explicit_bzero | exact neutral_memcpy | exact neutral_junk_free | exact neutral_fill_canary | exact neutral_mprotect | exact neutral_pool_get) ?_
    | with_reducible apply sim_ite
    | with_reducible apply sim_bind
    | with_reducible apply sim_ite_left
    | intro _
    | dsimp only

theorem sim_alloc_chunk_info {ps b : Nat} {mopts : malloc_readonly} :
    sim (Mem.alloc_chunk_info ps mopts b) (alloc_chunk_info ps mopts b) := by
  unfold Mem.alloc_chunk_info alloc_chunk_info
  repeat' first
    | with_reducible exact sim_map
    | with_reducible exact sim_unmap
    | with_reducible exact sim_alloc_chunk_info_carve
    | with_reducible exact sim_pure
    | with_reducible exact sim_validate_junk
    | with_reducible exact sim_validate_canary
    | with_reducible exact sim_os_munmap
    | with_reducible exact sim_os_mmap
    | with_reducible exact sim_os_mmap_fixed
    | with_reducible exact sim_os_mprotect
    | with_reducible exact sim_lift uniform_getrbyte
    | with_reducible exact sim_lift uniform_wrterror
    | with_reducible exact sim_lift uniform_undefined
    | with_reducible exact sim_lift uniform_diverges
    | with_reducible exact sim_lift uniform_lift_outcome
    | with_reducible exact sim_lift uniform_findpool
    | with_reducible exact sim_lift uniform_delete_pool
    | with_reducible exact sim_lift uniform_STATS_SETF
    | with_reducible exact sim_lift uniform_LIST_REMOVE
    | with_reducible exact sim_lift uniform_LIST_INSERT_HEAD_dir
    | with_reducible exact sim_lift uniform_LIST_INSERT_HEAD_info
    | with_reducible exact sim_lift uniform_set_region_size
    | with_reducible exact sim_lift uniform_EPILOGUE
    | with_reducible refine sim_lift (uniform_modify ?_)
    | with_reducible refine sim_get_bind ?_ ?_
    | exact fun _ _ => rfl
    | with_reducible apply sim_pure_right
    | with_reducible apply sim_pure_left
    | with_reducible refine sim_skip (by first | exact neutral_memset | exact neutral_explicit_bzero | exact neutral_memcpy | exact neutral_junk_free | exact neutral_fill_canary | exact neutral_mprotect | exact neutral_pool_get) ?_
    | with_reducible apply sim_ite
    | with_reducible apply sim_bind
    | with_reducible apply sim_ite_left
    | intro _
    | dsimp only
  all_goals
    generalize LIST_FIRST _ = o
    cases o
    repeat' first
      | with_reducible exact sim_map
      | with_reducible exact sim_unmap
      | with_reducible exact sim_pure
      | with_reducible exact sim_validate_junk
      | with_reducible exact sim_validate_canary
      | with_reducible exact sim_os_munmap
      | with_reducible exact sim_os_mmap
      | with_reducible exact sim_os_mmap_fixed
      | with_reducible exact sim_os_mprotect
      | with_reducible exact sim_lift uniform_getrbyte
      | with_reducible exact sim_lift uniform_wrterror
      | with_reducible exact sim_lift uniform_undefined
      | with_reducible exact sim_lift uniform_diverges
      | with_reducible exact sim_lift uniform_lift_outcome
      | with_reducible exact sim_lift uniform_findpool
      | with_reducible exact sim_lift uniform_delete_pool
      | with_reducible exact sim_lift uniform_STATS_SETF
      | with_reducible exact sim_lift uniform_LIST_REMOVE
      | with_reducible exact sim_lift uniform_LIST_INSERT_HEAD_dir
      | with_reducible exact sim_lift uniform_LIST_INSERT_HEAD_info
      | with_reducible exact sim_lift uniform_set_region_size
      | with_reducible exact sim_lift uniform_EPILOGUE
      | with_reducible refine sim_lift (uniform_modify ?_)
      | with_reducible refine sim_get_bind ?_ ?_
      | exact fun _ _ => rfl
      | with_reducible apply sim_pure_right
      | with_reducible apply sim_pure_left
      | with_reducible refine sim_skip (by first | exact neutral_memset | exact neutral_explicit_bzero | exact neutral_memcpy | exact neutral_junk_free | exact neutral_fill_canary | exact neutral_mprotect | exact neutral_pool_get) ?_
      | with_reducible apply sim_ite
      | with_reducible apply sim_bind
      | with_reducible apply sim_ite_left
      | intro _
      | dsimp only

theorem sim_omalloc_make_chunks {ps b l : Nat} {mopts : malloc_readonly} :
    sim (Mem.omalloc_make_chunks ps mopts b l) (omalloc_make_chunks ps mopts b l) := by
  unfold Mem.omalloc_make_chunks omalloc_make_chunks
  repeat' first
    | with_reducible exact sim_map
    | with_reducible exact sim_unmap
    | with_reducible exact sim_alloc_chunk_info
    | with_reducible exact sim_insert_pool
    | with_reducible exact sim_pure
    | with_reducible exact sim_validate_junk
    | with_reducible exact sim_validate_canary
    | with_reducible exact sim_os_munmap
    | with_reducible exact sim_os_mmap
    | with_reducible exact sim_os_mmap_fixed
    | with_reducible exact sim_os_mprotect
    | with_reducible exact sim_lift uniform_getrbyte
    | with_reducible exact sim_lift uniform_wrterror
    | with_reducible exact sim_lift uniform_undefined
    | with_reducible exact sim_lift uniform_diverges
    | with_reducible exact sim_lift uniform_lift_outcome
    | with_reducible exact sim_lift uniform_findpool
    | with_reducible exact sim_lift uniform_delete_pool
    | with_reducible exact sim_lift uniform_STATS_SETF
    | with_reducible exact sim_lift uniform_LIST_REMOVE
    | with_reducible exact sim_lift uniform_LIST_INSERT_HEAD_dir
    | with_reducible exact sim_lift uniform_LIST_INSERT_HEAD_info
    | with_reducible exact sim_lift uniform_set_region_size
    | with_reducible exact sim_lift uniform_EPILOGUE
    | with_reducible refine sim_lift (uniform_modify ?_)
    | with_reducible refine sim_get_bind ?_ ?_
    | exact fun _ _ => rfl
    | with_reducible apply sim_pure_right
    | with_reducible apply sim_pure_left
    | with_reducible refine sim_skip (by first | exact neutral_memset | exact neutral_explicit_bzero | exact neutral_memcpy | exact neutral_junk_free | exact neutral_fill_canary | exact neutral_mprotect | exact neutral_pool_get) ?_
    | with_reducible apply sim_ite
    | with_reducible apply sim_bind
    | with_reducible apply sim_ite_left
    | intro _
    | dsimp only
  all_goals
    rename_i x
    cases x
    repeat' first
      | with_reducible exact sim_map
      | with_reducible exact sim_unmap
      | with_reducible exact sim_alloc_chunk_info
      | with_reducible exact sim_insert_pool
      | with_reducible exact sim_pure
      | with_reducible exact sim_validate_junk
      | with_reducible exact sim_validate_canary
      | with_reducible exact sim_os_munmap
      | with_reducible exact sim_os_mmap
      | with_reducible exact sim_os_mmap_fixed
      | with_reducible exact sim_os_mprotect
      | with_reducible exact sim_lift uniform_getrbyte
      | with_reducible exact sim_lift uniform_wrterror
      | with_reducible exact sim_lift uniform_undefined
      | with_reducible exact sim_lift uniform_diverges
      | with_reducible exact sim_lift uniform_lift_outcome
      | with_reducible exact sim_lift uniform_findpool
      | with_reducible exact sim_lift uniform_delete_pool
      | with_reducible exact sim_lift uniform_STATS_SETF
      | with_reducible exact sim_lift uniform_LIST_REMOVE
      | with_reducible exact sim_lift uniform_LIST_INSERT_HEAD_dir
      | with_reducible exact sim_lift uniform_LIST_INSERT_HEAD_info
      | with_reducible exact sim_lift uniform_set_region_size
      | with_reducible exact sim_lift uniform_EPILOGUE
      | with_reducible refine sim_lift (uniform_modify ?_)
      | with_reducible refine sim_get_bind ?_ ?_
      | exact fun _ _ => rfl
      | with_reducible apply sim_pure_right
      | with_reducible apply sim_pure_left
      | with_reducible refine sim_skip (by first | exact neutral_memset | exact neutral_explicit_bzero | exact neutral_memcpy | exact neutral_junk_free | exact neutral_fill_canary | exact neutral_mprotect | exact neutral_pool_get) ?_
      | with_reducible apply sim_ite
      | with_reducible apply sim_bind
      | with_reducible apply sim_ite_left
      | intro _
      | dsimp only

theorem sim_malloc_bytes {ps size f : Nat} {mopts : malloc_readonly} :
    sim (Mem.malloc_bytes ps mopts size f) (malloc_bytes ps mopts size f) := by
  unfold Mem.malloc_bytes malloc_bytes
  refine sim_get_bind (fun _ _ => rfl) fun s => ?_
  refine sim_ite (sim_lift uniform_wrterror) ?_
  dsimp only
  refine sim_bind (sim_lift uniform_getrbyte) fun r1 => ?_
  refine sim_bind (sim_lift uniform_getrbyte) fun r2 => ?_
  refine sim_get_bind (fun _ _ => rfl) fun s2 => ?_
  refine sim_bind ?_ fun made => ?_
  · generalize LIST_FIRST _ = o
    cases o with
    | none => exact sim_omalloc_make_chunks
    | some bp => exact sim_pure
  cases made with
  | none => exact sim_pure
  | some bp =>
    dsimp only
    refine sim_get_bind (fun _ _ => rfl) fun s3 => ?_
    refine sim_ite (sim_lift uniform_wrterror) ?_
    generalize malloc_bytes_take _ _ _ _ = o
    cases o with
    | none => exact sim_lift uniform_diverges
    | some x =>
      cases x with
      | mk ci k =>
        dsimp only
        repeat' first
          | with_reducible exact sim_map
          | with_reducible exact sim_unmap
          | with_reducible exact sim_insert_pool
          | with_reducible exact sim_omalloc_make_chunks
          | with_reducible exact sim_pure
          | with_reducible exact sim_validate_junk
          | with_reducible exact sim_validate_canary
          | with_reducible exact sim_os_munmap
          | with_reducible exact sim_os_mmap
          | with_reducible exact sim_os_mmap_fixed
          | with_reducible exact sim_os_mprotect
          | with_reducible exact sim_lift uniform_getrbyte
          | with_reducible exact sim_lift uniform_wrterror
          | with_reducible exact sim_lift uniform_undefined
          | with_reducible exact sim_lift uniform_diverges
          | with_reducible exact sim_lift uniform_lift_outcome
          | with_reducible exact sim_lift uniform_findpool
          | with_reducible exact sim_lift uniform_delete_pool
          | with_reducible exact sim_lift uniform_STATS_SETF
          | with_reducible exact sim_lift uniform_LIST_REMOVE
          | with_reducible exact sim_lift uniform_LIST_INSERT_HEAD_dir
          | with_reducible exact sim_lift uniform_LIST_INSERT_HEAD_info
          | with_reducible exact sim_lift uniform_set_region_size
          | with_reducible exact sim_lift uniform_EPILOGUE
          | with_reducible refine sim_lift (uniform_modify ?_)
          | with_reducible refine sim_get_bind ?_ ?_
          | exact fun _ _ => rfl
          | with_reducible apply sim_pure_right
          | with_reducible apply sim_pure_left
          | with_reducible refine sim_skip (by first | exact neutral_memset | exact neutral_explicit_bzero | exact neutral_memcpy | exact neutral_junk_free | exact neutral_fill_canary | exact neutral_mprotect | exact neutral_pool_get) ?_
          | with_reducible apply sim_ite
          | with_reducible apply sim_bind
          | with_reducible apply sim_ite_left
          | intro _
          | dsimp only
        all_goals
          rename_i x
          cases x
          repeat' first
            | with_reducible exact sim_map
            | with_reducible exact sim_unmap
            | with_reducible exact sim_insert_pool
            | with_reducible exact sim_omalloc_make_chunks
            | with_reducible exact sim_pure
            | with_reducible exact sim_validate_junk
            | with_reducible exact sim_validate_canary
            | with_reducible exact sim_os_munmap
            | with_reducible exact sim_os_mmap
            | with_reducible exact sim_os_mmap_fixed
            | with_reducible exact sim_os_mprotect
            | with_reducible exact sim_lift uniform_getrbyte
            | with_reducible exact sim_lift uniform_wrterror
            | with_reducible exact sim_lift uniform_undefined
            | with_reducible exact sim_lift uniform_diverges
            | with_reducible exact sim_lift uniform_lift_outcome
            | with_reducible exact sim_lift uniform_findpool
            | with_reducible exact sim_lift uniform_delete_pool
            | with_reducible exact sim_lift uniform_STATS_SETF
            | with_reducible exact sim_lift uniform_LIST_REMOVE
            | with_reducible exact sim_lift uniform_LIST_INSERT_HEAD_dir
            | with_reducible exact sim_lift uniform_LIST_INSERT_HEAD_info
            | with_reducible exact sim_lift uniform_set_region_size
            | with_reducible exact sim_lift uniform_EPILOGUE
            | with_reducible refine sim_lift (uniform_modify ?_)
            | with_reducible refine sim_get_bind ?_ ?_
            | exact fun _ _ => rfl
            | with_reducible apply sim_pure_right
            | with_reducible apply sim_pure_left
            | with_reducible refine sim_skip (by first | exact neutral_memset | exact neutral_explicit_bzero | exact neutral_memcpy | exact neutral_junk_free | exact neutral_fill_canary | exact neutral_mprotect | exact neutral_pool_get) ?_
            | with_reducible apply sim_ite
            | with_reducible apply sim_bind
            | with_reducible apply sim_ite_left
            | intro _
            | dsimp only

theorem sim_omalloc {ps sz zero_fill f : Nat} {mopts : malloc_readonly} :
    sim (Mem.omalloc ps mopts sz zero_fill f) (omalloc ps mopts sz zero_fill f) := by
  unfold Mem.omalloc omalloc
  refine sim_ite ?_ ?_
  · skip
    repeat' first
      | with_reducible exact sim_map
      | with_reducible exact sim_unmap
      | with_reducible exact sim_insert_pool
      | with_reducible exact sim_omalloc_make_chunks
      | with_reducible exact sim_pure
      | with_reducible exact sim_validate_junk
      | with_reducible exact sim_validate_canary
      | with_reducible exact sim_os_munmap
      | with_reducible exact sim_os_mmap
      | with_reducible exact sim_os_mmap_fixed
      | with_reducible exact sim_os_mprotect
      | with_reducible exact sim_lift uniform_getrbyte
      | with_reducible exact sim_lift uniform_wrterror
      | with_reducible exact sim_lift uniform_undefined
      | with_reducible exact sim_lift uniform_diverges
      | with_reducible exact sim_lift uniform_lift_outcome
      | with_reducible exact sim_lift uniform_findpool
      | with_reducible exact sim_lift uniform_delete_pool
      | with_reducible exact sim_lift uniform_STATS_SETF
      | with_reducible exact sim_lift uniform_LIST_REMOVE
      | with_reducible exact sim_lift uniform_LIST_INSERT_HEAD_dir
      | with_reducible exact sim_lift uniform_LIST_INSERT_HEAD_info
      | with_reducible exact sim_lift uniform_set_region_size
      | with_reducible exact sim_lift uniform_EPILOGUE
      | with_reducible refine sim_lift (uniform_modify ?_)
      | with_reducible refine sim_get_bind ?_ ?_
      | exact fun _ _ => rfl
      | with_reducible apply sim_pure_right
      | with_reducible apply sim_pure_left
      | with_reducible refine sim_skip (by first | exact neutral_memset | exact neutral_explicit_bzero | exact neutral_memcpy | exact neutral_junk_free | exact neutral_fill_canary | exact neutral_mprotect | exact neutral_pool_get) ?_
      | with_reducible apply sim_ite
      | with_reducible apply sim_bind
      | with_reducible apply sim_ite_left
      | intro _
      | dsimp only
  · apply sim_tail_id sim_malloc_bytes
    intro a
    dsimp only
    apply neutral_ret_ite
    · exact neutral_ret_bind neutral_memset fun _ => neutral_ret_pure
    · exact neutral_ret_bind neutral_pure fun _ => neutral_ret_pure

theorem sim_find_chunknum_check {ps ptr check : Nat} {info : chunk_info}
    {mopts : malloc_readonly} :
    sim (Mem.find_chunknum_check ps mopts info ptr check)
      (find_chunknum_check ps info ptr check) := by
  unfold Mem.find_chunknum_check find_chunknum_check
  repeat' first
    | with_reducible exact sim_map
    | with_reducible exact sim_unmap
    | with_reducible exact sim_insert_pool
    | with_reducible exact sim_omalloc_make_chunks
    | with_reducible exact sim_pure
    | with_reducible exact sim_validate_junk
    | with_reducible exact sim_validate_canary
    | with_reducible exact sim_os_munmap
    | with_reducible exact sim_os_mmap
    | with_reducible exact sim_os_mmap_fixed
    | with_reducible exact sim_os_mprotect
    | with_reducible exact sim_lift uniform_getrbyte
    | with_reducible exact sim_lift uniform_wrterror
    | with_reducible exact sim_lift uniform_undefined
    | with_reducible exact sim_lift uniform_diverges
    | with_reducible exact sim_lift uniform_lift_outcome
    | with_reducible exact sim_lift uniform_findpool
    | with_reducible exact sim_lift uniform_delete_pool
    | with_reducible exact sim_lift uniform_STATS_SETF
    | with_reducible exact sim_lift uniform_LIST_REMOVE
    | with_reducible exact sim_lift uniform_LIST_INSERT_HEAD_dir
    | with_reducible exact sim_lift uniform_LIST_INSERT_HEAD_info
    | with_reducible exact sim_lift uniform_set_region_size
    | with_reducible exact sim_lift uniform_EPILOGUE
    | with_reducible refine sim_lift (uniform_modify ?_)
    | with_reducible refine sim_get_bind ?_ ?_
    | exact fun _ _ => rfl
    | with_reducible apply sim_pure_right
    | with_reducible apply sim_pure_left
    | with_reducible refine sim_skip (by first | exact neutral_memset | exact neutral_explicit_bzero | exact neutral_memcpy | exact neutral_junk_free | exact neutral_fill_canary | exact neutral_mprotect | exact neutral_pool_get) ?_
    | with_reducible apply sim_ite
    | with_reducible apply sim_bind
    | with_reducible apply sim_ite_left
    | intro _
    | dsimp only

theorem sim_free_bytes {ps ri ptr : Nat} {mopts : malloc_readonly} :
    sim (Mem.free_bytes ps mopts ri ptr) (free_bytes ps mopts ri ptr) := by
  unfold Mem.free_bytes free_bytes
  repeat' first
    | with_reducible exact sim_map
    | with_reducible exact sim_unmap
    | with_reducible exact sim_insert_pool
    | with_reducible exact sim_omalloc_make_chunks
    | with_reducible exact sim_find_chunknum_check
    | with_reducible exact sim_pure
    | with_reducible exact sim_validate_junk
    | with_reducible exact sim_validate_canary
    | with_reducible exact sim_os_munmap
    | with_reducible exact sim_os_mmap
    | with_reducible exact sim_os_mmap_fixed
    | with_reducible exact sim_os_mprotect
    | with_reducible exact sim_lift uniform_getrbyte
    | with_reducible exact sim_lift uniform_wrterror
    | with_reducible exact sim_lift uniform_undefined
    | with_reducible exact sim_lift uniform_diverges
    | with_reducible exact sim_lift uniform_lift_outcome
    | with_reducible exact sim_lift uniform_findpool
    | with_reducible exact sim_lift uniform_delete_pool
    | with_reducible exact sim_lift uniform_STATS_SETF
    | with_reducible exact sim_lift uniform_LIST_REMOVE
    | with_reducible exact sim_lift uniform_LIST_INSERT_HEAD_dir
    | with_reducible exact sim_lift uniform_LIST_INSERT_HEAD_info
    | with_reducible exact sim_lift uniform_set_region_size
    | with_reducible exact sim_lift uniform_EPILOGUE
    | with_reducible refine sim_lift (uniform_modify ?_)
    | with_reducible refine sim_get_bind ?_ ?_
    | exact fun _ _ => rfl
    | with_reducible apply sim_pure_right
    | with_reducible apply sim_pure_left
    | with_reducible refine sim_skip (by first | exact neutral_memset | exact neutral_explicit_bzero | exact neutral_memcpy | exact neutral_junk_free | exact neutral_fill_canary | exact neutral_mprotect | exact neutral_pool_get) ?_
    | with_reducible apply sim_ite
    | with_reducible apply sim_bind
    | with_reducible apply sim_ite_left
    | intro _
    | dsimp only

theorem sim_ofree_freecheck {ps p : Nat} {mopts : malloc_readonly} (l : List Nat) :
    sim (Mem.ofree_freecheck ps mopts p l) (ofree_freecheck ps mopts p l) := by
  induction l with
  | nil => exact sim_pure
  | cons tmp rest ih =>
    unfold Mem.ofree_freecheck ofree_freecheck
    repeat' first
      | with_reducible exact sim_map
      | with_reducible exact sim_unmap
      | with_reducible exact sim_insert_pool
      | with_reducible exact sim_omalloc_make_chunks
      | with_reducible exact ih
      | with_reducible exact sim_pure
      | with_reducible exact sim_validate_junk
      | with_reducible exact sim_validate_canary
      | with_reducible exact sim_os_munmap
      | with_reducible exact sim_os_mmap
      | with_reducible exact sim_os_mmap_fixed
      | with_reducible exact sim_os_mprotect
      | with_reducible exact sim_lift uniform_getrbyte
      | with_reducible exact sim_lift uniform_wrterror
      | with_reducible exact sim_lift uniform_undefined
      | with_reducible exact sim_lift uniform_diverges
      | with_reducible exact sim_lift uniform_lift_outcome
      | with_reducible exact sim_lift uniform_findpool
      | with_reducible exact sim_lift uniform_delete_pool
      | with_reducible exact sim_lift uniform_STATS_SETF
      | with_reducible exact sim_lift uniform_LIST_REMOVE
      | with_reducible exact sim_lift uniform_LIST_INSERT_HEAD_dir
      | with_reducible exact sim_lift uniform_LIST_INSERT_HEAD_info
      | with_reducible exact sim_lift uniform_set_region_size
      | with_reducible exact sim_lift uniform_EPILOGUE
      | with_reducible refine sim_lift (uniform_modify ?_)
      | with_reducible refine sim_get_bind ?_ ?_
      | exact fun _ _ => rfl
      | with_reducible apply sim_pure_right
      | with_reducible apply sim_pure_left
      | with_reducible refine sim_skip (by first | exact neutral_memset | exact neutral_explicit_bzero | exact neutral_memcpy | exact neutral_junk_free | exact neutral_fill_canary | exact neutral_mprotect | exact neutral_pool_get) ?_
      | with_reducible apply sim_ite
      | with_reducible apply sim_bind
      | with_reducible apply sim_ite_left
      | intro _
      | dsimp only
    all_goals
      rename_i x
      cases x
      repeat' first
        | with_reducible exact sim_map
        | with_reducible exact sim_unmap
        | with_reducible exact sim_insert_pool
        | with_reducible exact sim_omalloc_make_chunks
        | with_reducible exact ih
        | with_reducible exact sim_pure
        | with_reducible exact sim_validate_junk
        | with_reducible exact sim_validate_canary
        | with_reducible exact sim_os_munmap
        | with_reducible exact sim_os_mmap
        | with_reducible exact sim_os_mmap_fixed
        | with_reducible exact sim_os_mprotect
        | with_reducible exact sim_lift uniform_getrbyte
        | with_reducible exact sim_lift uniform_wrterror
        | with_reducible exact sim_lift uniform_undefined
        | with_reducible exact sim_lift uniform_diverges
        | with_reducible exact sim_lift uniform_lift_outcome
        | with_reducible exact sim_lift uniform_findpool
        | with_reducible exact sim_lift uniform_delete_pool
        | with_reducible exact sim_lift uniform_STATS_SETF
        | with_reducible exact sim_lift uniform_LIST_REMOVE
        | with_reducible exact sim_lift uniform_LIST_INSERT_HEAD_dir
        | with_reducible exact sim_lift uniform_LIST_INSERT_HEAD_info
        | with_reducible exact sim_lift uniform_set_region_size
        | with_reducible exact sim_lift uniform_EPILOGUE
        | with_reducible refine sim_lift (uniform_modify ?_)
        | with_reducible refine sim_get_bind ?_ ?_
        | exact fun _ _ => rfl
        | with_reducible apply sim_pure_right
        | with_reducible apply sim_pure_left
        | with_reducible refine sim_skip (by first | exact neutral_memset | exact neutral_explicit_bzero | exact neutral_memcpy | exact neutral_junk_free | exact neutral_fill_canary | exact neutral_mprotect | exact neutral_pool_get) ?_
        | with_reducible apply sim_ite
        | with_reducible apply sim_bind
        | with_reducible apply sim_ite_left
        | intro _
        | dsimp only

theorem sim_ofree_large {ps ri p sz clear argsz : Nat} {mopts : malloc_readonly} :
    sim (Mem.ofree_large ps mopts ri p sz clear argsz)
      (ofree_large ps mopts ri p sz clear argsz) := by
  unfold Mem.ofree_large ofree_large
  repeat' first
    | with_reducible exact sim_map
    | with_reducible exact sim_unmap
    | with_reducible exact sim_insert_pool
    | with_reducible exact sim_omalloc_make_chunks
    | with_reducible exact sim_pure
    | with_reducible exact sim_validate_junk
    | with_reducible exact sim_validate_canary
    | with_reducible exact sim_os_munmap
    | with_reducible exact sim_os_mmap
    | with_reducible exact sim_os_mmap_fixed
    | with_reducible exact sim_os_mprotect
    | with_reducible exact sim_lift uniform_getrbyte
    | with_reducible exact sim_lift uniform_wrterror
    | with_reducible exact sim_lift uniform_undefined
    | with_reducible exact sim_lift uniform_diverges
    | with_reducible exact sim_lift uniform_lift_outcome
    | with_reducible exact sim_lift uniform_findpool
    | with_reducible exact sim_lift uniform_delete_pool
    | with_reducible exact sim_lift uniform_STATS_SETF
    | with_reducible exact sim_lift uniform_LIST_REMOVE
    | with_reducible exact sim_lift uniform_LIST_INSERT_HEAD_dir
    | with_reducible exact sim_lift uniform_LIST_INSERT_HEAD_info
    | with_reducible exact sim_lift uniform_set_region_size
    | with_reducible exact sim_lift uniform_EPILOGUE
    | with_reducible refine sim_lift (uniform_modify ?_)
    | with_reducible refine sim_get_bind ?_ ?_
    | exact fun _ _ => rfl
    | with_reducible apply sim_pure_right
    | with_reducible apply sim_pure_left
    | with_reducible refine sim_skip (by first | exact neutral_memset | exact neutral_explicit_bzero | exact neutral_memcpy | exact neutral_junk_free | exact neutral_fill_canary | exact neutral_mprotect | exact neutral_pool_get) ?_
    | with_reducible apply sim_ite
    | with_reducible apply sim_bind
    | with_reducible apply sim_ite_left
    | intro _
    | dsimp only

theorem sim_ofree_chunk {ps ri p sz clear argsz : Nat} {mopts : malloc_readonly} :
    sim (Mem.ofree_chunk ps mopts ri p sz clear argsz) (ofree_chunk ps mopts ri p sz) := by
  unfold Mem.ofree_chunk ofree_chunk
  repeat' first
    | with_reducible exact sim_map
    | with_reducible exact sim_unmap
    | with_reducible exact sim_insert_pool
    | with_reducible exact sim_omalloc_make_chunks
    | with_reducible exact sim_find_chunknum_check
    | with_reducible exact (sim_ofree_freecheck _)
    | with_reducible exact sim_free_bytes
    | with_reducible exact sim_pure
    | with_reducible exact sim_validate_junk
    | with_reducible exact sim_validate_canary
    | with_reducible exact sim_os_munmap
    | with_reducible exact sim_os_mmap
    | with_reducible exact sim_os_mmap_fixed
    | with_reducible exact sim_os_mprotect
    | with_reducible exact sim_lift uniform_getrbyte
    | with_reducible exact sim_lift uniform_wrterror
    | with_reducible exact sim_lift uniform_undefined
    | with_reducible exact sim_lift uniform_diverges
    | with_reducible exact sim_lift uniform_lift_outcome
    | with_reducible exact sim_lift uniform_findpool
    | with_reducible exact sim_lift uniform_delete_pool
    | with_reducible exact sim_lift uniform_STATS_SETF
    | with_reducible exact sim_lift uniform_LIST_REMOVE
    | with_reducible exact sim_lift uniform_LIST_INSERT_HEAD_dir
    | with_reducible exact sim_lift uniform_LIST_INSERT_HEAD_info
    | with_reducible exact sim_lift uniform_set_region_size
    | with_reducible exact sim_lift uniform_EPILOGUE
    | with_reducible refine sim_lift (uniform_modify ?_)
    | with_reducible refine sim_get_bind ?_ ?_
    | exact fun _ _ => rfl
    | with_reducible apply sim_pure_right
    | with_reducible apply sim_pure_left
    | with_reducible refine sim_skip (by first | exact neutral_memset | exact neutral_explicit_bzero | exact neutral_memcpy | exact neutral_junk_free | exact neutral_fill_canary | exact neutral_mprotect | exact neutral_pool_get) ?_
    | with_reducible apply sim_ite
    | with_reducible apply sim_bind
    | with_reducible apply sim_ite_left
    | intro _
    | dsimp only
  all_goals
    rename_i x
    cases x
    repeat' first
      | with_reducible exact sim_map
      | with_reducible exact sim_unmap
      | with_reducible exact sim_insert_pool
      | with_reducible exact sim_omalloc_make_chunks
      | with_reducible exact sim_find_chunknum_check
      | with_reducible exact (sim_ofree_freecheck _)
      | with_reducible exact sim_free_bytes
      | with_reducible exact sim_pure
      | with_reducible exact sim_validate_junk
      | with_reducible exact sim_validate_canary
      | with_reducible exact sim_os_munmap
      | with_reducible exact sim_os_mmap
      | with_reducible exact sim_os_mmap_fixed
      | with_reducible exact sim_os_mprotect
      | with_reducible exact sim_lift uniform_getrbyte
      | with_reducible exact sim_lift uniform_wrterror
      | with_reducible exact sim_lift uniform_undefined
      | with_reducible exact sim_lift uniform_diverges
      | with_reducible exact sim_lift uniform_lift_outcome
      | with_reducible exact sim_lift uniform_findpool
      | with_reducible exact sim_lift uniform_delete_pool
      | with_reducible exact sim_lift uniform_STATS_SETF
      | with_reducible exact sim_lift uniform_LIST_REMOVE
      | with_reducible exact sim_lift uniform_LIST_INSERT_HEAD_dir
      | with_reducible exact sim_lift uniform_LIST_INSERT_HEAD_info
      | with_reducible exact sim_lift uniform_set_region_size
      | with_reducible exact sim_lift uniform_EPILOGUE
      | with_reducible refine sim_lift (uniform_modify ?_)
      | with_reducible refine sim_get_bind ?_ ?_
      | exact fun _ _ => rfl
      | with_reducible apply sim_pure_right
      | with_reducible apply sim_pure_left
      | with_reducible refine sim_skip (by first | exact neutral_memset | exact neutral_explicit_bzero | exact neutral_memcpy | exact neutral_junk_free | exact neutral_fill_canary | exact neutral_mprotect | exact neutral_pool_get) ?_
      | with_reducible apply sim_ite
      | with_reducible apply sim_bind
      | with_reducible apply sim_ite_left
      | intro _
      | dsimp only

theorem sim_ofree {ps p clear check argsz : Nat} {mopts : malloc_readonly} :
    sim (Mem.ofree ps mopts p clear check argsz) (ofree ps mopts p clear check argsz) := by
  unfold Mem.ofree ofree
  repeat' first
    | with_reducible exact sim_map
    | with_reducible exact sim_unmap
    | with_reducible exact sim_insert_pool
    | with_reducible exact sim_omalloc_make_chunks
    | with_reducible exact sim_find_chunknum_check
    | with_reducible exact sim_ofree_large
    | with_reducible exact sim_ofree_chunk
    | with_reducible exact sim_pure
    | with_reducible exact sim_validate_junk
    | with_reducible exact sim_validate_canary
    | with_reducible exact sim_os_munmap
    | with_reducible exact sim_os_mmap
    | with_reducible exact sim_os_mmap_fixed
    | with_reducible exact sim_os_mprotect
    | with_reducible exact sim_lift uniform_getrbyte
    | with_reducible exact sim_lift uniform_wrterror
    | with_reducible exact sim_lift uniform_undefined
    | with_reducible exact sim_lift uniform_diverges
    | with_reducible exact sim_lift uniform_lift_outcome
    | with_reducible exact sim_lift uniform_findpool
    | with_reducible exact sim_lift uniform_delete_pool
    | with_reducible exact sim_lift uniform_STATS_SETF
    | with_reducible exact sim_lift uniform_LIST_REMOVE
    | with_reducible exact sim_lift uniform_LIST_INSERT_HEAD_dir
    | with_reducible exact sim_lift uniform_LIST_INSERT_HEAD_info
    | with_reducible exact sim_lift uniform_set_region_size
    | with_reducible exact sim_lift uniform_EPILOGUE
    | with_reducible refine sim_lift (uniform_modify ?_)
    | with_reducible refine sim_get_bind ?_ ?_
    | exact fun _ _ => rfl
    | with_reducible apply sim_pure_right
    | with_reducible apply sim_pure_left
    | with_reducible refine sim_skip (by first | exact neutral_memset | exact neutral_explicit_bzero | exact neutral_memcpy | exact neutral_junk_free | exact neutral_fill_canary | exact neutral_mprotect | exact neutral_pool_get) ?_
    | with_reducible apply sim_ite
    | with_reducible apply sim_bind
    | with_reducible apply sim_ite_left
    | intro _
    | dsimp only

theorem sim_orealloc_pages {ps ri p goldsz gnewsz oldsz newsz f : Nat}
    {mopts : malloc_readonly} :
    sim (Mem.orealloc_pages ps mopts ri p goldsz gnewsz oldsz newsz f)
      (orealloc_pages ps mopts ri p goldsz gnewsz f) := by
  unfold Mem.orealloc_pages orealloc_pages
  repeat' first
    | with_reducible exact sim_map
    | with_reducible exact sim_unmap
    | with_reducible exact sim_insert_pool
    | with_reducible exact sim_find_chunknum_check
    | with_reducible exact sim_omalloc
    | with_reducible exact sim_ofree
    | with_reducible exact sim_pure
    | with_reducible exact sim_validate_junk
    | with_reducible exact sim_validate_canary
    | with_reducible exact sim_os_munmap
    | with_reducible exact sim_os_mmap
    | with_reducible exact sim_os_mmap_fixed
    | with_reducible exact sim_os_mprotect
    | with_reducible exact sim_lift uniform_getrbyte
    | with_reducible exact sim_lift uniform_wrterror
    | with_reducible exact sim_lift uniform_undefined
    | with_reducible exact sim_lift uniform_diverges
    | with_reducible exact sim_lift uniform_lift_outcome
    | with_reducible exact sim_lift uniform_findpool
    | with_reducible exact sim_lift uniform_delete_pool
    | with_reducible exact sim_lift uniform_STATS_SETF
    | with_reducible exact sim_lift uniform_LIST_REMOVE
    | with_reducible exact sim_lift uniform_LIST_INSERT_HEAD_dir
    | with_reducible exact sim_lift uniform_LIST_INSERT_HEAD_info
    | with_reducible exact sim_lift uniform_set_region_size
    | with_reducible exact sim_lift uniform_EPILOGUE
    | with_reducible refine sim_lift (uniform_modify ?_)
    | with_reducible refine sim_get_bind ?_ ?_
    | exact fun _ _ => rfl
    | with_reducible apply sim_pure_right
    | with_reducible apply sim_pure_left
    | with_reducible refine sim_skip (by first | exact neutral_memset | exact neutral_explicit_bzero | exact neutral_memcpy | exact neutral_junk_free | exact neutral_fill_canary | exact neutral_mprotect | exact neutral_pool_get) ?_
    | with_reducible apply sim_ite
    | with_reducible apply sim_bind
    | with_reducible apply sim_ite_left
    | intro _
    | dsimp only

theorem sim_orealloc {ps p newsz f : Nat} {mopts : malloc_readonly} :
    sim (Mem.orealloc ps mopts p newsz f) (orealloc ps mopts p newsz f) := by
  unfold Mem.orealloc orealloc
  repeat' first
    | with_reducible exact sim_map
    | with_reducible exact sim_unmap
    | with_reducible exact sim_insert_pool
    | with_reducible exact sim_find_chunknum_check
    | with_reducible exact sim_omalloc
    | with_reducible exact sim_ofree
    | with_reducible exact sim_orealloc_pages
    | with_reducible exact sim_pure
    | with_reducible exact sim_validate_junk
    | with_reducible exact sim_validate_canary
    | with_reducible exact sim_os_munmap
    | with_reducible exact sim_os_mmap
    | with_reducible exact sim_os_mmap_fixed
    | with_reducible exact sim_os_mprotect
    | with_reducible exact sim_lift uniform_getrbyte
    | with_reducible exact sim_lift uniform_wrterror
    | with_reducible exact sim_lift uniform_undefined
    | with_reducible exact sim_lift uniform_diverges
    | with_reducible exact sim_lift uniform_lift_outcome
    | with_reducible exact sim_lift uniform_findpool
    | with_reducible exact sim_lift uniform_delete_pool
    | with_reducible exact sim_lift uniform_STATS_SETF
    | with_reducible exact sim_lift uniform_LIST_REMOVE
    | with_reducible exact sim_lift uniform_LIST_INSERT_HEAD_dir
    | with_reducible exact sim_lift uniform_LIST_INSERT_HEAD_info
    | with_reducible exact sim_lift uniform_set_region_size
    | with_reducible exact sim_lift uniform_EPILOGUE
    | with_reducible refine sim_lift (uniform_modify ?_)
    | with_reducible refine sim_get_bind ?_ ?_
    | exact fun _ _ => rfl
    | with_reducible apply sim_pure_right
    | with_reducible apply sim_pure_left
    | with_reducible refine sim_skip (by first | exact neutral_memset | exact neutral_explicit_bzero | exact neutral_memcpy | exact neutral_junk_free | exact neutral_fill_canary | exact neutral_mprotect | exact neutral_pool_get) ?_
    | with_reducible apply sim_ite
    | with_reducible apply sim_bind
    | with_reducible apply sim_ite_left
    | intro _
    | dsimp only
  all_goals
    rename_i x
    cases x
    repeat' first
      | with_reducible exact sim_map
      | with_reducible exact sim_unmap
      | with_reducible exact sim_insert_pool
      | with_reducible exact sim_find_chunknum_check
      | with_reducible exact sim_omalloc
      | with_reducible exact sim_ofree
      | with_reducible exact sim_orealloc_pages
      | with_reducible exact sim_pure
      | with_reducible exact sim_validate_junk
      | with_reducible exact sim_validate_canary
      | with_reducible exact sim_os_munmap
      | with_reducible exact sim_os_mmap
      | with_reducible exact sim_os_mmap_fixed
      | with_reducible exact sim_os_mprotect
      | with_reducible exact sim_lift uniform_getrbyte
      | with_reducible exact sim_lift uniform_wrterror
      | with_reducible exact sim_lift uniform_undefined
      | with_reducible exact sim_lift uniform_diverges
      | with_reducible exact sim_lift uniform_lift_outcome
      | with_reducible exact sim_lift uniform_findpool
      | with_reducible exact sim_lift uniform_delete_pool
      | with_reducible exact sim_lift uniform_STATS_SETF
      | with_reducible exact sim_lift uniform_LIST_REMOVE
      | with_reducible exact sim_lift uniform_LIST_INSERT_HEAD_dir
      | with_reducible exact sim_lift uniform_LIST_INSERT_HEAD_info
      | with_reducible exact sim_lift uniform_set_region_size
      | with_reducible exact sim_lift uniform_EPILOGUE
      | with_reducible refine sim_lift (uniform_modify ?_)
      | with_reducible refine sim_get_bind ?_ ?_
      | exact fun _ _ => rfl
      | with_reducible apply sim_pure_right
      | with_reducible apply sim_pure_left
      | with_reducible refine sim_skip (by first | exact neutral_memset | exact neutral_explicit_bzero | exact neutral_memcpy | exact neutral_junk_free | exact neutral_fill_canary | exact neutral_mprotect | exact neutral_pool_get) ?_
      | with_reducible apply sim_ite
      | with_reducible apply sim_bind
      | with_reducible apply sim_ite_left
      | intro _
      | dsimp only

theorem sim_malloc {ps size caller : Nat} {mopts : malloc_readonly} :
    sim (Mem.malloc ps mopts size caller) (malloc ps mopts size caller) := by
  unfold Mem.malloc malloc
  repeat' first
    | with_reducible exact sim_map
    | with_reducible exact sim_unmap
    | with_reducible exact sim_insert_pool
    | with_reducible exact sim_find_chunknum_check
    | with_reducible exact sim_omalloc
    | with_reducible exact sim_ofree
    | with_reducible exact sim_pure
    | with_reducible exact sim_validate_junk
    | with_reducible exact sim_validate_canary
    | with_reducible exact sim_os_munmap
    | with_reducible exact sim_os_mmap
    | with_reducible exact sim_os_mmap_fixed
    | with_reducible exact sim_os_mprotect
    | with_reducible exact sim_lift uniform_getrbyte
    | with_reducible exact sim_lift uniform_wrterror
    | with_reducible exact sim_lift uniform_undefined
    | with_reducible exact sim_lift uniform_diverges
    | with_reducible exact sim_lift uniform_lift_outcome
    | with_reducible exact sim_lift uniform_findpool
    | with_reducible exact sim_lift uniform_delete_pool
    | with_reducible exact sim_lift uniform_STATS_SETF
    | with_reducible exact sim_lift uniform_LIST_REMOVE
    | with_reducible exact sim_lift uniform_LIST_INSERT_HEAD_dir
    | with_reducible exact sim_lift uniform_LIST_INSERT_HEAD_info
    | with_reducible exact sim_lift uniform_set_region_size
    | with_reducible exact sim_lift uniform_EPILOGUE
    | with_reducible refine sim_lift (uniform_modify ?_)
    | with_reducible refine sim_get_bind ?_ ?_
    | exact fun _ _ => rfl
    | with_reducible apply sim_pure_right
    | with_reducible apply sim_pure_left
    | with_reducible refine sim_skip (by first | exact neutral_memset | exact neutral_explicit_bzero | exact neutral_memcpy | exact neutral_junk_free | exact neutral_fill_canary | exact neutral_mprotect | exact neutral_pool_get) ?_
    | with_reducible apply sim_ite
    | with_reducible apply sim_bind
    | with_reducible apply sim_ite_left
    | intro _
    | dsimp only

theorem sim_free {ps ptr : Nat} {mopts : malloc_readonly} :
    sim (Mem.free ps mopts ptr) (free ps mopts ptr) := by
  unfold Mem.free free
  repeat' first
    | with_reducible exact sim_map
    | with_reducible exact sim_unmap
    | with_reducible exact sim_insert_pool
    | with_reducible exact sim_find_chunknum_check
    | with_reducible exact sim_omalloc
    | with_reducible exact sim_ofree
    | with_reducible exact sim_pure
    | with_reducible exact sim_validate_junk
    | with_reducible exact sim_validate_canary
    | with_reducible exact sim_os_munmap
    | with_reducible exact sim_os_mmap
    | with_reducible exact sim_os_mmap_fixed
    | with_reducible exact sim_os_mprotect
    | with_reducible exact sim_lift uniform_getrbyte
    | with_reducible exact sim_lift uniform_wrterror
    | with_reducible exact sim_lift uniform_undefined
    | with_reducible exact sim_lift uniform_diverges
    | with_reducible exact sim_lift uniform_lift_outcome
    | with_reducible exact sim_lift uniform_findpool
    | with_reducible exact sim_lift uniform_delete_pool
    | with_reducible exact sim_lift uniform_STATS_SETF
    | with_reducible exact sim_lift uniform_LIST_REMOVE
    | with_reducible exact sim_lift uniform_LIST_INSERT_HEAD_dir
    | with_reducible exact sim_lift uniform_LIST_INSERT_HEAD_info
    | with_reducible exact sim_lift uniform_set_region_size
    | with_reducible exact sim_lift uniform_EPILOGUE
    | with_reducible refine sim_lift (uniform_modify ?_)
    | with_reducible refine sim_get_bind ?_ ?_
    | exact fun _ _ => rfl
    | with_reducible apply sim_pure_right
    | with_reducible apply sim_pure_left
    | with_reducible refine sim_skip (by first | exact neutral_memset | exact neutral_explicit_bzero | exact neutral_memcpy | exact neutral_junk_free | exact neutral_fill_canary | exact neutral_mprotect | exact neutral_pool_get) ?_
    | with_reducible apply sim_ite
    | with_reducible apply sim_bind
    | with_reducible apply sim_ite_left
    | intro _
    | dsimp only

theorem sim_realloc {ps ptr size caller : Nat} {mopts : malloc_readonly} :
    sim (Mem.realloc ps mopts ptr size caller) (realloc ps mopts ptr size caller) := by
  unfold Mem.realloc realloc
  repeat' first
    | with_reducible exact sim_map
    | with_reducible exact sim_unmap
    | with_reducible exact sim_insert_pool
    | with_reducible exact sim_find_chunknum_check
    | with_reducible exact sim_omalloc
    | with_reducible exact sim_ofree
    | with_reducible exact sim_orealloc
    | with_reducible exact sim_pure
    | with_reducible exact sim_validate_junk
    | with_reducible exact sim_validate_canary
    | with_reducible exact sim_os_munmap
    | with_reducible exact sim_os_mmap
    | with_reducible exact sim_os_mmap_fixed
    | with_reducible exact sim_os_mprotect
    | with_reducible exact sim_lift uniform_getrbyte
    | with_reducible exact sim_lift uniform_wrterror
    | with_reducible exact sim_lift uniform_undefined
    | with_reducible exact sim_lift uniform_diverges
    | with_reducible exact sim_lift uniform_lift_outcome
    | with_reducible exact sim_lift uniform_findpool
    | with_reducible exact sim_lift uniform_delete_pool
    | with_reducible exact sim_lift uniform_STATS_SETF
    | with_reducible exact sim_lift uniform_LIST_REMOVE
    | with_reducible exact sim_lift uniform_LIST_INSERT_HEAD_dir
    | with_reducible exact sim_lift uniform_LIST_INSERT_HEAD_info
    | with_reducible exact sim_lift uniform_set_region_size
    | with_reducible exact sim_lift uniform_EPILOGUE
    | with_reducible refine sim_lift (uniform_modify ?_)
    | with_reducible refine sim_get_bind ?_ ?_
    | exact fun _ _ => rfl
    | with_reducible apply sim_pure_right
    | with_reducible apply sim_pure_left
    | with_reducible refine sim_skip (by first | exact neutral_memset | exact neutral_explicit_bzero | exact neutral_memcpy | exact neutral_junk_free | exact neutral_fill_canary | exact neutral_mprotect | exact neutral_pool_get) ?_
    | with_reducible apply sim_ite
    | with_reducible apply sim_bind
    | with_reducible apply sim_ite_left
    | intro _
    | dsimp only

/-! ## Rules for all outcomes of a run with memory -/

theorem wpxm_intro_ok {α : Type} {m : RunM α} {P : wrterror_msg → Prop} {D U : Prop}
    {Q : α → mem_state → Prop} {ms ms' : mem_state} {a : α}
    (h : m ms = .ok (a, ms')) (hq : Q a ms') : wpxm m P D U Q ms := by
  unfold wpxm
  rw [h]
  exact hq

theorem wpxm_intro_abort {α : Type} {m : RunM α} {P : wrterror_msg → Prop} {D U : Prop}
    {Q : α → mem_state → Prop} {ms : mem_state} {e : wrterror_msg}
    (h : m ms = .abort e) (hp : P e) : wpxm m P D U Q ms := by
  unfold wpxm
  rw [h]
  exact hp

theorem wpxm_run {α : Type} {m : RunM α} {P : wrterror_msg → Prop} {D U : Prop}
    {Q : α → mem_state → Prop} {ms ms' : mem_state} {a : α}
    (h : wpxm m P D U Q ms) (hr : m ms = .ok (a, ms')) : Q a ms' := by
  unfold wpxm at h
  rw [hr] at h
  exact h

theorem wpxm_abort {α : Type} {m : RunM α} {P : wrterror_msg → Prop} {D U : Prop}
    {Q : α → mem_state → Prop} {ms : mem_state} {e : wrterror_msg}
    (h : wpxm m P D U Q ms) (hr : m ms = .abort e) : P e := by
  unfold wpxm at h
  rw [hr] at h
  exact h

theorem wpxm_returns {α : Type} {m : RunM α} {Q : α → mem_state → Prop} {ms : mem_state}
    (h : wpxm m (fun _ => False) False False Q ms) : ∃ a ms', m ms = .ok (a, ms') ∧ Q a ms' := by
  unfold wpxm at h
  cases hm : m ms with
  | ok r => rw [hm] at h; exact ⟨r.1, r.2, rfl, h⟩
  | abort e => rw [hm] at h; exact h.elim
  | diverge => rw [hm] at h; exact h.elim
  | undefined => rw [hm] at h; exact h.elim

theorem wpxm_aborts {α : Type} {m : RunM α} {e0 : wrterror_msg} {ms : mem_state}
    (h : wpxm m (fun e => e = e0) False False (fun _ _ => False) ms) : m ms = .abort e0 := by
  unfold wpxm at h
  cases hm : m ms with
  | ok r => rw [hm] at h; exact h.elim
  | abort e => rw [hm] at h; rw [h]
  | diverge => rw [hm] at h; exact h.elim
  | undefined => rw [hm] at h; exact h.elim

theorem wpxm_pure_i {α : Type} {a : α} {P : wrterror_msg → Prop} {D U : Prop}
    {Q : α → mem_state → Prop} {ms : mem_state} (h : Q a ms) :
    wpxm (pure a : RunM α) P D U Q ms := by
  unfold wpxm
  exact h

theorem wpxm_bind_i {α β : Type} {x : RunM α} {f : α → RunM β} {P : wrterror_msg → Prop}
    {D U : Prop} {Q : β → mem_state → Prop} {ms : mem_state}
    (h : wpxm x P D U (fun a s1 => wpxm (f a) P D U Q s1) ms) : wpxm (x >>= f) P D U Q ms := by
  unfold wpxm at h ⊢
  have e : (x >>= f) ms = (x ms).bind (fun p => f p.1 p.2) := rfl
  rw [e]
  cases hx : x ms with
  | ok r =>
    rw [hx] at h
    have h2 : match f r.1 r.2 with
      | .ok (a, ms') => Q a ms'
      | .abort e => P e
      | .diverge => D
      | .undefined => U := by
      have h3 := h
      unfold wpxm at h3
      exact h3
    exact h2
  | abort e => rw [hx] at h; exact h
  | diverge => rw [hx] at h; exact h
  | undefined => rw [hx] at h; exact h

theorem wpxm_get_i {P : wrterror_msg → Prop} {D U : Prop}
    {Q : mem_state → mem_state → Prop} {ms : mem_state} (h : Q ms ms) :
    wpxm (get : RunM mem_state) P D U Q ms := by
  unfold wpxm
  exact h

theorem wpxm_modify_i {g : mem_state → mem_state} {P : wrterror_msg → Prop} {D U : Prop}
    {Q : PUnit → mem_state → Prop} {ms : mem_state} (h : Q ⟨⟩ (g ms)) :
    wpxm (modify g : RunM PUnit) P D U Q ms := by
  unfold wpxm
  exact h

theorem wpxm_ite_i {α : Type} {c : Prop} [Decidable c] {x y : RunM α}
    {P : wrterror_msg → Prop} {D U : Prop} {Q : α → mem_state → Prop} {ms : mem_state}
    (hx : c → wpxm x P D U Q ms) (hy : ¬ c → wpxm y P D U Q ms) :
    wpxm (if c then x else y) P D U Q ms := by
  by_cases h : c
  · rw [if_pos h]; exact hx h
  · rw [if_neg h]; exact hy h

theorem wpxm_mono {α : Type} {m : RunM α} {P P2 : wrterror_msg → Prop} {D D2 U U2 : Prop}
    {Q Q2 : α → mem_state → Prop} {ms : mem_state} (h : wpxm m P D U Q ms)
    (hP : ∀ e, P e → P2 e) (hD : D → D2) (hU : U → U2) (hQ : ∀ a s, Q a s → Q2 a s) :
    wpxm m P2 D2 U2 Q2 ms := by
  unfold wpxm at h ⊢
  cases hm : m ms with
  | ok r => rw [hm] at h; exact hQ _ _ h
  | abort e => rw [hm] at h; exact hP _ h
  | diverge => rw [hm] at h; exact hD h
  | undefined => rw [hm] at h; exact hU h

theorem wpxm_with_wpm {α : Type} {m : RunM α} {P : wrterror_msg → Prop} {D U : Prop}
    {Q Q2 : α → mem_state → Prop} {ms : mem_state} (h : wpxm m P D U Q ms)
    (h2 : wpm m Q2 ms) : wpxm m P D U (fun a s => Q a s ∧ Q2 a s) ms := by
  unfold wpxm at h ⊢
  cases hm : m ms with
  | ok r =>
    rw [hm] at h
    exact ⟨h, wpm_run h2 hm⟩
  | abort e => rw [hm] at h; exact h
  | diverge => rw [hm] at h; exact h
  | undefined => rw [hm] at h; exact h

theorem wpxm_lift_run {α : Type} {m : Run α} {P : wrterror_msg → Prop} {D U : Prop}
    {Q : α → mem_state → Prop} {ms : mem_state} {a : α} {s : pool_state}
    (h : m ms.pool = .ok (a, s)) (hq : Q a { ms with pool := s }) :
    wpxm (Mem.lift_pool m) P D U Q ms :=
  wpxm_intro_ok (lift_pool_run h) hq

theorem wpxm_pool_get_i {P : wrterror_msg → Prop} {D U : Prop}
    {Q : pool_state → mem_state → Prop} {ms : mem_state} (h : Q ms.pool ms) :
    wpxm Mem.pool_get P D U Q ms :=
  wpxm_lift_run (a := ms.pool) (s := ms.pool) rfl h

theorem wpxm_lift_modify_i {g : pool_state → pool_state} {P : wrterror_msg → Prop}
    {D U : Prop} {Q : PUnit → mem_state → Prop} {ms : mem_state}
    (h : Q ⟨⟩ { ms with pool := g ms.pool }) :
    wpxm (Mem.lift_pool (modify g)) P D U Q ms :=
  wpxm_lift_run (a := ⟨⟩) (s := g ms.pool) rfl h

theorem wpxm_lift_abort_i {α : Type} {e : wrterror_msg} {P : wrterror_msg → Prop}
    {D U : Prop} {Q : α → mem_state → Prop} {ms : mem_state} (h : P e) :
    wpxm (Mem.lift_pool (wrterror e : Run α)) P D U Q ms :=
  wpxm_intro_abort rfl h

theorem wpxm_lift_outcome_i {α : Type} {x : Outcome α} {P : wrterror_msg → Prop}
    {D U : Prop} {Q : α → mem_state → Prop} {ms : mem_state}
    (h : match x with
      | .ok a => Q a ms
      | .abort e => P e
      | .diverge => D
      | .undefined => U) :
    wpxm (Mem.lift_pool (lift_outcome x)) P D U Q ms := by
  unfold wpxm
  cases x with
  | ok a => exact h
  | abort e => exact h
  | diverge => exact h
  | undefined => exact h

theorem wpxm_getrbyte_i {P : wrterror_msg → Prop} {D U : Prop}
    {Q : Nat → mem_state → Prop} {ms : mem_state}
    (h : Q (ms.pool.env.headD 0 % 256) { ms with pool := { ms.pool with env := ms.pool.env.tail } }) :
    wpxm (Mem.lift_pool getrbyte) P D U Q ms :=
  wpxm_lift_run (a := ms.pool.env.headD 0 % 256)
    (s := { ms.pool with env := ms.pool.env.tail }) rfl h

/-! ## Messages a run never aborts with -/

theorem never_intro {σ α : Type} {m : StateT σ Outcome α} {e : wrterror_msg}
    (h : ∀ s, m s ≠ .abort e) : never m e := by
  unfold never
  exact h

theorem never_elim {σ α : Type} {m : StateT σ Outcome α} {e : wrterror_msg}
    (h : never m e) (s : σ) : m s ≠ .abort e := by
  unfold never at h
  exact h s

theorem never_pure {σ α : Type} {a : α} {e : wrterror_msg} :
    never (pure a : StateT σ Outcome α) e :=
  never_intro (fun _ h => Outcome.noConfusion h)

theorem never_bind {σ α β : Type} {x : StateT σ Outcome α} {f : α → StateT σ Outcome β}
    {e : wrterror_msg} (hx : never x e) (hf : ∀ a, never (f a) e) : never (x >>= f) e := by
  apply never_intro
  intro s h
  have e1 : (x >>= f) s = (x s).bind (fun p => f p.1 p.2) := rfl
  rw [e1] at h
  cases hxs : x s with
  | ok r =>
    rw [hxs] at h
    exact never_elim (hf r.1) r.2 h
  | abort e2 =>
    rw [hxs] at h
    have h2 : Outcome.abort e2 = (Outcome.abort e : Outcome (β × σ)) := h
    injection h2 with h3
    exact never_elim hx s (by rw [hxs, h3])
  | diverge => rw [hxs] at h; exact Outcome.noConfusion h
  | undefined => rw [hxs] at h; exact Outcome.noConfusion h

theorem never_ite {σ α : Type} {c : Prop} [Decidable c] {x y : StateT σ Outcome α}
    {e : wrterror_msg} (hx : never x e) (hy : never y e) :
    never (if c then x else y) e := by
  by_cases h : c
  · rw [if_pos h]; exact hx
  · rw [if_neg h]; exact hy

theorem never_get {σ : Type} {e : wrterror_msg} : never (get : StateT σ Outcome σ) e :=
  never_intro (fun _ h => Outcome.noConfusion h)

theorem never_set {σ : Type} {s1 : σ} {e : wrterror_msg} :
    never (set s1 : StateT σ Outcome PUnit) e :=
  never_intro (fun _ h => Outcome.noConfusion h)

theorem never_modify {σ : Type} {g : σ → σ} {e : wrterror_msg} :
    never (modify g : StateT σ Outcome PUnit) e :=
  never_intro (fun _ h => Outcome.noConfusion h)

theorem never_wrterror {α : Type} {e0 e : wrterror_msg} (h : e0 ≠ e) :
    never (wrterror e0 : Run α) e :=
  never_intro (fun _ h2 => h (by injection h2))

theorem never_diverges {α : Type} {e : wrterror_msg} : never (diverges : Run α) e :=
  never_intro (fun _ h => Outcome.noConfusion h)

theorem never_undefined {α : Type} {e : wrterror_msg} :
    never (undefined_behaviour : Run α) e :=
  never_intro (fun _ h => Outcome.noConfusion h)

theorem never_env_next {e : wrterror_msg} : never env_next e :=
  never_intro (fun _ h => Outcome.noConfusion h)

theorem never_lift_outcome {α : Type} {x : Outcome α} {e : wrterror_msg}
    (h : x ≠ .abort e) : never (lift_outcome x) e := by
  apply never_intro
  intro s h2
  unfold lift_outcome at h2
  cases x with
  | ok a => exact Outcome.noConfusion h2
  | abort e2 =>
    have : Outcome.abort e2 = (Outcome.abort e : Outcome (α × pool_state)) := h2
    injection this with h3
    exact h (by rw [h3])
  | diverge => exact Outcome.noConfusion h2
  | undefined => exact Outcome.noConfusion h2

theorem never_lift {α : Type} {m : Run α} {e : wrterror_msg} (h : never m e) :
    never (Mem.lift_pool m) e := by
  apply never_intro
  intro ms h2
  unfold Mem.lift_pool at h2
  cases hm : m ms.pool with
  | ok r => rw [hm] at h2; exact Outcome.noConfusion h2
  | abort e2 =>
    rw [hm] at h2
    have : Outcome.abort e2 = (Outcome.abort e : Outcome (α × mem_state)) := h2
    injection this with h3
    exact never_elim h ms.pool (by rw [hm, h3])
  | diverge => rw [hm] at h2; exact Outcome.noConfusion h2
  | undefined => rw [hm] at h2; exact Outcome.noConfusion h2

theorem wpxm_of_never {α : Type} {m : RunM α} {e0 : wrterror_msg} (h : never m e0)
    (ms : mem_state) : wpxm m (fun e => e ≠ e0) True True (fun _ _ => True) ms := by
  unfold wpxm
  cases hm : m ms with
  | ok r => trivial
  | abort e =>
    intro he
    exact never_elim h ms (by rw [hm, he])
  | diverge => trivial
  | undefined => trivial

/-! ## The canary message comes from `validate_canary` alone -/

theorem never_getrbyte {e : wrterror_msg} : never getrbyte e := by
  unfold getrbyte
  repeat' first
    | with_reducible exact never_pure
    | with_reducible exact never_get
    | with_reducible exact never_set
    | with_reducible exact never_modify
    | with_reducible exact never_env_next
    | with_reducible exact never_diverges
    | with_reducible exact never_undefined
    | with_reducible exact never_wrterror (fun h => wrterror_msg.noConfusion h)
    | with_reducible exact never_lift (never_wrterror (fun h => wrterror_msg.noConfusion h))
    | with_reducible exact never_lift never_diverges
    | with_reducible exact never_lift never_undefined
    | with_reducible exact never_lift never_modify
    | with_reducible exact never_lift never_get
    | with_reducible apply never_bind
    | with_reducible apply never_ite
    | intro _
    | dsimp only

theorem find_not_canary (ps : Nat) (mopts : malloc_readonly) (d : dir_info) (p : Nat) :
    find ps mopts d p ≠ .abort .canary_corrupted := by
  unfold find
  dsimp only
  split
  · exact fun h => by injection h with h; exact wrterror_msg.noConfusion h
  split
  · exact fun h => Outcome.noConfusion h
  split
  · exact fun h => Outcome.noConfusion h
  · split <;> exact fun h => Outcome.noConfusion h

theorem find_chunknum_not_canary (ps canary1 : Nat) (info : chunk_info) (ptr : Nat) :
    find_chunknum ps canary1 info ptr ≠ .abort .canary_corrupted := by
  unfold find_chunknum
  dsimp only
  split
  · exact fun h => by injection h with h; exact wrterror_msg.noConfusion h
  split
  · exact fun h => by injection h with h; exact wrterror_msg.noConfusion h
  split
  · exact fun h => by injection h with h; exact wrterror_msg.noConfusion h
  · exact fun h => Outcome.noConfusion h

theorem delete_not_canary (ps : Nat) (d : dir_info) (i : Nat) :
    delete ps d i ≠ .abort .canary_corrupted := by
  unfold delete
  dsimp only
  split
  · exact fun h => by injection h with h; exact wrterror_msg.noConfusion h
  · split <;> exact fun h => Outcome.noConfusion h

theorem never_findpool {ps p : Nat} {mopts : malloc_readonly} :
    never (findpool ps mopts p) .canary_corrupted := by
  unfold findpool
  apply never_bind never_get
  intro s
  apply never_bind (never_lift_outcome (find_not_canary _ _ _ _))
  intro r
  cases r
  repeat' first
    | with_reducible exact never_pure
    | with_reducible exact never_get
    | with_reducible exact never_set
    | with_reducible exact never_modify
    | with_reducible exact never_env_next
    | with_reducible exact never_diverges
    | with_reducible exact never_undefined
    | with_reducible exact never_wrterror (fun h => wrterror_msg.noConfusion h)
    | with_reducible exact never_lift (never_wrterror (fun h => wrterror_msg.noConfusion h))
    | with_reducible exact never_lift never_diverges
    | with_reducible exact never_lift never_undefined
    | with_reducible exact never_lift never_modify
    | with_reducible exact never_lift never_get
    | with_reducible apply never_bind
    | with_reducible apply never_ite
    | intro _
    | dsimp only

theorem never_delete_pool {ps ri : Nat} : never (delete_pool ps ri) .canary_corrupted := by
  unfold delete_pool
  apply never_bind never_get
  intro s
  apply never_bind (never_lift_outcome (delete_not_canary _ _ _))
  intro _
  exact never_set

theorem never_os_munmap {a sz : Nat} {e : wrterror_msg} : never (os_munmap a sz) e := by
  unfold os_munmap
  repeat' first
    | with_reducible exact never_pure
    | with_reducible exact never_get
    | with_reducible exact never_set
    | with_reducible exact never_modify
    | with_reducible exact never_env_next
    | with_reducible exact never_diverges
    | with_reducible exact never_undefined
    | with_reducible exact never_wrterror (fun h => wrterror_msg.noConfusion h)
    | with_reducible exact never_lift (never_wrterror (fun h => wrterror_msg.noConfusion h))
    | with_reducible exact never_lift never_diverges
    | with_reducible exact never_lift never_undefined
    | with_reducible exact never_lift never_modify
    | with_reducible exact never_lift never_get
    | with_reducible apply never_bind
    | with_reducible apply never_ite
    | intro _
    | dsimp only

theorem never_os_mprotect {e : wrterror_msg} : never os_mprotect e := by
  unfold os_mprotect
  repeat' first
    | with_reducible exact never_pure
    | with_reducible exact never_get
    | with_reducible exact never_set
    | with_reducible exact never_modify
    | with_reducible exact never_env_next
    | with_reducible exact never_diverges
    | with_reducible exact never_undefined
    | with_reducible exact never_wrterror (fun h => wrterror_msg.noConfusion h)
    | with_reducible exact never_lift (never_wrterror (fun h => wrterror_msg.noConfusion h))
    | with_reducible exact never_lift never_diverges
    | with_reducible exact never_lift never_undefined
    | with_reducible exact never_lift never_modify
    | with_reducible exact never_lift never_get
    | with_reducible apply never_bind
    | with_reducible apply never_ite
    | intro _
    | dsimp only

theorem never_access {ps a n : Nat} {e : wrterror_msg} : never (Mem.access ps a n) e := by
  unfold Mem.access
  exact never_modify

theorem never_memset {ps p c n : Nat} {e : wrterror_msg} : never (Mem.memset ps p c n) e := by
  unfold Mem.memset
  repeat' first
    | with_reducible exact never_pure
    | with_reducible exact never_get
    | with_reducible exact never_set
    | with_reducible exact never_modify
    | with_reducible exact never_env_next
    | with_reducible exact never_diverges
    | with_reducible exact never_undefined
    | with_reducible exact never_wrterror (fun h => wrterror_msg.noConfusion h)
    | with_reducible exact never_lift (never_wrterror (fun h => wrterror_msg.noConfusion h))
    | with_reducible exact never_lift never_diverges
    | with_reducible exact never_lift never_undefined
    | with_reducible exact never_lift never_modify
    | with_reducible exact never_lift never_get
    | with_reducible exact never_access
    | with_reducible apply never_bind
    | with_reducible apply never_ite
    | intro _
    | dsimp only

theorem never_explicit_bzero {ps p n : Nat} {e : wrterror_msg} :
    never (Mem.explicit_bzero ps p n) e := never_memset

theorem never_mprotect {ps a sz : Nat} {b : Bool} {e : wrterror_msg} :
    never (Mem.mprotect ps a sz b) e := by
  unfold Mem.mprotect
  exact never_modify

theorem never_junk_free {ps junk p sz : Nat} {mopts : malloc_readonly} {e : wrterror_msg} :
    never (Mem.junk_free ps mopts junk p sz) e := by
  unfold Mem.junk_free
  apply never_bind never_get
  intro ms
  dsimp only
  generalize junk_free_mem ps mopts junk (region_words ms.mem p) sz = o
  cases o with
  | none => exact never_lift never_diverges
  | some r => exact never_modify

theorem validate_junk_mem_outcome {ps junk sz : Nat} {mopts : malloc_readonly}
    {mem : Nat → Nat} {o : Outcome Unit} {r : List Nat}
    (h : validate_junk_mem ps mopts junk mem sz = some (o, r)) :
    o = .ok () ∨ o = .abort .write_after_free := by
  unfold validate_junk_mem at h
  split at h
  · injection h with h
    injection h with h1 _
    exact Or.inl h1.symm
  · dsimp only at h
    split at h
    · exact Option.noConfusion h
    · injection h with h
      injection h with h1 _
      exact Or.inr h1.symm
    · injection h with h
      injection h with h1 _
      exact Or.inl h1.symm

theorem never_validate_junk {ps p sz : Nat} {mopts : malloc_readonly} :
    never (Mem.validate_junk ps mopts p sz) .canary_corrupted := by
  unfold Mem.validate_junk
  apply never_bind never_get
  intro ms
  dsimp only
  cases ho : validate_junk_mem ps mopts ms.pool.d.malloc_junk (region_words ms.mem p) sz with
  | none => exact never_lift never_diverges
  | some r =>
    obtain ⟨o, rd⟩ := r
    dsimp only
    apply never_bind never_modify
    intro _
    apply never_lift
    apply never_lift_outcome
    rcases validate_junk_mem_outcome ho with h | h
    · rw [h]; exact fun h2 => Outcome.noConfusion h2
    · rw [h]; exact fun h2 => by injection h2 with h2; exact wrterror_msg.noConfusion h2

theorem never_mem_os_munmap {ps a sz : Nat} {e : wrterror_msg} :
    never (Mem.os_munmap ps a sz) e := by
  unfold Mem.os_munmap
  repeat' first
    | with_reducible exact never_pure
    | with_reducible exact never_get
    | with_reducible exact never_set
    | with_reducible exact never_modify
    | with_reducible exact never_env_next
    | with_reducible exact never_diverges
    | with_reducible exact never_undefined
    | with_reducible exact never_wrterror (fun h => wrterror_msg.noConfusion h)
    | with_reducible exact never_lift (never_wrterror (fun h => wrterror_msg.noConfusion h))
    | with_reducible exact never_lift never_diverges
    | with_reducible exact never_lift never_undefined
    | with_reducible exact never_lift never_modify
    | with_reducible exact never_lift never_get
    | with_reducible exact never_lift never_os_munmap
    | with_reducible apply never_bind
    | with_reducible apply never_ite
    | intro _
    | dsimp only

theorem never_mem_os_mprotect {ps a sz : Nat} {b : Bool} {e : wrterror_msg} :
    never (Mem.os_mprotect ps a sz b) e := by
  unfold Mem.os_mprotect
  repeat' first
    | with_reducible exact never_pure
    | with_reducible exact never_get
    | with_reducible exact never_set
    | with_reducible exact never_modify
    | with_reducible exact never_env_next
    | with_reducible exact never_diverges
    | with_reducible exact never_undefined
    | with_reducible exact never_wrterror (fun h => wrterror_msg.noConfusion h)
    | with_reducible exact never_lift (never_wrterror (fun h => wrterror_msg.noConfusion h))
    | with_reducible exact never_lift never_diverges
    | with_reducible exact never_lift never_undefined
    | with_reducible exact never_lift never_modify
    | with_reducible exact never_lift never_get
    | with_reducible exact never_lift never_os_mprotect
    | with_reducible exact never_mprotect
    | with_reducible apply never_bind
    | with_reducible apply never_ite
    | intro _
    | dsimp only

theorem never_unmap_small {ps p sz psz clear : Nat} {mopts : malloc_readonly} :
    never (Mem.unmap_small ps mopts p sz psz clear) .canary_corrupted := by
  unfold Mem.unmap_small
  repeat' first
    | with_reducible exact never_pure
    | with_reducible exact never_get
    | with_reducible exact never_set
    | with_reducible exact never_modify
    | with_reducible exact never_env_next
    | with_reducible exact never_diverges
    | with_reducible exact never_undefined
    | with_reducible exact never_wrterror (fun h => wrterror_msg.noConfusion h)
    | with_reducible exact never_lift (never_wrterror (fun h => wrterror_msg.noConfusion h))
    | with_reducible exact never_lift never_diverges
    | with_reducible exact never_lift never_undefined
    | with_reducible exact never_lift never_modify
    | with_reducible exact never_lift never_get
    | with_reducible exact never_lift never_getrbyte
    | with_reducible exact never_validate_junk
    | with_reducible exact never_mem_os_munmap
    | with_reducible exact never_explicit_bzero
    | with_reducible exact never_mprotect
    | with_reducible exact never_junk_free
    | with_reducible apply never_bind
    | with_reducible apply never_ite
    | intro _
    | dsimp only

theorem never_unmap_big {ps p sz psz clear : Nat} {mopts : malloc_readonly} :
    never (Mem.unmap_big ps mopts p sz psz clear) .canary_corrupted := by
  unfold Mem.unmap_big
  apply never_bind (never_lift never_getrbyte)
  intro base
  apply never_bind (never_lift never_get)
  intro s
  dsimp only
  generalize unmap_scan _ _ _ _ _ _ _ = o
  cases o with
  | none => exact never_lift never_undefined
  | some i =>
    dsimp only
    repeat' first
      | with_reducible exact never_pure
      | with_reducible exact never_get
      | with_reducible exact never_set
      | with_reducible exact never_modify
      | with_reducible exact never_env_next
      | with_reducible exact never_diverges
      | with_reducible exact never_undefined
      | with_reducible exact never_wrterror (fun h => wrterror_msg.noConfusion h)
      | with_reducible exact never_lift (never_wrterror (fun h => wrterror_msg.noConfusion h))
      | with_reducible exact never_lift never_diverges
      | with_reducible exact never_lift never_undefined
      | with_reducible exact never_lift never_modify
      | with_reducible exact never_lift never_get
      | with_reducible exact never_lift never_getrbyte
      | with_reducible exact never_validate_junk
      | with_reducible exact never_mem_os_munmap
      | with_reducible exact never_explicit_bzero
      | with_reducible exact never_mprotect
      | with_reducible exact never_junk_free
      | with_reducible exact never_mem_os_mprotect
      | with_reducible apply never_bind
      | with_reducible apply never_ite
      | intro _
      | dsimp only

theorem never_unmap {ps p sz clear : Nat} {mopts : malloc_readonly} :
    never (Mem.unmap ps mopts p sz clear) .canary_corrupted := by
  unfold Mem.unmap
  repeat' first
    | with_reducible exact never_pure
    | with_reducible exact never_get
    | with_reducible exact never_set
    | with_reducible exact never_modify
    | with_reducible exact never_env_next
    | with_reducible exact never_diverges
    | with_reducible exact never_undefined
    | with_reducible exact never_wrterror (fun h => wrterror_msg.noConfusion h)
    | with_reducible exact never_lift (never_wrterror (fun h => wrterror_msg.noConfusion h))
    | with_reducible exact never_lift never_diverges
    | with_reducible exact never_lift never_undefined
    | with_reducible exact never_lift never_modify
    | with_reducible exact never_lift never_get
    | with_reducible exact never_unmap_big
    | with_reducible exact never_unmap_small
    | with_reducible exact never_mem_os_munmap
    | with_reducible apply never_bind
    | with_reducible apply never_ite
    | intro _
    | dsimp only

theorem never_find_chunknum_check {ps ptr : Nat} {mopts : malloc_readonly}
    {info : chunk_info} :
    never (Mem.find_chunknum_check ps mopts info ptr 0) .canary_corrupted := by
  unfold Mem.find_chunknum_check
  apply never_bind (never_lift never_get)
  intro s
  apply never_bind (never_lift (never_lift_outcome (find_chunknum_not_canary _ _ _ _)))
  intro k
  rw [if_neg (fun h => h.1 rfl)]
  repeat' first
    | with_reducible exact never_pure
    | with_reducible exact never_get
    | with_reducible exact never_set
    | with_reducible exact never_modify
    | with_reducible exact never_env_next
    | with_reducible exact never_diverges
    | with_reducible exact never_undefined
    | with_reducible exact never_wrterror (fun h => wrterror_msg.noConfusion h)
    | with_reducible exact never_lift (never_wrterror (fun h => wrterror_msg.noConfusion h))
    | with_reducible exact never_lift never_diverges
    | with_reducible exact never_lift never_undefined
    | with_reducible exact never_lift never_modify
    | with_reducible exact never_lift never_get
    | with_reducible apply never_bind
    | with_reducible apply never_ite
    | intro _
    | dsimp only

theorem never_STATS_SETF {ri f : Nat} {e : wrterror_msg} : never (STATS_SETF ri f) e := by
  unfold STATS_SETF
  exact never_modify

theorem never_LIST_REMOVE {bp : Nat} {e : wrterror_msg} : never (LIST_REMOVE bp) e := by
  unfold LIST_REMOVE
  exact never_modify

theorem never_LIST_INSERT_HEAD_dir {b l bp : Nat} {e : wrterror_msg} :
    never (LIST_INSERT_HEAD_dir b l bp) e := by
  unfold LIST_INSERT_HEAD_dir
  exact never_modify

theorem never_LIST_INSERT_HEAD_info {b bp : Nat} {e : wrterror_msg} :
    never (LIST_INSERT_HEAD_info b bp) e := by
  unfold LIST_INSERT_HEAD_info
  exact never_modify

theorem never_free_bytes {ps ri ptr : Nat} {mopts : malloc_readonly} :
    never (Mem.free_bytes ps mopts ri ptr) .canary_corrupted := by
  unfold Mem.free_bytes
  repeat' first
    | with_reducible exact never_pure
    | with_reducible exact never_get
    | with_reducible exact never_set
    | with_reducible exact never_modify
    | with_reducible exact never_env_next
    | with_reducible exact never_diverges
    | with_reducible exact never_undefined
    | with_reducible exact never_wrterror (fun h => wrterror_msg.noConfusion h)
    | with_reducible exact never_lift (never_wrterror (fun h => wrterror_msg.noConfusion h))
    | with_reducible exact never_lift never_diverges
    | with_reducible exact never_lift never_undefined
    | with_reducible exact never_lift never_modify
    | with_reducible exact never_lift never_get
    | with_reducible exact never_find_chunknum_check
    | with_reducible exact never_lift never_STATS_SETF
    | with_reducible exact never_lift never_getrbyte
    | with_reducible exact never_lift never_LIST_REMOVE
    | with_reducible exact never_lift never_LIST_INSERT_HEAD_dir
    | with_reducible exact never_lift never_LIST_INSERT_HEAD_info
    | with_reducible exact never_lift never_delete_pool
    | with_reducible exact never_unmap
    | with_reducible exact never_mprotect
    | with_reducible apply never_bind
    | with_reducible apply never_ite
    | intro _
    | dsimp only

theorem never_ofree_freecheck {ps p : Nat} {mopts : malloc_readonly} (l : List Nat) :
    never (Mem.ofree_freecheck ps mopts p l) .canary_corrupted := by
  induction l with
  | nil => exact never_pure
  | cons tmp rest ih =>
    unfold Mem.ofree_freecheck
    apply never_ite (never_lift (never_wrterror (fun h => wrterror_msg.noConfusion h)))
    dsimp only
    apply never_ite
    · apply never_bind (never_lift never_get)
      intro s
      apply never_bind (never_lift (never_lift_outcome (find_not_canary _ _ _ _)))
      intro r
      cases r with
      | none =>
        exact never_bind (never_lift (never_wrterror (fun h => wrterror_msg.noConfusion h)))
          (fun _ => ih)
      | some ri => exact never_bind never_validate_junk (fun _ => ih)
    · exact never_bind never_pure (fun _ => ih)

/-! ## Runs that return -/

theorem returns_intro {σ α : Type} {m : StateT σ Outcome α}
    (h : ∀ s, ∃ a s', m s = .ok (a, s')) : returns m := by
  unfold returns
  exact h

theorem returns_elim {σ α : Type} {m : StateT σ Outcome α} (h : returns m) (s : σ) :
    ∃ a s', m s = .ok (a, s') := by
  unfold returns at h
  exact h s

theorem returns_pure {σ α : Type} {a : α} : returns (pure a : StateT σ Outcome α) :=
  returns_intro (fun s => ⟨a, s, rfl⟩)

theorem returns_bind {σ α β : Type} {x : StateT σ Outcome α} {f : α → StateT σ Outcome β}
    (hx : returns x) (hf : ∀ a, returns (f a)) : returns (x >>= f) := by
  apply returns_intro
  intro s
  obtain ⟨a, s1, h1⟩ := returns_elim hx s
  obtain ⟨b, s2, h2⟩ := returns_elim (hf a) s1
  exact ⟨b, s2, by rw [bind_run h1, h2]⟩

theorem returns_ite {σ α : Type} {c : Prop} [Decidable c] {x y : StateT σ Outcome α}
    (hx : returns x) (hy : returns y) : returns (if c then x else y) := by
  by_cases h : c
  · rw [if_pos h]; exact hx
  · rw [if_neg h]; exact hy

theorem returns_get {σ : Type} : returns (get : StateT σ Outcome σ) :=
  returns_intro (fun s => ⟨s, s, rfl⟩)

theorem returns_set {σ : Type} {s1 : σ} : returns (set s1 : StateT σ Outcome PUnit) :=
  returns_intro (fun _ => ⟨⟨⟩, s1, rfl⟩)

theorem returns_modify {σ : Type} {g : σ → σ} :
    returns (modify g : StateT σ Outcome PUnit) :=
  returns_intro (fun s => ⟨⟨⟩, g s, rfl⟩)

theorem returns_env_next : returns env_next :=
  returns_intro (fun s => ⟨_, _, rfl⟩)

theorem returns_lift {α : Type} {m : Run α} (h : returns m) : returns (Mem.lift_pool m) := by
  apply returns_intro
  intro ms
  obtain ⟨a, s1, h1⟩ := returns_elim h ms.pool
  exact ⟨a, _, lift_pool_run h1⟩

theorem returns_getrbyte : returns getrbyte := by
  unfold getrbyte
  repeat' first
    | with_reducible exact returns_pure
    | with_reducible exact returns_get
    | with_reducible exact returns_set
    | with_reducible exact returns_modify
    | with_reducible exact returns_env_next
    | with_reducible exact returns_lift returns_modify
    | with_reducible exact returns_lift returns_get
    | with_reducible apply returns_bind
    | with_reducible apply returns_ite
    | intro _
    | dsimp only

theorem returns_access {ps a n : Nat} : returns (Mem.access ps a n) := by
  unfold Mem.access
  exact returns_modify

theorem returns_memset {ps p c n : Nat} : returns (Mem.memset ps p c n) := by
  unfold Mem.memset
  repeat' first
    | with_reducible exact returns_pure
    | with_reducible exact returns_get
    | with_reducible exact returns_set
    | with_reducible exact returns_modify
    | with_reducible exact returns_env_next
    | with_reducible exact returns_lift returns_modify
    | with_reducible exact returns_lift returns_get
    | with_reducible exact returns_access
    | with_reducible apply returns_bind
    | with_reducible apply returns_ite
    | intro _
    | dsimp only

theorem returns_explicit_bzero {ps p n : Nat} : returns (Mem.explicit_bzero ps p n) :=
  returns_memset

theorem junk_steps (junk sz1 : Nat) :
    0 < (if junk = 1 then (if sz1 / 4 = 0 then 1 else sz1 / 4) else 1) ∧
    (if junk = 1 then (if sz1 / 4 = 0 then 1 else sz1 / 4) else 1) ≤ sz1 + 1 := by
  constructor
  · split
    · split
      · exact Nat.one_pos
      · rename_i h; exact Nat.pos_of_ne_zero h
    · exact Nat.one_pos
  · split
    · split
      · omega
      · have := Nat.div_le_self sz1 4; omega
    · omega

/-- The loop of `junk_free` ends, and the words it writes lie in the region. -/
theorem junk_free_mem_words (ps : Nat) (mopts : malloc_readonly) (junk sz : Nat)
    (mem : Nat → Nat) (hsz : sz < 2 ^ 64) :
    ∃ memJ ws, junk_free_mem ps mopts junk mem sz = some (memJ, ws) ∧ ∀ a ∈ ws, a < sz / 8 := by
  by_cases h0 : junk = 0 ∨ sz = 0
  · exact ⟨mem, [], by unfold junk_free_mem; rw [if_pos h0],
      fun a ha => absurd ha (List.not_mem_nil _)⟩
  · unfold junk_free_mem
    simp only [if_neg h0]
    set sz1 := (if junk = 1 ∧ sz / 8 > MALLOC_PAGESIZE ps / 8 then MALLOC_PAGESIZE ps / 8
      else sz / 8) with hsz1
    set step := (if junk = 1 then (if sz1 / 4 = 0 then 1 else sz1 / 4) else 1) with hstepd
    obtain ⟨hstep, hstepl⟩ := junk_steps junk sz1
    rw [← hstepd] at hstep hstepl
    have hsz1le : sz1 ≤ sz / 8 := by
      rw [hsz1]; split
      · rename_i h; exact Nat.le_of_lt h.2
      · exact Nat.le_refl _
    have h64 : sz1 + step < 2 ^ 64 := by
      have := Nat.div_le_self sz 8
      omega
    have hs : mopts.junk_loc % step < step := Nat.mod_lt _ hstep
    have hf := junk_rounds_lt step sz1 (mopts.junk_loc % step) hstep
    obtain ⟨memJ, j1, _⟩ := junk_free_loop_spec step sz1 hstep h64 (sz1 + 1)
      (mopts.junk_loc % step) mem [] (by omega) hf
    rw [List.nil_append] at j1
    refine ⟨memJ, _, j1, ?_⟩
    intro a ha
    exact lt_of_lt_of_le (junk_words_below step sz1 _ a hstep ha) hsz1le

/-- The loop of `validate_junk` ends: it returns or aborts with `write after free`. -/
theorem validate_junk_mem_total (ps : Nat) (mopts : malloc_readonly) (junk sz : Nat)
    (mem : Nat → Nat) (hsz : sz < 2 ^ 64) :
    ∃ o rs, validate_junk_mem ps mopts junk mem sz = some (o, rs) ∧
      (o = .ok () ∨ o = .abort .write_after_free) := by
  by_cases h0 : junk = 0 ∨ sz = 0
  · exact ⟨.ok (), [], by unfold validate_junk_mem; rw [if_pos h0], Or.inl rfl⟩
  · unfold validate_junk_mem
    simp only [if_neg h0]
    set sz1 := (if junk = 1 ∧ sz / 8 > MALLOC_PAGESIZE ps / 8 then MALLOC_PAGESIZE ps / 8
      else sz / 8) with hsz1
    set step := (if junk = 1 then (if sz1 / 4 = 0 then 1 else sz1 / 4) else 1) with hstepd
    obtain ⟨hstep, hstepl⟩ := junk_steps junk sz1
    rw [← hstepd] at hstep hstepl
    have hsz1le : sz1 ≤ sz / 8 := by
      rw [hsz1]; split
      · rename_i h; exact Nat.le_of_lt h.2
      · exact Nat.le_refl _
    have h64 : sz1 + step < 2 ^ 64 := by
      have := Nat.div_le_self sz 8
      omega
    have hs : mopts.junk_loc % step < step := Nat.mod_lt _ hstep
    have hf := junk_rounds_lt step sz1 (mopts.junk_loc % step) hstep
    obtain ⟨b, rs, v1, _⟩ := validate_junk_loop_spec mem step sz1 hstep h64 (sz1 + 1)
      (mopts.junk_loc % step) [] (by omega) hf
    rw [List.nil_append] at v1
    rw [v1]
    cases b with
    | true => exact ⟨_, rs, rfl, Or.inr rfl⟩
    | false => exact ⟨_, rs, rfl, Or.inl rfl⟩

theorem returns_junk_free {ps junk p sz : Nat} {mopts : malloc_readonly}
    (hsz : sz < 2 ^ 64) : returns (Mem.junk_free ps mopts junk p sz) := by
  unfold Mem.junk_free
  apply returns_bind returns_get
  intro ms
  dsimp only
  obtain ⟨memJ, ws, h, _⟩ := junk_free_mem_words ps mopts junk sz (region_words ms.mem p) hsz
  rw [h]
  exact returns_modify

theorem ofree_freecheck_zeros {ps p : Nat} {mopts : malloc_readonly} (hp : p ≠ 0)
    (l : List Nat) (hl : ∀ x ∈ l, x = 0) : returns (Mem.ofree_freecheck ps mopts p l) := by
  induction l with
  | nil => exact returns_pure
  | cons tmp rest ih =>
    have h0 : tmp = 0 := hl tmp (List.mem_cons_self _ _)
    subst h0
    unfold Mem.ofree_freecheck
    rw [if_neg (fun h => hp h.symm)]
    dsimp only
    rw [if_neg (fun h => h rfl)]
    exact returns_bind returns_pure
      (fun _ => ih (fun x hx => hl x (List.mem_cons_of_mem _ hx)))

/-! ## `free` of a chunk, up to the canary check and after it -/

theorem bind_abort {σ α β : Type} {x : StateT σ Outcome α} {f : α → StateT σ Outcome β}
    {s : σ} {e : wrterror_msg} (h : x s = .abort e) : (x >>= f) s = .abort e := by
  show (x s).bind (fun p => f p.1 p.2) = _
  rw [h]
  rfl

theorem bind_bind_run {σ α β γ : Type} (x : StateT σ Outcome α) (f : α → StateT σ Outcome β)
    (g : β → StateT σ Outcome γ) (s : σ) :
    ((x >>= f) >>= g) s = (x >>= fun a => f a >>= g) s := by
  show ((x s).bind (fun p => f p.1 p.2)).bind (fun p => g p.1 p.2) =
    (x s).bind (fun p => ((f p.1) p.2).bind (fun q => g q.1 q.2))
  cases x s <;> rfl

theorem pool_get_run (ms : mem_state) : Mem.pool_get ms = .ok (ms.pool, ms) := rfl

theorem lift_outcome_run {α : Type} {x : Outcome α} {a : α} (h : x = .ok a)
    (s : pool_state) : lift_outcome x s = .ok (a, s) := by
  rw [h]
  rfl

/-- The canary check of `find_chunknum` on the memory: it aborts when
`validate_canary` finds a byte overwritten. -/
theorem find_chunknum_check_corrupt {ps k : Nat} {mopts : malloc_readonly}
    {info : chunk_info} {p : Nat} {ms : mem_state}
    (hk : find_chunknum ps ms.pool.d.canary1 info p = .ok k)
    (hC : mopts.chunk_canaries ≠ 0) (hb : info.bucket > 0)
    (hv : validate_canary_mem mopts ms.mem p (bits_word info.bits (info.offset + k))
      (B2SIZE info.bucket) = .abort .canary_corrupted) :
    Mem.find_chunknum_check ps mopts info p mopts.chunk_canaries ms =
      .abort .canary_corrupted := by
  unfold Mem.find_chunknum_check
  rw [bind_run (pool_get_run ms), bind_run (lift_pool_run (lift_outcome_run hk ms.pool)),
    if_pos ⟨hC, hb⟩]
  apply bind_abort
  unfold Mem.validate_canary
  unfold Mem.access
  rw [bind_run (show (modify _ : RunM PUnit) _ = .ok (⟨⟩, _) from rfl),
    bind_run (show (get : RunM mem_state) _ = .ok (_, _) from rfl)]
  show Mem.lift_pool (lift_outcome (validate_canary_mem mopts ms.mem p _ _)) _ = _
  rw [hv]
  rfl

/-- The canary check of `find_chunknum` on the memory: it returns the chunk number,
with the pool and the memory as they were, when `validate_canary` finds the bytes
intact. -/
theorem find_chunknum_check_pass {ps k : Nat} {mopts : malloc_readonly}
    {info : chunk_info} {p : Nat} {ms : mem_state}
    (hk : find_chunknum ps ms.pool.d.canary1 info p = .ok k)
    (hv : validate_canary_mem mopts ms.mem p (bits_word info.bits (info.offset + k))
      (B2SIZE info.bucket) = .ok ()) :
    ∃ ms1, Mem.find_chunknum_check ps mopts info p mopts.chunk_canaries ms = .ok (k, ms1) ∧
      ms1.pool = ms.pool ∧ ms1.mem = ms.mem := by
  unfold Mem.find_chunknum_check
  rw [bind_run (pool_get_run ms), bind_run (lift_pool_run (lift_outcome_run hk ms.pool))]
  by_cases hc : mopts.chunk_canaries ≠ 0 ∧ info.bucket > 0
  · rw [if_pos hc]
    unfold Mem.validate_canary
    dsimp only
    unfold Mem.access
    rw [bind_bind_run, bind_run (show (modify _ : RunM PUnit) _ = .ok (⟨⟩, _) from rfl),
      bind_bind_run, bind_run (show (get : RunM mem_state) _ = .ok (_, _) from rfl)]
    dsimp only
    rw [hv]
    exact ⟨_, rfl, rfl, rfl⟩
  · rw [if_neg hc]
    exact ⟨_, rfl, rfl, rfl⟩

/-- The run of `free(p)` for a chunk `p` is the canary check of `find_chunknum`
followed by a rest that never aborts with the canary message and that returns when
the delayed-free ring is empty. -/
theorem free_chunk_split {ps p ri : Nat} {mopts : malloc_readonly} {s : pool_state}
    (hp : p ≠ 0) (hfind : find ps mopts s.d p = .ok (some ri))
    (hsz : REALSIZE ps (slot s.d.r ri) = B2SIZE (heap_get s (slot s.d.r ri).size).bucket)
    (hmax : B2SIZE (heap_get s (slot s.d.r ri).size).bucket ≤ MALLOC_MAXCHUNK ps)
    (h64 : MALLOC_MAXCHUNK ps < 2 ^ 64) :
    ∃ rest : Nat → RunM Unit,
      (∀ mem prot faults, Mem.free ps mopts p ⟨s, mem, prot, faults⟩ =
        (Mem.find_chunknum_check ps mopts (heap_get s (slot s.d.r ri).size) p
          mopts.chunk_canaries >>= rest) ⟨s, mem, prot, faults⟩) ∧
      (∀ c, never (rest c) .canary_corrupted) ∧
      ((∀ i, s.delayed_chunks.getD i 0 = 0) → ∀ c, returns (rest c)) := by
  apply Exists.intro
  refine ⟨?h1, ?h2, ?h3⟩
  case h1 =>
    intro mem prot faults
    have hfind2 : find ps mopts (mem_state.mk s mem prot faults).pool.d p = .ok (some ri) :=
      hfind
    unfold Mem.free
    rw [bind_run (pool_get_run _), if_neg hp]
    unfold Mem.ofree
    rw [bind_bind_run, bind_run (lift_pool_run (findpool_run hfind2)), bind_bind_run,
      bind_run (pool_get_run _)]
    dsimp only
    rw [hsz, if_neg (fun h => h rfl), bind_bind_run,
      bind_run (show (pure PUnit.unit : RunM PUnit) _ = .ok (_, _) from rfl),
      if_neg (by omega)]
    unfold Mem.ofree_chunk
    rw [bind_bind_run, bind_run (pool_get_run _)]
    dsimp only
    rw [if_neg (fun h => h rfl), bind_bind_run]
  case h2 =>
    intro c
    repeat' first
      | with_reducible exact never_pure
      | with_reducible exact never_get
      | with_reducible exact never_set
      | with_reducible exact never_modify
      | with_reducible exact never_env_next
      | with_reducible exact never_diverges
      | with_reducible exact never_undefined
      | with_reducible exact never_wrterror (fun h => wrterror_msg.noConfusion h)
      | with_reducible exact never_lift (never_wrterror (fun h => wrterror_msg.noConfusion h))
      | with_reducible exact never_lift never_diverges
      | with_reducible exact never_lift never_undefined
      | with_reducible exact never_lift never_modify
      | with_reducible exact never_lift never_get
      | with_reducible exact never_lift never_getrbyte
      | with_reducible exact never_validate_junk
      | with_reducible exact never_explicit_bzero
      | with_reducible exact never_junk_free
      | with_reducible exact never_free_bytes
      | with_reducible exact never_ofree_freecheck _
      | with_reducible exact never_lift (never_lift_outcome (find_not_canary _ _ _ _))
      | with_reducible apply never_bind
      | with_reducible apply never_ite
      | intro _
      | dsimp only
    all_goals
      rename_i x
      cases x
      repeat' first
        | with_reducible exact never_pure
        | with_reducible exact never_get
        | with_reducible exact never_set
        | with_reducible exact never_modify
        | with_reducible exact never_env_next
        | with_reducible exact never_diverges
        | with_reducible exact never_undefined
        | with_reducible exact never_wrterror (fun h => wrterror_msg.noConfusion h)
        | with_reducible exact never_lift (never_wrterror (fun h => wrterror_msg.noConfusion h))
        | with_reducible exact never_lift never_diverges
        | with_reducible exact never_lift never_undefined
        | with_reducible exact never_lift never_modify
        | with_reducible exact never_lift never_get
        | with_reducible exact never_lift never_getrbyte
        | with_reducible exact never_validate_junk
        | with_reducible exact never_explicit_bzero
        | with_reducible exact never_junk_free
        | with_reducible exact never_free_bytes
        | with_reducible exact never_ofree_freecheck _
        | with_reducible exact never_lift (never_lift_outcome (find_not_canary _ _ _ _))
        | with_reducible apply never_bind
        | with_reducible apply never_ite
        | intro _
        | dsimp only
  case h3 =>
    intro hring c
    simp only [hring, hp, ne_eq, not_true_eq_false, if_false]
    repeat' first
      | with_reducible exact returns_pure
      | with_reducible exact returns_get
      | with_reducible exact returns_set
      | with_reducible exact returns_modify
      | with_reducible exact returns_env_next
      | with_reducible exact returns_lift returns_modify
      | with_reducible exact returns_lift returns_get
      | with_reducible exact returns_lift returns_getrbyte
      | with_reducible exact returns_explicit_bzero
      | with_reducible exact (returns_junk_free (by omega))
      | with_reducible exact (ofree_freecheck_zeros hp _ (by intro x hx; obtain ⟨_, _, h⟩ := List.mem_map.1 hx; exact h.symm))
      | with_reducible apply returns_bind
      | with_reducible apply returns_ite
      | intro _
      | dsimp only

/-! ## The page provider hands out pages that no region holds -/

theorem mmap_free_pages {ps : Nat} {mapped : List Nat} {a sz : Nat}
    (h : mmap_free ps mapped a sz = true) :
    (∀ x ∈ page_list ps a sz, x ∉ mapped) ∧ a ≠ 0 ∧ sz ≠ 0 ∧
      a + howmany sz (MALLOC_PAGESIZE ps) * MALLOC_PAGESIZE ps ≤ 2 ^ 64 := by
  unfold mmap_free at h
  rw [Bool.and_eq_true, decide_eq_true_eq, List.all_eq_true] at h
  refine ⟨fun x hx => by simpa using h.2 x hx, h.1.1, h.1.2.2.1, h.1.2.2.2⟩

theorem mmap_free_ne_failed {ps : Nat} {mapped : List Nat} {a sz : Nat} (hps : 1 ≤ ps)
    (h : mmap_free ps mapped a sz = true) : a ≠ MAP_FAILED := by
  intro e
  have hal := mmap_free_aligned h
  rw [e] at hal
  have h2 : (2 : Nat) ∣ 2 ^ ps := dvd_pow_self 2 (by omega)
  have h3 : MAP_FAILED % 2 = 0 := by
    have := Nat.mod_mod_of_dvd MAP_FAILED h2
    rw [hal] at this
    exact this.symm
  exact absurd h3 (by decide)

/-- `MMAP`: the pages of a new mapping were not mapped, and are mapped afterwards
next to the ones that were; nothing else of the pool changes but `errno` and the
environment. -/
theorem os_mmap_fresh {ps sz : Nat} {s : pool_state} (hps : 1 ≤ ps) :
    wp (os_mmap ps sz) (fun a s' =>
      core_frame s s' ∧ s'.smallcache = s.smallcache ∧ s'.bigcache = s.bigcache ∧
      s'.bigcache_size = s.bigcache_size ∧ s'.bigcache_used = s.bigcache_used ∧
      (a = MAP_FAILED → s'.mapped = s.mapped) ∧
      (a ≠ MAP_FAILED → mmap_free ps s.mapped a sz = true ∧
        s'.mapped = page_list ps a sz ++ s.mapped)) s := by
  unfold os_mmap
  apply wp_bind_i
  apply wp_env_next_i
  apply wp_bind_i
  apply wp_get_i
  apply wp_ite_i
  · intro hfree
    apply wp_bind_i
    apply wp_set_i
    apply wp_pure_i
    exact ⟨⟨rfl, rfl, rfl, rfl, rfl, rfl, rfl, rfl⟩, rfl, rfl, rfl, rfl,
      fun h => absurd h (mmap_free_ne_failed hps hfree), fun _ => ⟨hfree, rfl⟩⟩
  · intro _
    apply wp_bind_i
    apply wp_set_i
    apply wp_pure_i
    exact ⟨⟨rfl, rfl, rfl, rfl, rfl, rfl, rfl, rfl⟩, rfl, rfl, rfl, rfl, fun _ => rfl,
      fun h => absurd rfl h⟩

theorem env_only_refl (s : pool_state) : env_only s s := ⟨s.env, rfl⟩

theorem getrbyte_env {s : pool_state} : wp getrbyte (fun _ s' => env_only s s') s := by
  apply wp_getrbyte_i
  exact ⟨_, rfl⟩

theorem validate_junk_env {p sz : Nat} {s : pool_state} :
    wp (validate_junk p sz) (fun _ s' => env_only s s') s := by
  unfold validate_junk
  apply wp_bind_i
  apply wp_get_i
  apply wp_ite_i
  · intro _
    apply wp_pure_i
    exact env_only_refl s
  · intro _
    apply wp_bind_i
    apply wp_env_next_i
    apply wp_ite_i
    · intro _
      exact wp_wrterror_i
    · intro _
      apply wp_pure_i
      exact ⟨_, rfl⟩

theorem howmany_mul (n P : Nat) (hP : 0 < P) : howmany (n * P) P = n := by
  unfold howmany
  have e : n * P + (P - 1) = (P - 1) + P * n := by rw [Nat.mul_comm]; omega
  rw [e, Nat.add_mul_div_left _ _ hP, Nat.div_eq_of_lt (by omega), Nat.zero_add]

theorem mem_page_list {ps a sz x : Nat} :
    x ∈ page_list ps a sz ↔
      ∃ i, i < howmany sz (MALLOC_PAGESIZE ps) ∧ x = a + i * MALLOC_PAGESIZE ps := by
  unfold page_list
  rw [List.mem_map]
  constructor
  · rintro ⟨i, hi, rfl⟩
    exact ⟨i, List.mem_range.1 hi, rfl⟩
  · rintro ⟨i, hi, rfl⟩
    exact ⟨i, List.mem_range.2 hi, rfl⟩

/-- What `map` requires of its size: a positive number of whole pages. -/
theorem map_size {ps sz : Nat} (hps : ps ≤ 16)
    (h : ¬ (sz ≠ PAGEROUND ps sz ∨ sz >>> ps = 0)) :
    sz = (sz >>> ps) * MALLOC_PAGESIZE ps ∧ 0 < sz >>> ps ∧ sz < 2 ^ 64 := by
  have h1 : sz = PAGEROUND ps sz := by
    by_contra hc
    exact h (Or.inl hc)
  have h2 : sz >>> ps ≠ 0 := fun hc => h (Or.inr hc)
  have hal : sz % 2 ^ ps = 0 := by rw [h1]; exact PAGEROUND_aligned ps sz (by omega)
  have hlt : sz < 2 ^ 64 := by
    rw [h1, PAGEROUND_eq ps sz (by omega)]
    have hp : 0 < 2 ^ ps := Nat.pow_pos (by norm_num)
    have := Nat.div_mul_le_self ((sz + (2 ^ ps - 1)) % 2 ^ 64) (2 ^ ps)
    have := Nat.mod_lt (sz + (2 ^ ps - 1)) (show 0 < 2 ^ 64 by norm_num)
    omega
  refine ⟨?_, Nat.pos_of_ne_zero h2, hlt⟩
  rw [Nat.shiftRight_eq_div_pow, MALLOC_PAGESIZE_eq]
  exact (Nat.div_mul_cancel (Nat.dvd_of_mod_eq_zero hal)).symm

/-- The big cache branch of `map`: a run it hands out was in the cache with the page
count asked for; only the cache and the environment change. -/
theorem map_big_fresh {mopts : malloc_readonly} {sz psz : Nat} {s : pool_state}
    (hpsz : psz ≠ 0) :
    wp (map_big mopts sz psz) (fun r s' =>
      core_frame s s' ∧ s'.mapped = s.mapped ∧ s'.smallcache = s.smallcache ∧
      (r = none → s'.bigcache = s.bigcache) ∧
      ∀ p, r = some p → ∃ e ∈ s.bigcache, e.psize = psz ∧ e.page = p) s := by
  unfold map_big
  apply wp_bind_i
  apply wp_mono getrbyte_env
  rintro base s1 ⟨e1, rfl⟩
  apply wp_bind_i
  apply wp_get_i
  dsimp only
  cases hscan : map_scan s.bigcache s.bigcache_size psz base s.bigcache_size 0
      s.bigcache_used with
  | none =>
    dsimp only
    apply wp_pure_i
    exact ⟨⟨rfl, rfl, rfl, rfl, rfl, rfl, rfl, rfl⟩, rfl, rfl, fun _ => rfl,
      fun p hp => Option.noConfusion hp⟩
  | some i =>
    dsimp only
    have hps2 := map_scan_psize _ _ _ _ _ _ _ _ hscan
    have hmem : s.bigcache.getD i ⟨0, 0⟩ ∈ s.bigcache := by
      rcases mem_getD_of_ne_default s.bigcache i ⟨0, 0⟩ with h | h
      · exact h
      · rw [h] at hps2
        exact absurd hps2.symm hpsz
    apply wp_bind_i
    apply wp_set_i
    apply wp_ite_i
    · intro _
      apply wp_bind_i
      apply wp_mono validate_junk_env
      rintro _ s2 ⟨e2, rfl⟩
      apply wp_pure_i
      refine ⟨⟨rfl, rfl, rfl, rfl, rfl, rfl, rfl, rfl⟩, rfl, rfl,
        fun h => Option.noConfusion h, ?_⟩
      intro p hp
      injection hp with hp
      exact ⟨_, hmem, hps2, hp⟩
    · intro _
      apply wp_bind_i
      apply wp_pure_i
      apply wp_pure_i
      refine ⟨⟨rfl, rfl, rfl, rfl, rfl, rfl, rfl, rfl⟩, rfl, rfl,
        fun h => Option.noConfusion h, ?_⟩
      intro p hp
      injection hp with hp
      exact ⟨_, hmem, hps2, hp⟩

/-- The small cache branch of `map`: a run it hands out was in use in the cache
`smallcache[psz - 1]`, or it is the last page of a batch of `max` pages that were not
mapped. -/
theorem map_small_fresh {ps : Nat} {mopts : malloc_readonly} {sz psz : Nat} {s : pool_state}
    (hps : 1 ≤ ps) :
    wp (map_small ps mopts sz psz) (fun r s' =>
      core_frame s s' ∧ s'.bigcache = s.bigcache ∧
      (r = none → s'.mapped = s.mapped ∧ s'.smallcache = s.smallcache) ∧
      (∀ x ∈ s.mapped, x ∈ s'.mapped) ∧
      ∀ p, r = some p →
        (∃ j, j < (s.smallcache.getD (psz - 1) ⟨[], 0, 0⟩).length ∧
          p = (s.smallcache.getD (psz - 1) ⟨[], 0, 0⟩).pages.getD j 0 &&& not64 1) ∨
        (psz ≤ 1 ∧ ∃ p0, mmap_free ps s.mapped p0
            (((s.smallcache.getD (psz - 1) ⟨[], 0, 0⟩).max * sz) % 2 ^ 64) = true ∧
          p = add64 p0 (((s.smallcache.getD (psz - 1) ⟨[], 0, 0⟩).max - 1) * sz))) s := by
  unfold map_small
  apply wp_bind_i
  apply wp_get_i
  dsimp only
  apply wp_ite_i
  · intro hlen
    apply wp_bind_i
    apply @wp_mono _ _ (fun i s1 => env_only s s1 ∧
      i < (s.smallcache.getD (psz - 1) ⟨[], 0, 0⟩).length)
    · apply wp_ite_i
      · intro h1
        apply wp_pure_i
        refine ⟨env_only_refl s, ?_⟩
        rw [h1]
        decide
      · intro _
        apply wp_bind_i
        apply wp_mono getrbyte_env
        intro x s1 h1
        apply wp_pure_i
        refine ⟨h1, ?_⟩
        exact lt_of_le_of_lt (Nat.mod_le _ _) (Nat.mod_lt _ hlen)
    rintro i s1 ⟨⟨e1, rfl⟩, hi⟩
    apply wp_bind_i
    apply wp_modify_i
    apply wp_ite_i
    · intro _
      apply wp_bind_i
      apply wp_mono validate_junk_env
      rintro _ s2 ⟨e2, rfl⟩
      apply wp_pure_i
      refine ⟨⟨rfl, rfl, rfl, rfl, rfl, rfl, rfl, rfl⟩, rfl,
        fun h => Option.noConfusion h, fun x hx => hx, ?_⟩
      intro p hp
      injection hp with hp
      exact Or.inl ⟨i, hi, hp.symm⟩
    · intro _
      apply wp_bind_i
      apply wp_pure_i
      apply wp_pure_i
      refine ⟨⟨rfl, rfl, rfl, rfl, rfl, rfl, rfl, rfl⟩, rfl,
        fun h => Option.noConfusion h, fun x hx => hx, ?_⟩
      intro p hp
      injection hp with hp
      exact Or.inl ⟨i, hi, hp.symm⟩
  · intro _
    apply wp_ite_i
    · intro hpsz
      apply wp_bind_i
      apply wp_mono (os_mmap_fresh hps)
      rintro p0 s1 ⟨hc, hsc, hbc, _, _, hfail, hok⟩
      apply wp_ite_i
      · intro hne
        obtain ⟨hfree, hmapped⟩ := hok hne
        apply wp_bind_i
        apply wp_modify_i
        apply wp_pure_i
        refine ⟨hc, hbc, fun h => Option.noConfusion h, ?_, ?_⟩
        · intro x hx
          show x ∈ s1.mapped
          rw [hmapped]
          exact List.mem_append_right _ hx
        · intro p hp
          injection hp with hp
          exact Or.inr ⟨hpsz, p0, hfree, hp.symm⟩
      · intro hne
        apply wp_pure_i
        have hf : p0 = MAP_FAILED := by
          by_contra hc2
          exact hne hc2
        refine ⟨hc, hbc, fun _ => ⟨hfail hf, hsc⟩, ?_, fun p hp => Option.noConfusion hp⟩
        intro x hx
        rw [hfail hf]
        exact hx
    · intro _
      apply wp_pure_i
      exact ⟨core_frame_refl s, rfl, fun _ => ⟨rfl, rfl⟩, fun x hx => hx,
        fun p hp => Option.noConfusion hp⟩

theorem page_list_first {ps a sz : Nat} (hsz : 0 < howmany sz (MALLOC_PAGESIZE ps)) :
    a ∈ page_list ps a sz :=
  mem_page_list.2 ⟨0, hsz, by rw [Nat.zero_mul, Nat.add_zero]⟩

/-- A page that is not mapped is a page of no region of the directory. -/
theorem unmapped_apart {ps : Nat} {s : pool_state} (hown : pages_owned ps s) {x : Nat}
    (hx : x ∉ s.mapped) :
    ∀ y < s.d.r.length, (slot s.d.r y).p ≠ 0 → x ∉ region_pages ps (slot s.d.r y) :=
  fun y hy hoy hmem => hx (hown.1 y hy hoy x hmem)

/-- `map` hands out a run none of whose pages is a page of a region of the directory;
it leaves the directory, the chunk headers and the lists as they are, and what was
mapped stays mapped. -/
theorem map_fresh {ps : Nat} {mopts : malloc_readonly} {sz zero_fill : Nat} {s : pool_state}
    (hps : 1 ≤ ps) (hps16 : ps ≤ 16) (hown : pages_owned ps s)
    (hmax : ∀ c ∈ s.smallcache, c.max < 2 ^ 16) (hbig : ∀ e ∈ s.bigcache, e.page < 2 ^ 64) :
    wp (map ps mopts sz zero_fill) (fun p s' =>
      core_frame s s' ∧ (∀ x ∈ s.mapped, x ∈ s'.mapped) ∧
      (p ≠ MAP_FAILED → p < 2 ^ 64 ∧ ∀ x ∈ page_list ps p sz,
        ∀ y < s.d.r.length, (slot s.d.r y).p ≠ 0 → x ∉ region_pages ps (slot s.d.r y))) s := by
  have hP := MALLOC_PAGESIZE_eq ps
  have hpos : 0 < 2 ^ ps := Nat.pow_pos (by norm_num)
  have hle : 2 ^ ps ≤ 2 ^ 16 := Nat.pow_le_pow_right (by norm_num) hps16
  unfold map
  dsimp only
  apply wp_bind_i
  apply wp_get_i
  apply wp_ite_i
  · intro _; exact wp_wrterror_i
  intro _
  apply wp_ite_i
  · intro _; exact wp_wrterror_i
  intro hround
  obtain ⟨hsz, hpsz, hsz64⟩ := map_size hps16 hround
  apply wp_bind_i
  apply @wp_mono _ _ (fun big s1 =>
      core_frame s s1 ∧ s1.mapped = s.mapped ∧ s1.smallcache = s.smallcache ∧
      (big = none → s1.bigcache = s.bigcache) ∧
      ∀ p, big = some p → ∃ e ∈ s.bigcache, e.psize = sz >>> ps ∧ e.page = p)
  · apply wp_ite_i
    · intro _
      exact map_big_fresh (by omega)
    · intro _
      apply wp_pure_i
      exact ⟨core_frame_refl s, rfl, rfl, fun _ => rfl, fun p hp => Option.noConfusion hp⟩
  rintro big s1 ⟨hc1, hm1, hsc1, hbc1, hbigs⟩
  cases big with
  | some p =>
    dsimp only
    apply wp_pure_i
    refine ⟨hc1, fun x hx => by rw [hm1]; exact hx, ?_⟩
    intro _
    obtain ⟨e, he, hep, hpage⟩ := hbigs p rfl
    refine ⟨by rw [← hpage]; exact hbig e he, ?_⟩
    intro x hx
    have := hown.2.2.1 e he (by rw [hep]; omega) x
    rw [hep, ← hsz, hpage] at this
    exact this hx
  | none =>
    dsimp only
    apply wp_bind_i
    apply wp_get_i
    apply wp_bind_i
    apply @wp_mono _ _ (fun small s2 =>
      core_frame s s2 ∧ (small = none → s2.mapped = s.mapped) ∧
      (∀ x ∈ s.mapped, x ∈ s2.mapped) ∧
      ∀ p, small = some p → p < 2 ^ 64 ∧ ∀ x ∈ page_list ps p sz,
        ∀ y < s.d.r.length, (slot s.d.r y).p ≠ 0 → x ∉ region_pages ps (slot s.d.r y))
    · apply wp_ite_i
      · intro hcond
        apply wp_mono (map_small_fresh hps)
        rintro small s2 ⟨hc2, _, hnone, hmap2, hsome⟩
        refine ⟨core_frame_trans hc1 hc2, fun h => by rw [(hnone h).1, hm1], ?_, ?_⟩
        · intro x hx
          apply hmap2
          rw [hm1]
          exact hx
        intro p hp
        rw [hsc1] at hsome hcond
        have hidx : sz >>> ps - 1 < s.smallcache.length := by
          by_contra hc
          rw [List.getD_eq_default _ _ (by omega)] at hcond
          exact absurd hcond.2 (by decide)
        rcases hsome p hp with ⟨j, hj, hpj⟩ | ⟨hp1, p0, hfree, hpb⟩
        · refine ⟨?_, ?_⟩
          · rw [hpj]
            have h1 : not64 1 < 2 ^ 64 := by decide
            exact lt_of_le_of_lt Nat.and_le_right h1
          intro x hx
          have := hown.2.1 _ hidx j hj x
          rw [show sz >>> ps - 1 + 1 = sz >>> ps by omega, ← hsz, ← hpj] at this
          exact this hx
        · refine ⟨by rw [hpb]; exact Nat.mod_lt _ (by norm_num), ?_⟩
          intro x hx
          rw [hm1] at hfree
          have h1 : sz >>> ps = 1 := by omega
          have hszP : sz = 2 ^ ps := by rw [hsz, h1, hP, Nat.one_mul]
          set c := s.smallcache.getD (sz >>> ps - 1) ⟨[], 0, 0⟩ with hcdef
          have hcm : c.max < 2 ^ 16 := by
            apply hmax
            rw [hcdef, List.getD_eq_getElem _ _ hidx]
            exact List.getElem_mem _
          have hcpos : 0 < c.max := hcond.2
          have hprod : c.max * sz < 2 ^ 32 := by
            rw [hszP]
            calc c.max * 2 ^ ps < 2 ^ 16 * 2 ^ ps := Nat.mul_lt_mul_of_pos_right hcm hpos
              _ ≤ 2 ^ 16 * 2 ^ 16 := Nat.mul_le_mul_left _ hle
              _ = 2 ^ 32 := by norm_num
          rw [Nat.mod_eq_of_lt (by omega)] at hfree
          obtain ⟨hfresh, _, _, hfit⟩ := mmap_free_pages hfree
          have hcount : howmany (c.max * sz) (MALLOC_PAGESIZE ps) = c.max := by
            rw [hszP, hP]
            exact howmany_mul _ _ hpos
          rw [hcount, hP] at hfit
          have hone : howmany sz (MALLOC_PAGESIZE ps) = 1 := by
            rw [hszP, hP]
            have := howmany_mul 1 (2 ^ ps) hpos
            rw [Nat.one_mul] at this
            exact this
          have hlast : (c.max - 1) * sz + 2 ^ ps = c.max * 2 ^ ps := by
            rw [hszP]
            have : c.max = (c.max - 1) + 1 := by omega
            conv_rhs => rw [this, Nat.add_mul, Nat.one_mul]
          have hpe : p = p0 + (c.max - 1) * sz := by
            rw [hpb]
            unfold add64
            exact Nat.mod_eq_of_lt (by omega)
          obtain ⟨i, hi, hxi⟩ := mem_page_list.1 hx
          rw [hone] at hi
          have hi0 : i = 0 := by omega
          rw [hi0, Nat.zero_mul, Nat.add_zero] at hxi
          have hxm : x ∈ page_list ps p0 (c.max * sz) := by
            apply mem_page_list.2
            refine ⟨c.max - 1, by rw [hcount]; omega, ?_⟩
            rw [hxi, hpe, hszP, hP]
          exact unmapped_apart hown (hfresh x hxm)
      · intro _
        apply wp_pure_i
        exact ⟨hc1, fun _ => hm1, fun x hx => by rw [hm1]; exact hx,
          fun p hp => Option.noConfusion hp⟩
    rintro small s2 ⟨hc2, hnone, hmap2, hsome⟩
    cases small with
    | some p =>
      dsimp only
      apply wp_pure_i
      exact ⟨hc2, hmap2, fun _ => hsome p rfl⟩
    | none =>
      dsimp only
      apply wp_mono (os_mmap_fresh hps)
      rintro p s3 ⟨hc3, _, _, _, _, hfail, hok⟩
      refine ⟨core_frame_trans hc2 hc3, ?_, ?_⟩
      · intro x hx
        by_cases hp : p = MAP_FAILED
        · rw [hfail hp, hnone rfl]
          exact hx
        · rw [(hok hp).2, hnone rfl]
          exact List.mem_append_right _ hx
      · intro hp
        obtain ⟨hfree, _⟩ := hok hp
        rw [hnone rfl] at hfree
        obtain ⟨hfr, _, hs0, hfit⟩ := mmap_free_pages hfree
        refine ⟨?_, fun x hx => unmapped_apart hown (hfr x hx)⟩
        have hh : 0 < howmany sz (MALLOC_PAGESIZE ps) := by
          unfold howmany
          rw [hP]
          apply Nat.div_pos _ hpos
          omega
        have := Nat.mul_pos hh (show 0 < MALLOC_PAGESIZE ps by rw [hP]; exact hpos)
        generalize howmany sz (MALLOC_PAGESIZE ps) * MALLOC_PAGESIZE ps = t at hfit this
        omega

/-! ## The chunk page that `omalloc_make_chunks` puts in the directory -/

theorem fresh_room (ps b : Nat) (mopts : malloc_readonly) (hcc : mopts.chunk_canaries ≠ 0) :
    sizes_room ps b (fresh_chunk_info ps mopts b) := by
  unfold sizes_room
  rw [if_pos (show (fresh_chunk_info ps mopts b).total = 0 from rfl)]
  unfold fresh_chunk_info
  simp only [List.length_replicate, if_pos hcc]
  exact Nat.le_refl _

theorem init_chunk_info_room (ps canary1 : Nat) (p : chunk_info) (b : Nat)
    (hps : 5 ≤ ps) (hps16 : ps ≤ 16) (hb : b ≤ BUCKETS ps) (hb0 : b ≠ 0)
    (hlen : howmany (MALLOC_PAGESIZE ps / B2ALLOC b) MALLOC_BITS +
      MALLOC_PAGESIZE ps / B2ALLOC b ≤ p.bits.length) :
    (init_chunk_info ps canary1 p b).offset + (init_chunk_info ps canary1 p b).total ≤
      (init_chunk_info ps canary1 p b).bits.length := by
  obtain ⟨tb1, tb2, _, _⟩ := total_bounds ps b hps hps16 hb
  rw [howmany16] at hlen
  unfold init_chunk_info
  dsimp only
  rw [if_neg hb0, List.length_set, List.length_append, List.length_replicate, List.length_drop,
    howmany16, MALLOC_BITS_eq]
  generalize MALLOC_PAGESIZE ps / B2ALLOC b = t at *
  have e1 : t % 2 ^ 16 = t := Nat.mod_eq_of_lt (by omega)
  rw [e1]
  have e2 : (t + 2 ^ 32 - 1) % 2 ^ 32 = t - 1 := by omega
  rw [e2]
  have e3 : (t + 15) / 16 % 2 ^ 16 = (t + 15) / 16 := Nat.mod_eq_of_lt (by omega)
  rw [e3]
  omega

theorem alloc_chunk_info_carve_room {ps b : Nat} {mopts : malloc_readonly} {s : pool_state}
    (hcc : mopts.chunk_canaries ≠ 0) (hempty : s.chunk_info_list.getD b [] = []) :
    wp (alloc_chunk_info_carve ps mopts b) (fun _ s' =>
      ∀ bp ∈ s'.chunk_info_list.getD b [], sizes_room ps b (heap_get s' bp)) s := by
  unfold alloc_chunk_info_carve
  dsimp only
  apply wp_bind_i
  apply wp_get_i
  apply wp_bind_i
  apply @wp_mono _ _ (fun _ s2 => s2.heap = s.heap ∧ s2.chunk_info_list = s.chunk_info_list)
  · apply wp_ite_i
    · intro _
      apply wp_bind_i
      apply keeps_wp s os_mmap_core (core_frame_refl s)
      intro q s1 hc
      apply wp_ite_i
      · intro _
        apply wp_pure_i
        exact ⟨hc.2.2.1, hc.2.2.2.1⟩
      · intro _
        apply wp_bind_i
        apply wp_modify_i
        apply wp_pure_i
        exact ⟨hc.2.2.1, hc.2.2.2.1⟩
    · intro _
      apply wp_pure_i
      exact ⟨rfl, rfl⟩
  · intro hb s2 ⟨h1, h2⟩
    have hemp2 : s2.chunk_info_list.getD b [] = [] := by rw [h2]; exact hempty
    apply wp_ite_i
    · intro _
      apply wp_bind_i
      apply wp_modify_i
      apply wp_pure_i
      intro bp hbp
      dsimp only at hbp ⊢
      rw [getD_set_if] at hbp
      split at hbp
      · rw [hemp2, List.append_nil, List.mem_reverse] at hbp
        obtain ⟨i, hi, rfl⟩ := List.mem_map.1 hbp
        rw [List.mem_range] at hi
        unfold heap_get
        dsimp only
        rw [List.getD_append_right _ _ _ _ (by omega)]
        rw [show s2.heap.length + i - s2.heap.length = i by omega]
        rw [List.getD_eq_getElem _ _ (by rw [List.length_replicate, if_pos hcc]; exact hi)]
        rw [List.getElem_replicate]
        exact fresh_room ps b mopts hcc
      · rw [hemp2] at hbp
        exact absurd hbp (List.not_mem_nil _)
    · intro _
      apply wp_pure_i
      intro bp hbp
      rw [hemp2] at hbp
      exact absurd hbp (List.not_mem_nil _)

/-- The header that `alloc_chunk_info` hands out has room for the requested sizes
behind its bitmap. -/
theorem alloc_chunk_info_room {ps b : Nat} {mopts : malloc_readonly} {s : pool_state}
    (hps : 5 ≤ ps) (hps16 : ps ≤ 16) (hb : b ≤ BUCKETS ps) (hb0 : b ≠ 0)
    (hcc : mopts.chunk_canaries ≠ 0)
    (hroom : ∀ bp ∈ s.chunk_info_list.getD b [],
      bp < s.heap.length ∧ sizes_room ps b (heap_get s bp)) :
    wp (alloc_chunk_info ps mopts b) (fun r s' => ∀ bp, r = some bp →
      (heap_get s' bp).offset + (heap_get s' bp).total ≤ (heap_get s' bp).bits.length) s := by
  unfold alloc_chunk_info
  apply wp_bind_i
  apply wp_get_i
  apply wp_bind_i
  apply @wp_mono _ _ (fun _ s2 =>
    ∀ bp ∈ s2.chunk_info_list.getD b [], bp < s2.heap.length ∧ sizes_room ps b (heap_get s2 bp))
  · apply wp_ite_i
    · intro he
      apply wp_mono (wp_and (alloc_chunk_info_carve_room hcc he)
        (@alloc_chunk_info_carve_ready ps b mopts s he))
      rintro _ s2 ⟨h1, h2, _⟩ bp hbp
      exact ⟨(h2 bp hbp).1, h1 bp hbp⟩
    · intro _
      apply wp_pure_i
      exact hroom
  · intro hi s2 h1
    apply wp_ite_i
    · intro _
      apply wp_bind_i
      apply wp_get_i
      split
      · exact wp_undefined_i
      · rename_i p hp
        have hmem : p ∈ s2.chunk_info_list.getD b [] := by
          unfold LIST_FIRST at hp
          exact List.mem_of_mem_head? (by rw [hp]; exact rfl)
        obtain ⟨hlt, hrm⟩ := h1 p hmem
        apply wp_bind_i
        unfold LIST_REMOVE
        apply wp_modify_i
        dsimp only
        apply wp_ite_i
        · intro ht
          apply wp_bind_i
          apply wp_modify_i
          apply wp_pure_i
          intro bp hbp
          injection hbp with hbp
          subst hbp
          have ht2 : (heap_get s2 p).total = 0 := ht
          unfold sizes_room at hrm
          rw [if_pos ht2] at hrm
          have := init_chunk_info_room ps s2.d.canary1 (heap_get s2 p) b hps hps16 hb hb0 hrm
          unfold heap_get
          dsimp only
          rw [getD_set_self, if_pos hlt]
          exact this
        · intro ht
          apply wp_bind_i
          apply wp_pure_i
          apply wp_pure_i
          intro bp hbp
          injection hbp with hbp
          subst hbp
          have ht2 : (heap_get s2 p).total ≠ 0 := ht
          unfold sizes_room at hrm
          rw [if_neg ht2] at hrm
          exact hrm
    · intro _
      apply wp_pure_i
      intro bp hbp
      exact Option.noConfusion hbp

theorem MASK_POINTER_aligned (ps pp : Nat) (hps : ps ≤ 64) (hal : pp % 2 ^ ps = 0)
    (h64 : pp < 2 ^ 64) : MASK_POINTER ps pp = pp := by
  have := MASK_POINTER_key ps pp 0 hps hal h64 (Nat.pow_pos (by norm_num))
  rw [Nat.or_zero] at this
  exact this

/-- The chunk page that `omalloc_make_chunks` makes for a bucket other than 0 is in the
directory under the key `page | (bucket + 1)`, with a well-formed header all of whose
chunks are free and which has room for the requested sizes. -/
theorem omalloc_make_chunks_linked {ps b l : Nat} {mopts : malloc_readonly} {s : pool_state}
    (hps : 5 ≤ ps) (hps16 : ps ≤ 16) (hb : b ≤ BUCKETS ps) (hb0 : b ≠ 0)
    (hcc : mopts.chunk_canaries ≠ 0) (hok : chunk_pool_ok ps mopts s b) :
    wp (omalloc_make_chunks ps mopts b l) (fun r s' => ∀ bp, r = some bp →
      chunk_page_ok ps mopts s' b bp ∧ (heap_get s' bp).free = (heap_get s' bp).total ∧
      s'.delayed_chunks = s.delayed_chunks) s := by
  obtain ⟨hwf, hmin, hmaxr, hal, hown, hmax, hbig, _, _, _, hready⟩ := hok
  have hB := BUCKETS_lt ps hps hps16
  have hP := MALLOC_PAGESIZE_eq ps
  have hpos : 0 < 2 ^ ps := Nat.pow_pos (by norm_num)
  unfold omalloc_make_chunks
  apply wp_bind_i
  apply wp_mono (wp_and (map_fresh (by omega) hps16 hown hmax hbig)
    (@map_al ps mopts (MALLOC_PAGESIZE ps) 0 (by omega) s
      (fun a s' => a = MAP_FAILED ∨ a % 2 ^ ps = 0) hal (fun _ _ _ h => h)))
  rintro pp s1 ⟨⟨hc1, _, hfresh⟩, hpp⟩
  apply wp_ite_i
  · intro _
    apply wp_pure_i
    intro bp hbp
    exact Option.noConfusion hbp
  intro hne
  obtain ⟨hpp64, hfr⟩ := hfresh hne
  have hppal := mmap_ok hpp hne
  rw [if_neg hb0]
  apply wp_bind_i
  apply wp_pure_i
  rw [if_neg (fun h => hb0 h.1)]
  apply wp_bind_i
  have hready1 : ∀ bp ∈ s1.chunk_info_list.getD b [],
      bp < s1.heap.length ∧ info_ready ps b (heap_get s1 bp) := by
    intro bp hbp
    rw [hc1.2.2.2.1] at hbp
    have := hready bp hbp
    rw [hc1.2.2.1, heap_get_of_heap s s1 bp hc1.2.2.1]
    exact ⟨this.1, this.2.1⟩
  have hroom1 : ∀ bp ∈ s1.chunk_info_list.getD b [],
      bp < s1.heap.length ∧ sizes_room ps b (heap_get s1 bp) := by
    intro bp hbp
    rw [hc1.2.2.2.1] at hbp
    have := hready bp hbp
    rw [hc1.2.2.1, heap_get_of_heap s s1 bp hc1.2.2.1]
    exact ⟨this.1, this.2.2⟩
  apply wp_mono (wp_and (alloc_chunk_info_ready hps hps16 hb hready1)
    (alloc_chunk_info_room hps hps16 hb hb0 hcc hroom1))
  rintro r s3 ⟨h3, h3r⟩
  split
  · apply wp_bind_i
    apply wp_any
    intro _ _
    apply wp_pure_i
    intro bp hbp
    exact Option.noConfusion hbp
  rename_i bp
  obtain ⟨hlt, hcwf, hfree, hbk, _, hring, hd⟩ := h3 bp rfl
  have hrm := h3r bp rfl
  apply wp_bind_i
  apply wp_modify_i
  apply wp_bind_i
  have hd4 : s3.d = s.d := hd.trans hc1.1
  have hwf4 : dir_wf ps mopts s3.d := by rw [hd4]; exact hwf
  apply wp_mono (wp_and
    (@insert_pool_insert ps (pp ||| ((b + 1) % 2 ^ 32)) bp 0 mopts
      { s3 with heap := s3.heap.set bp { heap_get s3 bp with page := pp } } hwf4)
    (keeps_wp (Q := fun _ s' => chunk_frame
        { s3 with heap := s3.heap.set bp { heap_get s3 bp with page := pp } } s')
      _ insert_pool_cf ⟨rfl, rfl, rfl, rfl⟩ (fun _ _ h => h)))
  rintro rc s5 ⟨hins, hc5⟩
  apply wp_ite_i
  · intro _
    apply wp_bind_i
    apply wp_any
    intro _ _
    apply wp_pure_i
    intro bp hbp
    exact Option.noConfusion hbp
  intro hrc
  have hrc0 : rc = 0 := by
    by_contra hc
    exact hrc hc
  apply wp_bind_i
  unfold LIST_INSERT_HEAD_dir
  apply wp_modify_i
  apply wp_pure_i
  intro bp2 hbp2
  injection hbp2 with hbp2
  subst hbp2
  obtain ⟨c1, c2, c3, c4⟩ := hc5
  dsimp only at c1 c2 c3 c4
  have hg : heap_get s5 bp = { heap_get s3 bp with page := pp } := by
    unfold heap_get
    rw [c1, getD_set_self, if_pos hlt]
    rfl
  have hins0 := hins hrc0
  dsimp only at hins0
  rw [hd4] at hins0
  have htag : (b + 1) % 2 ^ 32 = b + 1 := Nat.mod_eq_of_lt (by omega)
  rw [htag] at hins0
  have htl := tag_lt_pagesize ps (b + 1) hps (by omega)
  have hkey : MASK_POINTER ps (pp ||| (b + 1)) = pp :=
    MASK_POINTER_key ps pp (b + 1) (by omega) hppal hpp64 htl
  have hkey0 : pp ||| (b + 1) ≠ 0 := by
    intro h0
    have := key_tag hppal htl
    rw [h0, Nat.zero_and] at this
    omega
  have hone : 0 < howmany (MALLOC_PAGESIZE ps) (MALLOC_PAGESIZE ps) := by
    have := howmany_mul 1 (MALLOC_PAGESIZE ps) (by rw [hP]; exact hpos)
    rw [Nat.one_mul] at this
    rw [this]
    exact Nat.one_pos
  have habs : ∀ y < s.d.regions_total, (slot s.d.r y).p ≠ 0 →
      MASK_POINTER ps (slot s.d.r y).p ≠ MASK_POINTER ps (pp ||| (b + 1)) := by
    intro y hy hoy hm
    rw [hkey] at hm
    have := hfr pp (page_list_first hone) y (by rw [hwf.2.1]; exact hy) hoy
    apply this
    unfold region_pages
    rw [hm]
    exact List.mem_cons_self _ _
  obtain ⟨rc2, d2, hi1, _, hi3⟩ :=
    insert_wf ps mopts s.d (pp ||| (b + 1)) bp 0 true hwf hmin hmaxr hkey0 habs
  rw [hins0] at hi1
  injection hi1 with hi1
  injection hi1 with hrc2 hd2
  subst hrc2
  subst hd2
  obtain ⟨hwf5, _, _, _, _, hperm⟩ := hi3 rfl
  have hmem_new : (⟨pp ||| (b + 1), bp, 0⟩ : region_info) ∈ s5.d.r := by
    have h2 := (List.Perm.mem_iff hperm).2 (List.mem_cons_self _ _)
    exact (List.mem_filter.1 h2).1
  obtain ⟨x, hx, hsx⟩ := mem_slot hmem_new
  rw [hwf5.2.1] at hx
  have hfx : find ps mopts s5.d pp = .ok (some x) :=
    find_present_wf ps mopts s5.d x pp (by omega) hwf5 hx (by rw [hsx]; exact hkey0)
      (by rw [hsx]; show MASK_POINTER ps pp = MASK_POINTER ps (pp ||| (b + 1))
          rw [hkey, MASK_POINTER_aligned ps pp (by omega) hppal hpp64])
  refine ⟨⟨?_, ?_, ?_, ?_, ?_, ?_, ?_⟩, ?_, ?_⟩
  · show bp < s5.heap.length
    rw [c1, List.length_set]
    exact hlt
  · show chunk_wf ps (heap_get s5 bp)
    rw [hg]
    exact hcwf
  · show (heap_get s5 bp).bucket = b
    rw [hg]
    exact hbk
  · show (heap_get s5 bp).page % 2 ^ ps = 0
    rw [hg]
    exact hppal
  · show (heap_get s5 bp).page < 2 ^ 64
    rw [hg]
    exact hpp64
  · show (heap_get s5 bp).offset + (heap_get s5 bp).total ≤ (heap_get s5 bp).bits.length
    rw [hg]
    exact hrm
  · show ∃ ri, find ps mopts s5.d (heap_get s5 bp).page = .ok (some ri) ∧
      (slot s5.d.r ri).p = (heap_get s5 bp).page ||| (b + 1) ∧ (slot s5.d.r ri).size = bp
    rw [hg]
    exact ⟨x, hfx, by rw [hsx], by rw [hsx]⟩
  · show (heap_get s5 bp).free = (heap_get s5 bp).total
    rw [hg]
    exact hfree
  · show s5.delayed_chunks = s.delayed_chunks
    rw [c4]
    show s3.delayed_chunks = s.delayed_chunks
    rw [hring, hc1.2.2.2.2.2.1]

/-! ## The chunk that `malloc_bytes` hands out, with its canary -/

theorem find_bucket_covers (mopts : malloc_readonly) (ps s : Nat) (hps : 5 ≤ ps)
    (hps16 : ps ≤ 16) (h0 : 0 < s) (hs : s ≤ MALLOC_MAXCHUNK ps) :
    s ≤ B2SIZE (find_bucket mopts s) ∧ find_bucket mopts s ≠ 0 := by
  have hp15 : 2 ^ (ps - 1) ≤ 2 ^ 15 := Nat.pow_le_pow_right (by norm_num) (by omega)
  have h2p := hs
  rw [MALLOC_MAXCHUNK_eq] at h2p
  simp only [B2SIZE, MALLOC_MINSIZE_eq]
  by_cases hc : mopts.def_maxcache = 0
  · rw [find_bucket_lin mopts s hc h0 (by omega)]
    omega
  · obtain ⟨e2, b2⟩ := find_bucket_bin mopts ps s hps hps16 hc h0 hs
    have hm2 := bin_of_mod16 (max s 16) (by omega)
    have hg2 := bin_of_ge (max s 16) (by omega)
    rw [e2]
    omega

theorem fill_canary_bytes (mopts : malloc_readonly) (mem : Nat → Nat) (ptr s b : Nat)
    (hs : s ≤ b) (hb : b < 2 ^ 64) (hfit : ptr + b ≤ 2 ^ 64) (i : Nat) (h1 : s ≤ i)
    (h2 : i < s + min (b - s) 32) :
    fill_canary mopts mem ptr s b (ptr + i) = mopts.chunk_canaries % 256 := by
  unfold fill_canary
  rw [check_sz_eq s b hs hb, add64_eq ptr s (by omega),
    memset_spec mem (ptr + s) mopts.chunk_canaries _ _ (by omega), if_pos (by omega)]

theorem validate_canary_mem_fail (mopts : malloc_readonly) (mem : Nat → Nat) (ptr s b : Nat)
    (hs : s ≤ b) (hb : b < 2 ^ 64) (hfit : ptr + b ≤ 2 ^ 64)
    (h : ∃ i, s ≤ i ∧ i < s + min (b - s) 32 ∧
      mem (ptr + i) ≠ mopts.chunk_canaries % 256 ∧ mem (ptr + i) ≠ SOME_JUNK) :
    validate_canary_mem mopts mem ptr s b = .abort .canary_corrupted := by
  obtain ⟨i, h1, h2, h3, h4⟩ := h
  unfold validate_canary_mem
  show (if validate_canary_scan mopts mem
      (if sub64 b s > CHUNK_CHECK_LENGTH then CHUNK_CHECK_LENGTH else sub64 b s)
      (add64 ptr s) = true then Outcome.abort wrterror_msg.canary_corrupted
    else Outcome.ok ()) = _
  rw [check_sz_eq s b hs hb, add64_eq ptr s (by omega)]
  have := validate_canary_scan_spec mopts mem (min (b - s) 32) (ptr + s) (by omega)
  rw [if_pos (this.2 ⟨ptr + i, by omega, by omega, h3, h4⟩)]

theorem validate_canary_mem_pass (mopts : malloc_readonly) (mem : Nat → Nat) (ptr s b : Nat)
    (hs : s ≤ b) (hb : b < 2 ^ 64) (hfit : ptr + b ≤ 2 ^ 64)
    (h : ∀ i, s ≤ i → i < s + min (b - s) 32 →
      mem (ptr + i) = mopts.chunk_canaries % 256 ∨ mem (ptr + i) = SOME_JUNK) :
    validate_canary_mem mopts mem ptr s b = .ok () := by
  unfold validate_canary_mem
  show (if validate_canary_scan mopts mem
      (if sub64 b s > CHUNK_CHECK_LENGTH then CHUNK_CHECK_LENGTH else sub64 b s)
      (add64 ptr s) = true then Outcome.abort wrterror_msg.canary_corrupted
    else Outcome.ok ()) = _
  rw [check_sz_eq s b hs hb]
  by_cases hsb : s = b
  · subst hsb
    rw [Nat.sub_self, Nat.zero_min]
    rfl
  · rw [add64_eq ptr s (by omega)]
    have := validate_canary_scan_spec mopts mem (min (b - s) 32) (ptr + s) (by omega)
    rw [if_neg]
    intro e
    obtain ⟨a, a1, a2, a3, a4⟩ := this.1 e
    have ha : a = ptr + (a - ptr) := by omega
    rcases h (a - ptr) (by omega) (by omega) with h5 | h5
    · rw [← ha] at h5; exact a3 h5
    · rw [← ha] at h5; exact a4 h5

theorem find_of_mask {ps : Nat} {mopts : malloc_readonly} {d : dir_info} {p q : Nat}
    (h : MASK_POINTER ps p = MASK_POINTER ps q) : find ps mopts d p = find ps mopts d q := by
  unfold find
  dsimp only
  rw [h]

theorem malloc_bytes_take_more {mopts : malloc_readonly} {bp ci : chunk_info} {r size k : Nat}
    (h : malloc_bytes_take mopts bp r size = some (ci, k)) :
    ci.canary = bp.canary ∧ ci.offset = bp.offset := by
  unfold malloc_bytes_take at h
  split at h
  · exact absurd h (by simp)
  · simp only [Option.some.injEq, Prod.mk.injEq] at h
    obtain ⟨h1, _⟩ := h
    rw [← h1]
    exact ⟨rfl, rfl⟩

/-- `validate_junk` on the memory changes neither the pool nor the memory. -/
theorem validate_junk_keeps {ps p sz : Nat} {mopts : malloc_readonly} {ms : mem_state} :
    wpm (Mem.validate_junk ps mopts p sz)
      (fun _ ms' => ms'.pool = ms.pool ∧ ms'.mem = ms.mem) ms := by
  unfold Mem.validate_junk
  apply wpm_bind_i
  apply wpm_get_i
  dsimp only
  cases validate_junk_mem ps mopts ms.pool.d.malloc_junk (region_words ms.mem p) sz with
  | none => exact wpm_diverges_i
  | some r =>
    obtain ⟨o, rd⟩ := r
    dsimp only
    apply wpm_bind_i
    apply wpm_modify_i
    apply wpm_lift_i
    apply wp_lift_outcome_i
    intro _ _
    exact ⟨rfl, rfl⟩

theorem chunk_pool_ok_env {ps b : Nat} {mopts : malloc_readonly} {s : pool_state}
    (h : chunk_pool_ok ps mopts s b) (e : List Nat) :
    chunk_pool_ok ps mopts { s with env := e } b := h

/-- The last steps of `malloc_bytes` once the chunk `k` is taken: the new header is
stored, and for a bucket other than 0 the chunk is checked for junk and the canary is
written behind the request. -/
theorem malloc_bytes_fill {ps size bp k : Nat} {mopts : malloc_readonly} {info ci : chunk_info}
    {ms : mem_state} {Q : Nat → mem_state → Prop}
    (hcc : mopts.chunk_canaries ≠ 0) (hb0 : info.bucket ≠ 0) (hlt : bp < ms.pool.heap.length)
    (hQ : ∀ ms', heap_get ms'.pool bp = ci → ms'.pool.d = ms.pool.d →
      ms'.pool.delayed_chunks = ms.pool.delayed_chunks →
      ms'.mem = fill_canary mopts ms.mem
        (add64 info.page ((k * B2ALLOC info.bucket) % 2 ^ 64)) size (B2SIZE info.bucket) →
      Q (add64 info.page ((k * B2ALLOC info.bucket) % 2 ^ 64)) ms') :
    wpm (do
      Mem.lift_pool (modify (fun s => { s with heap := s.heap.set bp ci }))
      if ci.free = 0 then Mem.lift_pool (LIST_REMOVE bp)
      let p := add64 info.page ((k * B2ALLOC info.bucket) % 2 ^ 64)
      if info.bucket > 0 then do
        Mem.validate_junk ps mopts p (B2SIZE info.bucket)
        if mopts.chunk_canaries ≠ 0 then
          Mem.fill_canary ps mopts p size (B2SIZE info.bucket)
      pure p : RunM Nat) Q ms := by
  have hb1 : info.bucket > 0 := Nat.pos_of_ne_zero hb0
  have hg : heap_get { ms.pool with heap := ms.pool.heap.set bp ci } bp = ci := by
    unfold heap_get
    rw [getD_set_self, if_pos hlt]
  apply wpm_bind_i
  apply wpm_lift_i
  apply wp_modify_i
  dsimp only
  apply wpm_ite_i
  · intro _
    apply wpm_bind_i
    apply wpm_lift_i
    unfold LIST_REMOVE
    apply wp_modify_i
    rw [if_pos hb1, if_pos hcc]
    with_reducible apply wpm_bind_i
    apply wpm_mono validate_junk_keeps
    rintro _ ms2 ⟨h5, h6⟩
    with_reducible apply wpm_bind_i
    unfold Mem.fill_canary
    dsimp only
    with_reducible apply wpm_bind_i
    unfold Mem.access
    apply wpm_modify_i
    apply wpm_modify_i
    apply wpm_pure_i
    apply hQ
    · show heap_get ms2.pool bp = ci
      rw [h5]; exact hg
    · show ms2.pool.d = ms.pool.d
      rw [h5]
    · show ms2.pool.delayed_chunks = ms.pool.delayed_chunks
      rw [h5]
    · show fill_canary mopts ms2.mem _ size _ = _
      rw [h6]
  · intro _
    apply wpm_bind_i
    apply wpm_pure_i
    rw [if_pos hb1, if_pos hcc]
    with_reducible apply wpm_bind_i
    apply wpm_mono validate_junk_keeps
    rintro _ ms2 ⟨h5, h6⟩
    with_reducible apply wpm_bind_i
    unfold Mem.fill_canary
    dsimp only
    with_reducible apply wpm_bind_i
    unfold Mem.access
    apply wpm_modify_i
    apply wpm_modify_i
    apply wpm_pure_i
    apply hQ
    · show heap_get ms2.pool bp = ci
      rw [h5]; exact hg
    · show ms2.pool.d = ms.pool.d
      rw [h5]
    · show ms2.pool.delayed_chunks = ms.pool.delayed_chunks
      rw [h5]
    · show fill_canary mopts ms2.mem _ size _ = _
      rw [h6]

/-- The end of `malloc_bytes`, from the header `bp` of a chunk page of the directory
with a free chunk: the pointer returned is a chunk in use with the requested size
recorded, and the bytes behind the request hold the canary. -/
theorem malloc_bytes_found {ps size f bp b r : Nat} {mopts : malloc_readonly}
    {ms : mem_state} {Q : Nat → mem_state → Prop}
    (hps : 5 ≤ ps) (hps16 : ps ≤ 16) (hcc : mopts.chunk_canaries ≠ 0) (hs0 : 0 < size)
    (hsz : size ≤ MALLOC_MAXCHUNK ps) (hb : b ≤ BUCKETS ps) (hb0 : b ≠ 0)
    (hcov : size ≤ B2SIZE b)
    (hpage : chunk_page_ok ps mopts ms.pool b bp) (hfree : 0 < (heap_get ms.pool bp).free)
    (hQ : ∀ p ms', chunk_recorded ps mopts ms'.pool p size b →
      (∀ i, size ≤ i → i < size + min (B2SIZE b - size) 32 →
        ms'.mem (p + i) = mopts.chunk_canaries % 256) →
      ms'.pool.delayed_chunks = ms.pool.delayed_chunks → Q p ms') :
    wpm (do
      let s ← Mem.pool_get
      let info := heap_get s bp
      if info.canary ≠ s.d.canary1 % 2 ^ 16 then
        Mem.lift_pool (wrterror .chunk_info_corrupted)
      else
        match malloc_bytes_take mopts info r size with
        | none => Mem.lift_pool diverges
        | some (ci, k) => do
          if k = 0 ∧ mopts.malloc_stats ≠ 0 then do
            let ri ← Mem.lift_pool (lift_outcome (find ps mopts s.d info.page))
            match ri with
            | none => Mem.lift_pool undefined_behaviour
            | some ri => Mem.lift_pool (STATS_SETF ri f)
          Mem.lift_pool (modify (fun s => { s with heap := s.heap.set bp ci }))
          if ci.free = 0 then Mem.lift_pool (LIST_REMOVE bp)
          let p := add64 info.page ((k * B2ALLOC info.bucket) % 2 ^ 64)
          if info.bucket > 0 then do
            Mem.validate_junk ps mopts p (B2SIZE info.bucket)
            if mopts.chunk_canaries ≠ 0 then
              Mem.fill_canary ps mopts p size (B2SIZE info.bucket)
          pure p : RunM Nat) Q ms := by
  obtain ⟨hlt, hwf, hbk, hal, h64, hroom, ri, hfind, hkey, hsize⟩ := hpage
  have hP := MALLOC_PAGESIZE_eq ps
  have hM := MALLOC_MAXCHUNK_eq ps
  have hpos : 0 < 2 ^ ps := Nat.pow_pos (by norm_num)
  have hle16 : 2 ^ ps ≤ 2 ^ 16 := Nat.pow_le_pow_right (by norm_num) hps16
  have hB := BUCKETS_lt ps hps hps16
  apply wpm_bind_i
  apply wpm_pool_get_i
  dsimp only
  apply wpm_ite_i
  · intro _
    exact wpm_abort_i
  intro hcan
  have hcan2 : (heap_get ms.pool bp).canary = ms.pool.d.canary1 % 2 ^ 16 := by
    by_contra hc
    exact hcan hc
  obtain ⟨ci, k, htake, hk, _, hbit, _, _, htot, hcb, hcp, hcwf⟩ :=
    malloc_bytes_take_spec ps mopts (heap_get ms.pool bp) r size hps hps16 hwf hfree
  obtain ⟨hcc2, hco⟩ := malloc_bytes_take_more htake
  rw [htake]
  dsimp only
  have hkb := chunk_offset_lt ps (heap_get ms.pool bp) k hwf hk
  rw [hbk] at hkb
  have hB2 : B2ALLOC b = B2SIZE b := by
    unfold B2ALLOC B2SIZE
    rw [if_neg hb0]
  have hmaxb := B2SIZE_le_MAXCHUNK ps b hb
  rw [hM] at hmaxb hsz
  have hM16 : 2 ^ (ps - 1) ≤ 2 ^ 15 := Nat.pow_le_pow_right (by norm_num) (by omega)
  have hfit : (heap_get ms.pool bp).page + 2 ^ ps ≤ 2 ^ 64 := by
    have e2 : 2 ^ 64 = 2 ^ ps * 2 ^ (64 - ps) := two_pow_dvd_form ps 64 (by omega)
    obtain ⟨c, hc⟩ : ∃ c, (heap_get ms.pool bp).page = 2 ^ ps * c :=
      ⟨(heap_get ms.pool bp).page / 2 ^ ps, by
        have := Nat.div_add_mod (heap_get ms.pool bp).page (2 ^ ps); omega⟩
    rw [hc, e2] at h64
    have hclt : c < 2 ^ (64 - ps) := Nat.lt_of_mul_lt_mul_left h64
    rw [hc, e2]
    calc 2 ^ ps * c + 2 ^ ps = 2 ^ ps * (c + 1) := by ring
      _ ≤ 2 ^ ps * 2 ^ (64 - ps) := Nat.mul_le_mul_left _ hclt
  have hkt : (k + 1) * B2ALLOC b ≤ 2 ^ ps := by
    have ht := hwf.2.2.1
    rw [hP, hbk] at ht
    have h1 : (heap_get ms.pool bp).total * B2ALLOC b ≤ 2 ^ ps := by
      rw [ht]; exact Nat.div_mul_le_self _ _
    exact le_trans (Nat.mul_le_mul_right _ hk) h1
  rw [Nat.add_mul, Nat.one_mul] at hkt
  have hp : add64 (heap_get ms.pool bp).page
      ((k * B2ALLOC (heap_get ms.pool bp).bucket) % 2 ^ 64) =
      (heap_get ms.pool bp).page + k * B2ALLOC b := by
    rw [hbk, Nat.mod_eq_of_lt (by omega)]
    exact add64_eq _ _ (by omega)
  have hmask : MASK_POINTER ps ((heap_get ms.pool bp).page + k * B2ALLOC b) =
      MASK_POINTER ps (heap_get ms.pool bp).page := by
    have := MASK_POINTER_offset ps (heap_get ms.pool bp).page (k * B2ALLOC b) (by omega) hal hkb
    rw [add64_eq _ _ (by omega)] at this
    exact this
  have htl := tag_lt_pagesize ps (b + 1) hps (by omega)
  have hfinal : ∀ (ms' : mem_state),
      (∀ q, find ps mopts ms'.pool.d q = find ps mopts ms.pool.d q) →
      (∀ i, (slot ms'.pool.d.r i).p = (slot ms.pool.d.r i).p ∧
        (slot ms'.pool.d.r i).size = (slot ms.pool.d.r i).size) →
      ms'.pool.d.canary1 = ms.pool.d.canary1 →
      heap_get ms'.pool bp = ci →
      ms'.pool.delayed_chunks = ms.pool.delayed_chunks →
      ms'.mem = fill_canary mopts ms.mem
        (add64 (heap_get ms.pool bp).page
          ((k * B2ALLOC (heap_get ms.pool bp).bucket) % 2 ^ 64)) size
        (B2SIZE (heap_get ms.pool bp).bucket) →
      Q (add64 (heap_get ms.pool bp).page
        ((k * B2ALLOC (heap_get ms.pool bp).bucket) % 2 ^ 64)) ms' := by
    intro ms' hf hsl hc1 hh hdl hmem
    rw [hp]
    rw [hp, hbk] at hmem
    apply hQ _ _ ?_ ?_ hdl
    · refine ⟨ri, k, ?_, ?_, ?_, ?_, ?_, ?_⟩
      · rw [hf, find_of_mask hmask]
        exact hfind
      · unfold REALSIZE
        dsimp only
        rw [(hsl ri).1, hkey, key_tag hal htl, if_neg (by omega)]
        rfl
      · rw [(hsl ri).2, hsize, hh, hcb]
        exact hbk
      · rw [(hsl ri).2, hsize, hh, hc1]
        have := find_chunknum_spec ps ms.pool.d.canary1 ci k hps hps16 hcwf (by rw [htot]; exact hk)
          (by rw [hcc2]; exact hcan2) (by rw [hcp]; exact hal)
        rw [hcp, hcb, hbk, hbit] at this
        exact this
      · rw [(hsl ri).2, hsize, hh, hco]
        exact malloc_bytes_take_records mopts _ ci r size k htake hcc hs0 (by omega) (by omega)
      · rw [← hB2]
        omega
    · intro i h1 h2
      rw [hmem]
      exact fill_canary_bytes mopts ms.mem _ size (B2SIZE b) hcov (by omega)
        (by rw [← hB2]; omega) i h1 h2
  have hb0i : (heap_get ms.pool bp).bucket ≠ 0 := by rw [hbk]; exact hb0
  apply wpm_ite_i
  · intro _
    with_reducible apply wpm_bind_i
    apply wpm_lift_i
    apply wp_lift_outcome_i
    intro ri0 hri0
    rw [hfind] at hri0
    injection hri0 with hri0
    subst hri0
    dsimp only
    with_reducible apply wpm_bind_i
    apply wpm_lift_i
    unfold STATS_SETF
    apply wp_modify_i
    refine @malloc_bytes_fill ps size bp k mopts (heap_get ms.pool bp) ci _ _ hcc hb0i ?_ ?_
    · exact hlt
    intro ms' h1 h2 h3 h4
    apply hfinal ms' ?_ ?_ ?_ h1 h3 h4
    · intro q
      rw [h2]
      exact find_congr q rfl rfl rfl rfl (map_set_same _ _ _ _ rfl)
    · intro i
      rw [h2]
      show (slot (ms.pool.d.r.set ri _) i).p = _ ∧ (slot (ms.pool.d.r.set ri _) i).size = _
      rw [slot_set]
      split
      · rename_i h
        rw [h.1]
        exact ⟨rfl, rfl⟩
      · exact ⟨rfl, rfl⟩
    · rw [h2]
  · intro _
    with_reducible apply wpm_bind_i
    apply wpm_pure_i
    refine @malloc_bytes_fill ps size bp k mopts (heap_get ms.pool bp) ci _ _ hcc hb0i ?_ ?_
    · exact hlt
    intro ms' h1 h2 h3 h4
    exact hfinal ms' (fun q => by rw [h2]) (fun i => by rw [h2]; exact ⟨rfl, rfl⟩)
      (by rw [h2]) h1 h3 h4

/-- The chunk that `malloc_bytes` returns from a consistent pool with canaries enabled: the
directory records the request size for it, and the bytes behind the request, up to 32
of them, hold the canary byte. -/
theorem malloc_bytes_chunk {ps size f : Nat} {mopts : malloc_readonly} {ms : mem_state}
    (hps : 5 ≤ ps) (hps16 : ps ≤ 16) (hcc : mopts.chunk_canaries ≠ 0) (hs0 : 0 < size)
    (hsz : size ≤ MALLOC_MAXCHUNK ps)
    (hok : chunk_pool_ok ps mopts ms.pool (find_bucket mopts size)) :
    wpm (Mem.malloc_bytes ps mopts size f) (fun p ms' => p ≠ 0 →
      chunk_recorded ps mopts ms'.pool p size (find_bucket mopts size) ∧
      (∀ i, size ≤ i → i < size + min (B2SIZE (find_bucket mopts size) - size) 32 →
        ms'.mem (p + i) = mopts.chunk_canaries % 256) ∧
      ms'.pool.delayed_chunks = ms.pool.delayed_chunks) ms := by
  obtain ⟨hcov, hb0⟩ := find_bucket_covers mopts ps size hps hps16 hs0 hsz
  have hb := find_bucket_le mopts ps size hps hps16 hsz
  unfold Mem.malloc_bytes
  apply wpm_bind_i
  apply wpm_pool_get_i
  apply wpm_ite_i
  · intro _
    exact wpm_abort_i
  intro _
  dsimp only
  with_reducible apply wpm_bind_i
  apply wpm_lift_i
  apply wp_getrbyte_i
  with_reducible apply wpm_bind_i
  apply wpm_lift_i
  apply wp_getrbyte_i
  with_reducible apply wpm_bind_i
  apply wpm_pool_get_i
  dsimp only
  with_reducible apply wpm_bind_i
  generalize hl : ((((ms.pool.env.headD 0 % 256) <<< 8) % 2 ^ 32) |||
    (ms.pool.env.tail.headD 0 % 256)) % MALLOC_CHUNK_LISTS = l
  generalize hr : (((ms.pool.env.headD 0 % 256) <<< 8) % 2 ^ 32) |||
    (ms.pool.env.tail.headD 0 % 256) = r
  have hok2 := chunk_pool_ok_env hok ms.pool.env.tail.tail
  cases hf : LIST_FIRST ((ms.pool.chunk_dir.getD (find_bucket mopts size) []).getD l []) with
  | some bp =>
    apply wpm_pure_i
    dsimp only
    obtain ⟨hpage, hfree⟩ := hok2.2.2.2.2.2.2.2.2.2.1 l bp hf
    exact malloc_bytes_found hps hps16 hcc hs0 hsz hb hb0 hcov hpage hfree
      (fun p ms' h1 h2 h3 _ => ⟨h1, h2, h3⟩)
  | none =>
    refine wpm_mono (wpm_sim
      (Q := fun r s' => ∀ bp, r = some bp →
        chunk_page_ok ps mopts s' (find_bucket mopts size) bp ∧
        (heap_get s' bp).free = (heap_get s' bp).total ∧
        s'.delayed_chunks = ms.pool.delayed_chunks) sim_omalloc_make_chunks
      (fun e => omalloc_make_chunks_linked hps hps16 hb hb0 hcc (chunk_pool_ok_env hok2 e))
      (fun a s e h => h)) ?_
    intro made ms1 hmade
    cases made with
    | none =>
      dsimp only
      apply wpm_pure_i
      intro h
      exact absurd rfl h
    | some bp =>
      dsimp only
      obtain ⟨hpage, hfree, hdel⟩ := hmade bp rfl
      have htb := total_bounds ps (find_bucket mopts size) hps hps16 hb
      have hwf := hpage.2.1
      have hbk := hpage.2.2.1
      have htot := hwf.2.2.1
      rw [hbk] at htot
      exact malloc_bytes_found hps hps16 hcc hs0 hsz hb hb0 hcov hpage (by omega)
        (fun p ms' h1 h2 h3 _ => ⟨h1, h2, h3.trans hdel⟩)

/-! ## The canary of a chunk from `malloc_bytes` to `free` -/

/-- A pool just initialised is consistent for every bucket. -/
theorem chunk_pool_ok_start (ps : Nat) (mopts : malloc_readonly) (self i b : Nat)
    (mapped env : List Nat) (hc : mopts.malloc_canary < 2 ^ 32) (hb : b ≤ BUCKETS ps) :
    chunk_pool_ok ps mopts { malloc_init_pool ps mopts self i mapped with env := env } b := by
  refine ⟨?_, ?_, ?_, malloc_init_pool_aligned ps mopts self i mapped env, ?_, ?_, ?_, ?_,
    ?_, ?_, ?_⟩
  · have h := poolinit_wf ps mopts self (if i = 0 then MAP_CONCEAL else 0) hc
    obtain ⟨h1, h2, h3, h4, h5, h6, h7⟩ := h
    exact ⟨h1, h2, h3, h4, h5, h6, h7⟩
  · intro h
    exact absurd rfl h
  · exact Nat.zero_le _
  · refine ⟨?_, ?_, ?_, ?_⟩
    · intro y hy
      exact absurd hy (Nat.not_lt_zero _)
    · intro _ _ _ _ _ _ y hy
      exact absurd hy (Nat.not_lt_zero _)
    · intro _ _ _ _ _ y hy
      exact absurd hy (Nat.not_lt_zero _)
    · intro _ _ y hy
      exact absurd hy (Nat.not_lt_zero _)
  · intro c hc2
    unfold malloc_init_pool at hc2
    obtain ⟨j, _, rfl⟩ := List.mem_map.1 hc2
    dsimp only
    split
    · norm_num
    · exact Nat.mod_lt _ (by norm_num)
  · intro e he
    unfold malloc_init_pool at he
    rw [List.eq_of_mem_replicate he]
    norm_num
  · unfold malloc_init_pool
    dsimp only
    rw [List.length_replicate]
    omega
  · unfold malloc_init_pool
    dsimp only
    rw [getD_replicate_lt _ _ _ _ (by omega), List.length_replicate]
  · intro l bp h
    unfold malloc_init_pool at h
    dsimp only at h
    rw [getD_replicate_lt _ _ _ _ (by omega), getD_replicate_nil] at h
    exact absurd h (by simp [LIST_FIRST])
  · intro bp h
    unfold malloc_init_pool at h
    dsimp only at h
    rw [getD_replicate_nil] at h
    exact absurd h (List.not_mem_nil _)

/-- What `free(p)` does with the canary of a recorded chunk `p` of requested size
`size` in bucket `b`: it aborts with "canary corrupted" when a byte of the canary range
is neither the canary byte nor 0xdb, and otherwise never with that message, and it
returns when no chunk waits in the delayed-free ring. -/
theorem free_canary_check {ps p size b : Nat} {mopts : malloc_readonly} {s : pool_state}
    (hps : 5 ≤ ps) (hps16 : ps ≤ 16) (hcc : mopts.chunk_canaries ≠ 0) (hp : p ≠ 0)
    (hb : b ≤ BUCKETS ps) (hb0 : b ≠ 0) (hcov : size ≤ B2SIZE b)
    (hrec : chunk_recorded ps mopts s p size b) (mem : Nat → Nat) (prot faults : List Nat) :
    ((∀ i, size ≤ i → i < size + min (B2SIZE b - size) 32 →
        mem (p + i) = mopts.chunk_canaries % 256 ∨ mem (p + i) = SOME_JUNK) →
      Mem.free ps mopts p ⟨s, mem, prot, faults⟩ ≠ .abort .canary_corrupted ∧
      ((∀ i, s.delayed_chunks.getD i 0 = 0) →
        ∃ ms2, Mem.free ps mopts p ⟨s, mem, prot, faults⟩ = .ok ((), ms2))) ∧
    ((∃ i, size ≤ i ∧ i < size + min (B2SIZE b - size) 32 ∧
        mem (p + i) ≠ mopts.chunk_canaries % 256 ∧ mem (p + i) ≠ SOME_JUNK) →
      Mem.free ps mopts p ⟨s, mem, prot, faults⟩ = .abort .canary_corrupted) := by
  obtain ⟨ri, k, hfind, hreal, hbk, hk, hbits, hfit⟩ := hrec
  have hmaxb := B2SIZE_le_MAXCHUNK ps b hb
  have hM := MALLOC_MAXCHUNK_eq ps
  have hM16 : 2 ^ (ps - 1) ≤ 2 ^ 15 := Nat.pow_le_pow_right (by norm_num) (by omega)
  obtain ⟨rest, hsplit, hnever, hret⟩ := @free_chunk_split ps p ri mopts s hp hfind
    (by rw [hbk]; exact hreal) (by rw [hbk]; exact hmaxb) (by omega)
  have hk2 : find_chunknum ps (mem_state.mk s mem prot faults).pool.d.canary1
      (heap_get s (slot s.d.r ri).size) p = .ok k := hk
  constructor
  · intro h
    have hv := validate_canary_mem_pass mopts mem p size (B2SIZE b) hcov (by omega) hfit h
    rw [← hbits, ← hbk] at hv
    obtain ⟨ms1, hrun, _, _⟩ := @find_chunknum_check_pass ps k mopts _ p
      (mem_state.mk s mem prot faults) hk2 hv
    rw [hsplit, bind_run hrun]
    refine ⟨never_elim (hnever k) ms1, fun hring => ?_⟩
    obtain ⟨a, ms2, h2⟩ := returns_elim (hret hring k) ms1
    exact ⟨ms2, h2⟩
  · intro h
    have hv := validate_canary_mem_fail mopts mem p size (B2SIZE b) hcov (by omega) hfit h
    rw [← hbits, ← hbk] at hv
    rw [hsplit]
    apply bind_abort
    exact @find_chunknum_check_corrupt ps k mopts _ p (mem_state.mk s mem prot faults) hk2 hcc
      (by rw [hbk]; omega) hv

theorem run_result {α : Type} {o : Outcome (α × mem_state)} {a : α} {ms : mem_state}
    (h : o = .ok (a, ms)) (d1 : α) (d2 : mem_state) :
    result_of o d1 = a ∧ memory_after o d2 = ms := by
  rw [h]
  exact ⟨rfl, rfl⟩

theorem result_run {α : Type} (o : Outcome (α × mem_state)) (d1 : α) (d2 : mem_state)
    (h : (observed o).isSome = true) : o = .ok (result_of o d1, memory_after o d2) := by
  cases o with
  | ok x => rfl
  | abort e => exact absurd h (by simp [observed])
  | diverge => exact absurd h (by simp [observed])
  | undefined => exact absurd h (by simp [observed])

set_option maxRecDepth 1000000 in
theorem canary_start_run :
    Mem.malloc_bytes 12 canary_mopts 20 0 canary_start = .ok (canary_ptr, canary_after) :=
  result_run _ _ _ (by decide)

set_option maxRecDepth 1000000 in
theorem canary_ptr_eq : canary_ptr = 0x13f000 := by decide

/-- C19 (counterexample): with `MALLOC_OPTIONS=C` and the canary byte 0xa5, the chunk
`p` that `malloc_bytes(d, 20, 0)` returns from a fresh pool is in the 32-byte bucket;
after byte `p[28]` of the canary range is overwritten with 0xdb, a value different
from the canary byte, `free(p)` returns: the overwrite is not detected. -/
theorem chunk_canary_junk_byte_counterexample :
    Mem.malloc_bytes 12 canary_mopts 20 0 canary_start = .ok (canary_ptr, canary_after) ∧
    B2SIZE (find_bucket canary_mopts 20) = 32 ∧
    0xdb ≠ canary_mopts.chunk_canaries % 256 ∧
    canary_after.mem (canary_ptr + 28) = canary_mopts.chunk_canaries % 256 ∧
    observed (Mem.free 12 canary_mopts canary_ptr
      (poke canary_after (canary_ptr + 28) 0xdb)) = some ((), [], [], 0) :=
  ⟨canary_start_run, by decide, by decide, by decide, by decide⟩

/-- C19 (amended): with chunk canaries enabled, let `malloc_bytes(d, size, f)` with
`0 < size ≤ MALLOC_MAXCHUNK` return the chunk `p ≠ NULL` from a consistent pool, and let
`b` be the size of its bucket.  Then the directory records the requested size for `p`
(`chunk_recorded`: `find` gives the entry of the page, of chunk size `b`, and the size
slot of the chunk holds `size`), and the memory holds the canary byte at the offsets
`[size, min (size + 32) b)` of `p`.  For `free(p)` from the pool so left, with any
random bytes and any later contents of the memory: if every byte of that range is the
canary byte or 0xdb (so for the untouched chunk), `free` does not abort with "canary
corrupted", and it returns when no chunk waits in the delayed-free ring; if a byte of
that range is neither the canary byte nor 0xdb, `free` aborts with "canary
corrupted". -/
theorem chunk_canary_spec (ps size f p : Nat) (mopts : malloc_readonly) (ms ms1 : mem_state)
    (hps : 5 ≤ ps) (hps16 : ps ≤ 16) (hcc : mopts.chunk_canaries ≠ 0)
    (hs0 : 0 < size) (hsz : size ≤ MALLOC_MAXCHUNK ps)
    (hok : chunk_pool_ok ps mopts ms.pool (find_bucket mopts size))
    (hrun : Mem.malloc_bytes ps mopts size f ms = .ok (p, ms1)) (hp : p ≠ 0) :
    chunk_recorded ps mopts ms1.pool p size (find_bucket mopts size) ∧
    (∀ i, size ≤ i → i < min (size + 32) (B2SIZE (find_bucket mopts size)) →
      ms1.mem (p + i) = mopts.chunk_canaries % 256) ∧
    (∀ (env : List Nat) (mem : Nat → Nat) (prot faults : List Nat),
      ((∀ i, size ≤ i → i < min (size + 32) (B2SIZE (find_bucket mopts size)) →
          mem (p + i) = mopts.chunk_canaries % 256 ∨ mem (p + i) = SOME_JUNK) →
        Mem.free ps mopts p ⟨{ ms1.pool with env := env }, mem, prot, faults⟩ ≠
          .abort .canary_corrupted ∧
        ((∀ i, ms1.pool.delayed_chunks.getD i 0 = 0) →
          ∃ ms2, Mem.free ps mopts p ⟨{ ms1.pool with env := env }, mem, prot, faults⟩ =
            .ok ((), ms2))) ∧
      ((∃ i, size ≤ i ∧ i < min (size + 32) (B2SIZE (find_bucket mopts size)) ∧
          mem (p + i) ≠ mopts.chunk_canaries % 256 ∧ mem (p + i) ≠ SOME_JUNK) →
        Mem.free ps mopts p ⟨{ ms1.pool with env := env }, mem, prot, faults⟩ =
          .abort .canary_corrupted)) := by
  obtain ⟨hcov, hb0⟩ := find_bucket_covers mopts ps size hps hps16 hs0 hsz
  have hb := find_bucket_le mopts ps size hps hps16 hsz
  have hmin : min (size + 32) (B2SIZE (find_bucket mopts size)) =
      size + min (B2SIZE (find_bucket mopts size) - size) 32 := by omega
  rw [hmin]
  obtain ⟨hrec, hbytes, _⟩ :=
    wpm_run (malloc_bytes_chunk hps hps16 hcc hs0 hsz hok) hrun hp
  refine ⟨hrec, hbytes, fun env mem prot faults => ?_⟩
  have hrec2 : chunk_recorded ps mopts { ms1.pool with env := env } p size
      (find_bucket mopts size) := hrec
  exact free_canary_check hps hps16 hcc hp hb hb0 hcov hrec2 mem prot faults

/-- C19 (witness): `MALLOC_OPTIONS=C` with the canary byte 0xa5 on 4096-byte pages;
`malloc_bytes(d, 20, 0)` from a fresh pool returns `p = 0x13f000`; after 0x41 is
written to `p[28]`, `free(p)` aborts with "canary corrupted". -/
theorem chunk_canary_spec_witness :
    (chunk_pool_ok 12 canary_mopts canary_start.pool (find_bucket canary_mopts 20) ∧
      Mem.malloc_bytes 12 canary_mopts 20 0 canary_start = .ok (canary_ptr, canary_after) ∧
      canary_ptr = 0x13f000) ∧
    Mem.free 12 canary_mopts canary_ptr
      ⟨{ canary_after.pool with env := [] },
        fun x => if x = canary_ptr + 28 then 0x41 else canary_after.mem x, [], []⟩ =
      .abort .canary_corrupted :=
  ⟨⟨chunk_pool_ok_start 12 canary_mopts 0x7000 1 _ [] _ (by decide) (by decide),
      canary_start_run, canary_ptr_eq⟩,
    ((chunk_canary_spec 12 20 0 canary_ptr canary_mopts canary_start canary_after
      (by decide) (by decide) (by decide) (by decide) (by decide)
      (chunk_pool_ok_start 12 canary_mopts 0x7000 1 _ [] _ (by decide) (by decide))
      canary_start_run (by rw [canary_ptr_eq]; decide)).2.2 [] _ [] []).2
      ⟨28, by decide, by decide, by rw [if_pos rfl]; decide, by rw [if_pos rfl]; decide⟩⟩

/-! ## The page of `malloc(0)` on the error path of `omalloc_make_chunks` -/

set_option maxRecDepth 1000000 in
/-- The default options have junk level 1 and no `malloc_freeunmap`.  On a fresh pool,
`malloc(0)` maps a page for the chunks of bucket 0 (`0x13f000`, the last page of the
batch at `0x100000`) and sets it `PROT_NONE`.  When the `mmap` of the block of chunk
headers then fails, `omalloc_make_chunks` goes to `err: unmap(d, pp, MALLOC_PAGESIZE, 0)`,
whose small-cache branch calls `junk_free` on the page: four stores into a page that
is `PROT_NONE`, each of them a fault.  `malloc` would return `NULL` with `ENOMEM`; the
same happens when the headers can be had and `insert` cannot grow the directory. -/
theorem malloc_zero_fault :
    (malloc_init_pool 12 (malloc_init_mopts 12 [] 7 0 0) 0x7000 1 []).d.malloc_junk = 1 ∧
    (malloc_init_mopts 12 [] 7 0 0).malloc_freeunmap = 0 ∧
    observed (Mem.malloc 12 (malloc_init_mopts 12 [] 7 0 0) 0 0
      (fresh_mem [0, 0, 0x100000, 0, 0])) =
      some (0, [0x13f000], [0x13f000, 0x13f000, 0x13f000, 0x13f000], ENOMEM) ∧
    observed (Mem.malloc 12 (malloc_init_mopts 12 [] 7 0 0) 0 0
      (fresh_mem [0, 0, 0x100000, 0, 0x200000, 0])) =
      some (0, [0x13f000], [0x13f000, 0x13f000, 0x13f000, 0x13f000], ENOMEM) := by
  refine ⟨by decide, by decide, by decide, by decide⟩

set_option maxRecDepth 1000000 in
/-- When the chunk headers and the directory can be had, `malloc(0)` on a fresh pool
returns the first chunk of the page `0x13f000`, which is `PROT_NONE`; `free` of the
pointer puts it in the delayed-free ring; a second `malloc(0)` returns the next chunk
of the page and its `free` takes the first pointer out of the ring and releases its
chunk.  None of the four calls touches the page: no access faults. -/
theorem malloc_zero_clean :
    observed (Mem.malloc 12 (malloc_init_mopts 12 [] 7 0 0) 0 0
      (fresh_mem [0, 0, 0x100000, 0, 0x200000, 0x300000])) =
      some (0x13f000, [0x13f000], [], 0) ∧
    observed ((do
        let p ← Mem.malloc 12 (malloc_init_mopts 12 [] 7 0 0) 0 0
        Mem.free 12 (malloc_init_mopts 12 [] 7 0 0) p
        let q ← Mem.malloc 12 (malloc_init_mopts 12 [] 7 0 0) 0 0
        Mem.free 12 (malloc_init_mopts 12 [] 7 0 0) q
        pure (p, q) : RunM (Nat × Nat))
      (fresh_mem [0, 0, 0x100000, 0, 0x200000, 0x300000, 5, 0, 0, 5])) =
      some ((0x13f000, 0x13f010), [0x13f000], [], 0) := by
  refine ⟨by decide, by decide⟩

set_option linter.unusedTactic false
set_option linter.unreachableTactic false

/-! ## Runs that return or abort with one of the messages of a moving `realloc` -/

theorem clean_intro {σ α : Type} {P : wrterror_msg → Prop} {m : StateT σ Outcome α}
    (h : ∀ s, match m s with
      | .ok _ => True
      | .abort e => P e
      | .diverge => False
      | .undefined => False) : clean P m := by
  unfold clean
  exact h

theorem clean_elim {σ α : Type} {P : wrterror_msg → Prop} {m : StateT σ Outcome α}
    (h : clean P m) (s : σ) :
    (∃ r, m s = .ok r) ∨ ∃ e, m s = .abort e ∧ P e := by
  unfold clean at h
  have := h s
  cases hm : m s with
  | ok r => exact Or.inl ⟨r, rfl⟩
  | abort e => rw [hm] at this; exact Or.inr ⟨e, rfl, this⟩
  | diverge => rw [hm] at this; exact this.elim
  | undefined => rw [hm] at this; exact this.elim

theorem clean_pure {σ α : Type} {P : wrterror_msg → Prop} {a : α} :
    clean P (pure a : StateT σ Outcome α) :=
  clean_intro (fun _ => trivial)

theorem clean_bind {σ α β : Type} {P : wrterror_msg → Prop} {x : StateT σ Outcome α}
    {f : α → StateT σ Outcome β} (hx : clean P x) (hf : ∀ a, clean P (f a)) :
    clean P (x >>= f) := by
  apply clean_intro
  intro s
  have e1 : (x >>= f) s = (x s).bind (fun p => f p.1 p.2) := rfl
  rw [e1]
  rcases clean_elim hx s with ⟨r, hr⟩ | ⟨e, he, hP⟩
  · rw [hr]
    show match f r.1 r.2 with
      | .ok _ => True
      | .abort e => P e
      | .diverge => False
      | .undefined => False
    rcases clean_elim (hf r.1) r.2 with ⟨r2, hr2⟩ | ⟨e2, he2, hP2⟩
    · rw [hr2]; trivial
    · rw [he2]; exact hP2
  · rw [he]
    exact hP

theorem clean_ite {σ α : Type} {P : wrterror_msg → Prop} {c : Prop} [Decidable c]
    {x y : StateT σ Outcome α} (hx : c → clean P x) (hy : ¬ c → clean P y) :
    clean P (if c then x else y) := by
  by_cases h : c
  · rw [if_pos h]; exact hx h
  · rw [if_neg h]; exact hy h

theorem clean_get {σ : Type} {P : wrterror_msg → Prop} :
    clean P (get : StateT σ Outcome σ) :=
  clean_intro (fun _ => trivial)

theorem clean_set {σ : Type} {P : wrterror_msg → Prop} {s1 : σ} :
    clean P (set s1 : StateT σ Outcome PUnit) :=
  clean_intro (fun _ => trivial)

theorem clean_modify {σ : Type} {P : wrterror_msg → Prop} {g : σ → σ} :
    clean P (modify g : StateT σ Outcome PUnit) :=
  clean_intro (fun _ => trivial)

theorem clean_env_next {P : wrterror_msg → Prop} : clean P env_next :=
  clean_intro (fun _ => trivial)

theorem clean_wrterror {α : Type} {P : wrterror_msg → Prop} {e : wrterror_msg} (h : P e) :
    clean P (wrterror e : Run α) :=
  clean_intro (fun _ => h)

theorem clean_lift_outcome {α : Type} {P : wrterror_msg → Prop} {x : Outcome α}
    (h : (∃ a, x = .ok a) ∨ ∃ e, x = .abort e ∧ P e) : clean P (lift_outcome x) := by
  apply clean_intro
  intro s
  unfold lift_outcome
  rcases h with ⟨a, ha⟩ | ⟨e, he, hP⟩
  · rw [ha]; trivial
  · rw [he]; exact hP

theorem clean_lift {α : Type} {P : wrterror_msg → Prop} {m : Run α} (h : clean P m) :
    clean P (Mem.lift_pool m) := by
  apply clean_intro
  intro ms
  unfold Mem.lift_pool
  rcases clean_elim h ms.pool with ⟨r, hr⟩ | ⟨e, he, hP⟩
  · rw [hr]; trivial
  · rw [he]; exact hP

/-- A clean run of which every return satisfies `Q`. -/
theorem wpxm_of_clean {α : Type} {P : wrterror_msg → Prop} {m : RunM α}
    {Q : α → mem_state → Prop} {ms : mem_state} (hc : clean P m) (h : wpm m Q ms) :
    wpxm m P False False Q ms := by
  unfold wpxm
  rcases clean_elim hc ms with ⟨r, hr⟩ | ⟨e, he, hP⟩
  · rw [hr]
    exact wpm_run h hr
  · rw [he]
    exact hP

theorem move_abort_waf : move_abort .write_after_free := Or.inl rfl

theorem move_abort_munmap : move_abort .munmap := Or.inr (Or.inl rfl)

theorem move_abort_mprotect : move_abort .mprotect := Or.inr (Or.inr (Or.inl rfl))

theorem move_abort_canary : move_abort .canary_corrupted :=
  Or.inr (Or.inr (Or.inr (Or.inl rfl)))

theorem move_abort_oom : move_abort .out_of_memory :=
  Or.inr (Or.inr (Or.inr (Or.inr rfl)))

theorem clean_getrbyte {P : wrterror_msg → Prop} : clean P getrbyte := by
  unfold getrbyte
  exact clean_bind clean_env_next (fun _ => clean_pure)

theorem clean_os_mmap {ps sz : Nat} : clean move_abort (os_mmap ps sz) := by
  unfold os_mmap
  repeat' first
    | with_reducible exact clean_pure
    | with_reducible exact clean_get
    | with_reducible exact clean_set
    | with_reducible exact clean_modify
    | with_reducible exact clean_env_next
    | with_reducible exact clean_lift clean_env_next
    | with_reducible exact clean_lift clean_modify
    | with_reducible exact clean_lift clean_get
    | with_reducible exact clean_lift clean_pure
    | with_reducible exact clean_wrterror move_abort_oom
    | with_reducible exact clean_lift (clean_wrterror move_abort_waf)
    | with_reducible exact clean_lift (clean_wrterror move_abort_munmap)
    | with_reducible exact clean_lift (clean_wrterror move_abort_mprotect)
    | with_reducible exact clean_lift (clean_wrterror move_abort_canary)
    | with_reducible exact clean_lift (clean_wrterror move_abort_oom)
    | with_reducible apply clean_bind
    | with_reducible apply clean_ite
    | intro _
    | dsimp only

theorem clean_os_mmap_fixed {ps a sz : Nat} : clean move_abort (os_mmap_fixed ps a sz) := by
  unfold os_mmap_fixed
  repeat' first
    | with_reducible exact clean_pure
    | with_reducible exact clean_get
    | with_reducible exact clean_set
    | with_reducible exact clean_modify
    | with_reducible exact clean_env_next
    | with_reducible exact clean_lift clean_env_next
    | with_reducible exact clean_lift clean_modify
    | with_reducible exact clean_lift clean_get
    | with_reducible exact clean_lift clean_pure
    | with_reducible exact clean_wrterror move_abort_oom
    | with_reducible exact clean_lift (clean_wrterror move_abort_waf)
    | with_reducible exact clean_lift (clean_wrterror move_abort_munmap)
    | with_reducible exact clean_lift (clean_wrterror move_abort_mprotect)
    | with_reducible exact clean_lift (clean_wrterror move_abort_canary)
    | with_reducible exact clean_lift (clean_wrterror move_abort_oom)
    | with_reducible apply clean_bind
    | with_reducible apply clean_ite
    | intro _
    | dsimp only

theorem clean_os_munmap {a sz : Nat} : clean move_abort (os_munmap a sz) := by
  unfold os_munmap
  repeat' first
    | with_reducible exact clean_pure
    | with_reducible exact clean_get
    | with_reducible exact clean_set
    | with_reducible exact clean_modify
    | with_reducible exact clean_env_next
    | with_reducible exact clean_lift clean_env_next
    | with_reducible exact clean_lift clean_modify
    | with_reducible exact clean_lift clean_get
    | with_reducible exact clean_lift clean_pure
    | with_reducible exact clean_wrterror move_abort_oom
    | with_reducible exact clean_lift (clean_wrterror move_abort_waf)
    | with_reducible exact clean_lift (clean_wrterror move_abort_munmap)
    | with_reducible exact clean_lift (clean_wrterror move_abort_mprotect)
    | with_reducible exact clean_lift (clean_wrterror move_abort_canary)
    | with_reducible exact clean_lift (clean_wrterror move_abort_oom)
    | with_reducible apply clean_bind
    | with_reducible apply clean_ite
    | intro _
    | dsimp only

theorem clean_os_mprotect : clean move_abort os_mprotect := by
  unfold os_mprotect
  repeat' first
    | with_reducible exact clean_pure
    | with_reducible exact clean_get
    | with_reducible exact clean_set
    | with_reducible exact clean_modify
    | with_reducible exact clean_env_next
    | with_reducible exact clean_lift clean_env_next
    | with_reducible exact clean_lift clean_modify
    | with_reducible exact clean_lift clean_get
    | with_reducible exact clean_lift clean_pure
    | with_reducible exact clean_wrterror move_abort_oom
    | with_reducible exact clean_lift (clean_wrterror move_abort_waf)
    | with_reducible exact clean_lift (clean_wrterror move_abort_munmap)
    | with_reducible exact clean_lift (clean_wrterror move_abort_mprotect)
    | with_reducible exact clean_lift (clean_wrterror move_abort_canary)
    | with_reducible exact clean_lift (clean_wrterror move_abort_oom)
    | with_reducible apply clean_bind
    | with_reducible apply clean_ite
    | intro _
    | dsimp only

theorem clean_access {ps a n : Nat} : clean move_abort (Mem.access ps a n) := by
  unfold Mem.access
  repeat' first
    | with_reducible exact clean_pure
    | with_reducible exact clean_get
    | with_reducible exact clean_set
    | with_reducible exact clean_modify
    | with_reducible exact clean_env_next
    | with_reducible exact clean_lift clean_env_next
    | with_reducible exact clean_lift clean_modify
    | with_reducible exact clean_lift clean_get
    | with_reducible exact clean_lift clean_pure
    | with_reducible exact clean_wrterror move_abort_oom
    | with_reducible exact clean_lift (clean_wrterror move_abort_waf)
    | with_reducible exact clean_lift (clean_wrterror move_abort_munmap)
    | with_reducible exact clean_lift (clean_wrterror move_abort_mprotect)
    | with_reducible exact clean_lift (clean_wrterror move_abort_canary)
    | with_reducible exact clean_lift (clean_wrterror move_abort_oom)
    | with_reducible apply clean_bind
    | with_reducible apply clean_ite
    | intro _
    | dsimp only

theorem clean_memset {ps p c n : Nat} : clean move_abort (Mem.memset ps p c n) := by
  unfold Mem.memset
  repeat' first
    | with_reducible exact clean_pure
    | with_reducible exact clean_get
    | with_reducible exact clean_set
    | with_reducible exact clean_modify
    | with_reducible exact clean_env_next
    | with_reducible exact clean_lift clean_env_next
    | with_reducible exact clean_lift clean_modify
    | with_reducible exact clean_lift clean_get
    | with_reducible exact clean_lift clean_pure
    | with_reducible exact clean_wrterror move_abort_oom
    | with_reducible exact clean_lift (clean_wrterror move_abort_waf)
    | with_reducible exact clean_lift (clean_wrterror move_abort_munmap)
    | with_reducible exact clean_lift (clean_wrterror move_abort_mprotect)
    | with_reducible exact clean_lift (clean_wrterror move_abort_canary)
    | with_reducible exact clean_lift (clean_wrterror move_abort_oom)
    | with_reducible exact clean_access
    | with_reducible apply clean_bind
    | with_reducible apply clean_ite
    | intro _
    | dsimp only

theorem clean_explicit_bzero {ps p n : Nat} : clean move_abort (Mem.explicit_bzero ps p n) :=
  clean_memset

theorem clean_memcpy {ps dst src n : Nat} : clean move_abort (Mem.memcpy ps dst src n) := by
  unfold Mem.memcpy
  repeat' first
    | with_reducible exact clean_pure
    | with_reducible exact clean_get
    | with_reducible exact clean_set
    | with_reducible exact clean_modify
    | with_reducible exact clean_env_next
    | with_reducible exact clean_lift clean_env_next
    | with_reducible exact clean_lift clean_modify
    | with_reducible exact clean_lift clean_get
    | with_reducible exact clean_lift clean_pure
    | with_reducible exact clean_wrterror move_abort_oom
    | with_reducible exact clean_lift (clean_wrterror move_abort_waf)
    | with_reducible exact clean_lift (clean_wrterror move_abort_munmap)
    | with_reducible exact clean_lift (clean_wrterror move_abort_mprotect)
    | with_reducible exact clean_lift (clean_wrterror move_abort_canary)
    | with_reducible exact clean_lift (clean_wrterror move_abort_oom)
    | with_reducible exact clean_access
    | with_reducible apply clean_bind
    | with_reducible apply clean_ite
    | intro _
    | dsimp only

theorem clean_mprotect {ps a sz : Nat} {none : Bool} :
    clean move_abort (Mem.mprotect ps a sz none) := by
  unfold Mem.mprotect
  repeat' first
    | with_reducible exact clean_pure
    | with_reducible exact clean_get
    | with_reducible exact clean_set
    | with_reducible exact clean_modify
    | with_reducible exact clean_env_next
    | with_reducible exact clean_lift clean_env_next
    | with_reducible exact clean_lift clean_modify
    | with_reducible exact clean_lift clean_get
    | with_reducible exact clean_lift clean_pure
    | with_reducible exact clean_wrterror move_abort_oom
    | with_reducible exact clean_lift (clean_wrterror move_abort_waf)
    | with_reducible exact clean_lift (clean_wrterror move_abort_munmap)
    | with_reducible exact clean_lift (clean_wrterror move_abort_mprotect)
    | with_reducible exact clean_lift (clean_wrterror move_abort_canary)
    | with_reducible exact clean_lift (clean_wrterror move_abort_oom)
    | with_reducible apply clean_bind
    | with_reducible apply clean_ite
    | intro _
    | dsimp only

theorem clean_mem_os_mprotect {ps a sz : Nat} {none : Bool} :
    clean move_abort (Mem.os_mprotect ps a sz none) := by
  unfold Mem.os_mprotect
  repeat' first
    | with_reducible exact clean_pure
    | with_reducible exact clean_get
    | with_reducible exact clean_set
    | with_reducible exact clean_modify
    | with_reducible exact clean_env_next
    | with_reducible exact clean_lift clean_env_next
    | with_reducible exact clean_lift clean_modify
    | with_reducible exact clean_lift clean_get
    | with_reducible exact clean_lift clean_pure
    | with_reducible exact clean_wrterror move_abort_oom
    | with_reducible exact clean_lift (clean_wrterror move_abort_waf)
    | with_reducible exact clean_lift (clean_wrterror move_abort_munmap)
    | with_reducible exact clean_lift (clean_wrterror move_abort_mprotect)
    | with_reducible exact clean_lift (clean_wrterror move_abort_canary)
    | with_reducible exact clean_lift (clean_wrterror move_abort_oom)
    | with_reducible exact clean_lift clean_os_mprotect
    | with_reducible exact clean_lift clean_os_mmap
    | with_reducible exact clean_lift clean_os_mmap_fixed
    | with_reducible exact clean_lift clean_os_munmap
    | with_reducible exact clean_mprotect
    | with_reducible apply clean_bind
    | with_reducible apply clean_ite
    | intro _
    | dsimp only

theorem clean_mem_os_mmap {ps sz : Nat} : clean move_abort (Mem.os_mmap ps sz) := by
  unfold Mem.os_mmap
  repeat' first
    | with_reducible exact clean_pure
    | with_reducible exact clean_get
    | with_reducible exact clean_set
    | with_reducible exact clean_modify
    | with_reducible exact clean_env_next
    | with_reducible exact clean_lift clean_env_next
    | with_reducible exact clean_lift clean_modify
    | with_reducible exact clean_lift clean_get
    | with_reducible exact clean_lift clean_pure
    | with_reducible exact clean_wrterror move_abort_oom
    | with_reducible exact clean_lift (clean_wrterror move_abort_waf)
    | with_reducible exact clean_lift (clean_wrterror move_abort_munmap)
    | with_reducible exact clean_lift (clean_wrterror move_abort_mprotect)
    | with_reducible exact clean_lift (clean_wrterror move_abort_canary)
    | with_reducible exact clean_lift (clean_wrterror move_abort_oom)
    | with_reducible exact clean_lift clean_os_mprotect
    | with_reducible exact clean_lift clean_os_mmap
    | with_reducible exact clean_lift clean_os_mmap_fixed
    | with_reducible exact clean_lift clean_os_munmap
    | with_reducible exact clean_mprotect
    | with_reducible apply clean_bind
    | with_reducible apply clean_ite
    | intro _
    | dsimp only

theorem clean_mem_os_mmap_fixed {ps a sz : Nat} :
    clean move_abort (Mem.os_mmap_fixed ps a sz) := by
  unfold Mem.os_mmap_fixed
  repeat' first
    | with_reducible exact clean_pure
    | with_reducible exact clean_get
    | with_reducible exact clean_set
    | with_reducible exact clean_modify
    | with_reducible exact clean_env_next
    | with_reducible exact clean_lift clean_env_next
    | with_reducible exact clean_lift clean_modify
    | with_reducible exact clean_lift clean_get
    | with_reducible exact clean_lift clean_pure
    | with_reducible exact clean_wrterror move_abort_oom
    | with_reducible exact clean_lift (clean_wrterror move_abort_waf)
    | with_reducible exact clean_lift (clean_wrterror move_abort_munmap)
    | with_reducible exact clean_lift (clean_wrterror move_abort_mprotect)
    | with_reducible exact clean_lift (clean_wrterror move_abort_canary)
    | with_reducible exact clean_lift (clean_wrterror move_abort_oom)
    | with_reducible exact clean_lift clean_os_mprotect
    | with_reducible exact clean_lift clean_os_mmap
    | with_reducible exact clean_lift clean_os_mmap_fixed
    | with_reducible exact clean_lift clean_os_munmap
    | with_reducible exact clean_mprotect
    | with_reducible apply clean_bind
    | with_reducible apply clean_ite
    | intro _
    | dsimp only

theorem clean_mem_os_munmap {ps a sz : Nat} : clean move_abort (Mem.os_munmap ps a sz) := by
  unfold Mem.os_munmap
  repeat' first
    | with_reducible exact clean_pure
    | with_reducible exact clean_get
    | with_reducible exact clean_set
    | with_reducible exact clean_modify
    | with_reducible exact clean_env_next
    | with_reducible exact clean_lift clean_env_next
    | with_reducible exact clean_lift clean_modify
    | with_reducible exact clean_lift clean_get
    | with_reducible exact clean_lift clean_pure
    | with_reducible exact clean_wrterror move_abort_oom
    | with_reducible exact clean_lift (clean_wrterror move_abort_waf)
    | with_reducible exact clean_lift (clean_wrterror move_abort_munmap)
    | with_reducible exact clean_lift (clean_wrterror move_abort_mprotect)
    | with_reducible exact clean_lift (clean_wrterror move_abort_canary)
    | with_reducible exact clean_lift (clean_wrterror move_abort_oom)
    | with_reducible exact clean_lift clean_os_mprotect
    | with_reducible exact clean_lift clean_os_mmap
    | with_reducible exact clean_lift clean_os_mmap_fixed
    | with_reducible exact clean_lift clean_os_munmap
    | with_reducible exact clean_mprotect
    | with_reducible apply clean_bind
    | with_reducible apply clean_ite
    | intro _
    | dsimp only

theorem clean_fill_canary {ps ptr sz allocated : Nat} {mopts : malloc_readonly} :
    clean move_abort (Mem.fill_canary ps mopts ptr sz allocated) := by
  unfold Mem.fill_canary
  repeat' first
    | with_reducible exact clean_pure
    | with_reducible exact clean_get
    | with_reducible exact clean_set
    | with_reducible exact clean_modify
    | with_reducible exact clean_env_next
    | with_reducible exact clean_lift clean_env_next
    | with_reducible exact clean_lift clean_modify
    | with_reducible exact clean_lift clean_get
    | with_reducible exact clean_lift clean_pure
    | with_reducible exact clean_wrterror move_abort_oom
    | with_reducible exact clean_lift (clean_wrterror move_abort_waf)
    | with_reducible exact clean_lift (clean_wrterror move_abort_munmap)
    | with_reducible exact clean_lift (clean_wrterror move_abort_mprotect)
    | with_reducible exact clean_lift (clean_wrterror move_abort_canary)
    | with_reducible exact clean_lift (clean_wrterror move_abort_oom)
    | with_reducible exact clean_access
    | with_reducible apply clean_bind
    | with_reducible apply clean_ite
    | intro _
    | dsimp only

theorem validate_canary_mem_outcome (mopts : malloc_readonly) (mem : Nat → Nat)
    (ptr sz allocated : Nat) :
    validate_canary_mem mopts mem ptr sz allocated = .ok () ∨
      validate_canary_mem mopts mem ptr sz allocated = .abort .canary_corrupted := by
  unfold validate_canary_mem
  dsimp only
  split <;> split <;> first | exact Or.inl rfl | exact Or.inr rfl

theorem clean_validate_canary {ps ptr sz allocated : Nat} {mopts : malloc_readonly} :
    clean move_abort (Mem.validate_canary ps mopts ptr sz allocated) := by
  unfold Mem.validate_canary
  dsimp only
  apply clean_bind clean_access
  intro _
  apply clean_bind clean_get
  intro ms
  apply clean_lift
  apply clean_lift_outcome
  rcases validate_canary_mem_outcome mopts ms.mem ptr sz allocated with h | h
  · exact Or.inl ⟨_, h⟩
  · exact Or.inr ⟨_, h, move_abort_canary⟩

theorem clean_validate_junk {ps p sz : Nat} {mopts : malloc_readonly} (hsz : sz < 2 ^ 64) :
    clean move_abort (Mem.validate_junk ps mopts p sz) := by
  unfold Mem.validate_junk
  apply clean_bind clean_get
  intro ms
  obtain ⟨o, rs, ho, hor⟩ := validate_junk_mem_total ps mopts ms.pool.d.malloc_junk sz
    (region_words ms.mem p) hsz
  rw [ho]
  dsimp only
  apply clean_bind clean_modify
  intro _
  apply clean_lift
  apply clean_lift_outcome
  rcases hor with h | h
  · exact Or.inl ⟨_, h⟩
  · exact Or.inr ⟨_, h, move_abort_waf⟩

theorem clean_junk_free {ps junk p sz : Nat} {mopts : malloc_readonly} (hsz : sz < 2 ^ 64) :
    clean move_abort (Mem.junk_free ps mopts junk p sz) := by
  unfold Mem.junk_free
  apply clean_bind clean_get
  intro ms
  obtain ⟨memJ, ws, hj, _⟩ := junk_free_mem_words ps mopts junk sz (region_words ms.mem p) hsz
  rw [hj]
  exact clean_modify

theorem clean_EPILOGUE {mopts : malloc_readonly} {e r : Nat} :
    clean move_abort (EPILOGUE mopts e r) := by
  unfold EPILOGUE
  repeat' first
    | with_reducible exact clean_pure
    | with_reducible exact clean_get
    | with_reducible exact clean_set
    | with_reducible exact clean_modify
    | with_reducible exact clean_env_next
    | with_reducible exact clean_lift clean_env_next
    | with_reducible exact clean_lift clean_modify
    | with_reducible exact clean_lift clean_get
    | with_reducible exact clean_lift clean_pure
    | with_reducible exact clean_wrterror move_abort_oom
    | with_reducible exact clean_lift (clean_wrterror move_abort_waf)
    | with_reducible exact clean_lift (clean_wrterror move_abort_munmap)
    | with_reducible exact clean_lift (clean_wrterror move_abort_mprotect)
    | with_reducible exact clean_lift (clean_wrterror move_abort_canary)
    | with_reducible exact clean_lift (clean_wrterror move_abort_oom)
    | with_reducible apply clean_bind
    | with_reducible apply clean_ite
    | intro _
    | dsimp only

theorem clean_unmap_small {ps p sz psz clear : Nat} {mopts : malloc_readonly}
    (hsz : sz < 2 ^ 64) : clean move_abort (Mem.unmap_small ps mopts p sz psz clear) := by
  unfold Mem.unmap_small
  repeat' first
    | with_reducible exact clean_pure
    | with_reducible exact clean_get
    | with_reducible exact clean_set
    | with_reducible exact clean_modify
    | with_reducible exact clean_env_next
    | with_reducible exact clean_lift clean_env_next
    | with_reducible exact clean_lift clean_modify
    | with_reducible exact clean_lift clean_get
    | with_reducible exact clean_lift clean_pure
    | with_reducible exact clean_wrterror move_abort_oom
    | with_reducible exact clean_lift (clean_wrterror move_abort_waf)
    | with_reducible exact clean_lift (clean_wrterror move_abort_munmap)
    | with_reducible exact clean_lift (clean_wrterror move_abort_mprotect)
    | with_reducible exact clean_lift (clean_wrterror move_abort_canary)
    | with_reducible exact clean_lift (clean_wrterror move_abort_oom)
    | with_reducible exact clean_lift clean_getrbyte
    | with_reducible exact clean_validate_junk hsz
    | with_reducible exact clean_mem_os_munmap
    | with_reducible exact clean_explicit_bzero
    | with_reducible exact clean_mprotect
    | with_reducible exact clean_junk_free hsz
    | with_reducible exact clean_mem_os_mmap
    | with_reducible exact clean_memset
    | with_reducible apply clean_bind
    | with_reducible apply clean_ite
    | intro _
    | dsimp only

theorem clean_map_big {ps sz psz zero_fill : Nat} {mopts : malloc_readonly}
    (hsz : sz < 2 ^ 64) : clean move_abort (Mem.map_big ps mopts sz psz zero_fill) := by
  unfold Mem.map_big
  apply clean_bind (clean_lift clean_getrbyte)
  intro base
  apply clean_bind (clean_lift clean_get)
  intro s
  split
  · exact clean_pure
  repeat' first
    | with_reducible exact clean_pure
    | with_reducible exact clean_get
    | with_reducible exact clean_set
    | with_reducible exact clean_modify
    | with_reducible exact clean_env_next
    | with_reducible exact clean_lift clean_env_next
    | with_reducible exact clean_lift clean_modify
    | with_reducible exact clean_lift clean_get
    | with_reducible exact clean_lift clean_pure
    | with_reducible exact clean_wrterror move_abort_oom
    | with_reducible exact clean_lift (clean_wrterror move_abort_waf)
    | with_reducible exact clean_lift (clean_wrterror move_abort_munmap)
    | with_reducible exact clean_lift (clean_wrterror move_abort_mprotect)
    | with_reducible exact clean_lift (clean_wrterror move_abort_canary)
    | with_reducible exact clean_lift (clean_wrterror move_abort_oom)
    | with_reducible exact clean_lift clean_getrbyte
    | with_reducible exact clean_validate_junk hsz
    | with_reducible exact clean_mem_os_munmap
    | with_reducible exact clean_explicit_bzero
    | with_reducible exact clean_mprotect
    | with_reducible exact clean_junk_free hsz
    | with_reducible exact clean_mem_os_mmap
    | with_reducible exact clean_memset
    | with_reducible apply clean_bind
    | with_reducible apply clean_ite
    | intro _
    | dsimp only

theorem clean_map_small {ps sz psz zero_fill : Nat} {mopts : malloc_readonly}
    (hsz : sz < 2 ^ 64) : clean move_abort (Mem.map_small ps mopts sz psz zero_fill) := by
  unfold Mem.map_small
  repeat' first
    | with_reducible exact clean_pure
    | with_reducible exact clean_get
    | with_reducible exact clean_set
    | with_reducible exact clean_modify
    | with_reducible exact clean_env_next
    | with_reducible exact clean_lift clean_env_next
    | with_reducible exact clean_lift clean_modify
    | with_reducible exact clean_lift clean_get
    | with_reducible exact clean_lift clean_pure
    | with_reducible exact clean_wrterror move_abort_oom
    | with_reducible exact clean_lift (clean_wrterror move_abort_waf)
    | with_reducible exact clean_lift (clean_wrterror move_abort_munmap)
    | with_reducible exact clean_lift (clean_wrterror move_abort_mprotect)
    | with_reducible exact clean_lift (clean_wrterror move_abort_canary)
    | with_reducible exact clean_lift (clean_wrterror move_abort_oom)
    | with_reducible exact clean_lift clean_getrbyte
    | with_reducible exact clean_validate_junk hsz
    | with_reducible exact clean_mem_os_munmap
    | with_reducible exact clean_explicit_bzero
    | with_reducible exact clean_mprotect
    | with_reducible exact clean_junk_free hsz
    | with_reducible exact clean_mem_os_mmap
    | with_reducible exact clean_memset
    | with_reducible apply clean_bind
    | with_reducible apply clean_ite
    | intro _
    | dsimp only

/-! ## The size of the big cache is fixed -/

theorem getrbyte_sf :
    keeps size_frame getrbyte := by
  unfold getrbyte
  apply keeps_intro
  intro z s Q h hQ
  repeat' first
    | with_reducible apply wp_ite_i
    | with_reducible apply wp_bind_i
    | with_reducible apply wp_env_next_i
    | with_reducible apply wp_pure_i
    | with_reducible apply wp_get_i
    | with_reducible apply wp_set_i
    | with_reducible apply wp_modify_i
    | with_reducible exact wp_wrterror_i
    | with_reducible exact wp_diverges_i
    | with_reducible exact wp_undefined_i
    | with_reducible apply wp_lift_outcome_i
    | with_reducible assumption
    | with_reducible apply hQ
    | intro _
    | split
    | dsimp only

theorem os_mmap_sf {ps sz : Nat} :
    keeps size_frame (os_mmap ps sz) := by
  unfold os_mmap
  apply keeps_intro
  intro z s Q h hQ
  repeat' first
    | with_reducible apply wp_ite_i
    | with_reducible apply wp_bind_i
    | with_reducible apply wp_env_next_i
    | with_reducible apply wp_pure_i
    | with_reducible apply wp_get_i
    | with_reducible apply wp_set_i
    | with_reducible apply wp_modify_i
    | with_reducible exact wp_wrterror_i
    | with_reducible exact wp_diverges_i
    | with_reducible exact wp_undefined_i
    | with_reducible apply wp_lift_outcome_i
    | with_reducible assumption
    | with_reducible apply hQ
    | intro _
    | split
    | dsimp only

theorem os_munmap_sf {a sz : Nat} :
    keeps size_frame (os_munmap a sz) := by
  unfold os_munmap
  apply keeps_intro
  intro z s Q h hQ
  repeat' first
    | with_reducible apply wp_ite_i
    | with_reducible apply wp_bind_i
    | with_reducible apply wp_env_next_i
    | with_reducible apply wp_pure_i
    | with_reducible apply wp_get_i
    | with_reducible apply wp_set_i
    | with_reducible apply wp_modify_i
    | with_reducible exact wp_wrterror_i
    | with_reducible exact wp_diverges_i
    | with_reducible exact wp_undefined_i
    | with_reducible apply wp_lift_outcome_i
    | with_reducible assumption
    | with_reducible apply hQ
    | intro _
    | split
    | dsimp only

theorem os_mprotect_sf :
    keeps size_frame os_mprotect := by
  unfold os_mprotect
  apply keeps_intro
  intro z s Q h hQ
  repeat' first
    | with_reducible apply wp_ite_i
    | with_reducible apply wp_bind_i
    | with_reducible apply wp_env_next_i
    | with_reducible apply wp_pure_i
    | with_reducible apply wp_get_i
    | with_reducible apply wp_set_i
    | with_reducible apply wp_modify_i
    | with_reducible exact wp_wrterror_i
    | with_reducible exact wp_diverges_i
    | with_reducible exact wp_undefined_i
    | with_reducible apply wp_lift_outcome_i
    | with_reducible assumption
    | with_reducible apply hQ
    | intro _
    | split
    | dsimp only

theorem validate_junk_sf {p sz : Nat} :
    keeps size_frame (validate_junk p sz) := by
  unfold validate_junk
  apply keeps_intro
  intro z s Q h hQ
  repeat' first
    | with_reducible apply wp_ite_i
    | with_reducible apply wp_bind_i
    | with_reducible apply wp_env_next_i
    | with_reducible apply wp_pure_i
    | with_reducible apply wp_get_i
    | with_reducible apply wp_set_i
    | with_reducible apply wp_modify_i
    | with_reducible exact wp_wrterror_i
    | with_reducible exact wp_diverges_i
    | with_reducible exact wp_undefined_i
    | with_reducible apply wp_lift_outcome_i
    | with_reducible assumption
    | with_reducible apply hQ
    | intro _
    | split
    | dsimp only

theorem unmap_big_sf {ps p sz psz : Nat} {mopts : malloc_readonly} :
    keeps size_frame (unmap_big ps mopts p sz psz) := by
  unfold unmap_big
  apply keeps_intro
  intro z s Q h hQ
  repeat' first
    | with_reducible apply wp_ite_i
    | with_reducible apply wp_bind_i
    | with_reducible apply wp_env_next_i
    | with_reducible apply wp_pure_i
    | with_reducible apply wp_get_i
    | with_reducible apply wp_set_i
    | with_reducible apply wp_modify_i
    | with_reducible exact wp_wrterror_i
    | with_reducible exact wp_diverges_i
    | with_reducible exact wp_undefined_i
    | with_reducible apply wp_lift_outcome_i
    | with_reducible apply keeps_wp z getrbyte_sf
    | with_reducible apply keeps_wp z validate_junk_sf
    | with_reducible apply keeps_wp z os_munmap_sf
    | with_reducible apply keeps_wp z os_mprotect_sf
    | with_reducible assumption
    | with_reducible apply hQ
    | intro _
    | split
    | dsimp only

theorem unmap_small_sf {mopts : malloc_readonly} {p sz psz : Nat} :
    keeps size_frame (unmap_small mopts p sz psz) := by
  unfold unmap_small
  repeat' first
    | with_reducible apply keeps_ite
    | with_reducible apply keeps_bind
    | with_reducible exact keeps_pure
    | with_reducible exact keeps_get
    | with_reducible exact keeps_wrterror
    | with_reducible exact keeps_diverges
    | with_reducible exact keeps_undefined
    | with_reducible exact keeps_lift_outcome
    | with_reducible apply keeps_modify
    | with_reducible exact getrbyte_sf
    | with_reducible exact validate_junk_sf
    | with_reducible exact os_munmap_sf
    | with_reducible assumption
    | intro _
    | split
    | dsimp only

theorem unmap_sf {ps p sz clear : Nat} {mopts : malloc_readonly} :
    keeps size_frame (unmap ps mopts p sz clear) := by
  unfold unmap
  repeat' first
    | with_reducible apply keeps_ite
    | with_reducible apply keeps_bind
    | with_reducible exact keeps_pure
    | with_reducible exact keeps_get
    | with_reducible exact keeps_wrterror
    | with_reducible exact keeps_diverges
    | with_reducible exact keeps_undefined
    | with_reducible exact keeps_lift_outcome
    | with_reducible apply keeps_modify
    | with_reducible exact unmap_big_sf
    | with_reducible exact unmap_small_sf
    | with_reducible exact os_munmap_sf
    | with_reducible assumption
    | intro _
    | split
    | dsimp only

theorem map_big_sf {mopts : malloc_readonly} {sz psz : Nat} :
    keeps size_frame (map_big mopts sz psz) := by
  unfold map_big
  apply keeps_intro
  intro z s Q h hQ
  repeat' first
    | with_reducible apply wp_ite_i
    | with_reducible apply wp_bind_i
    | with_reducible apply wp_env_next_i
    | with_reducible apply wp_pure_i
    | with_reducible apply wp_get_i
    | with_reducible apply wp_set_i
    | with_reducible apply wp_modify_i
    | with_reducible exact wp_wrterror_i
    | with_reducible exact wp_diverges_i
    | with_reducible exact wp_undefined_i
    | with_reducible apply wp_lift_outcome_i
    | with_reducible apply keeps_wp z getrbyte_sf
    | with_reducible apply keeps_wp z validate_junk_sf
    | with_reducible assumption
    | with_reducible apply hQ
    | intro _
    | split
    | dsimp only

theorem map_small_sf {ps sz psz : Nat} {mopts : malloc_readonly} :
    keeps size_frame (map_small ps mopts sz psz) := by
  unfold map_small
  repeat' first
    | with_reducible apply keeps_ite
    | with_reducible apply keeps_bind
    | with_reducible exact keeps_pure
    | with_reducible exact keeps_get
    | with_reducible exact keeps_wrterror
    | with_reducible exact keeps_diverges
    | with_reducible exact keeps_undefined
    | with_reducible exact keeps_lift_outcome
    | with_reducible apply keeps_modify
    | with_reducible exact getrbyte_sf
    | with_reducible exact validate_junk_sf
    | with_reducible exact os_mmap_sf
    | with_reducible assumption
    | intro _
    | split
    | dsimp only

theorem map_sf {ps sz zero_fill : Nat} {mopts : malloc_readonly} :
    keeps size_frame (map ps mopts sz zero_fill) := by
  unfold map
  repeat' first
    | with_reducible apply keeps_ite
    | with_reducible apply keeps_bind
    | with_reducible exact keeps_pure
    | with_reducible exact keeps_get
    | with_reducible exact keeps_wrterror
    | with_reducible exact keeps_diverges
    | with_reducible exact keeps_undefined
    | with_reducible exact keeps_lift_outcome
    | with_reducible apply keeps_modify
    | with_reducible exact map_big_sf
    | with_reducible exact map_small_sf
    | with_reducible exact os_mmap_sf
    | with_reducible assumption
    | intro _
    | split
    | dsimp only

theorem omalloc_grow_pool_sf {ps : Nat} {mopts : malloc_readonly} :
    keeps size_frame (omalloc_grow_pool ps mopts) := by
  unfold omalloc_grow_pool
  repeat' first
    | with_reducible apply keeps_ite
    | with_reducible apply keeps_bind
    | with_reducible exact keeps_pure
    | with_reducible exact keeps_get
    | with_reducible exact keeps_wrterror
    | with_reducible exact keeps_diverges
    | with_reducible exact keeps_undefined
    | with_reducible exact keeps_lift_outcome
    | with_reducible apply keeps_modify
    | with_reducible exact os_mmap_sf
    | with_reducible exact unmap_sf
    | with_reducible assumption
    | intro _
    | split
    | dsimp only

theorem insert_pool_sf {ps p sz f : Nat} {mopts : malloc_readonly} :
    keeps size_frame (insert_pool ps mopts p sz f) := by
  unfold insert_pool
  apply keeps_intro
  intro z s Q h hQ
  repeat' first
    | with_reducible apply wp_ite_i
    | with_reducible apply wp_bind_i
    | with_reducible apply wp_env_next_i
    | with_reducible apply wp_pure_i
    | with_reducible apply wp_get_i
    | with_reducible apply wp_set_i
    | with_reducible apply wp_modify_i
    | with_reducible exact wp_wrterror_i
    | with_reducible exact wp_diverges_i
    | with_reducible exact wp_undefined_i
    | with_reducible apply wp_lift_outcome_i
    | with_reducible apply keeps_wp z omalloc_grow_pool_sf
    | with_reducible assumption
    | with_reducible apply hQ
    | intro _
    | split
    | dsimp only

/-! ## `omalloc` of a region of pages, on the pool -/

theorem omalloc_grow_pool_failed {ps : Nat} {mopts : malloc_readonly} {s : pool_state} :
    wp (omalloc_grow_pool ps mopts) (fun rc s' => rc ≠ 0 → s'.d = s.d) s := by
  unfold omalloc_grow_pool
  apply wp_bind_i
  apply wp_get_i
  apply wp_ite_i
  · intro _
    apply wp_pure_i
    intro _
    rfl
  intro _
  dsimp only
  apply wp_bind_i
  apply keeps_wp s os_mmap_core (core_frame_refl s)
  intro q s1 h1
  apply wp_ite_i
  · intro _
    apply wp_pure_i
    intro _
    exact h1.1
  intro _
  apply wp_bind_i
  apply wp_any
  intro g s2
  have hfin : ∀ s3 : pool_state, wp (do
      modify (fun s => { s with d := g.2, r_addr := q })
      pure 0 : Run Nat) (fun rc s' => rc ≠ 0 → s'.d = s.d) s3 := by
    intro s3
    apply wp_bind_i
    apply wp_modify_i
    apply wp_pure_i
    intro h
    exact absurd rfl h
  apply wp_ite_i
  · intro _
    apply wp_bind_i
    apply wp_any
    intro _ s3
    exact hfin s3
  · intro _
    apply wp_bind_i
    apply wp_pure_i
    exact hfin _

/-- A failed `insert` leaves the directory as it was. -/
theorem insert_pool_failed {ps p sz f : Nat} {mopts : malloc_readonly} {s : pool_state} :
    wp (insert_pool ps mopts p sz f) (fun rc s' => rc ≠ 0 → s'.d = s.d) s := by
  unfold insert_pool
  apply wp_bind_i
  apply wp_get_i
  apply wp_bind_i
  apply @wp_mono _ _ (fun rc s' => rc ≠ 0 → s'.d = s.d)
  · apply wp_ite_i
    · intro _
      exact omalloc_grow_pool_failed
    · intro _
      apply wp_pure_i
      intro h
      exact absurd rfl h
  intro rc s1 h1
  apply wp_ite_i
  · intro hrc
    apply wp_pure_i
    intro _
    exact h1 hrc
  intro _
  apply wp_bind_i
  apply wp_get_i
  dsimp only
  split
  · exact wp_diverges_i
  · apply wp_bind_i
    apply wp_set_i
    apply wp_pure_i
    intro h
    exact absurd rfl h

/-- `map` of more than a page returns no null page, and a run of pages that ends inside
the address space, when that holds of the cached runs. -/
theorem map_nonnull {ps : Nat} {mopts : malloc_readonly} {sz zero_fill : Nat} {s : pool_state}
    (hps : 1 ≤ ps) (hps16 : ps ≤ 16) (hnn : cache_nonnull ps s)
    (hbig : MALLOC_PAGESIZE ps < sz) :
    wp (map ps mopts sz zero_fill)
      (fun p _ => p ≠ 0 ∧ (p ≠ MAP_FAILED → p + sz ≤ 2 ^ 64)) s := by
  have hpos : 0 < MALLOC_PAGESIZE ps := by
    rw [MALLOC_PAGESIZE_eq]; exact Nat.pow_pos (by norm_num)
  unfold map
  dsimp only
  apply wp_bind_i
  apply wp_get_i
  apply wp_ite_i
  · intro _; exact wp_wrterror_i
  intro _
  apply wp_ite_i
  · intro _; exact wp_wrterror_i
  intro hround
  obtain ⟨hsz, hpsz, hsz64⟩ := map_size hps16 hround
  apply wp_bind_i
  apply @wp_mono _ _ (fun big s1 => s1.smallcache = s.smallcache ∧ s1.mapped = s.mapped ∧
    ∀ p, big = some p → p ≠ 0 ∧ p + sz ≤ 2 ^ 64)
  · apply wp_ite_i
    · intro _
      apply wp_mono (map_big_fresh (by omega))
      rintro r s1 ⟨_, hm, hsc, _, hsome⟩
      refine ⟨hsc, hm, ?_⟩
      intro p hp
      obtain ⟨e, he, hep, hpage⟩ := hsome p hp
      rw [← hpage]
      have := hnn.2 e he (by rw [hep]; omega)
      rw [hep, ← hsz] at this
      exact this
    · intro _
      apply wp_pure_i
      exact ⟨rfl, rfl, fun p hp => Option.noConfusion hp⟩
  rintro big s1 ⟨hsc1, hm1, hbigs⟩
  cases big with
  | some p =>
    dsimp only
    apply wp_pure_i
    exact ⟨(hbigs p rfl).1, fun _ => (hbigs p rfl).2⟩
  | none =>
    dsimp only
    apply wp_bind_i
    apply wp_get_i
    apply wp_bind_i
    apply @wp_mono _ _ (fun small s2 => (small = none → s2.mapped = s.mapped) ∧
      ∀ p, small = some p → p ≠ 0 ∧ p + sz ≤ 2 ^ 64)
    · apply wp_ite_i
      · intro hcond
        apply wp_mono (map_small_fresh hps)
        rintro small s2 ⟨_, _, hnone, _, hsome⟩
        refine ⟨fun h => by rw [(hnone h).1, hm1], ?_⟩
        intro p hp
        rw [hsc1] at hsome
        rcases hsome p hp with ⟨j, hj, hpj⟩ | ⟨hp1, _⟩
        · rw [hpj]
          have := hnn.1 _ j hj
          rw [show sz >>> ps - 1 + 1 = sz >>> ps by omega, ← hsz] at this
          exact this
        · exfalso
          have h1 : sz >>> ps = 1 := by omega
          rw [h1, Nat.one_mul] at hsz
          omega
      · intro _
        apply wp_pure_i
        exact ⟨fun _ => hm1, fun p hp => Option.noConfusion hp⟩
    rintro small s2 ⟨hnone, hsome⟩
    cases small with
    | some p =>
      dsimp only
      apply wp_pure_i
      exact ⟨(hsome p rfl).1, fun _ => (hsome p rfl).2⟩
    | none =>
      dsimp only
      apply wp_mono (os_mmap_fresh hps)
      rintro p s3 ⟨_, _, _, _, _, _, hok⟩
      by_cases hp : p = MAP_FAILED
      · rw [hp]
        exact ⟨by decide, fun h => absurd rfl h⟩
      · have hfr := mmap_free_pages (hok hp).1
        refine ⟨hfr.2.1, fun _ => ?_⟩
        have := hfr.2.2.2
        rw [hsz, howmany_mul _ _ hpos, ← hsz] at this
        exact this

/-- `omalloc` of more than a page from a consistent pool, without guard pages.  It
returns `NULL` with `ENOMEM` and the directory as it was; or a page-aligned pointer to
pages that were pages of no region, which `insert` has put into the directory with the
size asked for.  The big cache stays consistent and keeps its size. -/
theorem omalloc_large_moved {ps : Nat} {mopts : malloc_readonly} {n f : Nat} {s : pool_state}
    (hps : 5 ≤ ps) (hps16 : ps ≤ 16) (hg0 : mopts.malloc_guard = 0)
    (hbig : MALLOC_PAGESIZE ps < n) (hlimit : n < SIZE_MAX - MALLOC_PAGESIZE ps)
    (hok : region_pool_ok ps mopts s) :
    wp (omalloc ps mopts n 0 f)
      (fun q s' => bigcache_ok s' ∧ s'.bigcache_size = s.bigcache_size ∧
        ((q = 0 ∧ s'.d = s.d ∧ s'.errno = ENOMEM) ∨
         (q ≠ 0 ∧ q + PAGEROUND ps n ≤ 2 ^ 64 ∧ q % 2 ^ ps = 0 ∧
          (∀ x ∈ page_list ps q (PAGEROUND ps n), ∀ y < s.d.r.length, (slot s.d.r y).p ≠ 0 →
            x ∉ region_pages ps (slot s.d.r y)) ∧
          insert ps s.d q n f true = .ok (0, s'.d)))) s := by
  obtain ⟨hwf, hmin, hmax, hal, hown, hsc, hbc, hbo, hb1, hb2, hnn⟩ := hok
  have hP := MALLOC_PAGESIZE_eq ps
  have hM := MALLOC_MAXCHUNK_eq ps
  have hMP : 2 ^ (ps - 1) < 2 ^ ps := Nat.pow_lt_pow_right (by norm_num) (by omega)
  have hle : 2 ^ ps ≤ 2 ^ 16 := Nat.pow_le_pow_right (by norm_num) hps16
  obtain ⟨hlim, _, _⟩ := @limit_eq ps mopts (by omega) (Or.inl hg0)
  unfold SIZE_MAX at hlimit
  rw [hP] at hbig hlimit
  have hadd : add64 n mopts.malloc_guard = n := by
    rw [hg0, add64_eq _ _ (by omega)]; rfl
  obtain ⟨n1, n2, qn, n3⟩ := PAGEROUND_bounds ps n (by omega) (by omega)
  have hmc : MALLOC_MOVE_COND ps mopts n = false := by
    have := MALLOC_MOVE_COND_eq ps mopts n (by omega)
    rw [hadd] at this
    rw [this, hP]
    exact decide_eq_false (by omega)
  unfold omalloc
  rw [if_pos (by rw [hM]; omega), if_neg (by rw [hlim, hg0]; omega)]
  dsimp only
  rw [hadd]
  apply wp_bind_i
  apply wp_mono (wp_and (wp_and (wp_and (map_fresh (by omega) hps16 hown hsc hbc)
      (map_nonnull (by omega) hps16 hnn (by rw [hP]; omega)))
    (wp_and (keeps_wp (Q := fun _ s' => bigcache_ok s') s map_bc hbo (fun _ _ h => h))
      (keeps_wp (Q := fun _ s' => s'.bigcache_size = s.bigcache_size) s map_sf rfl
        (fun _ _ h => h))))
    (map_al (Q := fun a s' => pool_aligned ps s' ∧ (a = MAP_FAILED ∨ a % 2 ^ ps = 0))
      (by omega) hal (fun a s' h1 h2 => ⟨h1, h2⟩)))
  rintro p s1 ⟨⟨⟨⟨hc1, hmap1, hfresh⟩, hp0⟩, hbo1, hsf1⟩, hal1, hpal⟩
  apply wp_ite_i
  · intro _
    apply wp_bind_i
    apply wp_modify_i
    apply wp_pure_i
    exact ⟨bigcache_ok_of_eq hbo1 rfl rfl rfl, hsf1, Or.inl ⟨rfl, hc1.1, rfl⟩⟩
  intro hne
  have hpa := mmap_ok hpal hne
  obtain ⟨hp64, hpages⟩ := hfresh hne
  apply wp_bind_i
  apply wp_mono (wp_and (wp_and (insert_pool_insert (dir_wf_of_core hc1 hwf))
      (@insert_pool_failed ps p n f mopts s1))
    (wp_and (keeps_wp (Q := fun _ s' => bigcache_ok s') s insert_pool_bc hbo1 (fun _ _ h => h))
      (keeps_wp (Q := fun _ s' => s'.bigcache_size = s.bigcache_size) s insert_pool_sf hsf1
        (fun _ _ h => h))))
  rintro rc s2 ⟨⟨hins, hfail⟩, hbo2, hsf2⟩
  apply wp_ite_i
  · intro hrc
    apply wp_bind_i
    apply wp_mono (wp_and (wp_and
      (keeps_wp (Q := fun _ s' => bigcache_ok s') s unmap_bc hbo2 (fun _ _ h => h))
      (keeps_wp (Q := fun _ s' => s'.bigcache_size = s.bigcache_size) s unmap_sf hsf2
        (fun _ _ h => h)))
      (keeps_wp (Q := fun _ s' => core_frame s2 s') s2 unmap_core (core_frame_refl s2)
        (fun _ _ h => h)))
    rintro _ s3 ⟨⟨hbo3, hsf3⟩, hc3⟩
    apply wp_bind_i
    apply wp_modify_i
    apply wp_pure_i
    refine ⟨bigcache_ok_of_eq hbo3 rfl rfl rfl, hsf3, Or.inl ⟨rfl, ?_, rfl⟩⟩
    show s3.d = s.d
    rw [hc3.1, hfail hrc, hc1.1]
  intro hrc
  have hrc0 : rc = 0 := by
    by_contra hc
    exact hrc hc
  have hi := hins hrc0
  rw [hc1.1] at hi
  apply wp_ite_i
  · intro hg
    exact absurd hg0 hg
  intro _
  apply wp_bind_i
  apply wp_pure_i
  rw [hmc]
  apply wp_ite_i
  · intro h
    exact absurd h (by simp)
  intro _
  apply wp_pure_i
  exact ⟨hbo2, hsf2, Or.inr ⟨hp0.1, hp0.2 hne, hpa, hpages, hi⟩⟩

/-! ## Where a run stores -/

theorem confined_intro {α : Type} {W : Nat → Prop} {m : RunM α}
    (h : ∀ ms a ms', m ms = .ok (a, ms') → ∀ x, ¬ W x → ms'.mem x = ms.mem x) :
    confined W m := by
  unfold confined
  exact h

theorem confined_elim {α : Type} {W : Nat → Prop} {m : RunM α} (h : confined W m)
    {ms ms' : mem_state} {a : α} (hr : m ms = .ok (a, ms')) {x : Nat} (hx : ¬ W x) :
    ms'.mem x = ms.mem x := by
  unfold confined at h
  exact h ms a ms' hr x hx

theorem confined_wpm {α : Type} {W : Nat → Prop} {m : RunM α} (h : confined W m)
    (ms : mem_state) : wpm m (fun _ ms' => ∀ x, ¬ W x → ms'.mem x = ms.mem x) ms :=
  wpm_intro (fun _ _ hr _ hx => confined_elim h hr hx)

theorem confined_pure {α : Type} {W : Nat → Prop} {a : α} : confined W (pure a : RunM α) := by
  apply confined_intro
  intro ms b ms' h x _
  have h2 : Outcome.ok (a, ms) = Outcome.ok (b, ms') := h
  injection h2 with h2
  injection h2 with _ h3
  rw [h3]

theorem confined_get {W : Nat → Prop} : confined W (get : RunM mem_state) := by
  apply confined_intro
  intro ms b ms' h x _
  have h2 : Outcome.ok (ms, ms) = Outcome.ok (b, ms') := h
  injection h2 with h2
  injection h2 with _ h3
  rw [h3]

theorem confined_modify {W : Nat → Prop} {g : mem_state → mem_state}
    (hg : ∀ ms, (g ms).mem = ms.mem) : confined W (modify g : RunM PUnit) := by
  apply confined_intro
  intro ms b ms' h x _
  have h2 : Outcome.ok (PUnit.unit, g ms) = Outcome.ok (b, ms') := h
  injection h2 with h2
  injection h2 with _ h3
  rw [← h3, hg]

theorem confined_store {W : Nat → Prop} {g : mem_state → mem_state}
    (hg : ∀ ms x, ¬ W x → (g ms).mem x = ms.mem x) : confined W (modify g : RunM PUnit) := by
  apply confined_intro
  intro ms b ms' h x hx
  have h2 : Outcome.ok (PUnit.unit, g ms) = Outcome.ok (b, ms') := h
  injection h2 with h2
  injection h2 with _ h3
  rw [← h3, hg ms x hx]

theorem confined_lift {α : Type} {W : Nat → Prop} {m : Run α} :
    confined W (Mem.lift_pool m) := by
  apply confined_intro
  intro ms b ms' h x _
  unfold Mem.lift_pool at h
  cases hm : m ms.pool with
  | ok r =>
    rw [hm] at h
    have h2 : Outcome.ok (r.1, { ms with pool := r.2 }) = Outcome.ok (b, ms') := h
    injection h2 with h2
    injection h2 with _ h3
    rw [← h3]
  | abort e => rw [hm] at h; exact Outcome.noConfusion h
  | diverge => rw [hm] at h; exact Outcome.noConfusion h
  | undefined => rw [hm] at h; exact Outcome.noConfusion h

theorem confined_bind {α β : Type} {W : Nat → Prop} {x : RunM α} {f : α → RunM β}
    (hx : confined W x) (hf : ∀ a, confined W (f a)) : confined W (x >>= f) := by
  apply confined_intro
  intro ms b ms' h y hy
  have e1 : (x >>= f) ms = (x ms).bind (fun p => f p.1 p.2) := rfl
  rw [e1] at h
  cases hxs : x ms with
  | ok r =>
    rw [hxs] at h
    have h2 : f r.1 r.2 = .ok (b, ms') := h
    rw [confined_elim (hf r.1) h2 hy]
    exact confined_elim hx (show x ms = .ok (r.1, r.2) from hxs) hy
  | abort e => rw [hxs] at h; exact Outcome.noConfusion h
  | diverge => rw [hxs] at h; exact Outcome.noConfusion h
  | undefined => rw [hxs] at h; exact Outcome.noConfusion h

theorem confined_ite {α : Type} {W : Nat → Prop} {c : Prop} [Decidable c] {x y : RunM α}
    (hx : c → confined W x) (hy : ¬ c → confined W y) : confined W (if c then x else y) := by
  by_cases h : c
  · rw [if_pos h]; exact hx h
  · rw [if_neg h]; exact hy h

theorem confined_mono {α : Type} {W W2 : Nat → Prop} {m : RunM α} (h : confined W m)
    (hW : ∀ x, W x → W2 x) : confined W2 m :=
  confined_intro (fun _ _ _ hr _ hx => confined_elim h hr (fun hw => hx (hW _ hw)))

theorem confined_access {W : Nat → Prop} {ps a n : Nat} : confined W (Mem.access ps a n) := by
  unfold Mem.access
  exact confined_modify (fun _ => rfl)

theorem confined_mprotect {W : Nat → Prop} {ps a sz : Nat} {none : Bool} :
    confined W (Mem.mprotect ps a sz none) := by
  unfold Mem.mprotect
  exact confined_modify (fun _ => rfl)

theorem confined_os_mprotect {W : Nat → Prop} {ps a sz : Nat} {none : Bool} :
    confined W (Mem.os_mprotect ps a sz none) := by
  unfold Mem.os_mprotect
  repeat' first
    | with_reducible exact confined_pure
    | with_reducible exact confined_get
    | with_reducible exact confined_lift
    | with_reducible exact confined_modify (fun _ => rfl)
    | with_reducible exact confined_access
    | with_reducible exact confined_mprotect
    | with_reducible apply confined_bind
    | with_reducible apply confined_ite
    | intro _
    | split
    | dsimp only

theorem confined_os_munmap {W : Nat → Prop} {ps a sz : Nat} :
    confined W (Mem.os_munmap ps a sz) := by
  unfold Mem.os_munmap
  repeat' first
    | with_reducible exact confined_pure
    | with_reducible exact confined_get
    | with_reducible exact confined_lift
    | with_reducible exact confined_modify (fun _ => rfl)
    | with_reducible exact confined_access
    | with_reducible exact confined_mprotect
    | with_reducible apply confined_bind
    | with_reducible apply confined_ite
    | intro _
    | split
    | dsimp only

theorem confined_validate_junk {W : Nat → Prop} {ps p sz : Nat} {mopts : malloc_readonly} :
    confined W (Mem.validate_junk ps mopts p sz) := by
  unfold Mem.validate_junk
  repeat' first
    | with_reducible exact confined_pure
    | with_reducible exact confined_get
    | with_reducible exact confined_lift
    | with_reducible exact confined_modify (fun _ => rfl)
    | with_reducible exact confined_access
    | with_reducible exact confined_mprotect
    | with_reducible apply confined_bind
    | with_reducible apply confined_ite
    | intro _
    | split
    | dsimp only

theorem confined_validate_canary {W : Nat → Prop} {ps ptr sz allocated : Nat}
    {mopts : malloc_readonly} :
    confined W (Mem.validate_canary ps mopts ptr sz allocated) := by
  unfold Mem.validate_canary
  repeat' first
    | with_reducible exact confined_pure
    | with_reducible exact confined_get
    | with_reducible exact confined_lift
    | with_reducible exact confined_modify (fun _ => rfl)
    | with_reducible exact confined_access
    | with_reducible exact confined_mprotect
    | with_reducible apply confined_bind
    | with_reducible apply confined_ite
    | intro _
    | split
    | dsimp only

theorem confined_memset {ps p c n : Nat} :
    confined (fun x => p ≤ x ∧ x < p + n) (Mem.memset ps p c n) := by
  unfold Mem.memset
  apply confined_bind confined_access
  intro _
  apply confined_store
  intro ms x hx
  show (if p ≤ x ∧ x < p + n then c % 256 else ms.mem x) = ms.mem x
  rw [if_neg hx]

theorem confined_memcpy {ps dst src n : Nat} :
    confined (fun x => dst ≤ x ∧ x < dst + n) (Mem.memcpy ps dst src n) := by
  unfold Mem.memcpy
  apply confined_bind confined_access
  intro _
  apply confined_bind confined_access
  intro _
  apply confined_store
  intro ms x hx
  show (if dst ≤ x ∧ x < dst + n then ms.mem (src + (x - dst)) else ms.mem x) = ms.mem x
  rw [if_neg hx]

theorem confined_junk_free {ps junk p sz : Nat} {mopts : malloc_readonly} (hsz : sz < 2 ^ 64) :
    confined (fun x => p ≤ x ∧ x < p + sz) (Mem.junk_free ps mopts junk p sz) := by
  unfold Mem.junk_free
  apply confined_bind confined_get
  intro ms
  obtain ⟨memJ, ws, hj, hws⟩ :=
    junk_free_mem_words ps mopts junk sz (region_words ms.mem p) hsz
  rw [hj]
  dsimp only
  apply confined_store
  intro ms2 x hx
  show (if p ≤ x ∧ (x - p) / 8 ∈ ws then SOME_FREEJUNK else ms2.mem x) = ms2.mem x
  rw [if_neg]
  rintro ⟨h1, h2⟩
  have := hws _ h2
  exact hx ⟨h1, by omega⟩

theorem confined_bzero {ps p sz clear : Nat} (hclear : clear ≤ sz) :
    confined (fun x => p ≤ x ∧ x < p + sz) (Mem.explicit_bzero ps p clear) := by
  unfold Mem.explicit_bzero
  exact confined_mono confined_memset (fun x hx => ⟨hx.1, by omega⟩)

theorem confined_unmap_small {ps p sz psz clear : Nat} {mopts : malloc_readonly}
    (hsz : sz < 2 ^ 64) (hclear : clear ≤ sz) :
    confined (fun x => p ≤ x ∧ x < p + sz) (Mem.unmap_small ps mopts p sz psz clear) := by
  unfold Mem.unmap_small
  repeat' first
    | with_reducible exact confined_pure
    | with_reducible exact confined_get
    | with_reducible exact confined_lift
    | with_reducible exact confined_modify (fun _ => rfl)
    | with_reducible exact confined_validate_junk
    | with_reducible exact confined_os_munmap
    | with_reducible exact confined_os_mprotect
    | with_reducible exact confined_mprotect
    | with_reducible exact confined_junk_free hsz
    | with_reducible exact confined_bzero hclear
    | with_reducible apply confined_bind
    | with_reducible apply confined_ite
    | intro _
    | split
    | dsimp only

theorem confined_unmap_big {ps p sz psz clear : Nat} {mopts : malloc_readonly}
    (hsz : sz < 2 ^ 64) (hclear : clear ≤ sz) :
    confined (fun x => p ≤ x ∧ x < p + sz) (Mem.unmap_big ps mopts p sz psz clear) := by
  unfold Mem.unmap_big
  repeat' first
    | with_reducible exact confined_pure
    | with_reducible exact confined_get
    | with_reducible exact confined_lift
    | with_reducible exact confined_modify (fun _ => rfl)
    | with_reducible exact confined_validate_junk
    | with_reducible exact confined_os_munmap
    | with_reducible exact confined_os_mprotect
    | with_reducible exact confined_mprotect
    | with_reducible exact confined_junk_free hsz
    | with_reducible exact confined_bzero hclear
    | with_reducible apply confined_bind
    | with_reducible apply confined_ite
    | intro _
    | split
    | dsimp only

/-- `unmap(d, p, sz, clear)` stores only into the `sz` bytes at `p`. -/
theorem confined_unmap {ps p sz clear : Nat} {mopts : malloc_readonly}
    (hsz : sz < 2 ^ 64) (hclear : clear ≤ sz) :
    confined (fun x => p ≤ x ∧ x < p + sz) (Mem.unmap ps mopts p sz clear) := by
  unfold Mem.unmap
  repeat' first
    | with_reducible exact confined_pure
    | with_reducible exact confined_get
    | with_reducible exact confined_lift
    | with_reducible exact confined_modify (fun _ => rfl)
    | with_reducible exact confined_unmap_big hsz hclear
    | with_reducible exact confined_unmap_small hsz hclear
    | with_reducible exact confined_os_munmap
    | with_reducible apply confined_bind
    | with_reducible apply confined_ite
    | intro _
    | split
    | dsimp only

/-! ## `unmap` with the memory -/

theorem shl64_lt (x k : Nat) : shl64 x k < 2 ^ 64 := by
  unfold shl64
  exact Nat.mod_lt _ (by norm_num)

theorem pow_ge_four {k : Nat} (h1 : 2 ^ k ≠ 1) (h2 : 2 ^ k ≠ 2) : 2 ≤ k := by
  by_contra hc
  have hk : k = 0 ∨ k = 1 := by omega
  rcases hk with h | h
  · rw [h] at h1; exact h1 rfl
  · rw [h] at h2; exact h2 rfl

/-- `unmap` of whole pages returns or aborts with "munmap", "mprotect" or "write after
free", when the big cache is consistent and has not just one or two slots. -/
theorem unmap_outcome {ps p sz clear : Nat} {mopts : malloc_readonly} {ms : mem_state}
    (hround : ¬ (sz ≠ PAGEROUND ps sz ∨ sz >>> ps = 0)) (hsz : sz < 2 ^ 64)
    (hbo : bigcache_ok ms.pool) (hb1 : ms.pool.bigcache_size ≠ 1)
    (hb2 : ms.pool.bigcache_size ≠ 2) :
    wpxm (Mem.unmap ps mopts p sz clear) move_abort False False (fun _ _ => True) ms := by
  unfold Mem.unmap
  dsimp only
  rw [if_neg hround]
  apply wpxm_bind_i
  apply wpxm_pool_get_i
  apply wpxm_ite_i
  · intro hc
    unfold Mem.unmap_big
    apply wpxm_bind_i
    apply wpxm_getrbyte_i
    apply wpxm_bind_i
    apply wpxm_pool_get_i
    dsimp only
    obtain ⟨hlen, hsize, _, _⟩ := hbo
    rcases hsize with h0 | ⟨k, hk, hk2⟩
    · exact absurd h0 (by omega)
    have hk4 : 2 ≤ k := pow_ge_four (by rw [← hk2]; exact hb1) (by rw [← hk2]; exact hb2)
    obtain ⟨i, hi, _⟩ := unmap_scan_assigned ms.pool.bigcache ms.pool.bigcache_size
      (decide (ms.pool.bigcache_used < BIGCACHE_FILL ms.pool.bigcache_size))
      (ms.pool.env.headD 0 % 256) k hk4 hk hk2
    rw [hi]
    dsimp only
    apply wpxm_of_clean ?_ (wpm_any (fun _ _ => trivial))
    repeat' first
      | with_reducible exact clean_pure
      | with_reducible exact clean_get
      | with_reducible exact clean_set
      | with_reducible exact clean_modify
      | with_reducible exact clean_env_next
      | with_reducible exact clean_lift clean_env_next
      | with_reducible exact clean_lift clean_modify
      | with_reducible exact clean_lift clean_get
      | with_reducible exact clean_lift clean_pure
      | with_reducible exact clean_wrterror move_abort_oom
      | with_reducible exact clean_lift (clean_wrterror move_abort_waf)
      | with_reducible exact clean_lift (clean_wrterror move_abort_munmap)
      | with_reducible exact clean_lift (clean_wrterror move_abort_mprotect)
      | with_reducible exact clean_lift (clean_wrterror move_abort_canary)
      | with_reducible exact clean_lift (clean_wrterror move_abort_oom)
      | with_reducible exact clean_validate_junk (shl64_lt _ _)
      | with_reducible exact clean_junk_free hsz
      | with_reducible exact clean_mem_os_munmap
      | with_reducible exact clean_explicit_bzero
      | with_reducible exact clean_mem_os_mprotect
      | with_reducible exact clean_lift clean_getrbyte
      | with_reducible apply clean_bind
      | with_reducible apply clean_ite
      | intro _
      | dsimp only
  · intro _
    apply wpxm_of_clean ?_ (wpm_any (fun _ _ => trivial))
    repeat' first
      | with_reducible exact clean_pure
      | with_reducible exact clean_get
      | with_reducible exact clean_set
      | with_reducible exact clean_modify
      | with_reducible exact clean_env_next
      | with_reducible exact clean_lift clean_env_next
      | with_reducible exact clean_lift clean_modify
      | with_reducible exact clean_lift clean_get
      | with_reducible exact clean_lift clean_pure
      | with_reducible exact clean_wrterror move_abort_oom
      | with_reducible exact clean_lift (clean_wrterror move_abort_waf)
      | with_reducible exact clean_lift (clean_wrterror move_abort_munmap)
      | with_reducible exact clean_lift (clean_wrterror move_abort_mprotect)
      | with_reducible exact clean_lift (clean_wrterror move_abort_canary)
      | with_reducible exact clean_lift (clean_wrterror move_abort_oom)
      | with_reducible exact clean_unmap_small hsz
      | with_reducible exact clean_mem_os_munmap
      | with_reducible apply clean_bind
      | with_reducible apply clean_ite
      | intro _
      | dsimp only

/-- `unmap(d, p, sz, clear)` of whole pages from a pool with a consistent big cache: it
returns or aborts with "munmap", "mprotect" or "write after free"; the directory, the
chunk headers and the lists stay as they are, the big cache stays consistent and keeps
its size, and only the `sz` bytes at `p` are stored into. -/
theorem unmap_moves {ps p sz clear : Nat} {mopts : malloc_readonly} {ms : mem_state}
    (hround : ¬ (sz ≠ PAGEROUND ps sz ∨ sz >>> ps = 0)) (hsz : sz < 2 ^ 64)
    (hclear : clear ≤ sz)
    (hbo : bigcache_ok ms.pool) (hb1 : ms.pool.bigcache_size ≠ 1)
    (hb2 : ms.pool.bigcache_size ≠ 2) :
    wpxm (Mem.unmap ps mopts p sz clear) move_abort False False
      (fun _ ms' => (core_frame ms.pool ms'.pool ∧ bigcache_ok ms'.pool ∧
          ms'.pool.bigcache_size = ms.pool.bigcache_size) ∧
        ∀ x, ¬ (p ≤ x ∧ x < p + sz) → ms'.mem x = ms.mem x) ms := by
  apply wpxm_mono (wpxm_with_wpm (wpxm_with_wpm
    (@unmap_outcome ps p sz clear mopts ms hround hsz hbo hb1 hb2)
    (wpm_sim (Q := fun _ s' => core_frame ms.pool s' ∧ bigcache_ok s' ∧
        s'.bigcache_size = ms.pool.bigcache_size) (@sim_unmap ps p sz clear mopts)
      (fun e => wp_and
        (keeps_wp (Q := fun _ s' => core_frame ms.pool s') ms.pool unmap_core
          ⟨rfl, rfl, rfl, rfl, rfl, rfl, rfl, rfl⟩ (fun _ _ h => h))
        (wp_and
          (keeps_wp (Q := fun _ s' => bigcache_ok s') ms.pool unmap_bc hbo (fun _ _ h => h))
          (keeps_wp (Q := fun _ s' => s'.bigcache_size = ms.pool.bigcache_size) ms.pool
            unmap_sf rfl (fun _ _ h => h))))
      (fun _ _ _ h => h)))
    (confined_wpm (@confined_unmap ps p sz clear mopts hsz hclear) ms))
    (fun _ h => h) (fun h => h) (fun h => h)
  rintro _ ms' ⟨⟨_, h1⟩, h2⟩
  exact ⟨h1, h2⟩

/-! ## Bytes and pages -/

/-- A byte in a run of pages that starts at a page boundary lies on one of its pages. -/
theorem page_of_mem_page_list {ps a sz x : Nat} (ha : a % 2 ^ ps = 0) (h1 : a ≤ x)
    (h2 : x < a + howmany sz (MALLOC_PAGESIZE ps) * MALLOC_PAGESIZE ps) :
    page_of ps x ∈ page_list ps a sz := by
  rw [mem_page_list]
  unfold page_of
  rw [MALLOC_PAGESIZE_eq] at *
  have hpos : 0 < 2 ^ ps := Nat.pow_pos (by norm_num)
  obtain ⟨c, hc⟩ : ∃ c, a = c * 2 ^ ps := ⟨a / 2 ^ ps, by
    have := Nat.div_add_mod a (2 ^ ps)
    rw [Nat.mul_comm] at this
    omega⟩
  have hge : c ≤ x / 2 ^ ps := by
    rw [Nat.le_div_iff_mul_le hpos, ← hc]
    exact h1
  have hlt : x / 2 ^ ps < c + howmany sz (2 ^ ps) := by
    rw [Nat.div_lt_iff_lt_mul hpos, Nat.add_mul, ← hc]
    exact h2
  refine ⟨x / 2 ^ ps - c, by omega, ?_⟩
  rw [hc, ← Nat.add_mul]
  congr 1
  omega

theorem howmany_round (ps x : Nat) (hps : ps ≤ 64) (hx : x + 2 ^ ps ≤ 2 ^ 64) :
    howmany x (MALLOC_PAGESIZE ps) * MALLOC_PAGESIZE ps = PAGEROUND ps x := by
  have hpos : 0 < 2 ^ ps := Nat.pow_pos (by norm_num)
  rw [PAGEROUND_eq ps x hps, Nat.mod_eq_of_lt (by omega), MALLOC_PAGESIZE_eq]
  rfl

theorem round_round (ps x : Nat) (hps : ps ≤ 64) (hx : x + 2 ^ ps ≤ 2 ^ 64) :
    PAGEROUND ps (PAGEROUND ps x) = PAGEROUND ps x := by
  have hpos : 0 < 2 ^ ps := Nat.pow_pos (by norm_num)
  obtain ⟨h1, h2, q, hq⟩ := PAGEROUND_bounds ps x hps hx
  rw [PAGEROUND_eq ps (PAGEROUND ps x) hps, hq]
  have hq64 : 2 ^ ps * q + (2 ^ ps - 1) < 2 ^ 64 := by
    have e2 : 2 ^ 64 = 2 ^ ps * 2 ^ (64 - ps) := two_pow_dvd_form ps 64 hps
    have hlt : 2 ^ ps * q < 2 ^ ps * 2 ^ (64 - ps) := by rw [← hq, ← e2]; omega
    have := mult_gap _ _ _ hlt
    omega
  rw [Nat.mod_eq_of_lt hq64, Nat.mul_add_div hpos, Nat.div_eq_of_lt (by omega), Nat.add_zero,
    Nat.mul_comm]

/-- A byte on a page of a directory entry is mapped. -/
theorem owned_mapped {ps : Nat} {s : pool_state} (hown : pages_owned ps s) {x : Nat}
    (hx : owned_byte ps s x) : page_of ps x ∈ s.mapped := by
  obtain ⟨y, hy, hoy, hm⟩ := hx
  exact hown.1 y hy hoy _ hm

/-- A byte on a page of a directory entry is a byte of no cached run of pages. -/
theorem owned_not_cached {ps : Nat} {s : pool_state} (hown : pages_owned ps s)
    (hal : pool_aligned ps s) {x : Nat} (hx : owned_byte ps s x) : ¬ cached_byte ps s x := by
  obtain ⟨y, hy, hoy, hm⟩ := hx
  have hpos : 0 < MALLOC_PAGESIZE ps := by rw [MALLOC_PAGESIZE_eq]; exact Nat.pow_pos (by norm_num)
  rintro (⟨e, he, hpsz, h1, h2⟩ | ⟨i, j, hi, hj, h1, h2⟩)
  · have hpg := @page_of_mem_page_list ps _ (e.psize * MALLOC_PAGESIZE ps) _ (hal.2.1 e he) h1
      (by rw [howmany_mul _ _ hpos]; exact h2)
    exact hown.2.2.1 e he hpsz _ hpg y hy hoy hm
  · have hmem : s.smallcache.getD i ⟨[], 0, 0⟩ ∈ s.smallcache := by
      rw [List.getD_eq_getElem _ _ hi]
      exact List.getElem_mem _
    have hpa : ((s.smallcache.getD i ⟨[], 0, 0⟩).pages.getD j 0 &&& not64 1) % 2 ^ ps = 0 := by
      rcases mem_getD_of_ne_default (s.smallcache.getD i ⟨[], 0, 0⟩).pages j 0 with h | h
      · exact hal.1 _ hmem _ h
      · rw [h]; simp
    have hpg := @page_of_mem_page_list ps _ ((i + 1) * MALLOC_PAGESIZE ps) _ hpa h1
      (by rw [howmany_mul _ _ hpos]; exact h2)
    exact hown.2.1 i hi j hj _ hpg y hy hoy hm

/-- A byte on a page of a directory entry is no byte of the region table. -/
theorem owned_not_table {ps : Nat} {s : pool_state} (hps : ps ≤ 16)
    (hown : pages_owned ps s) (hal : pool_aligned ps s) (hmax : s.d.regions_total ≤ 2 ^ 59)
    {x : Nat} (hx : owned_byte ps s x) :
    ¬ (s.r_addr ≤ x ∧
      x < s.r_addr + PAGEROUND ps ((s.d.regions_total * sizeof_region_info) % 2 ^ 64)) := by
  obtain ⟨y, hy, hoy, hm⟩ := hx
  have hle : 2 ^ ps ≤ 2 ^ 16 := Nat.pow_le_pow_right (by norm_num) hps
  have hs : sizeof_region_info = 24 := rfl
  rintro ⟨h1, h2⟩
  rw [Nat.mod_eq_of_lt (by rw [hs]; omega),
    ← howmany_round ps _ (by omega) (by rw [hs]; omega)] at h2
  have hpg := page_of_mem_page_list hal.2.2.2.2.1 h1 h2
  exact hown.2.2.2 _ hpg y hy hoy hm

/-- A byte on a page of a directory entry is no byte of a run of pages of which none
is a page of an entry. -/
theorem owned_not_fresh {ps : Nat} {s : pool_state} {q sz : Nat} (hps : ps ≤ 64)
    (hq : q % 2 ^ ps = 0) (hsz : sz + 2 ^ ps ≤ 2 ^ 64)
    (hfresh : ∀ x ∈ page_list ps q (PAGEROUND ps sz), ∀ y < s.d.r.length,
      (slot s.d.r y).p ≠ 0 → x ∉ region_pages ps (slot s.d.r y))
    {x : Nat} (hx : owned_byte ps s x) : ¬ (q ≤ x ∧ x < q + PAGEROUND ps sz) := by
  obtain ⟨y, hy, hoy, hm⟩ := hx
  rintro ⟨h1, h2⟩
  obtain ⟨b1, b2, c, hc⟩ := PAGEROUND_bounds ps sz hps hsz
  have hpos : 0 < MALLOC_PAGESIZE ps := by rw [MALLOC_PAGESIZE_eq]; exact Nat.pow_pos (by norm_num)
  have hh : howmany (PAGEROUND ps sz) (MALLOC_PAGESIZE ps) * MALLOC_PAGESIZE ps =
      PAGEROUND ps sz := by
    rw [hc, MALLOC_PAGESIZE_eq, Nat.mul_comm (2 ^ ps) c, howmany_mul _ _ (by
      rw [← MALLOC_PAGESIZE_eq]; exact hpos)]
  have hpg := @page_of_mem_page_list ps _ (PAGEROUND ps sz) _ hq h1 (by rw [hh]; exact h2)
  exact hfresh _ hpg y hy hoy hm

/-- The bytes of a region of pages in the directory lie on pages of its entry. -/
theorem region_owned {ps : Nat} {s : pool_state} {ri p sz f i : Nat} (hps : ps ≤ 64)
    (hri : ri < s.d.r.length) (hslot : slot s.d.r ri = ⟨p, sz, f⟩) (hp : p ≠ 0)
    (htag : p &&& MALLOC_PAGEMASK ps = 0) (hp64 : p < 2 ^ 64) (hi : i < sz) :
    owned_byte ps s (p + i) := by
  have hpal : p % 2 ^ ps = 0 := by
    rw [MALLOC_PAGEMASK_eq, Nat.and_pow_two_sub_one_eq_mod] at htag
    exact htag
  refine ⟨ri, hri, by rw [hslot]; exact hp, ?_⟩
  rw [hslot]
  unfold region_pages
  dsimp only
  rw [if_pos htag, MASK_POINTER_aligned ps p hps hpal hp64]
  apply List.mem_cons_of_mem
  apply page_of_mem_page_list hpal (Nat.le_add_right _ _)
  have hpos : 0 < MALLOC_PAGESIZE ps := by rw [MALLOC_PAGESIZE_eq]; exact Nat.pow_pos (by norm_num)
  have : sz ≤ howmany sz (MALLOC_PAGESIZE ps) * MALLOC_PAGESIZE ps := by
    unfold howmany
    have h1 := Nat.div_add_mod (sz + (MALLOC_PAGESIZE ps - 1)) (MALLOC_PAGESIZE ps)
    have h2 := Nat.mod_lt (sz + (MALLOC_PAGESIZE ps - 1)) hpos
    rw [Nat.mul_comm] at h1
    omega
  omega

/-! ## Where `map` stores -/

/-- `MMAP` stores into no byte of a page that was mapped. -/
theorem os_mmap_bound {ps sz : Nat} {ms : mem_state} (hps : 1 ≤ ps) :
    wpm (Mem.os_mmap ps sz)
      (fun _ ms' => ∀ x, page_of ps x ∈ ms.pool.mapped → ms'.mem x = ms.mem x) ms := by
  unfold Mem.os_mmap
  apply wpm_bind_i
  apply wpm_lift_i
  apply wp_mono (os_mmap_fresh hps)
  rintro a s1 ⟨_, _, _, _, _, hfail, hok⟩
  dsimp only
  apply wpm_ite_i
  · intro hne
    apply wpm_bind_i
    apply wpm_modify_i
    apply wpm_pure_i
    intro x hx
    show (if a ≤ x ∧ x < a + howmany sz (MALLOC_PAGESIZE ps) * MALLOC_PAGESIZE ps then 0
      else ms.mem x) = ms.mem x
    rw [if_neg]
    rintro ⟨h1, h2⟩
    have hfree := (hok hne).1
    exact (mmap_free_pages hfree).1 _ (page_of_mem_page_list (mmap_free_aligned hfree) h1 h2) hx
  · intro _
    apply wpm_bind_i
    apply wpm_pure_i
    apply wpm_pure_i
    intro x _
    rfl

/-- The big cache branch of `map` stores only into bytes of a cached run of pages. -/
theorem map_big_bound {ps sz psz zero_fill : Nat} {mopts : malloc_readonly} {ms : mem_state}
    (hsz : sz < 2 ^ 64) (hpsz : psz ≠ 0) (hszp : sz = psz * MALLOC_PAGESIZE ps) :
    wpm (Mem.map_big ps mopts sz psz zero_fill)
      (fun _ ms' => ∀ x, ¬ big_cached_byte ps ms.pool.bigcache x → ms'.mem x = ms.mem x) ms := by
  unfold Mem.map_big
  apply wpm_bind_i
  apply wpm_lift_i
  apply wp_getrbyte_i
  apply wpm_bind_i
  apply wpm_pool_get_i
  dsimp only
  cases hscan : map_scan ms.pool.bigcache ms.pool.bigcache_size psz
      (ms.pool.env.headD 0 % 256) ms.pool.bigcache_size 0 ms.pool.bigcache_used with
  | none =>
    dsimp only
    apply wpm_pure_i
    intro x _
    rfl
  | some i =>
    dsimp only
    have hps2 := map_scan_psize _ _ _ _ _ _ _ _ hscan
    have hmem : ms.pool.bigcache.getD i ⟨0, 0⟩ ∈ ms.pool.bigcache := by
      rcases mem_getD_of_ne_default ms.pool.bigcache i ⟨0, 0⟩ with h | h
      · exact h
      · rw [h] at hps2
        exact absurd hps2.symm hpsz
    apply wpm_mono (confined_wpm (W := fun x => (ms.pool.bigcache.getD i ⟨0, 0⟩).page ≤ x ∧
      x < (ms.pool.bigcache.getD i ⟨0, 0⟩).page + sz) ?_ _)
    · intro _ ms' h x hx
      exact h x (fun hw => hx ⟨_, hmem, by rw [hps2]; exact hpsz, hw.1, by
        rw [hps2, ← hszp]; exact hw.2⟩)
    repeat' first
      | with_reducible exact confined_pure
      | with_reducible exact confined_get
      | with_reducible exact confined_lift
      | with_reducible exact confined_modify (fun _ => rfl)
      | with_reducible exact confined_validate_junk
      | with_reducible exact confined_mprotect
      | with_reducible exact confined_junk_free hsz
      | with_reducible exact confined_memset
      | with_reducible apply confined_bind
      | with_reducible apply confined_ite
      | intro _
      | split
      | dsimp only

/-- The small cache branch of `map`, for runs of more than a page, stores only into
bytes of a cached run of pages. -/
theorem map_small_bound {ps sz psz zero_fill : Nat} {mopts : malloc_readonly}
    {ms : mem_state} (hsz : sz < 2 ^ 64) (h2 : 2 ≤ psz)
    (hszp : sz = psz * MALLOC_PAGESIZE ps) :
    wpm (Mem.map_small ps mopts sz psz zero_fill)
      (fun _ ms' => ∀ x, ¬ small_cached_byte ps ms.pool.smallcache x →
        ms'.mem x = ms.mem x) ms := by
  unfold Mem.map_small
  apply wpm_bind_i
  apply wpm_pool_get_i
  dsimp only
  apply wpm_ite_i
  · intro hlen
    have hidx : psz - 1 < ms.pool.smallcache.length := by
      by_contra hc
      rw [List.getD_eq_default _ _ (by omega)] at hlen
      exact absurd hlen (by decide)
    apply wpm_bind_i
    apply @wpm_mono _ _ (fun i ms1 =>
      i < (ms.pool.smallcache.getD (psz - 1) ⟨[], 0, 0⟩).length ∧ ms1.mem = ms.mem)
    · apply wpm_ite_i
      · intro h1
        apply wpm_pure_i
        refine ⟨?_, rfl⟩
        rw [h1]
        decide
      · intro _
        apply wpm_bind_i
        apply wpm_lift_i
        apply wp_getrbyte_i
        apply wpm_pure_i
        exact ⟨lt_of_le_of_lt (Nat.mod_le _ _) (Nat.mod_lt _ hlen), rfl⟩
    rintro i ms1 ⟨hi, hm1⟩
    apply wpm_mono (confined_wpm (W := fun x =>
      ((ms.pool.smallcache.getD (psz - 1) ⟨[], 0, 0⟩).pages.getD i 0 &&& not64 1) ≤ x ∧
      x < ((ms.pool.smallcache.getD (psz - 1) ⟨[], 0, 0⟩).pages.getD i 0 &&& not64 1) + sz)
      ?_ _)
    · intro _ ms' h x hx
      rw [← hm1]
      exact h x (fun hw => hx ⟨psz - 1, i, hidx, hi, hw.1, by
        rw [show psz - 1 + 1 = psz by omega, ← hszp]; exact hw.2⟩)
    repeat' first
      | with_reducible exact confined_pure
      | with_reducible exact confined_get
      | with_reducible exact confined_lift
      | with_reducible exact confined_modify (fun _ => rfl)
      | with_reducible exact confined_validate_junk
      | with_reducible exact confined_mprotect
      | with_reducible exact confined_junk_free hsz
      | with_reducible exact confined_memset
      | with_reducible apply confined_bind
      | with_reducible apply confined_ite
      | intro _
      | split
      | dsimp only
  · intro _
    rw [if_neg (by omega)]
    apply wpm_pure_i
    intro x _
    rfl

/-- `map` of more than a page, without zero fill, stores only into bytes of cached runs
of pages and into bytes of pages that were not mapped. -/
theorem map_bound {ps sz zero_fill : Nat} {mopts : malloc_readonly} {ms : mem_state}
    (hps : 1 ≤ ps) (hps16 : ps ≤ 16) (hbig : MALLOC_PAGESIZE ps < sz) :
    wpm (Mem.map ps mopts sz zero_fill)
      (fun _ ms' => ∀ x, page_of ps x ∈ ms.pool.mapped → ¬ cached_byte ps ms.pool x →
        ms'.mem x = ms.mem x) ms := by
  unfold Mem.map
  dsimp only
  apply wpm_bind_i
  apply wpm_pool_get_i
  apply wpm_ite_i
  · intro _
    exact wpm_abort_i
  intro _
  apply wpm_ite_i
  · intro _
    exact wpm_abort_i
  intro hround
  obtain ⟨hszp, hpsz, hsz⟩ := map_size hps16 hround
  have h2 : 2 ≤ sz >>> ps := by
    by_contra hc
    have h1 : sz >>> ps = 1 := by omega
    rw [h1, Nat.one_mul] at hszp
    omega
  apply wpm_bind_i
  apply @wpm_mono _ _ (fun _ ms1 => (∀ x, ¬ cached_byte ps ms.pool x → ms1.mem x = ms.mem x) ∧
    ms1.pool.mapped = ms.pool.mapped ∧ ms1.pool.smallcache = ms.pool.smallcache)
  · apply wpm_ite_i
    · intro _
      apply wpm_mono (wpm_and (map_big_bound hsz (by omega) hszp)
        (wpm_sim (Q := fun _ s' => s'.mapped = ms.pool.mapped ∧
            s'.smallcache = ms.pool.smallcache) (@sim_map_big ps sz (sz >>> ps) zero_fill mopts)
          (fun e => wp_mono (@map_big_fresh mopts sz (sz >>> ps) { ms.pool with env := e }
            (by omega)) (fun _ _ h => ⟨h.2.1, h.2.2.1⟩))
          (fun _ _ _ h => h)))
      rintro _ ms1 ⟨h1, h3, h4⟩
      exact ⟨fun x hx => h1 x (fun hc => hx (Or.inl hc)), h3, h4⟩
    · intro _
      apply wpm_pure_i
      exact ⟨fun _ _ => rfl, rfl, rfl⟩
  rintro big ms1 ⟨hb1, hb2, hb3⟩
  cases big with
  | some p =>
    dsimp only
    apply wpm_pure_i
    intro x _ hx
    exact hb1 x hx
  | none =>
    dsimp only
    apply wpm_bind_i
    apply wpm_pool_get_i
    apply wpm_bind_i
    apply @wpm_mono _ _ (fun small ms2 =>
      (∀ x, ¬ cached_byte ps ms.pool x → ms2.mem x = ms.mem x) ∧
      (small = none → ms2.pool.mapped = ms.pool.mapped))
    · apply wpm_ite_i
      · intro _
        apply wpm_mono (wpm_and (map_small_bound hsz h2 hszp)
          (wpm_sim (Q := fun r s' => r = none → s'.mapped = ms1.pool.mapped)
            (@sim_map_small ps sz (sz >>> ps) zero_fill mopts)
            (fun e => wp_mono (@map_small_fresh ps mopts sz (sz >>> ps)
              { ms1.pool with env := e } hps) (fun _ _ h hn => (h.2.2.1 hn).1))
            (fun _ _ _ h => h)))
        rintro small ms2 ⟨h1, h3⟩
        refine ⟨?_, fun hn => by rw [h3 hn, hb2]⟩
        intro x hx
        rw [h1 x ?_, hb1 x hx]
        intro hc
        rw [hb3] at hc
        exact hx (Or.inr hc)
      · intro _
        apply wpm_pure_i
        exact ⟨hb1, fun _ => hb2⟩
    rintro small ms2 ⟨hs1, hs2⟩
    cases small with
    | some p =>
      dsimp only
      apply wpm_pure_i
      intro x _ hx
      exact hs1 x hx
    | none =>
      dsimp only
      apply wpm_mono (os_mmap_bound hps)
      intro _ ms3 h3 x hm hx
      rw [h3 x (by rw [hs2 rfl]; exact hm), hs1 x hx]

/-! ## `map` with the memory -/

theorem map_outcome {ps sz zero_fill : Nat} {mopts : malloc_readonly} {ms : mem_state}
    (hcan : canary_corrupt mopts ms.pool.d = false)
    (hround : ¬ (sz ≠ PAGEROUND ps sz ∨ sz >>> ps = 0)) (hsz : sz < 2 ^ 64) :
    wpxm (Mem.map ps mopts sz zero_fill) move_abort False False (fun _ _ => True) ms := by
  unfold Mem.map
  dsimp only
  apply wpxm_bind_i
  apply wpxm_pool_get_i
  rw [if_neg (by rw [hcan]; exact Bool.false_ne_true), if_neg hround]
  apply wpxm_of_clean ?_ (wpm_any (fun _ _ => trivial))
  repeat' first
    | with_reducible exact clean_pure
    | with_reducible exact clean_get
    | with_reducible exact clean_set
    | with_reducible exact clean_modify
    | with_reducible exact clean_env_next
    | with_reducible exact clean_lift clean_env_next
    | with_reducible exact clean_lift clean_modify
    | with_reducible exact clean_lift clean_get
    | with_reducible exact clean_lift clean_pure
    | with_reducible exact clean_wrterror move_abort_oom
    | with_reducible exact clean_lift (clean_wrterror move_abort_waf)
    | with_reducible exact clean_lift (clean_wrterror move_abort_munmap)
    | with_reducible exact clean_lift (clean_wrterror move_abort_mprotect)
    | with_reducible exact clean_lift (clean_wrterror move_abort_canary)
    | with_reducible exact clean_lift (clean_wrterror move_abort_oom)
    | with_reducible exact clean_map_big hsz
    | with_reducible exact clean_map_small hsz
    | with_reducible exact clean_mem_os_mmap
    | with_reducible apply clean_bind
    | with_reducible apply clean_ite
    | intro _
    | split
    | dsimp only

/-- `map` of more than a page, without zero fill, from a consistent pool: it returns or
aborts with "write after free".  The directory, the chunk headers and the lists stay
as they are, what was mapped stays mapped, the big cache stays consistent and keeps
its size, the pool stays aligned; the result is not null, and unless it is
`MAP_FAILED` it is page-aligned and none of its pages is a page of a directory entry;
and no byte on a page of a directory entry is stored into. -/
theorem map_moves {ps sz : Nat} {mopts : malloc_readonly} {ms : mem_state}
    (hps : 5 ≤ ps) (hps16 : ps ≤ 16) (hok : region_pool_ok ps mopts ms.pool)
    (hround : ¬ (sz ≠ PAGEROUND ps sz ∨ sz >>> ps = 0)) (hbig : MALLOC_PAGESIZE ps < sz) :
    wpxm (Mem.map ps mopts sz 0) move_abort False False
      (fun p ms' => (core_frame ms.pool ms'.pool ∧ (∀ x ∈ ms.pool.mapped, x ∈ ms'.pool.mapped) ∧
          bigcache_ok ms'.pool ∧ ms'.pool.bigcache_size = ms.pool.bigcache_size ∧
          pool_aligned ps ms'.pool ∧ p ≠ 0 ∧
          (p ≠ MAP_FAILED → p + sz ≤ 2 ^ 64 ∧ p % 2 ^ ps = 0 ∧
            ∀ x ∈ page_list ps p sz, ∀ y < ms.pool.d.r.length, (slot ms.pool.d.r y).p ≠ 0 →
              x ∉ region_pages ps (slot ms.pool.d.r y))) ∧
        ∀ x, owned_byte ps ms.pool x → ms'.mem x = ms.mem x) ms := by
  obtain ⟨hwf, hmin, hmax, hal, hown, hsc, hbc, hbo, hb1, hb2, hnn⟩ := hok
  obtain ⟨_, _, hsz⟩ := map_size hps16 hround
  apply wpxm_mono (wpxm_with_wpm (wpxm_with_wpm
    (@map_outcome ps sz 0 mopts ms hwf.1 hround hsz)
    (wpm_sim (Q := fun p s' => core_frame ms.pool s' ∧ (∀ x ∈ ms.pool.mapped, x ∈ s'.mapped) ∧
          bigcache_ok s' ∧ s'.bigcache_size = ms.pool.bigcache_size ∧
          pool_aligned ps s' ∧ p ≠ 0 ∧
          (p ≠ MAP_FAILED → p + sz ≤ 2 ^ 64 ∧ p % 2 ^ ps = 0 ∧
            ∀ x ∈ page_list ps p sz, ∀ y < ms.pool.d.r.length, (slot ms.pool.d.r y).p ≠ 0 →
              x ∉ region_pages ps (slot ms.pool.d.r y)))
      (@sim_map ps sz 0 mopts)
      (fun e => wp_mono (wp_and (wp_and (wp_and
          (@map_fresh ps mopts sz 0 { ms.pool with env := e } (by omega) hps16 hown hsc hbc)
          (@map_nonnull ps mopts sz 0 { ms.pool with env := e } (by omega) hps16 hnn hbig))
        (wp_and
          (keeps_wp (Q := fun _ s' => bigcache_ok s') { ms.pool with env := e } map_bc hbo
            (fun _ _ h => h))
          (keeps_wp (Q := fun _ s' => s'.bigcache_size = ms.pool.bigcache_size)
            { ms.pool with env := e } map_sf rfl (fun _ _ h => h))))
        (map_al (Q := fun a s' => pool_aligned ps s' ∧ (a = MAP_FAILED ∨ a % 2 ^ ps = 0))
          (by omega) hal (fun a s' h1 h2 => ⟨h1, h2⟩)))
        (fun p s' h => by
          obtain ⟨⟨⟨⟨hc1, hmap1, hfresh⟩, hp0⟩, hbo1, hsf1⟩, hal1, hpal⟩ := h
          exact ⟨hc1, hmap1, hbo1, hsf1, hal1, hp0.1,
            fun hne => ⟨hp0.2 hne, mmap_ok hpal hne, (hfresh hne).2⟩⟩))
      (fun _ _ _ h => h)))
    (@map_bound ps sz 0 mopts ms (by omega) hps16 hbig))
    (fun _ h => h) (fun h => h) (fun h => h)
  rintro _ ms' ⟨⟨_, h1⟩, h2⟩
  exact ⟨h1, fun x hx => h2 x (owned_mapped hown hx) (owned_not_cached hown hal hx)⟩

/-! ## `insert` with the memory -/

/-- The probe loop of `insert` finds a slot in a well-formed directory, grown if need
be, for a key whose page is not in it. -/
theorem insert_probe_total {ps : Nat} {mopts : malloc_readonly} {d d1 : dir_info}
    {key sz f : Nat} (hwf : dir_wf ps mopts d)
    (hmin : d.regions_total ≠ 0 → MALLOC_INITIAL_REGIONS ≤ d.regions_total)
    (hmax : d.regions_total ≤ 2 ^ 59) (hkey : key ≠ 0)
    (habs : ∀ y < d.regions_total, (slot d.r y).p ≠ 0 →
      MASK_POINTER ps (slot d.r y).p ≠ MASK_POINTER ps key)
    (hgrown : (if d.regions_free * 4 % 2 ^ 64 < d.regions_total ∨ d.regions_total = 0 then
        omalloc_grow ps d true else .ok (0, d)) = .ok (0, d1)) :
    ∃ idx, insert_probe d1.r (dir_mask d1.regions_total) (dir_mask d1.regions_total + 1)
      (hash ps key &&& dir_mask d1.regions_total) = some idx := by
  obtain ⟨rc, d2, hi, _, _⟩ := insert_wf ps mopts d key sz f true hwf hmin hmax hkey habs
  cases hprobe : insert_probe d1.r (dir_mask d1.regions_total) (dir_mask d1.regions_total + 1)
      (hash ps key &&& dir_mask d1.regions_total) with
  | some idx => exact ⟨idx, rfl⟩
  | none =>
    exfalso
    unfold insert at hi
    dsimp only at hi
    rw [hgrown] at hi
    dsimp only at hi
    rw [hprobe] at hi
    exact Outcome.noConfusion hi

/-- The size of a region table in bytes is a whole number of pages, not zero and below
`2 ^ 64`. -/
theorem table_round {ps total : Nat} (hps16 : ps ≤ 16) (h0 : 0 < total)
    (hmax : total ≤ 2 ^ 59) :
    ¬ (PAGEROUND ps ((total * sizeof_region_info) % 2 ^ 64) ≠
        PAGEROUND ps (PAGEROUND ps ((total * sizeof_region_info) % 2 ^ 64)) ∨
      PAGEROUND ps ((total * sizeof_region_info) % 2 ^ 64) >>> ps = 0) ∧
    PAGEROUND ps ((total * sizeof_region_info) % 2 ^ 64) < 2 ^ 64 := by
  have hle : 2 ^ ps ≤ 2 ^ 16 := Nat.pow_le_pow_right (by norm_num) hps16
  have hpos : 0 < 2 ^ ps := Nat.pow_pos (by norm_num)
  have hs : sizeof_region_info = 24 := rfl
  rw [hs, Nat.mod_eq_of_lt (by omega)]
  have hx : total * 24 + 2 ^ ps ≤ 2 ^ 64 := by omega
  obtain ⟨h1, h2, q, hq⟩ := PAGEROUND_bounds ps _ (by omega) hx
  refine ⟨?_, by omega⟩
  rw [round_round ps _ (by omega) hx]
  rintro (h | h)
  · exact h rfl
  · rw [hq, Nat.shiftRight_eq_div_pow, Nat.mul_div_cancel_left _ hpos] at h
    rw [h, Nat.mul_zero] at hq
    omega

theorem omalloc_grow_pool_outcome {ps : Nat} {mopts : malloc_readonly} {ms : mem_state}
    (hps : 5 ≤ ps) (hps16 : ps ≤ 16) (hwf : dir_wf ps mopts ms.pool.d)
    (hmax : ms.pool.d.regions_total ≤ 2 ^ 59)
    (hbo : bigcache_ok ms.pool) (hb1 : ms.pool.bigcache_size ≠ 1)
    (hb2 : ms.pool.bigcache_size ≠ 2) :
    wpxm (Mem.omalloc_grow_pool ps mopts) move_abort False False (fun _ _ => True) ms := by
  unfold Mem.omalloc_grow_pool
  apply wpxm_bind_i
  apply wpxm_pool_get_i
  apply wpxm_ite_i
  · intro _
    exact wpxm_pure_i trivial
  intro hsmall
  dsimp only
  apply wpxm_bind_i
  apply wpxm_mono (wpxm_of_clean clean_mem_os_mmap
    (wpm_sim (Q := fun _ s' => bigcache_ok s' ∧ s'.bigcache_size = ms.pool.bigcache_size)
      sim_os_mmap
      (fun e => wp_mono (@os_mmap_fresh ps _ { ms.pool with env := e } (by omega))
        (fun _ _ h => ⟨bigcache_ok_of_eq hbo h.2.2.1 h.2.2.2.1 h.2.2.2.2.1, h.2.2.2.1⟩))
      (fun _ _ _ h => h)))
    (fun _ h => h) (fun h => h) (fun h => h)
  rintro q ms1 ⟨hbo1, hsf1⟩
  apply wpxm_ite_i
  · intro _
    exact wpxm_pure_i trivial
  intro _
  obtain ⟨d2, hd2, _⟩ := omalloc_grow_ok ps mopts ms.pool.d hwf (by omega)
  apply wpxm_bind_i
  apply wpxm_lift_outcome_i
  rw [hd2]
  dsimp only
  apply wpxm_ite_i
  · intro h0
    obtain ⟨hround, hsz⟩ := @table_round ps ms.pool.d.regions_total hps16 h0 hmax
    apply wpxm_bind_i
    apply wpxm_mono (unmap_outcome hround hsz hbo1 (by rw [hsf1]; exact hb1)
      (by rw [hsf1]; exact hb2)) (fun _ h => h) (fun h => h) (fun h => h)
    intro _ ms2 _
    apply wpxm_bind_i
    apply wpxm_lift_modify_i
    exact wpxm_pure_i trivial
  · intro _
    apply wpxm_bind_i
    apply wpxm_pure_i
    apply wpxm_bind_i
    apply wpxm_lift_modify_i
    exact wpxm_pure_i trivial

/-- `omalloc_grow` stores only into bytes of pages that were not mapped and into the
bytes of the old region table. -/
theorem omalloc_grow_pool_bound {ps : Nat} {mopts : malloc_readonly} {ms : mem_state}
    (hps : 5 ≤ ps) (hps16 : ps ≤ 16) (hmax : ms.pool.d.regions_total ≤ 2 ^ 59) :
    wpm (Mem.omalloc_grow_pool ps mopts)
      (fun _ ms' => ∀ x, page_of ps x ∈ ms.pool.mapped →
        ¬ (ms.pool.r_addr ≤ x ∧ x < ms.pool.r_addr +
          PAGEROUND ps ((ms.pool.d.regions_total * sizeof_region_info) % 2 ^ 64)) →
        ms'.mem x = ms.mem x) ms := by
  unfold Mem.omalloc_grow_pool
  apply wpm_bind_i
  apply wpm_pool_get_i
  apply wpm_ite_i
  · intro _
    apply wpm_pure_i
    intro x _ _
    rfl
  intro hsmall
  dsimp only
  apply wpm_bind_i
  apply wpm_mono (os_mmap_bound (by omega))
  intro q ms1 h1
  apply wpm_ite_i
  · intro _
    apply wpm_pure_i
    intro x hx _
    exact h1 x hx
  intro _
  apply wpm_bind_i
  apply wpm_lift_i
  apply wp_lift_outcome_i
  intro g _
  dsimp only
  apply wpm_ite_i
  · intro h0
    obtain ⟨hround, hsz⟩ := @table_round ps ms.pool.d.regions_total hps16 h0 hmax
    apply wpm_bind_i
    apply wpm_mono (confined_wpm (@confined_unmap ps ms.pool.r_addr _ _ mopts hsz
      (Nat.le_refl _)) _)
    intro _ ms2 h2
    apply wpm_bind_i
    apply wpm_lift_i
    apply wp_modify_i
    apply wpm_pure_i
    intro x hx hxt
    show ms2.mem x = ms.mem x
    rw [h2 x hxt]
    exact h1 x hx
  · intro _
    apply wpm_bind_i
    apply wpm_pure_i
    apply wpm_bind_i
    apply wpm_lift_i
    apply wp_modify_i
    apply wpm_pure_i
    intro x hx _
    exact h1 x hx

theorem insert_pool_outcome {ps p sz f : Nat} {mopts : malloc_readonly} {ms : mem_state}
    (hps : 5 ≤ ps) (hps16 : ps ≤ 16) (hwf : dir_wf ps mopts ms.pool.d)
    (hmin : ms.pool.d.regions_total ≠ 0 → MALLOC_INITIAL_REGIONS ≤ ms.pool.d.regions_total)
    (hmax : ms.pool.d.regions_total ≤ 2 ^ 59) (hkey : p ≠ 0)
    (habs : ∀ y < ms.pool.d.regions_total, (slot ms.pool.d.r y).p ≠ 0 →
      MASK_POINTER ps (slot ms.pool.d.r y).p ≠ MASK_POINTER ps p)
    (hbo : bigcache_ok ms.pool) (hb1 : ms.pool.bigcache_size ≠ 1)
    (hb2 : ms.pool.bigcache_size ≠ 2) :
    wpxm (Mem.insert_pool ps mopts p sz f) move_abort False False (fun _ _ => True) ms := by
  unfold Mem.insert_pool
  apply wpxm_bind_i
  apply wpxm_pool_get_i
  have hfin : ∀ ms1 : mem_state,
      (if ms.pool.d.regions_free * 4 % 2 ^ 64 < ms.pool.d.regions_total ∨
          ms.pool.d.regions_total = 0 then
        omalloc_grow ps ms.pool.d true else .ok (0, ms.pool.d)) = .ok (0, ms1.pool.d) →
      wpxm (do
        let s ← Mem.pool_get
        let mask := dir_mask s.d.regions_total
        match insert_probe s.d.r mask (mask + 1) (hash ps p &&& mask) with
        | none => Mem.lift_pool diverges
        | some index => do
          Mem.lift_pool (modify (fun t => { t with d := { s.d with
            r := s.d.r.set index ⟨p, sz, f⟩
            regions_free := sub64 s.d.regions_free 1 } }))
          pure 0 : RunM Nat) move_abort False False (fun _ _ => True) ms1 := by
    intro ms1 hg
    obtain ⟨idx, hidx⟩ := @insert_probe_total ps mopts ms.pool.d ms1.pool.d p sz f hwf hmin hmax
      hkey habs hg
    apply wpxm_bind_i
    apply wpxm_pool_get_i
    dsimp only
    rw [hidx]
    dsimp only
    apply wpxm_bind_i
    apply wpxm_lift_modify_i
    exact wpxm_pure_i trivial
  by_cases hneed : ms.pool.d.regions_free * 4 % 2 ^ 64 < ms.pool.d.regions_total ∨
      ms.pool.d.regions_total = 0
  · rw [if_pos hneed] at hfin
    rw [if_pos hneed]
    apply wpxm_bind_i
    apply wpxm_mono (wpxm_with_wpm
      (omalloc_grow_pool_outcome hps hps16 hwf hmax hbo hb1 hb2)
      (wpm_sim (Q := fun rc s' => rc = 0 → omalloc_grow ps ms.pool.d true = .ok (0, s'.d))
        (@sim_omalloc_grow_pool ps mopts)
        (fun e => @omalloc_grow_pool_dir ps mopts { ms.pool with env := e } hwf)
        (fun _ _ _ h => h))) (fun _ h => h) (fun h => h) (fun h => h)
    rintro rc ms1 ⟨_, h1⟩
    apply wpxm_ite_i
    · intro _
      exact wpxm_pure_i trivial
    · intro hrc
      exact hfin ms1 (h1 (by omega))
  · rw [if_neg hneed] at hfin
    rw [if_neg hneed]
    apply wpxm_bind_i
    apply wpxm_pure_i
    rw [if_neg (by simp)]
    exact hfin ms rfl

/-- `insert` stores only into bytes of pages that were not mapped and into the bytes of
the old region table. -/
theorem insert_pool_bound {ps p sz f : Nat} {mopts : malloc_readonly} {ms : mem_state}
    (hps : 5 ≤ ps) (hps16 : ps ≤ 16) (hmax : ms.pool.d.regions_total ≤ 2 ^ 59) :
    wpm (Mem.insert_pool ps mopts p sz f)
      (fun _ ms' => ∀ x, page_of ps x ∈ ms.pool.mapped →
        ¬ (ms.pool.r_addr ≤ x ∧ x < ms.pool.r_addr +
          PAGEROUND ps ((ms.pool.d.regions_total * sizeof_region_info) % 2 ^ 64)) →
        ms'.mem x = ms.mem x) ms := by
  unfold Mem.insert_pool
  apply wpm_bind_i
  apply wpm_pool_get_i
  apply wpm_bind_i
  apply @wpm_mono _ _ (fun _ ms' => ∀ x, page_of ps x ∈ ms.pool.mapped →
        ¬ (ms.pool.r_addr ≤ x ∧ x < ms.pool.r_addr +
          PAGEROUND ps ((ms.pool.d.regions_total * sizeof_region_info) % 2 ^ 64)) →
        ms'.mem x = ms.mem x)
  · apply wpm_ite_i
    · intro _
      exact omalloc_grow_pool_bound hps hps16 hmax
    · intro _
      apply wpm_pure_i
      intro x _ _
      rfl
  intro rc ms1 h1
  apply wpm_ite_i
  · intro _
    apply wpm_pure_i
    exact h1
  intro _
  apply wpm_bind_i
  apply wpm_pool_get_i
  dsimp only
  split
  · exact wpm_diverges_i
  · apply wpm_bind_i
    apply wpm_lift_i
    apply wp_modify_i
    apply wpm_pure_i
    exact h1

/-- `insert(d, p, sz, f)` of a key whose page is not in the directory, on a consistent
pool.  It returns; when the result is 0 the directory is the one `insert` gives, and
otherwise it is as it was; the big cache stays consistent and keeps its size; and the
stores go into bytes of pages that were not mapped and into the old region table. -/
theorem insert_pool_moves {ps p sz f : Nat} {mopts : malloc_readonly} {ms : mem_state}
    (hps : 5 ≤ ps) (hps16 : ps ≤ 16) (hwf : dir_wf ps mopts ms.pool.d)
    (hmin : ms.pool.d.regions_total ≠ 0 → MALLOC_INITIAL_REGIONS ≤ ms.pool.d.regions_total)
    (hmax : ms.pool.d.regions_total ≤ 2 ^ 59) (hkey : p ≠ 0)
    (habs : ∀ y < ms.pool.d.regions_total, (slot ms.pool.d.r y).p ≠ 0 →
      MASK_POINTER ps (slot ms.pool.d.r y).p ≠ MASK_POINTER ps p)
    (hbo : bigcache_ok ms.pool) (hb1 : ms.pool.bigcache_size ≠ 1)
    (hb2 : ms.pool.bigcache_size ≠ 2) :
    wpxm (Mem.insert_pool ps mopts p sz f) move_abort False False
      (fun rc ms' => ((rc = 0 → insert ps ms.pool.d p sz f true = .ok (0, ms'.pool.d)) ∧
          (rc ≠ 0 → ms'.pool.d = ms.pool.d) ∧ bigcache_ok ms'.pool ∧
          ms'.pool.bigcache_size = ms.pool.bigcache_size) ∧
        ∀ x, page_of ps x ∈ ms.pool.mapped →
          ¬ (ms.pool.r_addr ≤ x ∧ x < ms.pool.r_addr +
            PAGEROUND ps ((ms.pool.d.regions_total * sizeof_region_info) % 2 ^ 64)) →
          ms'.mem x = ms.mem x) ms := by
  apply wpxm_mono (wpxm_with_wpm (wpxm_with_wpm
    (@insert_pool_outcome ps p sz f mopts ms hps hps16 hwf hmin hmax hkey habs hbo hb1 hb2)
    (wpm_sim (Q := fun rc s' => (rc = 0 → insert ps ms.pool.d p sz f true = .ok (0, s'.d)) ∧
          (rc ≠ 0 → s'.d = ms.pool.d) ∧ bigcache_ok s' ∧
          s'.bigcache_size = ms.pool.bigcache_size)
      (@sim_insert_pool ps p sz f mopts)
      (fun e => wp_mono (wp_and (wp_and
          (@insert_pool_insert ps p sz f mopts { ms.pool with env := e } hwf)
          (@insert_pool_failed ps p sz f mopts { ms.pool with env := e }))
        (wp_and
          (keeps_wp (Q := fun _ s' => bigcache_ok s') { ms.pool with env := e } insert_pool_bc
            hbo (fun _ _ h => h))
          (keeps_wp (Q := fun _ s' => s'.bigcache_size = ms.pool.bigcache_size)
            { ms.pool with env := e } insert_pool_sf rfl (fun _ _ h => h))))
        (fun _ _ h => ⟨h.1.1, h.1.2, h.2.1, h.2.2⟩))
      (fun _ _ _ h => h)))
    (@insert_pool_bound ps p sz f mopts ms hps hps16 hmax))
    (fun _ h => h) (fun h => h) (fun h => h)
  rintro _ ms' ⟨⟨_, h1⟩, h2⟩
  exact ⟨h1, h2⟩

/-! ## `omalloc` of a region of pages, with the memory -/

/-- `fill_canary` stores inside the allocation. -/
theorem fill_canary_frame (mopts : malloc_readonly) (mem : Nat → Nat) (ptr s b a : Nat)
    (hs : s ≤ b) (hfit : ptr + b ≤ 2 ^ 64) (hb : b < 2 ^ 64)
    (ha : ¬ (ptr ≤ a ∧ a < ptr + b)) : fill_canary mopts mem ptr s b a = mem a := by
  unfold fill_canary
  rw [check_sz_eq s b hs hb]
  by_cases hsb : s = b
  · rw [hsb, Nat.sub_self, Nat.zero_min]
    rfl
  · rw [add64_eq ptr s (by omega), memset_spec mem (ptr + s) _ _ a (by omega), if_neg (by omega)]

theorem confined_fill_canary {ps ptr s b : Nat} {mopts : malloc_readonly}
    (hs : s ≤ b) (hfit : ptr + b ≤ 2 ^ 64) (hb : b < 2 ^ 64) :
    confined (fun x => ptr ≤ x ∧ x < ptr + b) (Mem.fill_canary ps mopts ptr s b) := by
  unfold Mem.fill_canary
  dsimp only
  apply confined_bind confined_access
  intro _
  apply confined_store
  intro ms x hx
  exact fill_canary_frame mopts ms.mem ptr s b x hs hfit hb hx

/-- A run of pages of which none is a page of a directory entry starts at a page that
is the key of no entry. -/
theorem fresh_absent {ps : Nat} {d : dir_info} {q sz : Nat} (hps : ps ≤ 64)
    (hq : q % 2 ^ ps = 0) (hq64 : q < 2 ^ 64) (hsz : 0 < howmany sz (MALLOC_PAGESIZE ps))
    (hlen : d.r.length = d.regions_total)
    (hfresh : ∀ x ∈ page_list ps q sz, ∀ y < d.r.length, (slot d.r y).p ≠ 0 →
      x ∉ region_pages ps (slot d.r y)) :
    ∀ y < d.regions_total, (slot d.r y).p ≠ 0 →
      MASK_POINTER ps (slot d.r y).p ≠ MASK_POINTER ps q := by
  intro y hy hoy heq
  rw [MASK_POINTER_aligned ps q hps hq hq64] at heq
  refine hfresh q (page_list_first hsz) y (by rw [hlen]; exact hy) hoy ?_
  unfold region_pages
  rw [heq]
  exact List.mem_cons_self _ _

/-- `omalloc` of more than a page from a consistent pool, without guard pages: it
returns or aborts with one of the messages of `move_abort`, and it stores into no byte
on a page of a directory entry. -/
theorem omalloc_trace {ps n f : Nat} {mopts : malloc_readonly} {ms : mem_state}
    (hps : 5 ≤ ps) (hps16 : ps ≤ 16) (hg0 : mopts.malloc_guard = 0)
    (hbig : MALLOC_PAGESIZE ps < n) (hlimit : n < SIZE_MAX - MALLOC_PAGESIZE ps)
    (hok : region_pool_ok ps mopts ms.pool) :
    wpxm (Mem.omalloc ps mopts n 0 f) move_abort False False
      (fun _ ms' => ∀ x, owned_byte ps ms.pool x → ms'.mem x = ms.mem x) ms := by
  have hP := MALLOC_PAGESIZE_eq ps
  have hM := MALLOC_MAXCHUNK_eq ps
  have hMP : 2 ^ (ps - 1) < 2 ^ ps := Nat.pow_lt_pow_right (by norm_num) (by omega)
  have hle : 2 ^ ps ≤ 2 ^ 16 := Nat.pow_le_pow_right (by norm_num) hps16
  have hpos : 0 < 2 ^ ps := Nat.pow_pos (by norm_num)
  obtain ⟨hlim, _, _⟩ := @limit_eq ps mopts (by omega) (Or.inl hg0)
  unfold SIZE_MAX at hlimit
  rw [hP] at hbig hlimit
  have hadd : add64 n mopts.malloc_guard = n := by
    rw [hg0, add64_eq _ _ (by omega)]; rfl
  obtain ⟨n1, n2, qn, n3⟩ := PAGEROUND_bounds ps n (by omega) (by omega)
  have hmc : MALLOC_MOVE_COND ps mopts n = false := by
    have := MALLOC_MOVE_COND_eq ps mopts n (by omega)
    rw [hadd] at this
    rw [this, hP]
    exact decide_eq_false (by omega)
  have hrr := round_round ps n (by omega) (by omega)
  have hshift : PAGEROUND ps n >>> ps ≠ 0 := by
    rw [Nat.shiftRight_eq_div_pow, n3, Nat.mul_div_cancel_left _ hpos]
    intro hq
    rw [hq, Nat.mul_zero] at n3
    omega
  have hround : ¬ (PAGEROUND ps n ≠ PAGEROUND ps (PAGEROUND ps n) ∨ PAGEROUND ps n >>> ps = 0) := by
    rw [hrr]
    rintro (h | h)
    · exact h rfl
    · exact hshift h
  have hsub0 : ∀ x, x < 2 ^ 64 → sub64 x mopts.malloc_guard = x := by
    intro x hx
    rw [hg0, sub64_eq x 0 hx (Nat.zero_le _), Nat.sub_zero]
  have h64 : ps ≤ 64 := by omega
  have hn64 : n + 2 ^ ps ≤ 2 ^ 64 := by omega
  have hpr64 : PAGEROUND ps n < 2 ^ 64 := by omega
  have hprpos : 0 < PAGEROUND ps n := by omega
  have hbigP : MALLOC_PAGESIZE ps < PAGEROUND ps n := by rw [hP]; omega
  have hqn : 0 < qn := by
    by_contra hq
    have : qn = 0 := by omega
    rw [this, Nat.mul_zero] at n3
    omega
  have hhow : 0 < howmany (PAGEROUND ps n) (MALLOC_PAGESIZE ps) := by
    rw [n3, hP, Nat.mul_comm, howmany_mul _ _ hpos]
    exact hqn
  have hsubP := hsub0 (PAGEROUND ps n) hpr64
  have hsubn := hsub0 n (by omega)
  have hcond1 : n > MALLOC_MAXCHUNK ps := by rw [hM]; omega
  have hcond2 : ¬ n ≥ sub64 (sub64 SIZE_MAX mopts.malloc_guard) (MALLOC_PAGESIZE ps) := by
    rw [hlim, hg0]; omega
  have hok2 := hok
  obtain ⟨hwf, hmin, hmax, hal, hown, hsc, hbc, hbo, hb1, hb2, hnn⟩ := hok
  unfold Mem.omalloc
  rw [if_pos hcond1, if_neg hcond2]
  dsimp only
  rw [hadd]
  apply wpxm_bind_i
  apply wpxm_mono (@map_moves ps (PAGEROUND ps n) mopts ms hps hps16 hok2 hround
    hbigP) (fun _ h => h) (fun h => h) (fun h => h)
  rintro p ms1 ⟨⟨hc1, hmap1, hbo1, hsf1, hal1, hp0, hfresh⟩, hmem1⟩
  apply wpxm_ite_i
  · intro _
    apply wpxm_bind_i
    apply wpxm_lift_modify_i
    apply wpxm_pure_i
    exact hmem1
  intro hne
  obtain ⟨hfit, hpa, hpages⟩ := hfresh hne
  have hp64 : p < 2 ^ 64 := Nat.lt_of_lt_of_le (Nat.lt_add_of_pos_right hprpos) hfit
  have hd1 : ms1.pool.d = ms.pool.d := hc1.1
  have habs : ∀ y < ms1.pool.d.regions_total, (slot ms1.pool.d.r y).p ≠ 0 →
      MASK_POINTER ps (slot ms1.pool.d.r y).p ≠ MASK_POINTER ps p := by
    rw [hd1]
    exact fresh_absent h64 hpa hp64 hhow hwf.2.1 hpages
  apply wpxm_bind_i
  apply wpxm_mono (@insert_pool_moves ps p n f mopts ms1 hps hps16 (dir_wf_of_core hc1 hwf)
    (by rw [hd1]; exact hmin) (by rw [hd1]; exact hmax) hp0 habs hbo1
    (by rw [hsf1]; exact hb1) (by rw [hsf1]; exact hb2)) (fun _ h => h) (fun h => h) (fun h => h)
  rintro rc ms2 ⟨⟨hins, hfail, hbo2, hsf2⟩, hmem2⟩
  have hmem12 : ∀ x, owned_byte ps ms.pool x → ms2.mem x = ms.mem x := by
    intro x hx
    rw [hmem2 x (hmap1 _ (owned_mapped hown hx)) (by
      rw [hd1, hc1.2.1]
      exact owned_not_table hps16 hown hal hmax hx), hmem1 x hx]
  apply wpxm_ite_i
  · intro hrc
    apply wpxm_bind_i
    apply wpxm_mono (@unmap_moves ps p (PAGEROUND ps n) 0 mopts ms2 hround hpr64
      (Nat.zero_le _) hbo2 (by rw [hsf2, hsf1]; exact hb1) (by rw [hsf2, hsf1]; exact hb2))
      (fun _ h => h) (fun h => h) (fun h => h)
    rintro _ ms3 ⟨_, hmem3⟩
    apply wpxm_bind_i
    apply wpxm_lift_modify_i
    apply wpxm_pure_i
    intro x hx
    show ms3.mem x = ms.mem x
    rw [hmem3 x (owned_not_fresh h64 hpa hn64 hpages hx), hmem12 x hx]
  intro hrc
  apply wpxm_ite_i
  · intro hg
    exact absurd hg0 hg
  intro _
  apply wpxm_bind_i
  apply wpxm_pure_i
  apply wpxm_bind_i
  apply wpxm_pool_get_i
  rw [hmc]
  apply wpxm_ite_i
  · intro h
    exact absurd h (by simp)
  intro _
  rw [hsubP, hsubn]
  apply wpxm_mono (wpxm_with_wpm
    (wpxm_of_clean (P := move_abort) (by
        repeat' first
          | with_reducible exact clean_pure
          | with_reducible exact clean_memset
          | with_reducible exact clean_fill_canary
          | with_reducible apply clean_bind
          | with_reducible apply clean_ite
          | intro _) (wpm_any (Q := fun _ _ => True) (fun _ _ => trivial)))
    (confined_wpm (W := fun x => p ≤ x ∧ x < p + PAGEROUND ps n) (by
        repeat' first
          | with_reducible exact confined_pure
          | with_reducible exact confined_memset
          | with_reducible exact confined_fill_canary n1 hfit hpr64
          | with_reducible apply confined_bind
          | with_reducible apply confined_ite
          | (intro h; exact absurd rfl h)
          | intro _) ms2))
    (fun _ h => h) (fun h => h) (fun h => h)
  rintro _ ms3 ⟨_, hmem3⟩
  intro x hx
  rw [hmem3 x (owned_not_fresh h64 hpa hn64 hpages hx), hmem12 x hx]

/-- `omalloc` of more than a page from a consistent pool, without guard pages.  It
returns or aborts with one of the messages of `move_abort`.  It returns `NULL` with
`ENOMEM` and the directory as it was; or a page-aligned pointer to pages that were
pages of no region, which `insert` has put into the directory with the size asked
for.  The big cache stays consistent and keeps its size, and no byte on a page of a
directory entry is stored into. -/
theorem omalloc_moves {ps n f : Nat} {mopts : malloc_readonly} {ms : mem_state}
    (hps : 5 ≤ ps) (hps16 : ps ≤ 16) (hg0 : mopts.malloc_guard = 0)
    (hbig : MALLOC_PAGESIZE ps < n) (hlimit : n < SIZE_MAX - MALLOC_PAGESIZE ps)
    (hok : region_pool_ok ps mopts ms.pool) :
    wpxm (Mem.omalloc ps mopts n 0 f) move_abort False False
      (fun q ms' => (bigcache_ok ms'.pool ∧ ms'.pool.bigcache_size = ms.pool.bigcache_size ∧
          ((q = 0 ∧ ms'.pool.d = ms.pool.d ∧ ms'.pool.errno = ENOMEM) ∨
           (q ≠ 0 ∧ q + PAGEROUND ps n ≤ 2 ^ 64 ∧ q % 2 ^ ps = 0 ∧
            (∀ x ∈ page_list ps q (PAGEROUND ps n), ∀ y < ms.pool.d.r.length,
              (slot ms.pool.d.r y).p ≠ 0 → x ∉ region_pages ps (slot ms.pool.d.r y)) ∧
            insert ps ms.pool.d q n f true = .ok (0, ms'.pool.d)))) ∧
        ∀ x, owned_byte ps ms.pool x → ms'.mem x = ms.mem x) ms := by
  apply wpxm_mono (wpxm_with_wpm
    (@omalloc_trace ps n f mopts ms hps hps16 hg0 hbig hlimit hok)
    (wpm_sim (Q := fun q s' => bigcache_ok s' ∧ s'.bigcache_size = ms.pool.bigcache_size ∧
          ((q = 0 ∧ s'.d = ms.pool.d ∧ s'.errno = ENOMEM) ∨
           (q ≠ 0 ∧ q + PAGEROUND ps n ≤ 2 ^ 64 ∧ q % 2 ^ ps = 0 ∧
            (∀ x ∈ page_list ps q (PAGEROUND ps n), ∀ y < ms.pool.d.r.length,
              (slot ms.pool.d.r y).p ≠ 0 → x ∉ region_pages ps (slot ms.pool.d.r y)) ∧
            insert ps ms.pool.d q n f true = .ok (0, s'.d))))
      (@sim_omalloc ps n 0 f mopts)
      (fun e => @omalloc_large_moved ps mopts n f { ms.pool with env := e } hps hps16 hg0
        hbig hlimit hok)
      (fun _ _ _ h => h)))
    (fun _ h => h) (fun h => h) (fun h => h)
  rintro _ ms' ⟨h1, h2⟩
  exact ⟨h2, h1⟩

/-- The directory after `insert` of a new region at `q` and `delete` of the entry of
`p`: the entry of `p` is found before the `delete`, and after it `find` no longer has
`p` and has `q` with the size of the `insert`. -/
theorem moved_directory {ps : Nat} {mopts : malloc_readonly} {d d1 : dir_info}
    {p q oldsz newsz f f0 ri : Nat} (hps : ps ≤ 64) (hwf : dir_wf ps mopts d)
    (hmin : d.regions_total ≠ 0 → MALLOC_INITIAL_REGIONS ≤ d.regions_total)
    (hmax : d.regions_total ≤ 2 ^ 59) (hri : ri < d.r.length)
    (hslot : slot d.r ri = ⟨p, oldsz, f0⟩) (hp : p ≠ 0) (hq0 : q ≠ 0)
    (hfresh : ∀ y < d.regions_total, (slot d.r y).p ≠ 0 →
      MASK_POINTER ps (slot d.r y).p ≠ MASK_POINTER ps q)
    (hins : insert ps d q newsz f true = .ok (0, d1)) :
    q ≠ p ∧ ∃ x d2, find ps mopts d1 p = .ok (some x) ∧ slot d1.r x = ⟨p, oldsz, f0⟩ ∧
      delete ps d1 x = .ok d2 ∧ find ps mopts d2 p = .ok none ∧
      ∃ idx, find ps mopts d2 q = .ok (some idx) ∧
        (slot d2.r idx).p = q ∧ (slot d2.r idx).size = newsz := by
  have hkey : (slot d.r ri).p = p := by rw [hslot]
  have hrit : ri < d.regions_total := by rw [← hwf.2.1]; exact hri
  have hqp : q ≠ p := by
    intro h
    have := hfresh ri hrit (by rw [hkey]; exact hp)
    rw [hkey, h] at this
    exact this rfl
  obtain ⟨rc, d1b, hi1, _, hi3⟩ := insert_wf ps mopts d q newsz f true hwf hmin hmax hq0 hfresh
  rw [hins] at hi1
  injection hi1 with hi1
  injection hi1 with hrc hd1
  subst hrc; subst hd1
  obtain ⟨hwf1, _, _, _, _, hperm⟩ := hi3 rfl
  have hmem_old : (⟨p, oldsz, f0⟩ : region_info) ∈ d1.r := by
    have h1 : (⟨p, oldsz, f0⟩ : region_info) ∈ d.r.filter (fun e => decide (e.p ≠ 0)) := by
      rw [List.mem_filter]
      refine ⟨?_, by simpa using hp⟩
      rw [← hslot]; exact slot_mem hri
    have h2 := (List.Perm.mem_iff hperm).2 (List.mem_cons_of_mem _ h1)
    exact (List.mem_filter.1 h2).1
  have hmem_new : (⟨q, newsz, f⟩ : region_info) ∈ d1.r := by
    have h2 := (List.Perm.mem_iff hperm).2 (List.mem_cons_self _ _)
    exact (List.mem_filter.1 h2).1
  obtain ⟨x, hx, hsx⟩ := mem_slot hmem_old
  obtain ⟨y, hy, hsy⟩ := mem_slot hmem_new
  rw [hwf1.2.1] at hx hy
  have hxy : y ≠ x := by
    intro h
    rw [h, hsx] at hsy
    injection hsy with h1
    exact hqp h1.symm
  have hfx : find ps mopts d1 p = .ok (some x) :=
    find_present_wf ps mopts d1 x p hps hwf1 hx (by rw [hsx]; exact hp) (by rw [hsx])
  obtain ⟨d2, hdel, hgone, hkept, _⟩ := delete_full ps mopts d1 x hps hwf1 hx
    (by rw [hsx]; exact hp)
  refine ⟨hqp, x, d2, hfx, hsx, hdel, hgone p (by rw [hsx]), ?_⟩
  obtain ⟨idx, h1, h2, h3⟩ := hkept y hy hxy (by rw [hsy]; exact hq0) q (by rw [hsy])
  rw [hsy] at h2 h3
  exact ⟨idx, h1, h2, h3⟩

/-! ## `ofree` of a region of pages, with the memory -/

theorem wpxm_lift_tot {α : Type} {m : Run α} {P : wrterror_msg → Prop} {D U : Prop}
    {Q : α → mem_state → Prop} {ms : mem_state}
    (h : tot m (fun a s => Q a { ms with pool := s }) ms.pool) :
    wpxm (Mem.lift_pool m) P D U Q ms := by
  obtain ⟨a, s, hrun, hq⟩ := tot_elim h
  exact wpxm_lift_run hrun hq

theorem delete_pool_run {ps ri : Nat} {s : pool_state} {d2 : dir_info}
    (hdel : delete ps s.d ri = .ok d2) : delete_pool ps ri s = .ok ((), { s with d := d2 }) := by
  unfold delete_pool
  rw [run_bind, run_get, ok_bind, run_bind]
  dsimp only
  rw [hdel]
  rfl

/-- `validate_canary` returns or aborts with "canary corrupted"; it leaves the pool and
the memory as they are. -/
theorem validate_canary_moves {ps ptr sz al : Nat} {mopts : malloc_readonly} {ms : mem_state} :
    wpxm (Mem.validate_canary ps mopts ptr sz al) move_abort False False
      (fun _ ms' => ms'.pool = ms.pool ∧ ms'.mem = ms.mem) ms := by
  unfold Mem.validate_canary
  dsimp only
  apply wpxm_bind_i
  unfold Mem.access
  apply wpxm_modify_i
  apply wpxm_bind_i
  apply wpxm_get_i
  apply wpxm_lift_outcome_i
  rcases validate_canary_mem_outcome mopts ms.mem ptr sz al with h | h
  · rw [h]
    exact ⟨rfl, rfl⟩
  · rw [h]
    exact move_abort_canary

/-- `ofree(pool, p, 0, 0, 0)` of a region of pages, without guard pages: it returns or
aborts with one of the messages of `move_abort`, and it stores only into the pages of
the region. -/
theorem ofree_trace {ps p oldsz f0 x : Nat} {mopts : malloc_readonly} {ms : mem_state}
    {d2 : dir_info} (hps : 5 ≤ ps) (hps16 : ps ≤ 16) (hg0 : mopts.malloc_guard = 0)
    (hfind : find ps mopts ms.pool.d p = .ok (some x))
    (hslot : slot ms.pool.d.r x = ⟨p, oldsz, f0⟩) (htag : p &&& MALLOC_PAGEMASK ps = 0)
    (hold : MALLOC_PAGESIZE ps ≤ oldsz) (hold2 : oldsz + MALLOC_PAGESIZE ps ≤ 2 ^ 64)
    (hdel : delete ps ms.pool.d x = .ok d2)
    (hbo : bigcache_ok ms.pool) (hb1 : ms.pool.bigcache_size ≠ 1)
    (hb2 : ms.pool.bigcache_size ≠ 2) :
    wpxm (Mem.ofree ps mopts p 0 0 0) move_abort False False
      (fun _ ms' => ∀ y, ¬ (p ≤ y ∧ y < p + PAGEROUND ps oldsz) → ms'.mem y = ms.mem y) ms := by
  have hP := MALLOC_PAGESIZE_eq ps
  have hM := MALLOC_MAXCHUNK_eq ps
  have hMP : 2 ^ (ps - 1) < 2 ^ ps := Nat.pow_lt_pow_right (by norm_num) (by omega)
  have hle : 2 ^ ps ≤ 2 ^ 16 := Nat.pow_le_pow_right (by norm_num) hps16
  have hpos : 0 < 2 ^ ps := Nat.pow_pos (by norm_num)
  rw [hP] at hold hold2
  obtain ⟨o1, o2, qo, o3⟩ := PAGEROUND_bounds ps oldsz (by omega) hold2
  have hrr := round_round ps oldsz (by omega) hold2
  have hshift : PAGEROUND ps oldsz >>> ps ≠ 0 := by
    rw [Nat.shiftRight_eq_div_pow, o3, Nat.mul_div_cancel_left _ hpos]
    intro hq
    rw [hq, Nat.mul_zero] at o3
    omega
  have hround : ¬ (PAGEROUND ps oldsz ≠ PAGEROUND ps (PAGEROUND ps oldsz) ∨
      PAGEROUND ps oldsz >>> ps = 0) := by
    rw [hrr]
    rintro (h | h)
    · exact h rfl
    · exact hshift h
  have hreal : REALSIZE ps (slot ms.pool.d.r x) = oldsz := by
    rw [hslot]
    unfold REALSIZE
    simp only [htag, if_true]
  have hmc : MALLOC_MOVE_COND ps mopts oldsz = false := by
    have := MALLOC_MOVE_COND_eq ps mopts oldsz (by omega)
    rw [hg0, add64_eq _ _ (by omega), Nat.add_zero] at this
    rw [this, hP]
    exact decide_eq_false (by omega)
  have hsub : sub64 oldsz mopts.malloc_guard = oldsz := by
    rw [hg0, sub64_eq _ _ (by omega) (by omega)]; rfl
  unfold Mem.ofree
  apply wpxm_bind_i
  apply wpxm_lift_run (findpool_run hfind)
  apply wpxm_bind_i
  apply wpxm_pool_get_i
  dsimp only
  rw [hreal, if_neg (by simp), if_pos (by rw [hM]; omega)]
  apply wpxm_bind_i
  apply wpxm_pure_i
  unfold Mem.ofree_large
  apply wpxm_bind_i
  apply wpxm_pool_get_i
  dsimp only
  rw [hmc, hslot]
  dsimp only
  rw [hsub]
  rw [if_pos (by simp), if_neg (by simp)]
  apply wpxm_bind_i
  refine wpxm_mono (Q := fun a ms1 => a = p ∧ ms1.pool = ms.pool ∧ ms1.mem = ms.mem) ?_
    (fun _ h => h) (fun h => h) (fun h => h) ?_
  · apply wpxm_ite_i
    · intro _
      apply wpxm_bind_i
      apply wpxm_mono validate_canary_moves (fun _ h => h) (fun h => h) (fun h => h)
      rintro _ ms1 ⟨h1, h2⟩
      apply wpxm_pure_i
      exact ⟨rfl, h1, h2⟩
    · intro _
      apply wpxm_bind_i
      apply wpxm_pure_i
      apply wpxm_pure_i
      exact ⟨rfl, rfl, rfl⟩
  rintro a ms1 ⟨ha, hp1, hm1⟩
  subst ha
  rw [if_neg (by rw [hg0]; simp)]
  apply wpxm_bind_i
  apply wpxm_pure_i
  apply wpxm_bind_i
  apply wpxm_mono (@unmap_moves ps a (PAGEROUND ps oldsz) _ mopts ms1 hround (by omega)
    (by repeat' split
        all_goals omega)
    (by rw [hp1]; exact hbo) (by rw [hp1]; exact hb1) (by rw [hp1]; exact hb2))
    (fun _ h => h) (fun h => h) (fun h => h)
  rintro _ ms2 ⟨⟨hc2, _, _⟩, hmem2⟩
  apply wpxm_lift_run (@delete_pool_run ps x _ d2 (by rw [hc2.1, hp1]; exact hdel))
  intro y hy
  show ms2.mem y = ms.mem y
  rw [hmem2 y hy, hm1]

/-- `ofree(pool, p, 0, 0, 0)` of a region of pages, without guard pages: it returns or
aborts with one of the messages of `move_abort`; the entry of the region is deleted
from the directory, and the stores go into the pages of the region only. -/
theorem ofree_moves {ps p oldsz f0 x : Nat} {mopts : malloc_readonly} {ms : mem_state}
    {d2 : dir_info} (hps : 5 ≤ ps) (hps16 : ps ≤ 16) (hg0 : mopts.malloc_guard = 0)
    (hfind : find ps mopts ms.pool.d p = .ok (some x))
    (hslot : slot ms.pool.d.r x = ⟨p, oldsz, f0⟩) (htag : p &&& MALLOC_PAGEMASK ps = 0)
    (hold : MALLOC_PAGESIZE ps ≤ oldsz) (hold2 : oldsz + MALLOC_PAGESIZE ps ≤ 2 ^ 64)
    (hdel : delete ps ms.pool.d x = .ok d2)
    (hbo : bigcache_ok ms.pool) (hb1 : ms.pool.bigcache_size ≠ 1)
    (hb2 : ms.pool.bigcache_size ≠ 2) :
    wpxm (Mem.ofree ps mopts p 0 0 0) move_abort False False
      (fun _ ms' => ms'.pool.d = d2 ∧
        ∀ y, ¬ (p ≤ y ∧ y < p + PAGEROUND ps oldsz) → ms'.mem y = ms.mem y) ms := by
  have hP := MALLOC_PAGESIZE_eq ps
  have hM := MALLOC_MAXCHUNK_eq ps
  have hMP : 2 ^ (ps - 1) < 2 ^ ps := Nat.pow_lt_pow_right (by norm_num) (by omega)
  apply wpxm_mono (wpxm_with_wpm
    (@ofree_trace ps p oldsz f0 x mopts ms d2 hps hps16 hg0 hfind hslot htag hold hold2 hdel
      hbo hb1 hb2)
    (wpm_sim (Q := fun _ s' => s'.d = d2) (@sim_ofree ps p 0 0 0 mopts)
      (fun e => wp_mono (@ofree_region ps mopts p { ms.pool with env := e }
          { ms.pool with env := e } x p oldsz f0 d2 (core_frame_refl _) hfind hslot htag
          (by rw [hM]; omega) hdel)
        (fun _ _ h => h.1))
      (fun _ _ _ h => h)))
    (fun _ h => h) (fun h => h) (fun h => h)
  rintro _ ms' ⟨h1, h2⟩
  exact ⟨h2, h1⟩

/-! ## `realloc` of a region of pages that moves -/

/-- A byte on a page of a region of pages is a byte on a page of its directory
entry. -/
theorem region_page_owned {ps : Nat} {s : pool_state} {ri p sz f i : Nat} (hps : ps ≤ 64)
    (hri : ri < s.d.r.length) (hslot : slot s.d.r ri = ⟨p, sz, f⟩) (hp : p ≠ 0)
    (htag : p &&& MALLOC_PAGEMASK ps = 0) (hp64 : p < 2 ^ 64) (hsz : sz + 2 ^ ps ≤ 2 ^ 64)
    (hi : i < PAGEROUND ps sz) : owned_byte ps s (p + i) := by
  have hpal : p % 2 ^ ps = 0 := by
    rw [MALLOC_PAGEMASK_eq, Nat.and_pow_two_sub_one_eq_mod] at htag
    exact htag
  refine ⟨ri, hri, by rw [hslot]; exact hp, ?_⟩
  rw [hslot]
  unfold region_pages
  dsimp only
  rw [if_pos htag, MASK_POINTER_aligned ps p hps hpal hp64]
  apply List.mem_cons_of_mem
  apply page_of_mem_page_list hpal (Nat.le_add_right _ _)
  rw [howmany_round ps sz hps hsz]
  omega

/-- The consistency of a pool does not depend on `errno` and on the answers of the
environment still to come. -/
theorem region_pool_ok_env {ps : Nat} {mopts : malloc_readonly} {s : pool_state}
    (env : List Nat) (errno : Nat) (h : region_pool_ok ps mopts s) :
    region_pool_ok ps mopts { { s with env := env } with errno := errno } := h

theorem os_mmap_fixed_fails_tot {ps a sz : Nat} {s : pool_state} {Q : Nat → pool_state → Prop}
    (hfail : ¬ (s.env.headD 0 ≠ 0 ∧ mmap_free ps s.mapped a sz = true))
    (h : Q MAP_FAILED { { s with env := s.env.tail } with errno := ENOMEM }) :
    tot (os_mmap_fixed ps a sz) Q s := by
  unfold os_mmap_fixed
  apply tot_bind_i
  apply tot_env_next_i
  apply tot_bind_i
  apply tot_get_i
  dsimp only
  rw [if_neg hfail]
  apply tot_bind_i
  apply tot_set_i
  apply tot_pure_i
  exact h

/-- The cheap expansion of `orealloc` when the kernel does not map the pages behind
the region: control falls through to the general case; the call has taken one answer
of the environment and left `ENOMEM` in `errno`, and nothing else has changed. -/
theorem orealloc_pages_fails {ps : Nat} {mopts : malloc_readonly}
    {ri p goldsz gnewsz oldsz newsz f : Nat} {ms : mem_state} {P : wrterror_msg → Prop}
    {D U : Prop} (hps : ps ≤ 64) (hps0 : 0 < ps) (hg0 : mopts.malloc_guard = 0)
    (hgrow : PAGEROUND ps goldsz < PAGEROUND ps gnewsz)
    (hal : (slot ms.pool.d.r ri).p % 2 ^ ps = 0)
    (hfail : ¬ (ms.pool.env.headD 0 ≠ 0 ∧
      mmap_free ps ms.pool.mapped (add64 (slot ms.pool.d.r ri).p (PAGEROUND ps goldsz))
        (sub64 (PAGEROUND ps gnewsz) (PAGEROUND ps goldsz)) = true)) :
    wpxm (Mem.orealloc_pages ps mopts ri p goldsz gnewsz oldsz newsz f) P D U
      (fun r ms' => r = none ∧ ms' = { ms with pool :=
        { { ms.pool with env := ms.pool.env.tail } with errno := ENOMEM } }) ms := by
  unfold Mem.orealloc_pages
  apply wpxm_bind_i
  apply wpxm_pool_get_i
  dsimp only
  rw [if_neg (by omega), if_pos hgrow, if_pos hg0]
  apply wpxm_bind_i
  unfold Mem.os_mmap_fixed
  apply wpxm_bind_i
  apply wpxm_lift_tot
  apply os_mmap_fixed_fails_tot hfail
  rw [if_neg (by simp)]
  apply wpxm_bind_i
  apply wpxm_pure_i
  apply wpxm_pure_i
  rw [if_neg (fun h => hint_ne_failed ps _ _ hps hps0 hal (PAGEROUND_aligned ps _ hps) h.symm)]
  apply wpxm_pure_i
  exact ⟨rfl, rfl⟩

/-- `EPILOGUE` returns its result or aborts with "out of memory"; it restores `errno`
when the result is not `NULL` and leaves it otherwise, and changes nothing else. -/
theorem EPILOGUE_moves {mopts : malloc_readonly} {e r : Nat} {ms : mem_state} :
    wpxm (Mem.lift_pool (EPILOGUE mopts e r)) move_abort False False
      (fun a ms' => a = r ∧ ms'.mem = ms.mem ∧ ms'.pool.d = ms.pool.d ∧
        (r = 0 → ms'.pool.errno = ms.pool.errno) ∧ (r ≠ 0 → ms'.pool.errno = e)) ms := by
  unfold EPILOGUE
  by_cases h1 : r = 0 ∧ mopts.malloc_xmalloc ≠ 0
  · rw [if_pos h1]
    exact wpxm_lift_abort_i move_abort_oom
  · rw [if_neg h1]
    by_cases h2 : r ≠ 0
    · rw [if_pos h2]
      apply wpxm_lift_tot
      apply tot_bind_i
      apply tot_modify_i
      apply tot_pure_i
      exact ⟨rfl, rfl, rfl, fun h => absurd h h2, fun _ => rfl⟩
    · rw [if_neg h2]
      apply wpxm_lift_tot
      apply tot_bind_i
      apply tot_pure_i
      apply tot_pure_i
      exact ⟨rfl, rfl, rfl, fun _ => rfl, fun h => absurd h h2⟩

/-- The general case of `orealloc` for a region of pages that cannot be expanded in
place, in a consistent pool.  It returns or aborts with one of the messages of
`move_abort`.  It returns `NULL` with `ENOMEM`, the directory and the bytes of the
region as they were; or a pointer `q ≠ p` to a new region that is in the directory
with the new size and holds the first `oldsz` bytes of the old one, which is deleted
from the directory. -/
theorem orealloc_moves {ps : Nat} {mopts : malloc_readonly} {p oldsz newsz f f0 ri : Nat}
    {ms : mem_state} (hps : 5 ≤ ps) (hps16 : ps ≤ 16)
    (hg0 : mopts.malloc_guard = 0)
    (hp : p ≠ 0) (hp64 : p < 2 ^ 64) (hR : mopts.malloc_realloc = 0)
    (hflag : ms.pool.d.mmap_flag = 0)
    (hfind : find ps mopts ms.pool.d p = .ok (some ri)) (hri : ri < ms.pool.d.r.length)
    (hslot : slot ms.pool.d.r ri = ⟨p, oldsz, f0⟩)
    (htag : p &&& MALLOC_PAGEMASK ps = 0)
    (hold : MALLOC_PAGESIZE ps ≤ oldsz) (hold2 : oldsz + MALLOC_PAGESIZE ps ≤ 2 ^ 64)
    (hlimit : newsz < SIZE_MAX - MALLOC_PAGESIZE ps)
    (hgrow : PAGEROUND ps oldsz < PAGEROUND ps newsz)
    (hfail : ¬ (ms.pool.env.headD 0 ≠ 0 ∧
      mmap_free ps ms.pool.mapped (add64 p (PAGEROUND ps oldsz))
        (sub64 (PAGEROUND ps newsz) (PAGEROUND ps oldsz)) = true))
    (hok : region_pool_ok ps mopts ms.pool) :
    wpxm (Mem.orealloc ps mopts p newsz f) move_abort False False
      (fun q ms' =>
        (q = 0 ∧ ms'.pool.errno = ENOMEM ∧ ms'.pool.d = ms.pool.d ∧
          ∀ i < oldsz, ms'.mem (p + i) = ms.mem (p + i)) ∨
        (q ≠ 0 ∧ q ≠ p ∧ q % 2 ^ ps = 0 ∧ q + newsz ≤ 2 ^ 64 ∧
          find ps mopts ms'.pool.d p = .ok none ∧
          (∃ idx, find ps mopts ms'.pool.d q = .ok (some idx) ∧
            (slot ms'.pool.d.r idx).p = q ∧ (slot ms'.pool.d.r idx).size = newsz) ∧
          ∀ i < oldsz, ms'.mem (q + i) = ms.mem (p + i))) ms := by
  have hkey : (slot ms.pool.d.r ri).p = p := by rw [hslot]
  have hsize : (slot ms.pool.d.r ri).size = oldsz := by rw [hslot]
  have hreal : REALSIZE ps (slot ms.pool.d.r ri) = oldsz := by
    unfold REALSIZE
    simp only [hkey, htag, if_true, hsize]
  have hP := MALLOC_PAGESIZE_eq ps
  have hM := MALLOC_MAXCHUNK_eq ps
  have hMP : 2 ^ (ps - 1) < 2 ^ ps := Nat.pow_lt_pow_right (by norm_num) (by omega)
  have hle : 2 ^ ps ≤ 2 ^ 16 := Nat.pow_le_pow_right (by norm_num) hps16
  obtain ⟨hlim, _, _⟩ := @limit_eq ps mopts (by omega) (Or.inl hg0)
  have hlimit0 := hlimit
  have hold0 := hold
  have hold20 := hold2
  unfold SIZE_MAX at hlimit
  rw [hP] at hlimit hold hold2
  obtain ⟨o1, o2, qo, o3⟩ := PAGEROUND_bounds ps oldsz (by omega) hold2
  obtain ⟨n1, n2, qn, n3⟩ := PAGEROUND_bounds ps newsz (by omega) (by omega)
  have hg2 : 2 ^ ps * qo < 2 ^ ps * qn := by rw [← o3, ← n3]; exact hgrow
  have hb := mult_gap _ _ _ hg2
  have hnewP : 2 ^ ps < newsz := by omega
  have hnew : newsz > MALLOC_MAXCHUNK ps := by rw [hM]; omega
  have hsub : sub64 oldsz mopts.malloc_guard = oldsz := by
    rw [hg0, sub64_eq _ _ (by omega) (by omega)]; rfl
  have hadd : add64 newsz mopts.malloc_guard = newsz := by
    rw [hg0, add64_eq _ _ (by omega)]; rfl
  have hne : newsz ≠ oldsz := by
    intro h; rw [h] at hgrow; exact Nat.lt_irrefl _ hgrow
  have hlt : oldsz < newsz := by
    by_contra hc
    have : newsz ≤ oldsz := by omega
    omega
  have hpal : p % 2 ^ ps = 0 := by
    rw [MALLOC_PAGEMASK_eq, Nat.and_pow_two_sub_one_eq_mod] at htag
    exact htag
  have h64 : ps ≤ 64 := by omega
  have h0ps : 0 < ps := by omega
  have hn64 : newsz + 2 ^ ps ≤ 2 ^ 64 := by omega
  have hnewbig : MALLOC_PAGESIZE ps < newsz := by rw [hP]; omega
  have hnz : ¬ newsz = 0 ∧ ¬ oldsz = 0 := ⟨by omega, by omega⟩
  have hpos : 0 < 2 ^ ps := Nat.pow_pos (by norm_num)
  have hqn : 0 < qn := by
    by_contra hc
    have : qn = 0 := by omega
    rw [this, Nat.mul_zero] at n3
    omega
  have hprpos : 0 < PAGEROUND ps newsz := by omega
  have hcond : ¬ newsz ≥ sub64 (sub64 SIZE_MAX mopts.malloc_guard) (MALLOC_PAGESIZE ps) := by
    rw [hlim, hg0]; omega
  have hgt : oldsz > MALLOC_MAXCHUNK ps := by rw [hM]; omega
  have hnle : ¬ oldsz ≤ MALLOC_MAXCHUNK ps := by omega
  have hng : ¬ oldsz < mopts.malloc_guard := by omega
  unfold Mem.orealloc
  rw [if_neg hp, if_neg hcond]
  apply wpxm_bind_i
  apply wpxm_lift_run (findpool_run hfind)
  apply wpxm_bind_i
  apply wpxm_pool_get_i
  dsimp only
  rw [hreal]
  generalize hQ : (fun (q : Nat) (ms' : mem_state) =>
        (q = 0 ∧ ms'.pool.errno = ENOMEM ∧ ms'.pool.d = ms.pool.d ∧
          ∀ i < oldsz, ms'.mem (p + i) = ms.mem (p + i)) ∨
        (q ≠ 0 ∧ q ≠ p ∧ q % 2 ^ ps = 0 ∧ q + newsz ≤ 2 ^ 64 ∧
          find ps mopts ms'.pool.d p = .ok none ∧
          (∃ idx, find ps mopts ms'.pool.d q = .ok (some idx) ∧
            (slot ms'.pool.d.r idx).p = q ∧ (slot ms'.pool.d.r idx).size = newsz) ∧
          ∀ i < oldsz, ms'.mem (q + i) = ms.mem (p + i))) = Q
  simp only [hgt, hnle, hng, hnew, hne, hR, hflag, hsub, hadd, false_and, and_false, if_false,
    if_true, ne_eq, not_true_eq_false, or_self, decide_False, Bool.false_eq_true,
    not_false_eq_true, true_and, and_self, or_false, not_false_iff]
  apply wpxm_bind_i
  apply wpxm_pure_i
  apply wpxm_bind_i
  rw [← hsize]
  apply wpxm_mono (@orealloc_pages_fails ps mopts ri p (slot ms.pool.d.r ri).size newsz
    (slot ms.pool.d.r ri).size newsz f ms move_abort False False h64 h0ps hg0
    (by rw [hsize]; exact hgrow) (by rw [hkey]; exact hpal)
    (by rw [hkey, hsize]; exact hfail)) (fun _ h => h) (fun h => h) (fun h => h)
  rintro r ms1 ⟨hr, hms1⟩
  subst hr
  dsimp only
  rw [hsize]
  have hok1 : region_pool_ok ps mopts ms1.pool := by
    rw [hms1]
    exact region_pool_ok_env _ _ hok
  have hd1 : ms1.pool.d = ms.pool.d := by rw [hms1]
  have hm1 : ms1.mem = ms.mem := by rw [hms1]
  have hs1 : ms1.pool.bigcache_size = ms.pool.bigcache_size := by rw [hms1]
  have hown1 : ∀ i < PAGEROUND ps oldsz, owned_byte ps ms1.pool (p + i) := fun i hi =>
    region_page_owned h64 (by rw [hd1]; exact hri) (by rw [hd1]; exact hslot) hp htag
      hp64 hold2 hi
  obtain ⟨hwf, hmin, hmax, hal, hown, hsc, hbc, hbo, hb1, hb2, hnn⟩ := hok
  apply wpxm_bind_i
  apply wpxm_mono (@omalloc_moves ps newsz f mopts ms1 hps hps16 hg0 hnewbig
    hlimit0 hok1) (fun _ h => h) (fun h => h) (fun h => h)
  rintro q ms2 ⟨⟨hbo2, hsf2, hcase⟩, hmem2⟩
  apply wpxm_ite_i
  · intro hq0
    apply wpxm_pure_i
    rw [← hQ]
    rcases hcase with ⟨_, hd2, he2⟩ | ⟨hq, _⟩
    · left
      exact ⟨rfl, he2, by rw [hd2, hd1], fun i hi => by
        rw [hmem2 _ (hown1 i (Nat.lt_of_lt_of_le hi o1)), hm1]⟩
    · exact absurd hq0 hq
  intro hq0
  rcases hcase with ⟨hq, _⟩ | ⟨_, hfit, hqa, hfresh, hins⟩
  · exact absurd hq hq0
  rw [if_pos hnz, if_pos hlt]
  have hq64 : q < 2 ^ 64 := Nat.lt_of_lt_of_le (Nat.lt_add_of_pos_right hprpos) hfit
  obtain ⟨hqp, x, d2, hfx, hsx, hdel, hgone, hkept⟩ :=
    @moved_directory ps mopts ms1.pool.d ms2.pool.d p q oldsz newsz f f0 ri h64
      (by rw [hd1]; exact hwf) (by rw [hd1]; exact hmin) (by rw [hd1]; exact hmax)
      (by rw [hd1]; exact hri) (by rw [hd1]; exact hslot) hp hq0
      (fresh_absent h64 hqa hq64
        (by rw [n3, hP, Nat.mul_comm, howmany_mul _ _ hpos]; exact hqn)
        (by rw [hd1]; exact hwf.2.1) hfresh) hins
  apply wpxm_bind_i
  unfold Mem.memcpy Mem.access
  apply wpxm_bind_i
  apply wpxm_modify_i
  apply wpxm_bind_i
  apply wpxm_modify_i
  apply wpxm_modify_i
  apply wpxm_bind_i
  refine wpxm_mono (@ofree_moves ps p oldsz f0 x mopts _ d2 hps hps16 hg0 hfx hsx htag hold0
    hold20 hdel hbo2 (by rw [hsf2, hs1]; exact hb1) (by rw [hsf2, hs1]; exact hb2))
    (fun _ h => h) (fun h => h) (fun h => h) ?_
  rintro _ ms4 ⟨hd4, hmem4⟩
  apply wpxm_pure_i
  rw [← hQ]
  right
  refine ⟨hq0, hqp, hqa, Nat.le_trans (Nat.add_le_add_left n1 q) hfit, by rw [hd4]; exact hgone, by rw [hd4]; exact hkept, ?_⟩
  intro i hi
  have hout : ¬ (p ≤ q + i ∧ q + i < p + PAGEROUND ps oldsz) := by
    rintro ⟨h1, h2⟩
    have ho := hown1 (q + i - p) (Nat.sub_lt_left_of_lt_add h1 h2)
    rw [Nat.add_sub_cancel' h1] at ho
    exact owned_not_fresh h64 hqa hn64 hfresh ho ⟨Nat.le_add_right q i,
      Nat.add_lt_add_left (Nat.lt_of_lt_of_le (Nat.lt_trans hi hlt) n1) q⟩
  rw [hmem4 (q + i) hout]
  show (if q ≤ q + i ∧ q + i < q + oldsz then ms2.mem (p + (q + i - q)) else ms2.mem (q + i)) =
    ms.mem (p + i)
  rw [if_pos ⟨Nat.le_add_right q i, Nat.add_lt_add_left hi q⟩, Nat.add_sub_cancel_left,
    hmem2 _ (hown1 i (Nat.lt_of_lt_of_le hi o1)), hm1]

/-! ## `realloc` of a region of pages that grows in place -/

/-- The cheap expansion of `orealloc` with the memory: when the kernel maps the pages
behind the region, `orealloc` returns the pointer, the entry keeps its key and records
the new size, and `errno` is as it was. -/
theorem orealloc_grows {ps : Nat} {mopts : malloc_readonly} {p oldsz newsz f f0 ri : Nat}
    {ms : mem_state} (hps : 5 ≤ ps) (hps16 : ps ≤ 16)
    (hg0 : mopts.malloc_guard = 0)
    (hp : p ≠ 0) (hR : mopts.malloc_realloc = 0) (hflag : ms.pool.d.mmap_flag = 0)
    (hfind : find ps mopts ms.pool.d p = .ok (some ri)) (hri : ri < ms.pool.d.r.length)
    (hslot : slot ms.pool.d.r ri = ⟨p, oldsz, f0⟩)
    (htag : p &&& MALLOC_PAGEMASK ps = 0)
    (hold : MALLOC_PAGESIZE ps ≤ oldsz) (hold2 : oldsz + MALLOC_PAGESIZE ps ≤ 2 ^ 64)
    (hlimit : newsz < SIZE_MAX - MALLOC_PAGESIZE ps)
    (hgrow : PAGEROUND ps oldsz < PAGEROUND ps newsz)
    (hw : ms.pool.env.headD 0 ≠ 0)
    (hfree : mmap_free ps ms.pool.mapped (add64 p (PAGEROUND ps oldsz))
      (sub64 (PAGEROUND ps newsz) (PAGEROUND ps oldsz)) = true) :
    wpxm (Mem.orealloc ps mopts p newsz f) (fun _ => False) False False
      (fun q ms' => q = p ∧
        ms'.pool.d = { ms.pool.d with r := ms.pool.d.r.set ri ⟨p, newsz, f⟩ } ∧
        ms'.pool.errno = ms.pool.errno) ms := by
  have hkey : (slot ms.pool.d.r ri).p = p := by rw [hslot]
  have hsize : (slot ms.pool.d.r ri).size = oldsz := by rw [hslot]
  have hreal : REALSIZE ps (slot ms.pool.d.r ri) = oldsz := by
    unfold REALSIZE
    simp only [hkey, htag, if_true, hsize]
  have hP := MALLOC_PAGESIZE_eq ps
  have hM := MALLOC_MAXCHUNK_eq ps
  have hMP : 2 ^ (ps - 1) < 2 ^ ps := Nat.pow_lt_pow_right (by norm_num) (by omega)
  have hle : 2 ^ ps ≤ 2 ^ 16 := Nat.pow_le_pow_right (by norm_num) hps16
  obtain ⟨hlim, _, _⟩ := @limit_eq ps mopts (by omega) (Or.inl hg0)
  unfold SIZE_MAX at hlimit
  rw [hP] at hlimit hold hold2
  obtain ⟨o1, o2, qo, o3⟩ := PAGEROUND_bounds ps oldsz (by omega) hold2
  obtain ⟨n1, n2, qn, n3⟩ := PAGEROUND_bounds ps newsz (by omega) (by omega)
  have hg2 : 2 ^ ps * qo < 2 ^ ps * qn := by rw [← o3, ← n3]; exact hgrow
  have hb := mult_gap _ _ _ hg2
  have hnew : newsz > MALLOC_MAXCHUNK ps := by rw [hM]; omega
  have hsub : sub64 oldsz mopts.malloc_guard = oldsz := by
    rw [hg0, sub64_eq _ _ (by omega) (by omega)]; rfl
  have hadd : add64 newsz mopts.malloc_guard = newsz := by
    rw [hg0, add64_eq _ _ (by omega)]; rfl
  have hpal : p % 2 ^ ps = 0 := by
    rw [MALLOC_PAGEMASK_eq, Nat.and_pow_two_sub_one_eq_mod] at htag
    exact htag
  unfold Mem.orealloc
  rw [if_neg hp, if_neg (by rw [hlim, hg0]; omega)]
  apply wpxm_bind_i
  apply wpxm_lift_run (findpool_run hfind)
  apply wpxm_bind_i
  apply wpxm_pool_get_i
  dsimp only
  rw [hreal]
  have hgt : oldsz > MALLOC_MAXCHUNK ps := by rw [hM]; omega
  have hnle : ¬ oldsz ≤ MALLOC_MAXCHUNK ps := by omega
  have hng : ¬ oldsz < mopts.malloc_guard := by omega
  generalize hQ : (fun (q : Nat) (ms' : mem_state) => q = p ∧
        ms'.pool.d = { ms.pool.d with r := ms.pool.d.r.set ri ⟨p, newsz, f⟩ } ∧
        ms'.pool.errno = ms.pool.errno) = Q
  simp only [hgt, hnle, hng, hnew, hR, hflag, hsub, hadd, false_and, and_false, if_false,
    if_true, ne_eq, not_true_eq_false, or_self, decide_False, Bool.false_eq_true,
    not_false_eq_true, true_and, and_self]
  apply wpxm_bind_i
  apply wpxm_pure_i
  apply wpxm_bind_i
  unfold Mem.orealloc_pages
  apply wpxm_bind_i
  apply wpxm_pool_get_i
  dsimp only
  rw [if_neg (by omega), if_pos hgrow, if_pos hg0, hkey]
  simp only [ne_eq, not_true_eq_false, if_false]
  apply wpxm_bind_i
  unfold Mem.os_mmap_fixed
  apply wpxm_bind_i
  apply wpxm_lift_tot
  apply os_mmap_fixed_tot hw hfree
  rw [if_pos (hint_ne_failed ps _ _ (by omega) (by omega) hpal (PAGEROUND_aligned ps _ (by omega)))]
  apply wpxm_bind_i
  apply wpxm_modify_i
  apply wpxm_pure_i
  rw [if_pos rfl]
  unfold Mem.memset Mem.fill_canary Mem.access set_region_size STATS_SETF
  repeat' first
    | with_reducible apply wpxm_bind_i
    | with_reducible apply wpxm_ite_i
    | with_reducible apply wpxm_modify_i
    | with_reducible apply wpxm_lift_modify_i
    | with_reducible apply wpxm_pure_i
    | intro _
    | dsimp only
  all_goals
    rw [← hQ]
    refine ⟨rfl, ?_, rfl⟩
    have e := set_set_slot ms.pool.d.r ri newsz f hri
    dsimp only at e ⊢
    rw [hkey] at e ⊢
    rw [e]

theorem wpxm_cases {α : Type} {m : RunM α} {P : wrterror_msg → Prop}
    {Q : α → mem_state → Prop} {ms : mem_state} (h : wpxm m P False False Q ms) :
    (∃ a ms', m ms = .ok (a, ms') ∧ Q a ms') ∨ (∃ e, m ms = .abort e ∧ P e) := by
  unfold wpxm at h
  cases hm : m ms with
  | ok r => rw [hm] at h; exact Or.inl ⟨r.1, r.2, rfl, h⟩
  | abort e => rw [hm] at h; exact Or.inr ⟨e, rfl, h⟩
  | diverge => rw [hm] at h; exact h.elim
  | undefined => rw [hm] at h; exact h.elim

/-- `realloc` of a region of pages to more pages when the kernel maps the pages behind
the region: it returns the pointer, the entry keeps its key and records the new size
and the caller, and `errno` is as it was. -/
theorem realloc_grows {ps : Nat} {mopts : malloc_readonly} {p oldsz newsz caller f0 ri : Nat}
    {ms : mem_state} (hps : 5 ≤ ps) (hps16 : ps ≤ 16)
    (hg0 : mopts.malloc_guard = 0)
    (hp : p ≠ 0) (hR : mopts.malloc_realloc = 0) (hflag : ms.pool.d.mmap_flag = 0)
    (hfind : find ps mopts ms.pool.d p = .ok (some ri)) (hri : ri < ms.pool.d.r.length)
    (hslot : slot ms.pool.d.r ri = ⟨p, oldsz, f0⟩)
    (htag : p &&& MALLOC_PAGEMASK ps = 0)
    (hold : MALLOC_PAGESIZE ps ≤ oldsz) (hold2 : oldsz + MALLOC_PAGESIZE ps ≤ 2 ^ 64)
    (hlimit : newsz < SIZE_MAX - MALLOC_PAGESIZE ps)
    (hgrow : PAGEROUND ps oldsz < PAGEROUND ps newsz)
    (hw : ms.pool.env.headD 0 ≠ 0)
    (hfree : mmap_free ps ms.pool.mapped (add64 p (PAGEROUND ps oldsz))
      (sub64 (PAGEROUND ps newsz) (PAGEROUND ps oldsz)) = true) :
    ∃ ms', Mem.realloc ps mopts p newsz caller ms = .ok (p, ms') ∧
      ms'.pool.d = { ms.pool.d with r := ms.pool.d.r.set ri ⟨p, newsz, CALLER mopts caller⟩ } ∧
      ms'.pool.errno = ms.pool.errno := by
  have h : wpxm (Mem.realloc ps mopts p newsz caller) (fun _ => False) False False
      (fun q ms' => q = p ∧
        ms'.pool.d = { ms.pool.d with
          r := ms.pool.d.r.set ri ⟨p, newsz, CALLER mopts caller⟩ } ∧
        ms'.pool.errno = ms.pool.errno) ms := by
    unfold Mem.realloc
    apply wpxm_bind_i
    apply wpxm_pool_get_i
    apply wpxm_bind_i
    apply wpxm_mono (@orealloc_grows ps mopts p oldsz newsz (CALLER mopts caller) f0 ri ms hps
      hps16 hg0 hp hR hflag hfind hri hslot htag hold hold2 hlimit hgrow hw hfree)
      (fun _ h => h) (fun h => h) (fun h => h)
    rintro q ms1 ⟨hq, hd, _⟩
    subst hq
    apply wpxm_lift_tot
    apply EPILOGUE_tot hp
    exact ⟨rfl, hd, rfl⟩
  obtain ⟨a, ms', hrun, ha, hd, he⟩ := wpxm_returns h
  subst ha
  exact ⟨ms', hrun, hd, he⟩

/-- `realloc` of a region of pages to more pages when the kernel does not map the pages
behind the region, in a consistent pool: it returns or aborts with one of the messages
of `move_abort`.  It returns `NULL` with `ENOMEM`, the directory and the bytes of the
region as they were; or a pointer `q ≠ p` to a new region that is in the directory
with the new size and holds the first `oldsz` bytes of the old one, which is deleted
from the directory, with `errno` as it was. -/
theorem realloc_moves {ps : Nat} {mopts : malloc_readonly} {p oldsz newsz caller f0 ri : Nat}
    {ms : mem_state} (hps : 5 ≤ ps) (hps16 : ps ≤ 16)
    (hg0 : mopts.malloc_guard = 0)
    (hp : p ≠ 0) (hp64 : p < 2 ^ 64) (hR : mopts.malloc_realloc = 0)
    (hflag : ms.pool.d.mmap_flag = 0)
    (hfind : find ps mopts ms.pool.d p = .ok (some ri)) (hri : ri < ms.pool.d.r.length)
    (hslot : slot ms.pool.d.r ri = ⟨p, oldsz, f0⟩)
    (htag : p &&& MALLOC_PAGEMASK ps = 0)
    (hold : MALLOC_PAGESIZE ps ≤ oldsz) (hold2 : oldsz + MALLOC_PAGESIZE ps ≤ 2 ^ 64)
    (hlimit : newsz < SIZE_MAX - MALLOC_PAGESIZE ps)
    (hgrow : PAGEROUND ps oldsz < PAGEROUND ps newsz)
    (hfail : ¬ (ms.pool.env.headD 0 ≠ 0 ∧
      mmap_free ps ms.pool.mapped (add64 p (PAGEROUND ps oldsz))
        (sub64 (PAGEROUND ps newsz) (PAGEROUND ps oldsz)) = true))
    (hok : region_pool_ok ps mopts ms.pool) :
    wpxm (Mem.realloc ps mopts p newsz caller) move_abort False False
      (fun q ms' =>
        (q = 0 ∧ ms'.pool.errno = ENOMEM ∧ ms'.pool.d = ms.pool.d ∧
          ∀ i < oldsz, ms'.mem (p + i) = ms.mem (p + i)) ∨
        (q ≠ 0 ∧ q ≠ p ∧ find ps mopts ms'.pool.d p = .ok none ∧
          (∃ idx, find ps mopts ms'.pool.d q = .ok (some idx) ∧
            (slot ms'.pool.d.r idx).p = q ∧ (slot ms'.pool.d.r idx).size = newsz) ∧
          (∀ i < oldsz, ms'.mem (q + i) = ms.mem (p + i)) ∧
          ms'.pool.errno = ms.pool.errno)) ms := by
  unfold Mem.realloc
  apply wpxm_bind_i
  apply wpxm_pool_get_i
  apply wpxm_bind_i
  apply wpxm_mono (@orealloc_moves ps mopts p oldsz newsz (CALLER mopts caller) f0 ri ms hps
    hps16 hg0 hp hp64 hR hflag hfind hri hslot htag hold hold2 hlimit hgrow hfail hok)
    (fun _ h => h) (fun h => h) (fun h => h)
  intro q ms1 hcase
  apply wpxm_mono (@EPILOGUE_moves mopts ms.pool.errno q ms1) (fun _ h => h) (fun h => h)
    (fun h => h)
  rintro a ms2 ⟨ha, hm, hd, he0, he1⟩
  subst ha
  rcases hcase with ⟨hq, he, hd1, hmem⟩ | ⟨hq, hqp, _, _, hgone, hnew, hmem⟩
  · left
    exact ⟨hq, by rw [he0 hq]; exact he, by rw [hd]; exact hd1, fun i hi => by
      rw [hm]; exact hmem i hi⟩
  · right
    exact ⟨hq, hqp, by rw [hd]; exact hgone, by rw [hd]; exact hnew, fun i hi => by
      rw [hm]; exact hmem i hi, he1 hq⟩

/-! ## A pool with a region of three pages -/

set_option maxRecDepth 1000000 in
/-- The pool `grow_pool []` is the pool after `malloc(3 * 4096)`. -/
theorem grow_pool_malloc :
    malloc 12 grow_mopts (3 * 4096) 0
      { malloc_init_pool 12 grow_mopts 0x7000 1 [] with env := [0x100000, 0x200000] } =
      .ok (0x100000, grow_pool []) := by
  decide

set_option maxRecDepth 1000000 in
theorem grow_dir_insert :
    insert 12 (malloc_init_pool 12 grow_mopts 0x7000 1 []).d 0x100000 (3 * 4096) 0 true =
      .ok (0, grow_dir) := by
  decide

theorem grow_dir_occupied (y : Nat) (h : (slot grow_dir.r y).p ≠ 0) :
    slot grow_dir.r y = ⟨0x100000, 3 * 4096, 0⟩ := by
  rcases mem_getD_of_ne_default grow_dir.r y ⟨0, 0, 0⟩ with hm | hd
  · rcases List.mem_or_eq_of_mem_set hm with h1 | h1
    · exfalso
      apply h
      unfold slot
      rw [List.eq_of_mem_replicate h1]
    · exact h1
  · exfalso
    apply h
    unfold slot
    rw [hd]

/-- The pool `grow_pool env` is consistent. -/
theorem region_pool_ok_grow (env : List Nat) :
    region_pool_ok 12 grow_mopts (grow_pool env) := by
  have hwf0 : dir_wf 12 grow_mopts (malloc_init_pool 12 grow_mopts 0x7000 1 []).d := by
    obtain ⟨h1, h2, h3, h4, h5, h6, h7⟩ := poolinit_wf 12 grow_mopts 0x7000 0
      (show grow_mopts.malloc_canary < 2 ^ 32 by decide)
    exact ⟨h1, h2, h3, h4, h5, h6, h7⟩
  obtain ⟨rc, d2, hi1, _, hi3⟩ := insert_wf 12 grow_mopts
    (malloc_init_pool 12 grow_mopts 0x7000 1 []).d 0x100000 (3 * 4096) 0 true hwf0
    (fun h => absurd rfl h) (Nat.zero_le _) (by decide)
    (fun y hy => absurd hy (Nat.not_lt_zero _))
  rw [grow_dir_insert] at hi1
  injection hi1 with hi1
  injection hi1 with hrc hd2
  subst hrc
  subst hd2
  obtain ⟨hwf, _, _, hmin, hmax, _⟩ := hi3 rfl
  obtain ⟨a1, a2, a3, a4, a5, a6, a7, a8⟩ :=
    malloc_init_pool_aligned 12 grow_mopts 0x7000 1 [] env
  have hsmall : ∀ i, ((grow_pool env).smallcache.getD i ⟨[], 0, 0⟩).length = 0 := by
    intro i
    rcases mem_getD_of_ne_default (grow_pool env).smallcache i ⟨[], 0, 0⟩ with hm | hd
    · obtain ⟨j, _, hj⟩ := List.mem_map.1 hm
      rw [← hj]
    · rw [hd]
  have hbig : ∀ e ∈ (grow_pool env).bigcache, e = ⟨0, 0⟩ := fun e he =>
    List.eq_of_mem_replicate he
  have hpages : ∀ y, (slot grow_dir.r y).p ≠ 0 →
      region_pages 12 (slot grow_dir.r y) = [0x100000, 0x100000, 0x101000, 0x102000] := by
    intro y hoy
    rw [grow_dir_occupied y hoy]
    decide
  refine ⟨hwf, fun _ => hmin, hmax,
    ⟨a1, a2, a3, ?_, (by decide : (0x200000 : Nat) % 2 ^ 12 = 0), a6, a7, a8⟩,
    ⟨?_, ?_, ?_, ?_⟩, ?_, ?_, ⟨?_, ?_, ?_, ?_⟩,
    (by decide : (64 : Nat) ≠ 1), (by decide : (64 : Nat) ≠ 2), ⟨?_, ?_⟩⟩
  · intro e he
    rcases List.mem_or_eq_of_mem_set he with h1 | h1
    · rw [List.eq_of_mem_replicate h1]
      decide
    · rw [h1]
      decide
  · intro y _ hoy
    change ∀ x ∈ region_pages 12 (slot grow_dir.r y),
      x ∈ [0x200000, 0x201000, 0x202000, 0x100000, 0x101000, 0x102000]
    rw [hpages y hoy]
    decide
  · intro i _ j hj
    rw [hsmall i] at hj
    exact absurd hj (Nat.not_lt_zero _)
  · intro e he hpsz
    rw [hbig e he] at hpsz
    exact absurd rfl hpsz
  · intro x hx y _ hoy
    change x ∉ region_pages 12 (slot grow_dir.r y)
    rw [hpages y hoy]
    have hx2 : x ∈ page_list 12 0x200000 (512 * sizeof_region_info) := hx
    have hl : page_list 12 0x200000 (512 * sizeof_region_info) =
        [0x200000, 0x201000, 0x202000] := by decide
    rw [hl] at hx2
    clear hx
    revert x
    decide
  · intro c hc
    obtain ⟨j, _, hj⟩ := List.mem_map.1 hc
    rw [← hj]
    dsimp only
    split
    · norm_num
    · exact Nat.mod_lt _ (by norm_num)
  · intro e he
    rw [hbig e he]
    norm_num
  · exact (by decide : (List.replicate 64 (⟨0, 0⟩ : bigcache)).length = 64)
  · exact Or.inr ⟨6, by decide, (by decide : (64 : Nat) = 2 ^ 6)⟩
  · intro e he
    rw [hbig e he]
    decide
  · exact (by decide :
      (0 : Nat) = ((List.replicate 64 (⟨0, 0⟩ : bigcache)).map (fun e => e.psize)).sum)
  · intro i j hj
    rw [hsmall i] at hj
    exact absurd hj (Nat.not_lt_zero _)
  · intro e he hpsz
    rw [hbig e he] at hpsz
    exact absurd rfl hpsz

/-! ## `realloc` of a region of pages to more pages -/

set_option maxRecDepth 1000000 in
/-- In `grow_start [0, 0]` the kernel maps neither the pages behind the region nor a
new region: `realloc` to five pages returns `NULL`. -/
theorem grow_null_run :
    Mem.realloc 12 grow_mopts 0x100000 (5 * 4096) 0 (grow_start [0, 0]) =
      .ok (0, memory_after (Mem.realloc 12 grow_mopts 0x100000 (5 * 4096) 0
        (grow_start [0, 0])) (grow_start [])) := by
  have h := result_run (Mem.realloc 12 grow_mopts 0x100000 (5 * 4096) 0 (grow_start [0, 0]))
    1 (grow_start []) (by decide)
  have hr : result_of (Mem.realloc 12 grow_mopts 0x100000 (5 * 4096) 0 (grow_start [0, 0]))
      1 = 0 := by decide
  rw [hr] at h
  exact h

set_option maxRecDepth 1000000 in
/-- C34 (counterexample): in the pool after `p = malloc(3 * 4096)` has returned
`0x100000`, when the kernel is not willing to map the pages behind the region and the
`mmap` of the new region fails, `realloc(p, 5 * 4096)` returns `NULL` with `ENOMEM`,
and `p` is still in the directory: the result is not a new region. -/
theorem realloc_grow_counterexample :
    malloc 12 grow_mopts (3 * 4096) 0
      { malloc_init_pool 12 grow_mopts 0x7000 1 [] with env := [0x100000, 0x200000] } =
      .ok (0x100000, grow_pool []) ∧
    ¬ ((grow_start [0, 0]).pool.env.headD 0 ≠ 0 ∧
      mmap_free 12 (grow_start [0, 0]).pool.mapped (add64 0x100000 (PAGEROUND 12 (3 * 4096)))
        (sub64 (PAGEROUND 12 (5 * 4096)) (PAGEROUND 12 (3 * 4096))) = true) ∧
    ∃ ms', Mem.realloc 12 grow_mopts 0x100000 (5 * 4096) 0 (grow_start [0, 0]) = .ok (0, ms') ∧
      ms'.pool.errno = ENOMEM ∧
      find 12 grow_mopts ms'.pool.d 0x100000 = .ok (some 256) ∧
      slot ms'.pool.d.r 256 = ⟨0x100000, 3 * 4096, 0⟩ :=
  ⟨grow_pool_malloc, by decide, _, grow_null_run, by decide, by decide, by decide⟩

/-- C34 (amended): `realloc(p, newsz)` of a region of pages `p` of `oldsz` bytes, at
least one page, to more pages, in a pool without guard pages and without forced
reallocation.  When the kernel maps the pages behind the region (`MMAPA` at
`p + PAGEROUND(oldsz)` is willing and the range is free), `realloc` returns `p`, the
entry keeps its key and records `newsz` and the caller, the rest of the directory is as
it was, and `errno` is preserved.  When it does not, in a consistent pool
(`region_pool_ok`), one of three things happens: `realloc` returns `NULL` with `ENOMEM`,
the directory and the bytes of the region as they were; or it returns a pointer
`q ≠ p`, with `errno` preserved, such that `find` no longer has `p`, `find` has `q`
with the key `q` and the size `newsz`, and the first `oldsz` bytes at `q` are the bytes
that were at `p`; or it aborts with one of the messages of `move_abort` ("write after
free", "munmap", "mprotect", "canary corrupted", "out of memory"). -/
theorem realloc_grow_spec (ps : Nat) (mopts : malloc_readonly)
    (p oldsz newsz caller f0 ri : Nat) (ms : mem_state) (hps : 5 ≤ ps) (hps16 : ps ≤ 16)
    (hg0 : mopts.malloc_guard = 0)
    (hp : p ≠ 0) (hp64 : p < 2 ^ 64) (hR : mopts.malloc_realloc = 0)
    (hflag : ms.pool.d.mmap_flag = 0)
    (hfind : find ps mopts ms.pool.d p = .ok (some ri)) (hri : ri < ms.pool.d.r.length)
    (hslot : slot ms.pool.d.r ri = ⟨p, oldsz, f0⟩)
    (htag : p &&& MALLOC_PAGEMASK ps = 0)
    (hold : MALLOC_PAGESIZE ps ≤ oldsz) (hold2 : oldsz + MALLOC_PAGESIZE ps ≤ 2 ^ 64)
    (hlimit : newsz < SIZE_MAX - MALLOC_PAGESIZE ps)
    (hgrow : PAGEROUND ps oldsz < PAGEROUND ps newsz) :
    ((ms.pool.env.headD 0 ≠ 0 ∧
        mmap_free ps ms.pool.mapped (add64 p (PAGEROUND ps oldsz))
          (sub64 (PAGEROUND ps newsz) (PAGEROUND ps oldsz)) = true) →
      ∃ ms', Mem.realloc ps mopts p newsz caller ms = .ok (p, ms') ∧
        ms'.pool.d = { ms.pool.d with
          r := ms.pool.d.r.set ri ⟨p, newsz, CALLER mopts caller⟩ } ∧
        ms'.pool.errno = ms.pool.errno) ∧
    (¬ (ms.pool.env.headD 0 ≠ 0 ∧
        mmap_free ps ms.pool.mapped (add64 p (PAGEROUND ps oldsz))
          (sub64 (PAGEROUND ps newsz) (PAGEROUND ps oldsz)) = true) →
      region_pool_ok ps mopts ms.pool →
      (∃ ms', Mem.realloc ps mopts p newsz caller ms = .ok (0, ms') ∧
        ms'.pool.errno = ENOMEM ∧ ms'.pool.d = ms.pool.d ∧
        ∀ i < oldsz, ms'.mem (p + i) = ms.mem (p + i)) ∨
      (∃ q ms', Mem.realloc ps mopts p newsz caller ms = .ok (q, ms') ∧
        q ≠ 0 ∧ q ≠ p ∧ ms'.pool.errno = ms.pool.errno ∧
        find ps mopts ms'.pool.d p = .ok none ∧
        (∃ idx, find ps mopts ms'.pool.d q = .ok (some idx) ∧
          (slot ms'.pool.d.r idx).p = q ∧ (slot ms'.pool.d.r idx).size = newsz) ∧
        ∀ i < oldsz, ms'.mem (q + i) = ms.mem (p + i)) ∨
      (∃ e, Mem.realloc ps mopts p newsz caller ms = .abort e ∧ move_abort e)) := by
  constructor
  · rintro ⟨hw, hfree⟩
    exact realloc_grows hps hps16 hg0 hp hR hflag hfind hri hslot htag hold hold2 hlimit hgrow
      hw hfree
  · intro hfail hok
    rcases wpxm_cases (@realloc_moves ps mopts p oldsz newsz caller f0 ri ms hps hps16 hg0 hp
      hp64 hR hflag hfind hri hslot htag hold hold2 hlimit hgrow hfail hok) with
      ⟨q, ms', hrun, hq⟩ | ⟨e, hrun, he⟩
    · rcases hq with ⟨hq0, he, hd, hmem⟩ | ⟨hq0, hqp, hgone, hnew, hmem, he⟩
      · subst hq0
        exact Or.inl ⟨ms', hrun, he, hd, hmem⟩
      · exact Or.inr (Or.inl ⟨q, ms', hrun, hq0, hqp, he, hgone, hnew, hmem⟩)
    · exact Or.inr (Or.inr ⟨e, hrun, he⟩)

set_option maxRecDepth 1000000 in
/-- C34 (witness): `grow_start env` is the pool after `malloc(3 * 4096)` has returned
`p = 0x100000`, with the entry of the region in slot 256 of the directory; the pool is
consistent.  When the kernel maps the pages behind the region (`env = [1]`),
`realloc(p, 5 * 4096)` returns `p`, with the entry `(p, 5 * 4096)`.  When it does not
and maps the new region at `0x300000` (`env = [0, 0x300000]`), the theorem leaves the
three cases, and the run returns `0x300000`. -/
theorem realloc_grow_spec_witness :
    (malloc 12 grow_mopts (3 * 4096) 0
        { malloc_init_pool 12 grow_mopts 0x7000 1 [] with env := [0x100000, 0x200000] } =
        .ok (0x100000, grow_pool []) ∧
      find 12 grow_mopts (grow_start [1]).pool.d 0x100000 = .ok (some 256) ∧
      slot (grow_start [1]).pool.d.r 256 = ⟨0x100000, 3 * 4096, 0⟩ ∧
      PAGEROUND 12 (3 * 4096) < PAGEROUND 12 (5 * 4096) ∧
      region_pool_ok 12 grow_mopts (grow_start [0, 0x300000]).pool ∧
      result_of (Mem.realloc 12 grow_mopts 0x100000 (5 * 4096) 0 (grow_start [0, 0x300000]))
        0 = 0x300000) ∧
    (∃ ms', Mem.realloc 12 grow_mopts 0x100000 (5 * 4096) 0 (grow_start [1]) =
        .ok (0x100000, ms') ∧
      ms'.pool.d = { (grow_start [1]).pool.d with
        r := (grow_start [1]).pool.d.r.set 256 ⟨0x100000, 5 * 4096, CALLER grow_mopts 0⟩ } ∧
      ms'.pool.errno = (grow_start [1]).pool.errno) ∧
    ((∃ ms', Mem.realloc 12 grow_mopts 0x100000 (5 * 4096) 0 (grow_start [0, 0x300000]) =
        .ok (0, ms') ∧
        ms'.pool.errno = ENOMEM ∧ ms'.pool.d = (grow_start [0, 0x300000]).pool.d ∧
        ∀ i < 3 * 4096, ms'.mem (0x100000 + i) = (grow_start [0, 0x300000]).mem (0x100000 + i)) ∨
      (∃ q ms', Mem.realloc 12 grow_mopts 0x100000 (5 * 4096) 0 (grow_start [0, 0x300000]) =
        .ok (q, ms') ∧
        q ≠ 0 ∧ q ≠ 0x100000 ∧ ms'.pool.errno = (grow_start [0, 0x300000]).pool.errno ∧
        find 12 grow_mopts ms'.pool.d 0x100000 = .ok none ∧
        (∃ idx, find 12 grow_mopts ms'.pool.d q = .ok (some idx) ∧
          (slot ms'.pool.d.r idx).p = q ∧ (slot ms'.pool.d.r idx).size = 5 * 4096) ∧
        ∀ i < 3 * 4096, ms'.mem (q + i) = (grow_start [0, 0x300000]).mem (0x100000 + i)) ∨
      (∃ e, Mem.realloc 12 grow_mopts 0x100000 (5 * 4096) 0 (grow_start [0, 0x300000]) =
        .abort e ∧ move_abort e)) :=
  ⟨⟨grow_pool_malloc, by decide, by decide, by decide, region_pool_ok_grow _, by decide⟩,
    (realloc_grow_spec 12 grow_mopts 0x100000 (3 * 4096) (5 * 4096) 0 0 256 (grow_start [1])
      (by decide) (by decide) (by decide) (by decide) (by decide) (by decide) (by decide)
      (by decide) (by decide) (by decide) (by decide) (by decide) (by decide) (by decide)
      (by decide)).1 ⟨by decide, by decide⟩,
    (realloc_grow_spec 12 grow_mopts 0x100000 (3 * 4096) (5 * 4096) 0 0 256
      (grow_start [0, 0x300000])
      (by decide) (by decide) (by decide) (by decide) (by decide) (by decide) (by decide)
      (by decide) (by decide) (by decide) (by decide) (by decide) (by decide) (by decide)
      (by decide)).2 (by decide) (region_pool_ok_grow _)⟩

end OMalloc
